import Mathlib

/-! # rcx-hashtables: hash table of sorted, sentinel-bounded linked lists

A shallow embedding of `hash-list.h`, `rcu-hash-list.c` and `rcx-hash-list.c`.

Memory model.  A `node_t *` is an index into the node heap `State.nodes`, a
`list_t *` an index into `State.lists`; `NULL` is `none`.  `kmalloc` returns the
next unused index (it is assumed to succeed, as the callers of `rcu_new_node`
assume), so an address is never handed out twice.  `kfree_rcu` appends the
address to `State.retired`, `kfree` appends it to `State.freed`.

Hardware transactions.  `State.xbegin` is the list of values the next calls of
`_xbegin()` return; an `_xabort(code)` inside a started transaction discards
the transaction's stores and makes `_xbegin()` return the explicit-abort status
of `code`.  The CPU a call runs on (`cpu`) and the values `numa_node_id()`
returns during a call (`numa_node_id i` for its `i`-th evaluation) are
parameters of the operations that use them.

Every operation is a function `State → … → Option (State × Int)`.  The result
`none` means that the call does not return normally: it dereferences `NULL`
or an address that was never allocated, indexes the bucket array outside its
initialised slots, divides by zero, spins forever on a lock nobody will
release, or exhausts the loop fuel (for a traversal, whose fuel is the number
of allocated nodes, this happens only when it runs in a cycle; the retry loops
of the other protocols take their fuel as a parameter).  A single thread is
modelled; `rcu_read_lock` / `rcu_read_unlock` have no effect on the state.

Lock words.  In `node_t` the spinlock `global_lock` and the flag
`global_htmlock` are the two members of one union, and so are the arrays
`pnd_slocks` and `pnode_locks`; each pair is one field here.
-/

/-! ## Constants of `hash-list.h` -/

/-- The head sentinel value, `INT_MIN` for the 32-bit `val_t`. -/
def LIST_VAL_MIN : Int := -2147483648

/-- The tail sentinel value, `INT_MAX` for the 32-bit `val_t`. -/
def LIST_VAL_MAX : Int := 2147483647

/-- Capacity of the bucket array. -/
def MAX_BUCKETS : Nat := 1000

/-- Number of per-NUMA lock slots in a node. -/
def NR_NUMA_NODES : Nat := 4

/-- The kernel's `ENOENT` errno value. -/
def ENOENT : Int := 2

/-! ## Types of `hash-list.h` -/

/-- A list node.  `pnd_slocks` are the per-NUMA lock words (`pnd_slocks[i].lock`,
which the union overlays with `pnode_locks[128 * i]`); `global_lock` is the
node-local lock word (`global_lock`, overlaid with `global_htmlock`).  A lock
word is `true` when held / set to 1. -/
structure node_t where
  val : Int
  p_next : Option Nat
  removed : Int
  pnd_slocks : List Bool
  global_lock : Bool
deriving DecidableEq, Repr

/-- A bucket: pointer to the head sentinel and the writer spinlock. -/
structure list_t where
  p_head : Option Nat
  rcuspin : Bool
deriving DecidableEq, Repr

/-- The hash list: bucket count and the initialised prefix of the bucket array. -/
structure hash_list_t where
  n_buckets : Int
  buckets : List Nat
deriving DecidableEq, Repr

/-- The per-CPU abort counters of `rtm_debug.c`: one counter per abort reason
and the total. -/
structure rtm_abort_cnt where
  counts : List Nat
  nr_aborts : Nat
deriving DecidableEq, Repr

/-- The memory the operations work on, together with what the hardware will
answer: `xbegin` lists the values the next calls of `_xbegin()` return (once
the list is used up every transaction starts), `abort_cnt` are the per-CPU
abort counters. -/
structure State where
  nodes : List node_t
  lists : List list_t
  retired : List Nat
  freed : List Nat
  xbegin : List Nat
  abort_cnt : List rtm_abort_cnt
deriving DecidableEq, Repr

/-! ## Memory primitives -/

/-- Store to one node: `none` when the address is not an allocated node. -/
def node_store (s : State) (p : Nat) (f : node_t → node_t) : Option State :=
  match s.nodes[p]? with
  | some n => some { s with nodes := s.nodes.set p (f n) }
  | none => none

/-- Store to one `list_t`. -/
def list_store (s : State) (p : Nat) (f : list_t → list_t) : Option State :=
  match s.lists[p]? with
  | some l => some { s with lists := s.lists.set p (f l) }
  | none => none

/-- The call `spin_lock(&p_list->rcuspin)`: with the lock held it never returns. -/
def spin_lock_list (s : State) (p_list : Nat) : Option State :=
  match s.lists[p_list]? with
  | some l => if l.rcuspin then none else list_store s p_list (fun l => { l with rcuspin := true })
  | none => none

/-- The call `spin_unlock(&p_list->rcuspin)`. -/
def spin_unlock_list (s : State) (p_list : Nat) : Option State :=
  list_store s p_list (fun l => { l with rcuspin := false })

/-- The call `kfree_rcu(ptr, rcu)`: the node is handed to deferred reclamation. -/
def RCU_FREE (s : State) (p : Nat) : State :=
  { s with retired := s.retired ++ [p] }

/-! ## `rcu-hash-list.c` -/

/-- The macro `HASH_VALUE(p_hash_list, val)`, `val % p_hash_list->n_buckets` with
C's remainder (truncation toward zero); `none` for a zero divisor. -/
def HASH_VALUE (p_hash_list : hash_list_t) (val : Int) : Option Int :=
  if p_hash_list.n_buckets = 0 then none else some (val.tmod p_hash_list.n_buckets)

/-- The read `p_hash_list->buckets[hash]`: `none` outside the initialised slots. -/
def bucket_at (p_hash_list : hash_list_t) (hash : Int) : Option Nat :=
  if hash < 0 then none else p_hash_list.buckets[hash.toNat]?

/-- Allocate a node: `removed = 0`, the per-NUMA locks and the global lock
unlocked; `val` and `p_next` are set by the caller.  The source initialises the
per-NUMA locks of the NUMA nodes with CPUs (`for_each_node_with_cpus`) and
leaves the slots of the other NUMA nodes as `kmalloc` returned them; no thread
runs on such a NUMA node, so these slots are never used, and here they are
unlocked as well. -/
def rcu_new_node (s : State) : State × Nat :=
  ({ s with nodes := s.nodes ++ [{ val := 0, p_next := none, removed := 0,
                                   pnd_slocks := List.replicate NR_NUMA_NODES false,
                                   global_lock := false }] },
   s.nodes.length)

/-- Free a node through deferred reclamation. -/
def rcu_free_node (s : State) (p_node : Nat) : State :=
  RCU_FREE s p_node

/-- Allocate and initialise a list: the tail sentinel is allocated first. -/
def rcu_new_list (s : State) : Option (State × Nat) := do
  let p_list := s.lists.length
  let s : State := { s with lists := s.lists ++ [{ p_head := none, rcuspin := false }] }
  let (s, p_max_node) := rcu_new_node s
  let s ← node_store s p_max_node (fun n => { n with val := LIST_VAL_MAX })
  let s ← node_store s p_max_node (fun n => { n with p_next := none })
  let (s, p_min_node) := rcu_new_node s
  let s ← node_store s p_min_node (fun n => { n with val := LIST_VAL_MIN })
  let s ← node_store s p_min_node (fun n => { n with p_next := some p_max_node })
  let s ← list_store s p_list (fun l => { l with p_head := some p_min_node })
  let s ← list_store s p_list (fun l => { l with rcuspin := false })
  pure (s, p_list)

/-- The loop `for (i = 0; i < n_buckets; i++) buckets[i] = rcu_new_list();`,
with `todo` iterations left. -/
def rcu_new_hash_list_loop : Nat → State → List Nat → Option (State × List Nat)
  | 0, s, buckets => some (s, buckets)
  | todo + 1, s, buckets =>
    match rcu_new_list s with
    | some (s, p_list) => rcu_new_hash_list_loop todo s (buckets ++ [p_list])
    | none => none

/-- Allocate and initialise a hash list.  More than `MAX_BUCKETS` buckets would
be written past the end of the bucket array. -/
def rcu_new_hash_list (s : State) (n_buckets : Int) : Option (State × hash_list_t) :=
  if n_buckets > MAX_BUCKETS then none
  else
    match rcu_new_hash_list_loop n_buckets.toNat s [] with
    | some (s, buckets) => some (s, { n_buckets := n_buckets, buckets := buckets })
    | none => none

/-- The common traversal `while (1) { … if (v >= val) break; … }`, entered with
`p_prev` and `p_next`; it yields the final `p_prev`, `p_next` and `v`. -/
def list_traverse (nodes : List node_t) (val : Int) :
    Nat → Nat → Option Nat → Option (Nat × Nat × Int)
  | 0, _, _ => none
  | fuel + 1, p_prev, p_next =>
    match p_next with
    | none => none
    | some a =>
      match nodes[a]? with
      | none => none
      | some p_node =>
        if p_node.val ≥ val then some (p_prev, a, p_node.val)
        else list_traverse nodes val fuel a p_node.p_next

/-- The traversal from the head of a list: reads `p_list->p_head` and the head's
`p_next`, then runs the loop.  The fuel is the number of allocated nodes. -/
def list_find (s : State) (p_list : Nat) (val : Int) : Option (Nat × Nat × Int) := do
  let l ← s.lists[p_list]?
  let p_prev ← l.p_head
  let prev ← s.nodes[p_prev]?
  list_traverse s.nodes val s.nodes.length p_prev prev.p_next

/-- The value of a 32-bit `int` after an arithmetic step: two's-complement
wrap-around (the kernel is built with `-fno-strict-overflow`). -/
def wrap_int (x : Int) : Int :=
  (x + 2147483648) % 4294967296 - 2147483648

/-- The loop of `list_size`; `size++` is an `int` increment. -/
def list_size_loop (nodes : List node_t) : Nat → Nat → Int → Option Int
  | 0, _, _ => none
  | fuel + 1, p_node, size =>
    match nodes[p_node]? with
    | none => none
    | some n =>
      match n.p_next with
      | none => some size
      | some nx => list_size_loop nodes fuel nx (wrap_int (size + 1))

/-- Number of entries in the given list (sentinels not counted). -/
def list_size (s : State) (p_list : Nat) : Option Int := do
  let l ← s.lists[p_list]?
  let p_head ← l.p_head
  let head ← s.nodes[p_head]?
  let p_node ← head.p_next
  list_size_loop s.nodes s.nodes.length p_node 0

/-- Check whether a list contains a value: one if containing, zero else. -/
def rcu_list_contains (s : State) (p_list : Nat) (val : Int) : Option (State × Int) := do
  let (_, _, v) ← list_find s p_list val
  let result : Int := if v = val then 1 else 0
  pure (s, result)

/-- Check whether the hash list contains a value: zero if containing,
`-ENOENT` else. -/
def rcu_hash_list_contains (g_hash_list : hash_list_t) (s : State) (val : Int) :
    Option (State × Int) := do
  let hash ← HASH_VALUE g_hash_list val
  let p_list ← bucket_at g_hash_list hash
  let (s, r) ← rcu_list_contains s p_list val
  pure (s, if r ≠ 0 then 0 else -ENOENT)

/-- Add a value into a list under the writer lock; returns zero always. -/
def rcu_list_add (s : State) (p_list : Nat) (val : Int) : Option (State × Int) := do
  let s ← spin_lock_list s p_list
  let (p_prev, p_next, v) ← list_find s p_list val
  let result : Bool := decide (v ≠ val)
  let s ←
    if result then do
      let (s, p_new_node) := rcu_new_node s
      let s ← node_store s p_new_node (fun n => { n with val := val })
      let s ← node_store s p_new_node (fun n => { n with p_next := some p_next })
      node_store s p_prev (fun n => { n with p_next := some p_new_node })
    else pure s
  let s ← spin_unlock_list s p_list
  pure (s, 0)

/-- Insert a value into the hash list. -/
def rcu_hash_list_add (g_hash_list : hash_list_t) (s : State) (val : Int) :
    Option (State × Int) := do
  let hash ← HASH_VALUE g_hash_list val
  let p_list ← bucket_at g_hash_list hash
  rcu_list_add s p_list val

/-- Delete a value from a list under the writer lock; returns zero always. -/
def rcu_list_remove (s : State) (p_list : Nat) (val : Int) : Option (State × Int) := do
  let s ← spin_lock_list s p_list
  let (p_prev, p_next, v) ← list_find s p_list val
  let result : Bool := decide (v = val)
  if result then do
    let nx ← s.nodes[p_next]?
    let n := nx.p_next
    let s ← node_store s p_prev (fun m => { m with p_next := n })
    let s ← spin_unlock_list s p_list
    let s := rcu_free_node s p_next
    pure (s, 0)
  else do
    let s ← spin_unlock_list s p_list
    pure (s, 0)

/-- Remove a value from the hash list. -/
def rcu_hash_list_remove (g_hash_list : hash_list_t) (s : State) (val : Int) :
    Option (State × Int) := do
  let hash ← HASH_VALUE g_hash_list val
  let p_list ← bucket_at g_hash_list hash
  rcu_list_remove s p_list val

/-- Initial memory: nothing allocated. -/
def State.empty : State :=
  { nodes := [], lists := [], retired := [], freed := [], xbegin := [], abort_cnt := [] }

/-! ## Abstraction: the nodes and values of a bucket -/

/-- A list segment: following `p_next` from the pointer `p` visits exactly the
addresses `as` and arrives at the pointer `q`. -/
def lseg (nodes : List node_t) : Option Nat → List Nat → Option Nat → Prop
  | p, [], q => p = q
  | p, a :: as, q => p = some a ∧ ∃ n, nodes[a]? = some n ∧ lseg nodes n.p_next as q

/-- The addresses reached from `p` by following `p_next` up to `NULL`; `none`
when an address is not allocated or the fuel runs out. -/
def chain_from (nodes : List node_t) : Nat → Option Nat → Option (List Nat)
  | _, none => some []
  | 0, some _ => none
  | fuel + 1, some a =>
    match nodes[a]? with
    | none => none
    | some n =>
      match chain_from nodes fuel n.p_next with
      | some as => some (a :: as)
      | none => none

/-- The value stored in the node at an address. -/
def node_val (nodes : List node_t) (a : Nat) : Int :=
  match nodes[a]? with
  | some n => n.val
  | none => 0

/-- The nodes of a bucket in list order, head sentinel first, tail sentinel last. -/
def bucket_nodes (s : State) (p_list : Nat) : Option (List Nat) :=
  match s.lists[p_list]? with
  | some l => chain_from s.nodes s.nodes.length l.p_head
  | none => none

/-- The values of a bucket in list order, sentinels included. -/
def bucket_vals (s : State) (p_list : Nat) : Option (List Int) :=
  match bucket_nodes s p_list with
  | some as => some (as.map (node_val s.nodes))
  | none => none

/-- Structural well-formedness of a bucket: its chain of nodes is finite and
ends in `NULL`, the first value is `LIST_VAL_MIN`, the last is `LIST_VAL_MAX`,
and the values strictly increase along the chain. -/
def list_wf (s : State) (p_list : Nat) : Prop :=
  match bucket_vals s p_list with
  | some vs => vs.head? = some LIST_VAL_MIN ∧ vs.getLast? = some LIST_VAL_MAX ∧
      vs.Pairwise (fun x y => x < y)
  | none => False

/-- The writer spinlock of the bucket is not held. -/
def list_unlocked (s : State) (p_list : Nat) : Prop :=
  match s.lists[p_list]? with
  | some l => l.rcuspin = false
  | none => False

/-- A well-formed bucket at a quiescent point: structurally well-formed and its
writer lock free. -/
def bucket_wf (s : State) (p_list : Nat) : Prop :=
  list_wf s p_list ∧ list_unlocked s p_list

/-- The node an add links for `val` in front of `b`. -/
def added_node (val : Int) (b : Nat) : node_t :=
  { val := val, p_next := some b, removed := 0,
    pnd_slocks := List.replicate NR_NUMA_NODES false, global_lock := false }

/-- The memory after an add has linked a new node holding `val` between
`p_prev` (whose node is `prev`) and `b`. -/
def linked (s : State) (val : Int) (p_prev b : Nat) (prev : node_t) : State :=
  { s with
    nodes := (s.nodes ++ [added_node val b]).set p_prev
               { prev with p_next := some s.nodes.length } }

/-- The memory after a remove has swung the `p_next` of `p_prev` (whose node is
`prev`) past `b` (whose node is `nb`) and handed `b` to deferred reclamation. -/
def unlinked (s : State) (p_prev b : Nat) (prev nb : node_t) : State :=
  { s with
    nodes := s.nodes.set p_prev { prev with p_next := nb.p_next }
    retired := s.retired ++ [b] }

instance list_wf_decidable (s : State) (p_list : Nat) : Decidable (list_wf s p_list) :=
  match h : bucket_vals s p_list with
  | some vs =>
    if c : vs.head? = some LIST_VAL_MIN ∧ vs.getLast? = some LIST_VAL_MAX ∧
        vs.Pairwise (fun x y => x < y) then
      isTrue (by unfold list_wf; rw [h]; exact c)
    else
      isFalse (by unfold list_wf; rw [h]; exact c)
  | none => isFalse (by unfold list_wf; rw [h]; exact fun x => x)

instance list_unlocked_decidable (s : State) (p_list : Nat) : Decidable (list_unlocked s p_list) :=
  match h : s.lists[p_list]? with
  | some l =>
    if c : l.rcuspin = false then isTrue (by unfold list_unlocked; rw [h]; exact c)
    else isFalse (by unfold list_unlocked; rw [h]; exact c)
  | none => isFalse (by unfold list_unlocked; rw [h]; exact fun x => x)

instance bucket_wf_decidable (s : State) (p_list : Nat) : Decidable (bucket_wf s p_list) :=
  inferInstanceAs (Decidable (list_wf s p_list ∧ list_unlocked s p_list))

/-! ## Well-formedness of the hash list -/

/-- The hash list has between 1 and `MAX_BUCKETS` buckets and exactly
`n_buckets` initialised slots. -/
def hash_list_ok (g : hash_list_t) : Prop :=
  1 ≤ g.n_buckets ∧ g.n_buckets ≤ MAX_BUCKETS ∧ g.buckets.length = g.n_buckets.toNat

instance hash_list_ok_decidable (g : hash_list_t) : Decidable (hash_list_ok g) :=
  inferInstanceAs (Decidable (1 ≤ g.n_buckets ∧ g.n_buckets ≤ MAX_BUCKETS ∧
    g.buckets.length = g.n_buckets.toNat))

/-- The chains of the buckets `p` and `q` share no node. -/
def chains_disjoint (s : State) (p q : Nat) : Prop :=
  match bucket_nodes s p, bucket_nodes s q with
  | some as, some bs => ∀ a ∈ as, a ∉ bs
  | _, _ => True

instance chains_disjoint_decidable (s : State) (p q : Nat) :
    Decidable (chains_disjoint s p q) :=
  match hp : bucket_nodes s p, hq : bucket_nodes s q with
  | some as, some bs =>
    if c : ∀ a ∈ as, a ∉ bs then isTrue (by unfold chains_disjoint; rw [hp, hq]; exact c)
    else isFalse (by unfold chains_disjoint; rw [hp, hq]; exact c)
  | none, _ => isTrue (by unfold chains_disjoint; rw [hp]; trivial)
  | some _, none => isTrue (by unfold chains_disjoint; rw [hp, hq]; trivial)

/-- Different buckets share no node. -/
def buckets_disjoint (g : hash_list_t) (s : State) : Prop :=
  ∀ p ∈ g.buckets, ∀ q ∈ g.buckets, p ≠ q → chains_disjoint s p q

instance buckets_disjoint_decidable (g : hash_list_t) (s : State) :
    Decidable (buckets_disjoint g s) :=
  inferInstanceAs (Decidable (∀ p ∈ g.buckets, ∀ q ∈ g.buckets, p ≠ q → chains_disjoint s p q))

/-- A well-formed hash set at a quiescent point. -/
def hash_list_wf (g : hash_list_t) (s : State) : Prop :=
  hash_list_ok g ∧ (∀ p ∈ g.buckets, bucket_wf s p) ∧ buckets_disjoint g s

instance hash_list_wf_decidable (g : hash_list_t) (s : State) :
    Decidable (hash_list_wf g s) :=
  inferInstanceAs (Decidable (hash_list_ok g ∧ (∀ p ∈ g.buckets, bucket_wf s p) ∧
    buckets_disjoint g s))

/-! ## `rcx-hash-list.c`: lookup -/

/-- Check whether the given value is in the given list: one if it exists, zero
else (the same traversal as `rcu_list_contains`). -/
def rcx_list_contains (s : State) (p_list : Nat) (val : Int) : Option (State × Int) := do
  let (_, _, v) ← list_find s p_list val
  let result : Int := if v = val then 1 else 0
  pure (s, result)

/-- Check whether a value is in the global hash list: zero if it exists,
`-ENOENT` else. -/
def rcx_hash_list_contains (g_hash_list : hash_list_t) (s : State) (val : Int) :
    Option (State × Int) := do
  let hash ← HASH_VALUE g_hash_list val
  let p_list ← bucket_at g_hash_list hash
  let (s, r) ← rcx_list_contains s p_list val
  pure (s, if r ≠ 0 then 0 else -ENOENT)

/-! ## `rcx-hash-list.c`: allocation -/

/-- Allocate a node of the rcx protocols: `removed = 0`, the per-NUMA flags 0,
the global lock unlocked and the HTM flag 0.  The source clears the per-NUMA
flag of slot 0 and of the NUMA nodes with CPUs (`for_each_node_with_cpus`) and
leaves the flags of the other NUMA nodes as `kmalloc` returned them; no thread
runs on such a NUMA node, so these flags are never used, and here they are 0 as
well. -/
def rcx_new_node (s : State) : State × Nat :=
  ({ s with nodes := s.nodes ++ [{ val := 0, p_next := none, removed := 0,
                                   pnd_slocks := List.replicate NR_NUMA_NODES false,
                                   global_lock := false }] },
   s.nodes.length)

/-- Free a node of the rcx protocols through deferred reclamation. -/
def rcx_free_node (s : State) (p_node : Nat) : State :=
  RCU_FREE s p_node

/-- Allocate and initialise a list (rcx). -/
def rcx_new_list (s : State) : Option (State × Nat) := do
  let p_list := s.lists.length
  let s : State := { s with lists := s.lists ++ [{ p_head := none, rcuspin := false }] }
  let (s, p_max_node) := rcx_new_node s
  let s ← node_store s p_max_node (fun n => { n with val := LIST_VAL_MAX })
  let s ← node_store s p_max_node (fun n => { n with p_next := none })
  let (s, p_min_node) := rcx_new_node s
  let s ← node_store s p_min_node (fun n => { n with val := LIST_VAL_MIN })
  let s ← node_store s p_min_node (fun n => { n with p_next := some p_max_node })
  let s ← list_store s p_list (fun l => { l with p_head := some p_min_node })
  let s ← list_store s p_list (fun l => { l with rcuspin := false })
  pure (s, p_list)

/-- The bucket-allocation loop of `rcx_new_hash_list`. -/
def rcx_new_hash_list_loop : Nat → State → List Nat → Option (State × List Nat)
  | 0, s, buckets => some (s, buckets)
  | todo + 1, s, buckets =>
    match rcx_new_list s with
    | some (s, p_list) => rcx_new_hash_list_loop todo s (buckets ++ [p_list])
    | none => none

/-- Allocate and initialise a hash list (rcx). -/
def rcx_new_hash_list (s : State) (n_buckets : Int) : Option (State × hash_list_t) :=
  if n_buckets > MAX_BUCKETS then none
  else
    match rcx_new_hash_list_loop n_buckets.toNat s [] with
    | some (s, buckets) => some (s, { n_buckets := n_buckets, buckets := buckets })
    | none => none

/-- A freshly initialised sentinel node. -/
def sentinel_node (val : Int) (p_next : Option Nat) : node_t :=
  { val := val, p_next := p_next, removed := 0,
    pnd_slocks := List.replicate NR_NUMA_NODES false, global_lock := false }

/-- The memory after `rcu_new_list`: the two sentinels and the new `list_t`. -/
def with_new_list (s : State) : State :=
  { s with
    nodes := s.nodes ++ [sentinel_node LIST_VAL_MAX none,
                         sentinel_node LIST_VAL_MIN (some s.nodes.length)]
    lists := s.lists ++ [{ p_head := some (s.nodes.length + 1), rcuspin := false }] }

/-! ## Node locks, `kfree`, transactions and abort accounting -/

/-- The call `kfree(ptr)`. -/
def kfree (s : State) (p : Nat) : State :=
  { s with freed := s.freed ++ [p] }

/-- The call `spin_trylock(&p_list->rcuspin)`: the flag tells whether the lock was taken. -/
def spin_trylock_list (s : State) (p_list : Nat) : Option (State × Bool) :=
  match s.lists[p_list]? with
  | some l =>
    if l.rcuspin then some (s, false)
    else
      match list_store s p_list (fun l => { l with rcuspin := true }) with
      | some s2 => some (s2, true)
      | none => none
  | none => none

/-- The test `spin_is_locked(&p_list->rcuspin)`. -/
def spin_is_locked_list (s : State) (p_list : Nat) : Option Bool :=
  match s.lists[p_list]? with
  | some l => some l.rcuspin
  | none => none

/-- The call `spin_lock(&node->global_lock)`: with the lock held it never returns. -/
def spin_lock_global (s : State) (p : Nat) : Option State :=
  match s.nodes[p]? with
  | some n => if n.global_lock then none else node_store s p (fun n => { n with global_lock := true })
  | none => none

/-- The call `spin_unlock(&node->global_lock)`. -/
def spin_unlock_global (s : State) (p : Nat) : Option State :=
  node_store s p (fun n => { n with global_lock := false })

/-- The call `spin_lock(&pndslockof(node, nodeid))`. -/
def spin_lock_pnd (s : State) (p nodeid : Nat) : Option State :=
  match s.nodes[p]? with
  | some n =>
    match n.pnd_slocks[nodeid]? with
    | some held =>
      if held then none
      else node_store s p (fun n => { n with pnd_slocks := n.pnd_slocks.set nodeid true })
    | none => none
  | none => none

/-- The call `spin_unlock(&pndslockof(node, nodeid))`. -/
def spin_unlock_pnd (s : State) (p nodeid : Nat) : Option State :=
  match s.nodes[p]? with
  | some n =>
    if nodeid < n.pnd_slocks.length then
      node_store s p (fun n => { n with pnd_slocks := n.pnd_slocks.set nodeid false })
    else none
  | none => none

/-- The read `htmlock(node) == 1`. -/
def htmlock_is_set (s : State) (p : Nat) : Option Bool :=
  match s.nodes[p]? with
  | some n => some n.global_lock
  | none => none

/-- The store `htmlock(node) = v`. -/
def htmlock_store (s : State) (p : Nat) (v : Bool) : Option State :=
  node_store s p (fun n => { n with global_lock := v })

/-- The read `pnodelockof(node, nodeid) == 1`. -/
def pnodelock_is_set (s : State) (p nodeid : Nat) : Option Bool :=
  match s.nodes[p]? with
  | some n => n.pnd_slocks[nodeid]?
  | none => none

/-- The store `pnodelockof(node, nodeid) = v`. -/
def pnodelock_store (s : State) (p nodeid : Nat) (v : Bool) : Option State :=
  match s.nodes[p]? with
  | some n =>
    if nodeid < n.pnd_slocks.length then
      node_store s p (fun n => { n with pnd_slocks := n.pnd_slocks.set nodeid v })
    else none
  | none => none

/-- Modelled from the spec: `rtm.h` is not among the sources; the status
`_xbegin()` returns when the transaction has started (`~0u`). -/
def XBEGIN_STARTED : Nat := 4294967295

/-- Modelled from the spec: the explicit-abort bit of the status word (`rtm.h`
is not among the sources; standard RTM encoding, bit 0). -/
def XABORT_EXPLICIT : Nat := 1

/-- Modelled from the spec: the retry-hint bit of the status word (bit 1). -/
def XABORT_RETRY : Nat := 2

/-- Modelled from the spec: the conflict bit of the status word (bit 2). -/
def XABORT_CONFLICT : Nat := 4

/-- Modelled from the spec: the capacity bit of the status word (bit 3). -/
def XABORT_CAPACITY : Nat := 8

/-- Modelled from the spec: the debug bit of the status word (bit 4). -/
def XABORT_DEBUG : Nat := 16

/-- Modelled from the spec: the nested bit of the status word (bit 5). -/
def XABORT_NESTED : Nat := 32

/-- Modelled from the spec: the accessor `_XABORT_CODE(x)` of the 8-bit user
code of an explicit abort, `((x) >> 24) & 0xFF` in the standard encoding. -/
def XABORT_CODE (x : Nat) : Nat := (x >>> 24) &&& 255

/-- Modelled from the spec: the status `_xbegin()` returns after `_xabort(code)`
in a started transaction: the explicit bit and the 8-bit code. -/
def xabort_status (code : Nat) : Nat := XABORT_EXPLICIT ||| ((code &&& 255) <<< 24)

/-- Abort reason index `rtm_explicit`. -/
def ABORT_RTM_EXPLICIT : Nat := 0
/-- Abort reason index `rtm_retry`. -/
def ABORT_RTM_RETRY : Nat := 1
/-- Abort reason index `rtm_conflict`. -/
def ABORT_RTM_CONFLICT : Nat := 2
/-- Abort reason index `rtm_capa`. -/
def ABORT_RTM_CAPACITY : Nat := 3
/-- Abort reason index `rtm_dbg`. -/
def ABORT_RTM_DEBUG : Nat := 4
/-- Abort reason index `rtm_nest`. -/
def ABORT_RTM_NESTED : Nat := 5
/-- Abort code and reason index `double free`. -/
def ABORT_DOUBLE_FREE : Nat := 6
/-- Abort code and reason index `conflict`. -/
def ABORT_CONFLICT : Nat := 7
/-- Abort code and reason index `lfconflict`. -/
def ABORT_LF_CONFLICT : Nat := 8
/-- Number of abort reasons. -/
def NR_ABORT_REASONS : Nat := 9

/-- An `unsigned long` after an increment (64-bit wrap-around). -/
def wrap_ulong (x : Nat) : Nat := x % 18446744073709551616

/-- The statement `cnt->counts[i]++`. -/
def count_incr (cnt : rtm_abort_cnt) (i : Nat) : rtm_abort_cnt :=
  match cnt.counts[i]? with
  | some c => { cnt with counts := cnt.counts.set i (wrap_ulong (c + 1)) }
  | none => cnt

/-- The body of `record_abort` on the counters of the calling CPU. -/
def record_abort_cnt (cnt : rtm_abort_cnt) (stat : Nat) : rtm_abort_cnt :=
  let cnt := { cnt with nr_aborts := wrap_ulong (cnt.nr_aborts + 1) }
  let cnt := if stat &&& XABORT_EXPLICIT ≠ 0 then count_incr cnt ABORT_RTM_EXPLICIT else cnt
  let cnt := if stat &&& XABORT_RETRY ≠ 0 then count_incr cnt ABORT_RTM_RETRY else cnt
  let cnt := if stat &&& XABORT_CONFLICT ≠ 0 then count_incr cnt ABORT_RTM_CONFLICT else cnt
  let cnt := if stat &&& XABORT_CAPACITY ≠ 0 then count_incr cnt ABORT_RTM_CAPACITY else cnt
  let cnt := if stat &&& XABORT_DEBUG ≠ 0 then count_incr cnt ABORT_RTM_DEBUG else cnt
  let cnt := if stat &&& XABORT_NESTED ≠ 0 then count_incr cnt ABORT_RTM_NESTED else cnt
  let cnt := if XABORT_CODE stat = ABORT_DOUBLE_FREE then count_incr cnt ABORT_DOUBLE_FREE else cnt
  let cnt := if XABORT_CODE stat = ABORT_CONFLICT then count_incr cnt ABORT_CONFLICT else cnt
  let cnt := if XABORT_CODE stat = ABORT_LF_CONFLICT then count_incr cnt ABORT_LF_CONFLICT else cnt
  cnt

/-- Record abort count: `record_abort(stat)` called on CPU `cpu`; the status is
given as the unsigned 32-bit word. -/
def record_abort (s : State) (cpu : Nat) (stat : Nat) : Option State :=
  match s.abort_cnt[cpu]? with
  | some cnt => some { s with abort_cnt := s.abort_cnt.set cpu (record_abort_cnt cnt stat) }
  | none => none

/-- The call `_xbegin()`: the next answer of the hardware. -/
def xbegin (s : State) : Nat × State :=
  (s.xbegin.headD XBEGIN_STARTED, { s with xbegin := s.xbegin.tail })

/-- The allocation of the new node by an rcu add: `rcu_new_node`, then the
stores to its `val` and `p_next`. -/
def rcu_alloc_node (s : State) (val : Int) (p_next : Nat) : Option (State × Nat) :=
  match rcu_new_node s with
  | (s, p_new_node) =>
    match node_store s p_new_node (fun n => { n with val := val }) with
    | some s =>
      match node_store s p_new_node (fun n => { n with p_next := some p_next }) with
      | some s => some (s, p_new_node)
      | none => none
    | none => none

/-- The allocation of the new node by an rcx add: `rcx_new_node`, then the
stores to its `val` and `p_next`. -/
def rcx_alloc_node (s : State) (val : Int) (p_next : Nat) : Option (State × Nat) :=
  match rcx_new_node s with
  | (s, p_new_node) =>
    match node_store s p_new_node (fun n => { n with val := val }) with
    | some s =>
      match node_store s p_new_node (fun n => { n with p_next := some p_next }) with
      | some s => some (s, p_new_node)
      | none => none
    | none => none

/-- The validation `p_prev->p_next != p_next`, then `p_prev->removed ||
p_next->removed`: `0` when both checks pass, otherwise the number of the check
that fails (1, then 2). -/
def add_validate (s : State) (p_prev p_next : Nat) : Option Nat :=
  match s.nodes[p_prev]?, s.nodes[p_next]? with
  | some prev, some next =>
    if prev.p_next ≠ some p_next then some 1
    else if prev.removed ≠ 0 ∨ next.removed ≠ 0 then some 2
    else some 0
  | _, _ => none

/-- The calls `spin_lock(&p_prev->global_lock); spin_lock(&p_next->global_lock);`. -/
def global_lock_pair (s : State) (p_prev p_next : Nat) : Option State :=
  match spin_lock_global s p_prev with
  | some s => spin_lock_global s p_next
  | none => none

/-- The calls `spin_unlock(&p_next->global_lock); spin_unlock(&p_prev->global_lock);`. -/
def global_unlock_pair (s : State) (p_prev p_next : Nat) : Option State :=
  match spin_unlock_global s p_next with
  | some s => spin_unlock_global s p_prev
  | none => none

/-- The calls `spin_lock(&pndslock(p_prev)); spin_lock(&pndslock(p_next));`, with
the values `n1`, `n2` of `numa_node_id()`. -/
def pnd_lock_pair (s : State) (p_prev p_next n1 n2 : Nat) : Option State :=
  match spin_lock_pnd s p_prev n1 with
  | some s => spin_lock_pnd s p_next n2
  | none => none

/-- The calls `spin_unlock(&pndslock(p_next)); spin_unlock(&pndslock(p_prev));`,
with the values `n1`, `n2` of `numa_node_id()`. -/
def pnd_unlock_pair (s : State) (p_prev p_next n1 n2 : Nat) : Option State :=
  match spin_unlock_pnd s p_next n1 with
  | some s => spin_unlock_pnd s p_prev n2
  | none => none

/-- The stores `htmlock(a) = 0; htmlock(b) = 0;`. -/
def htmlock_clear_pair (s : State) (a b : Nat) : Option State :=
  match htmlock_store s a false with
  | some s => htmlock_store s b false
  | none => none

/-- The stores `pnodelock(a) = 0; pnodelock(b) = 0;`, with the values `n1`, `n2`
of `numa_node_id()`. -/
def pnodelock_clear_pair (s : State) (a b n1 n2 : Nat) : Option State :=
  match pnodelock_store s a n1 false with
  | some s => pnodelock_store s b n2 false
  | none => none

/-! ## `rcu-hash-list.c`: the other adds -/

/-- Try and fail version of `rcu_list_add`: two as soon as the writer lock is
found held, zero otherwise. -/
def rcu_list_try_add (s : State) (p_list : Nat) (val : Int) : Option (State × Int) := do
  let (s, locked) ← spin_trylock_list s p_list
  if !locked then pure (s, 2)
  else do
    let (p_prev, p_next, v) ← list_find s p_list val
    let result : Bool := decide (v ≠ val)
    let s ←
      if result then do
        let (s, p_new_node) ← rcu_alloc_node s val p_next
        node_store s p_prev (fun n => { n with p_next := some p_new_node })
      else pure s
    let s ← spin_unlock_list s p_list
    pure (s, 0)

/-- Finer-grained locking version: the labels `retry` / `unlock_retry` become
the recursive call; `fuel` bounds the number of passes. -/
def rcu_list_fg_add : Nat → State → Nat → Int → Option (State × Int)
  | 0, _, _, _ => none
  | fuel + 1, s, p_list, val => do
    let (p_prev, p_next, v) ← list_find s p_list val
    let result : Int := if v ≠ val then 1 else 0
    if v ≠ val then do
      let (s, p_new_node) ← rcu_alloc_node s val p_next
      let s ← global_lock_pair s p_prev p_next
      let check ← add_validate s p_prev p_next
      if check ≠ 0 then do
        let s ← global_unlock_pair s p_prev p_next
        let s := kfree s p_new_node
        rcu_list_fg_add fuel s p_list val
      else do
        let s ← node_store s p_prev (fun n => { n with p_next := some p_new_node })
        let s ← global_unlock_pair s p_prev p_next
        pure (s, result)
    else pure (s, result)

/-- NUMA-aware fine-grained locking version; `numa_node_id i` is the value of
`numa_node_id()` at the `i`-th of the four places of a pass that evaluate it,
and the following passes use the following values. -/
def rcu_list_numa_add : Nat → (Nat → Nat) → State → Nat → Int → Option (State × Int)
  | 0, _, _, _, _ => none
  | fuel + 1, numa_node_id, s, p_list, val => do
    let (p_prev, p_next, v) ← list_find s p_list val
    let result : Int := if v ≠ val then 1 else 0
    if v ≠ val then do
      let (s, p_new_node) ← rcu_alloc_node s val p_next
      let s ← pnd_lock_pair s p_prev p_next (numa_node_id 0) (numa_node_id 1)
      let s ← global_lock_pair s p_prev p_next
      let check ← add_validate s p_prev p_next
      if check ≠ 0 then do
        let s ← global_unlock_pair s p_prev p_next
        let s ← pnd_unlock_pair s p_prev p_next (numa_node_id 2) (numa_node_id 3)
        let s := kfree s p_new_node
        rcu_list_numa_add fuel (fun i => numa_node_id (i + 4)) s p_list val
      else do
        let s ← node_store s p_prev (fun n => { n with p_next := some p_new_node })
        let s ← global_unlock_pair s p_prev p_next
        let s ← pnd_unlock_pair s p_prev p_next (numa_node_id 2) (numa_node_id 3)
        pure (s, result)
    else pure (s, result)

/-- Try and abort version of `rcu_hash_list_add`. -/
def rcu_hash_list_try_add (g_hash_list : hash_list_t) (s : State) (val : Int) :
    Option (State × Int) := do
  let hash ← HASH_VALUE g_hash_list val
  let p_list ← bucket_at g_hash_list hash
  rcu_list_try_add s p_list val

/-- Finer-grained locking version of `rcu_hash_list_try_add`. -/
def rcu_hash_list_fg_add (fuel : Nat) (g_hash_list : hash_list_t) (s : State) (val : Int) :
    Option (State × Int) := do
  let hash ← HASH_VALUE g_hash_list val
  let p_list ← bucket_at g_hash_list hash
  rcu_list_fg_add fuel s p_list val

/-- NUMA-aware locking version of `rcu_hash_list_try_add`. -/
def rcu_hash_list_numa_add (fuel : Nat) (numa_node_id : Nat → Nat) (g_hash_list : hash_list_t)
    (s : State) (val : Int) : Option (State × Int) := do
  let hash ← HASH_VALUE g_hash_list val
  let p_list ← bucket_at g_hash_list hash
  rcu_list_numa_add fuel numa_node_id s p_list val

/-! ## `rcx-hash-list.c`: the adds -/

/-- The status the `if (tx_stat == _XBEGIN_STARTED)` of `rcx_list_add` sees: the
answer of `_xbegin()`, or, when the transaction starts and a check of its body
calls `_xabort`, the explicit-abort status of that code. -/
def rcx_add_tx_stat (s : State) (tx_stat : Nat) (p_prev p_next : Nat) : Option Nat :=
  if tx_stat = XBEGIN_STARTED then
    match add_validate s p_prev p_next with
    | some 0 => some XBEGIN_STARTED
    | some 1 => some (xabort_status ABORT_CONFLICT)
    | some _ => some (xabort_status ABORT_DOUBLE_FREE)
    | none => none
  else some tx_stat

/-- Insert a value into a list inside one hardware transaction: two for an
abort, otherwise the value of `v != val`. -/
def rcx_list_add (cpu : Nat) (s : State) (p_list : Nat) (val : Int) : Option (State × Int) := do
  let (p_prev, p_next, v) ← list_find s p_list val
  let result : Int := if v ≠ val then 1 else 0
  if v ≠ val then do
    let (s, p_new_node) ← rcx_alloc_node s val p_next
    let (tx_stat, s) := xbegin s
    let tx_stat ← rcx_add_tx_stat s tx_stat p_prev p_next
    if tx_stat = XBEGIN_STARTED then do
      let s ← node_store s p_prev (fun n => { n with p_next := some p_new_node })
      pure (s, result)
    else do
      let s ← record_abort s cpu tx_stat
      let s := kfree s p_new_node
      pure (s, 2)
  else pure (s, result)

/-- The retry limit of the locking fallback. -/
def LF_RETRY_LIMIT : Int := 10

/-- The coarse-locked insertion used as fallback by `rcx_list_lf_add` and
`rcx_list_fb1_add`; returns the value of `v != val`. -/
def rcx_list_locked_add (s : State) (p_list : Nat) (val : Int) : Option (State × Int) := do
  let s ← spin_lock_list s p_list
  let (p_prev, p_next, v) ← list_find s p_list val
  let result : Int := if v ≠ val then 1 else 0
  let s ←
    if v ≠ val then do
      let (s, p_new_node) ← rcx_alloc_node s val p_next
      node_store s p_prev (fun n => { n with p_next := some p_new_node })
    else pure s
  let s ← spin_unlock_list s p_list
  pure (s, result)

/-- The status the `if (tx_stat == _XBEGIN_STARTED)` of the speculative path of
`rcx_list_lf_add` / `rcx_list_fb1_add` sees: as `rcx_add_tx_stat`, with the check
of the fallback lock first. -/
def rcx_lf_tx_stat (s : State) (tx_stat : Nat) (p_list p_prev p_next : Nat) : Option Nat :=
  if tx_stat = XBEGIN_STARTED then
    match spin_is_locked_list s p_list with
    | some true => some (xabort_status ABORT_LF_CONFLICT)
    | some false => rcx_add_tx_stat s tx_stat p_prev p_next
    | none => none
  else some tx_stat

/-- Insert with locking fallback, from the label `retry` with the current value
of `retries`; `fuel` bounds the number of passes. -/
def rcx_list_lf_add_retry : Nat → Int → Nat → State → Nat → Int → Option (State × Int)
  | 0, _, _, _, _, _ => none
  | fuel + 1, retries, cpu, s, p_list, val =>
    if retries > LF_RETRY_LIMIT then rcx_list_locked_add s p_list val
    else do
      let (p_prev, p_next, v) ← list_find s p_list val
      let result : Int := if v ≠ val then 1 else 0
      if v ≠ val then do
        let (s, p_new_node) ← rcx_alloc_node s val p_next
        let held ← spin_is_locked_list s p_list
        if held then none
        else do
          let (tx_stat, s) := xbegin s
          let tx_stat ← rcx_lf_tx_stat s tx_stat p_list p_prev p_next
          if tx_stat = XBEGIN_STARTED then do
            let s ← node_store s p_prev (fun n => { n with p_next := some p_new_node })
            pure (s, result)
          else do
            let s ← record_abort s cpu tx_stat
            let s := kfree s p_new_node
            rcx_list_lf_add_retry fuel (retries + 1) cpu s p_list val
      else pure (s, result)

/-- Insert a value into a list using locking fallback: at most
`LF_RETRY_LIMIT + 1` speculative passes, then the locked pass. -/
def rcx_list_lf_add (cpu : Nat) (s : State) (p_list : Nat) (val : Int) : Option (State × Int) :=
  rcx_list_lf_add_retry 12 0 cpu s p_list val

/-- Insert a value into a list using the abort reason and locking fallback:
`htm_path` is the recursive call, `locking_path` the locked insertion. -/
def rcx_list_fb1_add : Nat → Nat → State → Nat → Int → Option (State × Int)
  | 0, _, _, _, _ => none
  | fuel + 1, cpu, s, p_list, val => do
    let (p_prev, p_next, v) ← list_find s p_list val
    let result : Int := if v ≠ val then 1 else 0
    if v ≠ val then do
      let (s, p_new_node) ← rcx_alloc_node s val p_next
      let held ← spin_is_locked_list s p_list
      if held then none
      else do
        let (tx_stat, s) := xbegin s
        let tx_stat ← rcx_lf_tx_stat s tx_stat p_list p_prev p_next
        if tx_stat = XBEGIN_STARTED then do
          let s ← node_store s p_prev (fun n => { n with p_next := some p_new_node })
          pure (s, result)
        else do
          let s ← record_abort s cpu tx_stat
          let s := kfree s p_new_node
          if tx_stat &&& XABORT_RETRY ≠ 0 then rcx_list_fb1_add fuel cpu s p_list val
          else rcx_list_locked_add s p_list val
    else pure (s, result)

/-- The transaction that sets the HTM flags of two nodes: the status seen by
the `if`, and the memory (with both flags set when it commits). -/
def htmlock_tx (s : State) (p_prev p_next : Nat) : Option (Nat × State) :=
  match xbegin s with
  | (tx_stat, s) =>
    if tx_stat = XBEGIN_STARTED then
      match htmlock_is_set s p_prev, htmlock_is_set s p_next with
      | some a, some b =>
        if a ∨ b then some (xabort_status ABORT_CONFLICT, s)
        else
          match htmlock_store s p_prev true with
          | some s =>
            match htmlock_store s p_next true with
            | some s => some (XBEGIN_STARTED, s)
            | none => none
          | none => none
      | _, _ => none
    else some (tx_stat, s)

/-- The transaction that sets the per-NUMA flags of two nodes (`c1`, `c2` are
the values of `numa_node_id()` at the two checks, `n1`, `n2` at the two
stores). -/
def pnodelock_tx (s : State) (p_prev p_next c1 c2 n1 n2 : Nat) : Option (Nat × State) :=
  match xbegin s with
  | (tx_stat, s) =>
    if tx_stat = XBEGIN_STARTED then
      match pnodelock_is_set s p_prev c1, pnodelock_is_set s p_next c2 with
      | some a, some b =>
        if a ∨ b then some (xabort_status ABORT_CONFLICT, s)
        else
          match pnodelock_store s p_prev n1 true with
          | some s =>
            match pnodelock_store s p_next n2 true with
            | some s => some (XBEGIN_STARTED, s)
            | none => none
          | none => none
      | _, _ => none
    else some (tx_stat, s)

/-- The wait `while (htmlock(p_prev) == 1 || htmlock(p_next) == 1) smp_wmb();`:
with a flag set it never ends. -/
def htmlock_wait (s : State) (p_prev p_next : Nat) : Option Unit :=
  match htmlock_is_set s p_prev, htmlock_is_set s p_next with
  | some a, some b => if a ∨ b then none else some ()
  | _, _ => none

/-- The wait `while (pnodelock(p_prev) == 1 || pnodelock(p_next) == 1) …;`. -/
def pnodelock_wait (s : State) (p_prev p_next n1 n2 : Nat) : Option Unit :=
  match pnodelock_is_set s p_prev n1, pnodelock_is_set s p_next n2 with
  | some a, some b => if a ∨ b then none else some ()
  | _, _ => none

/-- The validation after the locks are taken, with its `record_abort` call:
the flag tells whether the validation passed. -/
def add_validate_record (cpu : Nat) (s : State) (p_prev p_next : Nat) : Option (State × Bool) :=
  match add_validate s p_prev p_next with
  | some 0 => some (s, true)
  | some 1 =>
    match record_abort s cpu ABORT_CONFLICT with
    | some s => some (s, false)
    | none => none
  | some _ =>
    match record_abort s cpu ABORT_DOUBLE_FREE with
    | some s => some (s, false)
    | none => none
  | none => none

/-- Insert a value into a list protected by the HTM-based locking only. -/
def rcx_list_htmlock_add : Nat → Nat → State → Nat → Int → Option (State × Int)
  | 0, _, _, _, _ => none
  | fuel + 1, cpu, s, p_list, val => do
    let (p_prev, p_next, v) ← list_find s p_list val
    let result : Int := if v ≠ val then 1 else 0
    if v ≠ val then do
      let (s, p_new_node) ← rcx_alloc_node s val p_next
      let _ ← htmlock_wait s p_prev p_next
      let (tx_stat, s) ← htmlock_tx s p_prev p_next
      if tx_stat = XBEGIN_STARTED then do
        let (s, valid) ← add_validate_record cpu s p_prev p_next
        if valid then do
          let s ← node_store s p_prev (fun n => { n with p_next := some p_new_node })
          let s ← htmlock_clear_pair s p_next p_prev
          pure (s, result)
        else do
          let s ← htmlock_clear_pair s p_next p_prev
          let s := kfree s p_new_node
          rcx_list_htmlock_add fuel cpu s p_list val
      else do
        let s ← record_abort s cpu tx_stat
        let s := kfree s p_new_node
        rcx_list_htmlock_add fuel cpu s p_list val
    else pure (s, result)

/-- The loop `retry_global_lock` of `rcx_list_hhtmlock_add`: wait, then the
transaction on the HTM flags, again after every abort. -/
def hhtmlock_global : Nat → Nat → State → Nat → Nat → Option State
  | 0, _, _, _, _ => none
  | fuel + 1, cpu, s, p_prev, p_next => do
    let _ ← htmlock_wait s p_prev p_next
    let (tx_stat, s) ← htmlock_tx s p_prev p_next
    if tx_stat = XBEGIN_STARTED then pure s
    else do
      let s ← record_abort s cpu tx_stat
      hhtmlock_global fuel cpu s p_prev p_next

/-- Insert a value into a list protected by the HTM-based hierarchical locking
only; `numa_node_id i` is the value of `numa_node_id()` at the `i`-th of the
eight places of a pass that evaluate it, and the following passes use the
following values. -/
def rcx_list_hhtmlock_add : Nat → Nat → (Nat → Nat) → State → Nat → Int → Option (State × Int)
  | 0, _, _, _, _, _ => none
  | fuel + 1, cpu, numa_node_id, s, p_list, val => do
    let (p_prev, p_next, v) ← list_find s p_list val
    let result : Int := if v ≠ val then 1 else 0
    if v ≠ val then do
      let (s, p_new_node) ← rcx_alloc_node s val p_next
      let _ ← pnodelock_wait s p_prev p_next (numa_node_id 0) (numa_node_id 1)
      let (tx_stat, s) ← pnodelock_tx s p_prev p_next (numa_node_id 2) (numa_node_id 3)
        (numa_node_id 4) (numa_node_id 5)
      if tx_stat = XBEGIN_STARTED then do
        let s ← hhtmlock_global (fuel + 1) cpu s p_prev p_next
        let (s, valid) ← add_validate_record cpu s p_prev p_next
        if valid then do
          let s ← node_store s p_prev (fun n => { n with p_next := some p_new_node })
          let s ← htmlock_clear_pair s p_prev p_next
          let s ← pnodelock_clear_pair s p_prev p_next (numa_node_id 6) (numa_node_id 7)
          pure (s, result)
        else do
          let s ← htmlock_clear_pair s p_prev p_next
          let s ← pnodelock_clear_pair s p_next p_prev (numa_node_id 6) (numa_node_id 7)
          let s := kfree s p_new_node
          rcx_list_hhtmlock_add fuel cpu (fun i => numa_node_id (i + 8)) s p_list val
      else do
        let s ← record_abort s cpu tx_stat
        let s := kfree s p_new_node
        rcx_list_hhtmlock_add fuel cpu (fun i => numa_node_id (i + 8)) s p_list val
    else pure (s, result)

/-- Insert a value into a list in the NUMA-aware manner: per-NUMA flags set in
a transaction, then the global spinlocks; `numa_node_id` as in
`rcx_list_hhtmlock_add`. -/
def rcx_list_numa_add : Nat → Nat → (Nat → Nat) → State → Nat → Int → Option (State × Int)
  | 0, _, _, _, _, _ => none
  | fuel + 1, cpu, numa_node_id, s, p_list, val => do
    let (p_prev, p_next, v) ← list_find s p_list val
    let result : Int := if v ≠ val then 1 else 0
    if v ≠ val then do
      let (s, p_new_node) ← rcx_alloc_node s val p_next
      let _ ← pnodelock_wait s p_prev p_next (numa_node_id 0) (numa_node_id 1)
      let (tx_stat, s) ← pnodelock_tx s p_prev p_next (numa_node_id 2) (numa_node_id 3)
        (numa_node_id 4) (numa_node_id 5)
      if tx_stat = XBEGIN_STARTED then do
        let s ← global_lock_pair s p_prev p_next
        let (s, valid) ← add_validate_record cpu s p_prev p_next
        if valid then do
          let s ← node_store s p_prev (fun n => { n with p_next := some p_new_node })
          let s ← global_unlock_pair s p_prev p_next
          let s ← pnodelock_clear_pair s p_prev p_next (numa_node_id 6) (numa_node_id 7)
          pure (s, result)
        else do
          let s ← global_unlock_pair s p_prev p_next
          let s ← pnodelock_clear_pair s p_next p_prev (numa_node_id 6) (numa_node_id 7)
          let s := kfree s p_new_node
          rcx_list_numa_add fuel cpu (fun i => numa_node_id (i + 8)) s p_list val
      else do
        let s ← record_abort s cpu tx_stat
        let s := kfree s p_new_node
        rcx_list_numa_add fuel cpu (fun i => numa_node_id (i + 8)) s p_list val
    else pure (s, result)

/-- Inserts a value into the global hash list: -1 if aborted, zero else. -/
def rcx_hash_list_add (cpu : Nat) (g_hash_list : hash_list_t) (s : State) (val : Int) :
    Option (State × Int) := do
  let hash ← HASH_VALUE g_hash_list val
  let p_list ← bucket_at g_hash_list hash
  let (s, result) ← rcx_list_add cpu s p_list val
  if result = 2 then pure (s, -1) else pure (s, 0)

/-- Try-and-fail version of `rcx_hash_list_add` (no difference). -/
def rcx_hash_list_try_add (cpu : Nat) (g_hash_list : hash_list_t) (s : State) (val : Int) :
    Option (State × Int) := do
  let hash ← HASH_VALUE g_hash_list val
  let p_list ← bucket_at g_hash_list hash
  let (s, result) ← rcx_list_add cpu s p_list val
  if result = 2 then pure (s, -1) else pure (s, 0)

/-- The loop `for (;;)` of `rcx_hash_list_retry_add`; `endtime` lists the values
the next calls of `benchmark_endtime()` return (0 once it is used up). -/
def rcx_hash_list_retry_add_loop : Nat → Nat → List Int → State → Nat → Int →
    Option (State × Int)
  | 0, _, _, _, _, _ => none
  | fuel + 1, cpu, endtime, s, p_list, val => do
    let (s, result) ← rcx_list_add cpu s p_list val
    if result ≠ 2 then pure (s, 0)
    else if endtime.headD 0 ≠ 1 then
      rcx_hash_list_retry_add_loop fuel cpu endtime.tail s p_list val
    else pure (s, -1)

/-- Retry version of `rcx_hash_list_try_add`: 0 for success, -1 for an
irrecoverable abort. -/
def rcx_hash_list_retry_add (fuel cpu : Nat) (endtime : List Int) (g_hash_list : hash_list_t)
    (s : State) (val : Int) : Option (State × Int) := do
  let hash ← HASH_VALUE g_hash_list val
  let p_list ← bucket_at g_hash_list hash
  rcx_hash_list_retry_add_loop fuel cpu endtime s p_list val

/-- Locking fallback version of `rcx_hash_list_add`: returns zero only. -/
def rcx_hash_list_lf_add (cpu : Nat) (g_hash_list : hash_list_t) (s : State) (val : Int) :
    Option (State × Int) := do
  let hash ← HASH_VALUE g_hash_list val
  let p_list ← bucket_at g_hash_list hash
  let (s, _) ← rcx_list_lf_add cpu s p_list val
  pure (s, 0)

/-- First candidate of the final `rcx_hash_list_add`: returns zero only. -/
def rcx_hash_list_fb1_add (fuel cpu : Nat) (g_hash_list : hash_list_t) (s : State) (val : Int) :
    Option (State × Int) := do
  let hash ← HASH_VALUE g_hash_list val
  let p_list ← bucket_at g_hash_list hash
  let (s, _) ← rcx_list_fb1_add fuel cpu s p_list val
  pure (s, 0)

/-- The hash-level add of `rcx-htmlock`: returns zero only. -/
def rcx_hash_list_htmlock_add (fuel cpu : Nat) (g_hash_list : hash_list_t) (s : State)
    (val : Int) : Option (State × Int) := do
  let hash ← HASH_VALUE g_hash_list val
  let p_list ← bucket_at g_hash_list hash
  let (s, _) ← rcx_list_htmlock_add fuel cpu s p_list val
  pure (s, 0)

/-- The hash-level add of `rcx-hhtmlock`: returns zero only. -/
def rcx_hash_list_hhtmlock_add (fuel cpu : Nat) (numa_node_id : Nat → Nat)
    (g_hash_list : hash_list_t) (s : State) (val : Int) : Option (State × Int) := do
  let hash ← HASH_VALUE g_hash_list val
  let p_list ← bucket_at g_hash_list hash
  let (s, _) ← rcx_list_hhtmlock_add fuel cpu numa_node_id s p_list val
  pure (s, 0)

/-- The hash-level add of `rcx`: returns zero only. -/
def rcx_hash_list_numa_add (fuel cpu : Nat) (numa_node_id : Nat → Nat)
    (g_hash_list : hash_list_t) (s : State) (val : Int) : Option (State × Int) := do
  let hash ← HASH_VALUE g_hash_list val
  let p_list ← bucket_at g_hash_list hash
  let (s, _) ← rcx_list_numa_add fuel cpu numa_node_id s p_list val
  pure (s, 0)

/-! ## Sequences of hash-level updates -/

/-- One call of the coarse-RCU protocol at the hash level. -/
inductive hash_op where
  | add (k : Int)
  | remove (k : Int)
deriving DecidableEq, Repr

/-- The key of a call. -/
def hash_op.key : hash_op → Int
  | hash_op.add k => k
  | hash_op.remove k => k

/-- Run one call: `rcu_hash_list_add` or `rcu_hash_list_remove`. -/
def run_op (g : hash_list_t) (s : State) : hash_op → Option (State × Int)
  | hash_op.add k => rcu_hash_list_add g s k
  | hash_op.remove k => rcu_hash_list_remove g s k

/-- Run the calls one after another. -/
def run_ops (g : hash_list_t) : State → List hash_op → Option State
  | s, [] => some s
  | s, op :: ops =>
    match run_op g s op with
    | some (s2, _) => run_ops g s2 ops
    | none => none

/-- The last call of the sequence on the key `k` exists and is an add. -/
def last_call_is_add (ops : List hash_op) (k : Int) : Bool :=
  match (ops.filter (fun o => decide (o.key = k))).getLast? with
  | some (hash_op.add _) => true
  | _ => false

/-- The key `k` is held by a node of the bucket it hashes to. -/
def hash_present (g : hash_list_t) (s : State) (k : Int) : Prop :=
  ∃ h p vs, HASH_VALUE g k = some h ∧ bucket_at g h = some p ∧
    bucket_vals s p = some vs ∧ k ∈ vs

/-- Membership of `k` after the calls `ops`, starting from membership `init`. -/
def present_after (k : Int) : List hash_op → Prop → Prop
  | [], init => init
  | hash_op.add k2 :: ops, init => present_after k ops (k = k2 ∨ init)
  | hash_op.remove k2 :: ops, init => present_after k ops (k ≠ k2 ∧ init)

/-! ## Filling and clearing one bucket -/

/-- Insert the keys one after another with `rcu_list_add`. -/
def add_all (s : State) (p_list : Nat) : List Int → Option State
  | [] => some s
  | k :: ks =>
    match rcu_list_add s p_list k with
    | some (s2, _) => add_all s2 p_list ks
    | none => none

/-- Remove the keys one after another with `rcu_list_remove`. -/
def remove_all (s : State) (p_list : Nat) : List Int → Option State
  | [] => some s
  | k :: ks =>
    match rcu_list_remove s p_list k with
    | some (s2, _) => remove_all s2 p_list ks
    | none => none

/-! ## Quiescent buckets and memories with the same links -/

/-- A node at a quiescent point: not marked removed, none of its locks held. -/
def node_quiet (n : node_t) : Prop :=
  n.removed = 0 ∧ n.global_lock = false ∧ n.pnd_slocks = List.replicate NR_NUMA_NODES false

instance node_quiet_decidable (n : node_t) : Decidable (node_quiet n) :=
  inferInstanceAs (Decidable (n.removed = 0 ∧ n.global_lock = false ∧
    n.pnd_slocks = List.replicate NR_NUMA_NODES false))

/-- The node at `a` is quiet. -/
def quiet_at (s : State) (a : Nat) : Prop :=
  match s.nodes[a]? with
  | some n => node_quiet n
  | none => False

instance quiet_at_decidable (s : State) (a : Nat) : Decidable (quiet_at s a) :=
  match h : s.nodes[a]? with
  | some n =>
    if c : node_quiet n then isTrue (by unfold quiet_at; rw [h]; exact c)
    else isFalse (by unfold quiet_at; rw [h]; exact c)
  | none => isFalse (by unfold quiet_at; rw [h]; exact fun x => x)

/-- Every node of the bucket is quiet. -/
def bucket_quiet (s : State) (p_list : Nat) : Prop :=
  match bucket_nodes s p_list with
  | some as => ∀ a ∈ as, quiet_at s a
  | none => False

instance bucket_quiet_decidable (s : State) (p_list : Nat) : Decidable (bucket_quiet s p_list) :=
  match h : bucket_nodes s p_list with
  | some as =>
    if c : ∀ a ∈ as, quiet_at s a then isTrue (by unfold bucket_quiet; rw [h]; exact c)
    else isFalse (by unfold bucket_quiet; rw [h]; exact c)
  | none => isFalse (by unfold bucket_quiet; rw [h]; exact fun x => x)

/-- A well-formed hash set at a quiescent point of every protocol: well-formed,
and no node of a bucket is marked removed or has a lock held. -/
def hash_list_quiescent (g : hash_list_t) (s : State) : Prop :=
  hash_list_wf g s ∧ ∀ p ∈ g.buckets, bucket_quiet s p

instance hash_list_quiescent_decidable (g : hash_list_t) (s : State) :
    Decidable (hash_list_quiescent g s) :=
  inferInstanceAs (Decidable (hash_list_wf g s ∧ ∀ p ∈ g.buckets, bucket_quiet s p))

/-- The key `k` is held by a node of the bucket `p_list`. -/
def key_in_bucket (s : State) (p_list : Nat) (k : Int) : Prop :=
  match bucket_vals s p_list with
  | some vs => k ∈ vs
  | none => False

instance key_in_bucket_decidable (s : State) (p_list : Nat) (k : Int) :
    Decidable (key_in_bucket s p_list k) :=
  match h : bucket_vals s p_list with
  | some vs =>
    if c : k ∈ vs then isTrue (by unfold key_in_bucket; rw [h]; exact c)
    else isFalse (by unfold key_in_bucket; rw [h]; exact c)
  | none => isFalse (by unfold key_in_bucket; rw [h]; exact fun x => x)

/-- Two calls of the hash-level add `add` with the key `k` from the memory `s`:
both return, the second leaves the memory as the first left it, so the keys of
every bucket are those after the single call, and the key is then in the set. -/
def add_twice_same (g : hash_list_t) (add : State → Int → Option (State × Int)) (s : State)
    (k : Int) : Prop :=
  ∃ s1 r1 s2 r2, add s k = some (s1, r1) ∧ add s1 k = some (s2, r2) ∧ s2 = s1 ∧
    (∀ p ∈ g.buckets, bucket_vals s2 p = bucket_vals s1 p) ∧ hash_present g s1 k

/-- The link structure of a node: its value and its successor. -/
def node_links (n : node_t) : Int × Option Nat := (n.val, n.p_next)

/-- The memory `s2` has the lists of `s` and nodes with the same values and
successors: the two differ at most in lock words and `removed` flags. -/
def same_links (s s2 : State) : Prop :=
  s2.lists = s.lists ∧ s2.nodes.map node_links = s.nodes.map node_links

/-- No pending answer of the hardware is an abort. -/
def no_abort (s : State) : Prop :=
  ∀ x ∈ s.xbegin, x = XBEGIN_STARTED

instance no_abort_decidable (s : State) : Decidable (no_abort s) :=
  inferInstanceAs (Decidable (∀ x ∈ s.xbegin, x = XBEGIN_STARTED))

/-! ## Concrete memories used to exercise the theorems -/

/-- One bucket holding the keys 3 and 7. -/
def mem_3_7 : State :=
  { nodes := [{ val := LIST_VAL_MAX, p_next := none, removed := 0,
                pnd_slocks := [false, false, false, false], global_lock := false },
              { val := LIST_VAL_MIN, p_next := some 2, removed := 0,
                pnd_slocks := [false, false, false, false], global_lock := false },
              { val := 3, p_next := some 3, removed := 0,
                pnd_slocks := [false, false, false, false], global_lock := false },
              { val := 7, p_next := some 0, removed := 0,
                pnd_slocks := [false, false, false, false], global_lock := false }],
    lists := [{ p_head := some 1, rcuspin := false }],
    retired := [], freed := [], xbegin := [],
    abort_cnt := [{ counts := [0, 0, 0, 0, 0, 0, 0, 0, 0], nr_aborts := 0 }] }

/-- The hash list with the single bucket `0`. -/
def hash_1 : hash_list_t := { n_buckets := 1, buckets := [0] }

/-- The `n` distinct keys `-1073741824, -1073741823, …`. -/
def keys_from (n : Nat) : List Int :=
  (List.range n).map (fun (i : Nat) => (i : Int) - 1073741824)

/-- The 2147483648 distinct keys `-1073741824, …, 1073741823`. -/
def keys_2_31 : List Int := keys_from 2147483648

/-- The memory after a pass of an rcx add whose transaction aborted with the
status `stat` on CPU `cpu` (whose counters were `cnt`): the new node was
allocated and freed again, and the abort recorded. -/
def aborted (s : State) (val : Int) (b cpu : Nat) (cnt : rtm_abort_cnt) (stat : Nat) : State :=
  { s with
    nodes := s.nodes ++ [added_node val b]
    freed := s.freed ++ [s.nodes.length]
    xbegin := s.xbegin.tail
    abort_cnt := s.abort_cnt.set cpu (record_abort_cnt cnt stat) }

/-! ## `rcu-hash-list.c`: the other removes -/

/-- Try-and-fail version of `rcu_list_remove`: two as soon as the writer lock is
found held, zero otherwise. -/
def rcu_list_try_remove (s : State) (p_list : Nat) (val : Int) : Option (State × Int) := do
  let (s, locked) ← spin_trylock_list s p_list
  if !locked then pure (s, 2)
  else do
    let (p_prev, p_next, v) ← list_find s p_list val
    let result : Bool := decide (v = val)
    if result then do
      let nx ← s.nodes[p_next]?
      let n := nx.p_next
      let s ← node_store s p_prev (fun m => { m with p_next := n })
      let s ← spin_unlock_list s p_list
      let s := rcu_free_node s p_next
      pure (s, 0)
    else do
      let s ← spin_unlock_list s p_list
      pure (s, 0)

/-- The validation of a remove, `p_prev->removed || p_next->removed ||
n->removed`, then `p_prev->p_next != p_next || p_next->p_next != n`: `0` when
both checks pass, otherwise the number of the check that fails (1, then 2).  A
null `n` is dereferenced by the first check. -/
def remove_validate (s : State) (p_prev p_next : Nat) (n : Option Nat) : Option Nat :=
  match n with
  | none => none
  | some p_n =>
    match s.nodes[p_prev]?, s.nodes[p_next]?, s.nodes[p_n]? with
    | some prev, some next, some nn =>
      if prev.removed ≠ 0 ∨ next.removed ≠ 0 ∨ nn.removed ≠ 0 then some 1
      else if prev.p_next ≠ some p_next ∨ next.p_next ≠ some p_n then some 2
      else some 0
    | _, _, _ => none

/-- The calls `spin_lock(&p_prev->global_lock); spin_lock(&p_next->global_lock);
spin_lock(&n->global_lock);`. -/
def global_lock_triple (s : State) (p_prev p_next : Nat) (n : Option Nat) : Option State :=
  match spin_lock_global s p_prev with
  | some s =>
    match spin_lock_global s p_next with
    | some s =>
      match n with
      | some p_n => spin_lock_global s p_n
      | none => none
    | none => none
  | none => none

/-- The calls `spin_unlock(&n->global_lock); spin_unlock(&p_next->global_lock);
spin_unlock(&p_prev->global_lock);`. -/
def global_unlock_triple (s : State) (p_prev p_next p_n : Nat) : Option State :=
  match spin_unlock_global s p_n with
  | some s =>
    match spin_unlock_global s p_next with
    | some s => spin_unlock_global s p_prev
    | none => none
  | none => none

/-- Finer-grained locking version of `rcu_list_try_remove`: returns the value of
`p_node->val == val`; `fuel` bounds the number of passes. -/
def rcu_list_fg_remove : Nat → State → Nat → Int → Option (State × Int)
  | 0, _, _, _ => none
  | fuel + 1, s, p_list, val => do
    let (p_prev, p_next, v) ← list_find s p_list val
    let result : Int := if v = val then 1 else 0
    if v = val then do
      let nx ← s.nodes[p_next]?
      let n := nx.p_next
      let s ← global_lock_triple s p_prev p_next n
      let p_n ← n
      let check ← remove_validate s p_prev p_next n
      if check ≠ 0 then do
        let s ← global_unlock_triple s p_prev p_next p_n
        rcu_list_fg_remove fuel s p_list val
      else do
        let s ← node_store s p_prev (fun m => { m with p_next := n })
        let s ← node_store s p_next (fun m => { m with removed := 1 })
        let s := rcu_free_node s p_next
        let s ← global_unlock_triple s p_prev p_next p_n
        pure (s, result)
    else pure (s, result)

/-- Try-and-fail version of `rcu_hash_list_remove`. -/
def rcu_hash_list_try_remove (g_hash_list : hash_list_t) (s : State) (val : Int) :
    Option (State × Int) := do
  let hash ← HASH_VALUE g_hash_list val
  let p_list ← bucket_at g_hash_list hash
  rcu_list_try_remove s p_list val

/-- Finer-grained locking version of `rcu_hash_list_try_remove`. -/
def rcu_hash_list_fg_remove (fuel : Nat) (g_hash_list : hash_list_t) (s : State) (val : Int) :
    Option (State × Int) := do
  let hash ← HASH_VALUE g_hash_list val
  let p_list ← bucket_at g_hash_list hash
  rcu_list_fg_remove fuel s p_list val

/-! ## `rcx-hash-list.c`: the remove of the forgive and retry policies -/

/-- The status the `if (tx_stat == _XBEGIN_STARTED)` of `rcx_list_remove` sees:
the answer of `_xbegin()`, or, when the transaction starts and a check of its
body calls `_xabort`, the explicit-abort status of that code. -/
def rcx_remove_tx_stat (s : State) (tx_stat : Nat) (p_prev p_next : Nat) (n : Option Nat) :
    Option Nat :=
  if tx_stat = XBEGIN_STARTED then
    match remove_validate s p_prev p_next n with
    | some 0 => some XBEGIN_STARTED
    | some 1 => some (xabort_status ABORT_DOUBLE_FREE)
    | some _ => some (xabort_status ABORT_CONFLICT)
    | none => none
  else some tx_stat

/-- Deletes a value from a list inside one hardware transaction: 2 if aborted,
1 if success, 0 if the list does not contain the value. -/
def rcx_list_remove (cpu : Nat) (s : State) (p_list : Nat) (val : Int) :
    Option (State × Int) := do
  let (p_prev, p_next, v) ← list_find s p_list val
  let result : Int := if v = val then 1 else 0
  if v = val then do
    let nx ← s.nodes[p_next]?
    let n := nx.p_next
    let (tx_stat, s) := xbegin s
    let tx_stat ← rcx_remove_tx_stat s tx_stat p_prev p_next n
    if tx_stat = XBEGIN_STARTED then do
      let s ← node_store s p_prev (fun m => { m with p_next := n })
      let s ← node_store s p_next (fun m => { m with removed := 1 })
      let s := rcx_free_node s p_next
      pure (s, result)
    else do
      let s ← record_abort s cpu tx_stat
      pure (s, 2)
  else pure (s, result)

/-- Deletes a value from the global hash list: -1 if aborted, zero else. -/
def rcx_hash_list_remove (cpu : Nat) (g_hash_list : hash_list_t) (s : State) (val : Int) :
    Option (State × Int) := do
  let hash ← HASH_VALUE g_hash_list val
  let p_list ← bucket_at g_hash_list hash
  let (s, result) ← rcx_list_remove cpu s p_list val
  if result = 2 then pure (s, -1) else pure (s, 0)

/-- Try-and-fail version of `rcx_hash_list_remove`. -/
def rcx_hash_list_try_remove (cpu : Nat) (g_hash_list : hash_list_t) (s : State) (val : Int) :
    Option (State × Int) := do
  let hash ← HASH_VALUE g_hash_list val
  let p_list ← bucket_at g_hash_list hash
  let (s, result) ← rcx_list_remove cpu s p_list val
  if result = 2 then pure (s, -1) else pure (s, 0)

/-- The loop `for (;;)` of `rcx_hash_list_retry_remove`; `endtime` as in
`rcx_hash_list_retry_add_loop`. -/
def rcx_hash_list_retry_remove_loop : Nat → Nat → List Int → State → Nat → Int →
    Option (State × Int)
  | 0, _, _, _, _, _ => none
  | fuel + 1, cpu, endtime, s, p_list, val => do
    let (s, result) ← rcx_list_remove cpu s p_list val
    if result ≠ 2 then pure (s, 0)
    else if endtime.headD 0 ≠ 1 then
      rcx_hash_list_retry_remove_loop fuel cpu endtime.tail s p_list val
    else pure (s, -1)

/-- Retry version of `rcx_hash_list_try_remove`: 0 for success, -1 for an
irrecoverable abort. -/
def rcx_hash_list_retry_remove (fuel cpu : Nat) (endtime : List Int) (g_hash_list : hash_list_t)
    (s : State) (val : Int) : Option (State × Int) := do
  let hash ← HASH_VALUE g_hash_list val
  let p_list ← bucket_at g_hash_list hash
  rcx_hash_list_retry_remove_loop fuel cpu endtime s p_list val

/-- The memory after a remove of the fine-grained and HTM protocols has
unlinked `b`: as `unlinked`, with the `removed` flag of `b` set. -/
def unlinked_marked (s : State) (p_prev b : Nat) (prev nb : node_t) : State :=
  { s with
    nodes := (s.nodes.set p_prev { prev with p_next := nb.p_next }).set b
               { nb with removed := 1 }
    retired := s.retired ++ [b] }

/-- The memory after a pass of an rcx remove whose transaction aborted with the
status `stat` on CPU `cpu` (whose counters were `cnt`): the abort recorded,
nothing else stored. -/
def abort_noted (s : State) (cpu : Nat) (cnt : rtm_abort_cnt) (stat : Nat) : State :=
  { s with
    xbegin := s.xbegin.tail
    abort_cnt := s.abort_cnt.set cpu (record_abort_cnt cnt stat) }

/-- The bucket of `mem_3_7` with its writer lock held. -/
def mem_3_7_held : State :=
  { mem_3_7 with lists := [{ p_head := some 1, rcuspin := true }] }

/-- The bucket of `mem_3_7` when the next transaction aborts with a conflict
that may succeed on retry. -/
def mem_3_7_abort : State :=
  { mem_3_7 with xbegin := [XABORT_RETRY ||| XABORT_CONFLICT] }

/-- What an aborted call leaves behind (`s` before, `s1` after, on CPU `cpu`
whose counters were `cnt`, with status `stat`): one abort recorded, the chain of
every bucket, every node that existed (so every `removed` flag), the retired
nodes and the lists unchanged. -/
def abort_forgiven (g : hash_list_t) (s s1 : State) (cpu : Nat) (cnt : rtm_abort_cnt)
    (stat : Nat) : Prop :=
  s1.abort_cnt = s.abort_cnt.set cpu (record_abort_cnt cnt stat) ∧
  (record_abort_cnt cnt stat).nr_aborts = wrap_ulong (cnt.nr_aborts + 1) ∧
  (∀ q ∈ g.buckets, bucket_nodes s1 q = bucket_nodes s q) ∧
  (∀ (a : Nat) (n : node_t), s.nodes[a]? = some n → s1.nodes[a]? = some n) ∧
  s1.retired = s.retired ∧ s1.lists = s.lists

/-! ## `rtm_debug.c`: the summary of the abort counters -/

/-- The `struct result_stat` of `rtm_debug.h`; the fields are `unsigned long`. -/
structure result_stat where
  duration_ms : Nat
  nr_issued_ops : Nat
  nr_succ_ops : Nat
  nr_upd : Nat
deriving DecidableEq, Repr

/-- The values `pr_abort_stat` prints, in the order of its `pr_info` calls;
`reasons` are the nine lines of the reason totals. -/
structure abort_report where
  aborts_per_sec : Nat
  aborts_per_1000issued : Nat
  aborts_per_1000succ : Nat
  aborts_per_1000upd : Nat
  nr_total_aborts : Nat
  reasons : List Nat
deriving DecidableEq, Repr

/-- The loop `for (i = 0; i < NR_ABORT_REASONS; i++) sum[i] += cnt->counts[i];`
from index `i`, with `todo` iterations left. -/
def pr_abort_add_counts (cnt : rtm_abort_cnt) : Nat → Nat → List Nat → Option (List Nat)
  | 0, _, sum => some sum
  | todo + 1, i, sum =>
    match sum[i]?, cnt.counts[i]? with
    | some a, some c => pr_abort_add_counts cnt todo (i + 1) (sum.set i (wrap_ulong (a + c)))
    | _, _ => none

/-- The loop `for_each_online_cpu(cpu)` of `pr_abort_stat` over the online CPUs
that are left, with the current `nr_total_aborts` and `sum`. -/
def pr_abort_collect (abort_cnt : List rtm_abort_cnt) :
    List Nat → Nat → List Nat → Option (Nat × List Nat)
  | [], nr_total_aborts, sum => some (nr_total_aborts, sum)
  | cpu :: cpus, nr_total_aborts, sum =>
    match abort_cnt[cpu]? with
    | some cnt =>
      match pr_abort_add_counts cnt NR_ABORT_REASONS 0 sum with
      | some sum =>
        pr_abort_collect abort_cnt cpus (wrap_ulong (nr_total_aborts + cnt.nr_aborts)) sum
      | none => none
    | none => none

/-- The statements `if (stat->… == 0) stat->… = 1;` of `pr_abort_stat`. -/
def result_stat_nonzero (stat : result_stat) : result_stat :=
  let stat := if stat.duration_ms = 0 then { stat with duration_ms := 1 } else stat
  let stat := if stat.nr_issued_ops = 0 then { stat with nr_issued_ops := 1 } else stat
  let stat := if stat.nr_succ_ops = 0 then { stat with nr_succ_ops := 1 } else stat
  let stat := if stat.nr_upd = 0 then { stat with nr_upd := 1 } else stat
  stat

/-- The function `pr_abort_stat`: what it prints and what it leaves in `*stat`;
`online` are the online CPUs in the order of `for_each_online_cpu`. -/
def pr_abort_stat (s : State) (online : List Nat) (stat : result_stat) :
    Option (abort_report × result_stat) :=
  match pr_abort_collect s.abort_cnt online 0 (List.replicate NR_ABORT_REASONS 0) with
  | some (nr_total_aborts, sum) =>
    let stat := result_stat_nonzero stat
    some ({ aborts_per_sec := wrap_ulong (nr_total_aborts * 1000) / stat.duration_ms
            aborts_per_1000issued := wrap_ulong (nr_total_aborts * 1000) / stat.nr_issued_ops
            aborts_per_1000succ := wrap_ulong (nr_total_aborts * 1000) / stat.nr_succ_ops
            aborts_per_1000upd := wrap_ulong (nr_total_aborts * 1000) / stat.nr_upd
            nr_total_aborts := nr_total_aborts
            reasons := sum }, stat)
  | none => none

/-! ## `sync_test.c`: the clock, the worker loop and the pre-fill -/

/-- A `struct timespec`; both fields are `long`. -/
structure timespec where
  tv_sec : Int
  tv_nsec : Int
deriving DecidableEq, Repr

/-- The conversion of an `int` or `long` to `unsigned long`. -/
def to_ulong (x : Int) : Nat := (x % 18446744073709551616).toNat

/-- The conversion of an `int` to `unsigned int`. -/
def to_uint (x : Int) : Nat := (x % 4294967296).toNat

/-- The `unsigned long duration_ms` of `benchmark_endtime`:
`(end.tv_sec * 1000 + end.tv_nsec / 1000 / 1000) - (bench_start_time.tv_sec * 1000 +
bench_start_time.tv_nsec / 1000 / 1000)`, computed in `long` and stored as
`unsigned long`. -/
def endtime_duration_ms (bench_start_time now : timespec) : Nat :=
  to_ulong ((now.tv_sec * 1000 + (now.tv_nsec.tdiv 1000).tdiv 1000) -
    (bench_start_time.tv_sec * 1000 + (bench_start_time.tv_nsec.tdiv 1000).tdiv 1000))

/-- Return 1 if it is time to end the benchmark: `now` is the value of
`current_kernel_time()`, and the `int duration` is converted to `unsigned long`
by the comparison. -/
def benchmark_endtime (bench_start_time : timespec) (duration : Int) (now : timespec) : Int :=
  if endtime_duration_ms bench_start_time now ≥ to_ulong duration then 1 else 0

/-- The `unsigned long duration_ms` of the worker loop:
`(end.tv_sec * 1000 + end.tv_nsec / 1000000) - (start.tv_sec * 1000 +
start.tv_nsec / 1000000)`. -/
def thread_duration_ms (start now : timespec) : Nat :=
  to_ulong ((now.tv_sec * 1000 + now.tv_nsec.tdiv 1000000) -
    (start.tv_sec * 1000 + start.tv_nsec.tdiv 1000000))

/-- Generate a pseudo random in range `[0:n[`: `prandom_u32_state(seed) % n` for
the 32-bit value `x` the generator returns; the remainder is taken in
`unsigned int` and returned as `int`. -/
def rand_range (n : Int) (x : Nat) : Option Int :=
  if to_uint n = 0 then none
  else some (wrap_int (((x % 4294967296) % to_uint n : Nat) : Int))

/-- The operations of a `benchmark_t`, with the global hash list as argument. -/
structure benchmark_t where
  name : String
  lookup : hash_list_t → State → Int → Option (State × Int)
  insert : hash_list_t → State → Int → Option (State × Int)
  delete : hash_list_t → State → Int → Option (State × Int)

/-- The part of a `benchmark_thread_t` the worker loop changes: the number of
values drawn from `rnd` so far and the five counters `ops` (`unsigned long`). -/
structure benchmark_thread where
  rnd : Nat
  nb_lookup : Nat
  nb_insert : Nat
  nb_delete : Nat
  nb_ins_abort : Nat
  nb_del_abort : Nat
deriving DecidableEq, Repr

/-- The body of the `do … while` of `sync_test_thread` up to the reading of the
clock; `prandom i` is the `i`-th value `prandom_u32_state(&bench->rnd)` returns.
The test `(op & 1) == 0` is the test of the lowest bit, `op % 2 = 0`. -/
def sync_test_iteration (bench : benchmark_t) (g : hash_list_t) (update range : Int)
    (prandom : Nat → Nat) (s : State) (t : benchmark_thread) :
    Option (State × benchmark_thread) := do
  let op ← rand_range 10000 (prandom t.rnd)
  let val ← rand_range range (prandom (t.rnd + 1))
  let t := { t with rnd := t.rnd + 2 }
  if op < update then do
    let op ← rand_range 2 (prandom t.rnd)
    let t := { t with rnd := t.rnd + 1 }
    if op % 2 = 0 then do
      let (s, r) ← bench.insert g s val
      if r = 0 then pure (s, { t with nb_insert := wrap_ulong (t.nb_insert + 1) })
      else pure (s, { t with nb_ins_abort := wrap_ulong (t.nb_ins_abort + 1) })
    else do
      let (s, r) ← bench.delete g s val
      if r = 0 then pure (s, { t with nb_delete := wrap_ulong (t.nb_delete + 1) })
      else pure (s, { t with nb_del_abort := wrap_ulong (t.nb_del_abort + 1) })
  else do
    let (s, _) ← bench.lookup g s val
    pure (s, { t with nb_lookup := wrap_ulong (t.nb_lookup + 1) })

/-- The loop `do { … } while (duration_ms < duration);` of `sync_test_thread`:
`clock` lists the values `current_kernel_time()` returns at the end of the
next iterations (with none left the loop has not ended). -/
def sync_test_thread (bench : benchmark_t) (g : hash_list_t) (update range duration : Int)
    (prandom : Nat → Nat) (start : timespec) :
    List timespec → State → benchmark_thread → Option (State × benchmark_thread)
  | [], _, _ => none
  | now :: clock, s, t =>
    match sync_test_iteration bench g update range prandom s t with
    | some (s, t) =>
      if thread_duration_ms start now < to_ulong duration then
        sync_test_thread bench g update range duration prandom start clock s t
      else some (s, t)
    | none => none

/-- The loop `while (insert(…, get_random_int() % range)) ;` of the pre-fill:
`random i` is the `i`-th value of `get_random_int()`, `pos` the number of values
used so far; `fuel` bounds the number of calls. -/
def prefill_insert (insert : State → Int → Option (State × Int)) (range : Int)
    (random : Nat → Nat) : Nat → Nat → State → Option (State × Nat)
  | 0, _, _ => none
  | fuel + 1, pos, s =>
    match rand_range range (random pos) with
    | some val =>
      match insert s val with
      | some (s, r) =>
        if r ≠ 0 then prefill_insert insert range random fuel (pos + 1) s
        else some (s, pos + 1)
      | none => none
    | none => none

/-- The insert function the pre-fill uses: `rcu_hash_list_add` for the
benchmarks whose name starts with `rcu-`, `bench->insert` for the others. -/
def prefill_function (bench : benchmark_t) (g : hash_list_t) :
    State → Int → Option (State × Int) :=
  if bench.name.data.take 4 = ['r', 'c', 'u', '-'] then rcu_hash_list_add g
  else bench.insert g

/-- The loop `for (i = 0; i < range / 2; i++)` that half fills the set, with
`todo` iterations left. -/
def prefill_loop (bench : benchmark_t) (g : hash_list_t) (range : Int) (random : Nat → Nat)
    (fuel : Nat) : Nat → Nat → State → Option (State × Nat)
  | 0, pos, s => some (s, pos)
  | todo + 1, pos, s =>
    match prefill_insert (prefill_function bench g) range random fuel pos s with
    | some (s, pos) => prefill_loop bench g range random fuel todo pos s
    | none => none

/-- Half fill the set: `range / 2` iterations of the pre-fill loop. -/
def half_fill (bench : benchmark_t) (g : hash_list_t) (range : Int) (random : Nat → Nat)
    (fuel : Nat) (s : State) : Option (State × Nat) :=
  prefill_loop bench g range random fuel (range.tdiv 2).toNat 0 s

/-- The registry entry `rcu`. -/
def benchmark_rcu : benchmark_t :=
  { name := "rcu", lookup := rcu_hash_list_contains, insert := rcu_hash_list_add,
    delete := rcu_hash_list_remove }

/-- The registry entry `rcu-fglock`; `fuel` bounds the passes of a call. -/
def benchmark_rcu_fglock (fuel : Nat) : benchmark_t :=
  { name := "rcu-fglock", lookup := rcu_hash_list_contains, insert := rcu_hash_list_fg_add fuel,
    delete := rcu_hash_list_fg_remove fuel }

/-- The registry entry `forgive`, called on CPU `cpu`. -/
def benchmark_forgive (cpu : Nat) : benchmark_t :=
  { name := "forgive", lookup := rcx_hash_list_contains, insert := rcx_hash_list_try_add cpu,
    delete := rcx_hash_list_try_remove cpu }

/-! ## The sums the summary is compared with -/

/-- The sum over the CPUs `online` of their `nr_aborts`, as a number (no
wrap-around). -/
def sum_nr_aborts (abort_cnt : List rtm_abort_cnt) (online : List Nat) : Nat :=
  (online.map fun cpu => ((abort_cnt[cpu]?).map fun cnt => cnt.nr_aborts).getD 0).sum

/-- The sum over the CPUs `online` of their counter of the reason `i`, as a
number (no wrap-around). -/
def sum_counts (abort_cnt : List rtm_abort_cnt) (online : List Nat) (i : Nat) : Nat :=
  (online.map fun cpu => ((abort_cnt[cpu]?).map fun cnt => cnt.counts.getD i 0).getD 0).sum

/-- The memory `mem_3_7` on a machine with two CPUs that have recorded aborts. -/
def mem_two_cpus : State :=
  { mem_3_7 with
    abort_cnt := [{ counts := [1, 2, 2, 0, 0, 0, 0, 1, 0], nr_aborts := 3 },
                  { counts := [0, 1, 1, 1, 0, 0, 0, 0, 0], nr_aborts := 2 }] }

/-! ## What the counters of a worker are compared with -/

/-- The five counters `ops` of a worker: lookups, inserts, deletes, insert
aborts, delete aborts. -/
def ops_counters (t : benchmark_thread) : List Nat :=
  [t.nb_lookup, t.nb_insert, t.nb_delete, t.nb_ins_abort, t.nb_del_abort]

/-- The number of updates issued: how many of the first `n` iterations of the
worker loop, from position `rnd` of the random stream, draw an `op` below
`update` (such an iteration uses three random values, a lookup two). -/
def updates_issued (update : Int) (prandom : Nat → Nat) : Nat → Nat → Nat
  | 0, _ => 0
  | n + 1, rnd =>
    match rand_range 10000 (prandom rnd) with
    | some op =>
      if op < update then updates_issued update prandom n (rnd + 3) + 1
      else updates_issued update prandom n (rnd + 2)
    | none => 0

/-- A worker before its first iteration: no random value drawn, all counters
zero. -/
def thread_start : benchmark_thread :=
  { rnd := 0, nb_lookup := 0, nb_insert := 0, nb_delete := 0, nb_ins_abort := 0,
    nb_del_abort := 0 }

/-! ## `sync_test.c`: a run with one thread -/

/-- What `sync_test_init` does to the set and to the counters of thread 0 when
`threads_nb = 1`: `bench->init(nr_buckets, NULL)` (the function `init`), the
half fill, and `sync_test_thread(benchmark_threads[0])`, whose counters
`kzalloc` has set to 0. -/
def sync_test_init (bench : benchmark_t) (init : State → Int → Option (State × hash_list_t))
    (nr_buckets update range duration : Int) (random prandom : Nat → Nat) (fuel : Nat)
    (start : timespec) (clock : List timespec) (s : State) :
    Option (State × benchmark_thread) :=
  match init s nr_buckets with
  | some (s, g) =>
    match half_fill bench g range random fuel s with
    | some (s, _) =>
      sync_test_thread bench g update range duration prandom start clock s thread_start
    | none => none
  | none => none

/-- The memory when the module is loaded on one CPU whose first hardware
transaction will abort with a conflict: no node, no list, all abort counters 0. -/
def mem_load_abort : State :=
  { State.empty with
    xbegin := [XABORT_RETRY ||| XABORT_CONFLICT]
    abort_cnt := [{ counts := [0, 0, 0, 0, 0, 0, 0, 0, 0], nr_aborts := 0 }] }

/-! ## `rcu-hash-list.c`: the NUMA-aware remove -/

/-- The calls `spin_lock(&pndslock(p_prev)); spin_lock(&pndslock(p_next));
spin_lock(&pndslock(n));`, with the values `n1`, `n2`, `n3` of
`numa_node_id()`. -/
def pnd_lock_triple (s : State) (p_prev p_next : Nat) (n : Option Nat) (n1 n2 n3 : Nat) :
    Option State :=
  match spin_lock_pnd s p_prev n1 with
  | some s =>
    match spin_lock_pnd s p_next n2 with
    | some s =>
      match n with
      | some p_n => spin_lock_pnd s p_n n3
      | none => none
    | none => none
  | none => none

/-- The calls `spin_unlock(&pndslock(n)); spin_unlock(&pndslock(p_next));
spin_unlock(&pndslock(p_prev));`, with the values `n1`, `n2`, `n3` of
`numa_node_id()`. -/
def pnd_unlock_triple (s : State) (p_prev p_next p_n n1 n2 n3 : Nat) : Option State :=
  match spin_unlock_pnd s p_n n1 with
  | some s =>
    match spin_unlock_pnd s p_next n2 with
    | some s => spin_unlock_pnd s p_prev n3
    | none => none
  | none => none

/-- NUMA-aware locking version of `rcu_list_try_remove`: returns the value of
`p_node->val == val`; `numa_node_id i` is the value of `numa_node_id()` at the
`i`-th of the six places of a pass that evaluate it, and the following passes
use the following values. -/
def rcu_list_numa_remove : Nat → (Nat → Nat) → State → Nat → Int → Option (State × Int)
  | 0, _, _, _, _ => none
  | fuel + 1, numa_node_id, s, p_list, val => do
    let (p_prev, p_next, v) ← list_find s p_list val
    let result : Int := if v = val then 1 else 0
    if v = val then do
      let nx ← s.nodes[p_next]?
      let n := nx.p_next
      let s ← pnd_lock_triple s p_prev p_next n (numa_node_id 0) (numa_node_id 1)
        (numa_node_id 2)
      let p_n ← n
      let s ← global_lock_triple s p_prev p_next n
      let check ← remove_validate s p_prev p_next n
      if check ≠ 0 then do
        let s ← global_unlock_triple s p_prev p_next p_n
        let s ← pnd_unlock_triple s p_prev p_next p_n (numa_node_id 3) (numa_node_id 4)
          (numa_node_id 5)
        rcu_list_numa_remove fuel (fun i => numa_node_id (i + 6)) s p_list val
      else do
        let s ← node_store s p_prev (fun m => { m with p_next := n })
        let s ← node_store s p_next (fun m => { m with removed := 1 })
        let s := rcu_free_node s p_next
        let s ← global_unlock_triple s p_prev p_next p_n
        let s ← pnd_unlock_triple s p_prev p_next p_n (numa_node_id 3) (numa_node_id 4)
          (numa_node_id 5)
        pure (s, result)
    else pure (s, result)

/-- NUMA-aware locking version of `rcu_hash_list_try_remove`. -/
def rcu_hash_list_numa_remove (fuel : Nat) (numa_node_id : Nat → Nat)
    (g_hash_list : hash_list_t) (s : State) (val : Int) : Option (State × Int) := do
  let hash ← HASH_VALUE g_hash_list val
  let p_list ← bucket_at g_hash_list hash
  rcu_list_numa_remove fuel numa_node_id s p_list val

/-! ## `rcx-hash-list.c`: the removes with a locking fallback -/

/-- The coarse-locked deletion used as fallback by `rcx_list_lf_remove`
(`retries++ >= LF_RETRY_LIMIT`) and `rcx_list_fb1_remove` (`locking_path`): it
stores `n->removed = 1`, where `n` is the successor of the unlinked node. -/
def rcx_list_locked_remove (s : State) (p_list : Nat) (val : Int) : Option (State × Int) := do
  let s ← spin_lock_list s p_list
  let (p_prev, p_next, v) ← list_find s p_list val
  if v = val then do
    let nx ← s.nodes[p_next]?
    let n := nx.p_next
    let s ← node_store s p_prev (fun m => { m with p_next := n })
    let p_n ← n
    let s ← node_store s p_n (fun m => { m with removed := 1 })
    let s ← spin_unlock_list s p_list
    let s := rcx_free_node s p_next
    pure (s, 1)
  else do
    let s ← spin_unlock_list s p_list
    pure (s, 0)

/-- The status the `if (tx_stat == _XBEGIN_STARTED)` of the speculative path of
`rcx_list_lf_remove` / `rcx_list_fb1_remove` sees: as `rcx_remove_tx_stat`, with
the check of the fallback lock first. -/
def rcx_lf_remove_tx_stat (s : State) (tx_stat : Nat) (p_list p_prev p_next : Nat)
    (n : Option Nat) : Option Nat :=
  if tx_stat = XBEGIN_STARTED then
    match spin_is_locked_list s p_list with
    | some true => some (xabort_status ABORT_LF_CONFLICT)
    | some false => rcx_remove_tx_stat s tx_stat p_prev p_next n
    | none => none
  else some tx_stat

/-- Delete with locking fallback, from the label `retry` with the current value
of `retries` (the test is `retries++ >= LF_RETRY_LIMIT`); `fuel` bounds the
number of passes. -/
def rcx_list_lf_remove_retry : Nat → Int → Nat → State → Nat → Int → Option (State × Int)
  | 0, _, _, _, _, _ => none
  | fuel + 1, retries, cpu, s, p_list, val =>
    if retries ≥ LF_RETRY_LIMIT then rcx_list_locked_remove s p_list val
    else do
      let (p_prev, p_next, v) ← list_find s p_list val
      let result : Int := if v = val then 1 else 0
      if v = val then do
        let held ← spin_is_locked_list s p_list
        if held then none
        else do
          let nx ← s.nodes[p_next]?
          let n := nx.p_next
          let (tx_stat, s) := xbegin s
          let tx_stat ← rcx_lf_remove_tx_stat s tx_stat p_list p_prev p_next n
          if tx_stat = XBEGIN_STARTED then do
            let s ← node_store s p_prev (fun m => { m with p_next := n })
            let s ← node_store s p_next (fun m => { m with removed := 1 })
            let s := rcx_free_node s p_next
            pure (s, result)
          else do
            let s ← record_abort s cpu tx_stat
            rcx_list_lf_remove_retry fuel (retries + 1) cpu s p_list val
      else pure (s, result)

/-- Deletes a value from a list with locking fallback: at most `LF_RETRY_LIMIT`
speculative passes, then the locked pass. -/
def rcx_list_lf_remove (cpu : Nat) (s : State) (p_list : Nat) (val : Int) :
    Option (State × Int) :=
  rcx_list_lf_remove_retry 11 0 cpu s p_list val

/-- Deletes a value from a list with locking fallback, retry based on the abort
reason: `htm_path` is the recursive call, `locking_path` the locked deletion. -/
def rcx_list_fb1_remove : Nat → Nat → State → Nat → Int → Option (State × Int)
  | 0, _, _, _, _ => none
  | fuel + 1, cpu, s, p_list, val => do
    let (p_prev, p_next, v) ← list_find s p_list val
    let result : Int := if v = val then 1 else 0
    if v = val then do
      let held ← spin_is_locked_list s p_list
      if held then none
      else do
        let nx ← s.nodes[p_next]?
        let n := nx.p_next
        let (tx_stat, s) := xbegin s
        let tx_stat ← rcx_lf_remove_tx_stat s tx_stat p_list p_prev p_next n
        if tx_stat = XBEGIN_STARTED then do
          let s ← node_store s p_prev (fun m => { m with p_next := n })
          let s ← node_store s p_next (fun m => { m with removed := 1 })
          let s := rcx_free_node s p_next
          pure (s, result)
        else do
          let s ← record_abort s cpu tx_stat
          if tx_stat &&& XABORT_RETRY ≠ 0 then rcx_list_fb1_remove fuel cpu s p_list val
          else rcx_list_locked_remove s p_list val
    else pure (s, result)

/-- Locking fallback version of `rcx_hash_list_remove`: returns zero only. -/
def rcx_hash_list_lf_remove (cpu : Nat) (g_hash_list : hash_list_t) (s : State) (val : Int) :
    Option (State × Int) := do
  let hash ← HASH_VALUE g_hash_list val
  let p_list ← bucket_at g_hash_list hash
  let (s, _) ← rcx_list_lf_remove cpu s p_list val
  pure (s, 0)

/-- First candidate of the final `rcx_hash_list_remove`: returns zero only. -/
def rcx_hash_list_fb1_remove (fuel cpu : Nat) (g_hash_list : hash_list_t) (s : State)
    (val : Int) : Option (State × Int) := do
  let hash ← HASH_VALUE g_hash_list val
  let p_list ← bucket_at g_hash_list hash
  let (s, _) ← rcx_list_fb1_remove fuel cpu s p_list val
  pure (s, 0)

/-! ## `rcx-hash-list.c`: the removes of the HTM-lock protocols -/

/-- The wait `while (htmlock(p_prev) == 1 || htmlock(p_next) == 1 ||
htmlock(n) == 1) smp_wmb();`: with a flag set it never ends. -/
def htmlock_wait_triple (s : State) (p_prev p_next : Nat) (n : Option Nat) : Option Unit :=
  match n with
  | some p_n =>
    match htmlock_is_set s p_prev, htmlock_is_set s p_next, htmlock_is_set s p_n with
    | some a, some b, some c => if a ∨ b ∨ c then none else some ()
    | _, _, _ => none
  | none => none

/-- The transaction that sets the HTM flags of three nodes: the status seen by
the `if`, and the memory (with the three flags set when it commits). -/
def htmlock_tx_triple (s : State) (p_prev p_next : Nat) (n : Option Nat) :
    Option (Nat × State) :=
  match xbegin s with
  | (tx_stat, s) =>
    if tx_stat = XBEGIN_STARTED then
      match n with
      | some p_n =>
        match htmlock_is_set s p_prev, htmlock_is_set s p_next, htmlock_is_set s p_n with
        | some a, some b, some c =>
          if a ∨ b ∨ c then some (xabort_status ABORT_CONFLICT, s)
          else
            match htmlock_store s p_prev true with
            | some s =>
              match htmlock_store s p_next true with
              | some s =>
                match htmlock_store s p_n true with
                | some s => some (XBEGIN_STARTED, s)
                | none => none
              | none => none
            | none => none
        | _, _, _ => none
      | none => none
    else some (tx_stat, s)

/-- The stores `htmlock(n) = 0; htmlock(p_next) = 0; htmlock(p_prev) = 0;`. -/
def htmlock_clear_triple (s : State) (p_prev p_next p_n : Nat) : Option State :=
  match htmlock_store s p_n false with
  | some s =>
    match htmlock_store s p_next false with
    | some s => htmlock_store s p_prev false
    | none => none
  | none => none

/-- The wait `while (pnodelock(p_prev) == 1 || pnodelock(p_next) == 1 ||
pnodelock(n) == 1) …;`, with the values `n1`, `n2`, `n3` of `numa_node_id()`. -/
def pnodelock_wait_triple (s : State) (p_prev p_next : Nat) (n : Option Nat) (n1 n2 n3 : Nat) :
    Option Unit :=
  match n with
  | some p_n =>
    match pnodelock_is_set s p_prev n1, pnodelock_is_set s p_next n2,
      pnodelock_is_set s p_n n3 with
    | some a, some b, some c => if a ∨ b ∨ c then none else some ()
    | _, _, _ => none
  | none => none

/-- The transaction that sets the per-NUMA flags of three nodes (`c1`, `c2`,
`c3` are the values of `numa_node_id()` at the three checks, `n1`, `n2`, `n3`
at the three stores). -/
def pnodelock_tx_triple (s : State) (p_prev p_next : Nat) (n : Option Nat)
    (c1 c2 c3 n1 n2 n3 : Nat) : Option (Nat × State) :=
  match xbegin s with
  | (tx_stat, s) =>
    if tx_stat = XBEGIN_STARTED then
      match n with
      | some p_n =>
        match pnodelock_is_set s p_prev c1, pnodelock_is_set s p_next c2,
          pnodelock_is_set s p_n c3 with
        | some a, some b, some c =>
          if a ∨ b ∨ c then some (xabort_status ABORT_CONFLICT, s)
          else
            match pnodelock_store s p_prev n1 true with
            | some s =>
              match pnodelock_store s p_next n2 true with
              | some s =>
                match pnodelock_store s p_n n3 true with
                | some s => some (XBEGIN_STARTED, s)
                | none => none
              | none => none
            | none => none
        | _, _, _ => none
      | none => none
    else some (tx_stat, s)

/-- The stores `pnodelock(n) = 0; pnodelock(p_next) = 0; pnodelock(p_prev) = 0;`,
with the values `n1`, `n2`, `n3` of `numa_node_id()`. -/
def pnodelock_clear_triple (s : State) (p_prev p_next p_n n1 n2 n3 : Nat) : Option State :=
  match pnodelock_store s p_n n1 false with
  | some s =>
    match pnodelock_store s p_next n2 false with
    | some s => pnodelock_store s p_prev n3 false
    | none => none
  | none => none

/-- The validation of a remove after the locks are taken, with its
`record_abort` call: the flag tells whether the validation passed. -/
def remove_validate_record (cpu : Nat) (s : State) (p_prev p_next : Nat) (n : Option Nat) :
    Option (State × Bool) :=
  match remove_validate s p_prev p_next n with
  | some 0 => some (s, true)
  | some 1 =>
    match record_abort s cpu ABORT_DOUBLE_FREE with
    | some s => some (s, false)
    | none => none
  | some _ =>
    match record_abort s cpu ABORT_CONFLICT with
    | some s => some (s, false)
    | none => none
  | none => none

/-- Deletes a value from a list protected by the HTM-based locking only. -/
def rcx_list_htmlock_remove : Nat → Nat → State → Nat → Int → Option (State × Int)
  | 0, _, _, _, _ => none
  | fuel + 1, cpu, s, p_list, val => do
    let (p_prev, p_next, v) ← list_find s p_list val
    let result : Int := if v = val then 1 else 0
    if v = val then do
      let nx ← s.nodes[p_next]?
      let n := nx.p_next
      let _ ← htmlock_wait_triple s p_prev p_next n
      let (tx_stat, s) ← htmlock_tx_triple s p_prev p_next n
      if tx_stat = XBEGIN_STARTED then do
        let p_n ← n
        let (s, valid) ← remove_validate_record cpu s p_prev p_next n
        if valid then do
          let s ← node_store s p_prev (fun m => { m with p_next := n })
          let s ← node_store s p_next (fun m => { m with removed := 1 })
          let s := rcx_free_node s p_next
          let s ← htmlock_clear_triple s p_prev p_next p_n
          pure (s, result)
        else do
          let s ← htmlock_clear_triple s p_prev p_next p_n
          rcx_list_htmlock_remove fuel cpu s p_list val
      else do
        let s ← record_abort s cpu tx_stat
        rcx_list_htmlock_remove fuel cpu s p_list val
    else pure (s, result)

/-- The loop `retry_global_lock` of `rcx_list_hhtmlock_remove`: wait, then the
transaction on the three HTM flags, again after every abort. -/
def hhtmlock_global_triple : Nat → Nat → State → Nat → Nat → Option Nat → Option State
  | 0, _, _, _, _, _ => none
  | fuel + 1, cpu, s, p_prev, p_next, n => do
    let _ ← htmlock_wait_triple s p_prev p_next n
    let (tx_stat, s) ← htmlock_tx_triple s p_prev p_next n
    if tx_stat = XBEGIN_STARTED then pure s
    else do
      let s ← record_abort s cpu tx_stat
      hhtmlock_global_triple fuel cpu s p_prev p_next n

/-- Deletes a value from a list protected by the HTM-based hierarchical locking;
`numa_node_id i` is the value of `numa_node_id()` at the `i`-th of the twelve
places of a pass that evaluate it, and the following passes use the following
values. -/
def rcx_list_hhtmlock_remove :
    Nat → Nat → (Nat → Nat) → State → Nat → Int → Option (State × Int)
  | 0, _, _, _, _, _ => none
  | fuel + 1, cpu, numa_node_id, s, p_list, val => do
    let (p_prev, p_next, v) ← list_find s p_list val
    let result : Int := if v = val then 1 else 0
    if v = val then do
      let nx ← s.nodes[p_next]?
      let n := nx.p_next
      let _ ← pnodelock_wait_triple s p_prev p_next n (numa_node_id 0) (numa_node_id 1)
        (numa_node_id 2)
      let (tx_stat, s) ← pnodelock_tx_triple s p_prev p_next n (numa_node_id 3)
        (numa_node_id 4) (numa_node_id 5) (numa_node_id 6) (numa_node_id 7) (numa_node_id 8)
      if tx_stat = XBEGIN_STARTED then do
        let p_n ← n
        let s ← hhtmlock_global_triple (fuel + 1) cpu s p_prev p_next n
        let (s, valid) ← remove_validate_record cpu s p_prev p_next n
        if valid then do
          let s ← node_store s p_prev (fun m => { m with p_next := n })
          let s ← node_store s p_next (fun m => { m with removed := 1 })
          let s := rcx_free_node s p_next
          let s ← htmlock_clear_triple s p_prev p_next p_n
          let s ← pnodelock_clear_triple s p_prev p_next p_n (numa_node_id 9)
            (numa_node_id 10) (numa_node_id 11)
          pure (s, result)
        else do
          let s ← htmlock_clear_triple s p_prev p_next p_n
          let s ← pnodelock_clear_triple s p_prev p_next p_n (numa_node_id 9)
            (numa_node_id 10) (numa_node_id 11)
          rcx_list_hhtmlock_remove fuel cpu (fun i => numa_node_id (i + 12)) s p_list val
      else do
        let s ← record_abort s cpu tx_stat
        rcx_list_hhtmlock_remove fuel cpu (fun i => numa_node_id (i + 12)) s p_list val
    else pure (s, result)

/-- Deletes a value from a list in the NUMA-aware manner: per-NUMA flags set in
a transaction, then the global spinlocks; `numa_node_id` as in
`rcx_list_hhtmlock_remove`. -/
def rcx_list_numa_remove :
    Nat → Nat → (Nat → Nat) → State → Nat → Int → Option (State × Int)
  | 0, _, _, _, _, _ => none
  | fuel + 1, cpu, numa_node_id, s, p_list, val => do
    let (p_prev, p_next, v) ← list_find s p_list val
    let result : Int := if v = val then 1 else 0
    if v = val then do
      let nx ← s.nodes[p_next]?
      let n := nx.p_next
      let _ ← pnodelock_wait_triple s p_prev p_next n (numa_node_id 0) (numa_node_id 1)
        (numa_node_id 2)
      let (tx_stat, s) ← pnodelock_tx_triple s p_prev p_next n (numa_node_id 3)
        (numa_node_id 4) (numa_node_id 5) (numa_node_id 6) (numa_node_id 7) (numa_node_id 8)
      if tx_stat = XBEGIN_STARTED then do
        let p_n ← n
        let s ← global_lock_triple s p_prev p_next n
        let (s, valid) ← remove_validate_record cpu s p_prev p_next n
        if valid then do
          let s ← node_store s p_prev (fun m => { m with p_next := n })
          let s ← node_store s p_next (fun m => { m with removed := 1 })
          let s := rcx_free_node s p_next
          let s ← global_unlock_triple s p_prev p_next p_n
          let s ← pnodelock_clear_triple s p_prev p_next p_n (numa_node_id 9)
            (numa_node_id 10) (numa_node_id 11)
          pure (s, result)
        else do
          let s ← global_unlock_triple s p_prev p_next p_n
          let s ← pnodelock_clear_triple s p_prev p_next p_n (numa_node_id 9)
            (numa_node_id 10) (numa_node_id 11)
          rcx_list_numa_remove fuel cpu (fun i => numa_node_id (i + 12)) s p_list val
      else do
        let s ← record_abort s cpu tx_stat
        rcx_list_numa_remove fuel cpu (fun i => numa_node_id (i + 12)) s p_list val
    else pure (s, result)

/-- The hash-level remove of `rcx-htmlock`: returns zero only. -/
def rcx_hash_list_htmlock_remove (fuel cpu : Nat) (g_hash_list : hash_list_t) (s : State)
    (val : Int) : Option (State × Int) := do
  let hash ← HASH_VALUE g_hash_list val
  let p_list ← bucket_at g_hash_list hash
  let (s, _) ← rcx_list_htmlock_remove fuel cpu s p_list val
  pure (s, 0)

/-- The hash-level remove of `rcx-hhtmlock`: returns zero only. -/
def rcx_hash_list_hhtmlock_remove (fuel cpu : Nat) (numa_node_id : Nat → Nat)
    (g_hash_list : hash_list_t) (s : State) (val : Int) : Option (State × Int) := do
  let hash ← HASH_VALUE g_hash_list val
  let p_list ← bucket_at g_hash_list hash
  let (s, _) ← rcx_list_hhtmlock_remove fuel cpu numa_node_id s p_list val
  pure (s, 0)

/-- The hash-level remove of `rcx`: returns zero only. -/
def rcx_hash_list_numa_remove (fuel cpu : Nat) (numa_node_id : Nat → Nat)
    (g_hash_list : hash_list_t) (s : State) (val : Int) : Option (State × Int) := do
  let hash ← HASH_VALUE g_hash_list val
  let p_list ← bucket_at g_hash_list hash
  let (s, _) ← rcx_list_numa_remove fuel cpu numa_node_id s p_list val
  pure (s, 0)

/-! ## `sync_test.c`: the registry and the checks of `sync_test_init` -/

/-- The kernel's `EPERM` errno value. -/
def EPERM : Int := 1

/-- Size of the array `benchmarks`. -/
def MAX_BENCHMARKS : Nat := 16

/-- The functions the registry points to (those of `rlu.c` are named only: that
file is not among the sources). -/
inductive bench_fn where
  | rcu_hash_list_init | rcu_hash_list_contains | rcu_hash_list_destroy
  | rcu_hash_list_add | rcu_hash_list_remove
  | rcu_hash_list_try_add | rcu_hash_list_try_remove
  | rcu_hash_list_fg_add | rcu_hash_list_fg_remove
  | rcu_hash_list_numa_add | rcu_hash_list_numa_remove
  | rlu_hash_list_init | rlu_hash_list_contains
  | rlu_hash_list_add | rlu_hash_list_remove
  | rlu_hash_list_try_add | rlu_hash_list_try_remove
  | rcx_hash_list_init | rcx_hash_list_contains | rcx_hash_list_destroy
  | rcx_hash_list_lf_add | rcx_hash_list_lf_remove
  | rcx_hash_list_try_add | rcx_hash_list_try_remove
  | rcx_hash_list_retry_add | rcx_hash_list_retry_remove
  | rcx_hash_list_fb1_add | rcx_hash_list_fb1_remove
  | rcx_hash_list_htmlock_add | rcx_hash_list_htmlock_remove
  | rcx_hash_list_hhtmlock_add | rcx_hash_list_hhtmlock_remove
  | rcx_hash_list_numa_add | rcx_hash_list_numa_remove
deriving DecidableEq, Repr

/-- An element of the array `benchmarks`: the name (the characters before the
terminating NUL) and the five function pointers, `none` for `NULL`. -/
structure benchmark_slot where
  name : String
  init : Option bench_fn
  lookup : Option bench_fn
  insert : Option bench_fn
  delete : Option bench_fn
  destroy : Option bench_fn
deriving DecidableEq, Repr

/-- An element of `benchmarks` without initialiser: all bytes zero. -/
def benchmark_slot_zero : benchmark_slot :=
  { name := "", init := none, lookup := none, insert := none, delete := none, destroy := none }

/-- The array `benchmarks[MAX_BENCHMARKS]`: thirteen initialised elements, the
rest zero. -/
def benchmarks : List benchmark_slot :=
  [{ name := "rcu", init := some .rcu_hash_list_init, lookup := some .rcu_hash_list_contains,
     insert := some .rcu_hash_list_add, delete := some .rcu_hash_list_remove,
     destroy := some .rcu_hash_list_destroy },
   { name := "rcu-forgive", init := some .rcu_hash_list_init,
     lookup := some .rcu_hash_list_contains, insert := some .rcu_hash_list_try_add,
     delete := some .rcu_hash_list_try_remove, destroy := some .rcu_hash_list_destroy },
   { name := "rcu-fglock", init := some .rcu_hash_list_init,
     lookup := some .rcu_hash_list_contains, insert := some .rcu_hash_list_fg_add,
     delete := some .rcu_hash_list_fg_remove, destroy := some .rcu_hash_list_destroy },
   { name := "rcu-numa", init := some .rcu_hash_list_init,
     lookup := some .rcu_hash_list_contains, insert := some .rcu_hash_list_numa_add,
     delete := some .rcu_hash_list_numa_remove, destroy := some .rcu_hash_list_destroy },
   { name := "rlu", init := some .rlu_hash_list_init, lookup := some .rlu_hash_list_contains,
     insert := some .rlu_hash_list_add, delete := some .rlu_hash_list_remove,
     destroy := none },
   { name := "rlu-forgive", init := some .rlu_hash_list_init,
     lookup := some .rlu_hash_list_contains, insert := some .rlu_hash_list_try_add,
     delete := some .rlu_hash_list_try_remove, destroy := none },
   { name := "rcuhtm", init := some .rcx_hash_list_init,
     lookup := some .rcx_hash_list_contains, insert := some .rcx_hash_list_lf_add,
     delete := some .rcx_hash_list_lf_remove, destroy := some .rcx_hash_list_destroy },
   { name := "forgive", init := some .rcx_hash_list_init,
     lookup := some .rcx_hash_list_contains, insert := some .rcx_hash_list_try_add,
     delete := some .rcx_hash_list_try_remove, destroy := some .rcx_hash_list_destroy },
   { name := "retry", init := some .rcx_hash_list_init,
     lookup := some .rcx_hash_list_contains, insert := some .rcx_hash_list_retry_add,
     delete := some .rcx_hash_list_retry_remove, destroy := some .rcx_hash_list_destroy },
   { name := "hwa", init := some .rcx_hash_list_init, lookup := some .rcx_hash_list_contains,
     insert := some .rcx_hash_list_fb1_add, delete := some .rcx_hash_list_fb1_remove,
     destroy := some .rcx_hash_list_destroy },
   { name := "rcx-htmlock", init := some .rcx_hash_list_init,
     lookup := some .rcx_hash_list_contains, insert := some .rcx_hash_list_htmlock_add,
     delete := some .rcx_hash_list_htmlock_remove, destroy := some .rcx_hash_list_destroy },
   { name := "rcx-hhtmlock", init := some .rcx_hash_list_init,
     lookup := some .rcx_hash_list_contains, insert := some .rcx_hash_list_hhtmlock_add,
     delete := some .rcx_hash_list_hhtmlock_remove, destroy := some .rcx_hash_list_destroy },
   { name := "rcx", init := some .rcx_hash_list_init, lookup := some .rcx_hash_list_contains,
     insert := some .rcx_hash_list_numa_add, delete := some .rcx_hash_list_numa_remove,
     destroy := some .rcx_hash_list_destroy },
   benchmark_slot_zero, benchmark_slot_zero, benchmark_slot_zero]

/-- The loop `for (i = 0; i < MAX_BENCHMARKS; i++)` of `sync_test_init` over the
elements that are left: the first one whose name `strcmp` finds equal to
`benchmark` (`benchmarks[i].name` is an array, so the test of the pointer is
always true). -/
def find_benchmark : List benchmark_slot → String → Option benchmark_slot
  | [], _ => none
  | b :: bs, benchmark => if b.name = benchmark then some b else find_benchmark bs benchmark

/-- The selection of the benchmark by `sync_test_init`: the look-up, then the
two error checks `!bench` and `bench->lookup == NULL || bench->insert == NULL ||
bench->delete == NULL`; `Sum.inl` is the value the function returns early. -/
def select_benchmark (benchmark : String) : Int ⊕ benchmark_slot :=
  match find_benchmark benchmarks benchmark with
  | none => Sum.inl (-EPERM)
  | some bench =>
    if bench.lookup = none ∨ bench.insert = none ∨ bench.delete = none then Sum.inl (-EPERM)
    else Sum.inr bench

/-- The error checks of `sync_test_init`, up to the initialisation:
`num_online_cpus` is the value of `num_online_cpus()`, and `RLU_MAX_THREADS`
is a constant of `rlu.h`, which is not among the sources. -/
def sync_test_checks (benchmark : String) (threads_nb nr_buckets num_online_cpus
    RLU_MAX_THREADS : Int) : Int ⊕ benchmark_slot :=
  match select_benchmark benchmark with
  | Sum.inl err => Sum.inl err
  | Sum.inr bench =>
    if threads_nb > num_online_cpus then Sum.inl (-EPERM)
    else if threads_nb > RLU_MAX_THREADS then Sum.inl (-EPERM)
    else if nr_buckets > MAX_BUCKETS then Sum.inl (-EPERM)
    else Sum.inr bench

/-- The thirteen names of the registry. -/
def benchmark_names : List String :=
  ["rcu", "rcu-forgive", "rcu-fglock", "rcu-numa", "rlu", "rlu-forgive", "rcuhtm", "forgive",
   "retry", "hwa", "rcx-htmlock", "rcx-hhtmlock", "rcx"]

/-- The default of the module parameter `benchmark`. -/
def benchmark_default : String := "rcuhashlist"

/-! ## Allocation failure in the initialisation -/

/-- The function `rcu_new_hash_list` when the `kmalloc` of the `hash_list_t` has
the outcome `ok`: `NULL` (`none`) when it fails, otherwise the hash list of
`rcu_new_hash_list`. -/
def rcu_new_hash_list_km (ok : Bool) (s : State) (n_buckets : Int) :
    Option (State × Option hash_list_t) :=
  if ok then
    match rcu_new_hash_list s n_buckets with
    | some (s, g) => some (s, some g)
    | none => none
  else some (s, none)

/-- Initialize the global hash list: `g_hash_list = rcu_new_hash_list(nr_buckets);
return 0;`.  The result is the memory, the value of `g_hash_list` and the value
returned. -/
def rcu_hash_list_init (ok : Bool) (s : State) (nr_buckets : Int) :
    Option (State × Option hash_list_t × Int) :=
  match rcu_new_hash_list_km ok s nr_buckets with
  | some (s, g) => some (s, g, 0)
  | none => none

/-- The function `rcx_new_hash_list` when the `kmalloc` of the `hash_list_t` has
the outcome `ok`. -/
def rcx_new_hash_list_km (ok : Bool) (s : State) (n_buckets : Int) :
    Option (State × Option hash_list_t) :=
  if ok then
    match rcx_new_hash_list s n_buckets with
    | some (s, g) => some (s, some g)
    | none => none
  else some (s, none)

/-- Setup the global hash list: `g_hash_list = rcx_new_hash_list(nr_buckets);
return 0;`. -/
def rcx_hash_list_init (ok : Bool) (s : State) (nr_buckets : Int) :
    Option (State × Option hash_list_t × Int) :=
  match rcx_new_hash_list_km ok s nr_buckets with
  | some (s, g) => some (s, g, 0)
  | none => none

/-- The statement `bench->init(nr_buckets, NULL);` of `sync_test_init` followed
by the half fill: the value `init` returns is not looked at, and with
`g_hash_list == NULL` the first insertion reads `g_hash_list->n_buckets`. -/
def sync_test_setup (bench : benchmark_t)
    (init : State → Int → Option (State × Option hash_list_t × Int)) (nr_buckets range : Int)
    (random : Nat → Nat) (fuel : Nat) (s : State) : Option (State × Nat) :=
  match init s nr_buckets with
  | some (s, some g, _) => half_fill bench g range random fuel s
  | some (s, none, _) => if 0 < range.tdiv 2 then none else some (s, 0)
  | none => none

/-! ## Lock words of the nodes -/

/-- Every lock word of every node is unheld / 0: the global spinlock (the HTM
flag of the union) and every per-NUMA spinlock (flag). -/
def locks_unheld (s : State) : Prop :=
  ∀ n ∈ s.nodes, n.global_lock = false ∧ ∀ b ∈ n.pnd_slocks, b = false

instance locks_unheld_decidable (s : State) : Decidable (locks_unheld s) :=
  inferInstanceAs (Decidable (∀ n ∈ s.nodes, n.global_lock = false ∧ ∀ b ∈ n.pnd_slocks, b = false))

/-- The lock words that may be held, for a thread on the NUMA node `i`, in a
memory of at least `N` nodes: a global word only at a node of `G`, the per-NUMA
word of slot `i` only at a node of `P`, and a per-NUMA word of another slot only
at a node allocated after the first `N` ones (`rcu_new_node` / `rcx_new_node`
initialise the slots of the NUMA nodes with CPUs, and a thread on `i` uses no
other slot). -/
def locks_within (s : State) (G P : List Nat) (i N : Nat) : Prop :=
  N ≤ s.nodes.length ∧
  ∀ (a : Nat) (n : node_t), s.nodes[a]? = some n →
    (n.global_lock = true → a ∈ G) ∧
    (∀ j : Nat, n.pnd_slocks[j]? = some true → (j = i ∧ a ∈ P) ∨ (N ≤ a ∧ j ≠ i))

/-- No lock word that matters to a thread on the NUMA node `i` is held, in a
memory of at least `N` nodes: the global word (HTM flag) of no node, slot `i`
of no node, and no per-NUMA word at all of the first `N` nodes.  With `N` the
number of nodes of the memory this is `locks_unheld`. -/
def locks_free (s : State) (i N : Nat) : Prop :=
  N ≤ s.nodes.length ∧
  ∀ (a : Nat) (n : node_t), s.nodes[a]? = some n →
    n.global_lock = false ∧ n.pnd_slocks[i]? ≠ some true ∧
    (a < N → ∀ b ∈ n.pnd_slocks, b = false)

/-- The list `G` without the node `p`. -/
def without (G : List Nat) (p : Nat) : List Nat :=
  G.filter (fun x => decide (x ≠ p))

/-! ## Two calls that leave a bucket with the same values -/

/-- Both calls return, and the bucket `p_list` holds the same sequence of values
(sentinels included) after the second as after the first. -/
def same_keys (x y : Option (State × Int)) (p_list : Nat) : Prop :=
  ∃ s0 r0 s1 r1, x = some (s0, r0) ∧ y = some (s1, r1) ∧
    bucket_vals s1 p_list = bucket_vals s0 p_list

/-- The bucket of `mem_3_7` with the node holding 3 marked removed while it is
still linked. -/
def mem_3_7_marked : State :=
  { mem_3_7 with
    nodes := [{ val := LIST_VAL_MAX, p_next := none, removed := 0,
                pnd_slocks := [false, false, false, false], global_lock := false },
              { val := LIST_VAL_MIN, p_next := some 2, removed := 0,
                pnd_slocks := [false, false, false, false], global_lock := false },
              { val := 3, p_next := some 3, removed := 1,
                pnd_slocks := [false, false, false, false], global_lock := false },
              { val := 7, p_next := some 0, removed := 0,
                pnd_slocks := [false, false, false, false], global_lock := false }] }

/-! ## `rcx-hash-list.c`: the transaction of the speculative path with locking fallback -/

/-- The statements from `tx_stat = _xbegin();` to `_xend();` of the speculative
path of `rcx_list_lf_add` / `rcx_list_fb1_add`, on the memory `s` they run in:
the status the following `if` sees and the memory (an aborted transaction has
stored nothing). -/
def rcx_lf_add_tx (s : State) (p_list p_prev p_next p_new_node : Nat) : Option (Nat × State) :=
  match xbegin s with
  | (tx_stat, s) =>
    match rcx_lf_tx_stat s tx_stat p_list p_prev p_next with
    | some st =>
      if st = XBEGIN_STARTED then
        match node_store s p_prev (fun n => { n with p_next := some p_new_node }) with
        | some s => some (st, s)
        | none => none
      else some (st, s)
    | none => none

/-- The statements from `tx_stat = _xbegin();` to `_xend();` of the speculative
path of `rcx_list_lf_remove` / `rcx_list_fb1_remove`. -/
def rcx_lf_remove_tx (s : State) (p_list p_prev p_next : Nat) (n : Option Nat) :
    Option (Nat × State) :=
  match xbegin s with
  | (tx_stat, s) =>
    match rcx_lf_remove_tx_stat s tx_stat p_list p_prev p_next n with
    | some st =>
      if st = XBEGIN_STARTED then
        match node_store s p_prev (fun m => { m with p_next := n }) with
        | some s =>
          match node_store s p_next (fun m => { m with removed := 1 }) with
          | some s => some (st, s)
          | none => none
        | none => none
      else some (st, s)
    | none => none

/-! ## `rcu-hash-list.c`: the lock calls of the fine-grained and NUMA-aware updates, in order -/

/-- A node lock as the source names it: `node->global_lock`, or `pndslock(node)`
(the per-NUMA lock of the node in the slot of the running CPU). -/
inductive lock_word where
  | global_lock (node : Nat)
  | pndslock (node : Nat)
deriving DecidableEq, Repr

/-- A call of `spin_lock` or of `spin_unlock` on a node lock. -/
inductive lock_event where
  | spin_lock (w : lock_word)
  | spin_unlock (w : lock_word)
deriving DecidableEq, Repr

/-- The call `spin_lock(&node->global_lock)`, noted in the log when it returns. -/
def spin_lock_global_log (s : State) (log : List lock_event) (p : Nat) :
    Option (State × List lock_event) :=
  match spin_lock_global s p with
  | some s => some (s, log ++ [.spin_lock (.global_lock p)])
  | none => none

/-- The call `spin_unlock(&node->global_lock)`, noted in the log. -/
def spin_unlock_global_log (s : State) (log : List lock_event) (p : Nat) :
    Option (State × List lock_event) :=
  match spin_unlock_global s p with
  | some s => some (s, log ++ [.spin_unlock (.global_lock p)])
  | none => none

/-- The call `spin_lock(&pndslock(node))` with the value `nodeid` of
`numa_node_id()`, noted in the log when it returns. -/
def spin_lock_pnd_log (s : State) (log : List lock_event) (p nodeid : Nat) :
    Option (State × List lock_event) :=
  match spin_lock_pnd s p nodeid with
  | some s => some (s, log ++ [.spin_lock (.pndslock p)])
  | none => none

/-- The call `spin_unlock(&pndslock(node))` with the value `nodeid` of
`numa_node_id()`, noted in the log. -/
def spin_unlock_pnd_log (s : State) (log : List lock_event) (p nodeid : Nat) :
    Option (State × List lock_event) :=
  match spin_unlock_pnd s p nodeid with
  | some s => some (s, log ++ [.spin_unlock (.pndslock p)])
  | none => none

/-- The calls `spin_lock(&p_prev->global_lock); spin_lock(&p_next->global_lock);`
with the log. -/
def global_lock_pair_log (s : State) (log : List lock_event) (p_prev p_next : Nat) :
    Option (State × List lock_event) :=
  match spin_lock_global_log s log p_prev with
  | some (s, log) => spin_lock_global_log s log p_next
  | none => none

/-- The calls `spin_unlock(&p_next->global_lock); spin_unlock(&p_prev->global_lock);`
with the log. -/
def global_unlock_pair_log (s : State) (log : List lock_event) (p_prev p_next : Nat) :
    Option (State × List lock_event) :=
  match spin_unlock_global_log s log p_next with
  | some (s, log) => spin_unlock_global_log s log p_prev
  | none => none

/-- The calls `spin_lock(&pndslock(p_prev)); spin_lock(&pndslock(p_next));` with
the log. -/
def pnd_lock_pair_log (s : State) (log : List lock_event) (p_prev p_next n1 n2 : Nat) :
    Option (State × List lock_event) :=
  match spin_lock_pnd_log s log p_prev n1 with
  | some (s, log) => spin_lock_pnd_log s log p_next n2
  | none => none

/-- The calls `spin_unlock(&pndslock(p_next)); spin_unlock(&pndslock(p_prev));`
with the log. -/
def pnd_unlock_pair_log (s : State) (log : List lock_event) (p_prev p_next n1 n2 : Nat) :
    Option (State × List lock_event) :=
  match spin_unlock_pnd_log s log p_next n1 with
  | some (s, log) => spin_unlock_pnd_log s log p_prev n2
  | none => none

/-- The calls `spin_lock(&p_prev->global_lock); spin_lock(&p_next->global_lock);
spin_lock(&n->global_lock);` with the log. -/
def global_lock_triple_log (s : State) (log : List lock_event) (p_prev p_next : Nat)
    (n : Option Nat) : Option (State × List lock_event) :=
  match spin_lock_global_log s log p_prev with
  | some (s, log) =>
    match spin_lock_global_log s log p_next with
    | some (s, log) =>
      match n with
      | some p_n => spin_lock_global_log s log p_n
      | none => none
    | none => none
  | none => none

/-- The calls `spin_unlock(&n->global_lock); spin_unlock(&p_next->global_lock);
spin_unlock(&p_prev->global_lock);` with the log. -/
def global_unlock_triple_log (s : State) (log : List lock_event) (p_prev p_next p_n : Nat) :
    Option (State × List lock_event) :=
  match spin_unlock_global_log s log p_n with
  | some (s, log) =>
    match spin_unlock_global_log s log p_next with
    | some (s, log) => spin_unlock_global_log s log p_prev
    | none => none
  | none => none

/-- The calls `spin_lock(&pndslock(p_prev)); spin_lock(&pndslock(p_next));
spin_lock(&pndslock(n));` with the log. -/
def pnd_lock_triple_log (s : State) (log : List lock_event) (p_prev p_next : Nat)
    (n : Option Nat) (n1 n2 n3 : Nat) : Option (State × List lock_event) :=
  match spin_lock_pnd_log s log p_prev n1 with
  | some (s, log) =>
    match spin_lock_pnd_log s log p_next n2 with
    | some (s, log) =>
      match n with
      | some p_n => spin_lock_pnd_log s log p_n n3
      | none => none
    | none => none
  | none => none

/-- The calls `spin_unlock(&pndslock(n)); spin_unlock(&pndslock(p_next));
spin_unlock(&pndslock(p_prev));` with the log. -/
def pnd_unlock_triple_log (s : State) (log : List lock_event) (p_prev p_next p_n n1 n2 n3 : Nat) :
    Option (State × List lock_event) :=
  match spin_unlock_pnd_log s log p_n n1 with
  | some (s, log) =>
    match spin_unlock_pnd_log s log p_next n2 with
    | some (s, log) => spin_unlock_pnd_log s log p_prev n3
    | none => none
  | none => none

/-- The lock calls of a critical section that takes the locks `ws` in that
order and releases them in the reverse order. -/
def critical (ws : List lock_word) : List lock_event :=
  ws.map lock_event.spin_lock ++ ws.reverse.map lock_event.spin_unlock

/-- The global locks of the nodes `as`, in that order. -/
def global_words (as : List Nat) : List lock_word :=
  as.map lock_word.global_lock

/-- First the per-NUMA locks of the nodes `as`, in that order, then their global
locks, in that order. -/
def numa_words (as : List Nat) : List lock_word :=
  as.map lock_word.pndslock ++ as.map lock_word.global_lock

/-! ## A hash list with several buckets -/

/-- A hash list with eight buckets. -/
def hash_8 : hash_list_t := { n_buckets := 8, buckets := [0, 1, 2, 3, 4, 5, 6, 7] }

/-! ## The runs of a loop that retries until the deadline -/

/-- A run of the loop `for (;;)` of `rcx_hash_list_retry_add` /
`rcx_hash_list_retry_remove` from the memory `s` that ends with the memory `s1`
and the result `r` after `j + 1` attempts: the attempts start from the memories
`m 0 = s, …, m j`; each attempt before the last aborts (its result is 2), and
the call of `benchmark_endtime()` after it does not return 1; the last attempt
leaves the memory `s1`, and either it does not abort and `r = 0`, or it aborts,
the call of `benchmark_endtime()` after it returns 1 and `r = -1`. -/
def retry_run (attempt : State → Option (State × Int)) (endtime : List Int) (j : Nat)
    (s s1 : State) (r : Int) : Prop :=
  ∃ m : Nat → State, m 0 = s ∧
    (∀ i, i < j → attempt (m i) = some (m (i + 1), 2) ∧ endtime.getD i 0 ≠ 1) ∧
    ((∃ t, t ≠ 2 ∧ attempt (m j) = some (s1, t) ∧ r = 0) ∨
      (attempt (m j) = some (s1, 2) ∧ endtime.getD j 0 = 1 ∧ r = -1))

/-! ## One pass of the fine-grained, NUMA-aware and HTM-lock updates

A pass runs from the label `retry` to `return result`, where it yields
`some result`, or to a `goto retry`, where it yields `none`; in both cases with
the memory at that point.  The functions are the passes repeated, see the
theorems `*_by_pass`. -/

/-- The critical section of `rcu_list_fg_add` for the nodes `p_prev`, `p_next` the
traversal found and the new node: from `spin_lock(&p_prev->global_lock)` to the
two `spin_unlock` calls before `return result` (flag `true`) or after the label
`unlock_retry` (flag `false`). -/
def rcu_list_fg_add_section (s : State) (p_prev p_next p_new_node : Nat) :
    Option (State × Bool) := do
  let s ← global_lock_pair s p_prev p_next
  let check ← add_validate s p_prev p_next
  if check ≠ 0 then do
    let s ← global_unlock_pair s p_prev p_next
    pure (s, false)
  else do
    let s ← node_store s p_prev (fun n => { n with p_next := some p_new_node })
    let s ← global_unlock_pair s p_prev p_next
    pure (s, true)

/-- One pass of `rcu_list_fg_add`. -/
def rcu_list_fg_add_pass (s : State) (p_list : Nat) (val : Int) :
    Option (State × Option Int) := do
  let (p_prev, p_next, v) ← list_find s p_list val
  let result : Int := if v ≠ val then 1 else 0
  if v ≠ val then do
    let (s, p_new_node) ← rcu_alloc_node s val p_next
    let (s, published) ← rcu_list_fg_add_section s p_prev p_next p_new_node
    if published then pure (s, some result)
    else pure (kfree s p_new_node, none)
  else pure (s, some result)

/-- The critical section of `rcu_list_fg_remove` for the nodes `p_prev`, `p_next`
the traversal found and `n`, the value read from `p_next->p_next`: from
`spin_lock(&p_prev->global_lock)` to the three `spin_unlock` calls before
`return result` (flag `true`) or after the label `unlock_retry` (flag `false`). -/
def rcu_list_fg_remove_section (s : State) (p_prev p_next : Nat) (n : Option Nat) :
    Option (State × Bool) := do
  let s ← global_lock_triple s p_prev p_next n
  let p_n ← n
  let check ← remove_validate s p_prev p_next n
  if check ≠ 0 then do
    let s ← global_unlock_triple s p_prev p_next p_n
    pure (s, false)
  else do
    let s ← node_store s p_prev (fun m => { m with p_next := n })
    let s ← node_store s p_next (fun m => { m with removed := 1 })
    let s := rcu_free_node s p_next
    let s ← global_unlock_triple s p_prev p_next p_n
    pure (s, true)

/-- One pass of `rcu_list_fg_remove`. -/
def rcu_list_fg_remove_pass (s : State) (p_list : Nat) (val : Int) :
    Option (State × Option Int) := do
  let (p_prev, p_next, v) ← list_find s p_list val
  let result : Int := if v = val then 1 else 0
  if v = val then do
    let nx ← s.nodes[p_next]?
    let n := nx.p_next
    let (s, unlinked) ← rcu_list_fg_remove_section s p_prev p_next n
    if unlinked then pure (s, some result)
    else pure (s, none)
  else pure (s, some result)

/-- One pass of `rcu_list_numa_add`. -/
def rcu_list_numa_add_pass (numa_node_id : Nat → Nat) (s : State) (p_list : Nat) (val : Int) :
    Option (State × Option Int) := do
  let (p_prev, p_next, v) ← list_find s p_list val
  let result : Int := if v ≠ val then 1 else 0
  if v ≠ val then do
    let (s, p_new_node) ← rcu_alloc_node s val p_next
    let s ← pnd_lock_pair s p_prev p_next (numa_node_id 0) (numa_node_id 1)
    let s ← global_lock_pair s p_prev p_next
    let check ← add_validate s p_prev p_next
    if check ≠ 0 then do
      let s ← global_unlock_pair s p_prev p_next
      let s ← pnd_unlock_pair s p_prev p_next (numa_node_id 2) (numa_node_id 3)
      let s := kfree s p_new_node
      pure (s, none)
    else do
      let s ← node_store s p_prev (fun n => { n with p_next := some p_new_node })
      let s ← global_unlock_pair s p_prev p_next
      let s ← pnd_unlock_pair s p_prev p_next (numa_node_id 2) (numa_node_id 3)
      pure (s, some result)
  else pure (s, some result)

/-- One pass of `rcu_list_numa_remove`. -/
def rcu_list_numa_remove_pass (numa_node_id : Nat → Nat) (s : State) (p_list : Nat) (val : Int) :
    Option (State × Option Int) := do
  let (p_prev, p_next, v) ← list_find s p_list val
  let result : Int := if v = val then 1 else 0
  if v = val then do
    let nx ← s.nodes[p_next]?
    let n := nx.p_next
    let s ← pnd_lock_triple s p_prev p_next n (numa_node_id 0) (numa_node_id 1)
      (numa_node_id 2)
    let p_n ← n
    let s ← global_lock_triple s p_prev p_next n
    let check ← remove_validate s p_prev p_next n
    if check ≠ 0 then do
      let s ← global_unlock_triple s p_prev p_next p_n
      let s ← pnd_unlock_triple s p_prev p_next p_n (numa_node_id 3) (numa_node_id 4)
        (numa_node_id 5)
      pure (s, none)
    else do
      let s ← node_store s p_prev (fun m => { m with p_next := n })
      let s ← node_store s p_next (fun m => { m with removed := 1 })
      let s := rcu_free_node s p_next
      let s ← global_unlock_triple s p_prev p_next p_n
      let s ← pnd_unlock_triple s p_prev p_next p_n (numa_node_id 3) (numa_node_id 4)
        (numa_node_id 5)
      pure (s, some result)
  else pure (s, some result)

/-- One pass of `rcx_list_htmlock_add`. -/
def rcx_list_htmlock_add_pass (cpu : Nat) (s : State) (p_list : Nat) (val : Int) :
    Option (State × Option Int) := do
  let (p_prev, p_next, v) ← list_find s p_list val
  let result : Int := if v ≠ val then 1 else 0
  if v ≠ val then do
    let (s, p_new_node) ← rcx_alloc_node s val p_next
    let _ ← htmlock_wait s p_prev p_next
    let (tx_stat, s) ← htmlock_tx s p_prev p_next
    if tx_stat = XBEGIN_STARTED then do
      let (s, valid) ← add_validate_record cpu s p_prev p_next
      if valid then do
        let s ← node_store s p_prev (fun n => { n with p_next := some p_new_node })
        let s ← htmlock_clear_pair s p_next p_prev
        pure (s, some result)
      else do
        let s ← htmlock_clear_pair s p_next p_prev
        let s := kfree s p_new_node
        pure (s, none)
    else do
      let s ← record_abort s cpu tx_stat
      let s := kfree s p_new_node
      pure (s, none)
  else pure (s, some result)

/-- One pass of `rcx_list_htmlock_remove`. -/
def rcx_list_htmlock_remove_pass (cpu : Nat) (s : State) (p_list : Nat) (val : Int) :
    Option (State × Option Int) := do
  let (p_prev, p_next, v) ← list_find s p_list val
  let result : Int := if v = val then 1 else 0
  if v = val then do
    let nx ← s.nodes[p_next]?
    let n := nx.p_next
    let _ ← htmlock_wait_triple s p_prev p_next n
    let (tx_stat, s) ← htmlock_tx_triple s p_prev p_next n
    if tx_stat = XBEGIN_STARTED then do
      let p_n ← n
      let (s, valid) ← remove_validate_record cpu s p_prev p_next n
      if valid then do
        let s ← node_store s p_prev (fun m => { m with p_next := n })
        let s ← node_store s p_next (fun m => { m with removed := 1 })
        let s := rcx_free_node s p_next
        let s ← htmlock_clear_triple s p_prev p_next p_n
        pure (s, some result)
      else do
        let s ← htmlock_clear_triple s p_prev p_next p_n
        pure (s, none)
    else do
      let s ← record_abort s cpu tx_stat
      pure (s, none)
  else pure (s, some result)

/-- One pass of `rcx_list_hhtmlock_add`; `fuel + 1` bounds the passes of its loop
`retry_global_lock`. -/
def rcx_list_hhtmlock_add_pass (fuel cpu : Nat) (numa_node_id : Nat → Nat) (s : State)
    (p_list : Nat) (val : Int) :
    Option (State × Option Int) := do
  let (p_prev, p_next, v) ← list_find s p_list val
  let result : Int := if v ≠ val then 1 else 0
  if v ≠ val then do
    let (s, p_new_node) ← rcx_alloc_node s val p_next
    let _ ← pnodelock_wait s p_prev p_next (numa_node_id 0) (numa_node_id 1)
    let (tx_stat, s) ← pnodelock_tx s p_prev p_next (numa_node_id 2) (numa_node_id 3)
      (numa_node_id 4) (numa_node_id 5)
    if tx_stat = XBEGIN_STARTED then do
      let s ← hhtmlock_global (fuel + 1) cpu s p_prev p_next
      let (s, valid) ← add_validate_record cpu s p_prev p_next
      if valid then do
        let s ← node_store s p_prev (fun n => { n with p_next := some p_new_node })
        let s ← htmlock_clear_pair s p_prev p_next
        let s ← pnodelock_clear_pair s p_prev p_next (numa_node_id 6) (numa_node_id 7)
        pure (s, some result)
      else do
        let s ← htmlock_clear_pair s p_prev p_next
        let s ← pnodelock_clear_pair s p_next p_prev (numa_node_id 6) (numa_node_id 7)
        let s := kfree s p_new_node
        pure (s, none)
    else do
      let s ← record_abort s cpu tx_stat
      let s := kfree s p_new_node
      pure (s, none)
  else pure (s, some result)

/-- One pass of `rcx_list_hhtmlock_remove`; `fuel + 1` bounds the passes of its loop
`retry_global_lock`. -/
def rcx_list_hhtmlock_remove_pass (fuel cpu : Nat) (numa_node_id : Nat → Nat) (s : State)
    (p_list : Nat) (val : Int) :
    Option (State × Option Int) := do
  let (p_prev, p_next, v) ← list_find s p_list val
  let result : Int := if v = val then 1 else 0
  if v = val then do
    let nx ← s.nodes[p_next]?
    let n := nx.p_next
    let _ ← pnodelock_wait_triple s p_prev p_next n (numa_node_id 0) (numa_node_id 1)
      (numa_node_id 2)
    let (tx_stat, s) ← pnodelock_tx_triple s p_prev p_next n (numa_node_id 3)
      (numa_node_id 4) (numa_node_id 5) (numa_node_id 6) (numa_node_id 7) (numa_node_id 8)
    if tx_stat = XBEGIN_STARTED then do
      let p_n ← n
      let s ← hhtmlock_global_triple (fuel + 1) cpu s p_prev p_next n
      let (s, valid) ← remove_validate_record cpu s p_prev p_next n
      if valid then do
        let s ← node_store s p_prev (fun m => { m with p_next := n })
        let s ← node_store s p_next (fun m => { m with removed := 1 })
        let s := rcx_free_node s p_next
        let s ← htmlock_clear_triple s p_prev p_next p_n
        let s ← pnodelock_clear_triple s p_prev p_next p_n (numa_node_id 9)
          (numa_node_id 10) (numa_node_id 11)
        pure (s, some result)
      else do
        let s ← htmlock_clear_triple s p_prev p_next p_n
        let s ← pnodelock_clear_triple s p_prev p_next p_n (numa_node_id 9)
          (numa_node_id 10) (numa_node_id 11)
        pure (s, none)
    else do
      let s ← record_abort s cpu tx_stat
      pure (s, none)
  else pure (s, some result)

/-- One pass of `rcx_list_numa_add`. -/
def rcx_list_numa_add_pass (cpu : Nat) (numa_node_id : Nat → Nat) (s : State) (p_list : Nat)
    (val : Int) :
    Option (State × Option Int) := do
  let (p_prev, p_next, v) ← list_find s p_list val
  let result : Int := if v ≠ val then 1 else 0
  if v ≠ val then do
    let (s, p_new_node) ← rcx_alloc_node s val p_next
    let _ ← pnodelock_wait s p_prev p_next (numa_node_id 0) (numa_node_id 1)
    let (tx_stat, s) ← pnodelock_tx s p_prev p_next (numa_node_id 2) (numa_node_id 3)
      (numa_node_id 4) (numa_node_id 5)
    if tx_stat = XBEGIN_STARTED then do
      let s ← global_lock_pair s p_prev p_next
      let (s, valid) ← add_validate_record cpu s p_prev p_next
      if valid then do
        let s ← node_store s p_prev (fun n => { n with p_next := some p_new_node })
        let s ← global_unlock_pair s p_prev p_next
        let s ← pnodelock_clear_pair s p_prev p_next (numa_node_id 6) (numa_node_id 7)
        pure (s, some result)
      else do
        let s ← global_unlock_pair s p_prev p_next
        let s ← pnodelock_clear_pair s p_next p_prev (numa_node_id 6) (numa_node_id 7)
        let s := kfree s p_new_node
        pure (s, none)
    else do
      let s ← record_abort s cpu tx_stat
      let s := kfree s p_new_node
      pure (s, none)
  else pure (s, some result)

/-- One pass of `rcx_list_numa_remove`. -/
def rcx_list_numa_remove_pass (cpu : Nat) (numa_node_id : Nat → Nat) (s : State) (p_list : Nat)
    (val : Int) :
    Option (State × Option Int) := do
  let (p_prev, p_next, v) ← list_find s p_list val
  let result : Int := if v = val then 1 else 0
  if v = val then do
    let nx ← s.nodes[p_next]?
    let n := nx.p_next
    let _ ← pnodelock_wait_triple s p_prev p_next n (numa_node_id 0) (numa_node_id 1)
      (numa_node_id 2)
    let (tx_stat, s) ← pnodelock_tx_triple s p_prev p_next n (numa_node_id 3)
      (numa_node_id 4) (numa_node_id 5) (numa_node_id 6) (numa_node_id 7) (numa_node_id 8)
    if tx_stat = XBEGIN_STARTED then do
      let p_n ← n
      let s ← global_lock_triple s p_prev p_next n
      let (s, valid) ← remove_validate_record cpu s p_prev p_next n
      if valid then do
        let s ← node_store s p_prev (fun m => { m with p_next := n })
        let s ← node_store s p_next (fun m => { m with removed := 1 })
        let s := rcx_free_node s p_next
        let s ← global_unlock_triple s p_prev p_next p_n
        let s ← pnodelock_clear_triple s p_prev p_next p_n (numa_node_id 9)
          (numa_node_id 10) (numa_node_id 11)
        pure (s, some result)
      else do
        let s ← global_unlock_triple s p_prev p_next p_n
        let s ← pnodelock_clear_triple s p_prev p_next p_n (numa_node_id 9)
          (numa_node_id 10) (numa_node_id 11)
        pure (s, none)
    else do
      let s ← record_abort s cpu tx_stat
      pure (s, none)
  else pure (s, some result)

/-- What a function does with the outcome of one pass: without an outcome it does
not return, with `some result` it returns `result`, and after a `goto retry` it
runs `again` on the memory the pass left. -/
def after_pass (again : State → Option (State × Int)) :
    Option (State × Option Int) → Option (State × Int)
  | none => none
  | some (s1, some r) => some (s1, r)
  | some (s1, none) => again s1

/-! ## One pass of the fine-grained and NUMA-aware updates, with the log of its lock calls -/

/-- One pass of `rcu_list_fg_add` with every call of `spin_lock` and `spin_unlock` on a
node lock noted in the log, in the order of the calls. -/
def rcu_list_fg_add_pass_log (s : State) (log : List lock_event) (p_list : Nat) (val : Int) :
    Option (State × List lock_event × Option Int) := do
  let (p_prev, p_next, v) ← list_find s p_list val
  let result : Int := if v ≠ val then 1 else 0
  if v ≠ val then do
    let (s, p_new_node) ← rcu_alloc_node s val p_next
    let (s, log) ← global_lock_pair_log s log p_prev p_next
    let check ← add_validate s p_prev p_next
    if check ≠ 0 then do
      let (s, log) ← global_unlock_pair_log s log p_prev p_next
      let s := kfree s p_new_node
      pure (s, log, none)
    else do
      let s ← node_store s p_prev (fun n => { n with p_next := some p_new_node })
      let (s, log) ← global_unlock_pair_log s log p_prev p_next
      pure (s, log, some result)
  else pure (s, log, some result)

/-- One pass of `rcu_list_fg_remove` with every call of `spin_lock` and `spin_unlock` on a
node lock noted in the log, in the order of the calls. -/
def rcu_list_fg_remove_pass_log (s : State) (log : List lock_event) (p_list : Nat) (val : Int) :
    Option (State × List lock_event × Option Int) := do
  let (p_prev, p_next, v) ← list_find s p_list val
  let result : Int := if v = val then 1 else 0
  if v = val then do
    let nx ← s.nodes[p_next]?
    let n := nx.p_next
    let (s, log) ← global_lock_triple_log s log p_prev p_next n
    let p_n ← n
    let check ← remove_validate s p_prev p_next n
    if check ≠ 0 then do
      let (s, log) ← global_unlock_triple_log s log p_prev p_next p_n
      pure (s, log, none)
    else do
      let s ← node_store s p_prev (fun m => { m with p_next := n })
      let s ← node_store s p_next (fun m => { m with removed := 1 })
      let s := rcu_free_node s p_next
      let (s, log) ← global_unlock_triple_log s log p_prev p_next p_n
      pure (s, log, some result)
  else pure (s, log, some result)

/-- One pass of `rcu_list_numa_add` with every call of `spin_lock` and `spin_unlock` on a
node lock noted in the log, in the order of the calls. -/
def rcu_list_numa_add_pass_log (numa_node_id : Nat → Nat) (s : State) (log : List lock_event)
    (p_list : Nat) (val : Int) :
    Option (State × List lock_event × Option Int) := do
  let (p_prev, p_next, v) ← list_find s p_list val
  let result : Int := if v ≠ val then 1 else 0
  if v ≠ val then do
    let (s, p_new_node) ← rcu_alloc_node s val p_next
    let (s, log) ← pnd_lock_pair_log s log p_prev p_next (numa_node_id 0) (numa_node_id 1)
    let (s, log) ← global_lock_pair_log s log p_prev p_next
    let check ← add_validate s p_prev p_next
    if check ≠ 0 then do
      let (s, log) ← global_unlock_pair_log s log p_prev p_next
      let (s, log) ← pnd_unlock_pair_log s log p_prev p_next (numa_node_id 2) (numa_node_id 3)
      let s := kfree s p_new_node
      pure (s, log, none)
    else do
      let s ← node_store s p_prev (fun n => { n with p_next := some p_new_node })
      let (s, log) ← global_unlock_pair_log s log p_prev p_next
      let (s, log) ← pnd_unlock_pair_log s log p_prev p_next (numa_node_id 2) (numa_node_id 3)
      pure (s, log, some result)
  else pure (s, log, some result)

/-- One pass of `rcu_list_numa_remove` with every call of `spin_lock` and `spin_unlock` on a
node lock noted in the log, in the order of the calls. -/
def rcu_list_numa_remove_pass_log (numa_node_id : Nat → Nat) (s : State) (log : List lock_event)
    (p_list : Nat) (val : Int) :
    Option (State × List lock_event × Option Int) := do
  let (p_prev, p_next, v) ← list_find s p_list val
  let result : Int := if v = val then 1 else 0
  if v = val then do
    let nx ← s.nodes[p_next]?
    let n := nx.p_next
    let (s, log) ← pnd_lock_triple_log s log p_prev p_next n (numa_node_id 0)
      (numa_node_id 1) (numa_node_id 2)
    let p_n ← n
    let (s, log) ← global_lock_triple_log s log p_prev p_next n
    let check ← remove_validate s p_prev p_next n
    if check ≠ 0 then do
      let (s, log) ← global_unlock_triple_log s log p_prev p_next p_n
      let (s, log) ← pnd_unlock_triple_log s log p_prev p_next p_n (numa_node_id 3)
        (numa_node_id 4) (numa_node_id 5)
      pure (s, log, none)
    else do
      let s ← node_store s p_prev (fun m => { m with p_next := n })
      let s ← node_store s p_next (fun m => { m with removed := 1 })
      let s := rcu_free_node s p_next
      let (s, log) ← global_unlock_triple_log s log p_prev p_next p_n
      let (s, log) ← pnd_unlock_triple_log s log p_prev p_next p_n (numa_node_id 3)
        (numa_node_id 4) (numa_node_id 5)
      pure (s, log, some result)
  else pure (s, log, some result)

/-! ## Basic facts about segments -/

theorem lseg_nil (nodes : List node_t) (p q : Option Nat) :
    lseg nodes p [] q ↔ p = q := Iff.rfl

theorem lseg_cons (nodes : List node_t) (a : Nat) (as : List Nat) (p q : Option Nat) :
    lseg nodes p (a :: as) q ↔
      p = some a ∧ ∃ n, nodes[a]? = some n ∧ lseg nodes n.p_next as q := Iff.rfl

theorem lseg_append (nodes : List node_t) (as bs : List Nat) (p r : Option Nat) :
    lseg nodes p (as ++ bs) r ↔ ∃ q, lseg nodes p as q ∧ lseg nodes q bs r := by
  induction as generalizing p with
  | nil =>
    constructor
    · intro h; exact ⟨p, rfl, h⟩
    · rintro ⟨q, h1, h2⟩
      rw [lseg_nil] at h1; subst h1; exact h2
  | cons a as ih =>
    rw [List.cons_append, lseg_cons]
    constructor
    · rintro ⟨rfl, n, hn, h⟩
      obtain ⟨q, h1, h2⟩ := (ih _).mp h
      exact ⟨q, (lseg_cons _ _ _ _ _).mpr ⟨rfl, n, hn, h1⟩, h2⟩
    · rintro ⟨q, h1, h2⟩
      obtain ⟨rfl, n, hn, h1⟩ := (lseg_cons _ _ _ _ _).mp h1
      exact ⟨rfl, n, hn, (ih _).mpr ⟨q, h1, h2⟩⟩

theorem lseg_lt_length (nodes : List node_t) (as : List Nat) (p q : Option Nat)
    (h : lseg nodes p as q) : ∀ a ∈ as, a < nodes.length := by
  induction as generalizing p with
  | nil => simp
  | cons a as ih =>
    obtain ⟨_, n, hn, h2⟩ := (lseg_cons _ _ _ _ _).mp h
    intro b hb
    rcases List.mem_cons.mp hb with rfl | hb
    · by_contra hlt
      rw [List.getElem?_eq_none (by omega)] at hn
      cases hn
    · exact ih _ h2 b hb

theorem chain_from_none (nodes : List node_t) (fuel : Nat) :
    chain_from nodes fuel none = some [] := by
  cases fuel <;> rfl

theorem chain_from_succ (nodes : List node_t) (fuel a : Nat) (n : node_t)
    (hn : nodes[a]? = some n) :
    chain_from nodes (fuel + 1) (some a) =
      (chain_from nodes fuel n.p_next).map (fun as => a :: as) := by
  rw [chain_from, hn]
  cases h : chain_from nodes fuel n.p_next <;> simp [h]

theorem chain_from_of_lseg (nodes : List node_t) (as : List Nat) :
    ∀ (fuel : Nat) (p : Option Nat), lseg nodes p as none → as.length ≤ fuel →
      chain_from nodes fuel p = some as := by
  induction as with
  | nil =>
    intro fuel p h _
    rw [lseg_nil] at h; subst h
    exact chain_from_none _ _
  | cons a as ih =>
    intro fuel p h hl
    obtain ⟨rfl, n, hn, h2⟩ := (lseg_cons _ _ _ _ _).mp h
    cases fuel with
    | zero => simp at hl
    | succ fuel =>
      rw [chain_from_succ _ _ _ _ hn, ih fuel _ h2 (by simpa using hl)]
      rfl

theorem lseg_of_chain_from (nodes : List node_t) :
    ∀ (fuel : Nat) (p : Option Nat) (as : List Nat), chain_from nodes fuel p = some as →
      lseg nodes p as none ∧ as.length ≤ fuel := by
  intro fuel
  induction fuel with
  | zero =>
    intro p as h
    cases p with
    | none =>
      rw [chain_from_none] at h
      cases h
      exact ⟨rfl, Nat.le_refl _⟩
    | some a => simp [chain_from] at h
  | succ fuel ih =>
    intro p as h
    cases p with
    | none =>
      rw [chain_from_none] at h
      cases h
      exact ⟨rfl, Nat.zero_le _⟩
    | some a =>
      cases hn : nodes[a]? with
      | none => simp [chain_from, hn] at h
      | some n =>
        rw [chain_from_succ _ _ _ _ hn] at h
        cases hc : chain_from nodes fuel n.p_next with
        | none => rw [hc] at h; cases h
        | some cs =>
          rw [hc] at h
          cases h
          obtain ⟨h1, h2⟩ := ih _ _ hc
          exact ⟨(lseg_cons _ _ _ _ _).mpr ⟨rfl, n, hn, h1⟩, by simpa using h2⟩

theorem list_set_restore {α : Type} (l : List α) (p : Nat) (x y : α) (h : l[p]? = some x) :
    (l.set p y).set p x = l := by
  rw [List.set_set]
  apply List.ext_getElem?
  intro i
  rw [List.getElem?_set]
  split
  · subst_vars
    split
    · exact h.symm
    · rw [List.getElem?_eq_none (by omega)]
  · rfl

theorem getElem?_lt_length {α : Type} (l : List α) (p : Nat) (x : α) (h : l[p]? = some x) :
    p < l.length := by
  by_contra hlt
  rw [List.getElem?_eq_none (by omega)] at h
  cases h

theorem node_val_of (nodes : List node_t) (a : Nat) (n : node_t) (h : nodes[a]? = some n) :
    node_val nodes a = n.val := by
  simp [node_val, h]

/-- Appending freshly allocated nodes does not disturb a segment. -/
theorem lseg_append_nodes (nodes extra : List node_t) (as : List Nat) (p q : Option Nat)
    (h : lseg nodes p as q) : lseg (nodes ++ extra) p as q := by
  induction as generalizing p with
  | nil => exact h
  | cons a as ih =>
    obtain ⟨hp, n, hn, h2⟩ := (lseg_cons _ _ _ _ _).mp h
    refine (lseg_cons _ _ _ _ _).mpr ⟨hp, n, ?_, ih _ h2⟩
    rw [List.getElem?_append_left (getElem?_lt_length _ _ _ hn)]
    exact hn

/-- A store to a node outside a segment does not disturb the segment. -/
theorem lseg_set_nodes (nodes : List node_t) (b : Nat) (x : node_t) (as : List Nat)
    (p q : Option Nat) (h : lseg nodes p as q) (hb : b ∉ as) :
    lseg (nodes.set b x) p as q := by
  induction as generalizing p with
  | nil => exact h
  | cons a as ih =>
    obtain ⟨hp, n, hn, h2⟩ := (lseg_cons _ _ _ _ _).mp h
    have hne : b ≠ a := fun e => hb (by simp [e])
    refine (lseg_cons _ _ _ _ _).mpr ⟨hp, n, ?_, ih _ h2 (fun hm => hb (List.mem_cons_of_mem _ hm))⟩
    rw [List.getElem?_set_ne hne]
    exact hn

/-- Distinct values along a list of addresses force distinct addresses. -/
theorem nodup_of_sorted_vals (nodes : List node_t) (as : List Nat)
    (h : (as.map (node_val nodes)).Pairwise (fun x y => x < y)) : as.Nodup := by
  rw [List.pairwise_map] at h
  exact h.imp (fun {a b} hab e => by subst e; exact lt_irrefl _ hab)

theorem list_traverse_spec (nodes : List node_t) (val : Int) (as : List Nat) :
    ∀ (fuel prev : Nat) (p : Option Nat), lseg nodes p as none → as.length ≤ fuel →
      (∃ a ∈ as, val ≤ node_val nodes a) →
      ∃ pre b post, as = pre ++ b :: post ∧ (∀ a ∈ pre, node_val nodes a < val) ∧
        val ≤ node_val nodes b ∧
        list_traverse nodes val fuel prev p =
          some ((prev :: pre).getLast (List.cons_ne_nil _ _), b, node_val nodes b) := by
  induction as with
  | nil =>
    intro fuel prev p _ _ hex
    obtain ⟨a, ha, _⟩ := hex
    cases ha
  | cons a as ih =>
    intro fuel prev p h hl hex
    obtain ⟨rfl, n, hn, h2⟩ := (lseg_cons _ _ _ _ _).mp h
    cases fuel with
    | zero => simp at hl
    | succ fuel =>
      have hv : node_val nodes a = n.val := node_val_of _ _ _ hn
      by_cases hge : n.val ≥ val
      · refine ⟨[], a, as, rfl, by simp, by rw [hv]; exact hge, ?_⟩
        simp [list_traverse, hn, hge, hv]
      · have hex2 : ∃ c ∈ as, val ≤ node_val nodes c := by
          obtain ⟨c, hc, hcv⟩ := hex
          rcases List.mem_cons.mp hc with rfl | hc
          · rw [hv] at hcv; exact absurd hcv hge
          · exact ⟨c, hc, hcv⟩
        obtain ⟨pre, b, post, hsplit, hpre, hb, htr⟩ :=
          ih fuel a n.p_next h2 (by simpa using hl) hex2
        refine ⟨a :: pre, b, post, by rw [hsplit]; rfl, ?_, hb, ?_⟩
        · intro c hc
          rcases List.mem_cons.mp hc with rfl | hc
          · rw [hv]; omega
          · exact hpre c hc
        · rw [list_traverse]
          simp only [hn, hge, if_false]
          rw [htr, List.getLast_cons (List.cons_ne_nil _ _)]

/-! ## Unfolding well-formedness -/

theorem bucket_nodes_eq_some (s : State) (p_list : Nat) (as : List Nat) :
    bucket_nodes s p_list = some as ↔
      ∃ l, s.lists[p_list]? = some l ∧ lseg s.nodes l.p_head as none ∧
        as.length ≤ s.nodes.length := by
  unfold bucket_nodes
  cases hl : s.lists[p_list]? with
  | none => simp
  | some l =>
    simp only [Option.some.injEq, exists_eq_left']
    constructor
    · intro h; exact lseg_of_chain_from _ _ _ _ h
    · rintro ⟨h1, h2⟩; exact chain_from_of_lseg _ _ _ _ h1 h2

theorem list_wf_iff (s : State) (p_list : Nat) :
    list_wf s p_list ↔
      ∃ as, bucket_nodes s p_list = some as ∧
        (as.map (node_val s.nodes)).head? = some LIST_VAL_MIN ∧
        (as.map (node_val s.nodes)).getLast? = some LIST_VAL_MAX ∧
        (as.map (node_val s.nodes)).Pairwise (fun x y => x < y) := by
  unfold list_wf bucket_vals
  cases bucket_nodes s p_list with
  | none => simp
  | some as => simp

/-- Where the traversal for `val` stops in a well-formed bucket: the chain splits
as `front ++ p_prev :: b :: post`, every node after the head up to `p_prev` holds
a value below `val`, and `b` is the first node holding a value `≥ val`. -/
theorem list_find_spec (s : State) (p_list : Nat) (val : Int) (hwf : list_wf s p_list)
    (hv : val ≤ LIST_VAL_MAX) :
    ∃ front p_prev b post, bucket_nodes s p_list = some (front ++ p_prev :: b :: post) ∧
      (∀ a ∈ (front ++ [p_prev]).tail, node_val s.nodes a < val) ∧
      (LIST_VAL_MIN < val → ∀ a ∈ front ++ [p_prev], node_val s.nodes a < val) ∧
      val ≤ node_val s.nodes b ∧
      list_find s p_list val = some (p_prev, b, node_val s.nodes b) := by
  obtain ⟨as, hbn, hhead, hlast, _⟩ := (list_wf_iff _ _).mp hwf
  obtain ⟨l, hl, hseg, hlen⟩ := (bucket_nodes_eq_some _ _ _).mp hbn
  cases as with
  | nil => simp at hhead
  | cons hd rest =>
    obtain ⟨hph, hn, hhn, hrest⟩ := (lseg_cons _ _ _ _ _).mp hseg
    have hhdv : node_val s.nodes hd = LIST_VAL_MIN := by simpa using hhead
    have hex : ∃ a ∈ rest, val ≤ node_val s.nodes a := by
      cases rest with
      | nil =>
        simp only [List.map_cons, List.map_nil, List.getLast?_singleton, Option.some.injEq] at hlast
        rw [hhdv] at hlast
        simp [LIST_VAL_MIN, LIST_VAL_MAX] at hlast
      | cons r rs =>
        rw [List.map_cons, List.map_cons, List.getLast?_cons_cons, ← List.map_cons,
          List.getLast?_map] at hlast
        cases hgl : (r :: rs).getLast? with
        | none => rw [hgl] at hlast; cases hlast
        | some t =>
          rw [hgl] at hlast
          simp only [Option.map_some', Option.some.injEq] at hlast
          refine ⟨t, List.mem_of_getLast?_eq_some hgl, ?_⟩
          rw [hlast]; exact hv
    obtain ⟨pre, b, post, hsplit, hpre, hb, htr⟩ :=
      list_traverse_spec s.nodes val rest s.nodes.length hd hn.p_next hrest
        (by simp at hlen; omega) hex
    have hne : hd :: pre ≠ [] := List.cons_ne_nil _ _
    have hdl : (hd :: pre).dropLast ++ [(hd :: pre).getLast hne] = hd :: pre :=
      List.dropLast_append_getLast hne
    refine ⟨(hd :: pre).dropLast, (hd :: pre).getLast hne, b, post, ?_, ?_, ?_, hb, ?_⟩
    · rw [hbn, hsplit]
      have : (hd :: pre).dropLast ++ (hd :: pre).getLast hne :: b :: post =
          ((hd :: pre).dropLast ++ [(hd :: pre).getLast hne]) ++ b :: post := by simp
      rw [this, hdl]; rfl
    · rw [hdl]; exact hpre
    · intro hmin a ha
      rw [hdl] at ha
      rcases List.mem_cons.mp ha with rfl | ha
      · rw [hhdv]; exact hmin
      · exact hpre a ha
    · unfold list_find
      simp only [hl, hph, hhn, Option.bind_eq_bind, Option.some_bind]
      exact htr

theorem sorted_after_stop (nodes : List node_t) (front : List Nat) (p_prev b : Nat)
    (post : List Nat)
    (h : ((front ++ p_prev :: b :: post).map (node_val nodes)).Pairwise (fun x y => x < y)) :
    ∀ a ∈ post, node_val nodes b < node_val nodes a := by
  rw [List.pairwise_map, List.pairwise_append] at h
  obtain ⟨_, h2, _⟩ := h
  rw [List.pairwise_cons] at h2
  obtain ⟨_, h3⟩ := h2
  rw [List.pairwise_cons] at h3
  exact h3.1

/-- In a well-formed bucket a key above `LIST_VAL_MIN` is held by some node of
the chain exactly when the stopping node of its traversal holds it. -/
theorem mem_vals_iff_stop (s : State) (p_list : Nat) (val : Int) (front : List Nat)
    (p_prev b : Nat) (post : List Nat) (hwf : list_wf s p_list)
    (hbn : bucket_nodes s p_list = some (front ++ p_prev :: b :: post))
    (hlow : ∀ a ∈ front ++ [p_prev], node_val s.nodes a < val)
    (hb : val ≤ node_val s.nodes b) :
    val ∈ (front ++ p_prev :: b :: post).map (node_val s.nodes) ↔ node_val s.nodes b = val := by
  obtain ⟨as, hbn2, _, _, hsorted⟩ := (list_wf_iff _ _).mp hwf
  rw [hbn] at hbn2
  cases hbn2
  have hpost := sorted_after_stop _ _ _ _ _ hsorted
  constructor
  · intro hmem
    obtain ⟨a, ha, hav⟩ := List.mem_map.mp hmem
    have ha2 : a ∈ (front ++ [p_prev]) ++ b :: post := by simpa using ha
    rcases List.mem_append.mp ha2 with h1 | h1
    · have := hlow a h1; omega
    · rcases List.mem_cons.mp h1 with rfl | h1
      · exact hav
      · have := hpost a h1; omega
  · intro hbv
    exact List.mem_map.mpr ⟨b, by simp, hbv⟩

/-! ## `rcu_list_contains` -/

theorem rcu_list_contains_spec (s : State) (p_list : Nat) (val : Int) (hwf : list_wf s p_list)
    (hmin : LIST_VAL_MIN < val) (hmax : val ≤ LIST_VAL_MAX) :
    ∃ as, bucket_nodes s p_list = some as ∧
      rcu_list_contains s p_list val =
        some (s, if val ∈ as.map (node_val s.nodes) then 1 else 0) := by
  obtain ⟨front, p_prev, b, post, hbn, _, hlow, hb, hfind⟩ :=
    list_find_spec s p_list val hwf hmax
  refine ⟨_, hbn, ?_⟩
  have hiff := mem_vals_iff_stop s p_list val front p_prev b post hwf hbn (hlow hmin) hb
  unfold rcu_list_contains
  simp only [hfind, Option.bind_eq_bind, Option.some_bind]
  by_cases hbv : node_val s.nodes b = val
  · rw [if_pos hbv, if_pos (hiff.mpr hbv)]; rfl
  · rw [if_neg hbv, if_neg (fun h => hbv (hiff.mp h))]; rfl

/-! ## Evaluating `rcu_list_add` and `rcu_list_remove` -/

theorem list_find_set_lists (s : State) (p_list : Nat) (val : Int) (l l2 : list_t)
    (hl : s.lists[p_list]? = some l) (hh : l2.p_head = l.p_head) :
    list_find { s with lists := s.lists.set p_list l2 } p_list val = list_find s p_list val := by
  unfold list_find
  simp only [List.getElem?_set_self (getElem?_lt_length _ _ _ hl), hl, hh,
    Option.bind_eq_bind, Option.some_bind]

theorem set_append_new {α : Type} (l : List α) (x y : α) :
    (l ++ [x]).set l.length y = l ++ [y] := by
  rw [List.set_append_right _ _ (Nat.le_refl _)]
  simp

theorem getElem?_append_new {α : Type} (l : List α) (x : α) :
    (l ++ [x])[l.length]? = some x := by
  rw [List.getElem?_append_right (Nat.le_refl _)]
  simp

theorem rcu_list_add_eval (s : State) (p_list : Nat) (val : Int) (l : list_t)
    (p_prev b : Nat) (v : Int) (prev : node_t)
    (hl : s.lists[p_list]? = some l) (hfree : l.rcuspin = false)
    (hfind : list_find s p_list val = some (p_prev, b, v))
    (hprev : s.nodes[p_prev]? = some prev) :
    rcu_list_add s p_list val =
      some (if v = val then s else linked s val p_prev b prev, 0) := by
  have hlt := getElem?_lt_length _ _ _ hl
  have hplt := getElem?_lt_length _ _ _ hprev
  have hl' : l = { l with rcuspin := false } := by
    cases l; simp_all
  unfold rcu_list_add spin_lock_list list_store linked
  simp only [hl, hfree, Bool.false_eq_true, if_false, Option.bind_eq_bind, Option.some_bind]
  rw [list_find_set_lists s p_list val l { p_head := l.p_head, rcuspin := true } hl rfl, hfind]
  simp only [Option.some_bind]
  by_cases hv : v = val
  · simp only [hv, ne_eq, not_true_eq_false, decide_False, Bool.false_eq_true, if_false,
      Option.pure_def, Option.some_bind, spin_unlock_list, list_store,
      List.getElem?_set_self hlt, if_true]
    rw [list_set_restore _ _ _ _ (by rw [hl]; exact congrArg some hl')]
  · simp only [hv, ne_eq, not_false_eq_true, decide_True, if_true, if_false, rcu_new_node,
      node_store, getElem?_append_new, set_append_new, Option.some_bind, Option.pure_def,
      spin_unlock_list, list_store, List.getElem?_set_self hlt,
      List.getElem?_append_left hplt, hprev]
    rw [list_set_restore _ _ _ _ (by rw [hl]; exact congrArg some hl')]
    rfl

theorem rcu_list_remove_eval (s : State) (p_list : Nat) (val : Int) (l : list_t)
    (p_prev b : Nat) (v : Int) (prev nb : node_t)
    (hl : s.lists[p_list]? = some l) (hfree : l.rcuspin = false)
    (hfind : list_find s p_list val = some (p_prev, b, v))
    (hprev : s.nodes[p_prev]? = some prev) (hb : s.nodes[b]? = some nb) :
    rcu_list_remove s p_list val =
      some (if v = val then unlinked s p_prev b prev nb else s, 0) := by
  have hlt := getElem?_lt_length _ _ _ hl
  have hl' : l = { l with rcuspin := false } := by
    cases l; simp_all
  unfold rcu_list_remove spin_lock_list list_store unlinked
  simp only [hl, hfree, Bool.false_eq_true, if_false, Option.bind_eq_bind, Option.some_bind]
  rw [list_find_set_lists s p_list val l { p_head := l.p_head, rcuspin := true } hl rfl, hfind]
  simp only [Option.some_bind]
  by_cases hv : v = val
  · simp only [hv, decide_True, if_true, hb, node_store, hprev, Option.some_bind,
      Option.pure_def, spin_unlock_list, list_store, List.getElem?_set_self hlt,
      rcu_free_node, RCU_FREE]
    rw [list_set_restore _ _ _ _ (by rw [hl]; exact congrArg some hl')]
  · simp only [hv, decide_False, Bool.false_eq_true, if_false, Option.pure_def,
      Option.some_bind, spin_unlock_list, list_store, List.getElem?_set_self hlt]
    rw [list_set_restore _ _ _ _ (by rw [hl]; exact congrArg some hl')]

/-! ## The chain after a link and after an unlink -/

theorem node_val_set_next (nodes : List node_t) (p : Nat) (n : node_t) (x : Option Nat)
    (hn : nodes[p]? = some n) (a : Nat) :
    node_val (nodes.set p { n with p_next := x }) a = node_val nodes a := by
  unfold node_val
  rw [List.getElem?_set]
  by_cases h : p = a
  · subst h
    simp [getElem?_lt_length _ _ _ hn, hn]
  · simp [h]

theorem node_val_append (nodes extra : List node_t) (a : Nat) (ha : a < nodes.length) :
    node_val (nodes ++ extra) a = node_val nodes a := by
  unfold node_val
  rw [List.getElem?_append_left ha]

theorem node_val_linked (s : State) (val : Int) (p_prev b : Nat) (prev : node_t)
    (hprev : s.nodes[p_prev]? = some prev) (a : Nat) (ha : a < s.nodes.length) :
    node_val (linked s val p_prev b prev).nodes a = node_val s.nodes a := by
  have hplt := getElem?_lt_length _ _ _ hprev
  unfold linked
  simp only
  rw [node_val_set_next _ _ _ _ (by rw [List.getElem?_append_left hplt]; exact hprev),
    node_val_append _ _ _ ha]

theorem node_val_linked_new (s : State) (val : Int) (p_prev b : Nat) (prev : node_t)
    (hprev : s.nodes[p_prev]? = some prev) :
    node_val (linked s val p_prev b prev).nodes s.nodes.length = val := by
  have hplt := getElem?_lt_length _ _ _ hprev
  unfold linked
  simp only
  rw [node_val_set_next _ _ _ _ (by rw [List.getElem?_append_left hplt]; exact hprev)]
  unfold node_val
  rw [getElem?_append_new]
  rfl

theorem node_val_unlinked (s : State) (p_prev b : Nat) (prev nb : node_t)
    (hprev : s.nodes[p_prev]? = some prev) (a : Nat) :
    node_val (unlinked s p_prev b prev nb).nodes a = node_val s.nodes a := by
  unfold unlinked
  exact node_val_set_next _ _ _ _ hprev a

/-- A bucket whose chain avoids `p_prev` is not affected by a link at `p_prev`. -/
theorem bucket_nodes_linked_frame (s : State) (val : Int) (p_prev b : Nat) (prev : node_t)
    (q : Nat) (as : List Nat) (hq : bucket_nodes s q = some as) (hnot : p_prev ∉ as) :
    bucket_nodes (linked s val p_prev b prev) q = some as := by
  obtain ⟨l, hl, hseg, hlen⟩ := (bucket_nodes_eq_some _ _ _).mp hq
  refine (bucket_nodes_eq_some _ _ _).mpr ⟨l, hl, ?_, ?_⟩
  · exact lseg_set_nodes _ _ _ _ _ _ (lseg_append_nodes _ _ _ _ _ hseg) hnot
  · simp [linked]; omega

/-- A bucket whose chain avoids `p_prev` is not affected by an unlink at `p_prev`. -/
theorem bucket_nodes_unlinked_frame (s : State) (p_prev b : Nat) (prev nb : node_t)
    (q : Nat) (as : List Nat) (hq : bucket_nodes s q = some as) (hnot : p_prev ∉ as) :
    bucket_nodes (unlinked s p_prev b prev nb) q = some as := by
  obtain ⟨l, hl, hseg, hlen⟩ := (bucket_nodes_eq_some _ _ _).mp hq
  refine (bucket_nodes_eq_some _ _ _).mpr ⟨l, hl, ?_, ?_⟩
  · exact lseg_set_nodes _ _ _ _ _ _ hseg hnot
  · simpa [unlinked] using hlen

/-- The pieces of a chain around the stopping point of a traversal. -/
theorem chain_pieces (s : State) (p_list : Nat) (front : List Nat) (p_prev b : Nat)
    (post : List Nat) (hbn : bucket_nodes s p_list = some (front ++ p_prev :: b :: post)) :
    ∃ l prev nb, s.lists[p_list]? = some l ∧ lseg s.nodes l.p_head front (some p_prev) ∧
      s.nodes[p_prev]? = some prev ∧ prev.p_next = some b ∧ s.nodes[b]? = some nb ∧
      lseg s.nodes nb.p_next post none ∧
      (front ++ p_prev :: b :: post).length ≤ s.nodes.length := by
  obtain ⟨l, hl, hseg, hlen⟩ := (bucket_nodes_eq_some _ _ _).mp hbn
  obtain ⟨q, h1, h2⟩ := (lseg_append _ _ _ _ _).mp hseg
  obtain ⟨rfl, prev, hprev, h3⟩ := (lseg_cons _ _ _ _ _).mp h2
  obtain ⟨hpn, nb, hnb, h4⟩ := (lseg_cons _ _ _ _ _).mp h3
  exact ⟨l, prev, nb, hl, h1, hprev, hpn, hnb, h4, hlen⟩

theorem bucket_nodes_linked (s : State) (val : Int) (p_list : Nat) (front : List Nat)
    (p_prev b : Nat) (post : List Nat) (prev : node_t)
    (hbn : bucket_nodes s p_list = some (front ++ p_prev :: b :: post))
    (hprev : s.nodes[p_prev]? = some prev)
    (hnd : (front ++ p_prev :: b :: post).Nodup) :
    bucket_nodes (linked s val p_prev b prev) p_list =
      some (front ++ p_prev :: s.nodes.length :: b :: post) := by
  obtain ⟨l, prev2, nb, hl, hfront, hprev2, hpn, hnb, hpost, hlen⟩ :=
    chain_pieces s p_list front p_prev b post hbn
  rw [hprev] at hprev2; cases hprev2
  have hplt := getElem?_lt_length _ _ _ hprev
  rw [List.nodup_append] at hnd
  obtain ⟨_, hnd2, hdisj⟩ := hnd
  have hnf : p_prev ∉ front := fun h => hdisj h (List.mem_cons_self _ _)
  have hnp : p_prev ∉ b :: post := (List.nodup_cons.mp hnd2).1
  have hbseg : lseg s.nodes (some b) (b :: post) none :=
    (lseg_cons _ _ _ _ _).mpr ⟨rfl, nb, hnb, hpost⟩
  refine (bucket_nodes_eq_some _ _ _).mpr ⟨l, hl, ?_, ?_⟩
  · refine (lseg_append _ _ _ _ _).mpr ⟨some p_prev, ?_, ?_⟩
    · exact lseg_set_nodes _ _ _ _ _ _ (lseg_append_nodes _ _ _ _ _ hfront) hnf
    · refine (lseg_cons _ _ _ _ _).mpr
        ⟨rfl, ({ prev with p_next := some s.nodes.length } : node_t), ?_, ?_⟩
      · unfold linked
        simp only
        rw [List.getElem?_set_self (by simp; omega)]
      · refine (lseg_cons _ _ _ _ _).mpr ⟨rfl, added_node val b, ?_, ?_⟩
        · unfold linked
          simp only
          rw [List.getElem?_set_ne (by omega), getElem?_append_new]
        · exact lseg_set_nodes _ _ _ _ _ _ (lseg_append_nodes _ _ _ _ _ hbseg) hnp
  · simp [linked] at hlen ⊢; omega

theorem bucket_nodes_unlinked (s : State) (p_list : Nat) (front : List Nat)
    (p_prev b : Nat) (post : List Nat) (prev nb : node_t)
    (hbn : bucket_nodes s p_list = some (front ++ p_prev :: b :: post))
    (hprev : s.nodes[p_prev]? = some prev) (hb : s.nodes[b]? = some nb)
    (hnd : (front ++ p_prev :: b :: post).Nodup) :
    bucket_nodes (unlinked s p_prev b prev nb) p_list = some (front ++ p_prev :: post) := by
  obtain ⟨l, prev2, nb2, hl, hfront, hprev2, hpn, hnb, hpost, hlen⟩ :=
    chain_pieces s p_list front p_prev b post hbn
  rw [hprev] at hprev2; cases hprev2
  rw [hb] at hnb; cases hnb
  have hplt := getElem?_lt_length _ _ _ hprev
  rw [List.nodup_append] at hnd
  obtain ⟨_, hnd2, hdisj⟩ := hnd
  have hnf : p_prev ∉ front := fun h => hdisj h (List.mem_cons_self _ _)
  have hnp : p_prev ∉ post := fun h => (List.nodup_cons.mp hnd2).1 (List.mem_cons_of_mem _ h)
  refine (bucket_nodes_eq_some _ _ _).mpr ⟨l, hl, ?_, ?_⟩
  · refine (lseg_append _ _ _ _ _).mpr ⟨some p_prev, ?_, ?_⟩
    · exact lseg_set_nodes _ _ _ _ _ _ hfront hnf
    · refine (lseg_cons _ _ _ _ _).mpr
        ⟨rfl, ({ prev with p_next := nb.p_next } : node_t), ?_, ?_⟩
      · unfold unlinked
        simp only
        rw [List.getElem?_set_self hplt]
      · exact lseg_set_nodes _ _ _ _ _ _ hpost hnp
  · simp [unlinked] at hlen ⊢; omega

/-! ## Well-formedness after a link and after an unlink -/

theorem pairwise_insert_mid (F B : List Int) (v : Int)
    (h : (F ++ B).Pairwise (fun x y => x < y)) (hF : ∀ x ∈ F, x < v) (hB : ∀ y ∈ B, v < y) :
    (F ++ v :: B).Pairwise (fun x y => x < y) := by
  rw [List.pairwise_append] at h ⊢
  obtain ⟨h1, h2, h3⟩ := h
  refine ⟨h1, List.pairwise_cons.mpr ⟨hB, h2⟩, ?_⟩
  intro x hx y hy
  rcases List.mem_cons.mp hy with rfl | hy
  · exact hF x hx
  · exact h3 x hx y hy

theorem pairwise_remove_mid (F B : List Int) (v : Int)
    (h : (F ++ v :: B).Pairwise (fun x y => x < y)) :
    (F ++ B).Pairwise (fun x y => x < y) := by
  refine h.sublist ?_
  exact List.Sublist.append (List.Sublist.refl F) (List.sublist_cons_self v B)

theorem map_node_val_congr (nodes nodes2 : List node_t) (as : List Nat)
    (h : ∀ a ∈ as, node_val nodes2 a = node_val nodes a) :
    as.map (node_val nodes2) = as.map (node_val nodes) :=
  List.map_congr_left h

theorem bucket_nodes_lt (s : State) (p_list : Nat) (as : List Nat)
    (h : bucket_nodes s p_list = some as) : ∀ a ∈ as, a < s.nodes.length := by
  obtain ⟨l, _, hseg, _⟩ := (bucket_nodes_eq_some _ _ _).mp h
  exact lseg_lt_length _ _ _ _ hseg

theorem bucket_nodes_nodup (s : State) (p_list : Nat) (as : List Nat)
    (hwf : list_wf s p_list) (h : bucket_nodes s p_list = some as) : as.Nodup := by
  obtain ⟨as2, hbn, _, _, hs⟩ := (list_wf_iff _ _).mp hwf
  rw [h] at hbn; cases hbn
  exact nodup_of_sorted_vals _ _ hs

/-- The values of the bucket after a link: `val` is inserted at the stopping point. -/
theorem vals_linked (s : State) (val : Int) (p_list : Nat) (front : List Nat)
    (p_prev b : Nat) (post : List Nat) (prev : node_t)
    (hbn : bucket_nodes s p_list = some (front ++ p_prev :: b :: post))
    (hprev : s.nodes[p_prev]? = some prev) :
    (front ++ p_prev :: s.nodes.length :: b :: post).map
        (node_val (linked s val p_prev b prev).nodes) =
      (front ++ [p_prev]).map (node_val s.nodes) ++ val :: (b :: post).map (node_val s.nodes) := by
  have hlt := bucket_nodes_lt _ _ _ hbn
  have e : front ++ p_prev :: s.nodes.length :: b :: post =
      (front ++ [p_prev]) ++ s.nodes.length :: (b :: post) := by simp
  rw [e, List.map_append, List.map_cons, node_val_linked_new _ _ _ _ _ hprev]
  congr 1
  · apply map_node_val_congr
    intro a ha
    exact node_val_linked _ _ _ _ _ hprev a (hlt a (by
      rcases List.mem_append.mp ha with h | h
      · exact List.mem_append_left _ h
      · simp at h; subst h; simp))
  · congr 1
    apply map_node_val_congr
    intro a ha
    exact node_val_linked _ _ _ _ _ hprev a (hlt a (by
      apply List.mem_append_right
      exact List.mem_cons_of_mem _ ha))

theorem list_wf_linked (s : State) (val : Int) (p_list : Nat) (front : List Nat)
    (p_prev b : Nat) (post : List Nat) (prev : node_t) (hwf : list_wf s p_list)
    (hbn : bucket_nodes s p_list = some (front ++ p_prev :: b :: post))
    (hprev : s.nodes[p_prev]? = some prev)
    (hlow : ∀ a ∈ front ++ [p_prev], node_val s.nodes a < val)
    (hb : val < node_val s.nodes b) :
    list_wf (linked s val p_prev b prev) p_list := by
  have hnd := bucket_nodes_nodup _ _ _ hwf hbn
  obtain ⟨as, hbn2, hhead, hlast, hsorted⟩ := (list_wf_iff _ _).mp hwf
  rw [hbn] at hbn2; cases hbn2
  have hpost := sorted_after_stop _ _ _ _ _ hsorted
  have e : front ++ p_prev :: b :: post = (front ++ [p_prev]) ++ (b :: post) := by simp
  rw [e] at hhead hlast hsorted
  rw [List.map_append] at hhead hlast hsorted
  refine (list_wf_iff _ _).mpr ⟨_, bucket_nodes_linked s val p_list front p_prev b post prev
    hbn hprev hnd, ?_, ?_, ?_⟩
  · rw [vals_linked s val p_list front p_prev b post prev hbn hprev]
    cases hf : (front ++ [p_prev]).map (node_val s.nodes) with
    | nil => simp at hf
    | cons x xs => rw [hf] at hhead; simpa using hhead
  · rw [vals_linked s val p_list front p_prev b post prev hbn hprev]
    rw [List.getLast?_append] at hlast ⊢
    simpa using hlast
  · rw [vals_linked s val p_list front p_prev b post prev hbn hprev]
    apply pairwise_insert_mid _ _ _ hsorted
    · intro x hx
      obtain ⟨a, ha, rfl⟩ := List.mem_map.mp hx
      exact hlow a ha
    · intro y hy
      obtain ⟨a, ha, rfl⟩ := List.mem_map.mp hy
      rcases List.mem_cons.mp ha with rfl | ha
      · exact hb
      · exact lt_trans hb (hpost a ha)

theorem list_wf_unlinked (s : State) (p_list : Nat) (front : List Nat)
    (p_prev b : Nat) (post : List Nat) (prev nb : node_t) (hwf : list_wf s p_list)
    (hbn : bucket_nodes s p_list = some (front ++ p_prev :: b :: post))
    (hprev : s.nodes[p_prev]? = some prev) (hb : s.nodes[b]? = some nb)
    (hpost : post ≠ []) :
    list_wf (unlinked s p_prev b prev nb) p_list := by
  have hnd := bucket_nodes_nodup _ _ _ hwf hbn
  obtain ⟨as, hbn2, hhead, hlast, hsorted⟩ := (list_wf_iff _ _).mp hwf
  rw [hbn] at hbn2; cases hbn2
  have hvals : (front ++ p_prev :: post).map (node_val (unlinked s p_prev b prev nb).nodes) =
      (front ++ p_prev :: post).map (node_val s.nodes) :=
    map_node_val_congr _ _ _ (fun a _ => node_val_unlinked _ _ _ _ _ hprev a)
  have e : front ++ p_prev :: b :: post = (front ++ [p_prev]) ++ b :: post := by simp
  have e2 : front ++ p_prev :: post = (front ++ [p_prev]) ++ post := by simp
  rw [e] at hhead hlast hsorted
  rw [List.map_append] at hhead hlast hsorted
  refine (list_wf_iff _ _).mpr ⟨_, bucket_nodes_unlinked s p_list front p_prev b post prev nb
    hbn hprev hb hnd, ?_, ?_, ?_⟩
  · rw [hvals, e2, List.map_append]
    cases hf : (front ++ [p_prev]).map (node_val s.nodes) with
    | nil => simp at hf
    | cons x xs => rw [hf] at hhead; simpa using hhead
  · rw [hvals, e2, List.map_append]
    rw [List.getLast?_append] at hlast ⊢
    cases post with
    | nil => exact absurd rfl hpost
    | cons c cs =>
      rw [List.map_cons, List.map_cons, List.getLast?_cons_cons] at hlast
      exact hlast
  · rw [hvals, e2, List.map_append]
    exact pairwise_remove_mid _ _ _ hsorted

theorem list_wf_linked_frame (s : State) (val : Int) (p_prev b : Nat) (prev : node_t)
    (q : Nat) (as : List Nat) (hprev : s.nodes[p_prev]? = some prev)
    (hwf : list_wf s q) (hq : bucket_nodes s q = some as) (hnot : p_prev ∉ as) :
    list_wf (linked s val p_prev b prev) q := by
  obtain ⟨as2, hbn2, hhead, hlast, hsorted⟩ := (list_wf_iff _ _).mp hwf
  rw [hq] at hbn2; cases hbn2
  have hvals : as.map (node_val (linked s val p_prev b prev).nodes) =
      as.map (node_val s.nodes) :=
    map_node_val_congr _ _ _
      (fun a ha => node_val_linked _ _ _ _ _ hprev a (bucket_nodes_lt _ _ _ hq a ha))
  refine (list_wf_iff _ _).mpr ⟨as, bucket_nodes_linked_frame s val p_prev b prev q as hq hnot,
    ?_, ?_, ?_⟩
  · rw [hvals]; exact hhead
  · rw [hvals]; exact hlast
  · rw [hvals]; exact hsorted

theorem list_wf_unlinked_frame (s : State) (p_prev b : Nat) (prev nb : node_t)
    (q : Nat) (as : List Nat) (hprev : s.nodes[p_prev]? = some prev)
    (hwf : list_wf s q) (hq : bucket_nodes s q = some as) (hnot : p_prev ∉ as) :
    list_wf (unlinked s p_prev b prev nb) q := by
  obtain ⟨as2, hbn2, hhead, hlast, hsorted⟩ := (list_wf_iff _ _).mp hwf
  rw [hq] at hbn2; cases hbn2
  have hvals : as.map (node_val (unlinked s p_prev b prev nb).nodes) =
      as.map (node_val s.nodes) :=
    map_node_val_congr _ _ _ (fun a _ => node_val_unlinked _ _ _ _ _ hprev a)
  refine (list_wf_iff _ _).mpr ⟨as, bucket_nodes_unlinked_frame s p_prev b prev nb q as hq hnot,
    ?_, ?_, ?_⟩
  · rw [hvals]; exact hhead
  · rw [hvals]; exact hlast
  · rw [hvals]; exact hsorted

/-! ## `rcu_list_add` and `rcu_list_remove` on a well-formed bucket -/

theorem list_unlocked_iff (s : State) (p_list : Nat) :
    list_unlocked s p_list ↔ ∃ l, s.lists[p_list]? = some l ∧ l.rcuspin = false := by
  unfold list_unlocked
  cases s.lists[p_list]? <;> simp

/-- What `rcu_list_add` does on a well-formed bucket, in terms of the stopping
point of its traversal. -/
theorem rcu_list_add_at (s : State) (p_list : Nat) (val : Int) (hwf : bucket_wf s p_list)
    (hmin : LIST_VAL_MIN < val) (hmax : val ≤ LIST_VAL_MAX) :
    ∃ front p_prev b post prev,
      bucket_nodes s p_list = some (front ++ p_prev :: b :: post) ∧
      s.nodes[p_prev]? = some prev ∧ prev.p_next = some b ∧
      (∀ a ∈ front ++ [p_prev], node_val s.nodes a < val) ∧
      val ≤ node_val s.nodes b ∧
      (∀ a ∈ post, node_val s.nodes b < node_val s.nodes a) ∧
      rcu_list_add s p_list val =
        some (if node_val s.nodes b = val then s else linked s val p_prev b prev, 0) := by
  obtain ⟨hl, hu⟩ := hwf
  obtain ⟨front, p_prev, b, post, hbn, _, hlow, hb, hfind⟩ :=
    list_find_spec s p_list val hl hmax
  obtain ⟨l, prev, nb, hl2, _, hprev, hpn, _, _, _⟩ := chain_pieces s p_list front p_prev b post hbn
  obtain ⟨l3, hl3, hfree⟩ := (list_unlocked_iff _ _).mp hu
  rw [hl2] at hl3; cases hl3
  obtain ⟨as, hbn2, _, _, hsorted⟩ := (list_wf_iff _ _).mp hl
  rw [hbn] at hbn2; cases hbn2
  exact ⟨front, p_prev, b, post, prev, hbn, hprev, hpn, hlow hmin, hb,
    sorted_after_stop _ _ _ _ _ hsorted,
    rcu_list_add_eval s p_list val l p_prev b _ prev hl2 hfree hfind hprev⟩

/-- What `rcu_list_remove` does on a well-formed bucket, in terms of the stopping
point of its traversal. -/
theorem rcu_list_remove_at (s : State) (p_list : Nat) (val : Int) (hwf : bucket_wf s p_list)
    (hmax : val ≤ LIST_VAL_MAX) :
    ∃ front p_prev b post prev nb,
      bucket_nodes s p_list = some (front ++ p_prev :: b :: post) ∧
      s.nodes[p_prev]? = some prev ∧ prev.p_next = some b ∧ s.nodes[b]? = some nb ∧
      (∀ a ∈ (front ++ [p_prev]).tail, node_val s.nodes a < val) ∧
      (LIST_VAL_MIN < val → ∀ a ∈ front ++ [p_prev], node_val s.nodes a < val) ∧
      val ≤ node_val s.nodes b ∧
      (∀ a ∈ post, node_val s.nodes b < node_val s.nodes a) ∧
      rcu_list_remove s p_list val =
        some (if node_val s.nodes b = val then unlinked s p_prev b prev nb else s, 0) := by
  obtain ⟨hl, hu⟩ := hwf
  obtain ⟨front, p_prev, b, post, hbn, htail, hlow, hb, hfind⟩ :=
    list_find_spec s p_list val hl hmax
  obtain ⟨l, prev, nb, hl2, _, hprev, hpn, hnb, _, _⟩ :=
    chain_pieces s p_list front p_prev b post hbn
  obtain ⟨l3, hl3, hfree⟩ := (list_unlocked_iff _ _).mp hu
  rw [hl2] at hl3; cases hl3
  obtain ⟨as, hbn2, _, _, hsorted⟩ := (list_wf_iff _ _).mp hl
  rw [hbn] at hbn2; cases hbn2
  exact ⟨front, p_prev, b, post, prev, nb, hbn, hprev, hpn, hnb, htail, hlow, hb,
    sorted_after_stop _ _ _ _ _ hsorted,
    rcu_list_remove_eval s p_list val l p_prev b _ prev nb hl2 hfree hfind hprev hnb⟩

/-! ## Hashing -/

theorem HASH_VALUE_nonneg (g : hash_list_t) (k : Int) (hok : hash_list_ok g) (hk : 0 ≤ k) :
    HASH_VALUE g k = some (k % g.n_buckets) ∧ 0 ≤ k % g.n_buckets ∧
      k % g.n_buckets < g.n_buckets := by
  obtain ⟨h1, _, _⟩ := hok
  refine ⟨?_, Int.emod_nonneg _ (by omega), Int.emod_lt_of_pos _ (by omega)⟩
  unfold HASH_VALUE
  rw [if_neg (by omega), Int.tmod_eq_emod hk (by omega)]

/-- A non-negative key selects an initialised bucket slot. -/
theorem bucket_of_key (g : hash_list_t) (k : Int) (hok : hash_list_ok g) (hk : 0 ≤ k) :
    ∃ p, g.buckets[(k % g.n_buckets).toNat]? = some p ∧ p ∈ g.buckets ∧
      HASH_VALUE g k = some (k % g.n_buckets) ∧ bucket_at g (k % g.n_buckets) = some p := by
  obtain ⟨hh, h0, h1⟩ := HASH_VALUE_nonneg g k hok hk
  obtain ⟨_, _, hlen⟩ := hok
  have hlt : (k % g.n_buckets).toNat < g.buckets.length := by omega
  refine ⟨g.buckets[(k % g.n_buckets).toNat], List.getElem?_eq_getElem hlt,
    List.getElem_mem _, hh, ?_⟩
  unfold bucket_at
  rw [if_neg (by omega), List.getElem?_eq_getElem hlt]

/-! ## Lookup at the hash level -/

theorem rcx_list_contains_eq (s : State) (p_list : Nat) (val : Int) :
    rcx_list_contains s p_list val = rcu_list_contains s p_list val := rfl

theorem rcx_hash_list_contains_eq (g : hash_list_t) (s : State) (val : Int) :
    rcx_hash_list_contains g s val = rcu_hash_list_contains g s val := rfl

theorem hash_list_contains_spec (g : hash_list_t) (s : State) (k : Int)
    (hok : hash_list_ok g) (hwf : ∀ p ∈ g.buckets, list_wf s p)
    (hk0 : 0 ≤ k) (hk1 : k < LIST_VAL_MAX) :
    ∃ p as, g.buckets[(k % g.n_buckets).toNat]? = some p ∧ bucket_nodes s p = some as ∧
      rcu_hash_list_contains g s k =
        some (s, if k ∈ as.map (node_val s.nodes) then 0 else -ENOENT) ∧
      rcx_hash_list_contains g s k =
        some (s, if k ∈ as.map (node_val s.nodes) then 0 else -ENOENT) := by
  obtain ⟨p, hp, hmem, hh, hb⟩ := bucket_of_key g k hok hk0
  obtain ⟨as, hbn, hc⟩ := rcu_list_contains_spec s p k (hwf p hmem)
    (by unfold LIST_VAL_MIN; omega) (le_of_lt hk1)
  have key : rcu_hash_list_contains g s k =
      some (s, if k ∈ as.map (node_val s.nodes) then 0 else -ENOENT) := by
    unfold rcu_hash_list_contains
    simp only [hh, hb, hc, Option.bind_eq_bind, Option.some_bind, Option.pure_def]
    by_cases hm : k ∈ as.map (node_val s.nodes)
    · simp [hm]
    · simp [hm]
  exact ⟨p, as, hp, hbn, key, by rw [rcx_hash_list_contains_eq]; exact key⟩

/-- C1: on a hash set with `n_buckets` in `[1, 1000]` whose buckets are all
well-formed, for a key `0 ≤ k < LIST_VAL_MAX`, `rcu_hash_list_contains` and
`rcx_hash_list_contains` return 0 when some node reachable from the head of
bucket `k mod n_buckets` holds `k` and `-ENOENT` otherwise, and return the memory
unchanged. -/
theorem hash_list_contains_correct (g : hash_list_t) (s : State) (k : Int)
    (hok : hash_list_ok g) (hwf : ∀ p ∈ g.buckets, list_wf s p)
    (hk0 : 0 ≤ k) (hk1 : k < LIST_VAL_MAX) :
    ∃ p as, g.buckets[(k % g.n_buckets).toNat]? = some p ∧ bucket_nodes s p = some as ∧
      rcu_hash_list_contains g s k =
        some (s, if k ∈ as.map (node_val s.nodes) then 0 else -ENOENT) ∧
      rcx_hash_list_contains g s k =
        some (s, if k ∈ as.map (node_val s.nodes) then 0 else -ENOENT) :=
  hash_list_contains_spec g s k hok hwf hk0 hk1

theorem hash_list_contains_correct_witness :
    hash_list_ok hash_1 ∧ (∀ p ∈ hash_1.buckets, list_wf mem_3_7 p) ∧
    (0 : Int) ≤ 7 ∧ (7 : Int) < LIST_VAL_MAX ∧
    ∃ p as, hash_1.buckets[((7 : Int) % hash_1.n_buckets).toNat]? = some p ∧
      bucket_nodes mem_3_7 p = some as ∧
      rcu_hash_list_contains hash_1 mem_3_7 7 =
        some (mem_3_7, if (7 : Int) ∈ as.map (node_val mem_3_7.nodes) then 0 else -ENOENT) ∧
      rcx_hash_list_contains hash_1 mem_3_7 7 =
        some (mem_3_7, if (7 : Int) ∈ as.map (node_val mem_3_7.nodes) then 0 else -ENOENT) :=
  ⟨by decide, by decide, by decide, by decide,
    hash_list_contains_correct hash_1 mem_3_7 7 (by decide) (by decide) (by decide) (by decide)⟩

/-! ## One update inside a well-formed hash set -/

theorem chains_disjoint_iff (s : State) (p q : Nat) :
    chains_disjoint s p q ↔
      ∀ as bs, bucket_nodes s p = some as → bucket_nodes s q = some bs → ∀ a ∈ as, a ∉ bs := by
  unfold chains_disjoint
  cases hp : bucket_nodes s p with
  | none => simp
  | some as =>
    cases hq : bucket_nodes s q with
    | none => simp
    | some bs => simp

theorem bucket_vals_of_nodes (s : State) (p_list : Nat) (as : List Nat)
    (h : bucket_nodes s p_list = some as) :
    bucket_vals s p_list = some (as.map (node_val s.nodes)) := by
  unfold bucket_vals
  rw [h]

theorem list_wf_nodes (s : State) (p_list : Nat) (h : list_wf s p_list) :
    ∃ as, bucket_nodes s p_list = some as := by
  obtain ⟨as, hbn, _⟩ := (list_wf_iff _ _).mp h
  exact ⟨as, hbn⟩

theorem list_unlocked_of_lists (s s2 : State) (p_list : Nat) (h : s2.lists = s.lists)
    (hu : list_unlocked s p_list) : list_unlocked s2 p_list := by
  unfold list_unlocked at hu ⊢
  rw [h]; exact hu

/-- Linking a node into one bucket of a well-formed hash set keeps the hash set
well-formed and leaves the other buckets as they were. -/
theorem hash_list_wf_linked (g : hash_list_t) (s : State) (val : Int) (p_list : Nat)
    (front : List Nat) (p_prev b : Nat) (post : List Nat) (prev : node_t)
    (hwf : hash_list_wf g s) (hp : p_list ∈ g.buckets)
    (hbn : bucket_nodes s p_list = some (front ++ p_prev :: b :: post))
    (hprev : s.nodes[p_prev]? = some prev)
    (hlow : ∀ a ∈ front ++ [p_prev], node_val s.nodes a < val)
    (hb : val < node_val s.nodes b) :
    hash_list_wf g (linked s val p_prev b prev) ∧
      ∀ q ∈ g.buckets, q ≠ p_list →
        bucket_nodes (linked s val p_prev b prev) q = bucket_nodes s q ∧
        bucket_vals (linked s val p_prev b prev) q = bucket_vals s q := by
  obtain ⟨hok, hbw, hdis⟩ := hwf
  have hnd := bucket_nodes_nodup _ _ _ (hbw p_list hp).1 hbn
  have hnew := bucket_nodes_linked s val p_list front p_prev b post prev hbn hprev hnd
  have hframe : ∀ q ∈ g.buckets, q ≠ p_list → ∀ bs, bucket_nodes s q = some bs →
      p_prev ∉ bs := by
    intro q hq hne bs hbs hmem
    exact (chains_disjoint_iff _ _ _).mp (hdis p_list hp q hq (Ne.symm hne)) _ _ hbn hbs
      p_prev (by simp) hmem
  have hother : ∀ q ∈ g.buckets, q ≠ p_list →
      bucket_nodes (linked s val p_prev b prev) q = bucket_nodes s q ∧
      bucket_vals (linked s val p_prev b prev) q = bucket_vals s q := by
    intro q hq hne
    obtain ⟨bs, hbs⟩ := list_wf_nodes _ _ (hbw q hq).1
    have h1 := bucket_nodes_linked_frame s val p_prev b prev q bs hbs (hframe q hq hne bs hbs)
    refine ⟨by rw [h1, hbs], ?_⟩
    rw [bucket_vals_of_nodes _ _ _ h1, bucket_vals_of_nodes _ _ _ hbs]
    congr 1
    exact map_node_val_congr _ _ _
      (fun a ha => node_val_linked _ _ _ _ _ hprev a (bucket_nodes_lt _ _ _ hbs a ha))
  refine ⟨⟨hok, ?_, ?_⟩, hother⟩
  · intro q hq
    by_cases hqp : q = p_list
    · subst hqp
      exact ⟨list_wf_linked s val q front p_prev b post prev (hbw q hq).1 hbn hprev hlow hb,
        list_unlocked_of_lists s _ q rfl (hbw q hq).2⟩
    · obtain ⟨bs, hbs⟩ := list_wf_nodes _ _ (hbw q hq).1
      exact ⟨list_wf_linked_frame s val p_prev b prev q bs hprev (hbw q hq).1 hbs
        (hframe q hq hqp bs hbs), list_unlocked_of_lists s _ q rfl (hbw q hq).2⟩
  · -- every node of a new chain is a node of the old chain or the fresh node of `p_list`
    have hsub : ∀ q ∈ g.buckets, ∀ as2, bucket_nodes (linked s val p_prev b prev) q = some as2 →
        ∃ as, bucket_nodes s q = some as ∧
          ∀ a ∈ as2, a ∈ as ∨ (a = s.nodes.length ∧ q = p_list) := by
      intro q hq as2 has2
      by_cases hqp : q = p_list
      · subst hqp
        rw [hnew] at has2; cases has2
        refine ⟨_, hbn, ?_⟩
        intro a ha
        simp only [List.mem_append, List.mem_cons] at ha ⊢
        rcases ha with h | h | h | h | h
        · exact Or.inl (Or.inl h)
        · exact Or.inl (Or.inr (Or.inl h))
        · exact Or.inr ⟨h, trivial⟩
        · exact Or.inl (Or.inr (Or.inr (Or.inl h)))
        · exact Or.inl (Or.inr (Or.inr (Or.inr h)))
      · obtain ⟨bs, hbs⟩ := list_wf_nodes _ _ (hbw q hq).1
        rw [(hother q hq hqp).1, hbs] at has2; cases has2
        exact ⟨_, hbs, fun a ha => Or.inl ha⟩
    intro q1 hq1 q2 hq2 hne
    rw [chains_disjoint_iff]
    intro as1 as2 h1 h2 a ha1 ha2
    obtain ⟨bs1, hb1, hs1⟩ := hsub q1 hq1 as1 h1
    obtain ⟨bs2, hb2, hs2⟩ := hsub q2 hq2 as2 h2
    have hold := (chains_disjoint_iff _ _ _).mp (hdis q1 hq1 q2 hq2 hne) _ _ hb1 hb2
    rcases hs1 a ha1 with h | ⟨h, hq⟩
    · rcases hs2 a ha2 with h' | ⟨h', _⟩
      · exact hold a h h'
      · have := bucket_nodes_lt _ _ _ hb1 a h; omega
    · rcases hs2 a ha2 with h' | ⟨_, hq'⟩
      · have := bucket_nodes_lt _ _ _ hb2 a h'; omega
      · exact hne (hq.trans hq'.symm)

/-- Unlinking a node other than the tail sentinel from one bucket of a
well-formed hash set keeps the hash set well-formed and leaves the other
buckets as they were. -/
theorem hash_list_wf_unlinked (g : hash_list_t) (s : State) (p_list : Nat)
    (front : List Nat) (p_prev b : Nat) (post : List Nat) (prev nb : node_t)
    (hwf : hash_list_wf g s) (hp : p_list ∈ g.buckets)
    (hbn : bucket_nodes s p_list = some (front ++ p_prev :: b :: post))
    (hprev : s.nodes[p_prev]? = some prev) (hb : s.nodes[b]? = some nb)
    (hpost : post ≠ []) :
    hash_list_wf g (unlinked s p_prev b prev nb) ∧
      ∀ q ∈ g.buckets, q ≠ p_list →
        bucket_nodes (unlinked s p_prev b prev nb) q = bucket_nodes s q ∧
        bucket_vals (unlinked s p_prev b prev nb) q = bucket_vals s q := by
  obtain ⟨hok, hbw, hdis⟩ := hwf
  have hnd := bucket_nodes_nodup _ _ _ (hbw p_list hp).1 hbn
  have hnew := bucket_nodes_unlinked s p_list front p_prev b post prev nb hbn hprev hb hnd
  have hframe : ∀ q ∈ g.buckets, q ≠ p_list → ∀ bs, bucket_nodes s q = some bs →
      p_prev ∉ bs := by
    intro q hq hne bs hbs hmem
    exact (chains_disjoint_iff _ _ _).mp (hdis p_list hp q hq (Ne.symm hne)) _ _ hbn hbs
      p_prev (by simp) hmem
  have hother : ∀ q ∈ g.buckets, q ≠ p_list →
      bucket_nodes (unlinked s p_prev b prev nb) q = bucket_nodes s q ∧
      bucket_vals (unlinked s p_prev b prev nb) q = bucket_vals s q := by
    intro q hq hne
    obtain ⟨bs, hbs⟩ := list_wf_nodes _ _ (hbw q hq).1
    have h1 := bucket_nodes_unlinked_frame s p_prev b prev nb q bs hbs (hframe q hq hne bs hbs)
    refine ⟨by rw [h1, hbs], ?_⟩
    rw [bucket_vals_of_nodes _ _ _ h1, bucket_vals_of_nodes _ _ _ hbs]
    congr 1
    exact map_node_val_congr _ _ _ (fun a _ => node_val_unlinked _ _ _ _ _ hprev a)
  refine ⟨⟨hok, ?_, ?_⟩, hother⟩
  · intro q hq
    by_cases hqp : q = p_list
    · subst hqp
      exact ⟨list_wf_unlinked s q front p_prev b post prev nb (hbw q hq).1 hbn hprev hb hpost,
        list_unlocked_of_lists s _ q rfl (hbw q hq).2⟩
    · obtain ⟨bs, hbs⟩ := list_wf_nodes _ _ (hbw q hq).1
      exact ⟨list_wf_unlinked_frame s p_prev b prev nb q bs hprev (hbw q hq).1 hbs
        (hframe q hq hqp bs hbs), list_unlocked_of_lists s _ q rfl (hbw q hq).2⟩
  · have hsub : ∀ q ∈ g.buckets, ∀ as2, bucket_nodes (unlinked s p_prev b prev nb) q = some as2 →
        ∃ as, bucket_nodes s q = some as ∧ ∀ a ∈ as2, a ∈ as := by
      intro q hq as2 has2
      by_cases hqp : q = p_list
      · subst hqp
        rw [hnew] at has2; cases has2
        refine ⟨_, hbn, ?_⟩
        intro a ha
        simp only [List.mem_append, List.mem_cons] at ha ⊢
        rcases ha with h | h | h
        · exact Or.inl h
        · exact Or.inr (Or.inl h)
        · exact Or.inr (Or.inr (Or.inr h))
      · obtain ⟨bs, hbs⟩ := list_wf_nodes _ _ (hbw q hq).1
        rw [(hother q hq hqp).1, hbs] at has2; cases has2
        exact ⟨_, hbs, fun a ha => ha⟩
    intro q1 hq1 q2 hq2 hne
    rw [chains_disjoint_iff]
    intro as1 as2 h1 h2 a ha1 ha2
    obtain ⟨bs1, hb1, hs1⟩ := hsub q1 hq1 as1 h1
    obtain ⟨bs2, hb2, hs2⟩ := hsub q2 hq2 as2 h2
    exact (chains_disjoint_iff _ _ _).mp (hdis q1 hq1 q2 hq2 hne) _ _ hb1 hb2 a
      (hs1 a ha1) (hs2 a ha2)

/-! ## C3, C4: the contracts of `rcu_list_add` and `rcu_list_remove` -/

theorem linked_getElem_other (s : State) (val : Int) (p_prev b : Nat) (prev : node_t)
    (a : Nat) (ha : a < s.nodes.length) (hne : a ≠ p_prev) :
    (linked s val p_prev b prev).nodes[a]? = s.nodes[a]? := by
  unfold linked
  simp only
  rw [List.getElem?_set_ne (Ne.symm hne), List.getElem?_append_left ha]

theorem linked_getElem_new (s : State) (val : Int) (p_prev b : Nat) (prev : node_t)
    (hp : p_prev < s.nodes.length) :
    (linked s val p_prev b prev).nodes[s.nodes.length]? = some (added_node val b) := by
  unfold linked
  simp only
  rw [List.getElem?_set_ne (by omega), getElem?_append_new]

theorem linked_getElem_prev (s : State) (val : Int) (p_prev b : Nat) (prev : node_t)
    (hp : p_prev < s.nodes.length) :
    (linked s val p_prev b prev).nodes[p_prev]? =
      some { prev with p_next := some s.nodes.length } := by
  unfold linked
  simp only
  rw [List.getElem?_set_self (by simp; omega)]

/-- C3: on a well-formed bucket and for `LIST_VAL_MIN < k < LIST_VAL_MAX`,
`rcu_list_add` returns and leaves the memory unchanged when `k` is already
present; otherwise it allocates exactly one node, holding `k` with
`removed = 0`, and links it between the last node with a value below `k` and
the first node with a value above `k`: the chain of the bucket is the old chain
with the new node inserted there, the predecessor changes only in its `p_next`,
and every other node, the lists and the reclamation queues stay as they were. -/
theorem rcu_list_add_correct (s : State) (p_list : Nat) (k : Int) (hwf : bucket_wf s p_list)
    (hmin : LIST_VAL_MIN < k) (hmax : k < LIST_VAL_MAX) :
    ∃ as s2, bucket_nodes s p_list = some as ∧ rcu_list_add s p_list k = some (s2, 0) ∧
      (k ∈ as.map (node_val s.nodes) → s2 = s) ∧
      (k ∉ as.map (node_val s.nodes) →
        ∃ lo p_prev b hi prev nw, as = lo ++ p_prev :: b :: hi ∧
          (∀ a ∈ lo ++ [p_prev], node_val s.nodes a < k) ∧
          (∀ a ∈ b :: hi, k < node_val s.nodes a) ∧
          s.nodes[p_prev]? = some prev ∧ prev.p_next = some b ∧
          bucket_nodes s2 p_list = some (lo ++ p_prev :: s.nodes.length :: b :: hi) ∧
          s2.nodes.length = s.nodes.length + 1 ∧
          s2.nodes[s.nodes.length]? = some nw ∧
          nw.val = k ∧ nw.removed = 0 ∧ nw.p_next = some b ∧
          s2.nodes[p_prev]? = some { prev with p_next := some s.nodes.length } ∧
          (∀ a, a < s.nodes.length → a ≠ p_prev → s2.nodes[a]? = s.nodes[a]?) ∧
          (∀ a, a < s.nodes.length → node_val s2.nodes a = node_val s.nodes a) ∧
          s2.lists = s.lists ∧ s2.retired = s.retired ∧ s2.freed = s.freed ∧
          bucket_wf s2 p_list) := by
  obtain ⟨front, p_prev, b, post, prev, hbn, hprev, hpn, hlow, hb, hpost, heval⟩ :=
    rcu_list_add_at s p_list k hwf hmin (le_of_lt hmax)
  have hiff := mem_vals_iff_stop s p_list k front p_prev b post hwf.1 hbn hlow hb
  have hplt := getElem?_lt_length _ _ _ hprev
  by_cases hv : node_val s.nodes b = k
  · rw [if_pos hv] at heval
    exact ⟨_, s, hbn, heval, fun _ => rfl, fun hnot => absurd (hiff.mpr hv) hnot⟩
  · rw [if_neg hv] at heval
    have hlt : k < node_val s.nodes b := lt_of_le_of_ne hb (Ne.symm hv)
    have hnd := bucket_nodes_nodup _ _ _ hwf.1 hbn
    refine ⟨_, _, hbn, heval, fun hmem => absurd (hiff.mp hmem) hv, fun _ => ?_⟩
    refine ⟨front, p_prev, b, post, prev, added_node k b, rfl, hlow, ?_, hprev, hpn,
      bucket_nodes_linked s k p_list front p_prev b post prev hbn hprev hnd, ?_,
      linked_getElem_new s k p_prev b prev hplt, rfl, rfl, rfl,
      linked_getElem_prev s k p_prev b prev hplt,
      fun a ha hne => linked_getElem_other s k p_prev b prev a ha hne,
      fun a ha => node_val_linked s k p_prev b prev hprev a ha, rfl, rfl, rfl,
      list_wf_linked s k p_list front p_prev b post prev hwf.1 hbn hprev hlow hlt,
      list_unlocked_of_lists s _ p_list rfl hwf.2⟩
    · intro a ha
      rcases List.mem_cons.mp ha with rfl | ha
      · exact hlt
      · exact lt_trans hlt (hpost a ha)
    · simp [linked]

theorem rcu_list_add_correct_witness :
    bucket_wf mem_3_7 0 ∧ LIST_VAL_MIN < (5 : Int) ∧ (5 : Int) < LIST_VAL_MAX ∧
    ∃ as s2, bucket_nodes mem_3_7 0 = some as ∧ rcu_list_add mem_3_7 0 5 = some (s2, 0) ∧
      ((5 : Int) ∈ as.map (node_val mem_3_7.nodes) → s2 = mem_3_7) ∧
      ((5 : Int) ∉ as.map (node_val mem_3_7.nodes) →
        ∃ lo p_prev b hi prev nw, as = lo ++ p_prev :: b :: hi ∧
          (∀ a ∈ lo ++ [p_prev], node_val mem_3_7.nodes a < 5) ∧
          (∀ a ∈ b :: hi, 5 < node_val mem_3_7.nodes a) ∧
          mem_3_7.nodes[p_prev]? = some prev ∧ prev.p_next = some b ∧
          bucket_nodes s2 0 = some (lo ++ p_prev :: mem_3_7.nodes.length :: b :: hi) ∧
          s2.nodes.length = mem_3_7.nodes.length + 1 ∧
          s2.nodes[mem_3_7.nodes.length]? = some nw ∧
          nw.val = 5 ∧ nw.removed = 0 ∧ nw.p_next = some b ∧
          s2.nodes[p_prev]? = some { prev with p_next := some mem_3_7.nodes.length } ∧
          (∀ a, a < mem_3_7.nodes.length → a ≠ p_prev → s2.nodes[a]? = mem_3_7.nodes[a]?) ∧
          (∀ a, a < mem_3_7.nodes.length →
            node_val s2.nodes a = node_val mem_3_7.nodes a) ∧
          s2.lists = mem_3_7.lists ∧ s2.retired = mem_3_7.retired ∧
          s2.freed = mem_3_7.freed ∧ bucket_wf s2 0) :=
  ⟨by decide, by decide, by decide,
    rcu_list_add_correct mem_3_7 0 5 (by decide) (by decide) (by decide)⟩

theorem lseg_head (nodes : List node_t) (as : List Nat) (p : Option Nat)
    (h : lseg nodes p as none) : p = as.head? := by
  cases as with
  | nil => exact h
  | cons a as => exact ((lseg_cons _ _ _ _ _).mp h).1

/-- A stopping node holding less than `LIST_VAL_MAX` is not the tail sentinel. -/
theorem stop_not_tail (s : State) (p_list : Nat) (front : List Nat) (p_prev b : Nat)
    (post : List Nat) (hwf : list_wf s p_list)
    (hbn : bucket_nodes s p_list = some (front ++ p_prev :: b :: post))
    (hb : node_val s.nodes b < LIST_VAL_MAX) : post ≠ [] := by
  obtain ⟨as, hbn2, _, hlast, _⟩ := (list_wf_iff _ _).mp hwf
  rw [hbn] at hbn2; cases hbn2
  intro hnil
  subst hnil
  have e : front ++ [p_prev, b] = (front ++ [p_prev]) ++ [b] := by simp
  rw [e, List.map_append, List.getLast?_append] at hlast
  simp only [List.map_cons, List.map_nil, List.getLast?_singleton, Option.or_some,
    Option.some.injEq] at hlast
  omega

theorem unlinked_getElem_other (s : State) (p_prev b : Nat) (prev nb : node_t)
    (a : Nat) (hne : a ≠ p_prev) :
    (unlinked s p_prev b prev nb).nodes[a]? = s.nodes[a]? := by
  unfold unlinked
  simp only
  rw [List.getElem?_set_ne (Ne.symm hne)]

/-- C4: on a well-formed bucket and for `LIST_VAL_MIN < k < LIST_VAL_MAX`,
`rcu_list_remove` returns and leaves the memory unchanged (nothing is handed to
deferred reclamation) when `k` is absent; otherwise the only store is to the
predecessor of the node holding `k`, whose `p_next` becomes that node's
successor, the chain of the bucket is the old chain without that node, and
exactly that node is appended, once, to the deferred-reclamation queue. -/
theorem rcu_list_remove_correct (s : State) (p_list : Nat) (k : Int)
    (hwf : bucket_wf s p_list) (hmin : LIST_VAL_MIN < k) (hmax : k < LIST_VAL_MAX) :
    ∃ as s2, bucket_nodes s p_list = some as ∧ rcu_list_remove s p_list k = some (s2, 0) ∧
      (k ∉ as.map (node_val s.nodes) → s2 = s) ∧
      (k ∈ as.map (node_val s.nodes) →
        ∃ lo p_prev b hi prev nb, as = lo ++ p_prev :: b :: hi ∧
          node_val s.nodes b = k ∧
          s.nodes[p_prev]? = some prev ∧ prev.p_next = some b ∧
          s.nodes[b]? = some nb ∧ nb.p_next = hi.head? ∧
          s2.nodes = s.nodes.set p_prev { prev with p_next := nb.p_next } ∧
          (∀ a, a ≠ p_prev → s2.nodes[a]? = s.nodes[a]?) ∧
          bucket_nodes s2 p_list = some (lo ++ p_prev :: hi) ∧
          s2.retired = s.retired ++ [b] ∧
          s2.lists = s.lists ∧ s2.freed = s.freed ∧
          bucket_wf s2 p_list) := by
  obtain ⟨front, p_prev, b, post, prev, nb, hbn, hprev, hpn, hnb, _, hlow, hb, _, heval⟩ :=
    rcu_list_remove_at s p_list k hwf (le_of_lt hmax)
  have hiff := mem_vals_iff_stop s p_list k front p_prev b post hwf.1 hbn (hlow hmin) hb
  by_cases hv : node_val s.nodes b = k
  · rw [if_pos hv] at heval
    have hnd := bucket_nodes_nodup _ _ _ hwf.1 hbn
    have hpost : post ≠ [] := stop_not_tail s p_list front p_prev b post hwf.1 hbn (by omega)
    obtain ⟨_, _, nb2, _, _, _, _, hnb2, hseg, _⟩ := chain_pieces s p_list front p_prev b post hbn
    rw [hnb] at hnb2; cases hnb2
    refine ⟨_, _, hbn, heval, fun hnot => absurd (hiff.mpr hv) hnot, fun _ => ?_⟩
    exact ⟨front, p_prev, b, post, prev, nb, rfl, hv, hprev, hpn, hnb, lseg_head _ _ _ hseg,
      rfl, fun a hne => unlinked_getElem_other s p_prev b prev nb a hne,
      bucket_nodes_unlinked s p_list front p_prev b post prev nb hbn hprev hnb hnd,
      rfl, rfl, rfl,
      list_wf_unlinked s p_list front p_prev b post prev nb hwf.1 hbn hprev hnb hpost,
      list_unlocked_of_lists s _ p_list rfl hwf.2⟩
  · rw [if_neg hv] at heval
    exact ⟨_, s, hbn, heval, fun _ => rfl, fun hmem => absurd (hiff.mp hmem) hv⟩

theorem rcu_list_remove_correct_witness :
    bucket_wf mem_3_7 0 ∧ LIST_VAL_MIN < (3 : Int) ∧ (3 : Int) < LIST_VAL_MAX ∧
    ∃ as s2, bucket_nodes mem_3_7 0 = some as ∧ rcu_list_remove mem_3_7 0 3 = some (s2, 0) ∧
      ((3 : Int) ∉ as.map (node_val mem_3_7.nodes) → s2 = mem_3_7) ∧
      ((3 : Int) ∈ as.map (node_val mem_3_7.nodes) →
        ∃ lo p_prev b hi prev nb, as = lo ++ p_prev :: b :: hi ∧
          node_val mem_3_7.nodes b = 3 ∧
          mem_3_7.nodes[p_prev]? = some prev ∧ prev.p_next = some b ∧
          mem_3_7.nodes[b]? = some nb ∧ nb.p_next = hi.head? ∧
          s2.nodes = mem_3_7.nodes.set p_prev { prev with p_next := nb.p_next } ∧
          (∀ a, a ≠ p_prev → s2.nodes[a]? = mem_3_7.nodes[a]?) ∧
          bucket_nodes s2 0 = some (lo ++ p_prev :: hi) ∧
          s2.retired = mem_3_7.retired ++ [b] ∧
          s2.lists = mem_3_7.lists ∧ s2.freed = mem_3_7.freed ∧
          bucket_wf s2 0) :=
  ⟨by decide, by decide, by decide,
    rcu_list_remove_correct mem_3_7 0 3 (by decide) (by decide) (by decide)⟩

/-! ## Initialisation -/

theorem rcu_new_list_eq (s : State) :
    rcu_new_list s = some (with_new_list s, s.lists.length) := by
  unfold rcu_new_list with_new_list sentinel_node
  simp only [rcu_new_node, node_store, list_store, getElem?_append_new, set_append_new,
    Option.bind_eq_bind, Option.some_bind, Option.pure_def, List.length_append,
    List.length_singleton]
  simp

theorem with_new_list_max (s : State) :
    (with_new_list s).nodes[s.nodes.length]? = some (sentinel_node LIST_VAL_MAX none) := by
  unfold with_new_list
  simp only
  rw [List.getElem?_append_right (Nat.le_refl _)]
  simp

theorem with_new_list_min (s : State) :
    (with_new_list s).nodes[s.nodes.length + 1]? =
      some (sentinel_node LIST_VAL_MIN (some s.nodes.length)) := by
  unfold with_new_list
  simp only
  rw [List.getElem?_append_right (by omega)]
  simp

theorem rcx_new_list_eq (s : State) : rcx_new_list s = rcu_new_list s := rfl

theorem rcx_new_hash_list_loop_eq (todo : Nat) :
    ∀ (s : State) (buckets : List Nat),
      rcx_new_hash_list_loop todo s buckets = rcu_new_hash_list_loop todo s buckets := by
  induction todo with
  | zero => intro s buckets; rfl
  | succ todo ih =>
    intro s buckets
    unfold rcx_new_hash_list_loop rcu_new_hash_list_loop
    rw [rcx_new_list_eq]
    cases rcu_new_list s with
    | none => rfl
    | some r => exact ih _ _

theorem rcx_new_hash_list_eq (s : State) (n_buckets : Int) :
    rcx_new_hash_list s n_buckets = rcu_new_hash_list s n_buckets := by
  unfold rcx_new_hash_list rcu_new_hash_list
  rw [rcx_new_hash_list_loop_eq]

/-- Allocating a list does not disturb an existing bucket. -/
theorem bucket_nodes_with_new_list (s : State) (q : Nat) (as : List Nat)
    (hq : bucket_nodes s q = some as) :
    bucket_nodes (with_new_list s) q = some as := by
  obtain ⟨l, hl, hseg, hlen⟩ := (bucket_nodes_eq_some _ _ _).mp hq
  refine (bucket_nodes_eq_some _ _ _).mpr ⟨l, ?_, ?_, ?_⟩
  · unfold with_new_list
    simp only
    rw [List.getElem?_append_left (getElem?_lt_length _ _ _ hl)]
    exact hl
  · exact lseg_append_nodes _ _ _ _ _ hseg
  · simp [with_new_list]; omega

theorem bucket_wf_with_new_list (s : State) (q : Nat) (hq : bucket_wf s q) :
    bucket_wf (with_new_list s) q := by
  obtain ⟨hl, hu⟩ := hq
  obtain ⟨as, hbn, hhead, hlast, hsorted⟩ := (list_wf_iff _ _).mp hl
  have hvals : as.map (node_val (with_new_list s).nodes) = as.map (node_val s.nodes) :=
    map_node_val_congr _ _ _
      (fun a ha => node_val_append _ _ a (bucket_nodes_lt _ _ _ hbn a ha))
  refine ⟨(list_wf_iff _ _).mpr ⟨as, bucket_nodes_with_new_list s q as hbn, ?_, ?_, ?_⟩, ?_⟩
  · rw [hvals]; exact hhead
  · rw [hvals]; exact hlast
  · rw [hvals]; exact hsorted
  · obtain ⟨l, hl2, hfree⟩ := (list_unlocked_iff _ _).mp hu
    refine (list_unlocked_iff _ _).mpr ⟨l, ?_, hfree⟩
    unfold with_new_list
    simp only
    rw [List.getElem?_append_left (getElem?_lt_length _ _ _ hl2)]
    exact hl2

/-- The bucket built by `rcu_new_list`: head sentinel, then tail sentinel. -/
theorem bucket_nodes_new_list (s : State) :
    bucket_nodes (with_new_list s) s.lists.length =
      some [s.nodes.length + 1, s.nodes.length] := by
  refine (bucket_nodes_eq_some _ _ _).mpr
    ⟨{ p_head := some (s.nodes.length + 1), rcuspin := false }, ?_, ?_, ?_⟩
  · unfold with_new_list
    simp only
    rw [getElem?_append_new]
  · refine (lseg_cons _ _ _ _ _).mpr
      ⟨rfl, sentinel_node LIST_VAL_MIN (some s.nodes.length), with_new_list_min s, ?_⟩
    exact (lseg_cons _ _ _ _ _).mpr
      ⟨rfl, sentinel_node LIST_VAL_MAX none, with_new_list_max s, rfl⟩
  · simp [with_new_list]

theorem bucket_vals_new_list (s : State) :
    bucket_vals (with_new_list s) s.lists.length = some [LIST_VAL_MIN, LIST_VAL_MAX] := by
  rw [bucket_vals_of_nodes _ _ _ (bucket_nodes_new_list s)]
  simp only [List.map_cons, List.map_nil, node_val_of _ _ _ (with_new_list_min s),
    node_val_of _ _ _ (with_new_list_max s)]
  rfl

theorem bucket_wf_new_list (s : State) : bucket_wf (with_new_list s) s.lists.length := by
  constructor
  · unfold list_wf
    rw [bucket_vals_new_list]
    simp [LIST_VAL_MIN, LIST_VAL_MAX]
  · refine (list_unlocked_iff _ _).mpr
      ⟨{ p_head := some (s.nodes.length + 1), rcuspin := false }, ?_, rfl⟩
    unfold with_new_list
    simp only
    rw [getElem?_append_new]

theorem bucket_vals_with_new_list (s : State) (q : Nat) (hq : bucket_wf s q) :
    bucket_vals (with_new_list s) q = bucket_vals s q := by
  obtain ⟨as, hbn⟩ := list_wf_nodes _ _ hq.1
  rw [bucket_vals_of_nodes _ _ _ (bucket_nodes_with_new_list s q as hbn),
    bucket_vals_of_nodes _ _ _ hbn]
  congr 1
  exact map_node_val_congr _ _ _
    (fun a ha => node_val_append _ _ a (bucket_nodes_lt _ _ _ hbn a ha))

theorem bucket_lt_lists (s : State) (q : Nat) (hq : bucket_wf s q) : q < s.lists.length := by
  obtain ⟨l, hl, _⟩ := (list_unlocked_iff _ _).mp hq.2
  exact getElem?_lt_length _ _ _ hl

/-- Invariant of the bucket-allocation loop: the buckets built so far are
well-formed, empty and pairwise disjoint. -/
theorem rcu_new_hash_list_loop_spec (todo : Nat) :
    ∀ (s : State) (buckets : List Nat),
      (∀ p ∈ buckets, bucket_wf s p) →
      (∀ p ∈ buckets, bucket_vals s p = some [LIST_VAL_MIN, LIST_VAL_MAX]) →
      (∀ p ∈ buckets, ∀ q ∈ buckets, p ≠ q → chains_disjoint s p q) →
      ∃ s2 bs, rcu_new_hash_list_loop todo s buckets = some (s2, bs) ∧
        bs.length = buckets.length + todo ∧ (∀ p ∈ bs, bucket_wf s2 p) ∧
        (∀ p ∈ bs, bucket_vals s2 p = some [LIST_VAL_MIN, LIST_VAL_MAX]) ∧
        (∀ p ∈ bs, ∀ q ∈ bs, p ≠ q → chains_disjoint s2 p q) := by
  induction todo with
  | zero =>
    intro s buckets h1 h2 h3
    exact ⟨s, buckets, rfl, rfl, h1, h2, h3⟩
  | succ todo ih =>
    intro s buckets h1 h2 h3
    have hold : ∀ p ∈ buckets, ∃ as, bucket_nodes s p = some as ∧
        bucket_nodes (with_new_list s) p = some as ∧ ∀ a ∈ as, a < s.nodes.length := by
      intro p hp
      obtain ⟨as, hbn⟩ := list_wf_nodes _ _ (h1 p hp).1
      exact ⟨as, hbn, bucket_nodes_with_new_list s p as hbn, bucket_nodes_lt _ _ _ hbn⟩
    have hchain : ∀ p ∈ buckets ++ [s.lists.length], ∀ as,
        bucket_nodes (with_new_list s) p = some as →
        (p ∈ buckets ∧ bucket_nodes s p = some as ∧ ∀ a ∈ as, a < s.nodes.length) ∨
        (p = s.lists.length ∧ ∀ a ∈ as, s.nodes.length ≤ a) := by
      intro p hp as has
      rcases List.mem_append.mp hp with hp | hp
      · obtain ⟨bs, hb1, hb2, hb3⟩ := hold p hp
        rw [hb2] at has; cases has
        exact Or.inl ⟨hp, hb1, hb3⟩
      · simp only [List.mem_singleton] at hp
        subst hp
        rw [bucket_nodes_new_list] at has; cases has
        refine Or.inr ⟨rfl, ?_⟩
        intro a ha
        simp only [List.mem_cons, List.mem_singleton, List.not_mem_nil, or_false] at ha
        omega
    obtain ⟨s2, bs, hrun, hlen, hw, hv, hd⟩ :=
      ih (with_new_list s) (buckets ++ [s.lists.length])
        (by
          intro p hp
          rcases List.mem_append.mp hp with hp | hp
          · exact bucket_wf_with_new_list s p (h1 p hp)
          · simp only [List.mem_singleton] at hp
            subst hp
            exact bucket_wf_new_list s)
        (by
          intro p hp
          rcases List.mem_append.mp hp with hp | hp
          · rw [bucket_vals_with_new_list s p (h1 p hp)]; exact h2 p hp
          · simp only [List.mem_singleton] at hp
            subst hp
            exact bucket_vals_new_list s)
        (by
          intro p hp q hq hne
          rw [chains_disjoint_iff]
          intro as bs hpa hqb a ha hb
          rcases hchain p hp as hpa with ⟨hp1, hp2, hp3⟩ | ⟨hp1, hp3⟩
          · rcases hchain q hq bs hqb with ⟨hq1, hq2, _⟩ | ⟨_, hq3⟩
            · exact (chains_disjoint_iff _ _ _).mp (h3 p hp1 q hq1 hne) _ _ hp2 hq2 a ha hb
            · have := hp3 a ha; have := hq3 a hb; omega
          · rcases hchain q hq bs hqb with ⟨_, _, hq3⟩ | ⟨hq1, _⟩
            · have := hp3 a ha; have := hq3 a hb; omega
            · exact hne (hp1.trans hq1.symm))
    refine ⟨s2, bs, ?_, ?_, hw, hv, hd⟩
    · rw [rcu_new_hash_list_loop, rcu_new_list_eq]
      exact hrun
    · rw [hlen]; simp; omega

/-- The hash list built by `rcu_new_hash_list` for `1 ≤ n_buckets ≤ MAX_BUCKETS`
is well-formed and every bucket is empty. -/
theorem rcu_new_hash_list_spec (s0 : State) (n : Int) (h1 : 1 ≤ n) (h2 : n ≤ MAX_BUCKETS) :
    ∃ s g, rcu_new_hash_list s0 n = some (s, g) ∧ g.n_buckets = n ∧ hash_list_wf g s ∧
      ∀ p ∈ g.buckets, bucket_vals s p = some [LIST_VAL_MIN, LIST_VAL_MAX] := by
  obtain ⟨s, bs, hrun, hlen, hw, hv, hd⟩ :=
    rcu_new_hash_list_loop_spec n.toNat s0 [] (by simp) (by simp) (by simp)
  refine ⟨s, { n_buckets := n, buckets := bs }, ?_, rfl, ⟨⟨h1, h2, ?_⟩, hw, hd⟩, hv⟩
  · unfold rcu_new_hash_list
    rw [if_neg (by omega), hrun]
  · simpa using hlen

/-! ## One `rcu_list_add` / `rcu_list_remove` in a well-formed hash set -/

theorem mem_insert_mid (F B : List Int) (k x : Int) :
    x ∈ F ++ k :: B ↔ x = k ∨ x ∈ F ++ B := by
  simp only [List.mem_append, List.mem_cons]
  tauto

theorem map_split_stop (f : Nat → Int) (front : List Nat) (p_prev b : Nat) (post : List Nat) :
    (front ++ p_prev :: b :: post).map f = (front ++ [p_prev]).map f ++ (b :: post).map f := by
  simp

theorem rcu_list_add_step (g : hash_list_t) (s : State) (p_list : Nat) (k : Int)
    (hwf : hash_list_wf g s) (hp : p_list ∈ g.buckets)
    (hmin : LIST_VAL_MIN < k) (hmax : k < LIST_VAL_MAX) :
    ∃ s2 vs vs2, rcu_list_add s p_list k = some (s2, 0) ∧ hash_list_wf g s2 ∧
      bucket_vals s p_list = some vs ∧ bucket_vals s2 p_list = some vs2 ∧
      (∀ x, x ∈ vs2 ↔ x = k ∨ x ∈ vs) ∧
      vs2.length = (if k ∈ vs then vs.length else vs.length + 1) ∧
      (k ∈ vs → s2 = s) ∧
      ∀ q ∈ g.buckets, q ≠ p_list → bucket_vals s2 q = bucket_vals s q := by
  have hbw := hwf.2.1 p_list hp
  obtain ⟨front, p_prev, b, post, prev, hbn, hprev, hpn, hlow, hb, hpost, heval⟩ :=
    rcu_list_add_at s p_list k hbw hmin (le_of_lt hmax)
  have hiff := mem_vals_iff_stop s p_list k front p_prev b post hbw.1 hbn hlow hb
  by_cases hv : node_val s.nodes b = k
  · rw [if_pos hv] at heval
    have hmem := hiff.mpr hv
    refine ⟨s, _, _, heval, hwf, bucket_vals_of_nodes _ _ _ hbn, bucket_vals_of_nodes _ _ _ hbn,
      ?_, by rw [if_pos hmem], fun _ => rfl, fun _ _ _ => rfl⟩
    intro x
    constructor
    · exact fun h => Or.inr h
    · rintro (rfl | h)
      · exact hmem
      · exact h
  · rw [if_neg hv] at heval
    have hnmem : k ∉ (front ++ p_prev :: b :: post).map (node_val s.nodes) :=
      fun h => hv (hiff.mp h)
    have hlt : k < node_val s.nodes b := lt_of_le_of_ne hb (Ne.symm hv)
    have hnd := bucket_nodes_nodup _ _ _ hbw.1 hbn
    obtain ⟨hwf2, hother⟩ :=
      hash_list_wf_linked g s k p_list front p_prev b post prev hwf hp hbn hprev hlow hlt
    refine ⟨_, _, _, heval, hwf2, bucket_vals_of_nodes _ _ _ hbn,
      bucket_vals_of_nodes _ _ _
        (bucket_nodes_linked s k p_list front p_prev b post prev hbn hprev hnd),
      ?_, ?_, fun h => absurd h hnmem, fun q hq hne => (hother q hq hne).2⟩
    · intro x
      rw [vals_linked s k p_list front p_prev b post prev hbn hprev, map_split_stop]
      exact mem_insert_mid _ _ _ _
    · rw [if_neg hnmem]
      simp only [List.length_map, List.length_append, List.length_cons]
      omega

theorem mem_remove_mid (F B : List Int) (k x : Int)
    (h : (F ++ k :: B).Pairwise (fun x y => x < y)) :
    x ∈ F ++ B ↔ x ≠ k ∧ x ∈ F ++ k :: B := by
  rw [List.pairwise_append] at h
  obtain ⟨_, h2, h3⟩ := h
  have hB := (List.pairwise_cons.mp h2).1
  simp only [List.mem_append, List.mem_cons]
  constructor
  · rintro (hx | hx)
    · exact ⟨ne_of_lt (h3 x hx k (List.mem_cons_self _ _)), Or.inl hx⟩
    · exact ⟨ne_of_gt (hB x hx), Or.inr (Or.inr hx)⟩
  · rintro ⟨hne, hx | hx | hx⟩
    · exact Or.inl hx
    · exact absurd hx hne
    · exact Or.inr hx

theorem getLast?_append_ne_nil {α : Type} (l1 l2 : List α) (h : l2 ≠ []) :
    (l1 ++ l2).getLast? = l2.getLast? := by
  rw [List.getLast?_append, List.getLast?_eq_getLast l2 h]
  rfl

theorem map_split_unlink (f : Nat → Int) (front : List Nat) (p_prev : Nat) (post : List Nat) :
    (front ++ p_prev :: post).map f = (front ++ [p_prev]).map f ++ post.map f := by
  simp

/-- One `rcu_list_remove` with a key below `LIST_VAL_MAX` in a well-formed hash
set: it returns 0, the hash set stays well-formed, the first and the last node
of the bucket stay the same, no value changes, and the other buckets are
untouched. -/
theorem rcu_list_remove_step (g : hash_list_t) (s : State) (p_list : Nat) (k : Int)
    (hwf : hash_list_wf g s) (hp : p_list ∈ g.buckets) (hmax : k < LIST_VAL_MAX) :
    ∃ s2 as as2, rcu_list_remove s p_list k = some (s2, 0) ∧ hash_list_wf g s2 ∧
      bucket_nodes s p_list = some as ∧ bucket_nodes s2 p_list = some as2 ∧
      as2.head? = as.head? ∧ as2.getLast? = as.getLast? ∧
      (∀ a, node_val s2.nodes a = node_val s.nodes a) ∧
      (LIST_VAL_MIN < k → ∀ x, x ∈ as2.map (node_val s.nodes) ↔
        x ≠ k ∧ x ∈ as.map (node_val s.nodes)) ∧
      (LIST_VAL_MIN < k → as2.length =
        (if k ∈ as.map (node_val s.nodes) then as.length - 1 else as.length)) ∧
      (k ∉ as.map (node_val s.nodes) → s2 = s) ∧
      ∀ q ∈ g.buckets, q ≠ p_list →
        bucket_nodes s2 q = bucket_nodes s q ∧ bucket_vals s2 q = bucket_vals s q := by
  have hbw := hwf.2.1 p_list hp
  obtain ⟨front, p_prev, b, post, prev, nb, hbn, hprev, hpn, hnb, htail, hlow, hb, _, heval⟩ :=
    rcu_list_remove_at s p_list k hbw (le_of_lt hmax)
  obtain ⟨as0, hbn0, hhead, _, hsorted⟩ := (list_wf_iff _ _).mp hbw.1
  rw [hbn] at hbn0; cases hbn0
  -- the stopping node holds more than `LIST_VAL_MIN`
  have hbmin : LIST_VAL_MIN < node_val s.nodes b := by
    have hs := hsorted
    rw [map_split_stop, List.pairwise_append] at hs
    obtain ⟨_, _, h3⟩ := hs
    cases hf : (front ++ [p_prev]).map (node_val s.nodes) with
    | nil => simp at hf
    | cons x xs =>
      have hx : x = LIST_VAL_MIN := by
        rw [map_split_stop, hf] at hhead
        simpa using hhead
      have := h3 x (by rw [hf]; exact List.mem_cons_self _ _) (node_val s.nodes b)
        (by simp)
      omega
  by_cases hv : node_val s.nodes b = k
  · rw [if_pos hv] at heval
    have hmin : LIST_VAL_MIN < k := by omega
    have hiff := mem_vals_iff_stop s p_list k front p_prev b post hbw.1 hbn (hlow hmin) hb
    have hmem := hiff.mpr hv
    have hnd := bucket_nodes_nodup _ _ _ hbw.1 hbn
    have hpost : post ≠ [] := stop_not_tail s p_list front p_prev b post hbw.1 hbn (by omega)
    obtain ⟨hwf2, hother⟩ :=
      hash_list_wf_unlinked g s p_list front p_prev b post prev nb hwf hp hbn hprev hnb hpost
    refine ⟨_, _, _, heval, hwf2, hbn,
      bucket_nodes_unlinked s p_list front p_prev b post prev nb hbn hprev hnb hnd,
      ?_, ?_, fun a => node_val_unlinked s p_prev b prev nb hprev a, ?_, ?_,
      fun h => absurd hmem h, hother⟩
    · cases front <;> rfl
    · have e1 : front ++ p_prev :: post = (front ++ [p_prev]) ++ post := by simp
      have e2 : front ++ p_prev :: b :: post = (front ++ [p_prev, b]) ++ post := by simp
      rw [e1, getLast?_append_ne_nil _ _ hpost, e2, getLast?_append_ne_nil _ _ hpost]
    · intro _ x
      rw [map_split_unlink, map_split_stop, List.map_cons, hv]
      apply mem_remove_mid
      have hs := hsorted
      rw [map_split_stop, List.map_cons, hv] at hs
      exact hs
    · intro _
      rw [if_pos hmem]
      simp only [List.length_append, List.length_cons]
      omega
  · rw [if_neg hv] at heval
    have hnmem : LIST_VAL_MIN < k →
        k ∉ (front ++ p_prev :: b :: post).map (node_val s.nodes) :=
      fun hmin hmem => hv ((mem_vals_iff_stop s p_list k front p_prev b post hbw.1 hbn
        (hlow hmin) hb).mp hmem)
    refine ⟨s, _, _, heval, hwf, hbn, hbn, rfl, rfl, fun _ => rfl, ?_,
      fun hmin => by rw [if_neg (hnmem hmin)], fun _ => rfl, fun _ _ _ => ⟨rfl, rfl⟩⟩
    intro hmin x
    constructor
    · intro hx
      exact ⟨fun e => hnmem hmin (e ▸ hx), hx⟩
    · exact fun h => h.2

/-! ## One call at the hash level -/

theorem hash_present_iff (g : hash_list_t) (s : State) (k : Int) (p : Nat) (vs : List Int)
    (hok : hash_list_ok g) (hk : 0 ≤ k)
    (hp : g.buckets[(k % g.n_buckets).toNat]? = some p) (hvs : bucket_vals s p = some vs) :
    hash_present g s k ↔ k ∈ vs := by
  obtain ⟨p2, hp2, _, hh, hb⟩ := bucket_of_key g k hok hk
  rw [hp] at hp2; cases hp2
  constructor
  · rintro ⟨h, q, ws, h1, h2, h3, h4⟩
    rw [hh] at h1; cases h1
    rw [hb] at h2; cases h2
    rw [hvs] at h3; cases h3
    exact h4
  · intro hmem
    exact ⟨_, p, vs, hh, hb, hvs, hmem⟩

theorem rcu_hash_list_add_step (g : hash_list_t) (s : State) (k2 : Int)
    (hwf : hash_list_wf g s) (h0 : 0 ≤ k2) (h1 : k2 < LIST_VAL_MAX) :
    ∃ s2, rcu_hash_list_add g s k2 = some (s2, 0) ∧ hash_list_wf g s2 ∧
      (hash_present g s k2 → s2 = s) ∧
      ∀ k, 0 ≤ k → (hash_present g s2 k ↔ (k = k2 ∨ hash_present g s k)) := by
  obtain ⟨p2, hp2, hmem2, hh2, hb2⟩ := bucket_of_key g k2 hwf.1 h0
  obtain ⟨s2, vs, vs2, hrun, hwf2, hvs, hvs2, hiff, _, hsame, hother⟩ :=
    rcu_list_add_step g s p2 k2 hwf hmem2 (by unfold LIST_VAL_MIN; omega) h1
  refine ⟨s2, ?_, hwf2, ?_, ?_⟩
  · unfold rcu_hash_list_add
    simp only [hh2, hb2, Option.bind_eq_bind, Option.some_bind]
    exact hrun
  · intro hpres
    exact hsame ((hash_present_iff g s k2 p2 vs hwf.1 h0 hp2 hvs).mp hpres)
  · intro k hk
    obtain ⟨p, hp, hmem, _, _⟩ := bucket_of_key g k hwf.1 hk
    by_cases hpp : p = p2
    · subst hpp
      rw [hash_present_iff g s2 k p vs2 hwf.1 hk hp hvs2,
        hash_present_iff g s k p vs hwf.1 hk hp hvs]
      exact hiff k
    · obtain ⟨ws, hws⟩ : ∃ ws, bucket_vals s p = some ws := by
        obtain ⟨as, has⟩ := list_wf_nodes _ _ (hwf.2.1 p hmem).1
        exact ⟨_, bucket_vals_of_nodes _ _ _ has⟩
      have hne : k ≠ k2 := by
        intro e
        subst e
        rw [hp] at hp2; cases hp2
        exact hpp rfl
      rw [hash_present_iff g s2 k p ws hwf.1 hk hp (by rw [hother p hmem hpp]; exact hws),
        hash_present_iff g s k p ws hwf.1 hk hp hws]
      constructor
      · exact fun h => Or.inr h
      · rintro (h | h)
        · exact absurd h hne
        · exact h

theorem rcu_hash_list_remove_step (g : hash_list_t) (s : State) (k2 : Int)
    (hwf : hash_list_wf g s) (h0 : 0 ≤ k2) (h1 : k2 < LIST_VAL_MAX) :
    ∃ s2, rcu_hash_list_remove g s k2 = some (s2, 0) ∧ hash_list_wf g s2 ∧
      (¬ hash_present g s k2 → s2 = s) ∧
      ∀ k, 0 ≤ k → (hash_present g s2 k ↔ (k ≠ k2 ∧ hash_present g s k)) := by
  obtain ⟨p2, hp2, hmem2, hh2, hb2⟩ := bucket_of_key g k2 hwf.1 h0
  obtain ⟨s2, as, as2, hrun, hwf2, has, has2, _, _, hval, hiff, _, hsame, hother⟩ :=
    rcu_list_remove_step g s p2 k2 hwf hmem2 h1
  have hmin : LIST_VAL_MIN < k2 := by unfold LIST_VAL_MIN; omega
  have hvs := bucket_vals_of_nodes _ _ _ has
  have hvs2 : bucket_vals s2 p2 = some (as2.map (node_val s.nodes)) := by
    rw [bucket_vals_of_nodes _ _ _ has2]
    congr 1
    exact map_node_val_congr _ _ _ (fun a _ => hval a)
  refine ⟨s2, ?_, hwf2, ?_, ?_⟩
  · unfold rcu_hash_list_remove
    simp only [hh2, hb2, Option.bind_eq_bind, Option.some_bind]
    exact hrun
  · intro hpres
    exact hsame (fun hm => hpres ((hash_present_iff g s k2 p2 _ hwf.1 h0 hp2 hvs).mpr hm))
  · intro k hk
    obtain ⟨p, hp, hmem, _, _⟩ := bucket_of_key g k hwf.1 hk
    by_cases hpp : p = p2
    · subst hpp
      rw [hash_present_iff g s2 k p _ hwf.1 hk hp hvs2,
        hash_present_iff g s k p _ hwf.1 hk hp hvs]
      exact hiff hmin k
    · obtain ⟨ws, hws⟩ : ∃ ws, bucket_vals s p = some ws := by
        obtain ⟨bs, hbs⟩ := list_wf_nodes _ _ (hwf.2.1 p hmem).1
        exact ⟨_, bucket_vals_of_nodes _ _ _ hbs⟩
      have hne : k ≠ k2 := by
        intro e
        subst e
        rw [hp] at hp2; cases hp2
        exact hpp rfl
      rw [hash_present_iff g s2 k p ws hwf.1 hk hp (by rw [(hother p hmem hpp).2]; exact hws),
        hash_present_iff g s k p ws hwf.1 hk hp hws]
      constructor
      · exact fun h => ⟨hne, h⟩
      · exact fun h => h.2

/-! ## C2: sequences of adds and removes -/

theorem present_after_congr (k : Int) (ops : List hash_op) :
    ∀ (a b : Prop), (a ↔ b) → (present_after k ops a ↔ present_after k ops b) := by
  induction ops with
  | nil => intro a b h; exact h
  | cons op ops ih =>
    intro a b h
    cases op with
    | add k2 => exact ih _ _ (or_congr Iff.rfl h)
    | remove k2 => exact ih _ _ (and_congr Iff.rfl h)

theorem last_call_is_add_cons (op : hash_op) (ops : List hash_op) (k : Int) :
    last_call_is_add (op :: ops) k =
      if op.key = k then
        (if ops.filter (fun o => decide (o.key = k)) = [] then
          (match op with
            | hash_op.add _ => true
            | hash_op.remove _ => false)
         else last_call_is_add ops k)
      else last_call_is_add ops k := by
  unfold last_call_is_add
  by_cases hk : op.key = k
  · rw [if_pos hk, List.filter_cons_of_pos (by simpa using hk)]
    cases hF : ops.filter (fun o => decide (o.key = k)) with
    | nil => cases op <;> simp
    | cons x xs => simp [List.getLast?_cons_cons]
  · rw [if_neg hk, List.filter_cons_of_neg (by simpa using hk)]

theorem present_after_iff (k : Int) (ops : List hash_op) :
    ∀ init : Prop, present_after k ops init ↔
      (last_call_is_add ops k = true ∨
        (ops.filter (fun o => decide (o.key = k)) = [] ∧ init)) := by
  induction ops with
  | nil => intro init; simp [present_after, last_call_is_add]
  | cons op ops ih =>
    intro init
    rw [last_call_is_add_cons]
    cases op with
    | add k2 =>
      rw [present_after, ih]
      by_cases hk : k2 = k
      · subst hk
        rw [List.filter_cons_of_pos (by simp [hash_op.key])]
        generalize ops.filter (fun o => decide (o.key = k2)) = F
        generalize last_call_is_add ops k2 = c
        by_cases hF : F = []
        · simp [hash_op.key, hF]
        · simp [hash_op.key, hF]
      · have hk2 : ¬ k = k2 := fun e => hk e.symm
        rw [List.filter_cons_of_neg (by simp [hash_op.key, hk])]
        generalize ops.filter (fun o => decide (o.key = k)) = F
        generalize last_call_is_add ops k = c
        simp [hash_op.key, hk, hk2]
    | remove k2 =>
      rw [present_after, ih]
      by_cases hk : k2 = k
      · subst hk
        rw [List.filter_cons_of_pos (by simp [hash_op.key])]
        by_cases hF : ops.filter (fun o => decide (o.key = k2)) = []
        · have hc : last_call_is_add ops k2 = false := by
            unfold last_call_is_add
            rw [hF]
            rfl
          rw [hc, hF]
          simp [hash_op.key]
        · generalize ops.filter (fun o => decide (o.key = k2)) = F at hF
          generalize last_call_is_add ops k2 = c
          simp [hash_op.key, hF]
      · have hk2 : ¬ k = k2 := fun e => hk e.symm
        rw [List.filter_cons_of_neg (by simp [hash_op.key, hk])]
        generalize ops.filter (fun o => decide (o.key = k)) = F
        generalize last_call_is_add ops k = c
        simp [hash_op.key, hk, hk2]

theorem run_ops_spec (g : hash_list_t) (ops : List hash_op) :
    ∀ s, hash_list_wf g s → (∀ o ∈ ops, 0 ≤ o.key ∧ o.key < LIST_VAL_MAX) →
      ∃ s2, run_ops g s ops = some s2 ∧ hash_list_wf g s2 ∧
        ∀ k, 0 ≤ k → (hash_present g s2 k ↔ present_after k ops (hash_present g s k)) := by
  induction ops with
  | nil =>
    intro s hwf _
    exact ⟨s, rfl, hwf, fun _ _ => Iff.rfl⟩
  | cons op ops ih =>
    intro s hwf hops
    have hop := hops op (List.mem_cons_self _ _)
    have hrest : ∀ o ∈ ops, 0 ≤ o.key ∧ o.key < LIST_VAL_MAX :=
      fun o ho => hops o (List.mem_cons_of_mem _ ho)
    cases op with
    | add k2 =>
      obtain ⟨s1, hrun1, hwf1, _, hpres1⟩ := rcu_hash_list_add_step g s k2 hwf hop.1 hop.2
      obtain ⟨s2, hrun2, hwf2, hpres2⟩ := ih s1 hwf1 hrest
      refine ⟨s2, ?_, hwf2, ?_⟩
      · simp only [run_ops, run_op, hrun1]
        exact hrun2
      · intro k hk
        rw [hpres2 k hk, present_after]
        exact present_after_congr k ops _ _ (hpres1 k hk)
    | remove k2 =>
      obtain ⟨s1, hrun1, hwf1, _, hpres1⟩ := rcu_hash_list_remove_step g s k2 hwf hop.1 hop.2
      obtain ⟨s2, hrun2, hwf2, hpres2⟩ := ih s1 hwf1 hrest
      refine ⟨s2, ?_, hwf2, ?_⟩
      · simp only [run_ops, run_op, hrun1]
        exact hrun2
      · intro k hk
        rw [hpres2 k hk, present_after]
        exact present_after_congr k ops _ _ (hpres1 k hk)

/-- What `rcu_hash_list_contains` reports, in terms of `hash_present`. -/
theorem rcu_hash_list_contains_present (g : hash_list_t) (s : State) (k : Int)
    (hwf : hash_list_wf g s) (hk0 : 0 ≤ k) (hk1 : k < LIST_VAL_MAX) :
    (hash_present g s k → rcu_hash_list_contains g s k = some (s, 0)) ∧
    (¬ hash_present g s k → rcu_hash_list_contains g s k = some (s, -ENOENT)) := by
  obtain ⟨p, as, hp, hbn, hc, _⟩ :=
    hash_list_contains_spec g s k hwf.1 (fun p hp => (hwf.2.1 p hp).1) hk0 hk1
  have hiff := hash_present_iff g s k p _ hwf.1 hk0 hp (bucket_vals_of_nodes _ _ _ hbn)
  constructor
  · intro h
    rw [hc, if_pos (hiff.mp h)]
  · intro h
    rw [hc, if_neg (fun hm => h (hiff.mpr hm))]

theorem fresh_not_present (g : hash_list_t) (s : State) (k : Int) (hok : hash_list_ok g)
    (hfresh : ∀ p ∈ g.buckets, bucket_vals s p = some [LIST_VAL_MIN, LIST_VAL_MAX])
    (hk0 : 0 ≤ k) (hk1 : k < LIST_VAL_MAX) : ¬ hash_present g s k := by
  obtain ⟨p, hp, hmem, _, _⟩ := bucket_of_key g k hok hk0
  rw [hash_present_iff g s k p _ hok hk0 hp (hfresh p hmem)]
  simp only [List.mem_cons, List.mem_singleton, List.not_mem_nil, or_false, not_or]
  unfold LIST_VAL_MIN
  constructor <;> omega

/-- C2: after any sequence of `rcu_hash_list_add` / `rcu_hash_list_remove`
calls with keys in `[0, range)` on a freshly initialised hash set with
`1 ≤ n_buckets ≤ 1000` (every call returns), `rcu_hash_list_contains(k)` for
`k` in `[0, range)` returns 0 (present) exactly when the last call of the
sequence on `k` was an add, and `-ENOENT` otherwise.  Moreover, in every
well-formed hash set, `add(k); contains(k)` reports present and
`add(k); remove(k); contains(k)` reports absent. -/
theorem rcu_hash_list_sequence_correct (s0 : State) (n range : Int) (ops : List hash_op)
    (k : Int) (hn1 : 1 ≤ n) (hn2 : n ≤ MAX_BUCKETS) (hrange : range ≤ LIST_VAL_MAX)
    (hops : ∀ o ∈ ops, 0 ≤ o.key ∧ o.key < range) (hk0 : 0 ≤ k) (hk1 : k < range) :
    (∃ s g s2, rcu_new_hash_list s0 n = some (s, g) ∧ run_ops g s ops = some s2 ∧
      rcu_hash_list_contains g s2 k =
        some (s2, if last_call_is_add ops k = true then 0 else -ENOENT)) ∧
    (∀ g s, hash_list_wf g s →
      ∃ s1 s2, rcu_hash_list_add g s k = some (s1, 0) ∧
        rcu_hash_list_contains g s1 k = some (s1, 0) ∧
        rcu_hash_list_remove g s1 k = some (s2, 0) ∧
        rcu_hash_list_contains g s2 k = some (s2, -ENOENT)) := by
  have hkmax : k < LIST_VAL_MAX := by omega
  constructor
  · obtain ⟨s, g, hinit, _, hwf, hfresh⟩ := rcu_new_hash_list_spec s0 n hn1 hn2
    obtain ⟨s2, hrun, hwf2, hpres⟩ :=
      run_ops_spec g ops s hwf (fun o ho => ⟨(hops o ho).1, by have := (hops o ho).2; omega⟩)
    refine ⟨s, g, s2, hinit, hrun, ?_⟩
    have hnot := fresh_not_present g s k hwf.1 hfresh hk0 hkmax
    have hiff : hash_present g s2 k ↔ last_call_is_add ops k = true := by
      rw [hpres k hk0, present_after_iff]
      constructor
      · rintro (h | ⟨_, h⟩)
        · exact h
        · exact absurd h hnot
      · exact fun h => Or.inl h
    obtain ⟨hyes, hno⟩ := rcu_hash_list_contains_present g s2 k hwf2 hk0 hkmax
    by_cases hl : last_call_is_add ops k = true
    · rw [if_pos hl]; exact hyes (hiff.mpr hl)
    · rw [if_neg hl]; exact hno (fun h => hl (hiff.mp h))
  · intro g s hwf
    obtain ⟨s1, hadd, hwf1, _, hp1⟩ := rcu_hash_list_add_step g s k hwf hk0 hkmax
    obtain ⟨s2, hrem, hwf2, _, hp2⟩ := rcu_hash_list_remove_step g s1 k hwf1 hk0 hkmax
    refine ⟨s1, s2, hadd, ?_, hrem, ?_⟩
    · exact (rcu_hash_list_contains_present g s1 k hwf1 hk0 hkmax).1
        ((hp1 k hk0).mpr (Or.inl rfl))
    · exact (rcu_hash_list_contains_present g s2 k hwf2 hk0 hkmax).2
        (fun h => ((hp2 k hk0).mp h).1 rfl)

theorem rcu_hash_list_sequence_correct_witness :
    (1 : Int) ≤ 2 ∧ (2 : Int) ≤ MAX_BUCKETS ∧ (1024 : Int) ≤ LIST_VAL_MAX ∧
    (∀ o ∈ [hash_op.add 5, hash_op.add 8, hash_op.remove 5], 0 ≤ o.key ∧ o.key < 1024) ∧
    (0 : Int) ≤ 5 ∧ (5 : Int) < 1024 ∧
    ((∃ s g s2, rcu_new_hash_list State.empty 2 = some (s, g) ∧
      run_ops g s [hash_op.add 5, hash_op.add 8, hash_op.remove 5] = some s2 ∧
      rcu_hash_list_contains g s2 5 =
        some (s2, if last_call_is_add [hash_op.add 5, hash_op.add 8, hash_op.remove 5] 5 = true
          then 0 else -ENOENT)) ∧
    (∀ g s, hash_list_wf g s →
      ∃ s1 s2, rcu_hash_list_add g s 5 = some (s1, 0) ∧
        rcu_hash_list_contains g s1 5 = some (s1, 0) ∧
        rcu_hash_list_remove g s1 5 = some (s2, 0) ∧
        rcu_hash_list_contains g s2 5 = some (s2, -ENOENT))) :=
  ⟨by decide, by decide, by decide, by decide, by decide, by decide,
    rcu_hash_list_sequence_correct State.empty 2 1024
      [hash_op.add 5, hash_op.add 8, hash_op.remove 5] 5
      (by decide) (by decide) (by decide) (by decide) (by decide) (by decide)⟩

/-! ## C5: well-formedness is an invariant -/

/-- Along a chain without repeated nodes exactly the last node has a null `p_next`. -/
theorem lseg_null_iff_last (nodes : List node_t) (as : List Nat) :
    ∀ p, lseg nodes p as none → as.Nodup →
      ∀ a ∈ as, ∃ nd, nodes[a]? = some nd ∧ (nd.p_next = none ↔ as.getLast? = some a) := by
  induction as with
  | nil => intro p _ _ a ha; cases ha
  | cons c cs ih =>
    intro p h hnd a ha
    obtain ⟨_, nd, hn, hrest⟩ := (lseg_cons _ _ _ _ _).mp h
    obtain ⟨hc, hnd2⟩ := List.nodup_cons.mp hnd
    cases cs with
    | nil =>
      simp only [List.mem_singleton] at ha
      subst ha
      exact ⟨nd, hn, by simpa using hrest⟩
    | cons d ds =>
      rcases List.mem_cons.mp ha with rfl | ha
      · refine ⟨nd, hn, ?_⟩
        have hnx : nd.p_next = some d := ((lseg_cons _ _ _ _ _).mp hrest).1
        rw [hnx, List.getLast?_cons_cons]
        constructor
        · intro e; cases e
        · intro e
          exact absurd (List.mem_of_getLast?_eq_some e) hc
      · obtain ⟨nd2, hn2, hiff⟩ := ih _ hrest hnd2 a ha
        exact ⟨nd2, hn2, by rw [List.getLast?_cons_cons]; exact hiff⟩

theorem hash_add_bucket (g : hash_list_t) (s s2 : State) (k r : Int)
    (h : rcu_hash_list_add g s k = some (s2, r)) :
    ∃ p ∈ g.buckets, rcu_list_add s p k = some (s2, r) := by
  unfold rcu_hash_list_add at h
  cases hh : HASH_VALUE g k with
  | none => simp [hh] at h
  | some hv =>
    cases hb : bucket_at g hv with
    | none => simp [hh, hb] at h
    | some p =>
      simp only [hh, hb, Option.bind_eq_bind, Option.some_bind] at h
      refine ⟨p, ?_, h⟩
      unfold bucket_at at hb
      split at hb
      · cases hb
      · exact List.mem_iff_getElem?.mpr ⟨_, hb⟩

theorem hash_remove_bucket (g : hash_list_t) (s s2 : State) (k r : Int)
    (h : rcu_hash_list_remove g s k = some (s2, r)) :
    ∃ p ∈ g.buckets, rcu_list_remove s p k = some (s2, r) := by
  unfold rcu_hash_list_remove at h
  cases hh : HASH_VALUE g k with
  | none => simp [hh] at h
  | some hv =>
    cases hb : bucket_at g hv with
    | none => simp [hh, hb] at h
    | some p =>
      simp only [hh, hb, Option.bind_eq_bind, Option.some_bind] at h
      refine ⟨p, ?_, h⟩
      unfold bucket_at at hb
      split at hb
      · cases hb
      · exact List.mem_iff_getElem?.mpr ⟨_, hb⟩

/-- C5: bucket well-formedness is an invariant.  (1) For `1 ≤ n_buckets ≤ 1000`,
`rcu_new_hash_list` and `rcx_new_hash_list` return a well-formed hash set.
(2) In a well-formed hash set every bucket has a finite chain whose first
value is `LIST_VAL_MIN`, whose last value is `LIST_VAL_MAX`, whose values
strictly increase (so no value occurs twice), and in which the last node is the
only one with a null `p_next`.  (3) Every `rcu_hash_list_add` and
`rcu_hash_list_remove` with a key strictly between the sentinel values that
returns leaves the hash set well-formed, and for a non-negative key it does
return. -/
theorem well_formedness_invariant (s0 : State) (n : Int) (hn1 : 1 ≤ n) (hn2 : n ≤ MAX_BUCKETS) :
    (∃ s g, rcu_new_hash_list s0 n = some (s, g) ∧ rcx_new_hash_list s0 n = some (s, g) ∧
      hash_list_wf g s) ∧
    (∀ g s, hash_list_wf g s → ∀ p ∈ g.buckets,
      ∃ as, bucket_nodes s p = some as ∧
        (as.map (node_val s.nodes)).head? = some LIST_VAL_MIN ∧
        (as.map (node_val s.nodes)).getLast? = some LIST_VAL_MAX ∧
        (as.map (node_val s.nodes)).Pairwise (fun x y => x < y) ∧
        (as.map (node_val s.nodes)).Nodup ∧
        ∀ a ∈ as, ∃ nd, s.nodes[a]? = some nd ∧
          (nd.p_next = none ↔ as.getLast? = some a)) ∧
    (∀ g s k, hash_list_wf g s → LIST_VAL_MIN < k → k < LIST_VAL_MAX →
      (∀ s2 r, rcu_hash_list_add g s k = some (s2, r) → hash_list_wf g s2) ∧
      (∀ s2 r, rcu_hash_list_remove g s k = some (s2, r) → hash_list_wf g s2) ∧
      (0 ≤ k → (∃ s2, rcu_hash_list_add g s k = some (s2, 0) ∧ hash_list_wf g s2) ∧
        ∃ s2, rcu_hash_list_remove g s k = some (s2, 0) ∧ hash_list_wf g s2)) := by
  refine ⟨?_, ?_, ?_⟩
  · obtain ⟨s, g, hinit, _, hwf, _⟩ := rcu_new_hash_list_spec s0 n hn1 hn2
    exact ⟨s, g, hinit, by rw [rcx_new_hash_list_eq]; exact hinit, hwf⟩
  · intro g s hwf p hp
    obtain ⟨as, hbn, hhead, hlast, hsorted⟩ := (list_wf_iff _ _).mp (hwf.2.1 p hp).1
    obtain ⟨l, _, hseg, _⟩ := (bucket_nodes_eq_some _ _ _).mp hbn
    refine ⟨as, hbn, hhead, hlast, hsorted, ?_,
      lseg_null_iff_last _ _ _ hseg (nodup_of_sorted_vals _ _ hsorted)⟩
    exact hsorted.imp (fun {a b} hab => ne_of_lt hab)
  · intro g s k hwf hmin hmax
    refine ⟨?_, ?_, ?_⟩
    · intro s2 r h
      obtain ⟨p, hp, hrun⟩ := hash_add_bucket g s s2 k r h
      obtain ⟨s3, _, _, hrun3, hwf3, _⟩ := rcu_list_add_step g s p k hwf hp hmin hmax
      rw [hrun3] at hrun; cases hrun
      exact hwf3
    · intro s2 r h
      obtain ⟨p, hp, hrun⟩ := hash_remove_bucket g s s2 k r h
      obtain ⟨s3, _, _, hrun3, hwf3, _⟩ := rcu_list_remove_step g s p k hwf hp hmax
      rw [hrun3] at hrun; cases hrun
      exact hwf3
    · intro hk
      obtain ⟨s1, h1, hw1, _⟩ := rcu_hash_list_add_step g s k hwf hk hmax
      obtain ⟨s2, h2, hw2, _⟩ := rcu_hash_list_remove_step g s k hwf hk hmax
      exact ⟨⟨s1, h1, hw1⟩, ⟨s2, h2, hw2⟩⟩

theorem well_formedness_invariant_witness :
    (1 : Int) ≤ 3 ∧ (3 : Int) ≤ MAX_BUCKETS ∧
    ((∃ s g, rcu_new_hash_list State.empty 3 = some (s, g) ∧
      rcx_new_hash_list State.empty 3 = some (s, g) ∧ hash_list_wf g s) ∧
    (∀ g s, hash_list_wf g s → ∀ p ∈ g.buckets,
      ∃ as, bucket_nodes s p = some as ∧
        (as.map (node_val s.nodes)).head? = some LIST_VAL_MIN ∧
        (as.map (node_val s.nodes)).getLast? = some LIST_VAL_MAX ∧
        (as.map (node_val s.nodes)).Pairwise (fun x y => x < y) ∧
        (as.map (node_val s.nodes)).Nodup ∧
        ∀ a ∈ as, ∃ nd, s.nodes[a]? = some nd ∧
          (nd.p_next = none ↔ as.getLast? = some a)) ∧
    (∀ g s k, hash_list_wf g s → LIST_VAL_MIN < k → k < LIST_VAL_MAX →
      (∀ s2 r, rcu_hash_list_add g s k = some (s2, r) → hash_list_wf g s2) ∧
      (∀ s2 r, rcu_hash_list_remove g s k = some (s2, r) → hash_list_wf g s2) ∧
      (0 ≤ k → (∃ s2, rcu_hash_list_add g s k = some (s2, 0) ∧ hash_list_wf g s2) ∧
        ∃ s2, rcu_hash_list_remove g s k = some (s2, 0) ∧ hash_list_wf g s2))) :=
  ⟨by decide, by decide, well_formedness_invariant State.empty 3 (by decide) (by decide)⟩

/-! ## C6: removes and the sentinels -/

theorem hash_list_wf_single (s : State) (p_list : Nat) (h : bucket_wf s p_list) :
    hash_list_wf { n_buckets := 1, buckets := [p_list] } s := by
  refine ⟨⟨le_refl _, by show (1 : Int) ≤ (1000 : Nat); decide, rfl⟩, ?_, ?_⟩
  · intro p hp
    simp only [List.mem_singleton] at hp
    subst hp
    exact h
  · intro p hp q hq hne
    simp only [List.mem_singleton] at hp hq
    exact absurd (hp.trans hq.symm) hne

/-- C6 as stated fails: `rcu_list_remove` and `rcu_hash_list_remove` with the key
`LIST_VAL_MAX` on the well-formed bucket holding 3 and 7 return 0 after
unlinking the tail sentinel (node 0): afterwards the chain is head, 3, 7, its
last value is 7, and node 0 is in the deferred-reclamation queue. -/
theorem remove_max_unlinks_tail :
    bucket_wf mem_3_7 0 ∧ hash_list_wf hash_1 mem_3_7 ∧
    bucket_nodes mem_3_7 0 = some [1, 2, 3, 0] ∧
    (rcu_list_remove mem_3_7 0 LIST_VAL_MAX).map
        (fun r => (r.2, bucket_nodes r.1 0, bucket_vals r.1 0, r.1.retired)) =
      some (0, some [1, 2, 3], some [LIST_VAL_MIN, 3, 7], [0]) ∧
    (rcu_hash_list_remove hash_1 mem_3_7 LIST_VAL_MAX).map
        (fun r => (r.2, bucket_nodes r.1 0, bucket_vals r.1 0, r.1.retired)) =
      some (0, some [1, 2, 3], some [LIST_VAL_MIN, 3, 7], [0]) :=
  ⟨by decide, by decide, by decide, by decide, by decide⟩

/-- C6, amended: for every key below `LIST_VAL_MAX` (`LIST_VAL_MIN` included),
`rcu_list_remove` on a well-formed bucket returns 0 and afterwards the bucket
is well-formed with the same first node and the same last node, which still
hold `LIST_VAL_MIN` and `LIST_VAL_MAX`; the same holds for every bucket of a
well-formed hash set after any `rcu_hash_list_remove` that returns, and for a
non-negative key it does return. -/
theorem remove_keeps_sentinels (k : Int) (hmax : k < LIST_VAL_MAX) :
    (∀ s p_list, bucket_wf s p_list →
      ∃ s2 as as2, rcu_list_remove s p_list k = some (s2, 0) ∧
        bucket_nodes s p_list = some as ∧ bucket_nodes s2 p_list = some as2 ∧
        as2.head? = as.head? ∧ as2.getLast? = as.getLast? ∧
        (as2.map (node_val s2.nodes)).head? = some LIST_VAL_MIN ∧
        (as2.map (node_val s2.nodes)).getLast? = some LIST_VAL_MAX ∧
        bucket_wf s2 p_list) ∧
    (∀ g s, hash_list_wf g s →
      (∀ s2 r, rcu_hash_list_remove g s k = some (s2, r) →
        r = 0 ∧ hash_list_wf g s2 ∧
        ∀ q ∈ g.buckets, ∃ as as2, bucket_nodes s q = some as ∧
          bucket_nodes s2 q = some as2 ∧
          as2.head? = as.head? ∧ as2.getLast? = as.getLast? ∧
          (as2.map (node_val s2.nodes)).head? = some LIST_VAL_MIN ∧
          (as2.map (node_val s2.nodes)).getLast? = some LIST_VAL_MAX) ∧
      (0 ≤ k → ∃ s2, rcu_hash_list_remove g s k = some (s2, 0))) := by
  have key : ∀ g s p, hash_list_wf g s → p ∈ g.buckets →
      ∃ s2, rcu_list_remove s p k = some (s2, 0) ∧ hash_list_wf g s2 ∧
        ∀ q ∈ g.buckets, ∃ as as2, bucket_nodes s q = some as ∧
          bucket_nodes s2 q = some as2 ∧
          as2.head? = as.head? ∧ as2.getLast? = as.getLast? ∧
          (as2.map (node_val s2.nodes)).head? = some LIST_VAL_MIN ∧
          (as2.map (node_val s2.nodes)).getLast? = some LIST_VAL_MAX := by
    intro g s p hwf hp
    obtain ⟨s2, as, as2, hrun, hwf2, has, has2, hh, hl, _, _, _, _, hother⟩ :=
      rcu_list_remove_step g s p k hwf hp hmax
    refine ⟨s2, hrun, hwf2, ?_⟩
    intro q hq
    obtain ⟨bs2, hbs2, hhead, hlast, _⟩ := (list_wf_iff _ _).mp (hwf2.2.1 q hq).1
    by_cases hqp : q = p
    · subst hqp
      rw [has2] at hbs2; cases hbs2
      exact ⟨as, as2, has, has2, hh, hl, hhead, hlast⟩
    · obtain ⟨bs, hbs⟩ := list_wf_nodes _ _ (hwf.2.1 q hq).1
      have hsame := (hother q hq hqp).1
      rw [hbs2, hbs] at hsame
      have e : bs2 = bs := Option.some.inj hsame
      exact ⟨bs, bs2, hbs, hbs2, by rw [e], by rw [e], hhead, hlast⟩
  constructor
  · intro s p_list hbw
    obtain ⟨s2, hrun, hwf2, hall⟩ :=
      key { n_buckets := 1, buckets := [p_list] } s p_list (hash_list_wf_single s p_list hbw)
        (List.mem_singleton.mpr rfl)
    obtain ⟨as, as2, h1, h2, h3, h4, h5, h6⟩ := hall p_list (List.mem_singleton.mpr rfl)
    exact ⟨s2, as, as2, hrun, h1, h2, h3, h4, h5, h6,
      hwf2.2.1 p_list (List.mem_singleton.mpr rfl)⟩
  · intro g s hwf
    constructor
    · intro s2 r h
      obtain ⟨p, hp, hrun⟩ := hash_remove_bucket g s s2 k r h
      obtain ⟨s3, hrun3, hwf3, hall⟩ := key g s p hwf hp
      rw [hrun3] at hrun; cases hrun
      exact ⟨rfl, hwf3, hall⟩
    · intro hk
      obtain ⟨s2, h2, _⟩ := rcu_hash_list_remove_step g s k hwf hk hmax
      exact ⟨s2, h2⟩

theorem remove_keeps_sentinels_witness :
    LIST_VAL_MIN < LIST_VAL_MAX ∧
    ((∀ s p_list, bucket_wf s p_list →
      ∃ s2 as as2, rcu_list_remove s p_list LIST_VAL_MIN = some (s2, 0) ∧
        bucket_nodes s p_list = some as ∧ bucket_nodes s2 p_list = some as2 ∧
        as2.head? = as.head? ∧ as2.getLast? = as.getLast? ∧
        (as2.map (node_val s2.nodes)).head? = some LIST_VAL_MIN ∧
        (as2.map (node_val s2.nodes)).getLast? = some LIST_VAL_MAX ∧
        bucket_wf s2 p_list) ∧
    (∀ g s, hash_list_wf g s →
      (∀ s2 r, rcu_hash_list_remove g s LIST_VAL_MIN = some (s2, r) →
        r = 0 ∧ hash_list_wf g s2 ∧
        ∀ q ∈ g.buckets, ∃ as as2, bucket_nodes s q = some as ∧
          bucket_nodes s2 q = some as2 ∧
          as2.head? = as.head? ∧ as2.getLast? = as.getLast? ∧
          (as2.map (node_val s2.nodes)).head? = some LIST_VAL_MIN ∧
          (as2.map (node_val s2.nodes)).getLast? = some LIST_VAL_MAX) ∧
      (0 ≤ LIST_VAL_MIN → ∃ s2, rcu_hash_list_remove g s LIST_VAL_MIN = some (s2, 0)))) :=
  ⟨by decide, remove_keeps_sentinels LIST_VAL_MIN (by decide)⟩

/-! ## C10: the hash of a non-negative key -/

/-- C10: for a key `k ≥ 0` and `1 ≤ n_buckets ≤ 1000`, `HASH_VALUE` evaluates to
`k mod n_buckets`, which lies in `[0, n_buckets)`; and in the hash list built by
`rcu_new_hash_list` / `rcx_new_hash_list` for that bucket count the slot with
this index was initialised: it points to a well-formed bucket. -/
theorem HASH_VALUE_in_range (s0 : State) (n k : Int) (hn1 : 1 ≤ n) (hn2 : n ≤ MAX_BUCKETS)
    (hk : 0 ≤ k) :
    (∀ g : hash_list_t, g.n_buckets = n →
      HASH_VALUE g k = some (k % n) ∧ 0 ≤ k % n ∧ k % n < n) ∧
    ∃ s g p, rcu_new_hash_list s0 n = some (s, g) ∧ rcx_new_hash_list s0 n = some (s, g) ∧
      g.n_buckets = n ∧ g.buckets.length = n.toNat ∧
      HASH_VALUE g k = some (k % n) ∧ bucket_at g (k % n) = some p ∧
      g.buckets[(k % n).toNat]? = some p ∧ bucket_wf s p := by
  constructor
  · intro g hg
    subst hg
    refine ⟨?_, Int.emod_nonneg _ (by omega), Int.emod_lt_of_pos _ (by omega)⟩
    unfold HASH_VALUE
    rw [if_neg (by omega), Int.tmod_eq_emod hk (by omega)]
  · obtain ⟨s, g, hinit, hgn, hwf, _⟩ := rcu_new_hash_list_spec s0 n hn1 hn2
    obtain ⟨p, hp, hmem, hh, hb⟩ := bucket_of_key g k hwf.1 hk
    rw [hgn] at hp hh hb
    refine ⟨s, g, p, hinit, by rw [rcx_new_hash_list_eq]; exact hinit, hgn, ?_, hh, hb, hp,
      hwf.2.1 p hmem⟩
    rw [← hgn]
    exact hwf.1.2.2

theorem HASH_VALUE_in_range_witness :
    (1 : Int) ≤ 8 ∧ (8 : Int) ≤ MAX_BUCKETS ∧ (0 : Int) ≤ 1023 ∧
    ((∀ g : hash_list_t, g.n_buckets = 8 →
      HASH_VALUE g 1023 = some (1023 % 8) ∧ (0 : Int) ≤ 1023 % 8 ∧ (1023 : Int) % 8 < 8) ∧
    ∃ s g p, rcu_new_hash_list State.empty 8 = some (s, g) ∧
      rcx_new_hash_list State.empty 8 = some (s, g) ∧
      g.n_buckets = 8 ∧ g.buckets.length = (8 : Int).toNat ∧
      HASH_VALUE g 1023 = some (1023 % 8) ∧ bucket_at g (1023 % 8) = some p ∧
      g.buckets[((1023 : Int) % 8).toNat]? = some p ∧ bucket_wf s p) :=
  ⟨by decide, by decide, by decide,
    HASH_VALUE_in_range State.empty 8 1023 (by decide) (by decide) (by decide)⟩

/-! ## `list_size` -/

theorem wrap_int_succ (x : Int) : wrap_int (wrap_int x + 1) = wrap_int (x + 1) := by
  unfold wrap_int
  omega

theorem wrap_int_of_int (x : Int) (h0 : LIST_VAL_MIN ≤ x) (h1 : x ≤ LIST_VAL_MAX) :
    wrap_int x = x := by
  unfold wrap_int
  unfold LIST_VAL_MIN at h0
  unfold LIST_VAL_MAX at h1
  omega

theorem list_size_loop_spec (nodes : List node_t) (as : List Nat) :
    ∀ (fuel a : Nat) (size : Int), lseg nodes (some a) (a :: as) none → as.length < fuel →
      list_size_loop nodes fuel a (wrap_int size) = some (wrap_int (size + as.length)) := by
  induction as with
  | nil =>
    intro fuel a size h hl
    obtain ⟨_, n, hn, hrest⟩ := (lseg_cons _ _ _ _ _).mp h
    have hnx : n.p_next = none := hrest
    cases fuel with
    | zero => simp at hl
    | succ fuel =>
      simp [list_size_loop, hn, hnx]
  | cons b bs ih =>
    intro fuel a size h hl
    obtain ⟨_, n, hn, hrest⟩ := (lseg_cons _ _ _ _ _).mp h
    have hnx : n.p_next = some b := ((lseg_cons _ _ _ _ _).mp hrest).1
    cases fuel with
    | zero => simp at hl
    | succ fuel =>
      rw [list_size_loop]
      simp only [hn, hnx]
      rw [wrap_int_succ, ih fuel b (size + 1) (hnx ▸ hrest) (by simpa using hl)]
      congr 2
      simp only [List.length_cons]
      push_cast
      ring

/-- On a well-formed bucket `list_size` returns the number of nodes between the
sentinels, as an `int`. -/
theorem list_size_spec (s : State) (p_list : Nat) (as : List Nat) (hwf : list_wf s p_list)
    (hbn : bucket_nodes s p_list = some as) :
    list_size s p_list = some (wrap_int ((as.length : Int) - 2)) := by
  obtain ⟨as2, hbn2, hhead, hlast, _⟩ := (list_wf_iff _ _).mp hwf
  rw [hbn] at hbn2; cases hbn2
  obtain ⟨l, hl, hseg, hlen⟩ := (bucket_nodes_eq_some _ _ _).mp hbn
  cases as with
  | nil => simp at hhead
  | cons hd rest =>
    obtain ⟨hph, hn, hhn, hrest⟩ := (lseg_cons _ _ _ _ _).mp hseg
    cases rest with
    | nil =>
      have hv : node_val s.nodes hd = LIST_VAL_MIN := by simpa using hhead
      simp only [List.map_cons, List.map_nil, List.getLast?_singleton, Option.some.injEq] at hlast
      rw [hv] at hlast
      simp [LIST_VAL_MIN, LIST_VAL_MAX] at hlast
    | cons r rs =>
      have hnx : hn.p_next = some r := ((lseg_cons _ _ _ _ _).mp hrest).1
      unfold list_size
      simp only [hl, hph, hhn, hnx, Option.bind_eq_bind, Option.some_bind]
      have h0 : (0 : Int) = wrap_int 0 := by unfold wrap_int; rfl
      rw [h0, list_size_loop_spec s.nodes rs s.nodes.length r 0 (hnx ▸ hrest)
        (by simp at hlen; omega)]
      congr 2
      simp only [List.length_cons]
      push_cast
      ring

/-! ## C9: filling and clearing a bucket -/

theorem head?_append_cons {α : Type} (l1 l2 l3 : List α) (a : α) :
    (l1 ++ a :: l2).head? = (l1 ++ a :: l3).head? := by
  cases l1 <;> rfl

/-- One `rcu_list_add` on a well-formed bucket, seen on its chain of nodes. -/
theorem rcu_list_add_ends (s : State) (p_list : Nat) (k : Int) (hwf : bucket_wf s p_list)
    (hmin : LIST_VAL_MIN < k) (hmax : k < LIST_VAL_MAX) :
    ∃ s2 as as2, rcu_list_add s p_list k = some (s2, 0) ∧ bucket_wf s2 p_list ∧
      bucket_nodes s p_list = some as ∧ bucket_nodes s2 p_list = some as2 ∧
      as2.head? = as.head? ∧ as2.getLast? = as.getLast? ∧
      (∀ x, x ∈ as2.map (node_val s2.nodes) ↔ x = k ∨ x ∈ as.map (node_val s.nodes)) ∧
      as2.length = (if k ∈ as.map (node_val s.nodes) then as.length else as.length + 1) := by
  obtain ⟨front, p_prev, b, post, prev, hbn, hprev, hpn, hlow, hb, hpost, heval⟩ :=
    rcu_list_add_at s p_list k hwf hmin (le_of_lt hmax)
  have hiff := mem_vals_iff_stop s p_list k front p_prev b post hwf.1 hbn hlow hb
  by_cases hv : node_val s.nodes b = k
  · rw [if_pos hv] at heval
    have hmem := hiff.mpr hv
    refine ⟨s, _, _, heval, hwf, hbn, hbn, rfl, rfl, ?_, by rw [if_pos hmem]⟩
    intro x
    constructor
    · exact fun h => Or.inr h
    · rintro (rfl | h)
      · exact hmem
      · exact h
  · rw [if_neg hv] at heval
    have hnmem : k ∉ (front ++ p_prev :: b :: post).map (node_val s.nodes) :=
      fun h => hv (hiff.mp h)
    have hlt : k < node_val s.nodes b := lt_of_le_of_ne hb (Ne.symm hv)
    have hnd := bucket_nodes_nodup _ _ _ hwf.1 hbn
    refine ⟨_, _, _, heval,
      ⟨list_wf_linked s k p_list front p_prev b post prev hwf.1 hbn hprev hlow hlt,
        list_unlocked_of_lists s _ p_list rfl hwf.2⟩, hbn,
      bucket_nodes_linked s k p_list front p_prev b post prev hbn hprev hnd,
      head?_append_cons _ _ _ _, ?_, ?_, ?_⟩
    · have e1 : front ++ p_prev :: s.nodes.length :: b :: post =
          (front ++ [p_prev, s.nodes.length]) ++ b :: post := by simp
      have e2 : front ++ p_prev :: b :: post = (front ++ [p_prev]) ++ b :: post := by simp
      rw [e1, getLast?_append_ne_nil _ _ (List.cons_ne_nil _ _), e2,
        getLast?_append_ne_nil _ _ (List.cons_ne_nil _ _)]
    · intro x
      rw [vals_linked s k p_list front p_prev b post prev hbn hprev, map_split_stop]
      exact mem_insert_mid _ _ _ _
    · rw [if_neg hnmem]
      simp only [List.length_append, List.length_cons]
      omega

theorem add_all_spec (p_list : Nat) (ks : List Int) :
    ∀ (s : State) (as : List Nat), bucket_wf s p_list →
      (∀ k ∈ ks, LIST_VAL_MIN < k ∧ k < LIST_VAL_MAX) → ks.Nodup →
      bucket_nodes s p_list = some as → (∀ k ∈ ks, k ∉ as.map (node_val s.nodes)) →
      ∃ s2 as2, add_all s p_list ks = some s2 ∧ bucket_wf s2 p_list ∧
        bucket_nodes s2 p_list = some as2 ∧ as2.length = as.length + ks.length ∧
        as2.head? = as.head? ∧ as2.getLast? = as.getLast? ∧
        ∀ x, x ∈ as2.map (node_val s2.nodes) ↔ x ∈ ks ∨ x ∈ as.map (node_val s.nodes) := by
  induction ks with
  | nil =>
    intro s as hwf _ _ hbn _
    exact ⟨s, as, rfl, hwf, hbn, rfl, rfl, rfl, fun x => by simp⟩
  | cons k ks ih =>
    intro s as hwf hrange hnd hbn hfresh
    have hk := hrange k (List.mem_cons_self _ _)
    obtain ⟨hkn, hnd2⟩ := List.nodup_cons.mp hnd
    obtain ⟨s1, as0, as1, hrun1, hwf1, hbn0, hbn1, hh1, hl1, hm1, hlen1⟩ :=
      rcu_list_add_ends s p_list k hwf hk.1 hk.2
    rw [hbn] at hbn0; cases hbn0
    rw [if_neg (hfresh k (List.mem_cons_self _ _))] at hlen1
    obtain ⟨s2, as2, hrun2, hwf2, hbn2, hlen2, hh2, hl2, hm2⟩ :=
      ih s1 as1 hwf1 (fun x hx => hrange x (List.mem_cons_of_mem _ hx)) hnd2 hbn1
        (by
          intro x hx hmem
          rcases (hm1 x).mp hmem with h | h
          · exact hkn (h ▸ hx)
          · exact hfresh x (List.mem_cons_of_mem _ hx) h)
    refine ⟨s2, as2, ?_, hwf2, hbn2, ?_, hh2.trans hh1, hl2.trans hl1, ?_⟩
    · simp only [add_all, hrun1]
      exact hrun2
    · rw [hlen2, hlen1]; simp only [List.length_cons]; omega
    · intro x
      rw [hm2 x, hm1 x, List.mem_cons]
      tauto

theorem remove_all_spec (p_list : Nat) (ks : List Int) :
    ∀ (s : State) (as : List Nat), bucket_wf s p_list →
      (∀ k ∈ ks, LIST_VAL_MIN < k ∧ k < LIST_VAL_MAX) → ks.Nodup →
      bucket_nodes s p_list = some as → (∀ k ∈ ks, k ∈ as.map (node_val s.nodes)) →
      ∃ s2 as2, remove_all s p_list ks = some s2 ∧ bucket_wf s2 p_list ∧
        bucket_nodes s2 p_list = some as2 ∧ as2.length + ks.length = as.length ∧
        as2.head? = as.head? ∧ as2.getLast? = as.getLast? ∧
        (∀ a, node_val s2.nodes a = node_val s.nodes a) ∧
        ∀ x, x ∈ as2.map (node_val s2.nodes) ↔ x ∉ ks ∧ x ∈ as.map (node_val s.nodes) := by
  induction ks with
  | nil =>
    intro s as hwf _ _ hbn _
    exact ⟨s, as, rfl, hwf, hbn, rfl, rfl, rfl, fun _ => rfl, fun x => by simp⟩
  | cons k ks ih =>
    intro s as hwf hrange hnd hbn hin
    have hk := hrange k (List.mem_cons_self _ _)
    obtain ⟨hkn, hnd2⟩ := List.nodup_cons.mp hnd
    obtain ⟨s1, as0, as1, hrun1, hwf1, hbn0, hbn1, hh1, hl1, hv1, hm1, hlen1, _, _⟩ :=
      rcu_list_remove_step { n_buckets := 1, buckets := [p_list] } s p_list k
        (hash_list_wf_single s p_list hwf) (List.mem_singleton.mpr rfl) hk.2
    rw [hbn] at hbn0; cases hbn0
    have hlen1b := hlen1 hk.1
    rw [if_pos (hin k (List.mem_cons_self _ _))] at hlen1b
    have hpos : 0 < as.length := by
      cases as with
      | nil => simpa using hin k (List.mem_cons_self _ _)
      | cons a t => simp
    have hvals1 : as1.map (node_val s1.nodes) = as1.map (node_val s.nodes) :=
      map_node_val_congr _ _ _ (fun a _ => hv1 a)
    obtain ⟨s2, as2, hrun2, hwf2, hbn2, hlen2, hh2, hl2, hv2, hm2⟩ :=
      ih s1 as1 (hwf1.2.1 p_list (List.mem_singleton.mpr rfl))
        (fun x hx => hrange x (List.mem_cons_of_mem _ hx)) hnd2 hbn1
        (by
          intro x hx
          rw [hvals1]
          exact (hm1 hk.1 x).mpr ⟨fun e => hkn (e ▸ hx), hin x (List.mem_cons_of_mem _ hx)⟩)
    refine ⟨s2, as2, ?_, hwf2, hbn2, ?_, hh2.trans hh1, hl2.trans hl1,
      fun a => (hv2 a).trans (hv1 a), ?_⟩
    · simp only [remove_all, hrun1]
      exact hrun2
    · simp only [List.length_cons]; omega
    · intro x
      rw [hm2 x, hvals1, hm1 hk.1 x, List.mem_cons]
      tauto

/-- Filling a fresh bucket with distinct keys and clearing it again, in any
order: `list_size` after the fill is the number of keys as an `int`, and after
the clear the bucket consists of its two original sentinels. -/
theorem fill_and_clear (s0 : State) (keys keys2 : List Int) (hnd : keys.Nodup)
    (hr : ∀ k ∈ keys, LIST_VAL_MIN < k ∧ k < LIST_VAL_MAX) (hperm : keys2.Perm keys) :
    ∃ s p s1 s2, rcu_new_list s0 = some (s, p) ∧
      add_all s p keys = some s1 ∧
      list_size s1 p = some (wrap_int keys.length) ∧
      remove_all s1 p keys2 = some s2 ∧
      (∃ l hd tl hn tn, s2.lists[p]? = some l ∧ l.p_head = some hd ∧
        s2.nodes[hd]? = some hn ∧ hn.val = LIST_VAL_MIN ∧ hn.p_next = some tl ∧
        s2.nodes[tl]? = some tn ∧ tn.val = LIST_VAL_MAX ∧ tn.p_next = none ∧
        bucket_nodes s p = some [hd, tl] ∧ bucket_nodes s2 p = some [hd, tl]) ∧
      list_size s2 p = some 0 := by
  have hfresh := bucket_nodes_new_list s0
  have hfv := bucket_vals_new_list s0
  rw [bucket_vals_of_nodes _ _ _ hfresh] at hfv
  have hfv2 : [s0.nodes.length + 1, s0.nodes.length].map (node_val (with_new_list s0).nodes) =
      [LIST_VAL_MIN, LIST_VAL_MAX] := Option.some.inj hfv
  obtain ⟨s1, as1, hrun1, hwf1, hbn1, hlen1, hh1, hl1, hm1⟩ :=
    add_all_spec s0.lists.length keys (with_new_list s0) _ (bucket_wf_new_list s0) hr hnd hfresh
      (by
        intro k hk hmem
        rw [hfv2] at hmem
        have := hr k hk
        simp only [List.mem_cons, List.mem_singleton, List.not_mem_nil, or_false] at hmem
        omega)
  obtain ⟨s2, as2, hrun2, hwf2, hbn2, hlen2, hh2, hl2, _, hm2⟩ :=
    remove_all_spec s0.lists.length keys2 s1 as1 hwf1
      (fun k hk => hr k (hperm.mem_iff.mp hk)) (hperm.nodup_iff.mpr hnd) hbn1
      (fun k hk => (hm1 k).mpr (Or.inl (hperm.mem_iff.mp hk)))
  have hlen : as2.length = 2 := by
    have := hperm.length_eq
    simp only [List.length_cons, List.length_nil] at hlen1
    omega
  have has2 : as2 = [s0.nodes.length + 1, s0.nodes.length] := by
    rw [hh1] at hh2
    rw [hl1] at hl2
    obtain ⟨a, b, rfl⟩ := List.length_eq_two.mp hlen
    simp only [List.head?_cons, Option.some.injEq] at hh2
    simp only [List.getLast?_cons_cons, List.getLast?_singleton, Option.some.injEq] at hl2
    rw [hh2, hl2]
  subst has2
  refine ⟨with_new_list s0, s0.lists.length, s1, s2, rcu_new_list_eq s0, hrun1, ?_, hrun2, ?_, ?_⟩
  · rw [list_size_spec s1 _ as1 hwf1.1 hbn1, hlen1]
    congr 2
    simp only [List.length_cons, List.length_nil]
    push_cast
    ring
  · obtain ⟨l, hl, hseg, _⟩ := (bucket_nodes_eq_some _ _ _).mp hbn2
    obtain ⟨hph, hn, hhn, hrest⟩ := (lseg_cons _ _ _ _ _).mp hseg
    obtain ⟨hnx, tn, htn, hend⟩ := (lseg_cons _ _ _ _ _).mp hrest
    obtain ⟨as3, hbn3, hhead, hlast, _⟩ := (list_wf_iff _ _).mp hwf2.1
    rw [hbn2] at hbn3; cases hbn3
    refine ⟨l, _, _, hn, tn, hl, hph, hhn, ?_, hnx, htn, ?_, hend, hfresh, hbn2⟩
    · have : node_val s2.nodes (s0.nodes.length + 1) = LIST_VAL_MIN := by simpa using hhead
      rw [node_val_of _ _ _ hhn] at this
      exact this
    · have : node_val s2.nodes s0.nodes.length = LIST_VAL_MAX := by simpa using hlast
      rw [node_val_of _ _ _ htn] at this
      exact this
  · rw [list_size_spec s2 _ _ hwf2.1 hbn2]
    simp [wrap_int]

theorem keys_from_nodup (n : Nat) : (keys_from n).Nodup := by
  unfold keys_from
  refine List.Nodup.map ?_ (List.nodup_range n)
  intro a b h
  simp only at h
  omega

theorem keys_from_range (n : Nat) (hn : n ≤ 2147483648) :
    ∀ k ∈ keys_from n, LIST_VAL_MIN < k ∧ k < LIST_VAL_MAX := by
  intro k hk
  unfold keys_from at hk
  obtain ⟨i, hi, rfl⟩ := List.mem_map.mp hk
  have := List.mem_range.mp hi
  unfold LIST_VAL_MIN LIST_VAL_MAX
  constructor <;> omega

theorem keys_from_length (n : Nat) : (keys_from n).length = n := by
  unfold keys_from
  rw [List.length_map, List.length_range]

/-- C9 as stated fails for bucket sizes beyond `INT_MAX`: after the 2147483648
distinct keys `-1073741824, …, 1073741823`, all strictly between the sentinel
values, have been inserted into a fresh bucket, `list_size` returns
`-2147483648`, not the number of keys. -/
theorem list_size_wraps :
    keys_2_31.Nodup ∧ (∀ k ∈ keys_2_31, LIST_VAL_MIN < k ∧ k < LIST_VAL_MAX) ∧
    keys_2_31.length = 2147483648 ∧
    ∃ s p s1, rcu_new_list State.empty = some (s, p) ∧
      add_all s p keys_2_31 = some s1 ∧
      list_size s1 p = some (-2147483648) ∧
      list_size s1 p ≠ some (keys_2_31.length : Int) := by
  have hnd : keys_2_31.Nodup := keys_from_nodup _
  have hr : ∀ k ∈ keys_2_31, LIST_VAL_MIN < k ∧ k < LIST_VAL_MAX :=
    keys_from_range _ (Nat.le_refl _)
  have hlen : keys_2_31.length = 2147483648 := keys_from_length _
  obtain ⟨s, p, s1, _, hnew, hadd, hsize, _⟩ :=
    fill_and_clear State.empty keys_2_31 keys_2_31 hnd hr (List.Perm.refl _)
  have hw : wrap_int (keys_2_31.length : Int) = -2147483648 := by
    rw [hlen]
    unfold wrap_int
    decide
  rw [hw] at hsize
  refine ⟨hnd, hr, hlen, s, p, s1, hnew, hadd, hsize, ?_⟩
  rw [hsize, hlen]
  decide

/-- C9, amended: for every list of `n ≤ INT_MAX` distinct keys strictly between
the sentinel values, inserting all of them into a fresh bucket with
`rcu_list_add` gives `list_size = n`, and removing all of them with
`rcu_list_remove`, in any order, returns the bucket to the two-sentinel state:
the head's `p_next` is the tail, the tail's `p_next` is null, `list_size = 0`. -/
theorem fill_and_clear_bucket (s0 : State) (keys keys2 : List Int) (hnd : keys.Nodup)
    (hr : ∀ k ∈ keys, LIST_VAL_MIN < k ∧ k < LIST_VAL_MAX)
    (hn : (keys.length : Int) ≤ LIST_VAL_MAX) (hperm : keys2.Perm keys) :
    ∃ s p s1 s2, rcu_new_list s0 = some (s, p) ∧
      add_all s p keys = some s1 ∧
      list_size s1 p = some (keys.length : Int) ∧
      remove_all s1 p keys2 = some s2 ∧
      (∃ l hd tl hn tn, s2.lists[p]? = some l ∧ l.p_head = some hd ∧
        s2.nodes[hd]? = some hn ∧ hn.val = LIST_VAL_MIN ∧ hn.p_next = some tl ∧
        s2.nodes[tl]? = some tn ∧ tn.val = LIST_VAL_MAX ∧ tn.p_next = none ∧
        bucket_nodes s p = some [hd, tl] ∧ bucket_nodes s2 p = some [hd, tl]) ∧
      list_size s2 p = some 0 := by
  obtain ⟨s, p, s1, s2, h1, h2, h3, h4, h5, h6⟩ := fill_and_clear s0 keys keys2 hnd hr hperm
  refine ⟨s, p, s1, s2, h1, h2, ?_, h4, h5, h6⟩
  rw [h3, wrap_int_of_int _ (by unfold LIST_VAL_MIN; omega) hn]

theorem fill_and_clear_bucket_witness :
    [(5 : Int), 3, 8].Nodup ∧ (∀ k ∈ [(5 : Int), 3, 8], LIST_VAL_MIN < k ∧ k < LIST_VAL_MAX) ∧
    (([(5 : Int), 3, 8].length : Nat) : Int) ≤ LIST_VAL_MAX ∧
    [(8 : Int), 5, 3].Perm [5, 3, 8] ∧
    ∃ s p s1 s2, rcu_new_list State.empty = some (s, p) ∧
      add_all s p [5, 3, 8] = some s1 ∧
      list_size s1 p = some (([(5 : Int), 3, 8].length : Nat) : Int) ∧
      remove_all s1 p [8, 5, 3] = some s2 ∧
      (∃ l hd tl hn tn, s2.lists[p]? = some l ∧ l.p_head = some hd ∧
        s2.nodes[hd]? = some hn ∧ hn.val = LIST_VAL_MIN ∧ hn.p_next = some tl ∧
        s2.nodes[tl]? = some tn ∧ tn.val = LIST_VAL_MAX ∧ tn.p_next = none ∧
        bucket_nodes s p = some [hd, tl] ∧ bucket_nodes s2 p = some [hd, tl]) ∧
      list_size s2 p = some 0 :=
  ⟨by decide, by decide, by decide, by decide,
    fill_and_clear_bucket State.empty [5, 3, 8] [8, 5, 3] (by decide) (by decide) (by decide)
      (by decide)⟩

/-! ## The other adds: one pass on a quiet pair of nodes -/

theorem rcu_alloc_node_eq (s : State) (val : Int) (b : Nat) :
    rcu_alloc_node s val b =
      some ({ s with nodes := s.nodes ++ [added_node val b] }, s.nodes.length) := by
  unfold rcu_alloc_node rcu_new_node node_store added_node
  simp only [getElem?_append_new, set_append_new]

theorem rcx_alloc_node_eq (s : State) (val : Int) (b : Nat) :
    rcx_alloc_node s val b =
      some ({ s with nodes := s.nodes ++ [added_node val b] }, s.nodes.length) := by
  unfold rcx_alloc_node rcx_new_node node_store added_node
  simp only [getElem?_append_new, set_append_new]

theorem same_links_refl (s : State) : same_links s s := ⟨rfl, rfl⟩

theorem same_links_nodes (s s2 : State) (h : same_links s s2) (a : Nat) :
    (s2.nodes[a]?).map node_links = (s.nodes[a]?).map node_links := by
  have := congrArg (fun (l : List (Int × Option Nat)) => l[a]?) h.2
  simpa [List.getElem?_map] using this

theorem same_links_of (s s2 : State) (hl : s2.lists = s.lists)
    (h : ∀ a : Nat, (s2.nodes[a]?).map node_links = (s.nodes[a]?).map node_links) :
    same_links s s2 := by
  refine ⟨hl, ?_⟩
  apply List.ext_getElem?
  intro a
  simpa [List.getElem?_map] using h a

theorem rcu_list_numa_add_eval (fuel : Nat) (numa_node_id : Nat → Nat) (s : State) (p_list : Nat)
    (val : Int) (p_prev b : Nat) (v : Int) (prev nb : node_t)
    (hn : ∀ i, numa_node_id i < NR_NUMA_NODES)
    (hfind : list_find s p_list val = some (p_prev, b, v))
    (hprev : s.nodes[p_prev]? = some prev) (hb : s.nodes[b]? = some nb) (hne : p_prev ≠ b)
    (hpn : prev.p_next = some b) (hq1 : node_quiet prev) (hq2 : node_quiet nb) (hv : v ≠ val) :
    ∃ s1, rcu_list_numa_add (fuel + 1) numa_node_id s p_list val = some (s1, 1) ∧
      same_links (linked s val p_prev b prev) s1 ∧ s1.retired = s.retired ∧ s1.freed = s.freed := by
  obtain ⟨hr1, hg1, hs1⟩ := hq1
  obtain ⟨hr2, hg2, hs2⟩ := hq2
  have hplt := getElem?_lt_length _ _ _ hprev
  have hblt := getElem?_lt_length _ _ _ hb
  have hplt1 : p_prev < s.nodes.length + 1 := by omega
  have hblt1 : b < s.nodes.length + 1 := by omega
  have hne2 : b ≠ p_prev := Ne.symm hne
  rw [rcu_list_numa_add]
  simp only [hfind, Option.bind_eq_bind, Option.some_bind, hv, ne_eq, not_false_eq_true, if_true,
    rcu_alloc_node_eq]
  simp only [pnd_lock_pair, pnd_unlock_pair, spin_lock_pnd, spin_unlock_pnd,
    global_lock_pair, global_unlock_pair, spin_lock_global, spin_unlock_global, node_store, add_validate,
    List.getElem?_append_left hplt, List.getElem?_append_left hblt, hprev, hb, hg1, hg2, hpn, hr1, hr2,
    hs1, hs2, hn, List.getElem?_replicate, List.length_replicate,
    Bool.false_eq_true, if_false, List.getElem?_set, List.length_set, List.length_append, List.length_singleton,
    hne, hne2, hplt1, hblt1, if_true, Option.some_bind, not_true_eq_false, or_self, Option.pure_def, ne_eq]
  refine ⟨_, rfl, ?_, rfl, rfl⟩
  apply same_links_of
  · rfl
  · intro i
    unfold linked
    simp only [List.getElem?_set, List.length_set, List.length_append, List.length_singleton, hplt1, hblt1, if_true]
    by_cases h1 : p_prev = i
    · subst h1
      simp [hne2, node_links]
    · by_cases h2 : b = i
      · subst h2
        simp [h1, List.getElem?_append_left hblt, hb, node_links]
      · simp [h1, h2]

/-! ## Memories with the same links are the same sets -/

theorem links_cases (n1 n2 : List node_t) (a : Nat)
    (h : (n2[a]?).map node_links = (n1[a]?).map node_links) :
    (n1[a]? = none ∧ n2[a]? = none) ∨
      ∃ x y, n1[a]? = some x ∧ n2[a]? = some y ∧ y.val = x.val ∧ y.p_next = x.p_next := by
  cases h1 : n1[a]? with
  | none =>
    cases h2 : n2[a]? with
    | none => exact Or.inl ⟨rfl, rfl⟩
    | some y => rw [h1, h2] at h; simp at h
  | some x =>
    cases h2 : n2[a]? with
    | none => rw [h1, h2] at h; simp at h
    | some y =>
      rw [h1, h2] at h
      simp only [Option.map_some', Option.some.injEq, node_links, Prod.mk.injEq] at h
      exact Or.inr ⟨x, y, rfl, rfl, h.1, h.2⟩

theorem list_traverse_links (n1 n2 : List node_t) (val : Int)
    (h : ∀ a : Nat, (n2[a]?).map node_links = (n1[a]?).map node_links) (fuel p_prev : Nat)
    (p_next : Option Nat) :
    list_traverse n2 val fuel p_prev p_next = list_traverse n1 val fuel p_prev p_next := by
  induction fuel generalizing p_prev p_next with
  | zero => rfl
  | succ fuel ih =>
    cases p_next with
    | none => rfl
    | some a =>
      rcases links_cases n1 n2 a (h a) with ⟨h1, h2⟩ | ⟨x, y, h1, h2, hv, hn⟩
      · simp only [list_traverse, h1, h2]
      · simp only [list_traverse, h1, h2, hv, hn, ih]

theorem chain_from_links (n1 n2 : List node_t)
    (h : ∀ a : Nat, (n2[a]?).map node_links = (n1[a]?).map node_links) (fuel : Nat)
    (p : Option Nat) :
    chain_from n2 fuel p = chain_from n1 fuel p := by
  induction fuel generalizing p with
  | zero => cases p <;> rfl
  | succ fuel ih =>
    cases p with
    | none => rfl
    | some a =>
      rcases links_cases n1 n2 a (h a) with ⟨h1, h2⟩ | ⟨x, y, h1, h2, hv, hn⟩
      · simp only [chain_from, h1, h2]
      · simp only [chain_from, h1, h2, hn, ih]

theorem node_val_links (n1 n2 : List node_t)
    (h : ∀ a : Nat, (n2[a]?).map node_links = (n1[a]?).map node_links) (a : Nat) :
    node_val n2 a = node_val n1 a := by
  rcases links_cases n1 n2 a (h a) with ⟨h1, h2⟩ | ⟨x, y, h1, h2, hv, hn⟩
  · simp only [node_val, h1, h2]
  · simp only [node_val, h1, h2, hv]

theorem same_links_length (s s2 : State) (h : same_links s s2) :
    s2.nodes.length = s.nodes.length := by
  have := congrArg List.length h.2
  simpa using this

theorem list_find_links (s s2 : State) (h : same_links s s2) (p_list : Nat) (val : Int) :
    list_find s2 p_list val = list_find s p_list val := by
  have hn := same_links_nodes s s2 h
  unfold list_find
  rw [h.1, same_links_length s s2 h]
  cases s.lists[p_list]? with
  | none => rfl
  | some l =>
    cases hh : l.p_head with
    | none => simp [hh]
    | some a =>
      rcases links_cases s.nodes s2.nodes a (hn a) with ⟨h1, h2⟩ | ⟨x, y, h1, h2, hv, hpn⟩
      · simp [hh, h1, h2]
      · simp [hh, h1, h2, hpn, list_traverse_links s.nodes s2.nodes val hn]

theorem bucket_nodes_links (s s2 : State) (h : same_links s s2) (p_list : Nat) :
    bucket_nodes s2 p_list = bucket_nodes s p_list := by
  unfold bucket_nodes
  rw [h.1, same_links_length s s2 h]
  simp only [chain_from_links s.nodes s2.nodes (same_links_nodes s s2 h)]

theorem bucket_vals_links (s s2 : State) (h : same_links s s2) (p_list : Nat) :
    bucket_vals s2 p_list = bucket_vals s p_list := by
  unfold bucket_vals
  rw [bucket_nodes_links s s2 h]
  have e : node_val s2.nodes = node_val s.nodes :=
    funext (node_val_links s.nodes s2.nodes (same_links_nodes s s2 h))
  rw [e]

theorem list_wf_links (s s2 : State) (h : same_links s s2) (p_list : Nat) :
    list_wf s2 p_list ↔ list_wf s p_list := by
  unfold list_wf
  rw [bucket_vals_links s s2 h]

theorem list_unlocked_links (s s2 : State) (h : same_links s s2) (p_list : Nat) :
    list_unlocked s2 p_list ↔ list_unlocked s p_list := by
  unfold list_unlocked
  rw [h.1]

theorem hash_list_wf_links (g : hash_list_t) (s s2 : State) (h : same_links s s2) :
    hash_list_wf g s2 ↔ hash_list_wf g s := by
  unfold hash_list_wf buckets_disjoint bucket_wf chains_disjoint
  simp only [bucket_nodes_links s s2 h, list_wf_links s s2 h, list_unlocked_links s s2 h]

/-! ## Adding a key twice: the argument common to every protocol -/

theorem quiet_at_node (s : State) (a : Nat) (n : node_t) (h : s.nodes[a]? = some n)
    (hq : quiet_at s a) : node_quiet n := by
  unfold quiet_at at hq
  rw [h] at hq
  exact hq

theorem find_present (s : State) (p_list : Nat) (k : Int) (hwf : list_wf s p_list)
    (hmin : LIST_VAL_MIN < k) (hmax : k ≤ LIST_VAL_MAX) (vs : List Int)
    (hvs : bucket_vals s p_list = some vs) (hk : k ∈ vs) :
    ∃ p_prev b prev, list_find s p_list k = some (p_prev, b, k) ∧
      s.nodes[p_prev]? = some prev := by
  obtain ⟨front, p_prev, b, post, hbn, _, hlow, hb, hfind⟩ := list_find_spec s p_list k hwf hmax
  obtain ⟨_, prev, _, _, _, hprev, _⟩ := chain_pieces s p_list front p_prev b post hbn
  have hiff := mem_vals_iff_stop s p_list k front p_prev b post hwf hbn (hlow hmin) hb
  rw [bucket_vals_of_nodes _ _ _ hbn] at hvs
  cases hvs
  rw [hiff.mp hk] at hfind
  exact ⟨p_prev, b, prev, hfind, hprev⟩

theorem add_context (g : hash_list_t) (s : State) (p : Nat) (k : Int)
    (hq : hash_list_quiescent g s) (hp : p ∈ g.buckets)
    (hmin : LIST_VAL_MIN < k) (hmax : k ≤ LIST_VAL_MAX) :
    ∃ l p_prev b v prev nb, s.lists[p]? = some l ∧ l.rcuspin = false ∧
      list_find s p k = some (p_prev, b, v) ∧ s.nodes[p_prev]? = some prev ∧
      s.nodes[b]? = some nb ∧ p_prev ≠ b ∧ prev.p_next = some b ∧ node_quiet prev ∧
      node_quiet nb ∧ (key_in_bucket s p k ↔ v = k) := by
  obtain ⟨hwf, hquiet⟩ := hq
  have hbw := hwf.2.1 p hp
  obtain ⟨front, p_prev, b, post, hbn, _, hlow, hb, hfind⟩ := list_find_spec s p k hbw.1 hmax
  obtain ⟨l, prev, nb, hl, _, hprev, hpn, hnb, _, _⟩ := chain_pieces s p front p_prev b post hbn
  obtain ⟨l3, hl3, hfree⟩ := (list_unlocked_iff _ _).mp hbw.2
  rw [hl] at hl3; cases hl3
  have hnd := bucket_nodes_nodup _ _ _ hbw.1 hbn
  have hne : p_prev ≠ b := by
    intro e
    subst e
    have := List.nodup_append.mp hnd
    simp at this
  have hqa := hquiet p hp
  unfold bucket_quiet at hqa
  rw [hbn] at hqa
  have hq1 := quiet_at_node s p_prev prev hprev (hqa p_prev (by simp))
  have hq2 := quiet_at_node s b nb hnb (hqa b (by simp))
  refine ⟨l, p_prev, b, _, prev, nb, hl, hfree, hfind, hprev, hnb, hne, hpn, hq1, hq2, ?_⟩
  unfold key_in_bucket
  rw [bucket_vals_of_nodes _ _ _ hbn]
  exact mem_vals_iff_stop s p k front p_prev b post hbw.1 hbn (hlow hmin) hb

theorem add_twice_list (F : State → Nat → Int → Option (State × Int))
    (hP : ∀ s p k p_prev b prev, list_unlocked s p → list_find s p k = some (p_prev, b, k) →
      s.nodes[p_prev]? = some prev → ∃ r, F s p k = some (s, r))
    (hA : ∀ s p k p_prev b v prev nb, list_unlocked s p → no_abort s →
      list_find s p k = some (p_prev, b, v) → s.nodes[p_prev]? = some prev →
      s.nodes[b]? = some nb → p_prev ≠ b → prev.p_next = some b → node_quiet prev →
      node_quiet nb → v ≠ k →
      ∃ s1 r, F s p k = some (s1, r) ∧ same_links (linked s k p_prev b prev) s1)
    (g : hash_list_t) (s : State) (p : Nat) (k : Int)
    (hq : hash_list_quiescent g s) (hx : no_abort s) (hp : p ∈ g.buckets)
    (hmin : LIST_VAL_MIN < k) (hmax : k < LIST_VAL_MAX) :
    ∃ s0 s1 r1 r2, rcu_list_add s p k = some (s0, 0) ∧ F s p k = some (s1, r1) ∧
      same_links s0 s1 ∧ F s1 p k = some (s1, r2) ∧
      ∃ vs, bucket_vals s1 p = some vs ∧ k ∈ vs := by
  have hwf := hq.1
  have hbw := hwf.2.1 p hp
  obtain ⟨s0, vs, vs0, hrun, hwf0, hvs, hvs0, hiff, _, hsame, _⟩ :=
    rcu_list_add_step g s p k hwf hp hmin hmax
  obtain ⟨l, p_prev, b, v, prev, nb, hl, hfree, hfind, hprev, hnb, hne, hpn, hq1, hq2, _⟩ :=
    add_context g s p k hq hp hmin (le_of_lt hmax)
  have heval := rcu_list_add_eval s p k l p_prev b _ prev hl hfree hfind hprev
  rw [hrun] at heval
  have hs0 := congrArg Prod.fst (Option.some.inj heval)
  simp only at hs0
  have hbw0 := hwf0.2.1 p hp
  obtain ⟨q1, q2, qn, hfind0, hqn⟩ := find_present s0 p k hbw0.1 hmin (le_of_lt hmax) vs0 hvs0
    ((hiff k).mpr (Or.inl rfl))
  by_cases hv : v = k
  · rw [if_pos hv] at hs0
    subst hs0
    rw [hv] at hfind
    obtain ⟨r, hr⟩ := hP s0 p k p_prev b prev hbw.2 hfind hprev
    exact ⟨s0, s0, r, r, hrun, hr, same_links_refl _, hr, vs0, hvs0, (hiff k).mpr (Or.inl rfl)⟩
  · rw [if_neg hv] at hs0
    obtain ⟨s1, r, hr, hlinks⟩ := hA s p k p_prev b _ prev nb hbw.2 hx hfind hprev hnb hne hpn
      hq1 hq2 hv
    rw [← hs0] at hlinks
    have hfind1 : list_find s1 p k = some (q1, q2, k) := by
      rw [list_find_links s0 s1 hlinks]; exact hfind0
    obtain ⟨qn1, hqn1⟩ : ∃ y, s1.nodes[q1]? = some y := by
      rcases links_cases s0.nodes s1.nodes q1 (same_links_nodes s0 s1 hlinks q1) with
        ⟨h1, _⟩ | ⟨_, y, _, h2, _, _⟩
      · rw [hqn] at h1; cases h1
      · exact ⟨y, h2⟩
    obtain ⟨r2, hr2⟩ := hP s1 p k q1 q2 qn1 ((list_unlocked_links s0 s1 hlinks p).mpr hbw0.2)
      hfind1 hqn1
    exact ⟨s0, s1, r, r2, hrun, hr, hlinks, hr2, vs0,
      by rw [bucket_vals_links s0 s1 hlinks]; exact hvs0, (hiff k).mpr (Or.inl rfl)⟩

/-! ## The other adds on a key that is present -/

theorem rcu_list_try_add_eval (s : State) (p_list : Nat) (val : Int) (l : list_t)
    (p_prev b : Nat) (v : Int) (prev : node_t)
    (hl : s.lists[p_list]? = some l) (hfree : l.rcuspin = false)
    (hfind : list_find s p_list val = some (p_prev, b, v))
    (hprev : s.nodes[p_prev]? = some prev) :
    rcu_list_try_add s p_list val =
      some (if v = val then s else linked s val p_prev b prev, 0) := by
  have hlt := getElem?_lt_length _ _ _ hl
  have hplt := getElem?_lt_length _ _ _ hprev
  have hl' : l = { l with rcuspin := false } := by
    cases l; simp_all
  unfold rcu_list_try_add spin_trylock_list list_store linked
  simp only [hl, hfree, Bool.false_eq_true, if_false, Option.bind_eq_bind, Option.some_bind,
    Bool.not_true]
  rw [list_find_set_lists s p_list val l { p_head := l.p_head, rcuspin := true } hl rfl, hfind]
  simp only [Option.some_bind]
  by_cases hv : v = val
  · simp only [hv, ne_eq, not_true_eq_false, decide_False, Bool.false_eq_true, if_false,
      Option.pure_def, Option.some_bind, spin_unlock_list, list_store,
      List.getElem?_set_self hlt, if_true]
    rw [list_set_restore _ _ _ _ (by rw [hl]; exact congrArg some hl')]
  · simp only [hv, ne_eq, not_false_eq_true, decide_True, if_true, if_false, rcu_alloc_node_eq,
      node_store, Option.some_bind, Option.pure_def,
      spin_unlock_list, list_store, List.getElem?_set_self hlt,
      List.getElem?_append_left hplt, hprev]
    rw [list_set_restore _ _ _ _ (by rw [hl]; exact congrArg some hl')]

theorem rcx_list_locked_add_eval (s : State) (p_list : Nat) (val : Int) (l : list_t)
    (p_prev b : Nat) (v : Int) (prev : node_t)
    (hl : s.lists[p_list]? = some l) (hfree : l.rcuspin = false)
    (hfind : list_find s p_list val = some (p_prev, b, v))
    (hprev : s.nodes[p_prev]? = some prev) :
    rcx_list_locked_add s p_list val =
      some (if v = val then s else linked s val p_prev b prev, if v = val then 0 else 1) := by
  have hlt := getElem?_lt_length _ _ _ hl
  have hplt := getElem?_lt_length _ _ _ hprev
  have hl' : l = { l with rcuspin := false } := by
    cases l; simp_all
  unfold rcx_list_locked_add spin_lock_list list_store linked
  simp only [hl, hfree, Bool.false_eq_true, if_false, Option.bind_eq_bind, Option.some_bind]
  rw [list_find_set_lists s p_list val l { p_head := l.p_head, rcuspin := true } hl rfl, hfind]
  simp only [Option.some_bind]
  by_cases hv : v = val
  · simp only [hv, ne_eq, not_true_eq_false, Bool.false_eq_true, if_false,
      Option.pure_def, Option.some_bind, spin_unlock_list, list_store,
      List.getElem?_set_self hlt, if_true]
    rw [list_set_restore _ _ _ _ (by rw [hl]; exact congrArg some hl')]
  · simp only [hv, ne_eq, not_false_eq_true, if_true, if_false, rcx_alloc_node_eq,
      node_store, Option.some_bind, Option.pure_def,
      spin_unlock_list, list_store, List.getElem?_set_self hlt,
      List.getElem?_append_left hplt, hprev]
    rw [list_set_restore _ _ _ _ (by rw [hl]; exact congrArg some hl')]

theorem rcu_list_fg_add_present (fuel : Nat) (s : State) (p_list : Nat) (val : Int)
    (p_prev b : Nat) (hfind : list_find s p_list val = some (p_prev, b, val)) :
    rcu_list_fg_add (fuel + 1) s p_list val = some (s, 0) := by
  rw [rcu_list_fg_add]
  simp [hfind]

theorem rcu_list_numa_add_present (fuel : Nat) (numa_node_id : Nat → Nat) (s : State)
    (p_list : Nat) (val : Int) (p_prev b : Nat)
    (hfind : list_find s p_list val = some (p_prev, b, val)) :
    rcu_list_numa_add (fuel + 1) numa_node_id s p_list val = some (s, 0) := by
  rw [rcu_list_numa_add]
  simp [hfind]

theorem rcx_list_add_present (cpu : Nat) (s : State) (p_list : Nat) (val : Int)
    (p_prev b : Nat) (hfind : list_find s p_list val = some (p_prev, b, val)) :
    rcx_list_add cpu s p_list val = some (s, 0) := by
  unfold rcx_list_add
  simp [hfind]

theorem rcx_list_lf_add_present (cpu : Nat) (s : State) (p_list : Nat) (val : Int)
    (p_prev b : Nat) (hfind : list_find s p_list val = some (p_prev, b, val)) :
    rcx_list_lf_add cpu s p_list val = some (s, 0) := by
  unfold rcx_list_lf_add
  rw [rcx_list_lf_add_retry]
  simp [hfind, LF_RETRY_LIMIT]

theorem rcx_list_fb1_add_present (fuel cpu : Nat) (s : State) (p_list : Nat) (val : Int)
    (p_prev b : Nat) (hfind : list_find s p_list val = some (p_prev, b, val)) :
    rcx_list_fb1_add (fuel + 1) cpu s p_list val = some (s, 0) := by
  rw [rcx_list_fb1_add]
  simp [hfind]

theorem rcx_list_htmlock_add_present (fuel cpu : Nat) (s : State) (p_list : Nat) (val : Int)
    (p_prev b : Nat) (hfind : list_find s p_list val = some (p_prev, b, val)) :
    rcx_list_htmlock_add (fuel + 1) cpu s p_list val = some (s, 0) := by
  rw [rcx_list_htmlock_add]
  simp [hfind]

theorem rcx_list_hhtmlock_add_present (fuel cpu : Nat) (numa_node_id : Nat → Nat) (s : State)
    (p_list : Nat) (val : Int) (p_prev b : Nat)
    (hfind : list_find s p_list val = some (p_prev, b, val)) :
    rcx_list_hhtmlock_add (fuel + 1) cpu numa_node_id s p_list val = some (s, 0) := by
  rw [rcx_list_hhtmlock_add]
  simp [hfind]

theorem rcx_list_numa_add_present (fuel cpu : Nat) (numa_node_id : Nat → Nat) (s : State)
    (p_list : Nat) (val : Int) (p_prev b : Nat)
    (hfind : list_find s p_list val = some (p_prev, b, val)) :
    rcx_list_numa_add (fuel + 1) cpu numa_node_id s p_list val = some (s, 0) := by
  rw [rcx_list_numa_add]
  simp [hfind]

/-! ## The other adds on an absent key: the pass that links the node -/

theorem node_eta (n : node_t) (h1 : n.removed = 0) (h2 : n.global_lock = false) :
    ({ val := n.val, p_next := n.p_next, removed := 0, pnd_slocks := n.pnd_slocks,
       global_lock := false } : node_t) = n := by
  cases n; simp_all

theorem rcu_list_fg_add_eval (fuel : Nat) (s : State) (p_list : Nat) (val : Int)
    (p_prev b : Nat) (v : Int) (prev nb : node_t)
    (hfind : list_find s p_list val = some (p_prev, b, v))
    (hprev : s.nodes[p_prev]? = some prev) (hb : s.nodes[b]? = some nb) (hne : p_prev ≠ b)
    (hpn : prev.p_next = some b) (hq1 : node_quiet prev) (hq2 : node_quiet nb) (hv : v ≠ val) :
    rcu_list_fg_add (fuel + 1) s p_list val = some (linked s val p_prev b prev, 1) := by
  obtain ⟨hr1, hg1, _⟩ := hq1
  obtain ⟨hr2, hg2, _⟩ := hq2
  have hplt := getElem?_lt_length _ _ _ hprev
  have hblt := getElem?_lt_length _ _ _ hb
  have hplt1 : p_prev < s.nodes.length + 1 := by omega
  have hblt1 : b < s.nodes.length + 1 := by omega
  have hne2 : b ≠ p_prev := Ne.symm hne
  rw [rcu_list_fg_add]
  simp only [hfind, Option.bind_eq_bind, Option.some_bind, hv, ne_eq, not_false_eq_true, if_true,
    rcu_alloc_node_eq]
  simp only [global_lock_pair, global_unlock_pair, spin_lock_global, spin_unlock_global, node_store,
    add_validate, List.getElem?_append_left hplt, List.getElem?_append_left hblt, hprev, hb, hg1,
    hg2, hpn, hr1, hr2, Bool.false_eq_true, if_false, List.getElem?_set, List.length_set,
    List.length_append, List.length_singleton, hne, hne2, hplt1, hblt1, if_true, Option.some_bind,
    not_true_eq_false, or_self, Option.pure_def, ne_eq]
  unfold linked
  simp only [Option.some.injEq, Prod.mk.injEq, State.mk.injEq, and_true]
  apply List.ext_getElem?
  intro i
  simp only [List.getElem?_set, List.length_set, List.length_append, List.length_singleton, hplt1,
    hblt1, if_true]
  by_cases h1 : p_prev = i
  · subst h1
    simp [hne2, hr1, hg1]
  · by_cases h2 : b = i
    · subst h2
      simp [h1, List.getElem?_append_left hblt, hb, node_eta nb hr2 hg2]
    · simp [h1, h2]

theorem rcx_list_add_eval (cpu : Nat) (s : State) (p_list : Nat) (val : Int)
    (p_prev b : Nat) (v : Int) (prev nb : node_t)
    (hx : s.xbegin.headD XBEGIN_STARTED = XBEGIN_STARTED)
    (hfind : list_find s p_list val = some (p_prev, b, v))
    (hprev : s.nodes[p_prev]? = some prev) (hb : s.nodes[b]? = some nb)
    (hpn : prev.p_next = some b) (hr1 : prev.removed = 0) (hr2 : nb.removed = 0)
    (hv : v ≠ val) :
    rcx_list_add cpu s p_list val =
      some ({ linked s val p_prev b prev with xbegin := s.xbegin.tail }, 1) := by
  have hplt := getElem?_lt_length _ _ _ hprev
  have hblt := getElem?_lt_length _ _ _ hb
  unfold rcx_list_add
  simp only [hfind, Option.bind_eq_bind, Option.some_bind, hv, ne_eq, not_false_eq_true, if_true,
    rcx_alloc_node_eq, xbegin, hx, rcx_add_tx_stat, add_validate,
    List.getElem?_append_left hplt, List.getElem?_append_left hblt, hprev, hb, hpn, hr1, hr2,
    not_true_eq_false, or_self, if_false, node_store, Option.pure_def, linked]

theorem rcx_list_lf_add_retry_eval (fuel : Nat) (retries : Int) (cpu : Nat) (s : State)
    (p_list : Nat) (val : Int) (l : list_t)
    (p_prev b : Nat) (v : Int) (prev nb : node_t) (hret : retries ≤ LF_RETRY_LIMIT)
    (hx : s.xbegin.headD XBEGIN_STARTED = XBEGIN_STARTED)
    (hl : s.lists[p_list]? = some l) (hfree : l.rcuspin = false)
    (hfind : list_find s p_list val = some (p_prev, b, v))
    (hprev : s.nodes[p_prev]? = some prev) (hb : s.nodes[b]? = some nb)
    (hpn : prev.p_next = some b) (hr1 : prev.removed = 0) (hr2 : nb.removed = 0)
    (hv : v ≠ val) :
    rcx_list_lf_add_retry (fuel + 1) retries cpu s p_list val =
      some ({ linked s val p_prev b prev with xbegin := s.xbegin.tail }, 1) := by
  have hplt := getElem?_lt_length _ _ _ hprev
  have hblt := getElem?_lt_length _ _ _ hb
  rw [rcx_list_lf_add_retry]
  simp only [not_lt.mpr hret, if_false, gt_iff_lt,
    hfind, Option.bind_eq_bind, Option.some_bind, hv, ne_eq, not_false_eq_true, if_true,
    rcx_alloc_node_eq, xbegin, hx, rcx_lf_tx_stat, rcx_add_tx_stat, add_validate,
    spin_is_locked_list, hl, hfree, Bool.false_eq_true,
    List.getElem?_append_left hplt, List.getElem?_append_left hblt, hprev, hb, hpn, hr1, hr2,
    not_true_eq_false, or_self, node_store, Option.pure_def, linked]

theorem rcx_list_fb1_add_eval (fuel cpu : Nat) (s : State)
    (p_list : Nat) (val : Int) (l : list_t)
    (p_prev b : Nat) (v : Int) (prev nb : node_t)
    (hx : s.xbegin.headD XBEGIN_STARTED = XBEGIN_STARTED)
    (hl : s.lists[p_list]? = some l) (hfree : l.rcuspin = false)
    (hfind : list_find s p_list val = some (p_prev, b, v))
    (hprev : s.nodes[p_prev]? = some prev) (hb : s.nodes[b]? = some nb)
    (hpn : prev.p_next = some b) (hr1 : prev.removed = 0) (hr2 : nb.removed = 0)
    (hv : v ≠ val) :
    rcx_list_fb1_add (fuel + 1) cpu s p_list val =
      some ({ linked s val p_prev b prev with xbegin := s.xbegin.tail }, 1) := by
  have hplt := getElem?_lt_length _ _ _ hprev
  have hblt := getElem?_lt_length _ _ _ hb
  rw [rcx_list_fb1_add]
  simp only [hfind, Option.bind_eq_bind, Option.some_bind, hv, ne_eq, not_false_eq_true, if_true,
    rcx_alloc_node_eq, xbegin, hx, rcx_lf_tx_stat, rcx_add_tx_stat, add_validate,
    spin_is_locked_list, hl, hfree, Bool.false_eq_true, if_false,
    List.getElem?_append_left hplt, List.getElem?_append_left hblt, hprev, hb, hpn, hr1, hr2,
    not_true_eq_false, or_self, node_store, Option.pure_def, linked]

theorem rcx_list_htmlock_add_eval (fuel cpu : Nat) (s : State) (p_list : Nat)
    (val : Int) (p_prev b : Nat) (v : Int) (prev nb : node_t)
    (hx : s.xbegin.headD XBEGIN_STARTED = XBEGIN_STARTED)
    (hfind : list_find s p_list val = some (p_prev, b, v))
    (hprev : s.nodes[p_prev]? = some prev) (hb : s.nodes[b]? = some nb) (hne : p_prev ≠ b)
    (hpn : prev.p_next = some b) (hq1 : node_quiet prev) (hq2 : node_quiet nb) (hv : v ≠ val) :
    ∃ s1, rcx_list_htmlock_add (fuel + 1) cpu s p_list val = some (s1, 1) ∧
      same_links (linked s val p_prev b prev) s1 ∧ s1.retired = s.retired ∧
      s1.freed = s.freed ∧ s1.abort_cnt = s.abort_cnt := by
  obtain ⟨hr1, hg1, hs1⟩ := hq1
  obtain ⟨hr2, hg2, hs2⟩ := hq2
  have hplt := getElem?_lt_length _ _ _ hprev
  have hblt := getElem?_lt_length _ _ _ hb
  have hplt1 : p_prev < s.nodes.length + 1 := by omega
  have hblt1 : b < s.nodes.length + 1 := by omega
  have hne2 : b ≠ p_prev := Ne.symm hne
  rw [rcx_list_htmlock_add]
  simp only [hfind, Option.bind_eq_bind, Option.some_bind, hv, ne_eq, not_false_eq_true, if_true,
    rcx_alloc_node_eq]
  simp only [htmlock_wait, htmlock_is_set,
    List.getElem?_append_left hplt, List.getElem?_append_left hblt, hprev, hb, hg1, hg2,
    Bool.false_eq_true, if_false, or_self, Option.some_bind]
  simp only [htmlock_tx, xbegin, hx, if_true, htmlock_is_set,
    List.getElem?_append_left hplt, List.getElem?_append_left hblt, hprev, hb, hg1, hg2,
    Bool.false_eq_true, if_false, or_self, Option.some_bind]
  simp only [htmlock_store, node_store, List.getElem?_append_left hplt, hprev,
    List.getElem?_set, hne, if_false, List.getElem?_append_left hblt, hb]
  rw [Option.some_bind]
  rw [if_pos rfl]
  simp only [add_validate_record, add_validate,
    List.getElem?_append_left hplt, List.getElem?_append_left hblt, hprev, hb, hpn, hr1, hr2,
    List.getElem?_set, List.length_set, List.length_append,
    List.length_singleton, hne, hne2, hplt1, hblt1, if_true, if_false,
    not_true_eq_false, or_self, ne_eq]
  rw [Option.some_bind, if_pos rfl]
  simp only [node_store, htmlock_clear_pair, htmlock_store,
    List.getElem?_append_left hplt, List.getElem?_append_left hblt, hprev, hb,
    List.getElem?_set, List.length_set, List.length_append,
    List.length_singleton, hne, hne2, hplt1, hblt1, if_true, if_false, Option.some_bind,
    Option.pure_def]
  refine ⟨_, rfl, ?_, rfl, rfl, rfl⟩
  apply same_links_of
  · rfl
  · intro i
    unfold linked
    simp only [List.getElem?_set, List.length_set, List.length_append, List.length_singleton, hplt1,
      hblt1, if_true]
    by_cases h1 : p_prev = i
    · subst h1
      simp [hne2, node_links]
    · by_cases h2 : b = i
      · subst h2
        simp [h1, List.getElem?_append_left hblt, hb, node_links]
      · simp [h1, h2]

theorem rcx_list_hhtmlock_add_eval (fuel cpu : Nat) (numa_node_id : Nat → Nat) (s : State)
    (p_list : Nat) (val : Int) (p_prev b : Nat) (v : Int) (prev nb : node_t)
    (hn : ∀ i, numa_node_id i < NR_NUMA_NODES)
    (hx : s.xbegin.headD XBEGIN_STARTED = XBEGIN_STARTED)
    (hx2 : s.xbegin.tail.headD XBEGIN_STARTED = XBEGIN_STARTED)
    (hfind : list_find s p_list val = some (p_prev, b, v))
    (hprev : s.nodes[p_prev]? = some prev) (hb : s.nodes[b]? = some nb) (hne : p_prev ≠ b)
    (hpn : prev.p_next = some b) (hq1 : node_quiet prev) (hq2 : node_quiet nb) (hv : v ≠ val) :
    ∃ s1, rcx_list_hhtmlock_add (fuel + 1) cpu numa_node_id s p_list val = some (s1, 1) ∧
      same_links (linked s val p_prev b prev) s1 ∧ s1.retired = s.retired ∧
      s1.freed = s.freed ∧ s1.abort_cnt = s.abort_cnt := by
  obtain ⟨hr1, hg1, hs1⟩ := hq1
  obtain ⟨hr2, hg2, hs2⟩ := hq2
  have hplt := getElem?_lt_length _ _ _ hprev
  have hblt := getElem?_lt_length _ _ _ hb
  have hplt1 : p_prev < s.nodes.length + 1 := by omega
  have hblt1 : b < s.nodes.length + 1 := by omega
  have hne2 : b ≠ p_prev := Ne.symm hne
  rw [rcx_list_hhtmlock_add]
  simp only [hfind, Option.bind_eq_bind, Option.some_bind, hv, ne_eq, not_false_eq_true, if_true,
    rcx_alloc_node_eq]
  simp only [pnodelock_wait, pnodelock_is_set,
    List.getElem?_append_left hplt, List.getElem?_append_left hblt, hprev, hb, hs1, hs2, hn,
    List.getElem?_replicate, Bool.false_eq_true, if_false, if_true, or_self, Option.some_bind]
  simp only [pnodelock_tx, xbegin, hx, if_true, pnodelock_is_set, pnodelock_store, node_store,
    List.getElem?_append_left hplt, List.getElem?_append_left hblt, hprev, hb, hs1, hs2, hn,
    List.getElem?_replicate, List.length_replicate, Bool.false_eq_true, if_false, or_self,
    List.getElem?_set, hne, hne2]
  rw [Option.some_bind, if_pos rfl]
  rw [hhtmlock_global]
  simp only [htmlock_wait, htmlock_is_set,
    List.getElem?_append_left hplt, List.getElem?_append_left hblt, hprev, hb, hg1, hg2,
    List.getElem?_set, List.length_set, List.length_append, List.length_singleton,
    hne, hne2, hplt1, hblt1, if_true, if_false, Bool.false_eq_true, or_self,
    Option.bind_eq_bind]
  rw [Option.some_bind]
  simp only [htmlock_tx, xbegin, hx2, if_true, htmlock_is_set, htmlock_store, node_store,
    List.getElem?_append_left hplt, List.getElem?_append_left hblt, hprev, hb, hg1, hg2,
    List.getElem?_set, List.length_set, List.length_append, List.length_singleton,
    hne, hne2, hplt1, hblt1, if_true, if_false, Bool.false_eq_true, or_self]
  rw [Option.some_bind, if_pos rfl]
  simp only [Option.pure_def, Option.some_bind]
  simp only [add_validate_record, add_validate,
    List.getElem?_append_left hplt, List.getElem?_append_left hblt, hprev, hb, hpn, hr1, hr2,
    List.getElem?_set, List.length_set, List.length_append,
    List.length_singleton, hne, hne2, hplt1, hblt1, if_true, if_false,
    not_true_eq_false, or_self, ne_eq]
  rw [Option.some_bind, if_pos rfl]
  simp only [node_store, htmlock_clear_pair, htmlock_store, pnodelock_clear_pair,
    pnodelock_store, hn, List.length_replicate,
    List.getElem?_append_left hplt, List.getElem?_append_left hblt, hprev, hb, hs1, hs2,
    List.getElem?_set, List.length_set, List.length_append,
    List.length_singleton, hne, hne2, hplt1, hblt1, if_true, if_false, Option.some_bind,
    Option.pure_def]
  refine ⟨_, rfl, ?_, rfl, rfl, rfl⟩
  apply same_links_of
  · rfl
  · intro i
    unfold linked
    simp only [List.getElem?_set, List.length_set, List.length_append, List.length_singleton, hplt1,
      hblt1, if_true]
    by_cases h1 : p_prev = i
    · subst h1
      simp [hne2, node_links]
    · by_cases h2 : b = i
      · subst h2
        simp [h1, List.getElem?_append_left hblt, hb, node_links]
      · simp [h1, h2]

theorem rcx_list_numa_add_eval (fuel cpu : Nat) (numa_node_id : Nat → Nat) (s : State)
    (p_list : Nat) (val : Int) (p_prev b : Nat) (v : Int) (prev nb : node_t)
    (hn : ∀ i, numa_node_id i < NR_NUMA_NODES)
    (hx : s.xbegin.headD XBEGIN_STARTED = XBEGIN_STARTED)
    (hfind : list_find s p_list val = some (p_prev, b, v))
    (hprev : s.nodes[p_prev]? = some prev) (hb : s.nodes[b]? = some nb) (hne : p_prev ≠ b)
    (hpn : prev.p_next = some b) (hq1 : node_quiet prev) (hq2 : node_quiet nb) (hv : v ≠ val) :
    ∃ s1, rcx_list_numa_add (fuel + 1) cpu numa_node_id s p_list val = some (s1, 1) ∧
      same_links (linked s val p_prev b prev) s1 ∧ s1.retired = s.retired ∧
      s1.freed = s.freed ∧ s1.abort_cnt = s.abort_cnt := by
  obtain ⟨hr1, hg1, hs1⟩ := hq1
  obtain ⟨hr2, hg2, hs2⟩ := hq2
  have hplt := getElem?_lt_length _ _ _ hprev
  have hblt := getElem?_lt_length _ _ _ hb
  have hplt1 : p_prev < s.nodes.length + 1 := by omega
  have hblt1 : b < s.nodes.length + 1 := by omega
  have hne2 : b ≠ p_prev := Ne.symm hne
  rw [rcx_list_numa_add]
  simp only [hfind, Option.bind_eq_bind, Option.some_bind, hv, ne_eq, not_false_eq_true, if_true,
    rcx_alloc_node_eq]
  simp only [pnodelock_wait, pnodelock_is_set,
    List.getElem?_append_left hplt, List.getElem?_append_left hblt, hprev, hb, hs1, hs2, hn,
    List.getElem?_replicate, Bool.false_eq_true, if_false, if_true, or_self, Option.some_bind]
  simp only [pnodelock_tx, xbegin, hx, if_true, pnodelock_is_set, pnodelock_store, node_store,
    List.getElem?_append_left hplt, List.getElem?_append_left hblt, hprev, hb, hs1, hs2, hn,
    List.getElem?_replicate, List.length_replicate, Bool.false_eq_true, if_false, or_self,
    List.getElem?_set, hne, hne2]
  rw [Option.some_bind, if_pos rfl]
  simp only [global_lock_pair, spin_lock_global, node_store,
    List.getElem?_append_left hplt, List.getElem?_append_left hblt, hprev, hb, hg1, hg2,
    List.getElem?_set, List.length_set, List.length_append, List.length_singleton,
    hne, hne2, hplt1, hblt1, if_true, if_false, Bool.false_eq_true, Option.some_bind]
  simp only [add_validate_record, add_validate,
    List.getElem?_append_left hplt, List.getElem?_append_left hblt, hprev, hb, hpn, hr1, hr2,
    List.getElem?_set, List.length_set, List.length_append,
    List.length_singleton, hne, hne2, hplt1, hblt1, if_true, if_false,
    not_true_eq_false, or_self, ne_eq]
  rw [Option.some_bind, if_pos rfl]
  simp only [node_store, global_unlock_pair, spin_unlock_global, pnodelock_clear_pair,
    pnodelock_store, hn, List.length_replicate,
    List.getElem?_append_left hplt, List.getElem?_append_left hblt, hprev, hb, hs1, hs2,
    List.getElem?_set, List.length_set, List.length_append,
    List.length_singleton, hne, hne2, hplt1, hblt1, if_true, if_false, Option.some_bind,
    Option.pure_def]
  refine ⟨_, rfl, ?_, rfl, rfl, rfl⟩
  apply same_links_of
  · rfl
  · intro i
    unfold linked
    simp only [List.getElem?_set, List.length_set, List.length_append, List.length_singleton, hplt1,
      hblt1, if_true]
    by_cases h1 : p_prev = i
    · subst h1
      simp [hne2, node_links]
    · by_cases h2 : b = i
      · subst h2
        simp [h1, List.getElem?_append_left hblt, hb, node_links]
      · simp [h1, h2]

/-! ## Passes whose transaction aborts -/

theorem list_traverse_append (nodes extra : List node_t) (val : Int) (k : Nat)
    (r : Nat × Nat × Int) (fuel p_prev : Nat) (p_next : Option Nat)
    (h : list_traverse nodes val fuel p_prev p_next = some r) :
    list_traverse (nodes ++ extra) val (fuel + k) p_prev p_next = some r := by
  induction fuel generalizing p_prev p_next with
  | zero => simp [list_traverse] at h
  | succ fuel ih =>
    cases p_next with
    | none => simp [list_traverse] at h
    | some a =>
      cases hn : nodes[a]? with
      | none => simp [list_traverse, hn] at h
      | some n =>
        have hlt := getElem?_lt_length _ _ _ hn
        have e : fuel + 1 + k = (fuel + k) + 1 := by omega
        rw [e]
        simp only [list_traverse, hn, List.getElem?_append_left hlt] at h ⊢
        split
        · rename_i hc
          rw [if_pos hc] at h
          exact h
        · rename_i hc
          rw [if_neg hc] at h
          exact ih _ _ h

theorem list_find_append (s s2 : State) (extra : List node_t) (p_list : Nat) (val : Int)
    (r : Nat × Nat × Int) (hl : s2.lists = s.lists) (hn : s2.nodes = s.nodes ++ extra)
    (h : list_find s p_list val = some r) : list_find s2 p_list val = some r := by
  unfold list_find at h ⊢
  rw [hl, hn]
  cases hlist : s.lists[p_list]? with
  | none => simp [hlist] at h
  | some l =>
    cases hh : l.p_head with
    | none => simp [hlist, hh] at h
    | some a =>
      cases hp : s.nodes[a]? with
      | none => simp [hlist, hh, hp] at h
      | some n =>
        have hlt := getElem?_lt_length _ _ _ hp
        simp only [hlist, hh, hp, Option.bind_eq_bind, Option.some_bind,
          List.getElem?_append_left hlt, List.length_append] at h ⊢
        exact list_traverse_append _ _ _ _ _ _ _ _ h

theorem rcx_list_add_abort (cpu : Nat) (s : State) (p_list : Nat) (val : Int)
    (p_prev b : Nat) (v : Int) (cnt : rtm_abort_cnt)
    (hx : s.xbegin.headD XBEGIN_STARTED ≠ XBEGIN_STARTED)
    (hcpu : s.abort_cnt[cpu]? = some cnt)
    (hfind : list_find s p_list val = some (p_prev, b, v)) (hv : v ≠ val) :
    rcx_list_add cpu s p_list val =
      some (aborted s val b cpu cnt (s.xbegin.headD XBEGIN_STARTED), 2) := by
  unfold rcx_list_add
  simp only [hfind, Option.bind_eq_bind, Option.some_bind, hv, ne_eq, not_false_eq_true, if_true,
    rcx_alloc_node_eq, xbegin, hx, rcx_add_tx_stat, if_false, record_abort, hcpu, kfree,
    Option.pure_def, aborted]

theorem rcx_list_lf_add_retry_abort (fuel : Nat) (retries : Int) (cpu : Nat) (s : State)
    (p_list : Nat) (val : Int) (l : list_t)
    (p_prev b : Nat) (v : Int) (cnt : rtm_abort_cnt) (hret : retries ≤ LF_RETRY_LIMIT)
    (hx : s.xbegin.headD XBEGIN_STARTED ≠ XBEGIN_STARTED)
    (hcpu : s.abort_cnt[cpu]? = some cnt)
    (hl : s.lists[p_list]? = some l) (hfree : l.rcuspin = false)
    (hfind : list_find s p_list val = some (p_prev, b, v)) (hv : v ≠ val) :
    rcx_list_lf_add_retry (fuel + 1) retries cpu s p_list val =
      rcx_list_lf_add_retry fuel (retries + 1) cpu
        (aborted s val b cpu cnt (s.xbegin.headD XBEGIN_STARTED)) p_list val := by
  rw [rcx_list_lf_add_retry]
  simp only [not_lt.mpr hret, if_false, gt_iff_lt,
    hfind, Option.bind_eq_bind, Option.some_bind, hv, ne_eq, not_false_eq_true, if_true,
    rcx_alloc_node_eq, xbegin, hx, rcx_lf_tx_stat,
    spin_is_locked_list, hl, hfree, Bool.false_eq_true, record_abort, hcpu, kfree,
    Option.pure_def, aborted]

theorem rcx_list_fb1_add_abort (fuel cpu : Nat) (s : State)
    (p_list : Nat) (val : Int) (l : list_t)
    (p_prev b : Nat) (v : Int) (cnt : rtm_abort_cnt)
    (hx : s.xbegin.headD XBEGIN_STARTED ≠ XBEGIN_STARTED)
    (hcpu : s.abort_cnt[cpu]? = some cnt)
    (hl : s.lists[p_list]? = some l) (hfree : l.rcuspin = false)
    (hfind : list_find s p_list val = some (p_prev, b, v)) (hv : v ≠ val) :
    rcx_list_fb1_add (fuel + 1) cpu s p_list val =
      if s.xbegin.headD XBEGIN_STARTED &&& XABORT_RETRY ≠ 0 then
        rcx_list_fb1_add fuel cpu
          (aborted s val b cpu cnt (s.xbegin.headD XBEGIN_STARTED)) p_list val
      else
        rcx_list_locked_add
          (aborted s val b cpu cnt (s.xbegin.headD XBEGIN_STARTED)) p_list val := by
  rw [rcx_list_fb1_add]
  simp only [hfind, Option.bind_eq_bind, Option.some_bind, hv, ne_eq, not_false_eq_true, if_true,
    rcx_alloc_node_eq, xbegin, hx, rcx_lf_tx_stat,
    spin_is_locked_list, hl, hfree, Bool.false_eq_true, if_false, record_abort, hcpu, kfree,
    Option.pure_def, aborted]

/-! ## The fallback adds return under every pattern of aborts -/

theorem headD_started_of_nil (xs : List Nat) (h : xs.headD XBEGIN_STARTED ≠ XBEGIN_STARTED) :
    xs.tail.length + 1 = xs.length := by
  cases xs with
  | nil => exact absurd rfl h
  | cons x xs => simp

theorem rcx_list_lf_add_retry_returns (cpu p_list : Nat) (val : Int) (l : list_t)
    (p_prev b : Nat) (v : Int) (prev nb : node_t)
    (hfree : l.rcuspin = false) (hpn : prev.p_next = some b) (hr1 : prev.removed = 0)
    (hr2 : nb.removed = 0) (hv : v ≠ val) :
    ∀ (fuel : Nat) (retries : Int) (s : State), 12 ≤ (fuel : Int) + retries → retries ≤ 11 →
      s.lists[p_list]? = some l → list_find s p_list val = some (p_prev, b, v) →
      s.nodes[p_prev]? = some prev → s.nodes[b]? = some nb → cpu < s.abort_cnt.length →
      ∃ s1, rcx_list_lf_add_retry fuel retries cpu s p_list val = some (s1, 1) := by
  intro fuel
  induction fuel with
  | zero => intro retries s h1 h2; omega
  | succ fuel ih =>
    intro retries s h1 h2 hl hfind hprev hb hcpu
    by_cases hret : retries ≤ LF_RETRY_LIMIT
    · by_cases hx : s.xbegin.headD XBEGIN_STARTED = XBEGIN_STARTED
      · exact ⟨_, rcx_list_lf_add_retry_eval fuel retries cpu s p_list val l p_prev b v prev nb hret
          hx hl hfree hfind hprev hb hpn hr1 hr2 hv⟩
      · rw [rcx_list_lf_add_retry_abort fuel retries cpu s p_list val l p_prev b v
          (s.abort_cnt.get ⟨cpu, hcpu⟩) hret hx (List.getElem?_eq_getElem hcpu) hl hfree hfind hv]
        have hplt := getElem?_lt_length _ _ _ hprev
        have hblt := getElem?_lt_length _ _ _ hb
        unfold LF_RETRY_LIMIT at hret
        apply ih
        · push_cast at h1 ⊢; omega
        · omega
        · exact hl
        · exact list_find_append s _ [added_node val b] p_list val _ rfl rfl hfind
        · show (s.nodes ++ [added_node val b])[p_prev]? = some prev
          rw [List.getElem?_append_left hplt]; exact hprev
        · show (s.nodes ++ [added_node val b])[b]? = some nb
          rw [List.getElem?_append_left hblt]; exact hb
        · show cpu < (s.abort_cnt.set cpu _).length
          rw [List.length_set]; exact hcpu
    · rw [rcx_list_lf_add_retry, if_pos (by omega),
        rcx_list_locked_add_eval s p_list val l p_prev b v prev hl hfree hfind hprev]
      simp [hv]

theorem rcx_list_fb1_add_returns (cpu p_list : Nat) (val : Int) (l : list_t)
    (p_prev b : Nat) (v : Int) (prev nb : node_t)
    (hfree : l.rcuspin = false) (hpn : prev.p_next = some b) (hr1 : prev.removed = 0)
    (hr2 : nb.removed = 0) (hv : v ≠ val) :
    ∀ (fuel : Nat) (s : State), s.xbegin.length < fuel →
      s.lists[p_list]? = some l → list_find s p_list val = some (p_prev, b, v) →
      s.nodes[p_prev]? = some prev → s.nodes[b]? = some nb → cpu < s.abort_cnt.length →
      ∃ s1, rcx_list_fb1_add fuel cpu s p_list val = some (s1, 1) := by
  intro fuel
  induction fuel with
  | zero => intro s h1; omega
  | succ fuel ih =>
    intro s h1 hl hfind hprev hb hcpu
    by_cases hx : s.xbegin.headD XBEGIN_STARTED = XBEGIN_STARTED
    · exact ⟨_, rcx_list_fb1_add_eval fuel cpu s p_list val l p_prev b v prev nb
        hx hl hfree hfind hprev hb hpn hr1 hr2 hv⟩
    · rw [rcx_list_fb1_add_abort fuel cpu s p_list val l p_prev b v
        (s.abort_cnt.get ⟨cpu, hcpu⟩) hx (List.getElem?_eq_getElem hcpu) hl hfree hfind hv]
      have hplt := getElem?_lt_length _ _ _ hprev
      have hblt := getElem?_lt_length _ _ _ hb
      have hlen := headD_started_of_nil _ hx
      have hfind2 := list_find_append s
        (aborted s val b cpu (s.abort_cnt.get ⟨cpu, hcpu⟩) (s.xbegin.headD XBEGIN_STARTED))
        [added_node val b] p_list val _ rfl rfl hfind
      have hprev2 : (aborted s val b cpu (s.abort_cnt.get ⟨cpu, hcpu⟩)
          (s.xbegin.headD XBEGIN_STARTED)).nodes[p_prev]? = some prev := by
        show (s.nodes ++ [added_node val b])[p_prev]? = some prev
        rw [List.getElem?_append_left hplt]; exact hprev
      split
      · apply ih
        · show s.xbegin.tail.length < fuel
          omega
        · exact hl
        · exact hfind2
        · exact hprev2
        · show (s.nodes ++ [added_node val b])[b]? = some nb
          rw [List.getElem?_append_left hblt]; exact hb
        · show cpu < (s.abort_cnt.set cpu _).length
          rw [List.length_set]; exact hcpu
      · rw [rcx_list_locked_add_eval
          (aborted s val b cpu (s.abort_cnt.get ⟨cpu, hcpu⟩) (s.xbegin.headD XBEGIN_STARTED))
          p_list val l p_prev b v prev hl hfree hfind2 hprev2]
        simp [hv]

/-! ## Adding a key twice at the hash level -/

theorem no_abort_head (s : State) (h : no_abort s) :
    s.xbegin.headD XBEGIN_STARTED = XBEGIN_STARTED := by
  unfold no_abort at h
  cases hx : s.xbegin with
  | nil => rfl
  | cons x xs =>
    rw [hx] at h
    exact h x (by simp)

theorem no_abort_head_tail (s : State) (h : no_abort s) :
    s.xbegin.tail.headD XBEGIN_STARTED = XBEGIN_STARTED := by
  unfold no_abort at h
  cases hx : s.xbegin with
  | nil => rfl
  | cons x xs =>
    rw [hx] at h
    cases xs with
    | nil => rfl
    | cons y ys => exact h y (by simp)

theorem add_twice_hash (g : hash_list_t) (F : State → Nat → Int → Option (State × Int))
    (G : State → Int → Option (State × Int)) (f : Int → Int)
    (hG : ∀ s k h p, HASH_VALUE g k = some h → bucket_at g h = some p →
      G s k = (F s p k).bind (fun a => some (a.1, f a.2)))
    (hP : ∀ s p k p_prev b prev, list_unlocked s p → list_find s p k = some (p_prev, b, k) →
      s.nodes[p_prev]? = some prev → ∃ r, F s p k = some (s, r))
    (hA : ∀ s p k p_prev b v prev nb, list_unlocked s p → no_abort s →
      list_find s p k = some (p_prev, b, v) → s.nodes[p_prev]? = some prev →
      s.nodes[b]? = some nb → p_prev ≠ b → prev.p_next = some b → node_quiet prev →
      node_quiet nb → v ≠ k →
      ∃ s1 r, F s p k = some (s1, r) ∧ same_links (linked s k p_prev b prev) s1)
    (s : State) (k : Int)
    (hq : hash_list_quiescent g s) (hx : no_abort s) (h0 : 0 ≤ k) (h1 : k < LIST_VAL_MAX) :
    add_twice_same g G s k := by
  obtain ⟨p, hp, hmem, hh, hb⟩ := bucket_of_key g k hq.1.1 h0
  obtain ⟨s0, s1, r1, r2, _, hr1, _, hr2, vs, hvs, hk⟩ :=
    add_twice_list F hP hA g s p k hq hx hmem (by unfold LIST_VAL_MIN; omega) h1
  refine ⟨s1, f r1, s1, f r2, ?_, ?_, rfl, fun _ _ => rfl, _, p, vs, hh, hb, hvs, hk⟩
  · rw [hG s k _ p hh hb, hr1]; rfl
  · rw [hG s1 k _ p hh hb, hr2]; rfl

theorem rcu_hash_list_add_twice (g : hash_list_t) (s : State) (k : Int)
    (hwf : hash_list_wf g s) (h0 : 0 ≤ k) (h1 : k < LIST_VAL_MAX) :
    add_twice_same g (rcu_hash_list_add g) s k := by
  obtain ⟨s1, hr1, hwf1, _, hpres1⟩ := rcu_hash_list_add_step g s k hwf h0 h1
  obtain ⟨s2, hr2, _, hsame, _⟩ := rcu_hash_list_add_step g s1 k hwf1 h0 h1
  have hp : hash_present g s1 k := (hpres1 k h0).mpr (Or.inl rfl)
  exact ⟨s1, 0, s2, 0, hr1, hr2, hsame hp, fun _ _ => by rw [hsame hp], hp⟩

theorem rcu_hash_list_try_add_twice (g : hash_list_t) (s : State) (k : Int)
    (hq : hash_list_quiescent g s) (hx : no_abort s) (h0 : 0 ≤ k) (h1 : k < LIST_VAL_MAX) :
    add_twice_same g (rcu_hash_list_try_add g) s k := by
  apply add_twice_hash g rcu_list_try_add (rcu_hash_list_try_add g) id _ _ _ s k hq hx h0 h1
  · intro s k h p hh hb
    unfold rcu_hash_list_try_add
    simp only [hh, hb, Option.bind_eq_bind, Option.some_bind]
    cases rcu_list_try_add s p k <;> rfl
  · intro s p k p_prev b prev hu hfind hprev
    obtain ⟨l, hl, hfree⟩ := (list_unlocked_iff _ _).mp hu
    exact ⟨0, by
      rw [rcu_list_try_add_eval s p k l p_prev b k prev hl hfree hfind hprev, if_pos rfl]⟩
  · intro s p k p_prev b v prev nb hu _ hfind hprev _ _ _ _ _ hv
    obtain ⟨l, hl, hfree⟩ := (list_unlocked_iff _ _).mp hu
    exact ⟨_, 0, by
      rw [rcu_list_try_add_eval s p k l p_prev b v prev hl hfree hfind hprev, if_neg hv],
      same_links_refl _⟩

theorem rcu_hash_list_fg_add_twice (fuel : Nat) (g : hash_list_t) (s : State) (k : Int)
    (hq : hash_list_quiescent g s) (hx : no_abort s) (h0 : 0 ≤ k) (h1 : k < LIST_VAL_MAX) :
    add_twice_same g (rcu_hash_list_fg_add (fuel + 1) g) s k := by
  apply add_twice_hash g (rcu_list_fg_add (fuel + 1)) (rcu_hash_list_fg_add (fuel + 1) g) id
    _ _ _ s k hq hx h0 h1
  · intro s k h p hh hb
    unfold rcu_hash_list_fg_add
    simp only [hh, hb, Option.bind_eq_bind, Option.some_bind]
    cases rcu_list_fg_add (fuel + 1) s p k <;> rfl
  · intro s p k p_prev b prev _ hfind _
    exact ⟨0, rcu_list_fg_add_present fuel s p k p_prev b hfind⟩
  · intro s p k p_prev b v prev nb _ _ hfind hprev hb hne hpn hq1 hq2 hv
    exact ⟨_, 1, rcu_list_fg_add_eval fuel s p k p_prev b v prev nb hfind hprev hb hne hpn hq1 hq2
      hv, same_links_refl _⟩

theorem rcu_hash_list_numa_add_twice (fuel : Nat) (numa_node_id : Nat → Nat) (g : hash_list_t)
    (s : State) (k : Int) (hn : ∀ i, numa_node_id i < NR_NUMA_NODES)
    (hq : hash_list_quiescent g s) (hx : no_abort s) (h0 : 0 ≤ k) (h1 : k < LIST_VAL_MAX) :
    add_twice_same g (rcu_hash_list_numa_add (fuel + 1) numa_node_id g) s k := by
  apply add_twice_hash g (rcu_list_numa_add (fuel + 1) numa_node_id)
    (rcu_hash_list_numa_add (fuel + 1) numa_node_id g) id _ _ _ s k hq hx h0 h1
  · intro s k h p hh hb
    unfold rcu_hash_list_numa_add
    simp only [hh, hb, Option.bind_eq_bind, Option.some_bind]
    cases rcu_list_numa_add (fuel + 1) numa_node_id s p k <;> rfl
  · intro s p k p_prev b prev _ hfind _
    exact ⟨0, rcu_list_numa_add_present fuel numa_node_id s p k p_prev b hfind⟩
  · intro s p k p_prev b v prev nb _ _ hfind hprev hb hne hpn hq1 hq2 hv
    obtain ⟨s1, hr, hl, _⟩ := rcu_list_numa_add_eval fuel numa_node_id s p k p_prev b v prev nb hn
      hfind hprev hb hne hpn hq1 hq2 hv
    exact ⟨s1, 1, hr, hl⟩

theorem same_links_xbegin (s : State) (xs : List Nat) :
    same_links s { s with xbegin := xs } := ⟨rfl, rfl⟩

theorem rcx_hash_list_add_twice (cpu : Nat) (g : hash_list_t) (s : State) (k : Int)
    (hq : hash_list_quiescent g s) (hx : no_abort s) (h0 : 0 ≤ k) (h1 : k < LIST_VAL_MAX) :
    add_twice_same g (rcx_hash_list_add cpu g) s k := by
  apply add_twice_hash g (rcx_list_add cpu) (rcx_hash_list_add cpu g)
    (fun r => if r = 2 then -1 else 0) _ _ _ s k hq hx h0 h1
  · intro s k h p hh hb
    unfold rcx_hash_list_add
    simp only [hh, hb, Option.bind_eq_bind, Option.some_bind]
    cases rcx_list_add cpu s p k with
    | none => rfl
    | some a => by_cases h2 : a.2 = 2 <;> simp [h2]
  · intro s p k p_prev b prev _ hfind _
    exact ⟨0, rcx_list_add_present cpu s p k p_prev b hfind⟩
  · intro s p k p_prev b v prev nb _ hx hfind hprev hb _ hpn hq1 hq2 hv
    exact ⟨_, 1, rcx_list_add_eval cpu s p k p_prev b v prev nb (no_abort_head s hx) hfind hprev hb
      hpn hq1.1 hq2.1 hv, same_links_xbegin _ _⟩

theorem rcx_hash_list_try_add_twice (cpu : Nat) (g : hash_list_t) (s : State) (k : Int)
    (hq : hash_list_quiescent g s) (hx : no_abort s) (h0 : 0 ≤ k) (h1 : k < LIST_VAL_MAX) :
    add_twice_same g (rcx_hash_list_try_add cpu g) s k := by
  apply add_twice_hash g (rcx_list_add cpu) (rcx_hash_list_try_add cpu g)
    (fun r => if r = 2 then -1 else 0) _ _ _ s k hq hx h0 h1
  · intro s k h p hh hb
    unfold rcx_hash_list_try_add
    simp only [hh, hb, Option.bind_eq_bind, Option.some_bind]
    cases rcx_list_add cpu s p k with
    | none => rfl
    | some a => by_cases h2 : a.2 = 2 <;> simp [h2]
  · intro s p k p_prev b prev _ hfind _
    exact ⟨0, rcx_list_add_present cpu s p k p_prev b hfind⟩
  · intro s p k p_prev b v prev nb _ hx hfind hprev hb _ hpn hq1 hq2 hv
    exact ⟨_, 1, rcx_list_add_eval cpu s p k p_prev b v prev nb (no_abort_head s hx) hfind hprev hb
      hpn hq1.1 hq2.1 hv, same_links_xbegin _ _⟩

theorem rcx_hash_list_retry_add_twice (fuel cpu : Nat) (endtime : List Int) (g : hash_list_t)
    (s : State) (k : Int)
    (hq : hash_list_quiescent g s) (hx : no_abort s) (h0 : 0 ≤ k) (h1 : k < LIST_VAL_MAX) :
    add_twice_same g (rcx_hash_list_retry_add (fuel + 1) cpu endtime g) s k := by
  apply add_twice_hash g (rcx_hash_list_retry_add_loop (fuel + 1) cpu endtime)
    (rcx_hash_list_retry_add (fuel + 1) cpu endtime g) id _ _ _ s k hq hx h0 h1
  · intro s k h p hh hb
    unfold rcx_hash_list_retry_add
    simp only [hh, hb, Option.bind_eq_bind, Option.some_bind]
    cases rcx_hash_list_retry_add_loop (fuel + 1) cpu endtime s p k <;> rfl
  · intro s p k p_prev b prev _ hfind _
    refine ⟨0, ?_⟩
    rw [rcx_hash_list_retry_add_loop]
    simp [rcx_list_add_present cpu s p k p_prev b hfind]
  · intro s p k p_prev b v prev nb _ hx hfind hprev hb _ hpn hq1 hq2 hv
    refine ⟨{ linked s k p_prev b prev with xbegin := s.xbegin.tail }, 0, ?_,
      same_links_xbegin _ _⟩
    rw [rcx_hash_list_retry_add_loop]
    simp [rcx_list_add_eval cpu s p k p_prev b v prev nb (no_abort_head s hx) hfind hprev hb
      hpn hq1.1 hq2.1 hv]

theorem rcx_hash_list_lf_add_twice (cpu : Nat) (g : hash_list_t) (s : State) (k : Int)
    (hq : hash_list_quiescent g s) (hx : no_abort s) (h0 : 0 ≤ k) (h1 : k < LIST_VAL_MAX) :
    add_twice_same g (rcx_hash_list_lf_add cpu g) s k := by
  apply add_twice_hash g (rcx_list_lf_add cpu) (rcx_hash_list_lf_add cpu g)
    (fun _ => 0) _ _ _ s k hq hx h0 h1
  · intro s k h p hh hb
    unfold rcx_hash_list_lf_add
    simp only [hh, hb, Option.bind_eq_bind, Option.some_bind]
    cases rcx_list_lf_add cpu s p k <;> rfl
  · intro s p k p_prev b prev _ hfind _
    exact ⟨0, rcx_list_lf_add_present cpu s p k p_prev b hfind⟩
  · intro s p k p_prev b v prev nb hu hx hfind hprev hb _ hpn hq1 hq2 hv
    obtain ⟨l, hl, hfree⟩ := (list_unlocked_iff _ _).mp hu
    exact ⟨_, 1, rcx_list_lf_add_retry_eval 11 0 cpu s p k l p_prev b v prev nb (by decide)
      (no_abort_head s hx) hl hfree hfind hprev hb hpn hq1.1 hq2.1 hv, same_links_xbegin _ _⟩

theorem rcx_hash_list_fb1_add_twice (fuel cpu : Nat) (g : hash_list_t) (s : State) (k : Int)
    (hq : hash_list_quiescent g s) (hx : no_abort s) (h0 : 0 ≤ k) (h1 : k < LIST_VAL_MAX) :
    add_twice_same g (rcx_hash_list_fb1_add (fuel + 1) cpu g) s k := by
  apply add_twice_hash g (rcx_list_fb1_add (fuel + 1) cpu) (rcx_hash_list_fb1_add (fuel + 1) cpu g)
    (fun _ => 0) _ _ _ s k hq hx h0 h1
  · intro s k h p hh hb
    unfold rcx_hash_list_fb1_add
    simp only [hh, hb, Option.bind_eq_bind, Option.some_bind]
    cases rcx_list_fb1_add (fuel + 1) cpu s p k <;> rfl
  · intro s p k p_prev b prev _ hfind _
    exact ⟨0, rcx_list_fb1_add_present fuel cpu s p k p_prev b hfind⟩
  · intro s p k p_prev b v prev nb hu hx hfind hprev hb _ hpn hq1 hq2 hv
    obtain ⟨l, hl, hfree⟩ := (list_unlocked_iff _ _).mp hu
    exact ⟨_, 1, rcx_list_fb1_add_eval fuel cpu s p k l p_prev b v prev nb
      (no_abort_head s hx) hl hfree hfind hprev hb hpn hq1.1 hq2.1 hv, same_links_xbegin _ _⟩

theorem rcx_hash_list_htmlock_add_twice (fuel cpu : Nat) (g : hash_list_t) (s : State) (k : Int)
    (hq : hash_list_quiescent g s) (hx : no_abort s) (h0 : 0 ≤ k) (h1 : k < LIST_VAL_MAX) :
    add_twice_same g (rcx_hash_list_htmlock_add (fuel + 1) cpu g) s k := by
  apply add_twice_hash g (rcx_list_htmlock_add (fuel + 1) cpu)
    (rcx_hash_list_htmlock_add (fuel + 1) cpu g) (fun _ => 0) _ _ _ s k hq hx h0 h1
  · intro s k h p hh hb
    unfold rcx_hash_list_htmlock_add
    simp only [hh, hb, Option.bind_eq_bind, Option.some_bind]
    cases rcx_list_htmlock_add (fuel + 1) cpu s p k <;> rfl
  · intro s p k p_prev b prev _ hfind _
    exact ⟨0, rcx_list_htmlock_add_present fuel cpu s p k p_prev b hfind⟩
  · intro s p k p_prev b v prev nb _ hx hfind hprev hb hne hpn hq1 hq2 hv
    obtain ⟨s1, hr, hl, _⟩ := rcx_list_htmlock_add_eval fuel cpu s p k p_prev b v prev nb
      (no_abort_head s hx) hfind hprev hb hne hpn hq1 hq2 hv
    exact ⟨s1, 1, hr, hl⟩

theorem rcx_hash_list_hhtmlock_add_twice (fuel cpu : Nat) (numa_node_id : Nat → Nat)
    (g : hash_list_t) (s : State) (k : Int) (hn : ∀ i, numa_node_id i < NR_NUMA_NODES)
    (hq : hash_list_quiescent g s) (hx : no_abort s) (h0 : 0 ≤ k) (h1 : k < LIST_VAL_MAX) :
    add_twice_same g (rcx_hash_list_hhtmlock_add (fuel + 1) cpu numa_node_id g) s k := by
  apply add_twice_hash g (rcx_list_hhtmlock_add (fuel + 1) cpu numa_node_id)
    (rcx_hash_list_hhtmlock_add (fuel + 1) cpu numa_node_id g) (fun _ => 0) _ _ _ s k hq hx h0 h1
  · intro s k h p hh hb
    unfold rcx_hash_list_hhtmlock_add
    simp only [hh, hb, Option.bind_eq_bind, Option.some_bind]
    cases rcx_list_hhtmlock_add (fuel + 1) cpu numa_node_id s p k <;> rfl
  · intro s p k p_prev b prev _ hfind _
    exact ⟨0, rcx_list_hhtmlock_add_present fuel cpu numa_node_id s p k p_prev b hfind⟩
  · intro s p k p_prev b v prev nb _ hx hfind hprev hb hne hpn hq1 hq2 hv
    obtain ⟨s1, hr, hl, _⟩ := rcx_list_hhtmlock_add_eval fuel cpu numa_node_id s p k p_prev b v
      prev nb hn (no_abort_head s hx) (no_abort_head_tail s hx) hfind hprev hb hne hpn hq1 hq2 hv
    exact ⟨s1, 1, hr, hl⟩

theorem rcx_hash_list_numa_add_twice (fuel cpu : Nat) (numa_node_id : Nat → Nat)
    (g : hash_list_t) (s : State) (k : Int) (hn : ∀ i, numa_node_id i < NR_NUMA_NODES)
    (hq : hash_list_quiescent g s) (hx : no_abort s) (h0 : 0 ≤ k) (h1 : k < LIST_VAL_MAX) :
    add_twice_same g (rcx_hash_list_numa_add (fuel + 1) cpu numa_node_id g) s k := by
  apply add_twice_hash g (rcx_list_numa_add (fuel + 1) cpu numa_node_id)
    (rcx_hash_list_numa_add (fuel + 1) cpu numa_node_id g) (fun _ => 0) _ _ _ s k hq hx h0 h1
  · intro s k h p hh hb
    unfold rcx_hash_list_numa_add
    simp only [hh, hb, Option.bind_eq_bind, Option.some_bind]
    cases rcx_list_numa_add (fuel + 1) cpu numa_node_id s p k <;> rfl
  · intro s p k p_prev b prev _ hfind _
    exact ⟨0, rcx_list_numa_add_present fuel cpu numa_node_id s p k p_prev b hfind⟩
  · intro s p k p_prev b v prev nb _ hx hfind hprev hb hne hpn hq1 hq2 hv
    obtain ⟨s1, hr, hl, _⟩ := rcx_list_numa_add_eval fuel cpu numa_node_id s p k p_prev b v
      prev nb hn (no_abort_head s hx) hfind hprev hb hne hpn hq1 hq2 hv
    exact ⟨s1, 1, hr, hl⟩

/-! ## A freshly built hash set is at a quiescent point -/

theorem bucket_quiet_with_new_list (s : State) (q : Nat) (hq : bucket_quiet s q) :
    bucket_quiet (with_new_list s) q := by
  unfold bucket_quiet at hq ⊢
  cases hbn : bucket_nodes s q with
  | none => rw [hbn] at hq; exact hq.elim
  | some as =>
    rw [hbn] at hq
    rw [bucket_nodes_with_new_list s q as hbn]
    intro a ha
    have hlt := bucket_nodes_lt _ _ _ hbn a ha
    have h := hq a ha
    unfold quiet_at at h ⊢
    have e : (with_new_list s).nodes[a]? = s.nodes[a]? := by
      unfold with_new_list
      exact List.getElem?_append_left hlt
    rw [e]
    exact h

theorem bucket_quiet_new_list (s : State) : bucket_quiet (with_new_list s) s.lists.length := by
  unfold bucket_quiet
  rw [bucket_nodes_new_list]
  intro a ha
  simp only [List.mem_cons, List.mem_singleton, List.not_mem_nil, or_false] at ha
  unfold quiet_at
  rcases ha with rfl | rfl
  · rw [with_new_list_min]
    exact ⟨rfl, rfl, rfl⟩
  · rw [with_new_list_max]
    exact ⟨rfl, rfl, rfl⟩

theorem rcu_new_hash_list_loop_quiet (todo : Nat) :
    ∀ (s : State) (buckets : List Nat) (s2 : State) (bs : List Nat),
      (∀ p ∈ buckets, bucket_quiet s p) →
      rcu_new_hash_list_loop todo s buckets = some (s2, bs) →
      (∀ p ∈ bs, bucket_quiet s2 p) ∧ s2.xbegin = s.xbegin := by
  induction todo with
  | zero =>
    intro s buckets s2 bs h1 hrun
    simp only [rcu_new_hash_list_loop, Option.some.injEq, Prod.mk.injEq] at hrun
    obtain ⟨rfl, rfl⟩ := hrun
    exact ⟨h1, rfl⟩
  | succ todo ih =>
    intro s buckets s2 bs h1 hrun
    rw [rcu_new_hash_list_loop, rcu_new_list_eq] at hrun
    refine ih (with_new_list s) (buckets ++ [s.lists.length]) s2 bs ?_ hrun
    intro p hp
    rcases List.mem_append.mp hp with hp | hp
    · exact bucket_quiet_with_new_list s p (h1 p hp)
    · simp only [List.mem_singleton] at hp
      subst hp
      exact bucket_quiet_new_list s

/-- The hash list built by `rcu_new_hash_list` (and `rcx_new_hash_list`) is at a
quiescent point, and no answer of the hardware is consumed. -/
theorem rcu_new_hash_list_quiescent (s0 : State) (n : Int) (h1 : 1 ≤ n) (h2 : n ≤ MAX_BUCKETS) :
    ∃ s g, rcu_new_hash_list s0 n = some (s, g) ∧ rcx_new_hash_list s0 n = some (s, g) ∧
      hash_list_quiescent g s ∧ s.xbegin = s0.xbegin := by
  obtain ⟨s, g, hrun, _, hwf, _⟩ := rcu_new_hash_list_spec s0 n h1 h2
  refine ⟨s, g, hrun, by rw [rcx_new_hash_list_eq]; exact hrun, ⟨hwf, ?_⟩, ?_⟩
  · unfold rcu_new_hash_list at hrun
    rw [if_neg (by omega)] at hrun
    cases hloop : rcu_new_hash_list_loop n.toNat s0 [] with
    | none => rw [hloop] at hrun; cases hrun
    | some r =>
      obtain ⟨s2, bs⟩ := r
      rw [hloop] at hrun
      simp only [Option.some.injEq, Prod.mk.injEq] at hrun
      obtain ⟨rfl, rfl⟩ := hrun
      exact (rcu_new_hash_list_loop_quiet n.toNat s0 [] s2 bs (by simp) hloop).1
  · unfold rcu_new_hash_list at hrun
    rw [if_neg (by omega)] at hrun
    cases hloop : rcu_new_hash_list_loop n.toNat s0 [] with
    | none => rw [hloop] at hrun; cases hrun
    | some r =>
      obtain ⟨s2, bs⟩ := r
      rw [hloop] at hrun
      simp only [Option.some.injEq, Prod.mk.injEq] at hrun
      obtain ⟨rfl, rfl⟩ := hrun
      exact (rcu_new_hash_list_loop_quiet n.toNat s0 [] s2 bs (by simp) hloop).2

/-! ## C7: the results of the list-level adds -/

/-- C7 (counterexample). In the bucket holding 3 and 7, `rcu_list_add` of the
key 3, which is already present, returns zero and not one; and `rcx_list_add` of
the absent key 5 links its node and returns one, not zero. -/
theorem list_add_result_not_as_documented :
    key_in_bucket mem_3_7 0 3 ∧ rcu_list_add mem_3_7 0 3 = some (mem_3_7, 0) ∧
    ¬ key_in_bucket mem_3_7 0 5 ∧
    ∃ s1, rcx_list_add 0 mem_3_7 0 5 = some (s1, 1) ∧ key_in_bucket s1 0 5 := by
  refine ⟨by decide, by decide, by decide, ?_⟩
  exact ⟨_, rfl, by decide⟩

/-- C7 (amended). On a bucket of a well-formed hash set at a quiescent point and
a key strictly between the sentinels: `rcu_list_add` returns zero, whether or
not it links a node; `rcu_list_numa_add`, `rcx_list_lf_add` and
`rcx_list_fb1_add` return zero or one and never two, whatever the transactions
do; `rcx_list_add` returns zero, one or two, and two exactly when the key is
absent and its transaction aborts. -/
theorem list_add_results (fuel fuel2 cpu : Nat) (numa_node_id : Nat → Nat) (g : hash_list_t)
    (s : State) (p : Nat) (k : Int)
    (hq : hash_list_quiescent g s) (hp : p ∈ g.buckets)
    (hmin : LIST_VAL_MIN < k) (hmax : k < LIST_VAL_MAX)
    (hn : ∀ i, numa_node_id i < NR_NUMA_NODES) (hcpu : cpu < s.abort_cnt.length)
    (hfuel : s.xbegin.length < fuel2) :
    (∃ s1, rcu_list_add s p k = some (s1, 0)) ∧
    (∃ s1 r, rcu_list_numa_add (fuel + 1) numa_node_id s p k = some (s1, r) ∧
      (r = 0 ∨ r = 1)) ∧
    (∃ s1 r, rcx_list_add cpu s p k = some (s1, r) ∧ (r = 0 ∨ r = 1 ∨ r = 2) ∧
      (r = 2 ↔ (¬ key_in_bucket s p k ∧ s.xbegin.headD XBEGIN_STARTED ≠ XBEGIN_STARTED))) ∧
    (∃ s1 r, rcx_list_lf_add cpu s p k = some (s1, r) ∧ (r = 0 ∨ r = 1)) ∧
    (∃ s1 r, rcx_list_fb1_add fuel2 cpu s p k = some (s1, r) ∧ (r = 0 ∨ r = 1)) := by
  obtain ⟨l, p_prev, b, v, prev, nb, hl, hfree, hfind, hprev, hnb, hne, hpn, hq1, hq2, hin⟩ :=
    add_context g s p k hq hp hmin (le_of_lt hmax)
  obtain ⟨fuel3, rfl⟩ : ∃ n, fuel2 = n + 1 := ⟨fuel2 - 1, by omega⟩
  refine ⟨⟨_, rcu_list_add_eval s p k l p_prev b v prev hl hfree hfind hprev⟩, ?_⟩
  by_cases hv : v = k
  · subst hv
    refine ⟨⟨s, 0, rcu_list_numa_add_present fuel numa_node_id s p v p_prev b hfind, Or.inl rfl⟩,
      ⟨s, 0, rcx_list_add_present cpu s p v p_prev b hfind, Or.inl rfl, ?_⟩,
      ⟨s, 0, rcx_list_lf_add_present cpu s p v p_prev b hfind, Or.inl rfl⟩,
      ⟨s, 0, rcx_list_fb1_add_present fuel3 cpu s p v p_prev b hfind, Or.inl rfl⟩⟩
    constructor
    · intro h
      exact absurd h (by decide)
    · rintro ⟨h, _⟩
      exact absurd (hin.mpr rfl) h
  · obtain ⟨s1, hr1, _⟩ := rcu_list_numa_add_eval fuel numa_node_id s p k p_prev b v prev nb hn
      hfind hprev hnb hne hpn hq1 hq2 hv
    obtain ⟨s4, hr4⟩ := rcx_list_lf_add_retry_returns cpu p k l p_prev b v prev nb hfree hpn hq1.1
      hq2.1 hv 12 0 s (by decide) (by decide) hl hfind hprev hnb hcpu
    obtain ⟨s5, hr5⟩ := rcx_list_fb1_add_returns cpu p k l p_prev b v prev nb hfree hpn hq1.1
      hq2.1 hv (fuel3 + 1) s hfuel hl hfind hprev hnb hcpu
    refine ⟨⟨s1, 1, hr1, Or.inr rfl⟩, ?_, ⟨s4, 1, hr4, Or.inr rfl⟩, ⟨s5, 1, hr5, Or.inr rfl⟩⟩
    have hnin : ¬ key_in_bucket s p k := fun h => hv (hin.mp h)
    by_cases hx : s.xbegin.headD XBEGIN_STARTED = XBEGIN_STARTED
    · refine ⟨_, 1, rcx_list_add_eval cpu s p k p_prev b v prev nb hx hfind hprev hnb hpn hq1.1
        hq2.1 hv, Or.inr (Or.inl rfl), ?_⟩
      constructor
      · intro h
        exact absurd h (by decide)
      · rintro ⟨_, h⟩
        exact absurd hx h
    · exact ⟨_, 2, rcx_list_add_abort cpu s p k p_prev b v (s.abort_cnt.get ⟨cpu, hcpu⟩) hx
        (List.getElem?_eq_getElem hcpu) hfind hv, Or.inr (Or.inr rfl), fun _ => ⟨hnin, hx⟩,
        fun _ => rfl⟩

theorem list_add_results_witness :
    hash_list_quiescent hash_1 mem_3_7 ∧ 0 ∈ hash_1.buckets ∧ LIST_VAL_MIN < 5 ∧
    (5 : Int) < LIST_VAL_MAX ∧ 0 < mem_3_7.abort_cnt.length ∧ mem_3_7.xbegin.length < 1 ∧
    (∃ s1, rcu_list_add mem_3_7 0 5 = some (s1, 0)) ∧
    (∃ s1 r, rcu_list_numa_add 1 (fun _ => 0) mem_3_7 0 5 = some (s1, r) ∧ (r = 0 ∨ r = 1)) ∧
    (∃ s1 r, rcx_list_add 0 mem_3_7 0 5 = some (s1, r) ∧ (r = 0 ∨ r = 1 ∨ r = 2) ∧
      (r = 2 ↔ (¬ key_in_bucket mem_3_7 0 5 ∧
        mem_3_7.xbegin.headD XBEGIN_STARTED ≠ XBEGIN_STARTED))) ∧
    (∃ s1 r, rcx_list_lf_add 0 mem_3_7 0 5 = some (s1, r) ∧ (r = 0 ∨ r = 1)) ∧
    (∃ s1 r, rcx_list_fb1_add 1 0 mem_3_7 0 5 = some (s1, r) ∧ (r = 0 ∨ r = 1)) :=
  ⟨by decide, by decide, by decide, by decide, by decide, by decide,
    list_add_results 0 1 0 (fun _ => 0) hash_1 mem_3_7 0 5 (by decide) (by decide)
      (by decide) (by decide) (fun _ => (by decide : (0 : Nat) < NR_NUMA_NODES)) (by decide)
      (by decide)⟩

/-! ## C8: adding a key twice -/

/-- C8. On a well-formed hash set and a key `0 ≤ k < LIST_VAL_MAX`:
`rcu_hash_list_add(k)` returns, a second `rcu_hash_list_add(k)` returns and
leaves the memory, hence the sequence of keys of every bucket, as the single
call left it, and `k` is in the set.  The same holds for the hash-level add of
every other protocol when the set is at a quiescent point (no node of a bucket
locked or marked removed), no transaction aborts and `numa_node_id()` names a
NUMA node. -/
theorem add_twice_same_as_once (fuel cpu : Nat) (numa_node_id : Nat → Nat) (endtime : List Int)
    (g : hash_list_t) (s : State) (k : Int)
    (hwf : hash_list_wf g s) (h0 : 0 ≤ k) (h1 : k < LIST_VAL_MAX) :
    add_twice_same g (rcu_hash_list_add g) s k ∧
    ((∀ p ∈ g.buckets, bucket_quiet s p) → no_abort s →
      (∀ i, numa_node_id i < NR_NUMA_NODES) →
      add_twice_same g (rcu_hash_list_try_add g) s k ∧
      add_twice_same g (rcu_hash_list_fg_add (fuel + 1) g) s k ∧
      add_twice_same g (rcu_hash_list_numa_add (fuel + 1) numa_node_id g) s k ∧
      add_twice_same g (rcx_hash_list_add cpu g) s k ∧
      add_twice_same g (rcx_hash_list_try_add cpu g) s k ∧
      add_twice_same g (rcx_hash_list_retry_add (fuel + 1) cpu endtime g) s k ∧
      add_twice_same g (rcx_hash_list_lf_add cpu g) s k ∧
      add_twice_same g (rcx_hash_list_fb1_add (fuel + 1) cpu g) s k ∧
      add_twice_same g (rcx_hash_list_htmlock_add (fuel + 1) cpu g) s k ∧
      add_twice_same g (rcx_hash_list_hhtmlock_add (fuel + 1) cpu numa_node_id g) s k ∧
      add_twice_same g (rcx_hash_list_numa_add (fuel + 1) cpu numa_node_id g) s k) := by
  refine ⟨rcu_hash_list_add_twice g s k hwf h0 h1, fun hquiet hx hn => ?_⟩
  have hq : hash_list_quiescent g s := ⟨hwf, hquiet⟩
  exact ⟨rcu_hash_list_try_add_twice g s k hq hx h0 h1,
    rcu_hash_list_fg_add_twice fuel g s k hq hx h0 h1,
    rcu_hash_list_numa_add_twice fuel numa_node_id g s k hn hq hx h0 h1,
    rcx_hash_list_add_twice cpu g s k hq hx h0 h1,
    rcx_hash_list_try_add_twice cpu g s k hq hx h0 h1,
    rcx_hash_list_retry_add_twice fuel cpu endtime g s k hq hx h0 h1,
    rcx_hash_list_lf_add_twice cpu g s k hq hx h0 h1,
    rcx_hash_list_fb1_add_twice fuel cpu g s k hq hx h0 h1,
    rcx_hash_list_htmlock_add_twice fuel cpu g s k hq hx h0 h1,
    rcx_hash_list_hhtmlock_add_twice fuel cpu numa_node_id g s k hn hq hx h0 h1,
    rcx_hash_list_numa_add_twice fuel cpu numa_node_id g s k hn hq hx h0 h1⟩

theorem add_twice_same_as_once_witness :
    hash_list_wf hash_1 mem_3_7 ∧ (0 : Int) ≤ 5 ∧ (5 : Int) < LIST_VAL_MAX ∧
    (∀ p ∈ hash_1.buckets, bucket_quiet mem_3_7 p) ∧ no_abort mem_3_7 ∧
    add_twice_same hash_1 (rcu_hash_list_add hash_1) mem_3_7 5 ∧
    add_twice_same hash_1 (rcx_hash_list_add 0 hash_1) mem_3_7 5 ∧
    add_twice_same hash_1 (rcx_hash_list_numa_add 1 0 (fun i => i % 4) hash_1) mem_3_7 5 :=
  have h := add_twice_same_as_once 0 0 (fun i => i % 4) [] hash_1 mem_3_7 5 (by decide)
    (by decide) (by decide)
  have h2 := h.2 (by decide) (by decide) (fun i => Nat.mod_lt i (by decide))
  ⟨by decide, by decide, by decide, by decide, by decide, h.1, h2.2.2.2.1,
    h2.2.2.2.2.2.2.2.2.2.2⟩

/-! ## C11: the try-lock versions of the coarse-locked add and remove -/

theorem rcu_list_try_remove_eval (s : State) (p_list : Nat) (val : Int) (l : list_t)
    (p_prev b : Nat) (v : Int) (prev nb : node_t)
    (hl : s.lists[p_list]? = some l) (hfree : l.rcuspin = false)
    (hfind : list_find s p_list val = some (p_prev, b, v))
    (hprev : s.nodes[p_prev]? = some prev) (hb : s.nodes[b]? = some nb) :
    rcu_list_try_remove s p_list val =
      some (if v = val then unlinked s p_prev b prev nb else s, 0) := by
  have hlt := getElem?_lt_length _ _ _ hl
  have hl' : l = { l with rcuspin := false } := by
    cases l; simp_all
  unfold rcu_list_try_remove spin_trylock_list list_store unlinked
  simp only [hl, hfree, Bool.false_eq_true, if_false, Option.bind_eq_bind, Option.some_bind,
    Bool.not_true]
  rw [list_find_set_lists s p_list val l { p_head := l.p_head, rcuspin := true } hl rfl, hfind]
  simp only [Option.some_bind]
  by_cases hv : v = val
  · simp only [hv, decide_True, if_true, hb, node_store, hprev, Option.some_bind,
      Option.pure_def, spin_unlock_list, list_store, List.getElem?_set_self hlt,
      rcu_free_node, RCU_FREE]
    rw [list_set_restore _ _ _ _ (by rw [hl]; exact congrArg some hl')]
  · simp only [hv, decide_False, Bool.false_eq_true, if_false, Option.pure_def,
      Option.some_bind, spin_unlock_list, list_store, List.getElem?_set_self hlt]
    rw [list_set_restore _ _ _ _ (by rw [hl]; exact congrArg some hl')]

theorem rcu_list_try_held (s : State) (p_list : Nat) (val : Int) (l : list_t)
    (hl : s.lists[p_list]? = some l) (hheld : l.rcuspin = true) :
    rcu_list_try_add s p_list val = some (s, 2) ∧
      rcu_list_try_remove s p_list val = some (s, 2) := by
  unfold rcu_list_try_add rcu_list_try_remove spin_trylock_list
  simp [hl, hheld]

/-- C11: on a bucket whose list is structurally well-formed and any key of type
`val_t`, `rcu_list_try_add` and `rcu_list_try_remove` return 2
when the writer spinlock of the bucket is held at the call, and then return the
memory (list and lock) unchanged; when the lock is free they return 0 with the
memory `rcu_list_add` / `rcu_list_remove` return, in which the lock is released.
So they return 2 exactly when the lock is held. -/
theorem rcu_list_try_correct (s : State) (p_list : Nat) (k : Int) (hwf : list_wf s p_list)
    (hmax : k ≤ LIST_VAL_MAX) :
    ∃ l, s.lists[p_list]? = some l ∧
      (l.rcuspin = true →
        rcu_list_try_add s p_list k = some (s, 2) ∧
        rcu_list_try_remove s p_list k = some (s, 2)) ∧
      (l.rcuspin = false →
        ∃ s1 s2, rcu_list_add s p_list k = some (s1, 0) ∧
          rcu_list_try_add s p_list k = some (s1, 0) ∧ list_unlocked s1 p_list ∧
          rcu_list_remove s p_list k = some (s2, 0) ∧
          rcu_list_try_remove s p_list k = some (s2, 0) ∧ list_unlocked s2 p_list) ∧
      ((∃ s1, rcu_list_try_add s p_list k = some (s1, 2)) ↔ l.rcuspin = true) ∧
      ((∃ s2, rcu_list_try_remove s p_list k = some (s2, 2)) ↔ l.rcuspin = true) := by
  obtain ⟨front, p_prev, b, post, hbn, _, _, _, hfind⟩ :=
    list_find_spec s p_list k hwf hmax
  obtain ⟨l, prev, nb, hl, _, hprev, _, hnb, _, _⟩ := chain_pieces s p_list front p_prev b post hbn
  have hfree : l.rcuspin = false →
      ∃ s1 s2, rcu_list_add s p_list k = some (s1, 0) ∧
        rcu_list_try_add s p_list k = some (s1, 0) ∧ list_unlocked s1 p_list ∧
        rcu_list_remove s p_list k = some (s2, 0) ∧
        rcu_list_try_remove s p_list k = some (s2, 0) ∧ list_unlocked s2 p_list := by
    intro hf
    have hu : list_unlocked s p_list := (list_unlocked_iff _ _).mpr ⟨l, hl, hf⟩
    refine ⟨_, _, rcu_list_add_eval s p_list k l p_prev b _ prev hl hf hfind hprev,
      rcu_list_try_add_eval s p_list k l p_prev b _ prev hl hf hfind hprev, ?_,
      rcu_list_remove_eval s p_list k l p_prev b _ prev nb hl hf hfind hprev hnb,
      rcu_list_try_remove_eval s p_list k l p_prev b _ prev nb hl hf hfind hprev hnb, ?_⟩
    · split
      · exact hu
      · exact hu
    · split
      · exact hu
      · exact hu
  refine ⟨l, hl, fun hh => rcu_list_try_held s p_list k l hl hh, hfree, ?_, ?_⟩
  · constructor
    · rintro ⟨s1, h1⟩
      cases hr : l.rcuspin with
      | true => rfl
      | false =>
        obtain ⟨t1, _, _, h2, _⟩ := hfree hr
        rw [h2] at h1
        simp at h1
    · intro hh
      exact ⟨s, (rcu_list_try_held s p_list k l hl hh).1⟩
  · constructor
    · rintro ⟨s1, h1⟩
      cases hr : l.rcuspin with
      | true => rfl
      | false =>
        obtain ⟨_, t2, _, _, _, _, h2, _⟩ := hfree hr
        rw [h2] at h1
        simp at h1
    · intro hh
      exact ⟨s, (rcu_list_try_held s p_list k l hl hh).2⟩

theorem rcu_list_try_correct_witness :
    list_wf mem_3_7 0 ∧ (5 : Int) ≤ LIST_VAL_MAX ∧
    ∃ l, mem_3_7.lists[0]? = some l ∧
      (l.rcuspin = true →
        rcu_list_try_add mem_3_7 0 5 = some (mem_3_7, 2) ∧
        rcu_list_try_remove mem_3_7 0 5 = some (mem_3_7, 2)) ∧
      (l.rcuspin = false →
        ∃ s1 s2, rcu_list_add mem_3_7 0 5 = some (s1, 0) ∧
          rcu_list_try_add mem_3_7 0 5 = some (s1, 0) ∧ list_unlocked s1 0 ∧
          rcu_list_remove mem_3_7 0 5 = some (s2, 0) ∧
          rcu_list_try_remove mem_3_7 0 5 = some (s2, 0) ∧ list_unlocked s2 0) ∧
      ((∃ s1, rcu_list_try_add mem_3_7 0 5 = some (s1, 2)) ↔ l.rcuspin = true) ∧
      ((∃ s2, rcu_list_try_remove mem_3_7 0 5 = some (s2, 2)) ↔ l.rcuspin = true) :=
  ⟨by decide, by decide, rcu_list_try_correct mem_3_7 0 5 (by decide) (by decide)⟩

/-! ## `rcx_list_add` and `rcx_list_remove` by the status of their transaction -/

theorem add_validate_congr (s s2 : State) (p_prev b : Nat)
    (h1 : s2.nodes[p_prev]? = s.nodes[p_prev]?) (h2 : s2.nodes[b]? = s.nodes[b]?) :
    add_validate s2 p_prev b = add_validate s p_prev b := by
  unfold add_validate
  rw [h1, h2]

theorem rcx_add_tx_stat_congr (s s2 : State) (x p_prev b : Nat)
    (h1 : s2.nodes[p_prev]? = s.nodes[p_prev]?) (h2 : s2.nodes[b]? = s.nodes[b]?) :
    rcx_add_tx_stat s2 x p_prev b = rcx_add_tx_stat s x p_prev b := by
  unfold rcx_add_tx_stat
  rw [add_validate_congr s s2 p_prev b h1 h2]

theorem rcx_add_tx_stat_some (s : State) (x p_prev b : Nat) (prev nb : node_t)
    (hprev : s.nodes[p_prev]? = some prev) (hb : s.nodes[b]? = some nb) :
    ∃ st, rcx_add_tx_stat s x p_prev b = some st := by
  unfold rcx_add_tx_stat add_validate
  simp only [hprev, hb]
  by_cases hx : x = XBEGIN_STARTED
  · by_cases h1 : prev.p_next = some b
    · by_cases h2 : prev.removed ≠ 0 ∨ nb.removed ≠ 0
      · exact ⟨xabort_status ABORT_DOUBLE_FREE, by simp [hx, h1, h2]⟩
      · exact ⟨XBEGIN_STARTED, by simp [hx, h1, h2]⟩
    · exact ⟨xabort_status ABORT_CONFLICT, by simp [hx, h1]⟩
  · exact ⟨x, by simp [hx]⟩

theorem rcx_list_add_status (cpu : Nat) (s : State) (p_list : Nat) (val : Int)
    (p_prev b : Nat) (v : Int) (prev nb : node_t) (cnt : rtm_abort_cnt) (st : Nat)
    (hcpu : s.abort_cnt[cpu]? = some cnt)
    (hfind : list_find s p_list val = some (p_prev, b, v))
    (hprev : s.nodes[p_prev]? = some prev) (hb : s.nodes[b]? = some nb) (hv : v ≠ val)
    (hst : rcx_add_tx_stat s (s.xbegin.headD XBEGIN_STARTED) p_prev b = some st) :
    rcx_list_add cpu s p_list val =
      some (if st = XBEGIN_STARTED then
          ({ linked s val p_prev b prev with xbegin := s.xbegin.tail }, 1)
        else (aborted s val b cpu cnt st, 2)) := by
  have hplt := getElem?_lt_length _ _ _ hprev
  have hblt := getElem?_lt_length _ _ _ hb
  have e : rcx_add_tx_stat
      { nodes := s.nodes ++ [added_node val b], lists := s.lists, retired := s.retired,
        freed := s.freed, xbegin := s.xbegin.tail, abort_cnt := s.abort_cnt }
      (s.xbegin.headD XBEGIN_STARTED) p_prev b = some st := by
    rw [rcx_add_tx_stat_congr s _ _ p_prev b (List.getElem?_append_left hplt)
      (List.getElem?_append_left hblt)]
    exact hst
  unfold rcx_list_add
  simp only [hfind, Option.bind_eq_bind, Option.some_bind, hv, ne_eq, not_false_eq_true, if_true,
    rcx_alloc_node_eq, xbegin, e]
  by_cases h : st = XBEGIN_STARTED
  · simp only [h, if_true, node_store, List.getElem?_append_left hplt, hprev, Option.some_bind,
      Option.pure_def, linked]
  · simp only [h, if_false, record_abort, hcpu, kfree, Option.some_bind, Option.pure_def,
      aborted]

theorem rcx_remove_tx_stat_some (s : State) (x p_prev b p_n : Nat) (prev nb nn : node_t)
    (hprev : s.nodes[p_prev]? = some prev) (hb : s.nodes[b]? = some nb)
    (hn : s.nodes[p_n]? = some nn) :
    ∃ st, rcx_remove_tx_stat s x p_prev b (some p_n) = some st := by
  unfold rcx_remove_tx_stat remove_validate
  simp only [hprev, hb, hn]
  by_cases hx : x = XBEGIN_STARTED
  · by_cases h1 : prev.removed ≠ 0 ∨ nb.removed ≠ 0 ∨ nn.removed ≠ 0
    · exact ⟨xabort_status ABORT_DOUBLE_FREE, by simp [hx, h1]⟩
    · by_cases h2 : prev.p_next ≠ some b ∨ nb.p_next ≠ some p_n
      · exact ⟨xabort_status ABORT_CONFLICT, by simp [hx, h1, h2]⟩
      · exact ⟨XBEGIN_STARTED, by simp [hx, h1, h2]⟩
  · exact ⟨x, by simp [hx]⟩

theorem rcx_list_remove_absent (cpu : Nat) (s : State) (p_list : Nat) (val : Int)
    (p_prev b : Nat) (v : Int) (hfind : list_find s p_list val = some (p_prev, b, v))
    (hv : v ≠ val) : rcx_list_remove cpu s p_list val = some (s, 0) := by
  unfold rcx_list_remove
  simp [hfind, hv]

theorem rcx_list_remove_status (cpu : Nat) (s : State) (p_list : Nat) (val : Int)
    (p_prev b : Nat) (prev nb : node_t) (cnt : rtm_abort_cnt) (st : Nat)
    (hcpu : s.abort_cnt[cpu]? = some cnt)
    (hfind : list_find s p_list val = some (p_prev, b, val))
    (hprev : s.nodes[p_prev]? = some prev) (hb : s.nodes[b]? = some nb) (hne : p_prev ≠ b)
    (hst : rcx_remove_tx_stat s (s.xbegin.headD XBEGIN_STARTED) p_prev b nb.p_next = some st) :
    rcx_list_remove cpu s p_list val =
      some (if st = XBEGIN_STARTED then
          ({ unlinked_marked s p_prev b prev nb with xbegin := s.xbegin.tail }, 1)
        else (abort_noted s cpu cnt st, 2)) := by
  have hplt := getElem?_lt_length _ _ _ hprev
  have hblt := getElem?_lt_length _ _ _ hb
  have e : rcx_remove_tx_stat
      { nodes := s.nodes, lists := s.lists, retired := s.retired,
        freed := s.freed, xbegin := s.xbegin.tail, abort_cnt := s.abort_cnt }
      (s.xbegin.headD XBEGIN_STARTED) p_prev b nb.p_next = some st := hst
  unfold rcx_list_remove
  simp only [hfind, Option.bind_eq_bind, Option.some_bind, if_true, hb, xbegin, e]
  by_cases h : st = XBEGIN_STARTED
  · simp only [h, if_true, node_store, hprev, hb, Option.some_bind, List.getElem?_set, hne,
      if_false, Option.pure_def, rcx_free_node, RCU_FREE, unlinked_marked]
  · simp only [h, if_false, record_abort, hcpu, Option.some_bind, Option.pure_def, abort_noted]

/-- Inside a well-formed bucket, a stopping node holding less than
`LIST_VAL_MAX` has a successor, and predecessor, stopping node and successor are
three different nodes. -/
theorem remove_context (s : State) (p_list : Nat) (front : List Nat) (p_prev b : Nat)
    (post : List Nat) (hwf : list_wf s p_list)
    (hbn : bucket_nodes s p_list = some (front ++ p_prev :: b :: post))
    (hb : node_val s.nodes b < LIST_VAL_MAX) :
    ∃ prev nb p_n nn rest, post = p_n :: rest ∧ s.nodes[p_prev]? = some prev ∧
      s.nodes[b]? = some nb ∧ s.nodes[p_n]? = some nn ∧ prev.p_next = some b ∧
      nb.p_next = some p_n ∧ p_prev ≠ b ∧ b ≠ p_n ∧ p_prev ≠ p_n := by
  obtain ⟨l, prev, nb, hl, _, hprev, hpn, hnb, hpost, _⟩ :=
    chain_pieces s p_list front p_prev b post hbn
  have hne := stop_not_tail s p_list front p_prev b post hwf hbn hb
  have hnd := bucket_nodes_nodup _ _ _ hwf hbn
  cases post with
  | nil => exact absurd rfl hne
  | cons p_n rest =>
    obtain ⟨hpn2, nn, hnn, _⟩ := (lseg_cons _ _ _ _ _).mp hpost
    have h2 := (List.nodup_append.mp hnd).2.1
    simp only [List.nodup_cons, List.mem_cons, not_or] at h2
    exact ⟨prev, nb, p_n, nn, rest, rfl, hprev, hnb, hnn, hpn, hpn2, h2.1.1, h2.2.1.1, h2.1.2.1⟩

/-! ## `record_abort` -/

theorem count_incr_nr_aborts (cnt : rtm_abort_cnt) (i : Nat) :
    (count_incr cnt i).nr_aborts = cnt.nr_aborts := by
  unfold count_incr
  cases cnt.counts[i]? <;> rfl

theorem count_incr_length (cnt : rtm_abort_cnt) (i : Nat) :
    (count_incr cnt i).counts.length = cnt.counts.length := by
  unfold count_incr
  cases cnt.counts[i]? <;> simp

theorem count_incr_get (cnt : rtm_abort_cnt) (i j : Nat) :
    (count_incr cnt i).counts[j]? =
      if i = j then (cnt.counts[j]?).map (fun c => wrap_ulong (c + 1)) else cnt.counts[j]? := by
  unfold count_incr
  by_cases h : i = j
  · subst h
    cases hc : cnt.counts[i]? with
    | none => simp [hc]
    | some c =>
      have hlt := getElem?_lt_length _ _ _ hc
      simp [hc, List.getElem?_set, hlt]
  · cases hc : cnt.counts[i]? with
    | none => simp [h]
    | some c => simp [h, List.getElem?_set]

theorem ite_count_incr_get (c : Prop) [Decidable c] (cnt : rtm_abort_cnt) (i j : Nat) :
    (if c then count_incr cnt i else cnt).counts[j]? =
      if c ∧ i = j then (cnt.counts[j]?).map (fun v => wrap_ulong (v + 1))
      else cnt.counts[j]? := by
  by_cases h : c
  · simp only [h, if_true, true_and, count_incr_get]
  · simp only [h, if_false, false_and]

theorem ite_count_incr_nr_aborts (c : Prop) [Decidable c] (cnt : rtm_abort_cnt) (i : Nat) :
    (if c then count_incr cnt i else cnt).nr_aborts = cnt.nr_aborts := by
  by_cases h : c
  · simp only [h, if_true, count_incr_nr_aborts]
  · simp only [h, if_false]

theorem record_abort_cnt_nr_aborts (cnt : rtm_abort_cnt) (stat : Nat) :
    (record_abort_cnt cnt stat).nr_aborts = wrap_ulong (cnt.nr_aborts + 1) := by
  unfold record_abort_cnt
  simp only [ite_count_incr_nr_aborts]

/-- The counter of reason `j` after `record_abort`: incremented exactly when the
test guarding `counts[j]++` succeeds. -/
theorem record_abort_cnt_get (cnt : rtm_abort_cnt) (stat j : Nat) :
    (record_abort_cnt cnt stat).counts[j]? =
      if (j = ABORT_RTM_EXPLICIT ∧ stat &&& XABORT_EXPLICIT ≠ 0) ∨
         (j = ABORT_RTM_RETRY ∧ stat &&& XABORT_RETRY ≠ 0) ∨
         (j = ABORT_RTM_CONFLICT ∧ stat &&& XABORT_CONFLICT ≠ 0) ∨
         (j = ABORT_RTM_CAPACITY ∧ stat &&& XABORT_CAPACITY ≠ 0) ∨
         (j = ABORT_RTM_DEBUG ∧ stat &&& XABORT_DEBUG ≠ 0) ∨
         (j = ABORT_RTM_NESTED ∧ stat &&& XABORT_NESTED ≠ 0) ∨
         (j = ABORT_DOUBLE_FREE ∧ XABORT_CODE stat = ABORT_DOUBLE_FREE) ∨
         (j = ABORT_CONFLICT ∧ XABORT_CODE stat = ABORT_CONFLICT) ∨
         (j = ABORT_LF_CONFLICT ∧ XABORT_CODE stat = ABORT_LF_CONFLICT)
      then (cnt.counts[j]?).map (fun v => wrap_ulong (v + 1))
      else cnt.counts[j]? := by
  unfold record_abort_cnt
  simp only [ite_count_incr_get, ABORT_RTM_EXPLICIT, ABORT_RTM_RETRY, ABORT_RTM_CONFLICT,
    ABORT_RTM_CAPACITY, ABORT_RTM_DEBUG, ABORT_RTM_NESTED, ABORT_DOUBLE_FREE, ABORT_CONFLICT,
    ABORT_LF_CONFLICT]
  by_cases hj : j < 9
  · interval_cases j <;> simp
  · have h0 : ¬ (0 = j) := by omega
    have h1 : ¬ (1 = j) := by omega
    have h2 : ¬ (2 = j) := by omega
    have h3 : ¬ (3 = j) := by omega
    have h4 : ¬ (4 = j) := by omega
    have h5 : ¬ (5 = j) := by omega
    have h6 : ¬ (6 = j) := by omega
    have h7 : ¬ (7 = j) := by omega
    have h8 : ¬ (8 = j) := by omega
    have g0 : ¬ (j = 0) := by omega
    have g1 : ¬ (j = 1) := by omega
    have g2 : ¬ (j = 2) := by omega
    have g3 : ¬ (j = 3) := by omega
    have g4 : ¬ (j = 4) := by omega
    have g5 : ¬ (j = 5) := by omega
    have g6 : ¬ (j = 6) := by omega
    have g7 : ¬ (j = 7) := by omega
    have g8 : ¬ (j = 8) := by omega
    simp only [h0, h1, h2, h3, h4, h5, h6, h7, h8, g0, g1, g2, g3, g4, g5, g6, g7, g8, and_false,
      false_and, or_self, if_false]

theorem record_abort_eq (s : State) (cpu stat : Nat) (cnt : rtm_abort_cnt)
    (hcpu : s.abort_cnt[cpu]? = some cnt) :
    record_abort s cpu stat =
        some { s with abort_cnt := s.abort_cnt.set cpu (record_abort_cnt cnt stat) } ∧
      (s.abort_cnt.set cpu (record_abort_cnt cnt stat))[cpu]? =
        some (record_abort_cnt cnt stat) ∧
      ∀ c, c ≠ cpu → (s.abort_cnt.set cpu (record_abort_cnt cnt stat))[c]? = s.abort_cnt[c]? := by
  have hlt := getElem?_lt_length _ _ _ hcpu
  refine ⟨?_, ?_, ?_⟩
  · unfold record_abort
    rw [hcpu]
  · rw [List.getElem?_set_self hlt]
  · intro c hc
    rw [List.getElem?_set_ne (Ne.symm hc)]

theorem wrap_ulong_succ (c : Nat) (h : c < 18446744073709551615) : wrap_ulong (c + 1) = c + 1 := by
  unfold wrap_ulong
  exact Nat.mod_eq_of_lt (by omega)

theorem wrap_ulong_succ_ne (c : Nat) : wrap_ulong (c + 1) ≠ c := by
  unfold wrap_ulong
  omega

/-- C14: for every status word, `record_abort` on a CPU whose counters are `cnt`
stores `nr_aborts + 1` (as an `unsigned long`, so exactly one more below
`ULONG_MAX`) and, for each of the six CPU-reported reasons, stores the counter
plus one when the reason bit of the status word is set and leaves the counter as
it is when the bit is clear; the counters of the other CPUs and the rest of the
memory are unchanged. -/
theorem record_abort_counts (s : State) (cpu stat : Nat) (cnt : rtm_abort_cnt)
    (hcpu : s.abort_cnt[cpu]? = some cnt) (hlen : cnt.counts.length = NR_ABORT_REASONS) :
    ∃ cnt2, record_abort s cpu stat = some { s with abort_cnt := s.abort_cnt.set cpu cnt2 } ∧
      (s.abort_cnt.set cpu cnt2)[cpu]? = some cnt2 ∧
      (∀ c, c ≠ cpu → (s.abort_cnt.set cpu cnt2)[c]? = s.abort_cnt[c]?) ∧
      cnt2.nr_aborts = wrap_ulong (cnt.nr_aborts + 1) ∧
      (cnt.nr_aborts < 18446744073709551615 → cnt2.nr_aborts = cnt.nr_aborts + 1) ∧
      ∀ i mask, (i, mask) ∈ [(ABORT_RTM_EXPLICIT, XABORT_EXPLICIT),
          (ABORT_RTM_RETRY, XABORT_RETRY), (ABORT_RTM_CONFLICT, XABORT_CONFLICT),
          (ABORT_RTM_CAPACITY, XABORT_CAPACITY), (ABORT_RTM_DEBUG, XABORT_DEBUG),
          (ABORT_RTM_NESTED, XABORT_NESTED)] →
        ∃ c, cnt.counts[i]? = some c ∧
          cnt2.counts[i]? = some (if stat &&& mask ≠ 0 then wrap_ulong (c + 1) else c) ∧
          (stat &&& mask ≠ 0 → c < 18446744073709551615 → cnt2.counts[i]? = some (c + 1)) ∧
          (stat &&& mask = 0 → cnt2.counts[i]? = some c) := by
  obtain ⟨h1, h2, h3⟩ := record_abort_eq s cpu stat cnt hcpu
  refine ⟨record_abort_cnt cnt stat, h1, h2, h3, record_abort_cnt_nr_aborts cnt stat, ?_, ?_⟩
  · intro h
    rw [record_abort_cnt_nr_aborts, wrap_ulong_succ _ h]
  · intro i mask hmem
    have hi : i < cnt.counts.length := by
      rw [hlen]
      simp only [List.mem_cons, Prod.mk.injEq, List.mem_singleton, List.not_mem_nil,
        or_false] at hmem
      unfold NR_ABORT_REASONS
      rcases hmem with ⟨h, _⟩ | ⟨h, _⟩ | ⟨h, _⟩ | ⟨h, _⟩ | ⟨h, _⟩ | ⟨h, _⟩ <;> rw [h] <;> decide
    have hc : cnt.counts[i]? = some (cnt.counts.get ⟨i, hi⟩) := List.getElem?_eq_getElem hi
    have key : (record_abort_cnt cnt stat).counts[i]? =
        some (if stat &&& mask ≠ 0 then wrap_ulong (cnt.counts.get ⟨i, hi⟩ + 1)
          else cnt.counts.get ⟨i, hi⟩) := by
      rw [record_abort_cnt_get, hc]
      simp only [List.mem_cons, Prod.mk.injEq, List.mem_singleton, List.not_mem_nil,
        or_false] at hmem
      rcases hmem with ⟨h, hm⟩ | ⟨h, hm⟩ | ⟨h, hm⟩ | ⟨h, hm⟩ | ⟨h, hm⟩ | ⟨h, hm⟩ <;>
        subst h <;> subst hm <;>
        simp [ABORT_RTM_EXPLICIT, ABORT_RTM_RETRY, ABORT_RTM_CONFLICT, ABORT_RTM_CAPACITY,
          ABORT_RTM_DEBUG, ABORT_RTM_NESTED, ABORT_DOUBLE_FREE, ABORT_CONFLICT,
          ABORT_LF_CONFLICT] <;>
        split_ifs <;> rfl
    refine ⟨_, hc, key, ?_, ?_⟩
    · intro hb hlt
      rw [key, if_pos hb, wrap_ulong_succ _ hlt]
    · intro hb
      rw [key, if_neg (by simp [hb])]

theorem record_abort_counts_witness :
    mem_3_7.abort_cnt[0]? = some { counts := [0, 0, 0, 0, 0, 0, 0, 0, 0], nr_aborts := 0 } ∧
    ∃ cnt2, record_abort mem_3_7 0 (XABORT_RETRY ||| XABORT_CONFLICT) =
        some { mem_3_7 with abort_cnt := mem_3_7.abort_cnt.set 0 cnt2 } ∧
      cnt2.nr_aborts = wrap_ulong (0 + 1) :=
  ⟨by decide,
    (record_abort_counts mem_3_7 0 (XABORT_RETRY ||| XABORT_CONFLICT)
      { counts := [0, 0, 0, 0, 0, 0, 0, 0, 0], nr_aborts := 0 } (by decide) (by decide)).imp
      (fun _ h => ⟨h.1, h.2.2.2.1⟩)⟩

/-- C15: `record_abort` increments the application-level counter `j` (`double
free`, `conflict`, `lfconflict`) exactly when `_XABORT_CODE` of the status word
equals `j`: for a status word carrying one of the three codes of this program it
increments the counter whose index is the code and leaves the other two, and
for every status word it changes at most one of the three.  The status word of
`_xabort(code)` carries `code`. -/
theorem record_abort_code_counter (s : State) (cpu stat : Nat) (cnt : rtm_abort_cnt)
    (hcpu : s.abort_cnt[cpu]? = some cnt) (hlen : cnt.counts.length = NR_ABORT_REASONS) :
    ∃ cnt2, record_abort s cpu stat = some { s with abort_cnt := s.abort_cnt.set cpu cnt2 } ∧
      (∀ j ∈ [ABORT_DOUBLE_FREE, ABORT_CONFLICT, ABORT_LF_CONFLICT],
        ∃ c, cnt.counts[j]? = some c ∧
          cnt2.counts[j]? = some (if XABORT_CODE stat = j then wrap_ulong (c + 1) else c) ∧
          (XABORT_CODE stat = j → c < 18446744073709551615 → cnt2.counts[j]? = some (c + 1)) ∧
          (XABORT_CODE stat ≠ j → cnt2.counts[j]? = cnt.counts[j]?)) ∧
      (∀ j ∈ [ABORT_DOUBLE_FREE, ABORT_CONFLICT, ABORT_LF_CONFLICT],
        ∀ j2 ∈ [ABORT_DOUBLE_FREE, ABORT_CONFLICT, ABORT_LF_CONFLICT],
          cnt2.counts[j]? ≠ cnt.counts[j]? → cnt2.counts[j2]? ≠ cnt.counts[j2]? → j = j2) ∧
      (∀ code ∈ [ABORT_DOUBLE_FREE, ABORT_CONFLICT, ABORT_LF_CONFLICT],
        XABORT_CODE (xabort_status code) = code ∧
          xabort_status code &&& XABORT_EXPLICIT ≠ 0) := by
  obtain ⟨h1, _, _⟩ := record_abort_eq s cpu stat cnt hcpu
  have key : ∀ j ∈ [ABORT_DOUBLE_FREE, ABORT_CONFLICT, ABORT_LF_CONFLICT],
      (record_abort_cnt cnt stat).counts[j]? =
        if XABORT_CODE stat = j then (cnt.counts[j]?).map (fun v => wrap_ulong (v + 1))
        else cnt.counts[j]? := by
    intro j hj
    rw [record_abort_cnt_get]
    simp only [List.mem_cons, List.mem_singleton, List.not_mem_nil, or_false] at hj
    rcases hj with h | h | h <;> subst h <;>
      simp [ABORT_RTM_EXPLICIT, ABORT_RTM_RETRY, ABORT_RTM_CONFLICT, ABORT_RTM_CAPACITY,
        ABORT_RTM_DEBUG, ABORT_RTM_NESTED, ABORT_DOUBLE_FREE, ABORT_CONFLICT,
        ABORT_LF_CONFLICT]
  have hget : ∀ j ∈ [ABORT_DOUBLE_FREE, ABORT_CONFLICT, ABORT_LF_CONFLICT],
      ∃ c, cnt.counts[j]? = some c := by
    intro j hj
    have hi : j < cnt.counts.length := by
      rw [hlen]
      simp only [List.mem_cons, List.mem_singleton, List.not_mem_nil, or_false] at hj
      unfold NR_ABORT_REASONS
      rcases hj with h | h | h <;> rw [h] <;> decide
    exact ⟨_, List.getElem?_eq_getElem hi⟩
  refine ⟨record_abort_cnt cnt stat, h1, ?_, ?_, ?_⟩
  · intro j hj
    obtain ⟨c, hc⟩ := hget j hj
    refine ⟨c, hc, ?_, ?_, ?_⟩
    · rw [key j hj, hc]
      split_ifs <;> rfl
    · intro h hlt
      rw [key j hj, hc, if_pos h, Option.map_some', wrap_ulong_succ _ hlt]
    · intro h
      rw [key j hj, if_neg h]
  · intro j hj j2 hj2 hne hne2
    have e1 : XABORT_CODE stat = j := by
      by_contra h
      exact hne (by rw [key j hj, if_neg h])
    have e2 : XABORT_CODE stat = j2 := by
      by_contra h
      exact hne2 (by rw [key j2 hj2, if_neg h])
    rw [← e1, ← e2]
  · decide

theorem record_abort_code_counter_witness :
    mem_3_7.abort_cnt[0]? = some { counts := [0, 0, 0, 0, 0, 0, 0, 0, 0], nr_aborts := 0 } ∧
    ∃ cnt2, record_abort mem_3_7 0 (xabort_status ABORT_CONFLICT) =
        some { mem_3_7 with abort_cnt := mem_3_7.abort_cnt.set 0 cnt2 } ∧
      ∀ j ∈ [ABORT_DOUBLE_FREE, ABORT_CONFLICT, ABORT_LF_CONFLICT],
        ∀ j2 ∈ [ABORT_DOUBLE_FREE, ABORT_CONFLICT, ABORT_LF_CONFLICT],
          cnt2.counts[j]? ≠
              ({ counts := [0, 0, 0, 0, 0, 0, 0, 0, 0], nr_aborts := 0 } : rtm_abort_cnt).counts[j]? →
            cnt2.counts[j2]? ≠
              ({ counts := [0, 0, 0, 0, 0, 0, 0, 0, 0], nr_aborts := 0 } : rtm_abort_cnt).counts[j2]? →
            j = j2 :=
  ⟨by decide,
    (record_abort_code_counter mem_3_7 0 (xabort_status ABORT_CONFLICT)
      { counts := [0, 0, 0, 0, 0, 0, 0, 0, 0], nr_aborts := 0 } (by decide) (by decide)).imp
      (fun _ h => ⟨h.1, h.2.2.1⟩)⟩

/-! ## C12: the forgive policy -/

theorem bucket_nodes_append (s s2 : State) (extra : List node_t) (q : Nat)
    (hl : s2.lists = s.lists) (hn : s2.nodes = s.nodes ++ extra) (as : List Nat)
    (hq : bucket_nodes s q = some as) : bucket_nodes s2 q = some as := by
  obtain ⟨l, hl2, hseg, hlen⟩ := (bucket_nodes_eq_some _ _ _).mp hq
  refine (bucket_nodes_eq_some _ _ _).mpr ⟨l, by rw [hl]; exact hl2, ?_, ?_⟩
  · rw [hn]; exact lseg_append_nodes _ _ _ _ _ hseg
  · rw [hn, List.length_append]; omega

theorem abort_forgiven_aborted (g : hash_list_t) (s : State) (val : Int) (b cpu : Nat)
    (cnt : rtm_abort_cnt) (stat : Nat) (hwf : hash_list_wf g s) :
    abort_forgiven g s (aborted s val b cpu cnt stat) cpu cnt stat := by
  refine ⟨rfl, record_abort_cnt_nr_aborts cnt stat, ?_, ?_, rfl, rfl⟩
  · intro q hq
    obtain ⟨as, has⟩ := list_wf_nodes _ _ (hwf.2.1 q hq).1
    rw [has]
    exact bucket_nodes_append s (aborted s val b cpu cnt stat) [added_node val b] q rfl rfl as has
  · intro a n h
    show (s.nodes ++ [added_node val b])[a]? = some n
    rw [List.getElem?_append_left (getElem?_lt_length _ _ _ h)]
    exact h

theorem abort_forgiven_noted (g : hash_list_t) (s : State) (cpu : Nat)
    (cnt : rtm_abort_cnt) (stat : Nat) :
    abort_forgiven g s (abort_noted s cpu cnt stat) cpu cnt stat :=
  ⟨rfl, record_abort_cnt_nr_aborts cnt stat, fun _ _ => rfl, fun _ _ h => h, rfl, rfl⟩

theorem same_links_unlinked_marked (s : State) (p_prev b : Nat) (prev nb : node_t)
    (xs : List Nat) (hb : s.nodes[b]? = some nb) (hne : p_prev ≠ b) :
    same_links (unlinked s p_prev b prev nb)
      { unlinked_marked s p_prev b prev nb with xbegin := xs } := by
  apply same_links_of
  · rfl
  · intro i
    unfold unlinked unlinked_marked
    simp only [List.getElem?_set, List.length_set]
    by_cases h2 : b = i
    · subst h2
      have hblt := getElem?_lt_length _ _ _ hb
      simp [hne, hblt, hb, node_links]
    · simp [h2]

theorem rcx_hash_list_add_of_list (cpu : Nat) (g : hash_list_t) (s s1 : State) (k h : Int)
    (p : Nat) (r : Int) (hh : HASH_VALUE g k = some h) (hb : bucket_at g h = some p)
    (hr : rcx_list_add cpu s p k = some (s1, r)) :
    rcx_hash_list_add cpu g s k = some (s1, if r = 2 then -1 else 0) ∧
      rcx_hash_list_try_add cpu g s k = some (s1, if r = 2 then -1 else 0) := by
  unfold rcx_hash_list_add rcx_hash_list_try_add
  simp only [hh, hb, hr, Option.bind_eq_bind, Option.some_bind, Option.pure_def]
  by_cases h2 : r = 2 <;> simp [h2]

theorem rcx_hash_list_remove_of_list (cpu : Nat) (g : hash_list_t) (s s1 : State) (k h : Int)
    (p : Nat) (r : Int) (hh : HASH_VALUE g k = some h) (hb : bucket_at g h = some p)
    (hr : rcx_list_remove cpu s p k = some (s1, r)) :
    rcx_hash_list_remove cpu g s k = some (s1, if r = 2 then -1 else 0) ∧
      rcx_hash_list_try_remove cpu g s k = some (s1, if r = 2 then -1 else 0) := by
  unfold rcx_hash_list_remove rcx_hash_list_try_remove
  simp only [hh, hb, hr, Option.bind_eq_bind, Option.some_bind, Option.pure_def]
  by_cases h2 : r = 2 <;> simp [h2]

/-- C12: in a well-formed hash set, for a key `0 ≤ k < LIST_VAL_MAX` and the
status `st` the `if` after `_xbegin()` sees.  When the key is absent and the
transaction of `rcx_list_add` aborts (`st` is any word other than
`_XBEGIN_STARTED`), `rcx_list_add` returns 2, `rcx_hash_list_add` and
`rcx_hash_list_try_add` return -1, one abort is recorded and the chains of the
buckets, the nodes that existed and the retired nodes are unchanged; the same
holds for `rcx_list_remove`, `rcx_hash_list_remove` and
`rcx_hash_list_try_remove` when the key is present and the transaction aborts.
Without an abort no call returns 2, and `rcx_list_remove` returns 1 with the key
taken out of the bucket when it was present and 0 with the memory unchanged when
it was absent. -/
theorem forgive_abort_returns (cpu : Nat) (g : hash_list_t) (s : State) (k : Int)
    (cnt : rtm_abort_cnt) (hwf : hash_list_wf g s) (h0 : 0 ≤ k) (h1 : k < LIST_VAL_MAX)
    (hcpu : s.abort_cnt[cpu]? = some cnt) :
    ∃ p p_prev b nb, g.buckets[(k % g.n_buckets).toNat]? = some p ∧
      list_find s p k = some (p_prev, b, node_val s.nodes b) ∧ s.nodes[b]? = some nb ∧
      (key_in_bucket s p k ↔ node_val s.nodes b = k) ∧
      (¬ key_in_bucket s p k →
        ∃ st, rcx_add_tx_stat s (s.xbegin.headD XBEGIN_STARTED) p_prev b = some st ∧
          (st ≠ XBEGIN_STARTED →
            ∃ s1, rcx_list_add cpu s p k = some (s1, 2) ∧
              rcx_hash_list_add cpu g s k = some (s1, -1) ∧
              rcx_hash_list_try_add cpu g s k = some (s1, -1) ∧
              abort_forgiven g s s1 cpu cnt st) ∧
          (st = XBEGIN_STARTED → ∃ s1 r, rcx_list_add cpu s p k = some (s1, r) ∧ r ≠ 2)) ∧
      (key_in_bucket s p k → ∃ r, rcx_list_add cpu s p k = some (s, r) ∧ r ≠ 2) ∧
      (key_in_bucket s p k →
        ∃ st, rcx_remove_tx_stat s (s.xbegin.headD XBEGIN_STARTED) p_prev b nb.p_next =
            some st ∧
          (st ≠ XBEGIN_STARTED →
            ∃ s1, rcx_list_remove cpu s p k = some (s1, 2) ∧
              rcx_hash_list_remove cpu g s k = some (s1, -1) ∧
              rcx_hash_list_try_remove cpu g s k = some (s1, -1) ∧
              abort_forgiven g s s1 cpu cnt st) ∧
          (st = XBEGIN_STARTED →
            ∃ s0 s1, rcx_list_remove cpu s p k = some (s1, 1) ∧
              rcu_list_remove s p k = some (s0, 0) ∧ same_links s0 s1 ∧
              ¬ key_in_bucket s1 p k)) ∧
      (¬ key_in_bucket s p k → rcx_list_remove cpu s p k = some (s, 0)) := by
  obtain ⟨p, hp, hmem, hh, hb⟩ := bucket_of_key g k hwf.1 h0
  have hbw := hwf.2.1 p hmem
  have hmin : LIST_VAL_MIN < k := by unfold LIST_VAL_MIN; omega
  obtain ⟨front, p_prev, b, post, hbn, _, hlow, hge, hfind⟩ :=
    list_find_spec s p k hbw.1 (le_of_lt h1)
  obtain ⟨l, prev, nb, hl, _, hprev, hpn, hnb, _, _⟩ := chain_pieces s p front p_prev b post hbn
  obtain ⟨l3, hl3, hfree⟩ := (list_unlocked_iff _ _).mp hbw.2
  rw [hl] at hl3; cases hl3
  have hin : key_in_bucket s p k ↔ node_val s.nodes b = k := by
    unfold key_in_bucket
    rw [bucket_vals_of_nodes _ _ _ hbn]
    exact mem_vals_iff_stop s p k front p_prev b post hbw.1 hbn (hlow hmin) hge
  refine ⟨p, p_prev, b, nb, hp, hfind, hnb, hin, ?_, ?_, ?_, ?_⟩
  · intro hnin
    have hv : node_val s.nodes b ≠ k := fun h => hnin (hin.mpr h)
    obtain ⟨st, hst⟩ := rcx_add_tx_stat_some s (s.xbegin.headD XBEGIN_STARTED) p_prev b prev nb
      hprev hnb
    have hrun := rcx_list_add_status cpu s p k p_prev b _ prev nb cnt st hcpu hfind hprev hnb hv
      hst
    refine ⟨st, hst, ?_, ?_⟩
    · intro hne
      rw [if_neg hne] at hrun
      obtain ⟨e1, e2⟩ := rcx_hash_list_add_of_list cpu g s _ k _ p 2 hh hb hrun
      exact ⟨_, hrun, e1, e2, abort_forgiven_aborted g s k b cpu cnt st hwf⟩
    · intro he
      rw [if_pos he] at hrun
      exact ⟨_, 1, hrun, by decide⟩
  · intro hk
    have hv := hin.mp hk
    rw [hv] at hfind
    exact ⟨0, rcx_list_add_present cpu s p k p_prev b hfind, by decide⟩
  · intro hk
    have hv := hin.mp hk
    obtain ⟨prev2, nb2, p_n, nn, rest, hpost, hprev2, hnb2, hnn, _, hnp, hne, _, _⟩ :=
      remove_context s p front p_prev b post hbw.1 hbn (by rw [hv]; exact h1)
    rw [hprev] at hprev2; cases hprev2
    rw [hnb] at hnb2; cases hnb2
    obtain ⟨st, hst⟩ := rcx_remove_tx_stat_some s (s.xbegin.headD XBEGIN_STARTED) p_prev b p_n
      prev nb nn hprev hnb hnn
    rw [← hnp] at hst
    have hfind2 : list_find s p k = some (p_prev, b, k) := by rw [hfind, hv]
    have hrun := rcx_list_remove_status cpu s p k p_prev b prev nb cnt st hcpu hfind2 hprev hnb
      hne hst
    refine ⟨st, hst, ?_, ?_⟩
    · intro hne2
      rw [if_neg hne2] at hrun
      obtain ⟨e1, e2⟩ := rcx_hash_list_remove_of_list cpu g s _ k _ p 2 hh hb hrun
      exact ⟨_, hrun, e1, e2, abort_forgiven_noted g s cpu cnt st⟩
    · intro he
      rw [if_pos he] at hrun
      have heval := rcu_list_remove_eval s p k l p_prev b _ prev nb hl hfree hfind2 hprev hnb
      rw [if_pos rfl] at heval
      have hlinks := same_links_unlinked_marked s p_prev b prev nb s.xbegin.tail hnb hne
      refine ⟨_, _, hrun, heval, hlinks, ?_⟩
      obtain ⟨s2, as, as2, hrem, _, has, has2, _, _, hval, hiff, _⟩ :=
        rcu_list_remove_step g s p k hwf hmem h1
      rw [heval] at hrem
      have e := congrArg Prod.fst (Option.some.inj hrem)
      simp only at e
      subst e
      unfold key_in_bucket
      rw [bucket_vals_links _ _ hlinks, bucket_vals_of_nodes _ _ _ has2]
      have e2 : as2.map (node_val (unlinked s p_prev b prev nb).nodes) =
          as2.map (node_val s.nodes) := List.map_congr_left (fun a _ => hval a)
      rw [e2]
      intro hmem2
      exact ((hiff hmin k).mp hmem2).1 rfl
  · intro hnin
    have hv : node_val s.nodes b ≠ k := fun h => hnin (hin.mpr h)
    exact rcx_list_remove_absent cpu s p k p_prev b _ hfind hv

theorem forgive_abort_returns_witness :
    hash_list_wf hash_1 mem_3_7_abort ∧ (0 : Int) ≤ 5 ∧ (5 : Int) < LIST_VAL_MAX ∧
    mem_3_7_abort.abort_cnt[0]? =
      some { counts := [0, 0, 0, 0, 0, 0, 0, 0, 0], nr_aborts := 0 } ∧
    (∃ p, hash_1.buckets[((5 : Int) % hash_1.n_buckets).toNat]? = some p) ∧
    (rcx_list_add 0 mem_3_7_abort 0 5).map Prod.snd = some 2 ∧
    (rcx_hash_list_try_add 0 hash_1 mem_3_7_abort 5).map Prod.snd = some (-1) :=
  ⟨by decide, by decide, by decide, by decide,
    (forgive_abort_returns 0 hash_1 mem_3_7_abort 5
      { counts := [0, 0, 0, 0, 0, 0, 0, 0, 0], nr_aborts := 0 } (by decide) (by decide)
      (by decide) (by decide)).imp (fun _ h => h.elim (fun _ h => h.elim (fun _ h =>
        h.elim (fun _ h => h.1)))),
    by decide, by decide⟩

/-! ## C13: the retry policy and the deadline -/

theorem head_abort_cons (xs : List Nat) (h : xs.headD XBEGIN_STARTED ≠ XBEGIN_STARTED) :
    ∃ x rest, xs = x :: rest ∧ x ≠ XBEGIN_STARTED := by
  cases xs with
  | nil => exact absurd rfl h
  | cons x rest => exact ⟨x, rest, rfl, h⟩

/-- The loop of `rcx_hash_list_retry_add` on an absent key whose two neighbours
are not marked removed: it returns, 0 or -1, and -1 only after the attempts up
to some `j` all aborted and the `j`-th call of `benchmark_endtime()` returned 1. -/
theorem rcx_hash_list_retry_add_loop_spec (cpu p_list : Nat) (val : Int)
    (p_prev b : Nat) (v : Int) (prev nb : node_t)
    (hpn : prev.p_next = some b) (hr1 : prev.removed = 0)
    (hr2 : nb.removed = 0) (hv : v ≠ val) :
    ∀ (fuel : Nat) (endtime : List Int) (s : State), s.xbegin.length < fuel →
      list_find s p_list val = some (p_prev, b, v) →
      s.nodes[p_prev]? = some prev → s.nodes[b]? = some nb → cpu < s.abort_cnt.length →
      ∃ s1 r, rcx_hash_list_retry_add_loop fuel cpu endtime s p_list val = some (s1, r) ∧
        (r = 0 ∨ r = -1) ∧
        (r = -1 → ∃ j : Nat, endtime[j]? = some 1 ∧
          ∀ i : Nat, i ≤ j → ∃ x, s.xbegin[i]? = some x ∧ x ≠ XBEGIN_STARTED) ∧
        ((∀ e ∈ endtime, e ≠ 1) → r = 0) ∧
        (s.xbegin.headD XBEGIN_STARTED = XBEGIN_STARTED → r = 0) := by
  intro fuel
  induction fuel with
  | zero => intro endtime s h1; omega
  | succ fuel ih =>
    intro endtime s h1 hfind hprev hb hcpu
    rw [rcx_hash_list_retry_add_loop]
    by_cases hx : s.xbegin.headD XBEGIN_STARTED = XBEGIN_STARTED
    · rw [rcx_list_add_eval cpu s p_list val p_prev b v prev nb hx hfind hprev hb hpn hr1 hr2 hv]
      exact ⟨{ linked s val p_prev b prev with xbegin := s.xbegin.tail }, 0, by simp,
        Or.inl rfl, fun h => absurd h (by decide), fun _ => rfl, fun _ => rfl⟩
    · rw [rcx_list_add_abort cpu s p_list val p_prev b v (s.abort_cnt.get ⟨cpu, hcpu⟩) hx
        (List.getElem?_eq_getElem hcpu) hfind hv]
      obtain ⟨x, rest, hxs, hxne⟩ := head_abort_cons _ hx
      by_cases he : endtime.headD 0 = 1
      · refine ⟨aborted s val b cpu (s.abort_cnt.get ⟨cpu, hcpu⟩)
          (s.xbegin.headD XBEGIN_STARTED), -1,
          by simp only [Option.bind_eq_bind, Option.some_bind, ne_eq, not_true_eq_false, if_false,
               he, Option.pure_def], Or.inr rfl,
          fun _ => ⟨0, ?_, ?_⟩, ?_, fun h => absurd h hx⟩
        · cases endtime with
          | nil => simp at he
          | cons e es => simpa using he
        · intro i hi
          have : i = 0 := by omega
          subst this
          exact ⟨x, by rw [hxs]; simp, hxne⟩
        · intro hall
          cases endtime with
          | nil => simp at he
          | cons e es =>
            simp only [List.headD_cons] at he
            exact absurd he (hall e (by simp))
      · have hplt := getElem?_lt_length _ _ _ hprev
        have hblt := getElem?_lt_length _ _ _ hb
        obtain ⟨s1, r, hrun, hr, hneg, hall, _⟩ := ih endtime.tail
          (aborted s val b cpu (s.abort_cnt.get ⟨cpu, hcpu⟩) (s.xbegin.headD XBEGIN_STARTED))
          (by show s.xbegin.tail.length < fuel
              rw [hxs] at h1 ⊢
              simp only [List.length_cons, List.tail_cons] at h1 ⊢
              omega)
          (list_find_append s _ [added_node val b] p_list val _ rfl rfl hfind)
          (by show (s.nodes ++ [added_node val b])[p_prev]? = some prev
              rw [List.getElem?_append_left hplt]; exact hprev)
          (by show (s.nodes ++ [added_node val b])[b]? = some nb
              rw [List.getElem?_append_left hblt]; exact hb)
          (by show cpu < (s.abort_cnt.set cpu _).length
              rw [List.length_set]; exact hcpu)
        refine ⟨s1, r, ?_, hr, ?_, ?_, fun h => absurd h hx⟩
        · simp only [Option.bind_eq_bind, Option.some_bind, ne_eq, not_true_eq_false, if_false,
            he, not_false_eq_true, if_true]
          exact hrun
        · intro hm
          obtain ⟨j, hj, hab⟩ := hneg hm
          refine ⟨j + 1, ?_, ?_⟩
          · cases endtime with
            | nil => simp at hj
            | cons e es => simpa using hj
          · intro i hi
            cases i with
            | zero => exact ⟨x, by rw [hxs]; simp, hxne⟩
            | succ i =>
              obtain ⟨y, hy, hyne⟩ := hab i (by omega)
              refine ⟨y, ?_, hyne⟩
              have : (aborted s val b cpu (s.abort_cnt.get ⟨cpu, hcpu⟩)
                  (s.xbegin.headD XBEGIN_STARTED)).xbegin = rest := by
                show s.xbegin.tail = rest
                rw [hxs]; rfl
              rw [this] at hy
              rw [hxs]
              simpa using hy
        · intro hall2
          apply hall
          intro e hmem
          exact hall2 e (List.mem_of_mem_tail hmem)

theorem rcx_remove_tx_stat_quiet (s : State) (x p_prev b p_n : Nat) (prev nb nn : node_t)
    (hprev : s.nodes[p_prev]? = some prev) (hb : s.nodes[b]? = some nb)
    (hn : s.nodes[p_n]? = some nn) (hpn : prev.p_next = some b) (hnp : nb.p_next = some p_n)
    (hr1 : prev.removed = 0) (hr2 : nb.removed = 0) (hr3 : nn.removed = 0) :
    rcx_remove_tx_stat s x p_prev b nb.p_next = some x := by
  unfold rcx_remove_tx_stat remove_validate
  rw [hnp]
  simp only [hprev, hb, hn, hr1, hr2, hr3, hpn, hnp, ne_eq, not_true_eq_false, or_self, if_false]
  by_cases hx : x = XBEGIN_STARTED
  · simp [hx]
  · simp [hx]

theorem list_find_abort_noted (s : State) (cpu : Nat) (cnt : rtm_abort_cnt) (st p_list : Nat)
    (val : Int) : list_find (abort_noted s cpu cnt st) p_list val = list_find s p_list val :=
  rfl

/-- The loop of `rcx_hash_list_retry_remove` on a present key whose node and
two neighbours are not marked removed: it returns, 0 or -1, and -1 only after
the attempts up to some `j` all aborted and the `j`-th call of
`benchmark_endtime()` returned 1. -/
theorem rcx_hash_list_retry_remove_loop_spec (cpu p_list : Nat) (val : Int)
    (p_prev b p_n : Nat) (prev nb nn : node_t)
    (hpn : prev.p_next = some b) (hnp : nb.p_next = some p_n) (hne : p_prev ≠ b)
    (hr1 : prev.removed = 0) (hr2 : nb.removed = 0) (hr3 : nn.removed = 0) :
    ∀ (fuel : Nat) (endtime : List Int) (s : State), s.xbegin.length < fuel →
      list_find s p_list val = some (p_prev, b, val) →
      s.nodes[p_prev]? = some prev → s.nodes[b]? = some nb → s.nodes[p_n]? = some nn →
      cpu < s.abort_cnt.length →
      ∃ s1 r, rcx_hash_list_retry_remove_loop fuel cpu endtime s p_list val = some (s1, r) ∧
        (r = 0 ∨ r = -1) ∧
        (r = -1 → ∃ j : Nat, endtime[j]? = some 1 ∧
          ∀ i : Nat, i ≤ j → ∃ x, s.xbegin[i]? = some x ∧ x ≠ XBEGIN_STARTED) ∧
        ((∀ e ∈ endtime, e ≠ 1) → r = 0) ∧
        (s.xbegin.headD XBEGIN_STARTED = XBEGIN_STARTED → r = 0) := by
  intro fuel
  induction fuel with
  | zero => intro endtime s h1; omega
  | succ fuel ih =>
    intro endtime s h1 hfind hprev hb hn hcpu
    rw [rcx_hash_list_retry_remove_loop]
    rw [rcx_list_remove_status cpu s p_list val p_prev b prev nb (s.abort_cnt.get ⟨cpu, hcpu⟩)
      (s.xbegin.headD XBEGIN_STARTED) (List.getElem?_eq_getElem hcpu) hfind hprev hb hne
      (rcx_remove_tx_stat_quiet s _ p_prev b p_n prev nb nn hprev hb hn hpn hnp hr1 hr2 hr3)]
    by_cases hx : s.xbegin.headD XBEGIN_STARTED = XBEGIN_STARTED
    · rw [if_pos hx]
      exact ⟨{ unlinked_marked s p_prev b prev nb with xbegin := s.xbegin.tail }, 0, by simp,
        Or.inl rfl, fun h => absurd h (by decide), fun _ => rfl, fun _ => rfl⟩
    · rw [if_neg hx]
      obtain ⟨x, rest, hxs, hxne⟩ := head_abort_cons _ hx
      by_cases he : endtime.headD 0 = 1
      · refine ⟨abort_noted s cpu (s.abort_cnt.get ⟨cpu, hcpu⟩)
          (s.xbegin.headD XBEGIN_STARTED), -1,
          by simp only [Option.bind_eq_bind, Option.some_bind, ne_eq, not_true_eq_false, if_false,
               he, Option.pure_def], Or.inr rfl,
          fun _ => ⟨0, ?_, ?_⟩, ?_, fun h => absurd h hx⟩
        · cases endtime with
          | nil => simp at he
          | cons e es => simpa using he
        · intro i hi
          have : i = 0 := by omega
          subst this
          exact ⟨x, by rw [hxs]; simp, hxne⟩
        · intro hall
          cases endtime with
          | nil => simp at he
          | cons e es =>
            simp only [List.headD_cons] at he
            exact absurd he (hall e (by simp))
      · obtain ⟨s1, r, hrun, hr, hneg, hall, _⟩ := ih endtime.tail
          (abort_noted s cpu (s.abort_cnt.get ⟨cpu, hcpu⟩) (s.xbegin.headD XBEGIN_STARTED))
          (by show s.xbegin.tail.length < fuel
              rw [hxs] at h1 ⊢
              simp only [List.length_cons, List.tail_cons] at h1 ⊢
              omega)
          hfind hprev hb hn
          (by show cpu < (s.abort_cnt.set cpu _).length
              rw [List.length_set]; exact hcpu)
        refine ⟨s1, r, ?_, hr, ?_, ?_, fun h => absurd h hx⟩
        · simp only [Option.bind_eq_bind, Option.some_bind, ne_eq, not_true_eq_false, if_false,
            he, not_false_eq_true, if_true]
          exact hrun
        · intro hm
          obtain ⟨j, hj, hab⟩ := hneg hm
          refine ⟨j + 1, ?_, ?_⟩
          · cases endtime with
            | nil => simp at hj
            | cons e es => simpa using hj
          · intro i hi
            cases i with
            | zero => exact ⟨x, by rw [hxs]; simp, hxne⟩
            | succ i =>
              obtain ⟨y, hy, hyne⟩ := hab i (by omega)
              refine ⟨y, ?_, hyne⟩
              have : (abort_noted s cpu (s.abort_cnt.get ⟨cpu, hcpu⟩)
                  (s.xbegin.headD XBEGIN_STARTED)).xbegin = rest := by
                show s.xbegin.tail = rest
                rw [hxs]; rfl
              rw [this] at hy
              rw [hxs]
              simpa using hy
        · intro hall2
          apply hall
          intro e hmem
          exact hall2 e (List.mem_of_mem_tail hmem)

/-- Whatever the memory, a result of the loop of `rcx_hash_list_retry_add` is 0
or -1, and -1 only when a call of `benchmark_endtime()` returned 1. -/
theorem rcx_hash_list_retry_add_loop_safe (cpu p_list : Nat) (val : Int) :
    ∀ (fuel : Nat) (endtime : List Int) (s s1 : State) (r : Int),
      rcx_hash_list_retry_add_loop fuel cpu endtime s p_list val = some (s1, r) →
      (r = 0 ∨ r = -1) ∧ (r = -1 → ∃ j : Nat, endtime[j]? = some 1) ∧
        ((∀ e ∈ endtime, e ≠ 1) → r = 0) := by
  intro fuel
  induction fuel with
  | zero => intro endtime s s1 r h; simp [rcx_hash_list_retry_add_loop] at h
  | succ fuel ih =>
    intro endtime s s1 r h
    rw [rcx_hash_list_retry_add_loop] at h
    cases hrun : rcx_list_add cpu s p_list val with
    | none => simp [hrun] at h
    | some q =>
      obtain ⟨s2, res⟩ := q
      simp only [hrun, Option.bind_eq_bind, Option.some_bind, Option.pure_def] at h
      by_cases h2 : res ≠ 2
      · rw [if_pos h2] at h
        have e := congrArg Prod.snd (Option.some.inj h)
        simp only at e
        subst e
        exact ⟨Or.inl rfl, fun h => absurd h (by decide), fun _ => rfl⟩
      · rw [if_neg h2] at h
        by_cases he : endtime.headD 0 ≠ 1
        · rw [if_pos he] at h
          obtain ⟨hr, hneg, hall⟩ := ih endtime.tail s2 s1 r h
          refine ⟨hr, fun hm => ?_, fun hall2 => hall (fun e hmem => hall2 e
            (List.mem_of_mem_tail hmem))⟩
          obtain ⟨j, hj⟩ := hneg hm
          refine ⟨j + 1, ?_⟩
          cases endtime with
          | nil => simp at hj
          | cons e es => simpa using hj
        · rw [if_neg he] at h
          have e := congrArg Prod.snd (Option.some.inj h)
          simp only at e
          subst e
          have he2 : endtime.headD 0 = 1 := not_not.mp he
          refine ⟨Or.inr rfl, fun _ => ⟨0, ?_⟩, fun hall => ?_⟩
          · cases endtime with
            | nil => simp at he2
            | cons e es => simpa using he2
          · cases endtime with
            | nil => simp at he2
            | cons e es =>
              simp only [List.headD_cons] at he2
              exact absurd he2 (hall e (by simp))

/-- Whatever the memory, a result of the loop of `rcx_hash_list_retry_remove` is
0 or -1, and -1 only when a call of `benchmark_endtime()` returned 1. -/
theorem rcx_hash_list_retry_remove_loop_safe (cpu p_list : Nat) (val : Int) :
    ∀ (fuel : Nat) (endtime : List Int) (s s1 : State) (r : Int),
      rcx_hash_list_retry_remove_loop fuel cpu endtime s p_list val = some (s1, r) →
      (r = 0 ∨ r = -1) ∧ (r = -1 → ∃ j : Nat, endtime[j]? = some 1) ∧
        ((∀ e ∈ endtime, e ≠ 1) → r = 0) := by
  intro fuel
  induction fuel with
  | zero => intro endtime s s1 r h; simp [rcx_hash_list_retry_remove_loop] at h
  | succ fuel ih =>
    intro endtime s s1 r h
    rw [rcx_hash_list_retry_remove_loop] at h
    cases hrun : rcx_list_remove cpu s p_list val with
    | none => simp [hrun] at h
    | some q =>
      obtain ⟨s2, res⟩ := q
      simp only [hrun, Option.bind_eq_bind, Option.some_bind, Option.pure_def] at h
      by_cases h2 : res ≠ 2
      · rw [if_pos h2] at h
        have e := congrArg Prod.snd (Option.some.inj h)
        simp only at e
        subst e
        exact ⟨Or.inl rfl, fun h => absurd h (by decide), fun _ => rfl⟩
      · rw [if_neg h2] at h
        by_cases he : endtime.headD 0 ≠ 1
        · rw [if_pos he] at h
          obtain ⟨hr, hneg, hall⟩ := ih endtime.tail s2 s1 r h
          refine ⟨hr, fun hm => ?_, fun hall2 => hall (fun e hmem => hall2 e
            (List.mem_of_mem_tail hmem))⟩
          obtain ⟨j, hj⟩ := hneg hm
          refine ⟨j + 1, ?_⟩
          cases endtime with
          | nil => simp at hj
          | cons e es => simpa using hj
        · rw [if_neg he] at h
          have e := congrArg Prod.snd (Option.some.inj h)
          simp only at e
          subst e
          have he2 : endtime.headD 0 = 1 := not_not.mp he
          refine ⟨Or.inr rfl, fun _ => ⟨0, ?_⟩, fun hall => ?_⟩
          · cases endtime with
            | nil => simp at he2
            | cons e es => simpa using he2
          · cases endtime with
            | nil => simp at he2
            | cons e es =>
              simp only [List.headD_cons] at he2
              exact absurd he2 (hall e (by simp))

theorem to_ulong_of_nonneg (d : Int) (h0 : 0 ≤ d) (h1 : d ≤ 2147483647) :
    (to_ulong d : Int) = d := by
  unfold to_ulong
  rw [Int.emod_eq_of_lt h0 (by omega)]
  exact Int.toNat_of_nonneg h0

theorem benchmark_endtime_one (start : timespec) (duration : Int) (now : timespec)
    (h0 : 0 ≤ duration) (h1 : duration ≤ 2147483647) :
    benchmark_endtime start duration now = 1 ↔
      duration ≤ (endtime_duration_ms start now : Int) := by
  unfold benchmark_endtime
  have e := to_ulong_of_nonneg duration h0 h1
  by_cases h : endtime_duration_ms start now ≥ to_ulong duration
  · rw [if_pos h]
    simp only [true_iff]
    omega
  · rw [if_neg h]
    simp only [zero_ne_one, false_iff]
    omega

theorem deadline_reached (start : timespec) (duration : Int) (clock : List timespec)
    (h0 : 0 ≤ duration) (h1 : duration ≤ 2147483647) (j : Nat)
    (h : (clock.map (benchmark_endtime start duration))[j]? = some 1) :
    ∃ now, clock[j]? = some now ∧ duration ≤ (endtime_duration_ms start now : Int) := by
  rw [List.getElem?_map] at h
  cases hc : clock[j]? with
  | none => simp [hc] at h
  | some now =>
    rw [hc] at h
    exact ⟨now, rfl, (benchmark_endtime_one start duration now h0 h1).mp (Option.some.inj h)⟩

theorem deadline_not_reached (start : timespec) (duration : Int) (clock : List timespec)
    (h0 : 0 ≤ duration) (h1 : duration ≤ 2147483647)
    (h : ∀ now ∈ clock, (endtime_duration_ms start now : Int) < duration) :
    ∀ e ∈ clock.map (benchmark_endtime start duration), e ≠ 1 := by
  intro e hmem he
  obtain ⟨now, hn, rfl⟩ := List.mem_map.mp hmem
  have := (benchmark_endtime_one start duration now h0 h1).mp he
  have := h now hn
  omega

theorem retry_context (g : hash_list_t) (s : State) (p : Nat) (k : Int)
    (hq : hash_list_quiescent g s) (hp : p ∈ g.buckets) (hmax : k < LIST_VAL_MAX) :
    ∃ p_prev b v prev nb, list_find s p k = some (p_prev, b, v) ∧
      s.nodes[p_prev]? = some prev ∧ s.nodes[b]? = some nb ∧ p_prev ≠ b ∧
      prev.p_next = some b ∧ prev.removed = 0 ∧ nb.removed = 0 ∧
      (v = k → ∃ p_n nn, nb.p_next = some p_n ∧ s.nodes[p_n]? = some nn ∧ nn.removed = 0) := by
  obtain ⟨hwf, hquiet⟩ := hq
  have hbw := hwf.2.1 p hp
  obtain ⟨front, p_prev, b, post, hbn, _, _, _, hfind⟩ :=
    list_find_spec s p k hbw.1 (le_of_lt hmax)
  obtain ⟨l, prev, nb, hl, _, hprev, hpn, hnb, _, _⟩ := chain_pieces s p front p_prev b post hbn
  have hnd := bucket_nodes_nodup _ _ _ hbw.1 hbn
  have hne : p_prev ≠ b := by
    intro e
    subst e
    have := List.nodup_append.mp hnd
    simp at this
  have hqa := hquiet p hp
  unfold bucket_quiet at hqa
  rw [hbn] at hqa
  have hq1 := quiet_at_node s p_prev prev hprev (hqa p_prev (by simp))
  have hq2 := quiet_at_node s b nb hnb (hqa b (by simp))
  refine ⟨p_prev, b, _, prev, nb, hfind, hprev, hnb, hne, hpn, hq1.1, hq2.1, ?_⟩
  intro hv
  obtain ⟨prev2, nb2, p_n, nn, rest, hpost, _, hnb2, hnn, _, hnp, _, _, _⟩ :=
    remove_context s p front p_prev b post hbw.1 hbn (by rw [hv]; exact hmax)
  rw [hnb] at hnb2; cases hnb2
  have hq3 := quiet_at_node s p_n nn hnn (hqa p_n (by rw [hpost]; simp))
  exact ⟨p_n, nn, hnp, hnn, hq3.1⟩

/-! ## C16: the summary of the abort counters -/

theorem pr_abort_add_counts_spec (cnt : rtm_abort_cnt) :
    ∀ (todo i : Nat) (sum : List Nat), i + todo ≤ sum.length → i + todo ≤ cnt.counts.length →
      ∃ sum1, pr_abort_add_counts cnt todo i sum = some sum1 ∧ sum1.length = sum.length ∧
        ∀ j : Nat, sum1.getD j 0 =
          if i ≤ j ∧ j < i + todo then wrap_ulong (sum.getD j 0 + cnt.counts.getD j 0)
          else sum.getD j 0 := by
  intro todo
  induction todo with
  | zero =>
    intro i sum _ _
    refine ⟨sum, rfl, rfl, fun j => ?_⟩
    rw [if_neg (by omega)]
  | succ todo ih =>
    intro i sum h1 h2
    have hi1 : i < sum.length := by omega
    have hi2 : i < cnt.counts.length := by omega
    rw [pr_abort_add_counts]
    simp only [List.getElem?_eq_getElem hi1, List.getElem?_eq_getElem hi2]
    obtain ⟨sum1, hrun, hlen, hget⟩ := ih (i + 1) (sum.set i (wrap_ulong (sum[i] + cnt.counts[i])))
      (by rw [List.length_set]; omega) (by omega)
    refine ⟨sum1, hrun, by rw [hlen, List.length_set], fun j => ?_⟩
    rw [hget j]
    by_cases hj : j = i
    · subst hj
      rw [if_neg (by omega), if_pos (by omega)]
      simp only [List.getD_eq_getElem?_getD, List.getElem?_set_self hi1,
        List.getElem?_eq_getElem hi1, List.getElem?_eq_getElem hi2, Option.getD_some]
    · have e : (sum.set i (wrap_ulong (sum[i] + cnt.counts[i]))).getD j 0 = sum.getD j 0 := by
        simp only [List.getD_eq_getElem?_getD]
        rw [List.getElem?_set_ne (fun h => hj h.symm)]
      rw [e]
      by_cases hr : i + 1 ≤ j ∧ j < i + 1 + todo
      · rw [if_pos hr, if_pos (by omega)]
      · rw [if_neg hr, if_neg (by omega)]

theorem sum_nr_aborts_cons (abort_cnt : List rtm_abort_cnt) (cpu : Nat) (cpus : List Nat)
    (cnt : rtm_abort_cnt) (h : abort_cnt[cpu]? = some cnt) :
    sum_nr_aborts abort_cnt (cpu :: cpus) = cnt.nr_aborts + sum_nr_aborts abort_cnt cpus := by
  simp [sum_nr_aborts, h]

theorem sum_counts_cons (abort_cnt : List rtm_abort_cnt) (cpu : Nat) (cpus : List Nat)
    (cnt : rtm_abort_cnt) (i : Nat) (h : abort_cnt[cpu]? = some cnt) :
    sum_counts abort_cnt (cpu :: cpus) i =
      cnt.counts.getD i 0 + sum_counts abort_cnt cpus i := by
  simp [sum_counts, h]

theorem pr_abort_collect_spec (abort_cnt : List rtm_abort_cnt) :
    ∀ (cpus : List Nat) (tot : Nat) (sum : List Nat), sum.length = NR_ABORT_REASONS →
      (∀ c ∈ cpus, ∃ cnt, abort_cnt[c]? = some cnt ∧ cnt.counts.length = NR_ABORT_REASONS) →
      ∃ tot1 sum1, pr_abort_collect abort_cnt cpus tot sum = some (tot1, sum1) ∧
        sum1.length = NR_ABORT_REASONS ∧
        wrap_ulong tot1 = wrap_ulong (tot + sum_nr_aborts abort_cnt cpus) ∧
        (wrap_ulong tot = tot → wrap_ulong tot1 = tot1) ∧
        ∀ j : Nat, j < NR_ABORT_REASONS →
          wrap_ulong (sum1.getD j 0) = wrap_ulong (sum.getD j 0 + sum_counts abort_cnt cpus j) ∧
          (wrap_ulong (sum.getD j 0) = sum.getD j 0 →
            wrap_ulong (sum1.getD j 0) = sum1.getD j 0) := by
  intro cpus
  induction cpus with
  | nil =>
    intro tot sum hlen _
    exact ⟨tot, sum, rfl, hlen, by simp [sum_nr_aborts], fun h => h,
      fun j _ => ⟨by simp [sum_counts], fun h => h⟩⟩
  | cons cpu cpus ih =>
    intro tot sum hlen hall
    obtain ⟨cnt, hc, hcl⟩ := hall cpu (List.mem_cons_self _ _)
    obtain ⟨sum0, hadd, hlen0, hget0⟩ := pr_abort_add_counts_spec cnt NR_ABORT_REASONS 0 sum
      (by omega) (by omega)
    obtain ⟨tot1, sum1, hrun, hlen1, htot, hwt, hsum⟩ := ih
      (wrap_ulong (tot + cnt.nr_aborts)) sum0 (by rw [hlen0, hlen])
      (fun c hcm => hall c (List.mem_cons_of_mem _ hcm))
    rw [pr_abort_collect]
    simp only [hc, hadd]
    refine ⟨tot1, sum1, hrun, hlen1, ?_, fun _ => hwt (by unfold wrap_ulong; omega), ?_⟩
    · rw [htot, sum_nr_aborts_cons _ _ _ _ hc]
      unfold wrap_ulong
      omega
    · intro j hj
      obtain ⟨h1, h2⟩ := hsum j hj
      have e := hget0 j
      rw [if_pos ⟨Nat.zero_le _, by omega⟩] at e
      refine ⟨?_, fun _ => h2 (by rw [e]; unfold wrap_ulong; omega)⟩
      rw [h1, e, sum_counts_cons _ _ _ _ _ hc]
      unfold wrap_ulong
      omega

theorem result_stat_nonzero_fields (stat : result_stat) :
    (result_stat_nonzero stat).duration_ms = (if stat.duration_ms = 0 then 1 else stat.duration_ms) ∧
    (result_stat_nonzero stat).nr_issued_ops =
      (if stat.nr_issued_ops = 0 then 1 else stat.nr_issued_ops) ∧
    (result_stat_nonzero stat).nr_succ_ops =
      (if stat.nr_succ_ops = 0 then 1 else stat.nr_succ_ops) ∧
    (result_stat_nonzero stat).nr_upd = (if stat.nr_upd = 0 then 1 else stat.nr_upd) := by
  unfold result_stat_nonzero
  refine ⟨?_, ?_, ?_, ?_⟩ <;> simp only [] <;> split_ifs <;> rfl

/-- C16: when every online CPU has its counters (nine reason counters each),
`pr_abort_stat` returns; `nr_total_aborts` is the sum over the online CPUs of
`nr_aborts` and each of the nine reason totals is the sum of that reason's
per-CPU counters (sums of `unsigned long`, so modulo `2^64`, and the plain sums
when these are below `2^64`); every zero field of `*stat` is replaced by 1, so
no denominator is zero; and the four ratios are `nr_total_aborts * 1000` (an
`unsigned long` product) divided by `duration_ms`, `nr_issued_ops`,
`nr_succ_ops` and `nr_upd`. -/
theorem pr_abort_stat_report (s : State) (online : List Nat) (stat : result_stat)
    (hcpu : ∀ c ∈ online, ∃ cnt, s.abort_cnt[c]? = some cnt ∧
      cnt.counts.length = NR_ABORT_REASONS) :
    ∃ rep st, pr_abort_stat s online stat = some (rep, st) ∧
      rep.nr_total_aborts = wrap_ulong (sum_nr_aborts s.abort_cnt online) ∧
      rep.reasons.length = NR_ABORT_REASONS ∧
      (∀ i : Nat, i < NR_ABORT_REASONS →
        rep.reasons[i]? = some (wrap_ulong (sum_counts s.abort_cnt online i))) ∧
      st.duration_ms = (if stat.duration_ms = 0 then 1 else stat.duration_ms) ∧
      st.nr_issued_ops = (if stat.nr_issued_ops = 0 then 1 else stat.nr_issued_ops) ∧
      st.nr_succ_ops = (if stat.nr_succ_ops = 0 then 1 else stat.nr_succ_ops) ∧
      st.nr_upd = (if stat.nr_upd = 0 then 1 else stat.nr_upd) ∧
      st.duration_ms ≠ 0 ∧ st.nr_issued_ops ≠ 0 ∧ st.nr_succ_ops ≠ 0 ∧ st.nr_upd ≠ 0 ∧
      rep.aborts_per_sec = wrap_ulong (rep.nr_total_aborts * 1000) / st.duration_ms ∧
      rep.aborts_per_1000issued = wrap_ulong (rep.nr_total_aborts * 1000) / st.nr_issued_ops ∧
      rep.aborts_per_1000succ = wrap_ulong (rep.nr_total_aborts * 1000) / st.nr_succ_ops ∧
      rep.aborts_per_1000upd = wrap_ulong (rep.nr_total_aborts * 1000) / st.nr_upd ∧
      (sum_nr_aborts s.abort_cnt online * 1000 < 18446744073709551616 →
        rep.nr_total_aborts = sum_nr_aborts s.abort_cnt online ∧
        rep.aborts_per_sec = sum_nr_aborts s.abort_cnt online * 1000 / st.duration_ms ∧
        rep.aborts_per_1000issued =
          sum_nr_aborts s.abort_cnt online * 1000 / st.nr_issued_ops ∧
        rep.aborts_per_1000succ = sum_nr_aborts s.abort_cnt online * 1000 / st.nr_succ_ops ∧
        rep.aborts_per_1000upd = sum_nr_aborts s.abort_cnt online * 1000 / st.nr_upd) ∧
      (∀ i : Nat, i < NR_ABORT_REASONS →
        sum_counts s.abort_cnt online i < 18446744073709551616 →
        rep.reasons[i]? = some (sum_counts s.abort_cnt online i)) := by
  obtain ⟨tot1, sum1, hrun, hlen1, htot, hwt, hsum⟩ := pr_abort_collect_spec s.abort_cnt online 0
    (List.replicate NR_ABORT_REASONS 0) (List.length_replicate _ _) hcpu
  have htot1 : tot1 = wrap_ulong (sum_nr_aborts s.abort_cnt online) := by
    rw [← hwt rfl, htot, Nat.zero_add]
  have hzero : ∀ j : Nat, (List.replicate NR_ABORT_REASONS 0).getD j 0 = 0 := by
    intro j
    simp only [List.getD_eq_getElem?_getD, List.getElem?_replicate]
    split_ifs <;> rfl
  have hreason : ∀ i : Nat, i < NR_ABORT_REASONS →
      sum1[i]? = some (wrap_ulong (sum_counts s.abort_cnt online i)) := by
    intro i hi
    obtain ⟨h1, h2⟩ := hsum i hi
    rw [hzero i, Nat.zero_add] at h1
    have h3 := h2 (by rw [hzero i]; rfl)
    rw [h3] at h1
    rw [← h1, List.getD_eq_getElem?_getD, List.getElem?_eq_getElem (by omega)]
    rfl
  obtain ⟨f1, f2, f3, f4⟩ := result_stat_nonzero_fields stat
  refine ⟨_, _, by unfold pr_abort_stat; rw [hrun], htot1, hlen1, hreason, f1, f2, f3, f4,
    ?_, ?_, ?_, ?_, rfl, rfl, rfl, rfl, ?_, ?_⟩
  · rw [f1]; split_ifs <;> omega
  · rw [f2]; split_ifs <;> omega
  · rw [f3]; split_ifs <;> omega
  · rw [f4]; split_ifs <;> omega
  · intro hsmall
    have e1 : tot1 = sum_nr_aborts s.abort_cnt online := by
      rw [htot1]; unfold wrap_ulong; omega
    have e2 : wrap_ulong (tot1 * 1000) = sum_nr_aborts s.abort_cnt online * 1000 := by
      rw [e1]; unfold wrap_ulong; omega
    exact ⟨e1, by rw [← e2], by rw [← e2], by rw [← e2], by rw [← e2]⟩
  · intro i hi hsmall
    rw [hreason i hi]
    unfold wrap_ulong
    rw [Nat.mod_eq_of_lt hsmall]

theorem pr_abort_stat_report_witness :
    (∀ c ∈ [0, 1], ∃ cnt, mem_two_cpus.abort_cnt[c]? = some cnt ∧
      cnt.counts.length = NR_ABORT_REASONS) ∧
    (∃ rep st, pr_abort_stat mem_two_cpus [0, 1]
        { duration_ms := 0, nr_issued_ops := 40, nr_succ_ops := 20, nr_upd := 0 } =
        some (rep, st) ∧ rep.nr_total_aborts = wrap_ulong (sum_nr_aborts mem_two_cpus.abort_cnt
          [0, 1])) ∧
    pr_abort_stat mem_two_cpus [0, 1]
        { duration_ms := 0, nr_issued_ops := 40, nr_succ_ops := 20, nr_upd := 0 } =
      some ({ aborts_per_sec := 5000, aborts_per_1000issued := 125, aborts_per_1000succ := 250,
              aborts_per_1000upd := 5000, nr_total_aborts := 5,
              reasons := [1, 3, 3, 1, 0, 0, 0, 1, 0] },
            { duration_ms := 1, nr_issued_ops := 40, nr_succ_ops := 20, nr_upd := 1 }) :=
  ⟨by decide,
    (pr_abort_stat_report mem_two_cpus [0, 1]
      { duration_ms := 0, nr_issued_ops := 40, nr_succ_ops := 20, nr_upd := 0 }
      (by decide)).imp (fun _ h => h.imp (fun _ h => ⟨h.1, h.2.1⟩)),
    by decide⟩
/-! ## C17: the counters of the worker loop -/

theorem to_uint_10000 : to_uint 10000 = 10000 := by
  unfold to_uint
  rfl

theorem wrap_int_small (n : Nat) (h : n < 2147483648) : wrap_int (n : Int) = n := by
  unfold wrap_int
  omega

theorem rand_range_10000 (x : Nat) :
    ∃ op, rand_range 10000 x = some op ∧ 0 ≤ op ∧ op < 10000 := by
  refine ⟨((x % 4294967296 % 10000 : Nat) : Int), ?_, by omega, by omega⟩
  unfold rand_range
  rw [to_uint_10000, if_neg (by norm_num), wrap_int_small _ (by omega)]

theorem sync_test_iteration_cases (bench : benchmark_t) (g : hash_list_t) (update range : Int)
    (prandom : Nat → Nat) (s s1 : State) (t t1 : benchmark_thread)
    (h : sync_test_iteration bench g update range prandom s t = some (s1, t1)) :
    ∃ op, rand_range 10000 (prandom t.rnd) = some op ∧ 0 ≤ op ∧ op < 10000 ∧
      ((update ≤ op ∧
          t1 = { t with rnd := t.rnd + 2, nb_lookup := wrap_ulong (t.nb_lookup + 1) }) ∨
       (op < update ∧
         (t1 = { t with rnd := t.rnd + 3, nb_insert := wrap_ulong (t.nb_insert + 1) } ∨
          t1 = { t with rnd := t.rnd + 3, nb_delete := wrap_ulong (t.nb_delete + 1) } ∨
          t1 = { t with rnd := t.rnd + 3, nb_ins_abort := wrap_ulong (t.nb_ins_abort + 1) } ∨
          t1 = { t with rnd := t.rnd + 3, nb_del_abort := wrap_ulong (t.nb_del_abort + 1) }))) := by
  obtain ⟨op, hop, h0, h1⟩ := rand_range_10000 (prandom t.rnd)
  refine ⟨op, hop, h0, h1, ?_⟩
  unfold sync_test_iteration at h
  simp only [hop, Option.bind_eq_bind, Option.some_bind] at h
  cases hv : rand_range range (prandom (t.rnd + 1)) with
  | none => simp [hv] at h
  | some val =>
    simp only [hv, Option.some_bind] at h
    by_cases hu : op < update
    · right
      refine ⟨hu, ?_⟩
      rw [if_pos hu] at h
      cases h2 : rand_range 2 (prandom (t.rnd + 2)) with
      | none => simp [h2] at h
      | some op2 =>
        simp only [h2, Option.some_bind] at h
        by_cases hp : op2 % 2 = 0
        · rw [if_pos hp] at h
          cases hi : bench.insert g s val with
          | none => simp [hi] at h
          | some q =>
            obtain ⟨s2, r⟩ := q
            simp only [hi, Option.some_bind, Option.pure_def] at h
            by_cases hr : r = 0
            · rw [if_pos hr] at h
              exact Or.inl (congrArg Prod.snd (Option.some.inj h)).symm
            · rw [if_neg hr] at h
              exact Or.inr (Or.inr (Or.inl (congrArg Prod.snd (Option.some.inj h)).symm))
        · rw [if_neg hp] at h
          cases hi : bench.delete g s val with
          | none => simp [hi] at h
          | some q =>
            obtain ⟨s2, r⟩ := q
            simp only [hi, Option.some_bind, Option.pure_def] at h
            by_cases hr : r = 0
            · rw [if_pos hr] at h
              exact Or.inr (Or.inl (congrArg Prod.snd (Option.some.inj h)).symm)
            · rw [if_neg hr] at h
              exact Or.inr (Or.inr (Or.inr (congrArg Prod.snd (Option.some.inj h)).symm))
    · left
      refine ⟨by omega, ?_⟩
      rw [if_neg hu] at h
      cases hi : bench.lookup g s val with
      | none => simp [hi] at h
      | some q =>
        obtain ⟨s2, r⟩ := q
        simp only [hi, Option.some_bind, Option.pure_def] at h
        exact (congrArg Prod.snd (Option.some.inj h)).symm

theorem sync_test_iteration_step (bench : benchmark_t) (g : hash_list_t) (update range : Int)
    (prandom : Nat → Nat) (s s1 : State) (t t1 : benchmark_thread) (m : Nat)
    (h : sync_test_iteration bench g update range prandom s t = some (s1, t1))
    (hb : ∀ c ∈ ops_counters t, c + (m + 1) < 18446744073709551616) :
    (∀ c ∈ ops_counters t1, c + m < 18446744073709551616) ∧
    ∃ op, rand_range 10000 (prandom t.rnd) = some op ∧
      ((update ≤ op ∧ t1.rnd = t.rnd + 2 ∧ t1.nb_lookup = t.nb_lookup + 1 ∧
          t1.nb_insert + t1.nb_delete + t1.nb_ins_abort + t1.nb_del_abort =
            t.nb_insert + t.nb_delete + t.nb_ins_abort + t.nb_del_abort) ∨
       (op < update ∧ t1.rnd = t.rnd + 3 ∧ t1.nb_lookup = t.nb_lookup ∧
          t1.nb_insert + t1.nb_delete + t1.nb_ins_abort + t1.nb_del_abort =
            t.nb_insert + t.nb_delete + t.nb_ins_abort + t.nb_del_abort + 1)) := by
  have b1 := hb t.nb_lookup (by simp [ops_counters])
  have b2 := hb t.nb_insert (by simp [ops_counters])
  have b3 := hb t.nb_delete (by simp [ops_counters])
  have b4 := hb t.nb_ins_abort (by simp [ops_counters])
  have b5 := hb t.nb_del_abort (by simp [ops_counters])
  have w1 := wrap_ulong_succ t.nb_lookup (by omega)
  have w2 := wrap_ulong_succ t.nb_insert (by omega)
  have w3 := wrap_ulong_succ t.nb_delete (by omega)
  have w4 := wrap_ulong_succ t.nb_ins_abort (by omega)
  have w5 := wrap_ulong_succ t.nb_del_abort (by omega)
  obtain ⟨op, hop, _, _, hc⟩ := sync_test_iteration_cases bench g update range prandom s s1 t t1 h
  rcases hc with ⟨hu, rfl⟩ | ⟨hu, rfl | rfl | rfl | rfl⟩
  · refine ⟨?_, op, hop, Or.inl ⟨hu, rfl, w1, rfl⟩⟩
    intro c hc
    simp only [ops_counters, List.mem_cons, List.mem_singleton, List.not_mem_nil, or_false] at hc
    rcases hc with rfl | rfl | rfl | rfl | rfl <;> omega
  · refine ⟨?_, op, hop, Or.inr ⟨hu, rfl, rfl, ?_⟩⟩
    · intro c hc
      simp only [ops_counters, List.mem_cons, List.mem_singleton, List.not_mem_nil, or_false] at hc
      rcases hc with rfl | rfl | rfl | rfl | rfl <;> omega
    · show wrap_ulong (t.nb_insert + 1) + t.nb_delete + t.nb_ins_abort + t.nb_del_abort = _
      omega
  · refine ⟨?_, op, hop, Or.inr ⟨hu, rfl, rfl, ?_⟩⟩
    · intro c hc
      simp only [ops_counters, List.mem_cons, List.mem_singleton, List.not_mem_nil, or_false] at hc
      rcases hc with rfl | rfl | rfl | rfl | rfl <;> omega
    · show t.nb_insert + wrap_ulong (t.nb_delete + 1) + t.nb_ins_abort + t.nb_del_abort = _
      omega
  · refine ⟨?_, op, hop, Or.inr ⟨hu, rfl, rfl, ?_⟩⟩
    · intro c hc
      simp only [ops_counters, List.mem_cons, List.mem_singleton, List.not_mem_nil, or_false] at hc
      rcases hc with rfl | rfl | rfl | rfl | rfl <;> omega
    · show t.nb_insert + t.nb_delete + wrap_ulong (t.nb_ins_abort + 1) + t.nb_del_abort = _
      omega
  · refine ⟨?_, op, hop, Or.inr ⟨hu, rfl, rfl, ?_⟩⟩
    · intro c hc
      simp only [ops_counters, List.mem_cons, List.mem_singleton, List.not_mem_nil, or_false] at hc
      rcases hc with rfl | rfl | rfl | rfl | rfl <;> omega
    · show t.nb_insert + t.nb_delete + t.nb_ins_abort + wrap_ulong (t.nb_del_abort + 1) = _
      omega

/-- The worker loop from counters that cannot wrap during the run: the four
update counters have grown by the number of updates issued, the lookup counter
by the number of the other iterations. -/
theorem sync_test_thread_counts (bench : benchmark_t) (g : hash_list_t)
    (update range duration : Int) (prandom : Nat → Nat) (start : timespec) :
    ∀ (clock : List timespec) (s s1 : State) (t t1 : benchmark_thread),
      sync_test_thread bench g update range duration prandom start clock s t = some (s1, t1) →
      (∀ c ∈ ops_counters t, c + clock.length < 18446744073709551616) →
      ∃ n : Nat, 1 ≤ n ∧ n ≤ clock.length ∧
        t1.nb_insert + t1.nb_delete + t1.nb_ins_abort + t1.nb_del_abort =
          t.nb_insert + t.nb_delete + t.nb_ins_abort + t.nb_del_abort +
            updates_issued update prandom n t.rnd ∧
        t1.nb_lookup + updates_issued update prandom n t.rnd = t.nb_lookup + n := by
  intro clock
  induction clock with
  | nil => intro s s1 t t1 h; simp [sync_test_thread] at h
  | cons now clock ih =>
    intro s s1 t t1 h hb
    rw [sync_test_thread] at h
    cases hit : sync_test_iteration bench g update range prandom s t with
    | none => simp [hit] at h
    | some q =>
      obtain ⟨s2, t2⟩ := q
      simp only [hit] at h
      obtain ⟨hb2, op, hop, hc⟩ := sync_test_iteration_step bench g update range prandom s s2 t t2
        clock.length hit hb
      by_cases hd : thread_duration_ms start now < to_ulong duration
      · rw [if_pos hd] at h
        obtain ⟨n, hn1, hn2, hsum, hlook⟩ := ih s2 s1 t2 t1 h hb2
        refine ⟨n + 1, by omega, by simp only [List.length_cons]; omega, ?_, ?_⟩
        · rw [updates_issued, hop]
          rcases hc with ⟨hu, hr, _, hs⟩ | ⟨hu, hr, _, hs⟩
          · simp only [if_neg (not_lt.mpr hu)]
            rw [hsum, hs, hr]
          · simp only [if_pos hu]
            rw [hsum, hs, hr]
            omega
        · rw [updates_issued, hop]
          rcases hc with ⟨hu, hr, hl, _⟩ | ⟨hu, hr, hl, _⟩
          · simp only [if_neg (not_lt.mpr hu)]
            rw [← hr]
            omega
          · simp only [if_pos hu]
            rw [← hr]
            omega
      · rw [if_neg hd] at h
        have e := congrArg Prod.snd (Option.some.inj h)
        simp only at e
        subst e
        refine ⟨1, le_refl _, by simp only [List.length_cons]; omega, ?_, ?_⟩
        · rw [updates_issued, hop]
          rcases hc with ⟨hu, _, _, hs⟩ | ⟨hu, _, _, hs⟩
          · simp only [if_neg (not_lt.mpr hu), updates_issued]
            rw [hs]
            rfl
          · simp only [if_pos hu, updates_issued]
            rw [hs]
        · rw [updates_issued, hop]
          rcases hc with ⟨hu, _, hl, _⟩ | ⟨hu, _, hl, _⟩
          · simp only [if_neg (not_lt.mpr hu), updates_issued]
            omega
          · simp only [if_pos hu, updates_issued]
            omega

theorem sync_test_thread_lookup_only (bench : benchmark_t) (g : hash_list_t)
    (update range duration : Int) (prandom : Nat → Nat) (start : timespec) (hu : update ≤ 0) :
    ∀ (clock : List timespec) (s s1 : State) (t t1 : benchmark_thread),
      sync_test_thread bench g update range duration prandom start clock s t = some (s1, t1) →
      t1.nb_insert = t.nb_insert ∧ t1.nb_delete = t.nb_delete ∧
        t1.nb_ins_abort = t.nb_ins_abort ∧ t1.nb_del_abort = t.nb_del_abort := by
  intro clock
  induction clock with
  | nil => intro s s1 t t1 h; simp [sync_test_thread] at h
  | cons now clock ih =>
    intro s s1 t t1 h
    rw [sync_test_thread] at h
    cases hit : sync_test_iteration bench g update range prandom s t with
    | none => simp [hit] at h
    | some q =>
      obtain ⟨s2, t2⟩ := q
      simp only [hit] at h
      obtain ⟨op, _, h0, _, hc⟩ :=
        sync_test_iteration_cases bench g update range prandom s s2 t t2 hit
      have e : t2 = { t with rnd := t.rnd + 2, nb_lookup := wrap_ulong (t.nb_lookup + 1) } := by
        rcases hc with ⟨_, e⟩ | ⟨hlt, _⟩
        · exact e
        · omega
      by_cases hd : thread_duration_ms start now < to_ulong duration
      · rw [if_pos hd] at h
        have := ih s2 s1 t2 t1 h
        rw [e] at this
        exact this
      · rw [if_neg hd] at h
        have e2 := congrArg Prod.snd (Option.some.inj h)
        simp only at e2
        rw [← e2, e]
        exact ⟨rfl, rfl, rfl, rfl⟩

theorem sync_test_thread_update_only (bench : benchmark_t) (g : hash_list_t)
    (update range duration : Int) (prandom : Nat → Nat) (start : timespec)
    (hu : 10000 ≤ update) :
    ∀ (clock : List timespec) (s s1 : State) (t t1 : benchmark_thread),
      sync_test_thread bench g update range duration prandom start clock s t = some (s1, t1) →
      t1.nb_lookup = t.nb_lookup := by
  intro clock
  induction clock with
  | nil => intro s s1 t t1 h; simp [sync_test_thread] at h
  | cons now clock ih =>
    intro s s1 t t1 h
    rw [sync_test_thread] at h
    cases hit : sync_test_iteration bench g update range prandom s t with
    | none => simp [hit] at h
    | some q =>
      obtain ⟨s2, t2⟩ := q
      simp only [hit] at h
      obtain ⟨op, _, _, h1, hc⟩ :=
        sync_test_iteration_cases bench g update range prandom s s2 t t2 hit
      have e : t2.nb_lookup = t.nb_lookup := by
        rcases hc with ⟨hge, _⟩ | ⟨_, e | e | e | e⟩
        · omega
        all_goals rw [e]
      by_cases hd : thread_duration_ms start now < to_ulong duration
      · rw [if_pos hd] at h
        rw [ih s2 s1 t2 t1 h, e]
      · rw [if_neg hd] at h
        have e2 := congrArg Prod.snd (Option.some.inj h)
        simp only at e2
        rw [← e2, e]

theorem rand_range_some (n : Int) (x : Nat) (h : to_uint n ≠ 0) :
    ∃ v, rand_range n x = some v := by
  unfold rand_range
  rw [if_neg h]
  exact ⟨_, rfl⟩

theorem sync_test_iteration_returns (bench : benchmark_t) (g : hash_list_t)
    (update range : Int) (prandom : Nat → Nat) (s : State) (t : benchmark_thread)
    (hr : to_uint range ≠ 0)
    (hf : ∀ v, (bench.lookup g s v).isSome ∧ (bench.insert g s v).isSome ∧
      (bench.delete g s v).isSome) :
    (sync_test_iteration bench g update range prandom s t).isSome := by
  obtain ⟨op, hop, _, _⟩ := rand_range_10000 (prandom t.rnd)
  obtain ⟨val, hval⟩ := rand_range_some range (prandom (t.rnd + 1)) hr
  obtain ⟨op2, hop2⟩ := rand_range_some 2 (prandom (t.rnd + 2)) (by unfold to_uint; norm_num)
  obtain ⟨h1, h2, h3⟩ := hf val
  obtain ⟨q1, e1⟩ := Option.isSome_iff_exists.mp h1
  obtain ⟨q2, e2⟩ := Option.isSome_iff_exists.mp h2
  obtain ⟨q3, e3⟩ := Option.isSome_iff_exists.mp h3
  unfold sync_test_iteration
  simp only [hop, hval, hop2, e1, e2, e3, Option.bind_eq_bind, Option.some_bind, Option.pure_def]
  split_ifs <;> rfl

/-- C17: every iteration of the worker loop that returns changes exactly one of
the five counters `ops_counters` (lookups, inserts, deletes, insert aborts,
delete aborts), which becomes its value plus one (as an `unsigned long`, so
exactly one more below `ULONG_MAX`); the drawn `op` lies in `[0, 10000)` and
the counter is `nb_lookup` exactly when `op ≥ update`, so always with
`update ≤ 0` and never with `update ≥ 10000`.  The iteration returns when
`range` is not zero and the called operation returns.  Over a run of the loop
that starts with counters that cannot wrap during it, the four update counters
together grow by the number of updates issued and `nb_lookup` by the number of
the other iterations; with `update ≤ 0` no update counter changes, and with
`update ≥ 10000` the lookup counter does not change. -/
theorem worker_counters (bench : benchmark_t) (g : hash_list_t) (update range duration : Int)
    (prandom : Nat → Nat) (start : timespec) (clock : List timespec) (s : State)
    (t t1 : benchmark_thread)
    (hrun : (sync_test_thread bench g update range duration prandom start clock s t).map
      Prod.snd = some t1)
    (hb : ∀ c ∈ ops_counters t, c + clock.length < 18446744073709551616) :
    (∀ (s0 s2 : State) (t0 t2 : benchmark_thread),
      sync_test_iteration bench g update range prandom s0 t0 = some (s2, t2) →
      ∃ (op : Int) (i : Nat), rand_range 10000 (prandom t0.rnd) = some op ∧ 0 ≤ op ∧
        op < 10000 ∧ i < 5 ∧
        ops_counters t2 =
          (ops_counters t0).set i (wrap_ulong ((ops_counters t0).getD i 0 + 1)) ∧
        ((ops_counters t0).getD i 0 < 18446744073709551615 →
          (ops_counters t2).getD i 0 = (ops_counters t0).getD i 0 + 1) ∧
        (i = 0 ↔ update ≤ op) ∧ (update ≤ 0 → i = 0) ∧ (10000 ≤ update → i ≠ 0)) ∧
    (∀ (s0 : State) (t0 : benchmark_thread), to_uint range ≠ 0 →
      (∀ v, (bench.lookup g s0 v).isSome ∧ (bench.insert g s0 v).isSome ∧
        (bench.delete g s0 v).isSome) →
      (sync_test_iteration bench g update range prandom s0 t0).isSome) ∧
    (∃ n : Nat, 1 ≤ n ∧ n ≤ clock.length ∧
      t1.nb_insert + t1.nb_delete + t1.nb_ins_abort + t1.nb_del_abort =
        t.nb_insert + t.nb_delete + t.nb_ins_abort + t.nb_del_abort +
          updates_issued update prandom n t.rnd ∧
      t1.nb_lookup + updates_issued update prandom n t.rnd = t.nb_lookup + n) ∧
    (update ≤ 0 → t1.nb_insert = t.nb_insert ∧ t1.nb_delete = t.nb_delete ∧
      t1.nb_ins_abort = t.nb_ins_abort ∧ t1.nb_del_abort = t.nb_del_abort) ∧
    (10000 ≤ update → t1.nb_lookup = t.nb_lookup) := by
  have hrun2 : ∃ s1, sync_test_thread bench g update range duration prandom start clock s t =
      some (s1, t1) := by
    cases hr : sync_test_thread bench g update range duration prandom start clock s t with
    | none => simp [hr] at hrun
    | some q =>
      obtain ⟨s1, t2⟩ := q
      rw [hr] at hrun
      exact ⟨s1, by rw [← Option.some.inj hrun]⟩
  obtain ⟨s1, hrun3⟩ := hrun2
  refine ⟨?_, fun s0 t0 hr hf =>
      sync_test_iteration_returns bench g update range prandom s0 t0 hr hf,
    sync_test_thread_counts bench g update range duration prandom start clock s s1 t t1 hrun3 hb,
    fun hu => sync_test_thread_lookup_only bench g update range duration prandom start hu clock
      s s1 t t1 hrun3,
    fun hu => sync_test_thread_update_only bench g update range duration prandom start hu clock
      s s1 t t1 hrun3⟩
  intro s0 s2 t0 t2 hit
  obtain ⟨op, hop, h0, h1, hc⟩ :=
    sync_test_iteration_cases bench g update range prandom s0 s2 t0 t2 hit
  rcases hc with ⟨hu, rfl⟩ | ⟨hu, rfl | rfl | rfl | rfl⟩
  · exact ⟨op, 0, hop, h0, h1, by decide, rfl, fun h => wrap_ulong_succ _ h,
      ⟨fun _ => hu, fun _ => rfl⟩, fun _ => rfl, fun h => by omega⟩
  · exact ⟨op, 1, hop, h0, h1, by decide, rfl, fun h => wrap_ulong_succ _ h,
      ⟨fun h => absurd h (by decide), fun h => by omega⟩, fun h => by omega, fun _ => by decide⟩
  · exact ⟨op, 2, hop, h0, h1, by decide, rfl, fun h => wrap_ulong_succ _ h,
      ⟨fun h => absurd h (by decide), fun h => by omega⟩, fun h => by omega, fun _ => by decide⟩
  · exact ⟨op, 3, hop, h0, h1, by decide, rfl, fun h => wrap_ulong_succ _ h,
      ⟨fun h => absurd h (by decide), fun h => by omega⟩, fun h => by omega, fun _ => by decide⟩
  · exact ⟨op, 4, hop, h0, h1, by decide, rfl, fun h => wrap_ulong_succ _ h,
      ⟨fun h => absurd h (by decide), fun h => by omega⟩, fun h => by omega, fun _ => by decide⟩

theorem worker_counters_witness :
    (sync_test_thread benchmark_rcu hash_1 5000 8 100 (fun i => [7000, 5, 100, 3, 0].getD i 0)
        { tv_sec := 0, tv_nsec := 0 }
        [{ tv_sec := 0, tv_nsec := 0 }, { tv_sec := 1, tv_nsec := 0 }] mem_3_7
        thread_start).map Prod.snd =
      some { rnd := 5, nb_lookup := 1, nb_insert := 1, nb_delete := 0, nb_ins_abort := 0,
             nb_del_abort := 0 } ∧
    (∀ c ∈ ops_counters thread_start, c + 2 < 18446744073709551616) ∧
    (∃ n : Nat, 1 ≤ n ∧ n ≤ 2 ∧
      1 + 0 + 0 + 0 = 0 + 0 + 0 + 0 +
        updates_issued 5000 (fun i => [7000, 5, 100, 3, 0].getD i 0) n 0 ∧
      1 + updates_issued 5000 (fun i => [7000, 5, 100, 3, 0].getD i 0) n 0 = 0 + n) :=
  ⟨by decide, by decide,
    (worker_counters benchmark_rcu hash_1 5000 8 100 (fun i => [7000, 5, 100, 3, 0].getD i 0)
      { tv_sec := 0, tv_nsec := 0 }
      [{ tv_sec := 0, tv_nsec := 0 }, { tv_sec := 1, tv_nsec := 0 }] mem_3_7 thread_start
      { rnd := 5, nb_lookup := 1, nb_insert := 1, nb_delete := 0, nb_ins_abort := 0,
        nb_del_abort := 0 } (by decide) (by decide)).2.2.1⟩
/-! ## C18: what the counters of an rcu worker count -/

theorem to_uint_of_pos (n : Int) (h0 : 0 < n) (h1 : n ≤ 2147483647) :
    (to_uint n : Int) = n := by
  unfold to_uint
  rw [Int.emod_eq_of_lt (le_of_lt h0) (by omega)]
  exact Int.toNat_of_nonneg (le_of_lt h0)

theorem rand_range_bounds (n : Int) (x : Nat) (h0 : 0 < n) (h1 : n ≤ 2147483647) :
    ∃ v, rand_range n x = some v ∧ 0 ≤ v ∧ v < n := by
  have e := to_uint_of_pos n h0 h1
  have hne : to_uint n ≠ 0 := by omega
  have hlt : x % 4294967296 % to_uint n < to_uint n := Nat.mod_lt _ (by omega)
  refine ⟨((x % 4294967296 % to_uint n : Nat) : Int), ?_, by omega, by omega⟩
  unfold rand_range
  rw [if_neg hne, wrap_int_small _ (by omega)]

/-- One iteration of the worker loop under `rcu` on a well-formed hash set with
`0 < range`. -/
theorem rcu_iteration_step (g : hash_list_t) (update range : Int) (prandom : Nat → Nat)
    (s : State) (t : benchmark_thread) (hwf : hash_list_wf g s) (hr0 : 0 < range)
    (hr1 : range ≤ 2147483647) :
    ∃ s1 t1 val, sync_test_iteration benchmark_rcu g update range prandom s t = some (s1, t1) ∧
      rand_range range (prandom (t.rnd + 1)) = some val ∧ 0 ≤ val ∧ val < range ∧
      hash_list_wf g s1 ∧
      t1.nb_ins_abort = t.nb_ins_abort ∧ t1.nb_del_abort = t.nb_del_abort ∧
      ((s1 = s ∧ t1 = { t with rnd := t.rnd + 2, nb_lookup := wrap_ulong (t.nb_lookup + 1) }) ∨
       (t1 = { t with rnd := t.rnd + 3, nb_insert := wrap_ulong (t.nb_insert + 1) } ∧
          rcu_hash_list_add g s val = some (s1, 0) ∧ (hash_present g s val → s1 = s) ∧
          ∀ k, 0 ≤ k → (hash_present g s1 k ↔ (k = val ∨ hash_present g s k))) ∨
       (t1 = { t with rnd := t.rnd + 3, nb_delete := wrap_ulong (t.nb_delete + 1) } ∧
          rcu_hash_list_remove g s val = some (s1, 0) ∧ (¬ hash_present g s val → s1 = s) ∧
          ∀ k, 0 ≤ k → (hash_present g s1 k ↔ (k ≠ val ∧ hash_present g s k)))) := by
  obtain ⟨op, hop, _, _⟩ := rand_range_10000 (prandom t.rnd)
  obtain ⟨val, hval, hv0, hv1⟩ := rand_range_bounds range (prandom (t.rnd + 1)) hr0 hr1
  obtain ⟨op2, hop2, _, _⟩ := rand_range_bounds 2 (prandom (t.rnd + 2)) (by norm_num)
    (by norm_num)
  have hmax : val < LIST_VAL_MAX := by unfold LIST_VAL_MAX; omega
  unfold sync_test_iteration
  simp only [hop, hval, hop2, Option.bind_eq_bind, Option.some_bind, Option.pure_def]
  by_cases hu : op < update
  · rw [if_pos hu]
    by_cases hp : op2 % 2 = 0
    · rw [if_pos hp]
      obtain ⟨s2, hrun, hwf2, hsame, hiff⟩ := rcu_hash_list_add_step g s val hwf hv0 hmax
      have e : benchmark_rcu.insert g s val = some (s2, 0) := hrun
      simp only [e, Option.some_bind, if_true]
      exact ⟨s2, _, val, rfl, rfl, hv0, hv1, hwf2, rfl, rfl,
        Or.inr (Or.inl ⟨rfl, hrun, hsame, hiff⟩)⟩
    · rw [if_neg hp]
      obtain ⟨s2, hrun, hwf2, hsame, hiff⟩ := rcu_hash_list_remove_step g s val hwf hv0 hmax
      have e : benchmark_rcu.delete g s val = some (s2, 0) := hrun
      simp only [e, Option.some_bind, if_true]
      exact ⟨s2, _, val, rfl, rfl, hv0, hv1, hwf2, rfl, rfl,
        Or.inr (Or.inr ⟨rfl, hrun, hsame, hiff⟩)⟩
  · rw [if_neg hu]
    obtain ⟨p, as, _, _, hc, _⟩ := hash_list_contains_spec g s val hwf.1
      (fun p hp => (hwf.2.1 p hp).1) hv0 hmax
    have e : benchmark_rcu.lookup g s val =
        some (s, if val ∈ as.map (node_val s.nodes) then 0 else -ENOENT) := hc
    simp only [e, Option.some_bind]
    exact ⟨s, _, val, rfl, rfl, hv0, hv1, hwf, rfl, rfl, Or.inl ⟨rfl, rfl⟩⟩

theorem rcu_thread_run (g : hash_list_t) (update range duration : Int) (prandom : Nat → Nat)
    (start : timespec) (hr0 : 0 < range) (hr1 : range ≤ 2147483647) :
    ∀ (clock : List timespec) (s : State) (t : benchmark_thread), hash_list_wf g s →
      (∃ now ∈ clock, to_ulong duration ≤ thread_duration_ms start now) →
      ∃ s1 t1, sync_test_thread benchmark_rcu g update range duration prandom start clock s t =
          some (s1, t1) ∧ hash_list_wf g s1 ∧
        t1.nb_ins_abort = t.nb_ins_abort ∧ t1.nb_del_abort = t.nb_del_abort := by
  intro clock
  induction clock with
  | nil => intro s t _ h; obtain ⟨_, hm, _⟩ := h; simp at hm
  | cons now clock ih =>
    intro s t hwf hend
    obtain ⟨s2, t2, val, hit, _, _, _, hwf2, ha1, ha2, _⟩ :=
      rcu_iteration_step g update range prandom s t hwf hr0 hr1
    rw [sync_test_thread]
    simp only [hit]
    by_cases hd : thread_duration_ms start now < to_ulong duration
    · rw [if_pos hd]
      obtain ⟨now2, hm, hn⟩ := hend
      have hm2 : now2 ∈ clock := by
        rcases List.mem_cons.mp hm with e | h
        · subst e; omega
        · exact h
      obtain ⟨s1, t1, hrun, hwf1, hb1, hb2⟩ := ih s2 t2 hwf2 ⟨now2, hm2, hn⟩
      exact ⟨s1, t1, hrun, hwf1, by rw [hb1, ha1], by rw [hb2, ha2]⟩
    · rw [if_neg hd]
      exact ⟨s2, t2, rfl, hwf2, ha1, ha2⟩

/-- C18 (amended): under `rcu`, on a well-formed hash set with `0 < range`,
every iteration of the worker loop returns and keeps the set well formed; an
insert iteration is counted in `nb_insert` and a delete iteration in
`nb_delete` whether or not it changed the set (`rcu_hash_list_add` and
`rcu_hash_list_remove` return zero always), and `nb_ins_abort` and
`nb_del_abort` never change.  The insert puts its key into the set, leaving the
memory as it was when the key was present; the delete takes its key out, leaving
the memory as it was when the key was absent.  A run whose clock reaches
`duration` returns, and `nb_insert + nb_delete` has grown by the number of
updates issued. -/
theorem rcu_counts_every_update (g : hash_list_t) (update range duration : Int)
    (prandom : Nat → Nat) (start : timespec) (clock : List timespec) (s : State)
    (t : benchmark_thread) (hwf : hash_list_wf g s) (hr0 : 0 < range)
    (hr1 : range ≤ 2147483647)
    (hend : ∃ now ∈ clock, to_ulong duration ≤ thread_duration_ms start now)
    (hb : ∀ c ∈ ops_counters t, c + clock.length < 18446744073709551616) :
    (∀ (s0 : State) (t0 : benchmark_thread), hash_list_wf g s0 →
      ∃ s1 t1 val, sync_test_iteration benchmark_rcu g update range prandom s0 t0 =
          some (s1, t1) ∧
        rand_range range (prandom (t0.rnd + 1)) = some val ∧ 0 ≤ val ∧ val < range ∧
        hash_list_wf g s1 ∧
        t1.nb_ins_abort = t0.nb_ins_abort ∧ t1.nb_del_abort = t0.nb_del_abort ∧
        ((s1 = s0 ∧
            t1 = { t0 with rnd := t0.rnd + 2, nb_lookup := wrap_ulong (t0.nb_lookup + 1) }) ∨
         (t1 = { t0 with rnd := t0.rnd + 3, nb_insert := wrap_ulong (t0.nb_insert + 1) } ∧
            rcu_hash_list_add g s0 val = some (s1, 0) ∧ (hash_present g s0 val → s1 = s0) ∧
            ∀ k, 0 ≤ k → (hash_present g s1 k ↔ (k = val ∨ hash_present g s0 k))) ∨
         (t1 = { t0 with rnd := t0.rnd + 3, nb_delete := wrap_ulong (t0.nb_delete + 1) } ∧
            rcu_hash_list_remove g s0 val = some (s1, 0) ∧
            (¬ hash_present g s0 val → s1 = s0) ∧
            ∀ k, 0 ≤ k → (hash_present g s1 k ↔ (k ≠ val ∧ hash_present g s0 k))))) ∧
    ∃ s1 t1, sync_test_thread benchmark_rcu g update range duration prandom start clock s t =
        some (s1, t1) ∧ hash_list_wf g s1 ∧
      t1.nb_ins_abort = t.nb_ins_abort ∧ t1.nb_del_abort = t.nb_del_abort ∧
      ∃ n : Nat, 1 ≤ n ∧ n ≤ clock.length ∧
        t1.nb_insert + t1.nb_delete =
          t.nb_insert + t.nb_delete + updates_issued update prandom n t.rnd := by
  refine ⟨fun s0 t0 h0 => rcu_iteration_step g update range prandom s0 t0 h0 hr0 hr1, ?_⟩
  obtain ⟨s1, t1, hrun, hwf1, ha1, ha2⟩ :=
    rcu_thread_run g update range duration prandom start hr0 hr1 clock s t hwf hend
  obtain ⟨n, hn1, hn2, hsum, _⟩ := sync_test_thread_counts benchmark_rcu g update range duration
    prandom start clock s s1 t t1 hrun hb
  exact ⟨s1, t1, hrun, hwf1, ha1, ha2, n, hn1, hn2, by omega⟩

theorem rcu_counts_every_update_witness :
    hash_list_wf hash_1 mem_3_7 ∧ (0 : Int) < 8 ∧ (8 : Int) ≤ 2147483647 ∧
    (∃ now ∈ [({ tv_sec := 0, tv_nsec := 0 } : timespec), { tv_sec := 1, tv_nsec := 0 }],
      to_ulong 100 ≤ thread_duration_ms { tv_sec := 0, tv_nsec := 0 } now) ∧
    (∀ c ∈ ops_counters thread_start, c + 2 < 18446744073709551616) ∧
    (∃ s1 t1, sync_test_thread benchmark_rcu hash_1 5000 8 100
        (fun i => [7000, 5, 100, 3, 0].getD i 0) { tv_sec := 0, tv_nsec := 0 }
        [{ tv_sec := 0, tv_nsec := 0 }, { tv_sec := 1, tv_nsec := 0 }] mem_3_7 thread_start =
        some (s1, t1) ∧ hash_list_wf hash_1 s1 ∧ t1.nb_ins_abort = 0 ∧ t1.nb_del_abort = 0) :=
  ⟨by decide, by decide, by decide, by decide, by decide,
    (rcu_counts_every_update hash_1 5000 8 100 (fun i => [7000, 5, 100, 3, 0].getD i 0)
      { tv_sec := 0, tv_nsec := 0 }
      [{ tv_sec := 0, tv_nsec := 0 }, { tv_sec := 1, tv_nsec := 0 }] mem_3_7 thread_start
      (by decide) (by decide) (by decide) (by decide) (by decide)).2.imp
      (fun _ h => h.imp (fun _ h => ⟨h.1, h.2.1, h.2.2.1, h.2.2.2.1⟩))⟩

/-- C18 as stated fails under `rcu`: one insert iteration on the key 3, which
the set already holds, is counted in `nb_insert` (no delete is counted), and the
memory, so the number of keys, is what it was. -/
theorem rcu_counts_insert_of_present_key :
    key_in_bucket mem_3_7 0 3 ∧ list_size mem_3_7 0 = some 2 ∧
    sync_test_thread benchmark_rcu hash_1 10000 8 100 (fun i => [0, 3, 0].getD i 0)
        { tv_sec := 0, tv_nsec := 0 } [{ tv_sec := 1, tv_nsec := 0 }] mem_3_7 thread_start =
      some (mem_3_7, { rnd := 3, nb_lookup := 0, nb_insert := 1, nb_delete := 0,
                       nb_ins_abort := 0, nb_del_abort := 0 }) := by
  decide

/-- Under `rcu-fglock` an insert iteration that links a new key (5 is absent)
is counted in `nb_ins_abort`: `rcu_list_fg_add` returns `v != val`. -/
theorem fglock_counts_insert_as_abort :
    ¬ key_in_bucket mem_3_7 0 5 ∧
    (sync_test_thread (benchmark_rcu_fglock 1) hash_1 10000 8 100
        (fun i => [0, 5, 0].getD i 0) { tv_sec := 0, tv_nsec := 0 }
        [{ tv_sec := 1, tv_nsec := 0 }] mem_3_7 thread_start).map Prod.snd =
      some { rnd := 3, nb_lookup := 0, nb_insert := 0, nb_delete := 0, nb_ins_abort := 1,
             nb_del_abort := 0 } := by
  decide
/-! ## C19: the pre-fill -/

/-- C19 at `range = 4` under `rcu`, when `get_random_int()` returns 1 twice: both
steps of the pre-fill make one call of `rcu_hash_list_add`, which returns 0 for
the key it finds present, and the set is left with one key, not `range / 2`. -/
theorem half_fill_repeated_draw :
    (rcu_new_hash_list State.empty 1).bind (fun q =>
      (half_fill benchmark_rcu q.2 4 (fun _ => 1) 1 q.1).bind (fun r =>
        (list_size r.1 0).map (fun n => (r.2, n)))) = some (2, 1) := by
  decide

/-- A step of the pre-fill with `rcu_hash_list_add` on a well-formed hash set
uses one random value and makes one call, also when the key is already in the
set: the call returns 0 and the loop `while (…) ;` ends. -/
theorem prefill_insert_rcu_once (g : hash_list_t) (s : State) (range : Int)
    (random : Nat → Nat) (fuel pos : Nat) (hwf : hash_list_wf g s) (hr0 : 0 < range)
    (hr1 : range ≤ 2147483647) :
    ∃ s1 val, rand_range range (random pos) = some val ∧
      rcu_hash_list_add g s val = some (s1, 0) ∧ (hash_present g s val → s1 = s) ∧
      prefill_insert (rcu_hash_list_add g) range random (fuel + 1) pos s = some (s1, pos + 1) := by
  obtain ⟨val, hval, hv0, hv1⟩ := rand_range_bounds range (random pos) hr0 hr1
  obtain ⟨s1, hrun, _, hsame, _⟩ := rcu_hash_list_add_step g s val hwf hv0
    (by unfold LIST_VAL_MAX; omega)
  refine ⟨s1, val, hval, hrun, hsame, ?_⟩
  rw [prefill_insert]
  simp only [hval, hrun, ne_eq, not_true_eq_false, if_false]
/-! ## C20: the abort counters after a run of lookups under `forgive` -/

theorem added_node_quiet (val : Int) (b : Nat) : node_quiet (added_node val b) :=
  ⟨rfl, rfl, rfl⟩

/-- Linking a node into one bucket of a quiescent hash set keeps it quiescent. -/
theorem hash_list_quiescent_linked (g : hash_list_t) (s : State) (val : Int) (p_list : Nat)
    (front : List Nat) (p_prev b : Nat) (post : List Nat) (prev : node_t)
    (hq : hash_list_quiescent g s) (hp : p_list ∈ g.buckets)
    (hbn : bucket_nodes s p_list = some (front ++ p_prev :: b :: post))
    (hprev : s.nodes[p_prev]? = some prev)
    (hlow : ∀ a ∈ front ++ [p_prev], node_val s.nodes a < val)
    (hb : val < node_val s.nodes b) :
    hash_list_quiescent g (linked s val p_prev b prev) := by
  obtain ⟨hwf, hquiet⟩ := hq
  obtain ⟨hwf2, hother⟩ :=
    hash_list_wf_linked g s val p_list front p_prev b post prev hwf hp hbn hprev hlow hb
  have hplt := getElem?_lt_length _ _ _ hprev
  have hnd := bucket_nodes_nodup _ _ _ (hwf.2.1 p_list hp).1 hbn
  have hold : ∀ q ∈ g.buckets, ∀ as, bucket_nodes s q = some as → ∀ a ∈ as,
      quiet_at (linked s val p_prev b prev) a := by
    intro q hqm as has a ha
    have hqa := hquiet q hqm
    unfold bucket_quiet at hqa
    rw [has] at hqa
    have h := hqa a ha
    have hlt := bucket_nodes_lt _ _ _ has a ha
    unfold quiet_at at h ⊢
    by_cases hap : a = p_prev
    · subst hap
      rw [linked_getElem_prev s val a b prev hplt]
      rw [hprev] at h
      exact h
    · rw [linked_getElem_other s val p_prev b prev a hlt hap]
      exact h
  refine ⟨hwf2, ?_⟩
  intro q hqm
  unfold bucket_quiet
  by_cases hqp : q = p_list
  · subst hqp
    rw [bucket_nodes_linked s val q front p_prev b post prev hbn hprev hnd]
    intro a ha
    by_cases hal : a = s.nodes.length
    · subst hal
      unfold quiet_at
      rw [linked_getElem_new s val p_prev b prev hplt]
      exact added_node_quiet val b
    · refine hold q hqm _ hbn a ?_
      simp only [List.mem_append, List.mem_cons] at ha ⊢
      rcases ha with h | h | h | h | h
      · exact Or.inl h
      · exact Or.inr (Or.inl h)
      · exact absurd h hal
      · exact Or.inr (Or.inr (Or.inl h))
      · exact Or.inr (Or.inr (Or.inr h))
  · obtain ⟨as, has⟩ := list_wf_nodes _ _ (hwf.2.1 q hqm).1
    rw [(hother q hqm hqp).1, has]
    exact hold q hqm as has

theorem hash_list_quiescent_xbegin (g : hash_list_t) (s : State) (xs : List Nat)
    (hq : hash_list_quiescent g s) : hash_list_quiescent g { s with xbegin := xs } :=
  hq

theorem no_abort_tail (s : State) (h : no_abort s) : ∀ x ∈ s.xbegin.tail, x = XBEGIN_STARTED :=
  fun x hx => h x (List.mem_of_mem_tail hx)

/-- One `rcx_hash_list_try_add` on a quiescent hash set when no transaction
aborts: it returns 0, the set stays quiescent and the abort counters are not
touched. -/
theorem rcx_hash_list_try_add_no_abort (cpu : Nat) (g : hash_list_t) (s : State) (k : Int)
    (hq : hash_list_quiescent g s) (hx : no_abort s) (h0 : 0 ≤ k) (h1 : k < LIST_VAL_MAX) :
    ∃ s1, rcx_hash_list_try_add cpu g s k = some (s1, 0) ∧ hash_list_quiescent g s1 ∧
      no_abort s1 ∧ s1.abort_cnt = s.abort_cnt := by
  obtain ⟨p, _, hmem, hh, hb⟩ := bucket_of_key g k hq.1.1 h0
  have hbw := hq.1.2.1 p hmem
  have hmin : LIST_VAL_MIN < k := by unfold LIST_VAL_MIN; omega
  obtain ⟨front, p_prev, b, post, hbn, _, hlow, hge, hfind⟩ :=
    list_find_spec s p k hbw.1 (le_of_lt h1)
  obtain ⟨l, prev, nb, hl, _, hprev, hpn, hnb, _, _⟩ := chain_pieces s p front p_prev b post hbn
  have hqa := hq.2 p hmem
  unfold bucket_quiet at hqa
  rw [hbn] at hqa
  have hq1 := quiet_at_node s p_prev prev hprev (hqa p_prev (by simp))
  have hq2 := quiet_at_node s b nb hnb (hqa b (by simp))
  unfold rcx_hash_list_try_add
  simp only [hh, hb, Option.bind_eq_bind, Option.some_bind]
  by_cases hv : node_val s.nodes b = k
  · rw [hv] at hfind
    rw [rcx_list_add_present cpu s p k p_prev b hfind]
    exact ⟨s, by simp, hq, hx, rfl⟩
  · rw [rcx_list_add_eval cpu s p k p_prev b _ prev nb (no_abort_head s hx) hfind hprev hnb hpn
      hq1.1 hq2.1 hv]
    refine ⟨{ linked s k p_prev b prev with xbegin := s.xbegin.tail }, by simp, ?_,
      no_abort_tail s hx, rfl⟩
    exact hash_list_quiescent_xbegin g _ _
      (hash_list_quiescent_linked g s k p front p_prev b post prev hq hmem hbn hprev
        (hlow hmin) (lt_of_le_of_ne hge (Ne.symm hv)))

theorem rcu_new_hash_list_loop_abort_cnt (todo : Nat) :
    ∀ (s : State) (buckets : List Nat) (s2 : State) (bs : List Nat),
      rcu_new_hash_list_loop todo s buckets = some (s2, bs) → s2.abort_cnt = s.abort_cnt := by
  induction todo with
  | zero =>
    intro s buckets s2 bs hrun
    simp only [rcu_new_hash_list_loop, Option.some.injEq, Prod.mk.injEq] at hrun
    obtain ⟨rfl, rfl⟩ := hrun
    rfl
  | succ todo ih =>
    intro s buckets s2 bs hrun
    rw [rcu_new_hash_list_loop, rcu_new_list_eq] at hrun
    exact ih (with_new_list s) (buckets ++ [s.lists.length]) s2 bs hrun

/-- The hash list `rcx_hash_list_init` builds: quiescent, with the answers of
the hardware and the abort counters as they were. -/
theorem rcx_new_hash_list_fresh (s0 : State) (n : Int) (h1 : 1 ≤ n) (h2 : n ≤ MAX_BUCKETS) :
    ∃ s g, rcx_new_hash_list s0 n = some (s, g) ∧ hash_list_quiescent g s ∧
      s.xbegin = s0.xbegin ∧ s.abort_cnt = s0.abort_cnt := by
  obtain ⟨s, g, hrun, hrcx, hq, hx⟩ := rcu_new_hash_list_quiescent s0 n h1 h2
  refine ⟨s, g, hrcx, hq, hx, ?_⟩
  unfold rcu_new_hash_list at hrun
  rw [if_neg (by omega)] at hrun
  cases hloop : rcu_new_hash_list_loop n.toNat s0 [] with
  | none => rw [hloop] at hrun; cases hrun
  | some r =>
    obtain ⟨s2, bs⟩ := r
    rw [hloop] at hrun
    simp only [Option.some.injEq, Prod.mk.injEq] at hrun
    obtain ⟨rfl, rfl⟩ := hrun
    exact rcu_new_hash_list_loop_abort_cnt n.toNat s0 [] s2 bs hloop

theorem prefill_function_forgive (cpu : Nat) (g : hash_list_t) :
    prefill_function (benchmark_forgive cpu) g = rcx_hash_list_try_add cpu g := by
  have h : ¬ (benchmark_forgive cpu).name.data.take 4 = ['r', 'c', 'u', '-'] := by
    show ¬ ("forgive".data.take 4 = ['r', 'c', 'u', '-'])
    decide
  unfold prefill_function
  rw [if_neg h]
  rfl

/-- The half fill under `forgive` from a quiescent hash set when no transaction
aborts: every step makes one call, and the abort counters are not touched. -/
theorem prefill_loop_forgive (cpu : Nat) (g : hash_list_t) (range : Int) (random : Nat → Nat)
    (fuel : Nat) (hr0 : 0 < range) (hr1 : range ≤ 2147483647) (hfuel : 1 ≤ fuel) :
    ∀ (todo pos : Nat) (s : State), hash_list_quiescent g s → no_abort s →
      ∃ s1 pos1, prefill_loop (benchmark_forgive cpu) g range random fuel todo pos s =
          some (s1, pos1) ∧ hash_list_quiescent g s1 ∧ no_abort s1 ∧
        s1.abort_cnt = s.abort_cnt := by
  obtain ⟨m, rfl⟩ : ∃ m, fuel = m + 1 := ⟨fuel - 1, by omega⟩
  intro todo
  induction todo with
  | zero => intro pos s hq hx; exact ⟨s, pos, rfl, hq, hx, rfl⟩
  | succ todo ih =>
    intro pos s hq hx
    obtain ⟨val, hval, hv0, hv1⟩ := rand_range_bounds range (random pos) hr0 hr1
    obtain ⟨s2, hrun, hq2, hx2, hc2⟩ := rcx_hash_list_try_add_no_abort cpu g s val hq hx hv0
      (by unfold LIST_VAL_MAX; omega)
    obtain ⟨s1, pos1, hloop, hq1, hx1, hc1⟩ := ih (pos + 1) s2 hq2 hx2
    refine ⟨s1, pos1, ?_, hq1, hx1, by rw [hc1, hc2]⟩
    rw [prefill_loop, prefill_function_forgive, prefill_insert]
    simp only [hval, hrun, ne_eq, not_true_eq_false, if_false]
    exact hloop

/-- The worker loop under `forgive` with `update ≤ 0` on a well-formed hash set:
every iteration is a lookup, and the memory is returned as it was. -/
theorem forgive_lookup_thread (cpu : Nat) (g : hash_list_t) (update range duration : Int)
    (prandom : Nat → Nat) (start : timespec) (hu : update ≤ 0) (hr0 : 0 < range)
    (hr1 : range ≤ 2147483647) :
    ∀ (clock : List timespec) (s : State) (t : benchmark_thread), hash_list_wf g s →
      (∃ now ∈ clock, to_ulong duration ≤ thread_duration_ms start now) →
      ∃ t1, sync_test_thread (benchmark_forgive cpu) g update range duration prandom start
        clock s t = some (s, t1) := by
  intro clock
  induction clock with
  | nil => intro s t _ h; obtain ⟨_, hm, _⟩ := h; simp at hm
  | cons now clock ih =>
    intro s t hwf hend
    obtain ⟨op, hop, h0, _⟩ := rand_range_10000 (prandom t.rnd)
    obtain ⟨val, hval, hv0, hv1⟩ := rand_range_bounds range (prandom (t.rnd + 1)) hr0 hr1
    obtain ⟨p, as, _, _, _, hc⟩ := hash_list_contains_spec g s val hwf.1
      (fun p hp => (hwf.2.1 p hp).1) hv0 (by unfold LIST_VAL_MAX; omega)
    have e : (benchmark_forgive cpu).lookup g s val =
        some (s, if val ∈ as.map (node_val s.nodes) then 0 else -ENOENT) := hc
    have hit : sync_test_iteration (benchmark_forgive cpu) g update range prandom s t =
        some (s, { t with rnd := t.rnd + 2, nb_lookup := wrap_ulong (t.nb_lookup + 1) }) := by
      unfold sync_test_iteration
      simp only [hop, hval, Option.bind_eq_bind, Option.some_bind, Option.pure_def]
      rw [if_neg (by omega)]
      simp only [e, Option.some_bind]
    rw [sync_test_thread]
    simp only [hit]
    by_cases hd : thread_duration_ms start now < to_ulong duration
    · rw [if_pos hd]
      obtain ⟨now2, hm, hn⟩ := hend
      have hm2 : now2 ∈ clock := by
        rcases List.mem_cons.mp hm with e2 | h
        · subst e2; omega
        · exact h
      exact ih s _ hwf ⟨now2, hm2, hn⟩
    · rw [if_neg hd]
      exact ⟨_, rfl⟩

theorem prefill_insert_retry (insert : State → Int → Option (State × Int)) (range : Int)
    (random : Nat → Nat) (fuel pos : Nat) (s s1 : State) (val r : Int)
    (hv : rand_range range (random pos) = some val) (hi : insert s val = some (s1, r))
    (hr : r ≠ 0) :
    prefill_insert insert range random (fuel + 1) pos s =
      prefill_insert insert range random fuel (pos + 1) s1 := by
  rw [prefill_insert]
  simp only [hv, hi, hr, ne_eq, not_false_eq_true, if_true]

theorem prefill_insert_done (insert : State → Int → Option (State × Int)) (range : Int)
    (random : Nat → Nat) (fuel pos : Nat) (s s1 : State) (val : Int)
    (hv : rand_range range (random pos) = some val) (hi : insert s val = some (s1, 0)) :
    prefill_insert insert range random (fuel + 1) pos s = some (s1, pos + 1) := by
  rw [prefill_insert]
  simp only [hv, hi, ne_eq, not_true_eq_false, if_false]

/-- C20 (amended): under `forgive` with one thread and `update ≤ 0`, on a
well-formed hash set the worker loop returns the memory as it was, whatever the
hardware would answer: every iteration is a lookup, which starts no transaction
and records no abort.  So the abort counters at the end of the run are those the
pre-fill left, and when no transaction of the pre-fill aborts the run returns
with the abort counters it started with (all zeros after the module is
loaded). -/
theorem forgive_lookup_run_aborts (cpu : Nat) (nr_buckets update range duration : Int)
    (random prandom : Nat → Nat) (fuel : Nat) (start : timespec) (clock : List timespec)
    (s0 : State) (hn1 : 1 ≤ nr_buckets) (hn2 : nr_buckets ≤ MAX_BUCKETS) (hu : update ≤ 0)
    (hr0 : 0 < range) (hr1 : range ≤ 2147483647) (hfuel : 1 ≤ fuel)
    (hend : ∃ now ∈ clock, to_ulong duration ≤ thread_duration_ms start now) :
    (∀ (g : hash_list_t) (s : State) (t : benchmark_thread), hash_list_wf g s →
      ∃ t1, sync_test_thread (benchmark_forgive cpu) g update range duration prandom start
        clock s t = some (s, t1)) ∧
    (no_abort s0 →
      ∃ s1 t1, sync_test_init (benchmark_forgive cpu) rcx_new_hash_list nr_buckets update range
          duration random prandom fuel start clock s0 = some (s1, t1) ∧
        s1.abort_cnt = s0.abort_cnt) := by
  refine ⟨fun g s t hwf => forgive_lookup_thread cpu g update range duration prandom start hu
    hr0 hr1 clock s t hwf hend, fun hx => ?_⟩
  obtain ⟨s, g, hinit, hq, hxs, hcs⟩ := rcx_new_hash_list_fresh s0 nr_buckets hn1 hn2
  have hx2 : no_abort s := by
    unfold no_abort
    rw [hxs]
    exact hx
  obtain ⟨s1, pos1, hfill, hq1, _, hc1⟩ := prefill_loop_forgive cpu g range random fuel hr0 hr1
    hfuel (range.tdiv 2).toNat 0 s hq hx2
  obtain ⟨t1, hrun⟩ := forgive_lookup_thread cpu g update range duration prandom start hu
    hr0 hr1 clock s1 thread_start hq1.1 hend
  refine ⟨s1, t1, ?_, by rw [hc1, hcs]⟩
  unfold sync_test_init half_fill
  simp only [hinit, hfill]
  exact hrun

theorem forgive_lookup_run_aborts_witness :
    (1 : Int) ≤ 1 ∧ (1 : Int) ≤ MAX_BUCKETS ∧ (0 : Int) ≤ 0 ∧ (0 : Int) < 8 ∧
    (8 : Int) ≤ 2147483647 ∧ 1 ≤ 1 ∧
    (∃ now ∈ [({ tv_sec := 1, tv_nsec := 0 } : timespec)],
      to_ulong 100 ≤ thread_duration_ms { tv_sec := 0, tv_nsec := 0 } now) ∧
    no_abort { mem_load_abort with xbegin := [] } ∧
    (∃ s1 t1, sync_test_init (benchmark_forgive 0) rcx_new_hash_list 1 0 8 100 (fun i => i)
        (fun i => i) 1 { tv_sec := 0, tv_nsec := 0 } [{ tv_sec := 1, tv_nsec := 0 }]
        { mem_load_abort with xbegin := [] } = some (s1, t1) ∧
      s1.abort_cnt = [{ counts := [0, 0, 0, 0, 0, 0, 0, 0, 0], nr_aborts := 0 }]) :=
  ⟨by decide, by decide, by decide, by decide, by decide, by decide, by decide, by decide,
    (forgive_lookup_run_aborts 0 1 0 8 100 (fun i => i) (fun i => i) 1
      { tv_sec := 0, tv_nsec := 0 } [{ tv_sec := 1, tv_nsec := 0 }]
      { mem_load_abort with xbegin := [] } (by decide) (by decide) (by decide) (by decide)
      (by decide) (by decide) (by decide)).2 (by decide)⟩

theorem half_fill_eq (bench : benchmark_t) (g : hash_list_t) (range : Int) (random : Nat → Nat)
    (fuel : Nat) (s : State) (n : Nat) (h : (range.tdiv 2).toNat = n) :
    half_fill bench g range random fuel s = prefill_loop bench g range random fuel n 0 s := by
  subst h
  rfl

theorem prefill_loop_succ (bench : benchmark_t) (g : hash_list_t) (range : Int)
    (random : Nat → Nat) (fuel todo pos pos1 : Nat) (s s1 : State)
    (h : prefill_insert (prefill_function bench g) range random fuel pos s = some (s1, pos1)) :
    prefill_loop bench g range random fuel (todo + 1) pos s =
      prefill_loop bench g range random fuel todo pos1 s1 := by
  rw [prefill_loop, h]

theorem sync_test_init_eq (bench : benchmark_t)
    (init : State → Int → Option (State × hash_list_t)) (nr_buckets update range duration : Int)
    (random prandom : Nat → Nat) (fuel : Nat) (start : timespec) (clock : List timespec)
    (s s1 s2 : State) (g : hash_list_t) (pos : Nat) (hinit : init s nr_buckets = some (s1, g))
    (hfill : half_fill bench g range random fuel s1 = some (s2, pos)) :
    sync_test_init bench init nr_buckets update range duration random prandom fuel start clock s =
      sync_test_thread bench g update range duration prandom start clock s2 thread_start := by
  unfold sync_test_init
  rw [hinit]
  simp only []
  rw [hfill]

/-- C20 as stated fails in scenario 6 (`threads_nb = 1`, `duration = 100`,
`update = 0`, `range = 1024`, `nr_buckets = 1`, `forgive`): the abort counters
are all zero when the module is loaded, the first transaction of the pre-fill
aborts with a conflict, `rcx_list_add` records it, nothing resets the counters,
and at the end of the run `nr_aborts` is 1. -/
theorem forgive_prefill_abort_counted :
    mem_load_abort.abort_cnt = [{ counts := [0, 0, 0, 0, 0, 0, 0, 0, 0], nr_aborts := 0 }] ∧
    ∃ s1 t1, sync_test_init (benchmark_forgive 0) rcx_new_hash_list 1 0 1024 100 (fun i => i)
        (fun i => i) 2 { tv_sec := 0, tv_nsec := 0 } [{ tv_sec := 0, tv_nsec := 100000000 }]
        mem_load_abort = some (s1, t1) ∧
      s1.abort_cnt = [{ counts := [0, 1, 1, 0, 0, 0, 0, 0, 0], nr_aborts := 1 }] := by
  refine ⟨rfl, ?_⟩
  have hinit : rcx_new_hash_list mem_load_abort 1 = some (with_new_list mem_load_abort, hash_1) := by
    decide
  have hfirst : rcx_hash_list_try_add 0 hash_1 (with_new_list mem_load_abort) 0 =
      some (aborted (with_new_list mem_load_abort) 0 0 0
        { counts := [0, 0, 0, 0, 0, 0, 0, 0, 0], nr_aborts := 0 }
        (XABORT_RETRY ||| XABORT_CONFLICT), -1) := by
    decide
  have hq : hash_list_quiescent hash_1 (aborted (with_new_list mem_load_abort) 0 0 0
      { counts := [0, 0, 0, 0, 0, 0, 0, 0, 0], nr_aborts := 0 }
      (XABORT_RETRY ||| XABORT_CONFLICT)) := by
    decide
  have hx : no_abort (aborted (with_new_list mem_load_abort) 0 0 0
      { counts := [0, 0, 0, 0, 0, 0, 0, 0, 0], nr_aborts := 0 }
      (XABORT_RETRY ||| XABORT_CONFLICT)) := by
    decide
  have hcnt : (aborted (with_new_list mem_load_abort) 0 0 0
      { counts := [0, 0, 0, 0, 0, 0, 0, 0, 0], nr_aborts := 0 }
      (XABORT_RETRY ||| XABORT_CONFLICT)).abort_cnt =
      [{ counts := [0, 1, 1, 0, 0, 0, 0, 0, 0], nr_aborts := 1 }] := by
    decide
  obtain ⟨s2, hsecond, hq2, hx2, hc2⟩ := rcx_hash_list_try_add_no_abort 0 hash_1 _ 1 hq hx
    (by decide) (by decide)
  obtain ⟨s3, pos3, hfill, hq3, _, hc3⟩ := prefill_loop_forgive 0 hash_1 1024 (fun i => i) 2
    (by decide) (by decide) (by decide) 511 2 s2 hq2 hx2
  obtain ⟨t1, hrun⟩ := forgive_lookup_thread 0 hash_1 0 1024 100 (fun i => i)
    { tv_sec := 0, tv_nsec := 0 } (le_refl _) (by decide) (by decide)
    [{ tv_sec := 0, tv_nsec := 100000000 }] s3 thread_start hq3.1
    ⟨_, List.mem_singleton.mpr rfl, by decide⟩
  refine ⟨s3, t1, ?_, by rw [hc3, hc2, hcnt]⟩
  have hr0 : rand_range 1024 ((fun i => i) 0) = some 0 := by decide
  have hr1 : rand_range 1024 ((fun i => i) 1) = some 1 := by decide
  have e1 := prefill_insert_retry (rcx_hash_list_try_add 0 hash_1) 1024 (fun i => i) 1 0
    (with_new_list mem_load_abort)
    (aborted (with_new_list mem_load_abort) 0 0 0
      { counts := [0, 0, 0, 0, 0, 0, 0, 0, 0], nr_aborts := 0 }
      (XABORT_RETRY ||| XABORT_CONFLICT)) 0 (-1) hr0 hfirst (by decide)
  have e2 := prefill_insert_done (rcx_hash_list_try_add 0 hash_1) 1024 (fun i => i) 0 1
    (aborted (with_new_list mem_load_abort) 0 0 0
      { counts := [0, 0, 0, 0, 0, 0, 0, 0, 0], nr_aborts := 0 }
      (XABORT_RETRY ||| XABORT_CONFLICT)) s2 1 hr1 hsecond
  have hstep : prefill_insert (prefill_function (benchmark_forgive 0) hash_1) 1024 (fun i => i)
      2 0 (with_new_list mem_load_abort) = some (s2, 2) := by
    rw [prefill_function_forgive]
    exact e1.trans e2
  have hfill2 : half_fill (benchmark_forgive 0) hash_1 1024 (fun i => i) 2
      (with_new_list mem_load_abort) = some (s3, pos3) :=
    (half_fill_eq (benchmark_forgive 0) hash_1 1024 (fun i => i) 2
      (with_new_list mem_load_abort) 512 (by decide)).trans
      ((prefill_loop_succ (benchmark_forgive 0) hash_1 1024 (fun i => i) 2 511 0 2
        (with_new_list mem_load_abort) s2 hstep).trans hfill)
  exact (sync_test_init_eq (benchmark_forgive 0) rcx_new_hash_list 1 0 1024 100 (fun i => i)
    (fun i => i) 2 { tv_sec := 0, tv_nsec := 0 } [{ tv_sec := 0, tv_nsec := 100000000 }]
    mem_load_abort (with_new_list mem_load_abort) s3 hash_1 pos3 hinit hfill2).trans hrun
/-! ## C21: the registry -/

theorem find_benchmark_none (benchmark : String) :
    ∀ bs : List benchmark_slot, (∀ b ∈ bs, b.name ≠ benchmark) →
      find_benchmark bs benchmark = none := by
  intro bs
  induction bs with
  | nil => intro _; rfl
  | cons b bs ih =>
    intro h
    rw [find_benchmark, if_neg (h b (List.mem_cons_self _ _))]
    exact ih (fun c hc => h c (List.mem_cons_of_mem _ hc))

theorem select_benchmark_unknown (benchmark : String) (h : benchmark ∉ benchmark_names) :
    select_benchmark benchmark = Sum.inl (-EPERM) := by
  by_cases he : benchmark = ""
  · subst he
    decide
  · have hnames : ∀ b ∈ benchmarks, b.name ∈ benchmark_names ∨ b = benchmark_slot_zero := by
      decide
    have hnone : find_benchmark benchmarks benchmark = none := by
      apply find_benchmark_none
      intro b hb e
      rcases hnames b hb with hn | hz
      · exact h (e ▸ hn)
      · subst hz
        exact he e.symm
    unfold select_benchmark
    rw [hnone]

/-- C21: the selection of `sync_test_init` (the look-up in `benchmarks` and the
check of the three function pointers) succeeds exactly when `benchmark` is one
of the thirteen names of the registry, and returns `-EPERM` for every other
string; the empty string matches the first unused element of the array, whose
function pointers are `NULL`, and is refused by the second check.  The selected
element is the one of that name, and each of the thirteen names is bound to the
`insert` / `delete` pair listed. -/
theorem benchmark_selection (benchmark : String) :
    ((∃ b, select_benchmark benchmark = Sum.inr b) ↔ benchmark ∈ benchmark_names) ∧
    (benchmark ∉ benchmark_names → select_benchmark benchmark = Sum.inl (-EPERM)) ∧
    (∀ b, select_benchmark benchmark = Sum.inr b → b ∈ benchmarks ∧ b.name = benchmark) ∧
    benchmarks.length = MAX_BENCHMARKS ∧
    find_benchmark benchmarks "" = some benchmark_slot_zero ∧
    select_benchmark "" = Sum.inl (-EPERM) ∧
    ∀ row ∈ [("rcu", bench_fn.rcu_hash_list_add, bench_fn.rcu_hash_list_remove),
        ("rcu-forgive", bench_fn.rcu_hash_list_try_add, bench_fn.rcu_hash_list_try_remove),
        ("rcu-fglock", bench_fn.rcu_hash_list_fg_add, bench_fn.rcu_hash_list_fg_remove),
        ("rcu-numa", bench_fn.rcu_hash_list_numa_add, bench_fn.rcu_hash_list_numa_remove),
        ("rlu", bench_fn.rlu_hash_list_add, bench_fn.rlu_hash_list_remove),
        ("rlu-forgive", bench_fn.rlu_hash_list_try_add, bench_fn.rlu_hash_list_try_remove),
        ("rcuhtm", bench_fn.rcx_hash_list_lf_add, bench_fn.rcx_hash_list_lf_remove),
        ("forgive", bench_fn.rcx_hash_list_try_add, bench_fn.rcx_hash_list_try_remove),
        ("retry", bench_fn.rcx_hash_list_retry_add, bench_fn.rcx_hash_list_retry_remove),
        ("hwa", bench_fn.rcx_hash_list_fb1_add, bench_fn.rcx_hash_list_fb1_remove),
        ("rcx-htmlock", bench_fn.rcx_hash_list_htmlock_add,
          bench_fn.rcx_hash_list_htmlock_remove),
        ("rcx-hhtmlock", bench_fn.rcx_hash_list_hhtmlock_add,
          bench_fn.rcx_hash_list_hhtmlock_remove),
        ("rcx", bench_fn.rcx_hash_list_numa_add, bench_fn.rcx_hash_list_numa_remove)],
      ∃ b ∈ benchmarks, select_benchmark row.1 = Sum.inr b ∧ b.insert = some row.2.1 ∧
        b.delete = some row.2.2 := by
  have hsel : ∀ n ∈ benchmark_names, ∃ b ∈ benchmarks, select_benchmark n = Sum.inr b ∧
      b.name = n := by
    decide
  refine ⟨⟨fun h => ?_, fun h => ?_⟩, select_benchmark_unknown benchmark, fun b hb => ?_,
    by decide, by decide, by decide, by decide⟩
  · by_contra hn
    obtain ⟨b, hb⟩ := h
    rw [select_benchmark_unknown benchmark hn] at hb
    cases hb
  · obtain ⟨b, _, hb, _⟩ := hsel benchmark h
    exact ⟨b, hb⟩
  · have hmem : benchmark ∈ benchmark_names := by
      by_contra hn
      rw [select_benchmark_unknown benchmark hn] at hb
      cases hb
    obtain ⟨b2, hb2, hs2, hn2⟩ := hsel benchmark hmem
    rw [hs2] at hb
    cases hb
    exact ⟨hb2, hn2⟩

/-! ## C22: the default of `benchmark` -/

/-- C22 at the defaults: the name `rcuhashlist` is not in the registry, the
look-up finds no element and `sync_test_init` returns `-EPERM`, whatever the
other parameters are. -/
theorem default_benchmark_refused (threads_nb nr_buckets num_online_cpus RLU_MAX_THREADS : Int) :
    benchmark_default ∉ benchmark_names ∧
    find_benchmark benchmarks benchmark_default = none ∧
    select_benchmark benchmark_default = Sum.inl (-EPERM) ∧
    sync_test_checks benchmark_default threads_nb nr_buckets num_online_cpus RLU_MAX_THREADS =
      Sum.inl (-EPERM) := by
  have h : select_benchmark benchmark_default = Sum.inl (-EPERM) := by decide
  refine ⟨by decide, by decide, h, ?_⟩
  unfold sync_test_checks
  rw [h]

/-! ## C23: the check of `nr_buckets` -/

/-- C23 at `nr_buckets = 0` (benchmark `rcu`, one thread, one CPU, 128 for
`RLU_MAX_THREADS`): the checks of `sync_test_init` pass, `rcu_hash_list_init`
builds a hash list with `n_buckets = 0` and no bucket, and the first insertion
of the pre-fill divides by zero in `HASH_VALUE`; with `nr_buckets = -1` the
checks pass as well, and 1001 is refused. -/
theorem zero_buckets_accepted :
    (sync_test_checks "rcu" 1 0 1 128).isRight = true ∧
    (sync_test_checks "rcu" 1 (-1) 1 128).isRight = true ∧
    sync_test_checks "rcu" 1 1001 1 128 = Sum.inl (-EPERM) ∧
    rcu_new_hash_list State.empty 0 =
      some (State.empty, { n_buckets := 0, buckets := [] }) ∧
    HASH_VALUE { n_buckets := 0, buckets := [] } 5 = none ∧
    rcu_hash_list_add { n_buckets := 0, buckets := [] } State.empty 5 = none ∧
    half_fill benchmark_rcu { n_buckets := 0, buckets := [] } 1024 (fun i => i) 1
      State.empty = none := by
  refine ⟨by decide, by decide, by decide, by decide, by decide, by decide, ?_⟩
  have h : prefill_insert (prefill_function benchmark_rcu { n_buckets := 0, buckets := [] })
      1024 (fun i => i) 1 0 State.empty = none := by
    decide
  rw [half_fill_eq benchmark_rcu _ 1024 (fun i => i) 1 State.empty 512 (by decide)]
  show prefill_loop benchmark_rcu _ 1024 (fun i => i) 1 (511 + 1) 0 State.empty = none
  rw [prefill_loop, h]

/-! ## C24: allocation failure -/

theorem rcu_hash_list_init_ok (s : State) (nr_buckets : Int) :
    rcu_hash_list_init true s nr_buckets =
      (rcu_new_hash_list s nr_buckets).map (fun q => (q.1, some q.2, 0)) := by
  unfold rcu_hash_list_init rcu_new_hash_list_km
  rw [if_pos rfl]
  cases rcu_new_hash_list s nr_buckets with
  | none => rfl
  | some q => rfl

/-- C24 when the `kmalloc` of the hash list fails: `rcu_hash_list_init` and
`rcx_hash_list_init` leave `g_hash_list` at `NULL` and return 0, whatever the
memory and `nr_buckets`; `sync_test_init` does not look at that value and goes
on to the half fill, whose first insertion dereferences `g_hash_list`. -/
theorem init_hides_allocation_failure (s : State) (nr_buckets : Int) :
    rcu_hash_list_init false s nr_buckets = some (s, none, 0) ∧
    rcx_hash_list_init false s nr_buckets = some (s, none, 0) ∧
    sync_test_setup benchmark_rcu (rcu_hash_list_init false) nr_buckets 1024 (fun i => i) 1 s =
      none ∧
    sync_test_setup (benchmark_forgive 0) (rcx_hash_list_init false) nr_buckets 1024
      (fun i => i) 1 s = none := by
  have h : (0 : Int) < (1024 : Int).tdiv 2 := by decide
  refine ⟨rfl, rfl, ?_, ?_⟩
  · unfold sync_test_setup
    rw [show rcu_hash_list_init false s nr_buckets = some (s, none, 0) from rfl]
    exact if_pos h
  · unfold sync_test_setup
    rw [show rcx_hash_list_init false s nr_buckets = some (s, none, 0) from rfl]
    exact if_pos h

/-! ## C26: the number of aborts before the locking fallback -/

/-- C26 on the bucket of `mem_3_7` with ten transactions that abort.  Adding the
absent key 5, `rcx_list_lf_add` starts an eleventh transaction after the tenth
abort (its test is `retries++ > LF_RETRY_LIMIT`): of the twelve answers of the
hardware eleven are used, ten aborts are recorded and the eleventh transaction
links the node; only with eleven aborts does it take the lock.  Removing the
present key 3, `rcx_list_lf_remove` (test `retries++ >= LF_RETRY_LIMIT`) takes
the lock after the tenth abort: ten answers are used. -/
theorem lf_add_eleventh_transaction :
    (rcx_list_lf_add 0
        { mem_3_7 with
          xbegin := List.replicate 10 XABORT_CONFLICT ++ [XBEGIN_STARTED, XABORT_CONFLICT] }
        0 5).map (fun q => (q.1.xbegin, q.1.abort_cnt.map (fun c => c.nr_aborts), q.2)) =
      some ([XABORT_CONFLICT], [10], 1) ∧
    (rcx_list_lf_add 0
        { mem_3_7 with xbegin := List.replicate 11 XABORT_CONFLICT ++ [XABORT_CONFLICT] }
        0 5).map (fun q => (q.1.xbegin, q.1.abort_cnt.map (fun c => c.nr_aborts), q.2)) =
      some ([XABORT_CONFLICT], [11], 1) ∧
    (rcx_list_lf_remove 0
        { mem_3_7 with
          xbegin := List.replicate 10 XABORT_CONFLICT ++ [XBEGIN_STARTED, XABORT_CONFLICT] }
        0 3).map (fun q => (q.1.xbegin, q.1.abort_cnt.map (fun c => c.nr_aborts), q.2)) =
      some ([XBEGIN_STARTED, XABORT_CONFLICT], [10], 1) := by
  decide

/-! ## C28, C29: the `removed` flag on the locking fallback of the removes -/

/-- C28 on the bucket of `mem_3_7`, every node of which has `removed = 0`.  The
key 3 is removed by `rcx_list_fb1_remove` after an abort without the retry bit
(`locking_path`), and by `rcx_list_lf_remove` after ten aborts: both return 1,
and the node 3 holding the key 7, the successor of the unlinked node, is still
in the bucket and has `removed = 1` (the store is `n->removed = 1`). -/
theorem locked_remove_marks_reachable_node :
    bucket_nodes mem_3_7 0 = some [1, 2, 3, 0] ∧
    mem_3_7.nodes.map (fun n => n.removed) = [0, 0, 0, 0] ∧
    (rcx_list_fb1_remove 2 0 { mem_3_7 with xbegin := [XABORT_CONFLICT] } 0 3).map
        (fun q => (q.2, bucket_nodes q.1 0, (q.1.nodes[3]?).map (fun n => (n.val, n.removed)))) =
      some (1, some [1, 3, 0], some (7, 1)) ∧
    (rcx_list_lf_remove 0 { mem_3_7 with xbegin := List.replicate 10 XABORT_CONFLICT } 0 3).map
        (fun q => (q.2, bucket_nodes q.1 0, (q.1.nodes[3]?).map (fun n => (n.val, n.removed)))) =
      some (1, some [1, 3, 0], some (7, 1)) := by
  decide

/-- C29 on the bucket of `mem_3_7`.  On their locking fallback
`rcx_list_fb1_remove` (abort without the retry bit) and `rcx_list_lf_remove`
(ten aborts) unlink the node 2 holding the key 3 and hand it to reclamation with
`removed = 0`; on the speculative path the same calls leave it with
`removed = 1`. -/
theorem locked_remove_leaves_unlinked_node_unmarked :
    (rcx_list_fb1_remove 2 0 { mem_3_7 with xbegin := [XABORT_CONFLICT] } 0 3).map
        (fun q => (q.2, bucket_nodes q.1 0, q.1.retired,
          (q.1.nodes[2]?).map (fun n => (n.val, n.removed)))) =
      some (1, some [1, 3, 0], [2], some (3, 0)) ∧
    (rcx_list_lf_remove 0 { mem_3_7 with xbegin := List.replicate 10 XABORT_CONFLICT } 0 3).map
        (fun q => (q.2, bucket_nodes q.1 0, q.1.retired,
          (q.1.nodes[2]?).map (fun n => (n.val, n.removed)))) =
      some (1, some [1, 3, 0], [2], some (3, 0)) ∧
    (rcx_list_fb1_remove 2 0 mem_3_7 0 3).map
        (fun q => (q.2, bucket_nodes q.1 0, q.1.retired,
          (q.1.nodes[2]?).map (fun n => (n.val, n.removed)))) =
      some (1, some [1, 3, 0], [2], some (3, 1)) ∧
    (rcx_list_lf_remove 0 mem_3_7 0 3).map
        (fun q => (q.2, bucket_nodes q.1 0, q.1.retired,
          (q.1.nodes[2]?).map (fun n => (n.val, n.removed)))) =
      some (1, some [1, 3, 0], [2], some (3, 1)) := by
  refine ⟨?_, ?_, ?_, ?_⟩ <;> decide

/-! ## Stores that leave the abort counters alone -/

theorem node_store_abort_cnt (s s1 : State) (p : Nat) (f : node_t → node_t)
    (h : node_store s p f = some s1) : s1.abort_cnt = s.abort_cnt := by
  unfold node_store at h
  split at h
  · rw [← Option.some.inj h]
  · exact absurd h (by simp)

theorem list_store_abort_cnt (s s1 : State) (p : Nat) (f : list_t → list_t)
    (h : list_store s p f = some s1) : s1.abort_cnt = s.abort_cnt := by
  unfold list_store at h
  split at h
  · rw [← Option.some.inj h]
  · exact absurd h (by simp)

theorem spin_lock_list_abort_cnt (s s1 : State) (p : Nat)
    (h : spin_lock_list s p = some s1) : s1.abort_cnt = s.abort_cnt := by
  unfold spin_lock_list at h
  split at h
  · split at h
    · exact absurd h (by simp)
    · exact list_store_abort_cnt _ _ _ _ h
  · exact absurd h (by simp)

theorem rcx_list_locked_add_abort_cnt (s s1 : State) (p_list : Nat) (val r : Int)
    (h : rcx_list_locked_add s p_list val = some (s1, r)) : s1.abort_cnt = s.abort_cnt := by
  unfold rcx_list_locked_add at h
  simp only [Option.bind_eq_bind, Option.bind_eq_some, Option.pure_def] at h
  obtain ⟨s2, h2, ⟨p_prev, p_next, v⟩, _, h3⟩ := h
  rw [← spin_lock_list_abort_cnt _ _ _ h2]
  split at h3
  · simp only [rcx_alloc_node_eq, Option.some_bind, Option.bind_eq_some] at h3
    obtain ⟨s3, h4, s4, h5, h6⟩ := h3
    have e : s4 = s1 := congrArg Prod.fst (Option.some.inj h6)
    rw [← e, list_store_abort_cnt _ _ _ _ h5, node_store_abort_cnt _ _ _ _ h4]
  · simp only [Option.some_bind, Option.bind_eq_some] at h3
    obtain ⟨s4, h5, h6⟩ := h3
    have e : s4 = s1 := congrArg Prod.fst (Option.some.inj h6)
    rw [← e, list_store_abort_cnt _ _ _ _ h5]

theorem rcx_list_locked_remove_abort_cnt (s s1 : State) (p_list : Nat) (val r : Int)
    (h : rcx_list_locked_remove s p_list val = some (s1, r)) : s1.abort_cnt = s.abort_cnt := by
  unfold rcx_list_locked_remove at h
  simp only [Option.bind_eq_bind, Option.bind_eq_some, Option.pure_def] at h
  obtain ⟨s2, h2, ⟨p_prev, p_next, v⟩, _, h3⟩ := h
  rw [← spin_lock_list_abort_cnt _ _ _ h2]
  split at h3
  · simp only [Option.bind_eq_some] at h3
    obtain ⟨nx, _, s3, h4, p_n, _, s4, h5, s5, h6, h7⟩ := h3
    have e : rcx_free_node s5 p_next = s1 := congrArg Prod.fst (Option.some.inj h7)
    rw [← e]
    show s5.abort_cnt = _
    rw [list_store_abort_cnt _ _ _ _ h6, node_store_abort_cnt _ _ _ _ h5,
      node_store_abort_cnt _ _ _ _ h4]
  · simp only [Option.bind_eq_some] at h3
    obtain ⟨s3, h4, h5⟩ := h3
    have e : s3 = s1 := congrArg Prod.fst (Option.some.inj h5)
    rw [← e, list_store_abort_cnt _ _ _ _ h4]

/-! ## C27: the retry bit decides what follows an abort under `hwa` -/

theorem rcx_list_fb1_add_status (fuel cpu : Nat) (s : State) (p_list : Nat) (val : Int)
    (l : list_t) (p_prev b : Nat) (v : Int) (prev nb : node_t) (cnt : rtm_abort_cnt) (st : Nat)
    (hcpu : s.abort_cnt[cpu]? = some cnt)
    (hl : s.lists[p_list]? = some l) (hfree : l.rcuspin = false)
    (hfind : list_find s p_list val = some (p_prev, b, v))
    (hprev : s.nodes[p_prev]? = some prev) (hb : s.nodes[b]? = some nb)
    (hne : st ≠ XBEGIN_STARTED) (hv : v ≠ val)
    (hst : rcx_lf_tx_stat s (s.xbegin.headD XBEGIN_STARTED) p_list p_prev b = some st) :
    rcx_list_fb1_add (fuel + 1) cpu s p_list val =
      if st &&& XABORT_RETRY ≠ 0 then
        rcx_list_fb1_add fuel cpu (aborted s val b cpu cnt st) p_list val
      else rcx_list_locked_add (aborted s val b cpu cnt st) p_list val := by
  have hplt := getElem?_lt_length _ _ _ hprev
  have hblt := getElem?_lt_length _ _ _ hb
  have e : rcx_lf_tx_stat
      { nodes := s.nodes ++ [added_node val b], lists := s.lists, retired := s.retired,
        freed := s.freed, xbegin := s.xbegin.tail, abort_cnt := s.abort_cnt }
      (s.xbegin.headD XBEGIN_STARTED) p_list p_prev b = some st := by
    rw [← hst]
    unfold rcx_lf_tx_stat spin_is_locked_list
    rw [rcx_add_tx_stat_congr s _ _ p_prev b (List.getElem?_append_left hplt)
      (List.getElem?_append_left hblt)]
  rw [rcx_list_fb1_add]
  simp only [hfind, Option.bind_eq_bind, Option.some_bind, hv, ne_eq, not_false_eq_true, if_true,
    rcx_alloc_node_eq, xbegin, spin_is_locked_list, hl, hfree, Bool.false_eq_true, if_false]
  unfold spin_is_locked_list at e
  rw [e]
  simp only [Option.some_bind, hne, if_false, record_abort, hcpu, kfree, aborted, ne_eq]

theorem rcx_list_fb1_remove_status (fuel cpu : Nat) (s : State) (p_list : Nat) (val : Int)
    (l : list_t) (p_prev b : Nat) (nb : node_t) (cnt : rtm_abort_cnt) (st : Nat)
    (hcpu : s.abort_cnt[cpu]? = some cnt)
    (hl : s.lists[p_list]? = some l) (hfree : l.rcuspin = false)
    (hfind : list_find s p_list val = some (p_prev, b, val))
    (hb : s.nodes[b]? = some nb)
    (hne : st ≠ XBEGIN_STARTED)
    (hst : rcx_lf_remove_tx_stat s (s.xbegin.headD XBEGIN_STARTED) p_list p_prev b nb.p_next =
      some st) :
    rcx_list_fb1_remove (fuel + 1) cpu s p_list val =
      if st &&& XABORT_RETRY ≠ 0 then
        rcx_list_fb1_remove fuel cpu (abort_noted s cpu cnt st) p_list val
      else rcx_list_locked_remove (abort_noted s cpu cnt st) p_list val := by
  have e : rcx_lf_remove_tx_stat
      { nodes := s.nodes, lists := s.lists, retired := s.retired,
        freed := s.freed, xbegin := s.xbegin.tail, abort_cnt := s.abort_cnt }
      (s.xbegin.headD XBEGIN_STARTED) p_list p_prev b nb.p_next = some st := hst
  rw [rcx_list_fb1_remove]
  simp only [hfind, Option.bind_eq_bind, Option.some_bind, if_true, hb, xbegin,
    spin_is_locked_list, hl, hfree, Bool.false_eq_true, if_false]
  rw [e]
  simp only [Option.some_bind, hne, if_false, record_abort, hcpu, abort_noted, ne_eq]

/-- C27: in `rcx_list_fb1_add` and `rcx_list_fb1_remove` a pass whose
transaction aborted with the status word `st` (the answer of the hardware, or
the status of an explicit abort of the body) is followed by a new pass from the
head of the bucket when `st` has the retry bit, and by the pass under the writer
spinlock otherwise.  The memory the follow-up starts from has one abort recorded
for the CPU: `nr_aborts` is incremented once (modulo 2^64), and the pass under
the lock records nothing more. -/
theorem fb1_abort_follow_up (fuel cpu : Nat) (s : State) (p_list : Nat) (val : Int)
    (l : list_t) (p_prev b : Nat) (v : Int) (prev nb : node_t) (cnt : rtm_abort_cnt) (st : Nat)
    (hcpu : s.abort_cnt[cpu]? = some cnt)
    (hl : s.lists[p_list]? = some l) (hfree : l.rcuspin = false)
    (hfind : list_find s p_list val = some (p_prev, b, v))
    (hprev : s.nodes[p_prev]? = some prev) (hb : s.nodes[b]? = some nb)
    (hne : st ≠ XBEGIN_STARTED) :
    (v ≠ val →
      rcx_lf_tx_stat s (s.xbegin.headD XBEGIN_STARTED) p_list p_prev b = some st →
      rcx_list_fb1_add (fuel + 1) cpu s p_list val =
        if st &&& XABORT_RETRY ≠ 0 then
          rcx_list_fb1_add fuel cpu (aborted s val b cpu cnt st) p_list val
        else rcx_list_locked_add (aborted s val b cpu cnt st) p_list val) ∧
    (v = val →
      rcx_lf_remove_tx_stat s (s.xbegin.headD XBEGIN_STARTED) p_list p_prev b nb.p_next =
        some st →
      rcx_list_fb1_remove (fuel + 1) cpu s p_list val =
        if st &&& XABORT_RETRY ≠ 0 then
          rcx_list_fb1_remove fuel cpu (abort_noted s cpu cnt st) p_list val
        else rcx_list_locked_remove (abort_noted s cpu cnt st) p_list val) ∧
    (aborted s val b cpu cnt st).abort_cnt = s.abort_cnt.set cpu (record_abort_cnt cnt st) ∧
    (abort_noted s cpu cnt st).abort_cnt = s.abort_cnt.set cpu (record_abort_cnt cnt st) ∧
    (record_abort_cnt cnt st).nr_aborts = wrap_ulong (cnt.nr_aborts + 1) ∧
    (cnt.nr_aborts < 18446744073709551615 →
      (record_abort_cnt cnt st).nr_aborts = cnt.nr_aborts + 1) ∧
    (∀ s1 r, rcx_list_locked_add (aborted s val b cpu cnt st) p_list val = some (s1, r) →
      s1.abort_cnt = s.abort_cnt.set cpu (record_abort_cnt cnt st)) ∧
    (∀ s1 r, rcx_list_locked_remove (abort_noted s cpu cnt st) p_list val = some (s1, r) →
      s1.abort_cnt = s.abort_cnt.set cpu (record_abort_cnt cnt st)) := by
  refine ⟨fun hv hst => ?_, fun hv hst => ?_, rfl, rfl, record_abort_cnt_nr_aborts cnt st,
    fun hlt => ?_, fun s1 r h => ?_, fun s1 r h => ?_⟩
  · exact rcx_list_fb1_add_status fuel cpu s p_list val l p_prev b v prev nb cnt st hcpu hl hfree
      hfind hprev hb hne hv hst
  · subst hv
    exact rcx_list_fb1_remove_status fuel cpu s p_list v l p_prev b nb cnt st hcpu hl hfree
      hfind hb hne hst
  · rw [record_abort_cnt_nr_aborts]
    unfold wrap_ulong
    omega
  · exact rcx_list_locked_add_abort_cnt _ _ _ _ _ h
  · exact rcx_list_locked_remove_abort_cnt _ _ _ _ _ h

theorem fb1_abort_follow_up_witness :
    rcx_list_fb1_add 2 0 mem_3_7_abort 0 5 =
      rcx_list_fb1_add 1 0
        (aborted mem_3_7_abort 5 3 0 { counts := [0, 0, 0, 0, 0, 0, 0, 0, 0], nr_aborts := 0 }
          (XABORT_RETRY ||| XABORT_CONFLICT)) 0 5 ∧
    rcx_list_fb1_remove 2 0 { mem_3_7 with xbegin := [XABORT_CONFLICT] } 0 3 =
      rcx_list_locked_remove
        (abort_noted { mem_3_7 with xbegin := [XABORT_CONFLICT] } 0
          { counts := [0, 0, 0, 0, 0, 0, 0, 0, 0], nr_aborts := 0 } XABORT_CONFLICT) 0 3 :=
  ⟨((fb1_abort_follow_up 1 0 mem_3_7_abort 0 5 { p_head := some 1, rcuspin := false } 2 3 7
      { val := 3, p_next := some 3, removed := 0,
        pnd_slocks := [false, false, false, false], global_lock := false }
      { val := 7, p_next := some 0, removed := 0,
        pnd_slocks := [false, false, false, false], global_lock := false }
      { counts := [0, 0, 0, 0, 0, 0, 0, 0, 0], nr_aborts := 0 }
      (XABORT_RETRY ||| XABORT_CONFLICT) (by decide) (by decide) rfl (by decide) (by decide)
      (by decide) (by decide)).1 (by decide) (by decide)).trans (if_pos (by decide)),
   ((fb1_abort_follow_up 1 0 { mem_3_7 with xbegin := [XABORT_CONFLICT] } 0 3
      { p_head := some 1, rcuspin := false } 1 2 3
      { val := LIST_VAL_MIN, p_next := some 2, removed := 0,
        pnd_slocks := [false, false, false, false], global_lock := false }
      { val := 3, p_next := some 3, removed := 0,
        pnd_slocks := [false, false, false, false], global_lock := false }
      { counts := [0, 0, 0, 0, 0, 0, 0, 0, 0], nr_aborts := 0 }
      XABORT_CONFLICT (by decide) (by decide) rfl (by decide) (by decide)
      (by decide) (by decide)).2.1 rfl (by decide)).trans (if_neg (by decide))⟩

/-! ## The other removes on a present key: the pass that unlinks the node -/

theorem rcu_list_fg_remove_eval (fuel : Nat) (s : State) (p_list : Nat) (val : Int)
    (p_prev b c : Nat) (prev nb nn : node_t)
    (hfind : list_find s p_list val = some (p_prev, b, val))
    (hprev : s.nodes[p_prev]? = some prev) (hb : s.nodes[b]? = some nb)
    (hc : s.nodes[c]? = some nn) (hpn : prev.p_next = some b) (hbn : nb.p_next = some c)
    (h12 : p_prev ≠ b) (h23 : b ≠ c) (h13 : p_prev ≠ c)
    (hq1 : node_quiet prev) (hq2 : node_quiet nb) (hq3 : node_quiet nn) :
    ∃ s1, rcu_list_fg_remove (fuel + 1) s p_list val = some (s1, 1) ∧
      same_links (unlinked s p_prev b prev nb) s1 ∧ s1.retired = s.retired ++ [b] ∧
      s1.freed = s.freed ∧ s1.abort_cnt = s.abort_cnt ∧ s1.xbegin = s.xbegin := by
  obtain ⟨hr1, hg1, hs1⟩ := hq1
  obtain ⟨hr2, hg2, hs2⟩ := hq2
  obtain ⟨hr3, hg3, hs3⟩ := hq3
  have hplt := getElem?_lt_length _ _ _ hprev
  have hblt := getElem?_lt_length _ _ _ hb
  have hclt := getElem?_lt_length _ _ _ hc
  have h21 : b ≠ p_prev := Ne.symm h12
  have h32 : c ≠ b := Ne.symm h23
  have h31 : c ≠ p_prev := Ne.symm h13
  rw [rcu_list_fg_remove]
  simp only [hfind, Option.bind_eq_bind, Option.some_bind, if_true, hb, hbn]
  simp only [global_lock_triple, spin_lock_global, node_store, hprev, hb, hc, hg1, hg2, hg3,
    List.getElem?_set, List.length_set, h12, h21, h23, h32, h13, h31, hplt, hblt, hclt,
    if_true, if_false, Bool.false_eq_true, Option.some_bind]
  simp only [remove_validate, hprev, hb, hc, hpn, hbn, hr1, hr2, hr3,
    List.getElem?_set, List.length_set, h12, h21, h23, h32, h13, h31, hplt, hblt, hclt,
    if_true, if_false, not_true_eq_false, or_self, ne_eq, Option.some_bind]
  simp only [node_store, global_unlock_triple, spin_unlock_global, rcu_free_node, RCU_FREE,
    hprev, hb, hc,
    List.getElem?_set, List.length_set, h12, h21, h23, h32, h13, h31, hplt, hblt, hclt,
    if_true, if_false, Option.some_bind, Option.pure_def]
  refine ⟨_, rfl, ?_, rfl, rfl, rfl, rfl⟩
  apply same_links_of
  · rfl
  · intro i
    unfold unlinked
    simp only [List.getElem?_set, List.length_set, hplt, hblt, hclt, if_true]
    by_cases e1 : p_prev = i
    · subst e1
      simp [h21, h31, node_links, hbn]
    · by_cases e2 : b = i
      · subst e2
        simp [e1, h32, hb, node_links, hbn]
      · by_cases e3 : c = i
        · subst e3
          simp [e1, e2, hc, node_links]
        · simp [e1, e2, e3]

theorem rcu_list_numa_remove_eval (fuel : Nat) (numa_node_id : Nat → Nat) (s : State)
    (p_list : Nat) (val : Int) (p_prev b c : Nat) (prev nb nn : node_t)
    (hn : ∀ i, numa_node_id i < NR_NUMA_NODES)
    (hfind : list_find s p_list val = some (p_prev, b, val))
    (hprev : s.nodes[p_prev]? = some prev) (hb : s.nodes[b]? = some nb)
    (hc : s.nodes[c]? = some nn) (hpn : prev.p_next = some b) (hbn : nb.p_next = some c)
    (h12 : p_prev ≠ b) (h23 : b ≠ c) (h13 : p_prev ≠ c)
    (hq1 : node_quiet prev) (hq2 : node_quiet nb) (hq3 : node_quiet nn) :
    ∃ s1, rcu_list_numa_remove (fuel + 1) numa_node_id s p_list val = some (s1, 1) ∧
      same_links (unlinked s p_prev b prev nb) s1 ∧ s1.retired = s.retired ++ [b] ∧
      s1.freed = s.freed ∧ s1.abort_cnt = s.abort_cnt ∧ s1.xbegin = s.xbegin := by
  obtain ⟨hr1, hg1, hs1⟩ := hq1
  obtain ⟨hr2, hg2, hs2⟩ := hq2
  obtain ⟨hr3, hg3, hs3⟩ := hq3
  have hplt := getElem?_lt_length _ _ _ hprev
  have hblt := getElem?_lt_length _ _ _ hb
  have hclt := getElem?_lt_length _ _ _ hc
  have h21 : b ≠ p_prev := Ne.symm h12
  have h32 : c ≠ b := Ne.symm h23
  have h31 : c ≠ p_prev := Ne.symm h13
  rw [rcu_list_numa_remove]
  simp only [hfind, Option.bind_eq_bind, Option.some_bind, if_true, hb, hbn]
  simp only [pnd_lock_triple, spin_lock_pnd, node_store, hprev, hb, hc, hs1, hs2, hs3, hn,
    List.getElem?_replicate, List.length_replicate,
    List.getElem?_set, List.length_set, h12, h21, h23, h32, h13, h31, hplt, hblt, hclt,
    if_true, if_false, Bool.false_eq_true, Option.some_bind]
  simp only [global_lock_triple, spin_lock_global, node_store, hprev, hb, hc, hg1, hg2, hg3,
    List.getElem?_set, List.length_set, h12, h21, h23, h32, h13, h31, hplt, hblt, hclt,
    if_true, if_false, Bool.false_eq_true, Option.some_bind]
  simp only [remove_validate, hprev, hb, hc, hpn, hbn, hr1, hr2, hr3,
    List.getElem?_set, List.length_set, h12, h21, h23, h32, h13, h31, hplt, hblt, hclt,
    if_true, if_false, not_true_eq_false, or_self, ne_eq, Option.some_bind]
  simp only [node_store, global_unlock_triple, spin_unlock_global, pnd_unlock_triple,
    spin_unlock_pnd, rcu_free_node, RCU_FREE, hprev, hb, hc, hs1, hs2, hs3, hn,
    List.length_replicate,
    List.getElem?_set, List.length_set, h12, h21, h23, h32, h13, h31, hplt, hblt, hclt,
    if_true, if_false, Option.some_bind, Option.pure_def]
  refine ⟨_, rfl, ?_, rfl, rfl, rfl, rfl⟩
  apply same_links_of
  · rfl
  · intro i
    unfold unlinked
    simp only [List.getElem?_set, List.length_set, hplt, hblt, hclt, if_true]
    by_cases e1 : p_prev = i
    · subst e1
      simp [h21, h31, node_links, hbn]
    · by_cases e2 : b = i
      · subst e2
        simp [e1, h32, hb, node_links, hbn]
      · by_cases e3 : c = i
        · subst e3
          simp [e1, e2, hc, node_links]
        · simp [e1, e2, e3]

theorem rcx_lf_remove_tx_stat_quiet (s : State) (p_list : Nat) (l : list_t) (x p_prev b c : Nat)
    (prev nb nn : node_t) (hl : s.lists[p_list]? = some l) (hfree : l.rcuspin = false)
    (hx : x = XBEGIN_STARTED)
    (hprev : s.nodes[p_prev]? = some prev) (hb : s.nodes[b]? = some nb)
    (hc : s.nodes[c]? = some nn) (hpn : prev.p_next = some b) (hbn : nb.p_next = some c)
    (hr1 : prev.removed = 0) (hr2 : nb.removed = 0) (hr3 : nn.removed = 0) :
    rcx_lf_remove_tx_stat s x p_list p_prev b (some c) = some XBEGIN_STARTED := by
  unfold rcx_lf_remove_tx_stat spin_is_locked_list rcx_remove_tx_stat remove_validate
  simp only [hx, if_true, hl, hfree, hprev, hb, hc, hpn, hbn, hr1, hr2, hr3, ne_eq,
    not_true_eq_false, or_self, if_false]

theorem rcx_list_fb1_remove_eval (fuel cpu : Nat) (s : State) (p_list : Nat) (val : Int)
    (l : list_t) (p_prev b c : Nat) (prev nb nn : node_t)
    (hl : s.lists[p_list]? = some l) (hfree : l.rcuspin = false)
    (hx : s.xbegin.headD XBEGIN_STARTED = XBEGIN_STARTED)
    (hfind : list_find s p_list val = some (p_prev, b, val))
    (hprev : s.nodes[p_prev]? = some prev) (hb : s.nodes[b]? = some nb)
    (hc : s.nodes[c]? = some nn) (hpn : prev.p_next = some b) (hbn : nb.p_next = some c)
    (h12 : p_prev ≠ b)
    (hr1 : prev.removed = 0) (hr2 : nb.removed = 0) (hr3 : nn.removed = 0) :
    rcx_list_fb1_remove (fuel + 1) cpu s p_list val =
      some ({ unlinked_marked s p_prev b prev nb with xbegin := s.xbegin.tail }, 1) := by
  have e : rcx_lf_remove_tx_stat
      { nodes := s.nodes, lists := s.lists, retired := s.retired,
        freed := s.freed, xbegin := s.xbegin.tail, abort_cnt := s.abort_cnt }
      (s.xbegin.headD XBEGIN_STARTED) p_list p_prev b (some c) = some XBEGIN_STARTED :=
    rcx_lf_remove_tx_stat_quiet _ p_list l _ p_prev b c prev nb nn hl hfree hx hprev hb hc hpn
      hbn hr1 hr2 hr3
  rw [rcx_list_fb1_remove]
  simp only [hfind, Option.bind_eq_bind, Option.some_bind, if_true, hb, xbegin,
    spin_is_locked_list, hl, hfree, Bool.false_eq_true, if_false, hbn]
  rw [e]
  simp only [Option.some_bind, if_true, node_store, hprev, hb, List.getElem?_set, h12,
    if_false, Option.pure_def, rcx_free_node, RCU_FREE, unlinked_marked, hbn]

theorem rcx_list_lf_remove_eval (cpu : Nat) (s : State) (p_list : Nat) (val : Int)
    (l : list_t) (p_prev b c : Nat) (prev nb nn : node_t)
    (hl : s.lists[p_list]? = some l) (hfree : l.rcuspin = false)
    (hx : s.xbegin.headD XBEGIN_STARTED = XBEGIN_STARTED)
    (hfind : list_find s p_list val = some (p_prev, b, val))
    (hprev : s.nodes[p_prev]? = some prev) (hb : s.nodes[b]? = some nb)
    (hc : s.nodes[c]? = some nn) (hpn : prev.p_next = some b) (hbn : nb.p_next = some c)
    (h12 : p_prev ≠ b)
    (hr1 : prev.removed = 0) (hr2 : nb.removed = 0) (hr3 : nn.removed = 0) :
    rcx_list_lf_remove cpu s p_list val =
      some ({ unlinked_marked s p_prev b prev nb with xbegin := s.xbegin.tail }, 1) := by
  have e : rcx_lf_remove_tx_stat
      { nodes := s.nodes, lists := s.lists, retired := s.retired,
        freed := s.freed, xbegin := s.xbegin.tail, abort_cnt := s.abort_cnt }
      (s.xbegin.headD XBEGIN_STARTED) p_list p_prev b (some c) = some XBEGIN_STARTED :=
    rcx_lf_remove_tx_stat_quiet _ p_list l _ p_prev b c prev nb nn hl hfree hx hprev hb hc hpn
      hbn hr1 hr2 hr3
  unfold rcx_list_lf_remove
  rw [rcx_list_lf_remove_retry, if_neg (by decide)]
  simp only [hfind, Option.bind_eq_bind, Option.some_bind, if_true, hb, xbegin,
    spin_is_locked_list, hl, hfree, Bool.false_eq_true, if_false, hbn]
  rw [e]
  simp only [Option.some_bind, if_true, node_store, hprev, hb, List.getElem?_set, h12,
    if_false, Option.pure_def, rcx_free_node, RCU_FREE, unlinked_marked, hbn]

theorem rcx_list_htmlock_remove_eval (fuel cpu : Nat) (s : State)
    (p_list : Nat) (val : Int) (p_prev b c : Nat) (prev nb nn : node_t)
    (hx : s.xbegin.headD XBEGIN_STARTED = XBEGIN_STARTED)
    (hfind : list_find s p_list val = some (p_prev, b, val))
    (hprev : s.nodes[p_prev]? = some prev) (hb : s.nodes[b]? = some nb)
    (hc : s.nodes[c]? = some nn) (hpn : prev.p_next = some b) (hbn : nb.p_next = some c)
    (h12 : p_prev ≠ b) (h23 : b ≠ c) (h13 : p_prev ≠ c)
    (hq1 : node_quiet prev) (hq2 : node_quiet nb) (hq3 : node_quiet nn) :
    ∃ s1, rcx_list_htmlock_remove (fuel + 1) cpu s p_list val = some (s1, 1) ∧
      same_links (unlinked s p_prev b prev nb) s1 ∧ s1.retired = s.retired ++ [b] ∧
      s1.freed = s.freed ∧ s1.abort_cnt = s.abort_cnt ∧ s1.xbegin = s.xbegin.tail := by
  obtain ⟨hr1, hg1, hs1⟩ := hq1
  obtain ⟨hr2, hg2, hs2⟩ := hq2
  obtain ⟨hr3, hg3, hs3⟩ := hq3
  have hplt := getElem?_lt_length _ _ _ hprev
  have hblt := getElem?_lt_length _ _ _ hb
  have hclt := getElem?_lt_length _ _ _ hc
  have h21 : b ≠ p_prev := Ne.symm h12
  have h32 : c ≠ b := Ne.symm h23
  have h31 : c ≠ p_prev := Ne.symm h13
  rw [rcx_list_htmlock_remove]
  simp only [hfind, Option.bind_eq_bind, Option.some_bind, if_true, hb, hbn]
  simp only [htmlock_wait_triple, htmlock_is_set, hprev, hb, hc, hg1, hg2, hg3,
    Bool.false_eq_true, if_false, or_self, Option.some_bind]
  simp only [htmlock_tx_triple, xbegin, hx, if_true, htmlock_is_set, htmlock_store, node_store,
    hprev, hb, hc, hg1, hg2, hg3, Bool.false_eq_true, if_false, or_self,
    List.getElem?_set, List.length_set, h12, h21, h23, h32, h13, h31, hplt, hblt, hclt]
  rw [Option.some_bind, if_pos rfl]
  simp only [Option.some_bind]
  simp only [remove_validate_record, remove_validate, hprev, hb, hc, hpn, hbn, hr1, hr2, hr3,
    List.getElem?_set, List.length_set, h12, h21, h23, h32, h13, h31, hplt, hblt, hclt,
    if_true, if_false, not_true_eq_false, or_self, ne_eq]
  rw [Option.some_bind, if_pos rfl]
  simp only [node_store, htmlock_clear_triple, htmlock_store, rcx_free_node, RCU_FREE,
    hprev, hb, hc,
    List.getElem?_set, List.length_set, h12, h21, h23, h32, h13, h31, hplt, hblt, hclt,
    if_true, if_false, Option.some_bind, Option.pure_def]
  refine ⟨_, rfl, ?_, rfl, rfl, rfl, rfl⟩
  apply same_links_of
  · rfl
  · intro i
    unfold unlinked
    simp only [List.getElem?_set, List.length_set, hplt, hblt, hclt, if_true]
    by_cases e1 : p_prev = i
    · subst e1
      simp [h21, h31, node_links, hbn]
    · by_cases e2 : b = i
      · subst e2
        simp [e1, h32, hb, node_links, hbn]
      · by_cases e3 : c = i
        · subst e3
          simp [e1, e2, hc, node_links]
        · simp [e1, e2, e3]

theorem rcx_list_numa_remove_eval (fuel cpu : Nat) (numa_node_id : Nat → Nat) (s : State)
    (p_list : Nat) (val : Int) (p_prev b c : Nat) (prev nb nn : node_t)
    (hn : ∀ i, numa_node_id i < NR_NUMA_NODES)
    (hx : s.xbegin.headD XBEGIN_STARTED = XBEGIN_STARTED)
    (hfind : list_find s p_list val = some (p_prev, b, val))
    (hprev : s.nodes[p_prev]? = some prev) (hb : s.nodes[b]? = some nb)
    (hc : s.nodes[c]? = some nn) (hpn : prev.p_next = some b) (hbn : nb.p_next = some c)
    (h12 : p_prev ≠ b) (h23 : b ≠ c) (h13 : p_prev ≠ c)
    (hq1 : node_quiet prev) (hq2 : node_quiet nb) (hq3 : node_quiet nn) :
    ∃ s1, rcx_list_numa_remove (fuel + 1) cpu numa_node_id s p_list val = some (s1, 1) ∧
      same_links (unlinked s p_prev b prev nb) s1 ∧ s1.retired = s.retired ++ [b] ∧
      s1.freed = s.freed ∧ s1.abort_cnt = s.abort_cnt ∧ s1.xbegin = s.xbegin.tail := by
  obtain ⟨hr1, hg1, hs1⟩ := hq1
  obtain ⟨hr2, hg2, hs2⟩ := hq2
  obtain ⟨hr3, hg3, hs3⟩ := hq3
  have hplt := getElem?_lt_length _ _ _ hprev
  have hblt := getElem?_lt_length _ _ _ hb
  have hclt := getElem?_lt_length _ _ _ hc
  have h21 : b ≠ p_prev := Ne.symm h12
  have h32 : c ≠ b := Ne.symm h23
  have h31 : c ≠ p_prev := Ne.symm h13
  rw [rcx_list_numa_remove]
  simp only [hfind, Option.bind_eq_bind, Option.some_bind, if_true, hb, hbn]
  simp only [pnodelock_wait_triple, pnodelock_is_set, hprev, hb, hc, hs1, hs2, hs3, hn,
    List.getElem?_replicate, Bool.false_eq_true, if_false, if_true, or_self, Option.some_bind]
  simp only [pnodelock_tx_triple, xbegin, hx, if_true, pnodelock_is_set, pnodelock_store,
    node_store, hprev, hb, hc, hs1, hs2, hs3, hn, List.getElem?_replicate,
    List.length_replicate, Bool.false_eq_true, if_false, or_self,
    List.getElem?_set, List.length_set, h12, h21, h23, h32, h13, h31, hplt, hblt, hclt]
  rw [Option.some_bind, if_pos rfl]
  simp only [Option.some_bind]
  simp only [global_lock_triple, spin_lock_global, node_store, hprev, hb, hc, hg1, hg2, hg3,
    List.getElem?_set, List.length_set, h12, h21, h23, h32, h13, h31, hplt, hblt, hclt,
    if_true, if_false, Bool.false_eq_true, Option.some_bind]
  simp only [remove_validate_record, remove_validate, hprev, hb, hc, hpn, hbn, hr1, hr2, hr3,
    List.getElem?_set, List.length_set, h12, h21, h23, h32, h13, h31, hplt, hblt, hclt,
    if_true, if_false, not_true_eq_false, or_self, ne_eq]
  rw [Option.some_bind, if_pos rfl]
  simp only [node_store, global_unlock_triple, spin_unlock_global, pnodelock_clear_triple,
    pnodelock_store, rcx_free_node, RCU_FREE, hprev, hb, hc, hs1, hs2, hs3, hn,
    List.length_replicate,
    List.getElem?_set, List.length_set, h12, h21, h23, h32, h13, h31, hplt, hblt, hclt,
    if_true, if_false, Option.some_bind, Option.pure_def]
  refine ⟨_, rfl, ?_, rfl, rfl, rfl, rfl⟩
  apply same_links_of
  · rfl
  · intro i
    unfold unlinked
    simp only [List.getElem?_set, List.length_set, hplt, hblt, hclt, if_true]
    by_cases e1 : p_prev = i
    · subst e1
      simp [h21, h31, node_links, hbn]
    · by_cases e2 : b = i
      · subst e2
        simp [e1, h32, hb, node_links, hbn]
      · by_cases e3 : c = i
        · subst e3
          simp [e1, e2, hc, node_links]
        · simp [e1, e2, e3]

theorem rcx_list_hhtmlock_remove_eval (fuel cpu : Nat) (numa_node_id : Nat → Nat) (s : State)
    (p_list : Nat) (val : Int) (p_prev b c : Nat) (prev nb nn : node_t)
    (hn : ∀ i, numa_node_id i < NR_NUMA_NODES)
    (hx : s.xbegin.headD XBEGIN_STARTED = XBEGIN_STARTED)
    (hx2 : s.xbegin.tail.headD XBEGIN_STARTED = XBEGIN_STARTED)
    (hfind : list_find s p_list val = some (p_prev, b, val))
    (hprev : s.nodes[p_prev]? = some prev) (hb : s.nodes[b]? = some nb)
    (hc : s.nodes[c]? = some nn) (hpn : prev.p_next = some b) (hbn : nb.p_next = some c)
    (h12 : p_prev ≠ b) (h23 : b ≠ c) (h13 : p_prev ≠ c)
    (hq1 : node_quiet prev) (hq2 : node_quiet nb) (hq3 : node_quiet nn) :
    ∃ s1, rcx_list_hhtmlock_remove (fuel + 1) cpu numa_node_id s p_list val = some (s1, 1) ∧
      same_links (unlinked s p_prev b prev nb) s1 ∧ s1.retired = s.retired ++ [b] ∧
      s1.freed = s.freed ∧ s1.abort_cnt = s.abort_cnt ∧ s1.xbegin = s.xbegin.tail.tail := by
  obtain ⟨hr1, hg1, hs1⟩ := hq1
  obtain ⟨hr2, hg2, hs2⟩ := hq2
  obtain ⟨hr3, hg3, hs3⟩ := hq3
  have hplt := getElem?_lt_length _ _ _ hprev
  have hblt := getElem?_lt_length _ _ _ hb
  have hclt := getElem?_lt_length _ _ _ hc
  have h21 : b ≠ p_prev := Ne.symm h12
  have h32 : c ≠ b := Ne.symm h23
  have h31 : c ≠ p_prev := Ne.symm h13
  rw [rcx_list_hhtmlock_remove]
  simp only [hfind, Option.bind_eq_bind, Option.some_bind, if_true, hb, hbn]
  simp only [pnodelock_wait_triple, pnodelock_is_set, hprev, hb, hc, hs1, hs2, hs3, hn,
    List.getElem?_replicate, Bool.false_eq_true, if_false, if_true, or_self, Option.some_bind]
  simp only [pnodelock_tx_triple, xbegin, hx, if_true, pnodelock_is_set, pnodelock_store,
    node_store, hprev, hb, hc, hs1, hs2, hs3, hn, List.getElem?_replicate,
    List.length_replicate, Bool.false_eq_true, if_false, or_self,
    List.getElem?_set, List.length_set, h12, h21, h23, h32, h13, h31, hplt, hblt, hclt]
  rw [Option.some_bind, if_pos rfl]
  simp only [Option.some_bind]
  rw [hhtmlock_global_triple]
  simp only [htmlock_wait_triple, htmlock_is_set, hprev, hb, hc, hg1, hg2, hg3,
    List.getElem?_set, List.length_set, h12, h21, h23, h32, h13, h31, hplt, hblt, hclt,
    if_true, if_false, Bool.false_eq_true, or_self, Option.bind_eq_bind]
  rw [Option.some_bind]
  simp only [htmlock_tx_triple, xbegin, hx2, if_true, htmlock_is_set, htmlock_store, node_store,
    hprev, hb, hc, hg1, hg2, hg3,
    List.getElem?_set, List.length_set, h12, h21, h23, h32, h13, h31, hplt, hblt, hclt,
    if_true, if_false, Bool.false_eq_true, or_self]
  rw [Option.some_bind, if_pos rfl]
  simp only [Option.pure_def, Option.some_bind]
  simp only [remove_validate_record, remove_validate, hprev, hb, hc, hpn, hbn, hr1, hr2, hr3,
    List.getElem?_set, List.length_set, h12, h21, h23, h32, h13, h31, hplt, hblt, hclt,
    if_true, if_false, not_true_eq_false, or_self, ne_eq]
  rw [Option.some_bind, if_pos rfl]
  simp only [node_store, htmlock_clear_triple, htmlock_store, pnodelock_clear_triple,
    pnodelock_store, rcx_free_node, RCU_FREE, hprev, hb, hc, hs1, hs2, hs3, hn,
    List.length_replicate,
    List.getElem?_set, List.length_set, h12, h21, h23, h32, h13, h31, hplt, hblt, hclt,
    if_true, if_false, Option.some_bind, Option.pure_def]
  refine ⟨_, rfl, ?_, rfl, rfl, rfl, rfl⟩
  apply same_links_of
  · rfl
  · intro i
    unfold unlinked
    simp only [List.getElem?_set, List.length_set, hplt, hblt, hclt, if_true]
    by_cases e1 : p_prev = i
    · subst e1
      simp [h21, h31, node_links, hbn]
    · by_cases e2 : b = i
      · subst e2
        simp [e1, h32, hb, node_links, hbn]
      · by_cases e3 : c = i
        · subst e3
          simp [e1, e2, hc, node_links]
        · simp [e1, e2, e3]

/-! ## C31: every protocol makes the update of `rcu_list_add` / `rcu_list_remove` -/

theorem bucket_context (s : State) (p : Nat) (val : Int) (hwf : bucket_wf s p)
    (hq : bucket_quiet s p) (hv : val ≤ LIST_VAL_MAX) :
    ∃ l front p_prev b post prev nb, s.lists[p]? = some l ∧ l.rcuspin = false ∧
      bucket_nodes s p = some (front ++ p_prev :: b :: post) ∧
      list_find s p val = some (p_prev, b, node_val s.nodes b) ∧
      s.nodes[p_prev]? = some prev ∧ s.nodes[b]? = some nb ∧ p_prev ≠ b ∧
      prev.p_next = some b ∧ node_quiet prev ∧ node_quiet nb ∧
      ∀ a ∈ front ++ p_prev :: b :: post, quiet_at s a := by
  obtain ⟨front, p_prev, b, post, hbn, _, _, _, hfind⟩ := list_find_spec s p val hwf.1 hv
  obtain ⟨l, prev, nb, hl, _, hprev, hpn, hnb, _, _⟩ := chain_pieces s p front p_prev b post hbn
  obtain ⟨l3, hl3, hfree⟩ := (list_unlocked_iff _ _).mp hwf.2
  rw [hl] at hl3; cases hl3
  have hnd := bucket_nodes_nodup _ _ _ hwf.1 hbn
  have hne : p_prev ≠ b := by
    intro e
    subst e
    have := List.nodup_append.mp hnd
    simp at this
  have hqa := hq
  unfold bucket_quiet at hqa
  rw [hbn] at hqa
  exact ⟨l, front, p_prev, b, post, prev, nb, hl, hfree, hbn, hfind, hprev, hnb, hne, hpn,
    quiet_at_node s p_prev prev hprev (hqa p_prev (by simp)),
    quiet_at_node s b nb hnb (hqa b (by simp)), hqa⟩

theorem same_keys_of_links (x y : Option (State × Int)) (p : Nat) (s0 s1 : State) (r0 r1 : Int)
    (hx : x = some (s0, r0)) (hy : y = some (s1, r1)) (h : same_links s0 s1) :
    same_keys x y p :=
  ⟨s0, r0, s1, r1, hx, hy, bucket_vals_links s0 s1 h p⟩

theorem same_keys_of_exists (x y : Option (State × Int)) (p : Nat) (s0 : State) (r0 r1 : Int)
    (hx : x = some (s0, r0)) (hy : ∃ s1, y = some (s1, r1) ∧ same_links s0 s1) :
    same_keys x y p := by
  obtain ⟨s1, h1, h2⟩ := hy
  exact same_keys_of_links x y p s0 s1 r0 r1 hx h1 h2

theorem adds_refine_rcu (fuel cpu : Nat) (numa_node_id : Nat → Nat) (s : State) (p : Nat)
    (val : Int) (hwf : bucket_wf s p) (hq : bucket_quiet s p) (hx : no_abort s)
    (hn : ∀ i, numa_node_id i < NR_NUMA_NODES) (hv : val ≤ LIST_VAL_MAX) :
    same_keys (rcu_list_add s p val) (rcu_list_try_add s p val) p ∧
    same_keys (rcu_list_add s p val) (rcu_list_fg_add (fuel + 1) s p val) p ∧
    same_keys (rcu_list_add s p val) (rcu_list_numa_add (fuel + 1) numa_node_id s p val) p ∧
    same_keys (rcu_list_add s p val) (rcx_list_add cpu s p val) p ∧
    same_keys (rcu_list_add s p val) (rcx_list_lf_add cpu s p val) p ∧
    same_keys (rcu_list_add s p val) (rcx_list_fb1_add (fuel + 1) cpu s p val) p ∧
    same_keys (rcu_list_add s p val) (rcx_list_htmlock_add (fuel + 1) cpu s p val) p ∧
    same_keys (rcu_list_add s p val)
      (rcx_list_hhtmlock_add (fuel + 1) cpu numa_node_id s p val) p ∧
    same_keys (rcu_list_add s p val) (rcx_list_numa_add (fuel + 1) cpu numa_node_id s p val) p := by
  obtain ⟨l, front, p_prev, b, post, prev, nb, hl, hfree, _, hfind, hprev, hnb, hne, hpn, hq1,
    hq2, _⟩ := bucket_context s p val hwf hq hv
  have hrcu := rcu_list_add_eval s p val l p_prev b _ prev hl hfree hfind hprev
  have hx1 := no_abort_head s hx
  have hx2 := no_abort_head_tail s hx
  by_cases hvv : node_val s.nodes b = val
  · rw [if_pos hvv] at hrcu
    rw [hvv] at hfind
    have hr := same_links_refl s
    refine ⟨?_, ?_, ?_, ?_, ?_, ?_, ?_, ?_, ?_⟩
    · refine same_keys_of_links _ _ p s s 0 0 hrcu ?_ hr
      rw [rcu_list_try_add_eval s p val l p_prev b _ prev hl hfree hfind hprev, if_pos rfl]
    · exact same_keys_of_links _ _ p s s 0 0 hrcu
        (rcu_list_fg_add_present fuel s p val p_prev b hfind) hr
    · exact same_keys_of_links _ _ p s s 0 0 hrcu
        (rcu_list_numa_add_present fuel numa_node_id s p val p_prev b hfind) hr
    · exact same_keys_of_links _ _ p s s 0 0 hrcu
        (rcx_list_add_present cpu s p val p_prev b hfind) hr
    · exact same_keys_of_links _ _ p s s 0 0 hrcu
        (rcx_list_lf_add_present cpu s p val p_prev b hfind) hr
    · exact same_keys_of_links _ _ p s s 0 0 hrcu
        (rcx_list_fb1_add_present fuel cpu s p val p_prev b hfind) hr
    · exact same_keys_of_links _ _ p s s 0 0 hrcu
        (rcx_list_htmlock_add_present fuel cpu s p val p_prev b hfind) hr
    · exact same_keys_of_links _ _ p s s 0 0 hrcu
        (rcx_list_hhtmlock_add_present fuel cpu numa_node_id s p val p_prev b hfind) hr
    · exact same_keys_of_links _ _ p s s 0 0 hrcu
        (rcx_list_numa_add_present fuel cpu numa_node_id s p val p_prev b hfind) hr
  · rw [if_neg hvv] at hrcu
    refine ⟨?_, ?_, ?_, ?_, ?_, ?_, ?_, ?_, ?_⟩
    · refine same_keys_of_links _ _ p _ _ 0 0 hrcu ?_ (same_links_refl _)
      rw [rcu_list_try_add_eval s p val l p_prev b _ prev hl hfree hfind hprev, if_neg hvv]
    · exact same_keys_of_links _ _ p _ _ 0 1 hrcu
        (rcu_list_fg_add_eval fuel s p val p_prev b _ prev nb hfind hprev hnb hne hpn hq1 hq2
          hvv) (same_links_refl _)
    · obtain ⟨s1, h1, h2, _⟩ := rcu_list_numa_add_eval fuel numa_node_id s p val p_prev b _
        prev nb hn hfind hprev hnb hne hpn hq1 hq2 hvv
      exact same_keys_of_links _ _ p _ s1 0 1 hrcu h1 h2
    · exact same_keys_of_links _ _ p _ { linked s val p_prev b prev with xbegin := s.xbegin.tail }
        0 1 hrcu
        (rcx_list_add_eval cpu s p val p_prev b _ prev nb hx1 hfind hprev hnb hpn hq1.1 hq2.1
          hvv) (same_links_xbegin (linked s val p_prev b prev) s.xbegin.tail)
    · refine same_keys_of_links _ _ p _
        { linked s val p_prev b prev with xbegin := s.xbegin.tail } 0 1 hrcu ?_
        (same_links_xbegin (linked s val p_prev b prev) s.xbegin.tail)
      unfold rcx_list_lf_add
      exact rcx_list_lf_add_retry_eval 11 0 cpu s p val l p_prev b _ prev nb (by decide) hx1 hl
        hfree hfind hprev hnb hpn hq1.1 hq2.1 hvv
    · exact same_keys_of_links _ _ p _ { linked s val p_prev b prev with xbegin := s.xbegin.tail }
        0 1 hrcu
        (rcx_list_fb1_add_eval fuel cpu s p val l p_prev b _ prev nb hx1 hl hfree hfind hprev
          hnb hpn hq1.1 hq2.1 hvv) (same_links_xbegin (linked s val p_prev b prev) s.xbegin.tail)
    · obtain ⟨s1, h1, h2, _⟩ := rcx_list_htmlock_add_eval fuel cpu s p val p_prev b _
        prev nb hx1 hfind hprev hnb hne hpn hq1 hq2 hvv
      exact same_keys_of_links _ _ p _ s1 0 1 hrcu h1 h2
    · obtain ⟨s1, h1, h2, _⟩ := rcx_list_hhtmlock_add_eval fuel cpu numa_node_id s p val
        p_prev b _ prev nb hn hx1 hx2 hfind hprev hnb hne hpn hq1 hq2 hvv
      exact same_keys_of_links _ _ p _ s1 0 1 hrcu h1 h2
    · obtain ⟨s1, h1, h2, _⟩ := rcx_list_numa_add_eval fuel cpu numa_node_id s p val
        p_prev b _ prev nb hn hx1 hfind hprev hnb hne hpn hq1 hq2 hvv
      exact same_keys_of_links _ _ p _ s1 0 1 hrcu h1 h2

theorem removes_absent (fuel cpu : Nat) (numa_node_id : Nat → Nat) (s : State) (p : Nat)
    (val : Int) (p_prev b : Nat) (v : Int)
    (hfind : list_find s p val = some (p_prev, b, v)) (hv : v ≠ val) :
    rcu_list_fg_remove (fuel + 1) s p val = some (s, 0) ∧
    rcu_list_numa_remove (fuel + 1) numa_node_id s p val = some (s, 0) ∧
    rcx_list_lf_remove cpu s p val = some (s, 0) ∧
    rcx_list_fb1_remove (fuel + 1) cpu s p val = some (s, 0) ∧
    rcx_list_htmlock_remove (fuel + 1) cpu s p val = some (s, 0) ∧
    rcx_list_hhtmlock_remove (fuel + 1) cpu numa_node_id s p val = some (s, 0) ∧
    rcx_list_numa_remove (fuel + 1) cpu numa_node_id s p val = some (s, 0) := by
  refine ⟨?_, ?_, ?_, ?_, ?_, ?_, ?_⟩
  · rw [rcu_list_fg_remove]; simp [hfind, hv]
  · rw [rcu_list_numa_remove]; simp [hfind, hv]
  · unfold rcx_list_lf_remove
    rw [rcx_list_lf_remove_retry]; simp [hfind, hv, LF_RETRY_LIMIT]
  · rw [rcx_list_fb1_remove]; simp [hfind, hv]
  · rw [rcx_list_htmlock_remove]; simp [hfind, hv]
  · rw [rcx_list_hhtmlock_remove]; simp [hfind, hv]
  · rw [rcx_list_numa_remove]; simp [hfind, hv]

theorem rcx_list_remove_eval (cpu : Nat) (s : State) (p_list : Nat) (val : Int)
    (p_prev b c : Nat) (prev nb nn : node_t)
    (hx : s.xbegin.headD XBEGIN_STARTED = XBEGIN_STARTED)
    (hfind : list_find s p_list val = some (p_prev, b, val))
    (hprev : s.nodes[p_prev]? = some prev) (hb : s.nodes[b]? = some nb)
    (hc : s.nodes[c]? = some nn) (hpn : prev.p_next = some b) (hbn : nb.p_next = some c)
    (h12 : p_prev ≠ b)
    (hr1 : prev.removed = 0) (hr2 : nb.removed = 0) (hr3 : nn.removed = 0) :
    rcx_list_remove cpu s p_list val =
      some ({ unlinked_marked s p_prev b prev nb with xbegin := s.xbegin.tail }, 1) := by
  have e : rcx_remove_tx_stat
      { nodes := s.nodes, lists := s.lists, retired := s.retired,
        freed := s.freed, xbegin := s.xbegin.tail, abort_cnt := s.abort_cnt }
      (s.xbegin.headD XBEGIN_STARTED) p_prev b nb.p_next = some XBEGIN_STARTED := by
    have h := rcx_remove_tx_stat_quiet s (s.xbegin.headD XBEGIN_STARTED) p_prev b c prev nb nn
      hprev hb hc hpn hbn hr1 hr2 hr3
    rw [hx] at h
    rw [hx]
    exact h
  unfold rcx_list_remove
  simp only [hfind, Option.bind_eq_bind, Option.some_bind, if_true, hb, xbegin]
  rw [e]
  simp only [Option.some_bind, if_true, node_store, hprev, hb, List.getElem?_set, h12,
    if_false, Option.pure_def, rcx_free_node, RCU_FREE, unlinked_marked]

theorem removes_refine_rcu (fuel cpu : Nat) (numa_node_id : Nat → Nat) (s : State) (p : Nat)
    (val : Int) (hwf : bucket_wf s p) (hq : bucket_quiet s p) (hx : no_abort s)
    (hn : ∀ i, numa_node_id i < NR_NUMA_NODES) (hv : val < LIST_VAL_MAX) :
    same_keys (rcu_list_remove s p val) (rcu_list_try_remove s p val) p ∧
    same_keys (rcu_list_remove s p val) (rcu_list_fg_remove (fuel + 1) s p val) p ∧
    same_keys (rcu_list_remove s p val)
      (rcu_list_numa_remove (fuel + 1) numa_node_id s p val) p ∧
    same_keys (rcu_list_remove s p val) (rcx_list_remove cpu s p val) p ∧
    same_keys (rcu_list_remove s p val) (rcx_list_lf_remove cpu s p val) p ∧
    same_keys (rcu_list_remove s p val) (rcx_list_fb1_remove (fuel + 1) cpu s p val) p ∧
    same_keys (rcu_list_remove s p val) (rcx_list_htmlock_remove (fuel + 1) cpu s p val) p ∧
    same_keys (rcu_list_remove s p val)
      (rcx_list_hhtmlock_remove (fuel + 1) cpu numa_node_id s p val) p ∧
    same_keys (rcu_list_remove s p val)
      (rcx_list_numa_remove (fuel + 1) cpu numa_node_id s p val) p := by
  obtain ⟨l, front, p_prev, b, post, prev, nb, hl, hfree, hbn, hfind, hprev, hnb, hne, hpn, hq1,
    hq2, hqall⟩ := bucket_context s p val hwf hq (le_of_lt hv)
  have hrcu := rcu_list_remove_eval s p val l p_prev b _ prev nb hl hfree hfind hprev hnb
  have hx1 := no_abort_head s hx
  have hx2 := no_abort_head_tail s hx
  by_cases hvv : node_val s.nodes b = val
  · rw [if_pos hvv] at hrcu
    rw [hvv] at hfind
    obtain ⟨prev2, nb2, c, nn, rest, hpost, hprev2, hnb2, hc, _, hbnx, _, h23, h13⟩ :=
      remove_context s p front p_prev b post hwf.1 hbn (by rw [hvv]; exact hv)
    rw [hprev] at hprev2; cases hprev2
    rw [hnb] at hnb2; cases hnb2
    have hq3 : node_quiet nn := quiet_at_node s c nn hc (hqall c (by rw [hpost]; simp))
    have hm := same_links_unlinked_marked s p_prev b prev nb s.xbegin.tail hnb hne
    refine ⟨?_, ?_, ?_, ?_, ?_, ?_, ?_, ?_, ?_⟩
    · refine same_keys_of_links _ _ p _ _ 0 0 hrcu ?_ (same_links_refl _)
      rw [rcu_list_try_remove_eval s p val l p_prev b _ prev nb hl hfree hfind hprev hnb,
        if_pos rfl]
    · obtain ⟨s1, h1, h2, _⟩ := rcu_list_fg_remove_eval fuel s p val p_prev b c prev nb nn
        hfind hprev hnb hc hpn hbnx hne h23 h13 hq1 hq2 hq3
      exact same_keys_of_links _ _ p _ s1 0 1 hrcu h1 h2
    · obtain ⟨s1, h1, h2, _⟩ := rcu_list_numa_remove_eval fuel numa_node_id s p val p_prev b c
        prev nb nn hn hfind hprev hnb hc hpn hbnx hne h23 h13 hq1 hq2 hq3
      exact same_keys_of_links _ _ p _ s1 0 1 hrcu h1 h2
    · exact same_keys_of_links _ _ p _
        { unlinked_marked s p_prev b prev nb with xbegin := s.xbegin.tail } 0 1 hrcu
        (rcx_list_remove_eval cpu s p val p_prev b c prev nb nn hx1 hfind hprev hnb hc hpn hbnx
          hne hq1.1 hq2.1 hq3.1) hm
    · exact same_keys_of_links _ _ p _
        { unlinked_marked s p_prev b prev nb with xbegin := s.xbegin.tail } 0 1 hrcu
        (rcx_list_lf_remove_eval cpu s p val l p_prev b c prev nb nn hl hfree hx1 hfind hprev
          hnb hc hpn hbnx hne hq1.1 hq2.1 hq3.1) hm
    · exact same_keys_of_links _ _ p _
        { unlinked_marked s p_prev b prev nb with xbegin := s.xbegin.tail } 0 1 hrcu
        (rcx_list_fb1_remove_eval fuel cpu s p val l p_prev b c prev nb nn hl hfree hx1 hfind
          hprev hnb hc hpn hbnx hne hq1.1 hq2.1 hq3.1) hm
    · obtain ⟨s1, h1, h2, _⟩ := rcx_list_htmlock_remove_eval fuel cpu s p val p_prev b c
        prev nb nn hx1 hfind hprev hnb hc hpn hbnx hne h23 h13 hq1 hq2 hq3
      exact same_keys_of_links _ _ p _ s1 0 1 hrcu h1 h2
    · obtain ⟨s1, h1, h2, _⟩ := rcx_list_hhtmlock_remove_eval fuel cpu numa_node_id s p val
        p_prev b c prev nb nn hn hx1 hx2 hfind hprev hnb hc hpn hbnx hne h23 h13 hq1 hq2 hq3
      exact same_keys_of_links _ _ p _ s1 0 1 hrcu h1 h2
    · obtain ⟨s1, h1, h2, _⟩ := rcx_list_numa_remove_eval fuel cpu numa_node_id s p val
        p_prev b c prev nb nn hn hx1 hfind hprev hnb hc hpn hbnx hne h23 h13 hq1 hq2 hq3
      exact same_keys_of_links _ _ p _ s1 0 1 hrcu h1 h2
  · rw [if_neg hvv] at hrcu
    obtain ⟨a1, a2, a3, a4, a5, a6, a7⟩ :=
      removes_absent fuel cpu numa_node_id s p val p_prev b _ hfind hvv
    have hr := same_links_refl s
    refine ⟨?_, same_keys_of_links _ _ p s s 0 0 hrcu a1 hr,
      same_keys_of_links _ _ p s s 0 0 hrcu a2 hr,
      same_keys_of_links _ _ p s s 0 0 hrcu
        (rcx_list_remove_absent cpu s p val p_prev b _ hfind hvv) hr,
      same_keys_of_links _ _ p s s 0 0 hrcu a3 hr,
      same_keys_of_links _ _ p s s 0 0 hrcu a4 hr,
      same_keys_of_links _ _ p s s 0 0 hrcu a5 hr,
      same_keys_of_links _ _ p s s 0 0 hrcu a6 hr,
      same_keys_of_links _ _ p s s 0 0 hrcu a7 hr⟩
    refine same_keys_of_links _ _ p s s 0 0 hrcu ?_ hr
    rw [rcu_list_try_remove_eval s p val l p_prev b _ prev nb hl hfree hfind hprev hnb,
      if_neg hvv]

/-- C31: on a well-formed bucket at a quiescent point (writer lock free, no
node of the bucket locked or marked removed), when every transaction starts and
commits and `numa_node_id()` answers a node below `NR_NUMA_NODES`, the add of
every protocol returns and leaves the bucket with the sequence of values
`rcu_list_add` leaves, and the remove of every protocol returns and leaves the
sequence `rcu_list_remove` leaves, for every key of the set.  The keys of the set
lie strictly between the sentinels; the adds are covered for every value of
`val_t`, the removes for every value other than the tail sentinel's
`LIST_VAL_MAX`. -/
theorem protocols_refine_rcu (fuel cpu : Nat) (numa_node_id : Nat → Nat) (s : State) (p : Nat)
    (val : Int) (hwf : bucket_wf s p) (hq : bucket_quiet s p) (hx : no_abort s)
    (hn : ∀ i, numa_node_id i < NR_NUMA_NODES) (hv : val ≤ LIST_VAL_MAX) :
    (same_keys (rcu_list_add s p val) (rcu_list_try_add s p val) p ∧
     same_keys (rcu_list_add s p val) (rcu_list_fg_add (fuel + 1) s p val) p ∧
     same_keys (rcu_list_add s p val) (rcu_list_numa_add (fuel + 1) numa_node_id s p val) p ∧
     same_keys (rcu_list_add s p val) (rcx_list_add cpu s p val) p ∧
     same_keys (rcu_list_add s p val) (rcx_list_lf_add cpu s p val) p ∧
     same_keys (rcu_list_add s p val) (rcx_list_fb1_add (fuel + 1) cpu s p val) p ∧
     same_keys (rcu_list_add s p val) (rcx_list_htmlock_add (fuel + 1) cpu s p val) p ∧
     same_keys (rcu_list_add s p val)
       (rcx_list_hhtmlock_add (fuel + 1) cpu numa_node_id s p val) p ∧
     same_keys (rcu_list_add s p val)
       (rcx_list_numa_add (fuel + 1) cpu numa_node_id s p val) p) ∧
    (val ≠ LIST_VAL_MAX →
     same_keys (rcu_list_remove s p val) (rcu_list_try_remove s p val) p ∧
     same_keys (rcu_list_remove s p val) (rcu_list_fg_remove (fuel + 1) s p val) p ∧
     same_keys (rcu_list_remove s p val)
       (rcu_list_numa_remove (fuel + 1) numa_node_id s p val) p ∧
     same_keys (rcu_list_remove s p val) (rcx_list_remove cpu s p val) p ∧
     same_keys (rcu_list_remove s p val) (rcx_list_lf_remove cpu s p val) p ∧
     same_keys (rcu_list_remove s p val) (rcx_list_fb1_remove (fuel + 1) cpu s p val) p ∧
     same_keys (rcu_list_remove s p val) (rcx_list_htmlock_remove (fuel + 1) cpu s p val) p ∧
     same_keys (rcu_list_remove s p val)
       (rcx_list_hhtmlock_remove (fuel + 1) cpu numa_node_id s p val) p ∧
     same_keys (rcu_list_remove s p val)
       (rcx_list_numa_remove (fuel + 1) cpu numa_node_id s p val) p) :=
  ⟨adds_refine_rcu fuel cpu numa_node_id s p val hwf hq hx hn hv,
   fun hne => removes_refine_rcu fuel cpu numa_node_id s p val hwf hq hx hn
     (lt_of_le_of_ne hv hne)⟩

theorem protocols_refine_rcu_witness :
    same_keys (rcu_list_add mem_3_7 0 5) (rcx_list_numa_add 1 0 (fun _ => 1) mem_3_7 0 5) 0 ∧
    same_keys (rcu_list_remove mem_3_7 0 3)
      (rcx_list_hhtmlock_remove 1 0 (fun _ => 1) mem_3_7 0 3) 0 :=
  ⟨(protocols_refine_rcu 0 0 (fun _ => 1) mem_3_7 0 5 (by decide) (by decide) (by decide)
      (fun _ => show (1 : Nat) < NR_NUMA_NODES from by decide) (by decide)).1.2.2.2.2.2.2.2.2,
   ((protocols_refine_rcu 0 0 (fun _ => 1) mem_3_7 0 3 (by decide) (by decide) (by decide)
      (fun _ => show (1 : Nat) < NR_NUMA_NODES from by decide) (by decide)).2 (by decide)).2.2.2.2.2.2.2.1⟩

/-- Outside the keys of the set, at the value `LIST_VAL_MAX` of the tail
sentinel, on the bucket of `mem_3_7` (well-formed, at a quiescent point, no
abort pending): `rcu_list_remove` stops at the tail sentinel,
whose value equals the key, unlinks it and returns, leaving the values
`LIST_VAL_MIN, 3, 7`; `rcu_list_fg_remove` takes the successor `n` of the tail,
which is `NULL`, and does not return from locking it, whatever the fuel. -/
theorem remove_max_differs :
    bucket_wf mem_3_7 0 ∧ bucket_quiet mem_3_7 0 ∧ no_abort mem_3_7 ∧
    (rcu_list_remove mem_3_7 0 LIST_VAL_MAX).map (fun q => bucket_vals q.1 0) =
      some (some [LIST_VAL_MIN, 3, 7]) ∧
    (∀ fuel, rcu_list_fg_remove fuel mem_3_7 0 LIST_VAL_MAX = none) ∧
    ∀ fuel, ¬ same_keys (rcu_list_remove mem_3_7 0 LIST_VAL_MAX)
      (rcu_list_fg_remove fuel mem_3_7 0 LIST_VAL_MAX) 0 := by
  have hnone : ∀ fuel, rcu_list_fg_remove fuel mem_3_7 0 LIST_VAL_MAX = none := by
    intro fuel
    cases fuel with
    | zero => rfl
    | succ fuel =>
      rw [rcu_list_fg_remove]
      rfl
  refine ⟨by decide, by decide, by decide, by decide, hnone, fun fuel h => ?_⟩
  obtain ⟨_, _, s1, r1, _, h1, _⟩ := h
  rw [hnone fuel] at h1
  exact absurd h1 (by simp)

/-! ## C32: where and when the traversal stops -/

theorem list_traverse_steps (nodes : List node_t) (val : Int) (as : List Nat) :
    ∀ (prev : Nat) (p : Option Nat), lseg nodes p as none →
      (∃ a ∈ as, val ≤ node_val nodes a) →
      ∃ pre b post, as = pre ++ b :: post ∧ (∀ a ∈ pre, node_val nodes a < val) ∧
        val ≤ node_val nodes b ∧
        ∀ fuel : Nat, list_traverse nodes val fuel prev p =
          if pre.length < fuel then
            some ((prev :: pre).getLast (List.cons_ne_nil _ _), b, node_val nodes b)
          else none := by
  induction as with
  | nil =>
    intro prev p _ hex
    obtain ⟨a, ha, _⟩ := hex
    cases ha
  | cons a as ih =>
    intro prev p h hex
    obtain ⟨rfl, n, hn, h2⟩ := (lseg_cons _ _ _ _ _).mp h
    have hv : node_val nodes a = n.val := node_val_of _ _ _ hn
    by_cases hge : n.val ≥ val
    · refine ⟨[], a, as, rfl, by simp, by rw [hv]; exact hge, fun fuel => ?_⟩
      cases fuel with
      | zero => simp [list_traverse]
      | succ fuel => simp [list_traverse, hn, hge, hv]
    · have hex2 : ∃ c ∈ as, val ≤ node_val nodes c := by
        obtain ⟨c, hc, hcv⟩ := hex
        rcases List.mem_cons.mp hc with rfl | hc
        · rw [hv] at hcv; exact absurd hcv hge
        · exact ⟨c, hc, hcv⟩
      obtain ⟨pre, b, post, hsplit, hpre, hb, htr⟩ := ih a n.p_next h2 hex2
      refine ⟨a :: pre, b, post, by rw [hsplit]; rfl, ?_, hb, fun fuel => ?_⟩
      · intro c hc
        rcases List.mem_cons.mp hc with rfl | hc
        · rw [hv]; omega
        · exact hpre c hc
      · cases fuel with
        | zero => simp [list_traverse]
        | succ fuel =>
          rw [list_traverse]
          simp only [hn, hge, if_false]
          rw [htr fuel, List.getLast_cons (List.cons_ne_nil _ _)]
          simp only [List.length_cons, Nat.add_lt_add_iff_right]

/-- C32: in a well-formed bucket the traversal for a key `val` of type `val_t`
(`val ≤ LIST_VAL_MAX`, the bound included) returns: the chain of the bucket
splits as `front ++ p_prev :: b :: post` with the head first, every node after
the head up to `p_prev` holds a value below `val`, `b` holds a value `≥ val`,
and the traversal yields `p_prev`, `b` and the value of `b`.  The loop runs
`front.length + 1` times, which is at most the number of nodes of the bucket
minus one: with that many passes or more it returns, with fewer it has not
stopped yet. -/
theorem traversal_stops (s : State) (p_list : Nat) (val : Int) (hwf : list_wf s p_list)
    (hv : val ≤ LIST_VAL_MAX) :
    ∃ l hd hn front p_prev b post,
      s.lists[p_list]? = some l ∧ l.p_head = some hd ∧ s.nodes[hd]? = some hn ∧
      bucket_nodes s p_list = some (front ++ p_prev :: b :: post) ∧
      (front ++ [p_prev]).head? = some hd ∧
      (∀ a ∈ (front ++ [p_prev]).tail, node_val s.nodes a < val) ∧
      val ≤ node_val s.nodes b ∧
      list_find s p_list val = some (p_prev, b, node_val s.nodes b) ∧
      (∀ fuel : Nat, list_traverse s.nodes val fuel hd hn.p_next =
        if front.length + 1 ≤ fuel then some (p_prev, b, node_val s.nodes b) else none) ∧
      front.length + 1 ≤ (front ++ p_prev :: b :: post).length - 1 := by
  obtain ⟨as, hbn, hhead, hlast, _⟩ := (list_wf_iff _ _).mp hwf
  obtain ⟨l, hl, hseg, hlen⟩ := (bucket_nodes_eq_some _ _ _).mp hbn
  cases as with
  | nil => simp at hhead
  | cons hd rest =>
    obtain ⟨hph, hn, hhn, hrest⟩ := (lseg_cons _ _ _ _ _).mp hseg
    have hhdv : node_val s.nodes hd = LIST_VAL_MIN := by simpa using hhead
    have hex : ∃ a ∈ rest, val ≤ node_val s.nodes a := by
      cases rest with
      | nil =>
        simp only [List.map_cons, List.map_nil, List.getLast?_singleton, Option.some.injEq] at hlast
        rw [hhdv] at hlast
        simp [LIST_VAL_MIN, LIST_VAL_MAX] at hlast
      | cons r rs =>
        rw [List.map_cons, List.map_cons, List.getLast?_cons_cons, ← List.map_cons,
          List.getLast?_map] at hlast
        cases hgl : (r :: rs).getLast? with
        | none => rw [hgl] at hlast; cases hlast
        | some t =>
          rw [hgl] at hlast
          simp only [Option.map_some', Option.some.injEq] at hlast
          refine ⟨t, List.mem_of_getLast?_eq_some hgl, ?_⟩
          rw [hlast]; exact hv
    obtain ⟨pre, b, post, hsplit, hpre, hb, htr⟩ :=
      list_traverse_steps s.nodes val rest hd hn.p_next hrest hex
    have hne : hd :: pre ≠ [] := List.cons_ne_nil _ _
    have hdl : (hd :: pre).dropLast ++ [(hd :: pre).getLast hne] = hd :: pre :=
      List.dropLast_append_getLast hne
    have hlen2 : (hd :: pre).dropLast.length = pre.length := by simp
    have hsplit2 : hd :: rest = (hd :: pre).dropLast ++ (hd :: pre).getLast hne :: b :: post := by
      have : (hd :: pre).dropLast ++ (hd :: pre).getLast hne :: b :: post =
          ((hd :: pre).dropLast ++ [(hd :: pre).getLast hne]) ++ b :: post := by simp
      rw [this, hdl, hsplit]; rfl
    have hfl := htr s.nodes.length
    have hlt : pre.length < s.nodes.length := by
      have h1 : (hd :: rest).length ≤ s.nodes.length := hlen
      rw [hsplit] at h1
      simp only [List.length_cons, List.length_append] at h1
      omega
    rw [if_pos hlt] at hfl
    refine ⟨l, hd, hn, (hd :: pre).dropLast, (hd :: pre).getLast hne, b, post, hl, hph,
      hhn, ?_, ?_, ?_, hb, ?_, ?_, ?_⟩
    · rw [hbn, hsplit2]
    · rw [hdl]; rfl
    · rw [hdl]; exact hpre
    · unfold list_find
      simp only [hl, hph, hhn, Option.bind_eq_bind, Option.some_bind]
      exact hfl
    · intro fuel
      rw [htr fuel, hlen2]
      by_cases hc : pre.length < fuel
      · rw [if_pos hc, if_pos (by omega)]
      · rw [if_neg hc, if_neg (by omega)]
    · rw [← hsplit2, hlen2, hsplit]
      simp only [List.length_cons, List.length_append]
      omega

theorem traversal_stops_witness :
    list_wf mem_3_7 0 ∧ LIST_VAL_MAX ≤ LIST_VAL_MAX ∧
    ∃ l hd hn front p_prev b post,
      mem_3_7.lists[0]? = some l ∧ l.p_head = some hd ∧ mem_3_7.nodes[hd]? = some hn ∧
      bucket_nodes mem_3_7 0 = some (front ++ p_prev :: b :: post) ∧
      (front ++ [p_prev]).head? = some hd ∧
      (∀ a ∈ (front ++ [p_prev]).tail, node_val mem_3_7.nodes a < LIST_VAL_MAX) ∧
      LIST_VAL_MAX ≤ node_val mem_3_7.nodes b ∧
      list_find mem_3_7 0 LIST_VAL_MAX = some (p_prev, b, node_val mem_3_7.nodes b) ∧
      (∀ fuel : Nat, list_traverse mem_3_7.nodes LIST_VAL_MAX fuel hd hn.p_next =
        if front.length + 1 ≤ fuel then some (p_prev, b, node_val mem_3_7.nodes b)
        else none) ∧
      front.length + 1 ≤ (front ++ p_prev :: b :: post).length - 1 :=
  ⟨by decide, by decide, traversal_stops mem_3_7 0 LIST_VAL_MAX (by decide) (by decide)⟩

/-! ## A node whose lock word is stored back -/

theorem node_lock_eta (n : node_t) (h : n.global_lock = false) :
    { n with global_lock := false } = n := by
  cases n
  simp_all

/-! ## C34: the check of the fallback lock inside the transaction -/

theorem rcx_list_fb1_add_by_tx (fuel cpu : Nat) (s : State) (p_list : Nat) (val : Int)
    (l : list_t) (p_prev p_next : Nat) (v : Int)
    (hl : s.lists[p_list]? = some l) (hfree : l.rcuspin = false)
    (hfind : list_find s p_list val = some (p_prev, p_next, v)) (hv : v ≠ val) :
    rcx_list_fb1_add (fuel + 1) cpu s p_list val =
      match rcx_lf_add_tx { s with nodes := s.nodes ++ [added_node val p_next] } p_list p_prev
        p_next s.nodes.length with
      | none => none
      | some (st, s1) =>
        if st = XBEGIN_STARTED then some (s1, 1)
        else
          match record_abort s1 cpu st with
          | none => none
          | some s2 =>
            if st &&& XABORT_RETRY ≠ 0 then
              rcx_list_fb1_add fuel cpu (kfree s2 s.nodes.length) p_list val
            else rcx_list_locked_add (kfree s2 s.nodes.length) p_list val := by
  rw [rcx_list_fb1_add]
  simp only [hfind, Option.bind_eq_bind, Option.some_bind, hv, ne_eq, not_false_eq_true, if_true,
    rcx_alloc_node_eq, spin_is_locked_list, hl, hfree, Bool.false_eq_true, if_false,
    rcx_lf_add_tx, xbegin]
  generalize rcx_lf_tx_stat _ _ p_list p_prev p_next = r
  cases r with
  | none => rfl
  | some st =>
    by_cases h : st = XBEGIN_STARTED
    · subst h
      simp only [Option.some_bind, if_true]
      generalize node_store _ p_prev _ = r2
      cases r2 with
      | none => rfl
      | some s2 => rfl
    · simp only [Option.some_bind, h, if_false]
      generalize record_abort _ cpu st = r3
      cases r3 with
      | none => rfl
      | some s3 => rfl

theorem rcx_list_lf_add_retry_by_tx (fuel : Nat) (retries : Int) (cpu : Nat) (s : State)
    (p_list : Nat) (val : Int) (l : list_t) (p_prev p_next : Nat) (v : Int)
    (hret : ¬ retries > LF_RETRY_LIMIT)
    (hl : s.lists[p_list]? = some l) (hfree : l.rcuspin = false)
    (hfind : list_find s p_list val = some (p_prev, p_next, v)) (hv : v ≠ val) :
    rcx_list_lf_add_retry (fuel + 1) retries cpu s p_list val =
      match rcx_lf_add_tx { s with nodes := s.nodes ++ [added_node val p_next] } p_list p_prev
        p_next s.nodes.length with
      | none => none
      | some (st, s1) =>
        if st = XBEGIN_STARTED then some (s1, 1)
        else
          match record_abort s1 cpu st with
          | none => none
          | some s2 =>
            rcx_list_lf_add_retry fuel (retries + 1) cpu (kfree s2 s.nodes.length) p_list val := by
  rw [rcx_list_lf_add_retry, if_neg hret]
  simp only [hfind, Option.bind_eq_bind, Option.some_bind, hv, ne_eq, not_false_eq_true, if_true,
    rcx_alloc_node_eq, spin_is_locked_list, hl, hfree, Bool.false_eq_true, if_false,
    rcx_lf_add_tx, xbegin]
  generalize rcx_lf_tx_stat _ _ p_list p_prev p_next = r
  cases r with
  | none => rfl
  | some st =>
    by_cases h : st = XBEGIN_STARTED
    · subst h
      simp only [Option.some_bind, if_true]
      generalize node_store _ p_prev _ = r2
      cases r2 with
      | none => rfl
      | some s2 => rfl
    · simp only [Option.some_bind, h, if_false]
      generalize record_abort _ cpu st = r3
      cases r3 with
      | none => rfl
      | some s3 => rfl

theorem rcx_list_fb1_remove_by_tx (fuel cpu : Nat) (s : State) (p_list : Nat) (val : Int)
    (l : list_t) (p_prev p_next : Nat) (nx : node_t)
    (hl : s.lists[p_list]? = some l) (hfree : l.rcuspin = false)
    (hfind : list_find s p_list val = some (p_prev, p_next, val))
    (hnx : s.nodes[p_next]? = some nx) :
    rcx_list_fb1_remove (fuel + 1) cpu s p_list val =
      match rcx_lf_remove_tx s p_list p_prev p_next nx.p_next with
      | none => none
      | some (st, s1) =>
        if st = XBEGIN_STARTED then some (rcx_free_node s1 p_next, 1)
        else
          match record_abort s1 cpu st with
          | none => none
          | some s2 =>
            if st &&& XABORT_RETRY ≠ 0 then rcx_list_fb1_remove fuel cpu s2 p_list val
            else rcx_list_locked_remove s2 p_list val := by
  rw [rcx_list_fb1_remove]
  simp only [hfind, Option.bind_eq_bind, Option.some_bind, if_true, hnx,
    spin_is_locked_list, hl, hfree, Bool.false_eq_true, if_false, rcx_lf_remove_tx, xbegin]
  generalize rcx_lf_remove_tx_stat _ _ p_list p_prev p_next nx.p_next = r
  cases r with
  | none => rfl
  | some st =>
    by_cases h : st = XBEGIN_STARTED
    · subst h
      simp only [Option.some_bind, if_true]
      generalize node_store _ p_prev _ = r2
      cases r2 with
      | none => rfl
      | some s2 =>
        simp only [Option.some_bind]
        generalize node_store s2 p_next _ = r4
        cases r4 with
        | none => rfl
        | some s4 => rfl
    · simp only [Option.some_bind, h, if_false]
      generalize record_abort _ cpu st = r3
      cases r3 with
      | none => rfl
      | some s3 => rfl

theorem rcx_list_lf_remove_retry_by_tx (fuel : Nat) (retries : Int) (cpu : Nat) (s : State)
    (p_list : Nat) (val : Int) (l : list_t) (p_prev p_next : Nat) (nx : node_t)
    (hret : ¬ retries ≥ LF_RETRY_LIMIT)
    (hl : s.lists[p_list]? = some l) (hfree : l.rcuspin = false)
    (hfind : list_find s p_list val = some (p_prev, p_next, val))
    (hnx : s.nodes[p_next]? = some nx) :
    rcx_list_lf_remove_retry (fuel + 1) retries cpu s p_list val =
      match rcx_lf_remove_tx s p_list p_prev p_next nx.p_next with
      | none => none
      | some (st, s1) =>
        if st = XBEGIN_STARTED then some (rcx_free_node s1 p_next, 1)
        else
          match record_abort s1 cpu st with
          | none => none
          | some s2 => rcx_list_lf_remove_retry fuel (retries + 1) cpu s2 p_list val := by
  rw [rcx_list_lf_remove_retry, if_neg hret]
  simp only [hfind, Option.bind_eq_bind, Option.some_bind, if_true, hnx,
    spin_is_locked_list, hl, hfree, Bool.false_eq_true, if_false, rcx_lf_remove_tx, xbegin]
  generalize rcx_lf_remove_tx_stat _ _ p_list p_prev p_next nx.p_next = r
  cases r with
  | none => rfl
  | some st =>
    by_cases h : st = XBEGIN_STARTED
    · subst h
      simp only [Option.some_bind, if_true]
      generalize node_store _ p_prev _ = r2
      cases r2 with
      | none => rfl
      | some s2 =>
        simp only [Option.some_bind]
        generalize node_store s2 p_next _ = r4
        cases r4 with
        | none => rfl
        | some s4 => rfl
    · simp only [Option.some_bind, h, if_false]
      generalize record_abort _ cpu st = r3
      cases r3 with
      | none => rfl
      | some s3 => rfl

/-- C34: the transaction of the speculative path of `rcx_list_lf_add` /
`rcx_list_fb1_add` and of `rcx_list_lf_remove` / `rcx_list_fb1_remove`, run in a
memory where the writer spinlock of the bucket is held.  When it starts, its
first check aborts it with the code `ABORT_LF_CONFLICT`, whatever the nodes
are: the status the caller sees is that explicit abort (or the abort the
hardware answered), never `_XBEGIN_STARTED`, and the memory is the one the
transaction started in, with every node and every list unchanged.  The four
functions run that transaction once per speculative pass and store to a node
only when its status is `_XBEGIN_STARTED`. -/
theorem lf_conflict_aborts (s : State) (p_list : Nat) (l : list_t)
    (p_prev p_next p_new_node : Nat) (n : Option Nat)
    (hl : s.lists[p_list]? = some l) (hheld : l.rcuspin = true) :
    rcx_lf_add_tx s p_list p_prev p_next p_new_node =
      some (if s.xbegin.headD XBEGIN_STARTED = XBEGIN_STARTED then
          xabort_status ABORT_LF_CONFLICT else s.xbegin.headD XBEGIN_STARTED,
        { s with xbegin := s.xbegin.tail }) ∧
    rcx_lf_remove_tx s p_list p_prev p_next n =
      some (if s.xbegin.headD XBEGIN_STARTED = XBEGIN_STARTED then
          xabort_status ABORT_LF_CONFLICT else s.xbegin.headD XBEGIN_STARTED,
        { s with xbegin := s.xbegin.tail }) ∧
    (if s.xbegin.headD XBEGIN_STARTED = XBEGIN_STARTED then
        xabort_status ABORT_LF_CONFLICT else s.xbegin.headD XBEGIN_STARTED) ≠ XBEGIN_STARTED ∧
    XABORT_CODE (xabort_status ABORT_LF_CONFLICT) = ABORT_LF_CONFLICT ∧
    xabort_status ABORT_LF_CONFLICT &&& XABORT_EXPLICIT ≠ 0 ∧
    (∀ (fuel cpu : Nat) (s0 : State) (val v : Int) (l0 : list_t),
      s0.lists[p_list]? = some l0 → l0.rcuspin = false →
      list_find s0 p_list val = some (p_prev, p_next, v) → v ≠ val →
      rcx_list_fb1_add (fuel + 1) cpu s0 p_list val =
        (match rcx_lf_add_tx { s0 with nodes := s0.nodes ++ [added_node val p_next] } p_list
          p_prev p_next s0.nodes.length with
        | none => none
        | some (st, s1) =>
          if st = XBEGIN_STARTED then some (s1, 1)
          else
            match record_abort s1 cpu st with
            | none => none
            | some s2 =>
              if st &&& XABORT_RETRY ≠ 0 then
                rcx_list_fb1_add fuel cpu (kfree s2 s0.nodes.length) p_list val
              else rcx_list_locked_add (kfree s2 s0.nodes.length) p_list val) ∧
      ∀ retries : Int, ¬ retries > LF_RETRY_LIMIT →
        rcx_list_lf_add_retry (fuel + 1) retries cpu s0 p_list val =
          match rcx_lf_add_tx { s0 with nodes := s0.nodes ++ [added_node val p_next] } p_list
            p_prev p_next s0.nodes.length with
          | none => none
          | some (st, s1) =>
            if st = XBEGIN_STARTED then some (s1, 1)
            else
              match record_abort s1 cpu st with
              | none => none
              | some s2 =>
                rcx_list_lf_add_retry fuel (retries + 1) cpu (kfree s2 s0.nodes.length) p_list
                  val) ∧
    (∀ (fuel cpu : Nat) (s0 : State) (val : Int) (l0 : list_t) (nx : node_t),
      s0.lists[p_list]? = some l0 → l0.rcuspin = false →
      list_find s0 p_list val = some (p_prev, p_next, val) → s0.nodes[p_next]? = some nx →
      rcx_list_fb1_remove (fuel + 1) cpu s0 p_list val =
        (match rcx_lf_remove_tx s0 p_list p_prev p_next nx.p_next with
        | none => none
        | some (st, s1) =>
          if st = XBEGIN_STARTED then some (rcx_free_node s1 p_next, 1)
          else
            match record_abort s1 cpu st with
            | none => none
            | some s2 =>
              if st &&& XABORT_RETRY ≠ 0 then rcx_list_fb1_remove fuel cpu s2 p_list val
              else rcx_list_locked_remove s2 p_list val) ∧
      ∀ retries : Int, ¬ retries ≥ LF_RETRY_LIMIT →
        rcx_list_lf_remove_retry (fuel + 1) retries cpu s0 p_list val =
          match rcx_lf_remove_tx s0 p_list p_prev p_next nx.p_next with
          | none => none
          | some (st, s1) =>
            if st = XBEGIN_STARTED then some (rcx_free_node s1 p_next, 1)
            else
              match record_abort s1 cpu st with
              | none => none
              | some s2 => rcx_list_lf_remove_retry fuel (retries + 1) cpu s2 p_list val) := by
  have hne : xabort_status ABORT_LF_CONFLICT ≠ XBEGIN_STARTED := by decide
  have hst : (if s.xbegin.headD XBEGIN_STARTED = XBEGIN_STARTED then
      xabort_status ABORT_LF_CONFLICT else s.xbegin.headD XBEGIN_STARTED) ≠ XBEGIN_STARTED := by
    split
    · exact hne
    · rename_i h; exact h
  refine ⟨?_, ?_, hst, by decide, by decide, ?_, ?_⟩
  · unfold rcx_lf_add_tx xbegin rcx_lf_tx_stat spin_is_locked_list
    simp only [hl, hheld]
    by_cases hx : s.xbegin.headD XBEGIN_STARTED = XBEGIN_STARTED
    · simp only [hx, if_true, hne, if_false]
    · simp only [hx, if_false]
  · unfold rcx_lf_remove_tx xbegin rcx_lf_remove_tx_stat spin_is_locked_list
    simp only [hl, hheld]
    by_cases hx : s.xbegin.headD XBEGIN_STARTED = XBEGIN_STARTED
    · simp only [hx, if_true, hne, if_false]
    · simp only [hx, if_false]
  · intro fuel cpu s0 val v l0 h1 h2 h3 h4
    exact ⟨rcx_list_fb1_add_by_tx fuel cpu s0 p_list val l0 p_prev p_next v h1 h2 h3 h4,
      fun retries hr => rcx_list_lf_add_retry_by_tx fuel retries cpu s0 p_list val l0 p_prev
        p_next v hr h1 h2 h3 h4⟩
  · intro fuel cpu s0 val l0 nx h1 h2 h3 h4
    exact ⟨rcx_list_fb1_remove_by_tx fuel cpu s0 p_list val l0 p_prev p_next nx h1 h2 h3 h4,
      fun retries hr => rcx_list_lf_remove_retry_by_tx fuel retries cpu s0 p_list val l0 p_prev
        p_next nx hr h1 h2 h3 h4⟩

theorem lf_conflict_aborts_witness :
    rcx_lf_add_tx mem_3_7_held 0 2 3 4 =
      some (xabort_status ABORT_LF_CONFLICT, mem_3_7_held) ∧
    rcx_lf_remove_tx mem_3_7_held 0 1 2 (some 3) =
      some (xabort_status ABORT_LF_CONFLICT, mem_3_7_held) :=
  ⟨(lf_conflict_aborts mem_3_7_held 0 { p_head := some 1, rcuspin := true } 2 3 4 (some 3)
      (by decide) rfl).1,
   (lf_conflict_aborts mem_3_7_held 0 { p_head := some 1, rcuspin := true } 1 2 4 (some 3)
      (by decide) rfl).2.1⟩

/-! ## The logged updates: what they return and what they note -/

theorem global_lock_pair_log_eq (s : State) (log : List lock_event) (a b : Nat) :
    global_lock_pair_log s log a b =
      (global_lock_pair s a b).map (fun s1 =>
        (s1, log ++ [.spin_lock (.global_lock a), .spin_lock (.global_lock b)])) := by
  unfold global_lock_pair_log global_lock_pair spin_lock_global_log
  cases spin_lock_global s a with
  | none => rfl
  | some s2 =>
    simp only
    cases spin_lock_global s2 b with
    | none => rfl
    | some s3 => simp

theorem global_unlock_pair_log_eq (s : State) (log : List lock_event) (a b : Nat) :
    global_unlock_pair_log s log a b =
      (global_unlock_pair s a b).map (fun s1 =>
        (s1, log ++ [.spin_unlock (.global_lock b), .spin_unlock (.global_lock a)])) := by
  unfold global_unlock_pair_log global_unlock_pair spin_unlock_global_log
  cases spin_unlock_global s b with
  | none => rfl
  | some s2 =>
    simp only
    cases spin_unlock_global s2 a with
    | none => rfl
    | some s3 => simp

theorem pnd_lock_pair_log_eq (s : State) (log : List lock_event) (a b n1 n2 : Nat) :
    pnd_lock_pair_log s log a b n1 n2 =
      (pnd_lock_pair s a b n1 n2).map (fun s1 =>
        (s1, log ++ [.spin_lock (.pndslock a), .spin_lock (.pndslock b)])) := by
  unfold pnd_lock_pair_log pnd_lock_pair spin_lock_pnd_log
  cases spin_lock_pnd s a n1 with
  | none => rfl
  | some s2 =>
    simp only
    cases spin_lock_pnd s2 b n2 with
    | none => rfl
    | some s3 => simp

theorem pnd_unlock_pair_log_eq (s : State) (log : List lock_event) (a b n1 n2 : Nat) :
    pnd_unlock_pair_log s log a b n1 n2 =
      (pnd_unlock_pair s a b n1 n2).map (fun s1 =>
        (s1, log ++ [.spin_unlock (.pndslock b), .spin_unlock (.pndslock a)])) := by
  unfold pnd_unlock_pair_log pnd_unlock_pair spin_unlock_pnd_log
  cases spin_unlock_pnd s b n1 with
  | none => rfl
  | some s2 =>
    simp only
    cases spin_unlock_pnd s2 a n2 with
    | none => rfl
    | some s3 => simp

theorem global_lock_triple_log_eq (s : State) (log : List lock_event) (a b c : Nat) :
    global_lock_triple_log s log a b (some c) =
      (global_lock_triple s a b (some c)).map (fun s1 =>
        (s1, log ++ [.spin_lock (.global_lock a), .spin_lock (.global_lock b),
          .spin_lock (.global_lock c)])) := by
  unfold global_lock_triple_log global_lock_triple spin_lock_global_log
  cases spin_lock_global s a with
  | none => rfl
  | some s2 =>
    simp only
    cases spin_lock_global s2 b with
    | none => rfl
    | some s3 =>
      simp only
      cases spin_lock_global s3 c with
      | none => rfl
      | some s4 => simp

theorem global_lock_triple_log_none (s : State) (log : List lock_event) (a b : Nat) :
    global_lock_triple_log s log a b none = none ∧ global_lock_triple s a b none = none := by
  unfold global_lock_triple_log global_lock_triple spin_lock_global_log
  cases spin_lock_global s a with
  | none => exact ⟨rfl, rfl⟩
  | some s2 =>
    simp only
    cases spin_lock_global s2 b with
    | none => exact ⟨rfl, rfl⟩
    | some s3 => exact ⟨rfl, rfl⟩

theorem global_unlock_triple_log_eq (s : State) (log : List lock_event) (a b c : Nat) :
    global_unlock_triple_log s log a b c =
      (global_unlock_triple s a b c).map (fun s1 =>
        (s1, log ++ [.spin_unlock (.global_lock c), .spin_unlock (.global_lock b),
          .spin_unlock (.global_lock a)])) := by
  unfold global_unlock_triple_log global_unlock_triple spin_unlock_global_log
  cases spin_unlock_global s c with
  | none => rfl
  | some s2 =>
    simp only
    cases spin_unlock_global s2 b with
    | none => rfl
    | some s3 =>
      simp only
      cases spin_unlock_global s3 a with
      | none => rfl
      | some s4 => simp

theorem pnd_lock_triple_log_eq (s : State) (log : List lock_event) (a b c n1 n2 n3 : Nat) :
    pnd_lock_triple_log s log a b (some c) n1 n2 n3 =
      (pnd_lock_triple s a b (some c) n1 n2 n3).map (fun s1 =>
        (s1, log ++ [.spin_lock (.pndslock a), .spin_lock (.pndslock b),
          .spin_lock (.pndslock c)])) := by
  unfold pnd_lock_triple_log pnd_lock_triple spin_lock_pnd_log
  cases spin_lock_pnd s a n1 with
  | none => rfl
  | some s2 =>
    simp only
    cases spin_lock_pnd s2 b n2 with
    | none => rfl
    | some s3 =>
      simp only
      cases spin_lock_pnd s3 c n3 with
      | none => rfl
      | some s4 => simp

theorem pnd_lock_triple_log_none (s : State) (log : List lock_event) (a b n1 n2 n3 : Nat) :
    pnd_lock_triple_log s log a b none n1 n2 n3 = none ∧
    pnd_lock_triple s a b none n1 n2 n3 = none := by
  unfold pnd_lock_triple_log pnd_lock_triple spin_lock_pnd_log
  cases spin_lock_pnd s a n1 with
  | none => exact ⟨rfl, rfl⟩
  | some s2 =>
    simp only
    cases spin_lock_pnd s2 b n2 with
    | none => exact ⟨rfl, rfl⟩
    | some s3 => exact ⟨rfl, rfl⟩

theorem pnd_unlock_triple_log_eq (s : State) (log : List lock_event) (a b c n1 n2 n3 : Nat) :
    pnd_unlock_triple_log s log a b c n1 n2 n3 =
      (pnd_unlock_triple s a b c n1 n2 n3).map (fun s1 =>
        (s1, log ++ [.spin_unlock (.pndslock c), .spin_unlock (.pndslock b),
          .spin_unlock (.pndslock a)])) := by
  unfold pnd_unlock_triple_log pnd_unlock_triple spin_unlock_pnd_log
  cases spin_unlock_pnd s c n1 with
  | none => rfl
  | some s2 =>
    simp only
    cases spin_unlock_pnd s2 b n2 with
    | none => rfl
    | some s3 =>
      simp only
      cases spin_unlock_pnd s3 a n3 with
      | none => rfl
      | some s4 => simp

/-! ## C36: the fallback updates under every pattern of aborts -/

/-- The values of the bucket after a link made behind freshly allocated nodes. -/
theorem vals_linked_behind (s s1 : State) (extra : List node_t) (val : Int) (p_list : Nat)
    (front : List Nat) (p_prev b : Nat) (post : List Nat) (prev : node_t)
    (hbn : bucket_nodes s p_list = some (front ++ p_prev :: b :: post))
    (hprev : s.nodes[p_prev]? = some prev)
    (hnd : (front ++ p_prev :: b :: post).Nodup)
    (hl : s1.lists = s.lists)
    (hn : s1.nodes = ((s.nodes ++ extra) ++ [added_node val b]).set p_prev
      { prev with p_next := some (s.nodes ++ extra).length }) :
    bucket_vals s1 p_list =
      some ((front ++ [p_prev]).map (node_val s.nodes) ++
        val :: (b :: post).map (node_val s.nodes)) := by
  have hbn2 : bucket_nodes { s with nodes := s.nodes ++ extra } p_list =
      some (front ++ p_prev :: b :: post) :=
    bucket_nodes_append s { s with nodes := s.nodes ++ extra } extra p_list rfl rfl _ hbn
  have hplt := getElem?_lt_length _ _ _ hprev
  have hprev2 : ({ s with nodes := s.nodes ++ extra } : State).nodes[p_prev]? = some prev := by
    show (s.nodes ++ extra)[p_prev]? = some prev
    rw [List.getElem?_append_left hplt]; exact hprev
  have hsl : same_links (linked { s with nodes := s.nodes ++ extra } val p_prev b prev) s1 :=
    ⟨hl, by rw [hn]; rfl⟩
  have hlt := bucket_nodes_lt _ _ _ hbn
  rw [bucket_vals_links _ _ hsl, bucket_vals_of_nodes _ _ _
    (bucket_nodes_linked _ val p_list front p_prev b post prev hbn2 hprev2 hnd),
    vals_linked _ val p_list front p_prev b post prev hbn2 hprev2]
  have e1 : (front ++ [p_prev]).map (node_val (s.nodes ++ extra)) =
      (front ++ [p_prev]).map (node_val s.nodes) := by
    apply map_node_val_congr
    intro a ha
    apply node_val_append
    apply hlt
    rcases List.mem_append.mp ha with h | h
    · exact List.mem_append_left _ h
    · simp at h; subst h; simp
  have e2 : (b :: post).map (node_val (s.nodes ++ extra)) =
      (b :: post).map (node_val s.nodes) := by
    apply map_node_val_congr
    intro a ha
    apply node_val_append
    apply hlt
    exact List.mem_append_right _ (List.mem_cons_of_mem _ ha)
  show some ((front ++ [p_prev]).map (node_val (s.nodes ++ extra)) ++
    val :: (b :: post).map (node_val (s.nodes ++ extra))) = _
  rw [e1, e2]

theorem rcx_list_lf_add_retry_links (cpu p_list : Nat) (val : Int) (l : list_t)
    (p_prev b : Nat) (v : Int) (prev nb : node_t)
    (hfree : l.rcuspin = false) (hpn : prev.p_next = some b) (hr1 : prev.removed = 0)
    (hr2 : nb.removed = 0) (hv : v ≠ val) :
    ∀ (fuel : Nat) (retries : Int) (s : State), 12 ≤ (fuel : Int) + retries → retries ≤ 11 →
      s.lists[p_list]? = some l → list_find s p_list val = some (p_prev, b, v) →
      s.nodes[p_prev]? = some prev → s.nodes[b]? = some nb → cpu < s.abort_cnt.length →
      ∃ s1 extra, rcx_list_lf_add_retry fuel retries cpu s p_list val = some (s1, 1) ∧
        s1.lists = s.lists ∧
        s1.nodes = ((s.nodes ++ extra) ++ [added_node val b]).set p_prev
          { prev with p_next := some (s.nodes ++ extra).length } := by
  intro fuel
  induction fuel with
  | zero => intro retries s h1 h2; omega
  | succ fuel ih =>
    intro retries s h1 h2 hl hfind hprev hb hcpu
    by_cases hret : retries ≤ LF_RETRY_LIMIT
    · by_cases hx : s.xbegin.headD XBEGIN_STARTED = XBEGIN_STARTED
      · refine ⟨_, [], rcx_list_lf_add_retry_eval fuel retries cpu s p_list val l p_prev b v
          prev nb hret hx hl hfree hfind hprev hb hpn hr1 hr2 hv, rfl, ?_⟩
        simp [linked]
      · rw [rcx_list_lf_add_retry_abort fuel retries cpu s p_list val l p_prev b v
          (s.abort_cnt.get ⟨cpu, hcpu⟩) hret hx (List.getElem?_eq_getElem hcpu) hl hfree hfind hv]
        have hplt := getElem?_lt_length _ _ _ hprev
        have hblt := getElem?_lt_length _ _ _ hb
        unfold LF_RETRY_LIMIT at hret
        obtain ⟨s1, extra, h3, h4, h5⟩ := ih (retries + 1)
          (aborted s val b cpu (s.abort_cnt.get ⟨cpu, hcpu⟩) (s.xbegin.headD XBEGIN_STARTED))
          (by push_cast at h1 ⊢; omega) (by omega) hl
          (list_find_append s _ [added_node val b] p_list val _ rfl rfl hfind)
          (by
            show (s.nodes ++ [added_node val b])[p_prev]? = some prev
            rw [List.getElem?_append_left hplt]; exact hprev)
          (by
            show (s.nodes ++ [added_node val b])[b]? = some nb
            rw [List.getElem?_append_left hblt]; exact hb)
          (by
            show cpu < (s.abort_cnt.set cpu _).length
            rw [List.length_set]; exact hcpu)
        refine ⟨s1, added_node val b :: extra, h3, h4, ?_⟩
        rw [h5]
        show ((s.nodes ++ [added_node val b] ++ extra) ++ [added_node val b]).set p_prev
          { prev with p_next := some (s.nodes ++ [added_node val b] ++ extra).length } = _
        simp
    · refine ⟨linked s val p_prev b prev, [], ?_, rfl, ?_⟩
      · rw [rcx_list_lf_add_retry, if_pos (by unfold LF_RETRY_LIMIT at hret ⊢; omega),
          rcx_list_locked_add_eval s p_list val l p_prev b v prev hl hfree hfind hprev]
        simp [hv]
      · simp [linked]

theorem rcx_list_fb1_add_links (cpu p_list : Nat) (val : Int) (l : list_t)
    (p_prev b : Nat) (v : Int) (prev nb : node_t)
    (hfree : l.rcuspin = false) (hpn : prev.p_next = some b) (hr1 : prev.removed = 0)
    (hr2 : nb.removed = 0) (hv : v ≠ val) :
    ∀ (fuel : Nat) (s : State), s.xbegin.length < fuel →
      s.lists[p_list]? = some l → list_find s p_list val = some (p_prev, b, v) →
      s.nodes[p_prev]? = some prev → s.nodes[b]? = some nb → cpu < s.abort_cnt.length →
      ∃ s1 extra, rcx_list_fb1_add fuel cpu s p_list val = some (s1, 1) ∧
        s1.lists = s.lists ∧
        s1.nodes = ((s.nodes ++ extra) ++ [added_node val b]).set p_prev
          { prev with p_next := some (s.nodes ++ extra).length } := by
  intro fuel
  induction fuel with
  | zero => intro s h1; omega
  | succ fuel ih =>
    intro s h1 hl hfind hprev hb hcpu
    by_cases hx : s.xbegin.headD XBEGIN_STARTED = XBEGIN_STARTED
    · refine ⟨_, [], rcx_list_fb1_add_eval fuel cpu s p_list val l p_prev b v prev nb
        hx hl hfree hfind hprev hb hpn hr1 hr2 hv, rfl, ?_⟩
      simp [linked]
    · rw [rcx_list_fb1_add_abort fuel cpu s p_list val l p_prev b v
        (s.abort_cnt.get ⟨cpu, hcpu⟩) hx (List.getElem?_eq_getElem hcpu) hl hfree hfind hv]
      have hplt := getElem?_lt_length _ _ _ hprev
      have hblt := getElem?_lt_length _ _ _ hb
      have hlen := headD_started_of_nil _ hx
      have hfind2 := list_find_append s
        (aborted s val b cpu (s.abort_cnt.get ⟨cpu, hcpu⟩) (s.xbegin.headD XBEGIN_STARTED))
        [added_node val b] p_list val _ rfl rfl hfind
      have hprev2 : (aborted s val b cpu (s.abort_cnt.get ⟨cpu, hcpu⟩)
          (s.xbegin.headD XBEGIN_STARTED)).nodes[p_prev]? = some prev := by
        show (s.nodes ++ [added_node val b])[p_prev]? = some prev
        rw [List.getElem?_append_left hplt]; exact hprev
      split
      · obtain ⟨s1, extra, h3, h4, h5⟩ := ih
          (aborted s val b cpu (s.abort_cnt.get ⟨cpu, hcpu⟩) (s.xbegin.headD XBEGIN_STARTED))
          (by
            show s.xbegin.tail.length < fuel
            omega) hl hfind2 hprev2
          (by
            show (s.nodes ++ [added_node val b])[b]? = some nb
            rw [List.getElem?_append_left hblt]; exact hb)
          (by
            show cpu < (s.abort_cnt.set cpu _).length
            rw [List.length_set]; exact hcpu)
        refine ⟨s1, added_node val b :: extra, h3, h4, ?_⟩
        rw [h5]
        show ((s.nodes ++ [added_node val b] ++ extra) ++ [added_node val b]).set p_prev
          { prev with p_next := some (s.nodes ++ [added_node val b] ++ extra).length } = _
        simp
      · refine ⟨linked (aborted s val b cpu (s.abort_cnt.get ⟨cpu, hcpu⟩)
          (s.xbegin.headD XBEGIN_STARTED)) val p_prev b prev, [added_node val b], ?_, rfl, rfl⟩
        rw [rcx_list_locked_add_eval (aborted s val b cpu (s.abort_cnt.get ⟨cpu, hcpu⟩)
          (s.xbegin.headD XBEGIN_STARTED)) p_list val l p_prev b v prev hl hfree hfind2 hprev2]
        simp only [hv, if_false]

theorem rcx_list_locked_remove_eval (s : State) (p_list : Nat) (val : Int) (l : list_t)
    (p_prev b c : Nat) (prev nb nn : node_t)
    (hl : s.lists[p_list]? = some l) (hfree : l.rcuspin = false)
    (hfind : list_find s p_list val = some (p_prev, b, val))
    (hprev : s.nodes[p_prev]? = some prev) (hb : s.nodes[b]? = some nb)
    (hc : s.nodes[c]? = some nn) (hbn : nb.p_next = some c) (h13 : p_prev ≠ c) :
    rcx_list_locked_remove s p_list val =
      some ({ s with
        nodes := (s.nodes.set p_prev { prev with p_next := some c }).set c
                   { nn with removed := 1 }
        retired := s.retired ++ [b] }, 1) := by
  have hlt := getElem?_lt_length _ _ _ hl
  have hl' : l = { l with rcuspin := false } := by
    cases l; simp_all
  unfold rcx_list_locked_remove spin_lock_list list_store
  simp only [hl, hfree, Bool.false_eq_true, if_false, Option.bind_eq_bind, Option.some_bind]
  rw [list_find_set_lists s p_list val l { p_head := l.p_head, rcuspin := true } hl rfl, hfind]
  simp only [Option.some_bind, if_true, hb, node_store, hprev, hbn, List.getElem?_set, h13,
    hc, if_false, spin_unlock_list, list_store, List.getElem?_set_self hlt, rcx_free_node,
    RCU_FREE, Option.pure_def]
  rw [list_set_restore _ _ _ _ (by rw [hl]; exact congrArg some hl')]

theorem same_links_locked_remove (s : State) (p_prev b c : Nat) (prev nb nn : node_t)
    (hc : s.nodes[c]? = some nn) (hbn : nb.p_next = some c) (h13 : p_prev ≠ c) :
    same_links (unlinked s p_prev b prev nb)
      { s with
        nodes := (s.nodes.set p_prev { prev with p_next := some c }).set c
                   { nn with removed := 1 }
        retired := s.retired ++ [b] } := by
  apply same_links_of
  · rfl
  · intro i
    unfold unlinked
    simp only [List.getElem?_set, List.length_set, hbn]
    by_cases h2 : c = i
    · subst h2
      have hclt := getElem?_lt_length _ _ _ hc
      simp [h13, hclt, hc, node_links]
    · simp [h2]

theorem rcx_list_lf_remove_retry_eval (fuel : Nat) (retries : Int) (cpu : Nat) (s : State)
    (p_list : Nat) (val : Int)
    (l : list_t) (p_prev b c : Nat) (prev nb nn : node_t) (hret : ¬ retries ≥ LF_RETRY_LIMIT)
    (hl : s.lists[p_list]? = some l) (hfree : l.rcuspin = false)
    (hx : s.xbegin.headD XBEGIN_STARTED = XBEGIN_STARTED)
    (hfind : list_find s p_list val = some (p_prev, b, val))
    (hprev : s.nodes[p_prev]? = some prev) (hb : s.nodes[b]? = some nb)
    (hc : s.nodes[c]? = some nn) (hpn : prev.p_next = some b) (hbn : nb.p_next = some c)
    (h12 : p_prev ≠ b)
    (hr1 : prev.removed = 0) (hr2 : nb.removed = 0) (hr3 : nn.removed = 0) :
    rcx_list_lf_remove_retry (fuel + 1) retries cpu s p_list val =
      some ({ unlinked_marked s p_prev b prev nb with xbegin := s.xbegin.tail }, 1) := by
  have e : rcx_lf_remove_tx_stat
      { nodes := s.nodes, lists := s.lists, retired := s.retired,
        freed := s.freed, xbegin := s.xbegin.tail, abort_cnt := s.abort_cnt }
      (s.xbegin.headD XBEGIN_STARTED) p_list p_prev b (some c) = some XBEGIN_STARTED :=
    rcx_lf_remove_tx_stat_quiet _ p_list l _ p_prev b c prev nb nn hl hfree hx hprev hb hc hpn
      hbn hr1 hr2 hr3
  rw [rcx_list_lf_remove_retry, if_neg hret]
  simp only [hfind, Option.bind_eq_bind, Option.some_bind, if_true, hb, xbegin,
    spin_is_locked_list, hl, hfree, Bool.false_eq_true, if_false, hbn]
  rw [e]
  simp only [Option.some_bind, if_true, node_store, hprev, hb, List.getElem?_set, h12,
    if_false, Option.pure_def, rcx_free_node, RCU_FREE, unlinked_marked, hbn]

theorem rcx_list_lf_remove_retry_abort (fuel : Nat) (retries : Int) (cpu : Nat) (s : State)
    (p_list : Nat) (val : Int) (l : list_t) (p_prev b : Nat) (nb : node_t)
    (cnt : rtm_abort_cnt) (hret : ¬ retries ≥ LF_RETRY_LIMIT)
    (hx : s.xbegin.headD XBEGIN_STARTED ≠ XBEGIN_STARTED)
    (hcpu : s.abort_cnt[cpu]? = some cnt)
    (hl : s.lists[p_list]? = some l) (hfree : l.rcuspin = false)
    (hfind : list_find s p_list val = some (p_prev, b, val))
    (hb : s.nodes[b]? = some nb) :
    rcx_list_lf_remove_retry (fuel + 1) retries cpu s p_list val =
      rcx_list_lf_remove_retry fuel (retries + 1) cpu
        (abort_noted s cpu cnt (s.xbegin.headD XBEGIN_STARTED)) p_list val := by
  rw [rcx_list_lf_remove_retry, if_neg hret]
  simp only [hfind, Option.bind_eq_bind, Option.some_bind, if_true, hb, xbegin,
    spin_is_locked_list, hl, hfree, Bool.false_eq_true, if_false, rcx_lf_remove_tx_stat, hx,
    record_abort, hcpu, abort_noted]

theorem rcx_list_fb1_remove_abort (fuel cpu : Nat) (s : State)
    (p_list : Nat) (val : Int) (l : list_t) (p_prev b : Nat) (nb : node_t)
    (cnt : rtm_abort_cnt)
    (hx : s.xbegin.headD XBEGIN_STARTED ≠ XBEGIN_STARTED)
    (hcpu : s.abort_cnt[cpu]? = some cnt)
    (hl : s.lists[p_list]? = some l) (hfree : l.rcuspin = false)
    (hfind : list_find s p_list val = some (p_prev, b, val))
    (hb : s.nodes[b]? = some nb) :
    rcx_list_fb1_remove (fuel + 1) cpu s p_list val =
      if s.xbegin.headD XBEGIN_STARTED &&& XABORT_RETRY ≠ 0 then
        rcx_list_fb1_remove fuel cpu
          (abort_noted s cpu cnt (s.xbegin.headD XBEGIN_STARTED)) p_list val
      else
        rcx_list_locked_remove
          (abort_noted s cpu cnt (s.xbegin.headD XBEGIN_STARTED)) p_list val := by
  apply rcx_list_fb1_remove_status fuel cpu s p_list val l p_prev b nb cnt _ hcpu hl hfree hfind
    hb hx
  unfold rcx_lf_remove_tx_stat
  rw [if_neg hx]

theorem rcx_list_lf_remove_retry_links (cpu p_list : Nat) (val : Int) (l : list_t)
    (p_prev b c : Nat) (prev nb nn : node_t)
    (hfree : l.rcuspin = false) (hpn : prev.p_next = some b) (hbn : nb.p_next = some c)
    (h12 : p_prev ≠ b) (h13 : p_prev ≠ c)
    (hr1 : prev.removed = 0) (hr2 : nb.removed = 0) (hr3 : nn.removed = 0) :
    ∀ (fuel : Nat) (retries : Int) (s : State), 11 ≤ (fuel : Int) + retries → retries ≤ 10 →
      s.lists[p_list]? = some l → list_find s p_list val = some (p_prev, b, val) →
      s.nodes[p_prev]? = some prev → s.nodes[b]? = some nb → s.nodes[c]? = some nn →
      cpu < s.abort_cnt.length →
      ∃ s1, rcx_list_lf_remove_retry fuel retries cpu s p_list val = some (s1, 1) ∧
        same_links (unlinked s p_prev b prev nb) s1 := by
  intro fuel
  induction fuel with
  | zero => intro retries s h1 h2; omega
  | succ fuel ih =>
    intro retries s h1 h2 hl hfind hprev hb hc hcpu
    by_cases hret : retries ≥ LF_RETRY_LIMIT
    · rw [rcx_list_lf_remove_retry, if_pos hret,
        rcx_list_locked_remove_eval s p_list val l p_prev b c prev nb nn hl hfree hfind hprev hb
          hc hbn h13]
      exact ⟨_, rfl, same_links_locked_remove s p_prev b c prev nb nn hc hbn h13⟩
    · by_cases hx : s.xbegin.headD XBEGIN_STARTED = XBEGIN_STARTED
      · exact ⟨_, rcx_list_lf_remove_retry_eval fuel retries cpu s p_list val l p_prev b c prev
          nb nn hret hl hfree hx hfind hprev hb hc hpn hbn h12 hr1 hr2 hr3,
          same_links_unlinked_marked s p_prev b prev nb s.xbegin.tail hb h12⟩
      · rw [rcx_list_lf_remove_retry_abort fuel retries cpu s p_list val l p_prev b nb
          (s.abort_cnt.get ⟨cpu, hcpu⟩) hret hx (List.getElem?_eq_getElem hcpu) hl hfree hfind hb]
        unfold LF_RETRY_LIMIT at hret
        obtain ⟨s1, h3, h4⟩ := ih (retries + 1)
          (abort_noted s cpu (s.abort_cnt.get ⟨cpu, hcpu⟩) (s.xbegin.headD XBEGIN_STARTED))
          (by push_cast at h1 ⊢; omega) (by omega) hl hfind hprev hb hc
          (by
            show cpu < (s.abort_cnt.set cpu _).length
            rw [List.length_set]; exact hcpu)
        exact ⟨s1, h3, h4⟩

theorem rcx_list_fb1_remove_links (cpu p_list : Nat) (val : Int) (l : list_t)
    (p_prev b c : Nat) (prev nb nn : node_t)
    (hfree : l.rcuspin = false) (hpn : prev.p_next = some b) (hbn : nb.p_next = some c)
    (h12 : p_prev ≠ b) (h13 : p_prev ≠ c)
    (hr1 : prev.removed = 0) (hr2 : nb.removed = 0) (hr3 : nn.removed = 0) :
    ∀ (fuel : Nat) (s : State), s.xbegin.length < fuel →
      s.lists[p_list]? = some l → list_find s p_list val = some (p_prev, b, val) →
      s.nodes[p_prev]? = some prev → s.nodes[b]? = some nb → s.nodes[c]? = some nn →
      cpu < s.abort_cnt.length →
      ∃ s1, rcx_list_fb1_remove fuel cpu s p_list val = some (s1, 1) ∧
        same_links (unlinked s p_prev b prev nb) s1 := by
  intro fuel
  induction fuel with
  | zero => intro s h1; omega
  | succ fuel ih =>
    intro s h1 hl hfind hprev hb hc hcpu
    by_cases hx : s.xbegin.headD XBEGIN_STARTED = XBEGIN_STARTED
    · exact ⟨_, rcx_list_fb1_remove_eval fuel cpu s p_list val l p_prev b c prev nb nn hl hfree
        hx hfind hprev hb hc hpn hbn h12 hr1 hr2 hr3,
        same_links_unlinked_marked s p_prev b prev nb s.xbegin.tail hb h12⟩
    · rw [rcx_list_fb1_remove_abort fuel cpu s p_list val l p_prev b nb
        (s.abort_cnt.get ⟨cpu, hcpu⟩) hx (List.getElem?_eq_getElem hcpu) hl hfree hfind hb]
      have hlen := headD_started_of_nil _ hx
      split
      · obtain ⟨s1, h3, h4⟩ := ih
          (abort_noted s cpu (s.abort_cnt.get ⟨cpu, hcpu⟩) (s.xbegin.headD XBEGIN_STARTED))
          (by
            show s.xbegin.tail.length < fuel
            omega) hl hfind hprev hb hc
          (by
            show cpu < (s.abort_cnt.set cpu _).length
            rw [List.length_set]; exact hcpu)
        exact ⟨s1, h3, h4⟩
      · rw [rcx_list_locked_remove_eval
          (abort_noted s cpu (s.abort_cnt.get ⟨cpu, hcpu⟩) (s.xbegin.headD XBEGIN_STARTED))
          p_list val l p_prev b c prev nb nn hl hfree hfind hprev hb hc hbn h13]
        exact ⟨_, rfl, same_links_locked_remove s p_prev b c prev nb nn hc hbn h13⟩

theorem same_keys_result (x y : Option (State × Int)) (p : Nat)
    (h : ∃ s0 s1 r, x = some (s0, r) ∧ y = some (s1, r) ∧
      bucket_vals s1 p = bucket_vals s0 p) :
    same_keys x y p ∧ y.map Prod.snd = x.map Prod.snd := by
  obtain ⟨s0, s1, r, hx, hy, hv⟩ := h
  exact ⟨⟨s0, r, s1, r, hx, hy, hv⟩, by rw [hx, hy]; rfl⟩

/-- C36: on a well-formed bucket at a quiescent point, whatever the pending
answers `s.xbegin` of the hardware (a finite pattern of aborts, any status
words), `rcx_list_lf_add` returns, with the result and the sequence of values in
the bucket of the run on the same memory in which every transaction starts and
commits (`xbegin := []`), and so does `rcx_list_fb1_add` with fuel for one pass
more than there are pending answers; the same holds of `rcx_list_lf_remove` and
`rcx_list_fb1_remove`, for every key of the set.  The keys of the set lie strictly
between the sentinels; the adds are covered for every value of `val_t`, the
removes for every value other than the tail sentinel's `LIST_VAL_MAX`. -/
theorem aborts_refine_commit (fuel cpu : Nat) (s : State) (p : Nat) (val : Int)
    (hwf : bucket_wf s p) (hq : bucket_quiet s p) (hcpu : cpu < s.abort_cnt.length)
    (hv : val ≤ LIST_VAL_MAX) (hfuel : s.xbegin.length < fuel) :
    (same_keys (rcx_list_lf_add cpu { s with xbegin := [] } p val)
        (rcx_list_lf_add cpu s p val) p ∧
      (rcx_list_lf_add cpu s p val).map Prod.snd =
        (rcx_list_lf_add cpu { s with xbegin := [] } p val).map Prod.snd) ∧
    (same_keys (rcx_list_fb1_add 1 cpu { s with xbegin := [] } p val)
        (rcx_list_fb1_add fuel cpu s p val) p ∧
      (rcx_list_fb1_add fuel cpu s p val).map Prod.snd =
        (rcx_list_fb1_add 1 cpu { s with xbegin := [] } p val).map Prod.snd) ∧
    (val ≠ LIST_VAL_MAX →
      (same_keys (rcx_list_lf_remove cpu { s with xbegin := [] } p val)
          (rcx_list_lf_remove cpu s p val) p ∧
        (rcx_list_lf_remove cpu s p val).map Prod.snd =
          (rcx_list_lf_remove cpu { s with xbegin := [] } p val).map Prod.snd) ∧
      (same_keys (rcx_list_fb1_remove 1 cpu { s with xbegin := [] } p val)
          (rcx_list_fb1_remove fuel cpu s p val) p ∧
        (rcx_list_fb1_remove fuel cpu s p val).map Prod.snd =
          (rcx_list_fb1_remove 1 cpu { s with xbegin := [] } p val).map Prod.snd)) := by
  obtain ⟨l, front, p_prev, b, post, prev, nb, hl, hfree, hbn, hfind, hprev, hnb, hne, hpn, hq1,
    hq2, hqall⟩ := bucket_context s p val hwf hq hv
  have hnd := bucket_nodes_nodup _ _ _ hwf.1 hbn
  have hl0 : ({ s with xbegin := [] } : State).lists[p]? = some l := hl
  have hfind0 : list_find { s with xbegin := [] } p val = some (p_prev, b, node_val s.nodes b) :=
    hfind
  have hprev0 : ({ s with xbegin := [] } : State).nodes[p_prev]? = some prev := hprev
  have hnb0 : ({ s with xbegin := [] } : State).nodes[b]? = some nb := hnb
  have hcpu0 : cpu < ({ s with xbegin := [] } : State).abort_cnt.length := hcpu
  have hlinks0 : same_links { s with xbegin := [] } s := ⟨rfl, rfl⟩
  obtain ⟨fuel, rfl⟩ : ∃ k, fuel = k + 1 := ⟨fuel - 1, by omega⟩
  by_cases hvv : node_val s.nodes b = val
  · rw [hvv] at hfind hfind0
    refine ⟨?_, ?_, fun hmax => ?_⟩
    · apply same_keys_result
      exact ⟨_, _, 0, rcx_list_lf_add_present cpu _ p val p_prev b hfind0,
        rcx_list_lf_add_present cpu s p val p_prev b hfind, bucket_vals_links _ _ hlinks0 p⟩
    · apply same_keys_result
      exact ⟨_, _, 0, rcx_list_fb1_add_present 0 cpu _ p val p_prev b hfind0,
        rcx_list_fb1_add_present fuel cpu s p val p_prev b hfind, bucket_vals_links _ _ hlinks0 p⟩
    · have hlt : val < LIST_VAL_MAX := lt_of_le_of_ne hv hmax
      obtain ⟨prev2, nb2, c, nn, rest, hpost, hprev2, hnb2, hc, _, hbnx, _, h23, h13⟩ :=
        remove_context s p front p_prev b post hwf.1 hbn (by rw [hvv]; exact hlt)
      rw [hprev] at hprev2; cases hprev2
      rw [hnb] at hnb2; cases hnb2
      have hq3 : node_quiet nn := quiet_at_node s c nn hc (hqall c (by rw [hpost]; simp))
      have hc0 : ({ s with xbegin := [] } : State).nodes[c]? = some nn := hc
      constructor
      · apply same_keys_result
        obtain ⟨s1, h1, h2⟩ := rcx_list_lf_remove_retry_links cpu p val l p_prev b c prev nb nn
          hfree hpn hbnx hne h13 hq1.1 hq2.1 hq3.1 11 0 s (by decide) (by decide) hl hfind hprev
          hnb hc hcpu
        obtain ⟨s0, h3, h4⟩ := rcx_list_lf_remove_retry_links cpu p val l p_prev b c prev nb nn
          hfree hpn hbnx hne h13 hq1.1 hq2.1 hq3.1 11 0 { s with xbegin := [] } (by decide)
          (by decide) hl0 hfind0 hprev0 hnb0 hc0 hcpu0
        have h5 : same_links (unlinked s p_prev b prev nb) s0 := h4
        refine ⟨s0, s1, 1, h3, h1, ?_⟩
        rw [bucket_vals_links _ _ h2, bucket_vals_links _ _ h5]
      · apply same_keys_result
        obtain ⟨s1, h1, h2⟩ := rcx_list_fb1_remove_links cpu p val l p_prev b c prev nb nn
          hfree hpn hbnx hne h13 hq1.1 hq2.1 hq3.1 (fuel + 1) s hfuel hl hfind hprev
          hnb hc hcpu
        obtain ⟨s0, h3, h4⟩ := rcx_list_fb1_remove_links cpu p val l p_prev b c prev nb nn
          hfree hpn hbnx hne h13 hq1.1 hq2.1 hq3.1 1 { s with xbegin := [] } Nat.zero_lt_one
          hl0 hfind0 hprev0 hnb0 hc0 hcpu0
        have h5 : same_links (unlinked s p_prev b prev nb) s0 := h4
        refine ⟨s0, s1, 1, h3, h1, ?_⟩
        rw [bucket_vals_links _ _ h2, bucket_vals_links _ _ h5]
  · refine ⟨?_, ?_, fun _ => ?_⟩
    · apply same_keys_result
      obtain ⟨s1, e1, h1, h2, h3⟩ := rcx_list_lf_add_retry_links cpu p val l p_prev b _ prev nb
        hfree hpn hq1.1 hq2.1 hvv 12 0 s (by decide) (by decide) hl hfind hprev hnb hcpu
      obtain ⟨s0, e0, h4, h5, h6⟩ := rcx_list_lf_add_retry_links cpu p val l p_prev b _ prev nb
        hfree hpn hq1.1 hq2.1 hvv 12 0 { s with xbegin := [] } (by decide) (by decide) hl0
        hfind0 hprev0 hnb0 hcpu0
      refine ⟨s0, s1, 1, h4, h1, ?_⟩
      rw [vals_linked_behind s s1 e1 val p front p_prev b post prev hbn hprev hnd h2 h3,
        vals_linked_behind s s0 e0 val p front p_prev b post prev hbn hprev hnd h5 h6]
    · apply same_keys_result
      obtain ⟨s1, e1, h1, h2, h3⟩ := rcx_list_fb1_add_links cpu p val l p_prev b _ prev nb
        hfree hpn hq1.1 hq2.1 hvv (fuel + 1) s hfuel hl hfind hprev hnb hcpu
      obtain ⟨s0, e0, h4, h5, h6⟩ := rcx_list_fb1_add_links cpu p val l p_prev b _ prev nb
        hfree hpn hq1.1 hq2.1 hvv 1 { s with xbegin := [] } Nat.zero_lt_one hl0
        hfind0 hprev0 hnb0 hcpu0
      refine ⟨s0, s1, 1, h4, h1, ?_⟩
      rw [vals_linked_behind s s1 e1 val p front p_prev b post prev hbn hprev hnd h2 h3,
        vals_linked_behind s s0 e0 val p front p_prev b post prev hbn hprev hnd h5 h6]
    · have hr := removes_absent fuel cpu (fun _ => 0) s p val p_prev b _ hfind hvv
      have hr0 := removes_absent 0 cpu (fun _ => 0) { s with xbegin := [] } p val p_prev b _
        hfind0 hvv
      constructor
      · apply same_keys_result
        exact ⟨_, _, 0, hr0.2.2.1, hr.2.2.1, bucket_vals_links _ _ hlinks0 p⟩
      · apply same_keys_result
        exact ⟨_, _, 0, hr0.2.2.2.1, hr.2.2.2.1, bucket_vals_links _ _ hlinks0 p⟩

theorem aborts_refine_commit_witness :
    (same_keys (rcx_list_fb1_add 1 0 { mem_3_7_abort with xbegin := [] } 0 5)
        (rcx_list_fb1_add 2 0 mem_3_7_abort 0 5) 0 ∧
      (rcx_list_fb1_add 2 0 mem_3_7_abort 0 5).map Prod.snd =
        (rcx_list_fb1_add 1 0 { mem_3_7_abort with xbegin := [] } 0 5).map Prod.snd) ∧
    (same_keys (rcx_list_lf_remove 0 { mem_3_7_abort with xbegin := [] } 0 3)
        (rcx_list_lf_remove 0 mem_3_7_abort 0 3) 0 ∧
      (rcx_list_lf_remove 0 mem_3_7_abort 0 3).map Prod.snd =
        (rcx_list_lf_remove 0 { mem_3_7_abort with xbegin := [] } 0 3).map Prod.snd) :=
  ⟨(aborts_refine_commit 2 0 mem_3_7_abort 0 5 (by decide) (by decide) (by decide) (by decide)
      (by decide)).2.1,
   ((aborts_refine_commit 2 0 mem_3_7_abort 0 3 (by decide) (by decide) (by decide) (by decide)
      (by decide)).2.2 (by decide)).1⟩

/-! ## C37: the record of a failed validation under the locks -/

/-- C37: `record_abort(ABORT_CONFLICT)` and `record_abort(ABORT_DOUBLE_FREE)`
hand the reason index (7, 6) to `record_abort` as the status word.  Starting
from counters that are all 0: the status 7 counts one abort and one each of the
CPU reasons explicit, retry and conflict (bits 0 to 2), the status 6 one abort
and one each of retry and conflict, and the application-level counters
`ABORT_CONFLICT` (index 7) and `ABORT_DOUBLE_FREE` (index 6) stay 0, since bits
24 to 31 of both words are 0.  So does a pass of `rcx_list_htmlock_add` for the
key 5 and of `rcx_list_htmlock_remove` for the key 3 on `mem_3_7_marked`, where
the node holding 3 is marked removed while linked: the validation fails, and
the call goes on from the head with one abort, one retry and one conflict
counted and the counter 6 at 0.  The validation of an add between nodes that
are no longer linked counts likewise and leaves the counter 7 at 0.  The status
word of `_xabort(ABORT_CONFLICT)`, as the transactions of the same functions
produce it, does count in the counter 7. -/
theorem validation_failure_miscounted :
    record_abort_cnt { counts := [0, 0, 0, 0, 0, 0, 0, 0, 0], nr_aborts := 0 } ABORT_CONFLICT =
      { counts := [1, 1, 1, 0, 0, 0, 0, 0, 0], nr_aborts := 1 } ∧
    record_abort_cnt { counts := [0, 0, 0, 0, 0, 0, 0, 0, 0], nr_aborts := 0 }
        ABORT_DOUBLE_FREE =
      { counts := [0, 1, 1, 0, 0, 0, 0, 0, 0], nr_aborts := 1 } ∧
    record_abort_cnt { counts := [0, 0, 0, 0, 0, 0, 0, 0, 0], nr_aborts := 0 }
        (xabort_status ABORT_CONFLICT) =
      { counts := [1, 0, 0, 0, 0, 0, 0, 1, 0], nr_aborts := 1 } ∧
    list_find mem_3_7_marked 0 5 = some (2, 3, 7) ∧
    (add_validate_record 0 mem_3_7_marked 2 3).map (fun q => (q.1.abort_cnt, q.2)) =
      some ([{ counts := [0, 1, 1, 0, 0, 0, 0, 0, 0], nr_aborts := 1 }], false) ∧
    (∀ fuel, rcx_list_htmlock_add (fuel + 1) 0 mem_3_7_marked 0 5 =
      rcx_list_htmlock_add fuel 0
        { mem_3_7_marked with
          nodes := mem_3_7_marked.nodes ++ [added_node 5 3]
          freed := [4]
          abort_cnt := [{ counts := [0, 1, 1, 0, 0, 0, 0, 0, 0], nr_aborts := 1 }] } 0 5) ∧
    list_find mem_3_7_marked 0 3 = some (1, 2, 3) ∧
    (remove_validate_record 0 mem_3_7_marked 1 2 (some 3)).map
        (fun q => (q.1.abort_cnt, q.2)) =
      some ([{ counts := [0, 1, 1, 0, 0, 0, 0, 0, 0], nr_aborts := 1 }], false) ∧
    (∀ fuel, rcx_list_htmlock_remove (fuel + 1) 0 mem_3_7_marked 0 3 =
      rcx_list_htmlock_remove fuel 0
        { mem_3_7_marked with
          abort_cnt := [{ counts := [0, 1, 1, 0, 0, 0, 0, 0, 0], nr_aborts := 1 }] } 0 3) ∧
    (add_validate_record 0 mem_3_7 1 3).map (fun q => (q.1.abort_cnt, q.2)) =
      some ([{ counts := [1, 1, 1, 0, 0, 0, 0, 0, 0], nr_aborts := 1 }], false) := by
  refine ⟨by decide, by decide, by decide, by decide, by decide, fun fuel => ?_, by decide,
    by decide, fun fuel => ?_, by decide⟩
  · rw [rcx_list_htmlock_add]
    rfl
  · rw [rcx_list_htmlock_remove]
    rfl

/-! ## C39: the hash of a negative key -/

theorem tmod_of_neg (k n : Int) (hn : 1 ≤ n) (hk : k < 0) :
    k.tmod n = -((-k) % n) := by
  obtain ⟨m, rfl⟩ := Int.eq_negSucc_of_lt_zero hk
  obtain ⟨p, rfl⟩ := Int.eq_ofNat_of_zero_le (show 0 ≤ n by omega)
  rw [Int.neg_negSucc]
  rfl

/-- C39: for `n_buckets ≥ 1`, `HASH_VALUE` evaluates to a value `h` that follows
the sign of the key: for a negative key `k` it lies in `(-n_buckets, 0]`.  It is
a bucket index, `0 ≤ h < n_buckets`, exactly when the key is non-negative or a
multiple of `n_buckets`; for every other key the read `buckets[h]` of the
hash-level operations is outside the array. -/
theorem HASH_VALUE_negative_key (g : hash_list_t) (k : Int) (hn : 1 ≤ g.n_buckets) :
    ∃ h, HASH_VALUE g k = some h ∧
      (k < 0 → -g.n_buckets < h ∧ h ≤ 0) ∧
      ((0 ≤ h ∧ h < g.n_buckets) ↔ (0 ≤ k ∨ g.n_buckets ∣ k)) ∧
      (k < 0 → ¬ g.n_buckets ∣ k → bucket_at g h = none) := by
  refine ⟨k.tmod g.n_buckets, ?_, ?_, ?_, ?_⟩
  · unfold HASH_VALUE
    rw [if_neg (by omega)]
  · intro hk
    rw [tmod_of_neg k _ hn hk]
    have h1 := Int.emod_nonneg (-k) (show g.n_buckets ≠ 0 by omega)
    have h2 := Int.emod_lt_of_pos (-k) (show 0 < g.n_buckets by omega)
    omega
  · by_cases hk : 0 ≤ k
    · rw [Int.tmod_eq_emod hk (by omega)]
      have h1 := Int.emod_nonneg k (show g.n_buckets ≠ 0 by omega)
      have h2 := Int.emod_lt_of_pos k (show 0 < g.n_buckets by omega)
      constructor
      · intro _; exact Or.inl hk
      · intro _; exact ⟨h1, h2⟩
    · rw [tmod_of_neg k _ hn (by omega)]
      have h1 := Int.emod_nonneg (-k) (show g.n_buckets ≠ 0 by omega)
      have h2 := Int.emod_lt_of_pos (-k) (show 0 < g.n_buckets by omega)
      have h3 : g.n_buckets ∣ k ↔ (-k) % g.n_buckets = 0 := by
        rw [← Int.dvd_neg]
        exact Int.dvd_iff_emod_eq_zero
      constructor
      · intro h; right; rw [h3]; omega
      · intro h
        rcases h with h | h
        · exact absurd h hk
        · rw [h3] at h; omega
  · intro hk hd
    unfold bucket_at
    rw [tmod_of_neg k _ hn hk]
    have h1 := Int.emod_nonneg (-k) (show g.n_buckets ≠ 0 by omega)
    have h3 : g.n_buckets ∣ k ↔ (-k) % g.n_buckets = 0 := by
      rw [← Int.dvd_neg]
      exact Int.dvd_iff_emod_eq_zero
    rw [h3] at hd
    rw [if_pos (by omega)]

theorem HASH_VALUE_negative_key_witness :
    (1 : Int) ≤ hash_8.n_buckets ∧
    HASH_VALUE hash_8 (-13) = some (-5) ∧ HASH_VALUE hash_8 (-16) = some 0 ∧
    bucket_at hash_8 (-5) = none ∧
    ∃ h, HASH_VALUE hash_8 (-13) = some h ∧
      ((-13 : Int) < 0 → -hash_8.n_buckets < h ∧ h ≤ 0) ∧
      ((0 ≤ h ∧ h < hash_8.n_buckets) ↔ ((0 : Int) ≤ -13 ∨ hash_8.n_buckets ∣ -13)) ∧
      ((-13 : Int) < 0 → ¬ hash_8.n_buckets ∣ -13 → bucket_at hash_8 h = none) :=
  ⟨by decide, by decide, by decide, by decide,
    HASH_VALUE_negative_key hash_8 (-13) (by decide)⟩

/-! ## The functions are their passes repeated -/

theorem after_pass_bind {α : Type} (again : State → Option (State × Int)) (x : Option α)
    (f : α → Option (State × Int)) (g : α → Option (State × Option Int))
    (h : ∀ a, f a = after_pass again (g a)) :
    x.bind f = after_pass again (x.bind g) := by
  cases x with
  | none => rfl
  | some a => exact h a

theorem after_pass_bind_bind {α β : Type} (again : State → Option (State × Int))
    (x : Option α) (f : α → Option (State × Int)) (g : α → Option β)
    (k : β → Option (State × Option Int))
    (h : ∀ a, f a = after_pass again ((g a).bind k)) :
    x.bind f = after_pass again ((x.bind g).bind k) := by
  cases x with
  | none => rfl
  | some a => exact h a

theorem rcu_list_fg_add_by_pass (fuel : Nat) (s : State)
    (p_list : Nat) (val : Int) :
    rcu_list_fg_add (fuel + 1) s p_list val =
      after_pass
        (fun s1 => rcu_list_fg_add fuel s1 p_list val)
        (rcu_list_fg_add_pass s p_list val) := by
  rw [rcu_list_fg_add]
  unfold rcu_list_fg_add_pass rcu_list_fg_add_section
  repeat (first
    | rfl
    | (refine after_pass_bind_bind _ _ _ _ _ (fun a => ?_)
       dsimp only)
    | (refine after_pass_bind _ _ _ _ (fun a => ?_)
       try (have h0 : _ × _ := a; clear h0; obtain ⟨a1, a2⟩ := a
            try (have h0 : _ × _ := a2; clear h0; obtain ⟨a2, a3⟩ := a2))
       dsimp only)
    | split_ifs)

theorem rcu_list_fg_remove_by_pass (fuel : Nat) (s : State)
    (p_list : Nat) (val : Int) :
    rcu_list_fg_remove (fuel + 1) s p_list val =
      after_pass
        (fun s1 => rcu_list_fg_remove fuel s1 p_list val)
        (rcu_list_fg_remove_pass s p_list val) := by
  rw [rcu_list_fg_remove]
  unfold rcu_list_fg_remove_pass rcu_list_fg_remove_section
  repeat (first
    | rfl
    | (refine after_pass_bind_bind _ _ _ _ _ (fun a => ?_)
       dsimp only)
    | (refine after_pass_bind _ _ _ _ (fun a => ?_)
       try (have h0 : _ × _ := a; clear h0; obtain ⟨a1, a2⟩ := a
            try (have h0 : _ × _ := a2; clear h0; obtain ⟨a2, a3⟩ := a2))
       dsimp only)
    | split_ifs)

theorem rcu_list_numa_add_by_pass (fuel : Nat) (numa_node_id : Nat → Nat) (s : State)
    (p_list : Nat) (val : Int) :
    rcu_list_numa_add (fuel + 1) numa_node_id s p_list val =
      after_pass
        (fun s1 => rcu_list_numa_add fuel (fun k => numa_node_id (k + 4)) s1 p_list val)
        (rcu_list_numa_add_pass numa_node_id s p_list val) := by
  rw [rcu_list_numa_add]
  unfold rcu_list_numa_add_pass
  repeat (first
    | rfl
    | (refine after_pass_bind _ _ _ _ (fun a => ?_)
       try (have h0 : _ × _ := a; clear h0; obtain ⟨a1, a2⟩ := a
            try (have h0 : _ × _ := a2; clear h0; obtain ⟨a2, a3⟩ := a2))
       dsimp only)
    | split_ifs)

theorem rcu_list_numa_remove_by_pass (fuel : Nat) (numa_node_id : Nat → Nat) (s : State)
    (p_list : Nat) (val : Int) :
    rcu_list_numa_remove (fuel + 1) numa_node_id s p_list val =
      after_pass
        (fun s1 => rcu_list_numa_remove fuel (fun k => numa_node_id (k + 6)) s1 p_list val)
        (rcu_list_numa_remove_pass numa_node_id s p_list val) := by
  rw [rcu_list_numa_remove]
  unfold rcu_list_numa_remove_pass
  repeat (first
    | rfl
    | (refine after_pass_bind _ _ _ _ (fun a => ?_)
       try (have h0 : _ × _ := a; clear h0; obtain ⟨a1, a2⟩ := a
            try (have h0 : _ × _ := a2; clear h0; obtain ⟨a2, a3⟩ := a2))
       dsimp only)
    | split_ifs)

theorem rcx_list_htmlock_add_by_pass (fuel cpu : Nat) (s : State)
    (p_list : Nat) (val : Int) :
    rcx_list_htmlock_add (fuel + 1) cpu s p_list val =
      after_pass
        (fun s1 => rcx_list_htmlock_add fuel cpu s1 p_list val)
        (rcx_list_htmlock_add_pass cpu s p_list val) := by
  rw [rcx_list_htmlock_add]
  unfold rcx_list_htmlock_add_pass
  repeat (first
    | rfl
    | (refine after_pass_bind _ _ _ _ (fun a => ?_)
       try (have h0 : _ × _ := a; clear h0; obtain ⟨a1, a2⟩ := a
            try (have h0 : _ × _ := a2; clear h0; obtain ⟨a2, a3⟩ := a2))
       dsimp only)
    | split_ifs)

theorem rcx_list_htmlock_remove_by_pass (fuel cpu : Nat) (s : State)
    (p_list : Nat) (val : Int) :
    rcx_list_htmlock_remove (fuel + 1) cpu s p_list val =
      after_pass
        (fun s1 => rcx_list_htmlock_remove fuel cpu s1 p_list val)
        (rcx_list_htmlock_remove_pass cpu s p_list val) := by
  rw [rcx_list_htmlock_remove]
  unfold rcx_list_htmlock_remove_pass
  repeat (first
    | rfl
    | (refine after_pass_bind _ _ _ _ (fun a => ?_)
       try (have h0 : _ × _ := a; clear h0; obtain ⟨a1, a2⟩ := a
            try (have h0 : _ × _ := a2; clear h0; obtain ⟨a2, a3⟩ := a2))
       dsimp only)
    | split_ifs)

theorem rcx_list_hhtmlock_add_by_pass (fuel cpu : Nat) (numa_node_id : Nat → Nat) (s : State)
    (p_list : Nat) (val : Int) :
    rcx_list_hhtmlock_add (fuel + 1) cpu numa_node_id s p_list val =
      after_pass
        (fun s1 => rcx_list_hhtmlock_add fuel cpu (fun k => numa_node_id (k + 8)) s1 p_list val)
        (rcx_list_hhtmlock_add_pass fuel cpu numa_node_id s p_list val) := by
  rw [rcx_list_hhtmlock_add]
  unfold rcx_list_hhtmlock_add_pass
  repeat (first
    | rfl
    | (refine after_pass_bind _ _ _ _ (fun a => ?_)
       try (have h0 : _ × _ := a; clear h0; obtain ⟨a1, a2⟩ := a
            try (have h0 : _ × _ := a2; clear h0; obtain ⟨a2, a3⟩ := a2))
       dsimp only)
    | split_ifs)

theorem rcx_list_hhtmlock_remove_by_pass (fuel cpu : Nat) (numa_node_id : Nat → Nat) (s : State)
    (p_list : Nat) (val : Int) :
    rcx_list_hhtmlock_remove (fuel + 1) cpu numa_node_id s p_list val =
      after_pass
        (fun s1 => rcx_list_hhtmlock_remove fuel cpu (fun k => numa_node_id (k + 12)) s1 p_list val)
        (rcx_list_hhtmlock_remove_pass fuel cpu numa_node_id s p_list val) := by
  rw [rcx_list_hhtmlock_remove]
  unfold rcx_list_hhtmlock_remove_pass
  repeat (first
    | rfl
    | (refine after_pass_bind _ _ _ _ (fun a => ?_)
       try (have h0 : _ × _ := a; clear h0; obtain ⟨a1, a2⟩ := a
            try (have h0 : _ × _ := a2; clear h0; obtain ⟨a2, a3⟩ := a2))
       dsimp only)
    | split_ifs)

theorem rcx_list_numa_add_by_pass (fuel cpu : Nat) (numa_node_id : Nat → Nat) (s : State)
    (p_list : Nat) (val : Int) :
    rcx_list_numa_add (fuel + 1) cpu numa_node_id s p_list val =
      after_pass
        (fun s1 => rcx_list_numa_add fuel cpu (fun k => numa_node_id (k + 8)) s1 p_list val)
        (rcx_list_numa_add_pass cpu numa_node_id s p_list val) := by
  rw [rcx_list_numa_add]
  unfold rcx_list_numa_add_pass
  repeat (first
    | rfl
    | (refine after_pass_bind _ _ _ _ (fun a => ?_)
       try (have h0 : _ × _ := a; clear h0; obtain ⟨a1, a2⟩ := a
            try (have h0 : _ × _ := a2; clear h0; obtain ⟨a2, a3⟩ := a2))
       dsimp only)
    | split_ifs)

theorem rcx_list_numa_remove_by_pass (fuel cpu : Nat) (numa_node_id : Nat → Nat) (s : State)
    (p_list : Nat) (val : Int) :
    rcx_list_numa_remove (fuel + 1) cpu numa_node_id s p_list val =
      after_pass
        (fun s1 => rcx_list_numa_remove fuel cpu (fun k => numa_node_id (k + 12)) s1 p_list val)
        (rcx_list_numa_remove_pass cpu numa_node_id s p_list val) := by
  rw [rcx_list_numa_remove]
  unfold rcx_list_numa_remove_pass
  repeat (first
    | rfl
    | (refine after_pass_bind _ _ _ _ (fun a => ?_)
       try (have h0 : _ × _ := a; clear h0; obtain ⟨a1, a2⟩ := a
            try (have h0 : _ × _ := a2; clear h0; obtain ⟨a2, a3⟩ := a2))
       dsimp only)
    | split_ifs)

/-! ## The critical sections of the fine-grained add and remove at any two or three nodes -/

theorem state_nodes_eta (s : State) (l : List node_t) (h : l = s.nodes) :
    { s with nodes := l } = s := by
  subst h
  rfl

theorem global_lock_pair_free (s : State) (p_prev p_next : Nat) (n1 n2 : node_t)
    (h1 : s.nodes[p_prev]? = some n1) (h2 : s.nodes[p_next]? = some n2) (hne : p_prev ≠ p_next)
    (hg1 : n1.global_lock = false) (hg2 : n2.global_lock = false) :
    global_lock_pair s p_prev p_next =
      some { s with nodes := ((s.nodes.set p_prev { n1 with global_lock := true }).set p_next
        { n2 with global_lock := true }) } := by
  simp only [global_lock_pair, spin_lock_global, node_store, h1, h2, hg1, hg2,
    Bool.false_eq_true, if_false, List.getElem?_set, hne]

theorem add_validate_held (s : State) (p_prev p_next : Nat) (n1 n2 : node_t)
    (h1 : s.nodes[p_prev]? = some n1) (h2 : s.nodes[p_next]? = some n2) (hne : p_prev ≠ p_next) :
    add_validate
      { s with nodes := ((s.nodes.set p_prev { n1 with global_lock := true }).set p_next
          { n2 with global_lock := true }) }
      p_prev p_next =
      some (if n1.p_next ≠ some p_next then 1
        else if n1.removed ≠ 0 ∨ n2.removed ≠ 0 then 2 else 0) := by
  have hplt := getElem?_lt_length _ _ _ h1
  have hblt := getElem?_lt_length _ _ _ h2
  have hne2 : p_next ≠ p_prev := Ne.symm hne
  simp only [add_validate, List.getElem?_set, List.length_set, hne, hne2, hplt, hblt, if_true,
    if_false]
  split_ifs <;> rfl

theorem add_validate_held_iff (s : State) (p_prev p_next : Nat) (n1 n2 : node_t)
    (h1 : s.nodes[p_prev]? = some n1) (h2 : s.nodes[p_next]? = some n2) (hne : p_prev ≠ p_next) :
    add_validate
      { s with nodes := ((s.nodes.set p_prev { n1 with global_lock := true }).set p_next
          { n2 with global_lock := true }) }
      p_prev p_next = some 0 ↔
      n1.p_next = some p_next ∧ n1.removed = 0 ∧ n2.removed = 0 := by
  rw [add_validate_held s p_prev p_next n1 n2 h1 h2 hne]
  by_cases hc1 : n1.p_next = some p_next
  · by_cases hc2 : n1.removed ≠ 0 ∨ n2.removed ≠ 0
    · simp only [hc1, ne_eq, not_true_eq_false, if_false, hc2, if_true, Option.some.injEq,
        OfNat.ofNat_ne_zero, true_and, false_iff, not_and]
      intro h; rcases hc2 with h3 | h3
      · exact absurd h h3
      · exact h3
    · have hr1 : n1.removed = 0 := by by_contra h; exact hc2 (Or.inl h)
      have hr2 : n2.removed = 0 := by by_contra h; exact hc2 (Or.inr h)
      simp [hc1, hr1, hr2]
  · simp [hc1]

theorem global_unlock_pair_held (s : State) (p_prev p_next : Nat) (n1 n2 : node_t)
    (h1 : s.nodes[p_prev]? = some n1) (h2 : s.nodes[p_next]? = some n2) (hne : p_prev ≠ p_next)
    (hg1 : n1.global_lock = false) (hg2 : n2.global_lock = false) :
    global_unlock_pair
      { s with nodes := ((s.nodes.set p_prev { n1 with global_lock := true }).set p_next
          { n2 with global_lock := true }) }
      p_prev p_next = some s := by
  have hplt := getElem?_lt_length _ _ _ h1
  have hblt := getElem?_lt_length _ _ _ h2
  have hne2 : p_next ≠ p_prev := Ne.symm hne
  simp only [global_unlock_pair, spin_unlock_global, node_store, List.getElem?_set,
    List.length_set, hne, hne2, hplt, hblt, if_true, if_false, Option.some.injEq]
  apply state_nodes_eta
  apply List.ext_getElem?
  intro i
  simp only [List.getElem?_set, List.length_set, hplt, hblt, if_true]
  by_cases e1 : p_prev = i
  · subst e1
    simp [h1, node_lock_eta n1 hg1]
  · by_cases e2 : p_next = i
    · subst e2
      simp [e1, h2, node_lock_eta n2 hg2]
    · simp [e1, e2]

theorem global_unlock_pair_published (s : State) (p_prev p_next p_new_node : Nat)
    (n1 n2 : node_t)
    (h1 : s.nodes[p_prev]? = some n1) (h2 : s.nodes[p_next]? = some n2) (hne : p_prev ≠ p_next)
    (hg1 : n1.global_lock = false) (hg2 : n2.global_lock = false) :
    (node_store
      { s with nodes := ((s.nodes.set p_prev { n1 with global_lock := true }).set p_next
          { n2 with global_lock := true }) }
      p_prev (fun n => { n with p_next := some p_new_node })).bind
        (fun s2 => global_unlock_pair s2 p_prev p_next) =
      some { s with nodes := s.nodes.set p_prev { n1 with p_next := some p_new_node } } := by
  have hplt := getElem?_lt_length _ _ _ h1
  have hblt := getElem?_lt_length _ _ _ h2
  have hne2 : p_next ≠ p_prev := Ne.symm hne
  simp only [global_unlock_pair, spin_unlock_global, node_store, List.getElem?_set,
    List.length_set, hne, hne2, hplt, hblt, if_true, if_false, Option.some_bind,
    Option.some.injEq, State.mk.injEq, and_true]
  apply List.ext_getElem?
  intro i
  simp only [List.getElem?_set, List.length_set, hplt, hblt, if_true]
  by_cases e1 : p_prev = i
  · subst e1
    simp [hg1]
  · by_cases e2 : p_next = i
    · subst e2
      simp [e1, h2, node_lock_eta n2 hg2]
    · simp [e1, e2]

theorem rcu_list_fg_add_section_eq (s : State) (p_prev p_next p_new_node : Nat)
    (n1 n2 : node_t)
    (h1 : s.nodes[p_prev]? = some n1) (h2 : s.nodes[p_next]? = some n2) (hne : p_prev ≠ p_next)
    (hg1 : n1.global_lock = false) (hg2 : n2.global_lock = false) :
    rcu_list_fg_add_section s p_prev p_next p_new_node =
      some (if n1.p_next = some p_next ∧ n1.removed = 0 ∧ n2.removed = 0 then
          ({ s with nodes := s.nodes.set p_prev { n1 with p_next := some p_new_node } }, true)
        else (s, false)) := by
  unfold rcu_list_fg_add_section
  simp only [Option.bind_eq_bind]
  rw [global_lock_pair_free s p_prev p_next n1 n2 h1 h2 hne hg1 hg2, Option.some_bind]
  have hiff := add_validate_held_iff s p_prev p_next n1 n2 h1 h2 hne
  have hval := add_validate_held s p_prev p_next n1 n2 h1 h2 hne
  rw [hval] at hiff
  rw [hval, Option.some_bind]
  by_cases hcond : n1.p_next = some p_next ∧ n1.removed = 0 ∧ n2.removed = 0
  · rw [if_pos hcond]
    have hz := hiff.mpr hcond
    rw [Option.some.injEq] at hz
    rw [hz]
    simp only [ne_eq, not_true_eq_false, if_false]
    have hp := global_unlock_pair_published s p_prev p_next p_new_node n1 n2 h1 h2 hne hg1 hg2
    rw [← Option.bind_assoc, hp]
    rfl
  · rw [if_neg hcond]
    have hck : (if n1.p_next ≠ some p_next then 1
        else if n1.removed ≠ 0 ∨ n2.removed ≠ 0 then 2 else 0) ≠ 0 := by
      intro hz
      exact hcond (hiff.mp (by rw [hz]))
    rw [if_pos hck, global_unlock_pair_held s p_prev p_next n1 n2 h1 h2 hne hg1 hg2]
    rfl

theorem rcu_list_fg_add_pass_eq (s : State) (p_list : Nat) (val : Int)
    (p_prev p_next : Nat) (v : Int) (n1 n2 : node_t)
    (hfind : list_find s p_list val = some (p_prev, p_next, v)) (hv : v ≠ val)
    (h1 : s.nodes[p_prev]? = some n1) (h2 : s.nodes[p_next]? = some n2) (hne : p_prev ≠ p_next)
    (hg1 : n1.global_lock = false) (hg2 : n2.global_lock = false) :
    rcu_list_fg_add_pass s p_list val =
      some (if n1.p_next = some p_next ∧ n1.removed = 0 ∧ n2.removed = 0 then
          (linked s val p_prev p_next n1, some 1)
        else
          ({ s with nodes := s.nodes ++ [added_node val p_next]
                    freed := s.freed ++ [s.nodes.length] }, none)) := by
  have hplt := getElem?_lt_length _ _ _ h1
  have hblt := getElem?_lt_length _ _ _ h2
  unfold rcu_list_fg_add_pass
  simp only [hfind, Option.bind_eq_bind, Option.some_bind, hv, ne_eq, not_false_eq_true, if_true,
    rcu_alloc_node_eq]
  rw [rcu_list_fg_add_section_eq { s with nodes := s.nodes ++ [added_node val p_next] }
    p_prev p_next s.nodes.length n1 n2
    (by rw [List.getElem?_append_left hplt]; exact h1)
    (by rw [List.getElem?_append_left hblt]; exact h2) hne hg1 hg2, Option.some_bind]
  by_cases hcond : n1.p_next = some p_next ∧ n1.removed = 0 ∧ n2.removed = 0
  · rw [if_pos hcond, if_pos hcond]
    rfl
  · rw [if_neg hcond, if_neg hcond]
    rfl

theorem global_lock_triple_free (s : State) (p_prev p_next c : Nat) (n1 n2 n3 : node_t)
    (h1 : s.nodes[p_prev]? = some n1) (h2 : s.nodes[p_next]? = some n2)
    (h3 : s.nodes[c]? = some n3) (h12 : p_prev ≠ p_next) (h23 : p_next ≠ c) (h13 : p_prev ≠ c)
    (hg1 : n1.global_lock = false) (hg2 : n2.global_lock = false)
    (hg3 : n3.global_lock = false) :
    global_lock_triple s p_prev p_next (some c) =
      some { s with nodes := (((s.nodes.set p_prev { n1 with global_lock := true }).set p_next
        { n2 with global_lock := true }).set c { n3 with global_lock := true }) } := by
  have h21 : p_next ≠ p_prev := Ne.symm h12
  have h32 : c ≠ p_next := Ne.symm h23
  have h31 : c ≠ p_prev := Ne.symm h13
  simp only [global_lock_triple, spin_lock_global, node_store, h1, h2, h3, hg1, hg2, hg3,
    Bool.false_eq_true, if_false, List.getElem?_set, h12, h21, h23, h32, h13, h31]

theorem remove_validate_held (s : State) (p_prev p_next c : Nat) (n1 n2 n3 : node_t)
    (h1 : s.nodes[p_prev]? = some n1) (h2 : s.nodes[p_next]? = some n2)
    (h3 : s.nodes[c]? = some n3)
    (h12 : p_prev ≠ p_next) (h23 : p_next ≠ c) (h13 : p_prev ≠ c) :
    remove_validate
      { s with nodes := (((s.nodes.set p_prev { n1 with global_lock := true }).set p_next
        { n2 with global_lock := true }).set c { n3 with global_lock := true }) }
      p_prev p_next (some c) =
      some (if n1.removed ≠ 0 ∨ n2.removed ≠ 0 ∨ n3.removed ≠ 0 then 1
        else if n1.p_next ≠ some p_next ∨ n2.p_next ≠ some c then 2 else 0) := by
  have hplt := getElem?_lt_length _ _ _ h1
  have hblt := getElem?_lt_length _ _ _ h2
  have hclt := getElem?_lt_length _ _ _ h3
  have h21 : p_next ≠ p_prev := Ne.symm h12
  have h32 : c ≠ p_next := Ne.symm h23
  have h31 : c ≠ p_prev := Ne.symm h13
  simp only [remove_validate, List.getElem?_set, List.length_set, h12, h21, h23, h32, h13,
    h31, hplt, hblt, hclt, if_true, if_false]
  split_ifs <;> rfl

theorem remove_validate_held_iff (s : State) (p_prev p_next c : Nat) (n1 n2 n3 : node_t)
    (h1 : s.nodes[p_prev]? = some n1) (h2 : s.nodes[p_next]? = some n2)
    (h3 : s.nodes[c]? = some n3)
    (h12 : p_prev ≠ p_next) (h23 : p_next ≠ c) (h13 : p_prev ≠ c) :
    remove_validate
      { s with nodes := (((s.nodes.set p_prev { n1 with global_lock := true }).set p_next
        { n2 with global_lock := true }).set c { n3 with global_lock := true }) }
      p_prev p_next (some c) = some 0 ↔
      (n1.removed = 0 ∧ n2.removed = 0 ∧ n3.removed = 0) ∧
        n1.p_next = some p_next ∧ n2.p_next = some c := by
  rw [remove_validate_held s p_prev p_next c n1 n2 n3 h1 h2 h3 h12 h23 h13]
  by_cases hc2 : n1.removed ≠ 0 ∨ n2.removed ≠ 0 ∨ n3.removed ≠ 0
  · simp only [hc2, if_true, Option.some.injEq, one_ne_zero, false_iff, not_and]
    intro h
    rcases hc2 with h4 | h4 | h4
    · exact absurd h.1 h4
    · exact absurd h.2.1 h4
    · exact absurd h.2.2 h4
  · have hr1 : n1.removed = 0 := by by_contra h; exact hc2 (Or.inl h)
    have hr2 : n2.removed = 0 := by by_contra h; exact hc2 (Or.inr (Or.inl h))
    have hr3 : n3.removed = 0 := by by_contra h; exact hc2 (Or.inr (Or.inr h))
    by_cases hc1 : n1.p_next = some p_next
    · by_cases hc3 : n2.p_next = some c
      · simp [hc1, hc3, hr1, hr2, hr3]
      · simp [hc1, hc3, hr1, hr2, hr3]
    · simp [hc1, hr1, hr2, hr3]

theorem global_unlock_triple_held (s : State) (p_prev p_next c : Nat) (n1 n2 n3 : node_t)
    (h1 : s.nodes[p_prev]? = some n1) (h2 : s.nodes[p_next]? = some n2)
    (h3 : s.nodes[c]? = some n3)
    (h12 : p_prev ≠ p_next) (h23 : p_next ≠ c) (h13 : p_prev ≠ c)
    (hg1 : n1.global_lock = false) (hg2 : n2.global_lock = false)
    (hg3 : n3.global_lock = false) :
    global_unlock_triple
      { s with nodes := (((s.nodes.set p_prev { n1 with global_lock := true }).set p_next
        { n2 with global_lock := true }).set c { n3 with global_lock := true }) }
      p_prev p_next c = some s := by
  have hplt := getElem?_lt_length _ _ _ h1
  have hblt := getElem?_lt_length _ _ _ h2
  have hclt := getElem?_lt_length _ _ _ h3
  have h21 : p_next ≠ p_prev := Ne.symm h12
  have h32 : c ≠ p_next := Ne.symm h23
  have h31 : c ≠ p_prev := Ne.symm h13
  simp only [global_unlock_triple, spin_unlock_global, node_store, List.getElem?_set,
    List.length_set, h12, h21, h23, h32, h13, h31, hplt, hblt, hclt,
    if_true, if_false, Option.some.injEq]
  apply state_nodes_eta
  apply List.ext_getElem?
  intro i
  simp only [List.getElem?_set, List.length_set, hplt, hblt, hclt, if_true]
  by_cases e1 : p_prev = i
  · subst e1
    simp [h1, node_lock_eta n1 hg1]
  · by_cases e2 : p_next = i
    · subst e2
      simp [e1, h2, node_lock_eta n2 hg2]
    · by_cases e3 : c = i
      · subst e3
        simp [e1, e2, h3, node_lock_eta n3 hg3]
      · simp [e1, e2, e3]

theorem global_unlock_triple_unlinked (s : State) (p_prev p_next c : Nat) (n1 n2 n3 : node_t)
    (h1 : s.nodes[p_prev]? = some n1) (h2 : s.nodes[p_next]? = some n2)
    (h3 : s.nodes[c]? = some n3)
    (h12 : p_prev ≠ p_next) (h23 : p_next ≠ c) (h13 : p_prev ≠ c)
    (hg1 : n1.global_lock = false) (hg2 : n2.global_lock = false)
    (hg3 : n3.global_lock = false) :
    ((node_store
      { s with nodes := (((s.nodes.set p_prev { n1 with global_lock := true }).set p_next
        { n2 with global_lock := true }).set c { n3 with global_lock := true }) }
      p_prev (fun m => { m with p_next := some c })).bind
        (fun s2 => (node_store s2 p_next (fun m => { m with removed := 1 })).bind
          (fun s3 => global_unlock_triple (rcu_free_node s3 p_next) p_prev p_next c))) =
      some { s with
        nodes := ((s.nodes.set p_prev { n1 with p_next := some c }).set p_next
          { n2 with removed := 1 })
        retired := s.retired ++ [p_next] } := by
  have hplt := getElem?_lt_length _ _ _ h1
  have hblt := getElem?_lt_length _ _ _ h2
  have hclt := getElem?_lt_length _ _ _ h3
  have h21 : p_next ≠ p_prev := Ne.symm h12
  have h32 : c ≠ p_next := Ne.symm h23
  have h31 : c ≠ p_prev := Ne.symm h13
  simp only [global_unlock_triple, spin_unlock_global, rcu_free_node, RCU_FREE,
    node_store, List.getElem?_set, List.length_set, h12, h21, h23, h32, h13, h31, hplt, hblt,
    hclt, if_true, if_false, Option.some_bind, Option.some.injEq, State.mk.injEq, and_true,
    true_and]
  apply List.ext_getElem?
  intro i
  simp only [List.getElem?_set, List.length_set, hplt, hblt, hclt, if_true]
  by_cases e1 : p_prev = i
  · subst e1
    simp [h21, h31, hg1]
  · by_cases e2 : p_next = i
    · subst e2
      simp [e1, h32, hg2]
    · by_cases e3 : c = i
      · subst e3
        simp [e1, e2, h3, node_lock_eta n3 hg3]
      · simp [e1, e2, e3]

theorem rcu_list_fg_remove_section_eq (s : State) (p_prev p_next c : Nat) (n1 n2 n3 : node_t)
    (h1 : s.nodes[p_prev]? = some n1) (h2 : s.nodes[p_next]? = some n2)
    (h3 : s.nodes[c]? = some n3)
    (h12 : p_prev ≠ p_next) (h23 : p_next ≠ c) (h13 : p_prev ≠ c)
    (hg1 : n1.global_lock = false) (hg2 : n2.global_lock = false)
    (hg3 : n3.global_lock = false) :
    rcu_list_fg_remove_section s p_prev p_next (some c) =
      some (if (n1.removed = 0 ∧ n2.removed = 0 ∧ n3.removed = 0) ∧
            n1.p_next = some p_next ∧ n2.p_next = some c then
          ({ s with
              nodes := ((s.nodes.set p_prev { n1 with p_next := some c }).set p_next
                { n2 with removed := 1 })
              retired := s.retired ++ [p_next] }, true)
        else (s, false)) := by
  unfold rcu_list_fg_remove_section
  simp only [Option.bind_eq_bind]
  rw [global_lock_triple_free s p_prev p_next c n1 n2 n3 h1 h2 h3 h12 h23 h13 hg1 hg2 hg3,
    Option.some_bind, Option.some_bind]
  have hiff := remove_validate_held_iff s p_prev p_next c n1 n2 n3 h1 h2 h3 h12 h23 h13
  have hval := remove_validate_held s p_prev p_next c n1 n2 n3 h1 h2 h3 h12 h23 h13
  rw [hval] at hiff
  rw [hval, Option.some_bind]
  by_cases hcond : (n1.removed = 0 ∧ n2.removed = 0 ∧ n3.removed = 0) ∧
      n1.p_next = some p_next ∧ n2.p_next = some c
  · rw [if_pos hcond]
    have hz := hiff.mpr hcond
    rw [Option.some.injEq] at hz
    rw [hz]
    simp only [ne_eq, not_true_eq_false, if_false]
    have hp := global_unlock_triple_unlinked s p_prev p_next c n1 n2 n3 h1 h2 h3 h12 h23 h13
      hg1 hg2 hg3
    rw [← Option.bind_assoc, ← Option.bind_assoc]
    rw [Option.bind_assoc (node_store _ _ _)]
    rw [hp]
    rfl
  · rw [if_neg hcond]
    have hck : (if n1.removed ≠ 0 ∨ n2.removed ≠ 0 ∨ n3.removed ≠ 0 then 1
        else if n1.p_next ≠ some p_next ∨ n2.p_next ≠ some c then 2 else 0) ≠ 0 := by
      intro hz
      exact hcond (hiff.mp (by rw [hz]))
    rw [if_pos hck,
      global_unlock_triple_held s p_prev p_next c n1 n2 n3 h1 h2 h3 h12 h23 h13 hg1 hg2 hg3]
    rfl

theorem rcu_list_fg_remove_pass_eq (s : State) (p_list : Nat) (val : Int)
    (p_prev p_next c : Nat) (n1 n2 n3 : node_t)
    (hfind : list_find s p_list val = some (p_prev, p_next, val))
    (h1 : s.nodes[p_prev]? = some n1) (h2 : s.nodes[p_next]? = some n2)
    (h3 : s.nodes[c]? = some n3) (hbn : n2.p_next = some c)
    (h12 : p_prev ≠ p_next) (h23 : p_next ≠ c) (h13 : p_prev ≠ c)
    (hg1 : n1.global_lock = false) (hg2 : n2.global_lock = false)
    (hg3 : n3.global_lock = false) :
    rcu_list_fg_remove_pass s p_list val =
      some (if (n1.removed = 0 ∧ n2.removed = 0 ∧ n3.removed = 0) ∧ n1.p_next = some p_next then
          (unlinked_marked s p_prev p_next n1 n2, some 1)
        else (s, none)) := by
  unfold rcu_list_fg_remove_pass
  simp only [hfind, Option.bind_eq_bind, Option.some_bind, if_true, h2, hbn]
  rw [rcu_list_fg_remove_section_eq s p_prev p_next c n1 n2 n3 h1 h2 h3 h12 h23 h13 hg1 hg2 hg3,
    Option.some_bind]
  by_cases hcond : (n1.removed = 0 ∧ n2.removed = 0 ∧ n3.removed = 0) ∧ n1.p_next = some p_next
  · have hfull : (n1.removed = 0 ∧ n2.removed = 0 ∧ n3.removed = 0) ∧
        n1.p_next = some p_next ∧ n2.p_next = some c := ⟨hcond.1, hcond.2, hbn⟩
    rw [if_pos hcond, if_pos hfull]
    unfold unlinked_marked
    rw [hbn]
    rfl
  · have hfull : ¬ ((n1.removed = 0 ∧ n2.removed = 0 ∧ n3.removed = 0) ∧
        n1.p_next = some p_next ∧ n2.p_next = some c) := fun h => hcond ⟨h.1, h.2.1⟩
    rw [if_neg hcond, if_neg hfull]
    rfl

/-! ## C33: the validation of the fine-grained add and remove -/

/-- C33: the critical sections of `rcu_list_fg_add` and `rcu_list_fg_remove`, at
any memory and any nodes `p_prev ≠ p_next` (and `c`, for the remove) whose global
locks are free; nothing is assumed on how the nodes are linked.  The section
takes the locks of the two (three) nodes.  With the locks held the validation
passes exactly when `p_prev->p_next` is `p_next` and neither node has `removed`
set (remove: no node of the three has `removed` set, `p_prev->p_next` is
`p_next` and `p_next->p_next` is `c`).  Exactly then the section stores: it
returns, flag `true`, the memory with the one link changed (remove: and the
victim marked and retired) and the locks released.  Otherwise it returns, flag
`false`, the memory it started from, the locks released.  One pass
(`list_find`, allocation, section) of the add on an absent key then returns 1
with the node linked, or ends at `goto retry` with the new node freed, every
other node and every list as they were; one pass of the remove on a present key
returns 1 with the victim unlinked, marked and retired, or ends at `goto retry`
on the memory it started from.  After `goto retry` the function runs again from
the head of the list on the memory the pass left. -/
theorem fg_validation (s : State) (p_prev p_next : Nat) (n1 n2 : node_t)
    (h1 : s.nodes[p_prev]? = some n1) (h2 : s.nodes[p_next]? = some n2)
    (h12 : p_prev ≠ p_next)
    (hg1 : n1.global_lock = false) (hg2 : n2.global_lock = false) :
    (global_lock_pair s p_prev p_next =
        some { s with nodes := ((s.nodes.set p_prev { n1 with global_lock := true }).set p_next
          { n2 with global_lock := true }) } ∧
      (add_validate
          { s with nodes := ((s.nodes.set p_prev { n1 with global_lock := true }).set p_next
            { n2 with global_lock := true }) }
          p_prev p_next = some 0 ↔
        n1.p_next = some p_next ∧ n1.removed = 0 ∧ n2.removed = 0) ∧
      global_unlock_pair
          { s with nodes := ((s.nodes.set p_prev { n1 with global_lock := true }).set p_next
            { n2 with global_lock := true }) }
          p_prev p_next = some s ∧
      (∀ p_new_node : Nat,
        rcu_list_fg_add_section s p_prev p_next p_new_node =
          some (if n1.p_next = some p_next ∧ n1.removed = 0 ∧ n2.removed = 0 then
              ({ s with nodes := s.nodes.set p_prev { n1 with p_next := some p_new_node } },
                true)
            else (s, false))) ∧
      (∀ (p_list : Nat) (val v : Int),
        list_find s p_list val = some (p_prev, p_next, v) → v ≠ val →
        rcu_list_fg_add_pass s p_list val =
          some (if n1.p_next = some p_next ∧ n1.removed = 0 ∧ n2.removed = 0 then
              (linked s val p_prev p_next n1, some 1)
            else
              ({ s with nodes := s.nodes ++ [added_node val p_next]
                        freed := s.freed ++ [s.nodes.length] }, none))) ∧
      (∀ (fuel : Nat) (s0 : State) (p_list : Nat) (val : Int),
        rcu_list_fg_add (fuel + 1) s0 p_list val =
          after_pass (fun s1 => rcu_list_fg_add fuel s1 p_list val)
            (rcu_list_fg_add_pass s0 p_list val))) ∧
    (∀ (c : Nat) (n3 : node_t), s.nodes[c]? = some n3 → p_next ≠ c → p_prev ≠ c →
      n3.global_lock = false →
      global_lock_triple s p_prev p_next (some c) =
        some { s with nodes := (((s.nodes.set p_prev { n1 with global_lock := true }).set
          p_next { n2 with global_lock := true }).set c { n3 with global_lock := true }) } ∧
      (remove_validate
          { s with nodes := (((s.nodes.set p_prev { n1 with global_lock := true }).set
            p_next { n2 with global_lock := true }).set c { n3 with global_lock := true }) }
          p_prev p_next (some c) = some 0 ↔
        (n1.removed = 0 ∧ n2.removed = 0 ∧ n3.removed = 0) ∧
          n1.p_next = some p_next ∧ n2.p_next = some c) ∧
      global_unlock_triple
          { s with nodes := (((s.nodes.set p_prev { n1 with global_lock := true }).set
            p_next { n2 with global_lock := true }).set c { n3 with global_lock := true }) }
          p_prev p_next c = some s ∧
      rcu_list_fg_remove_section s p_prev p_next (some c) =
        some (if (n1.removed = 0 ∧ n2.removed = 0 ∧ n3.removed = 0) ∧
              n1.p_next = some p_next ∧ n2.p_next = some c then
            ({ s with
                nodes := ((s.nodes.set p_prev { n1 with p_next := some c }).set p_next
                  { n2 with removed := 1 })
                retired := s.retired ++ [p_next] }, true)
          else (s, false)) ∧
      (∀ (p_list : Nat) (val : Int),
        list_find s p_list val = some (p_prev, p_next, val) → n2.p_next = some c →
        rcu_list_fg_remove_pass s p_list val =
          some (if (n1.removed = 0 ∧ n2.removed = 0 ∧ n3.removed = 0) ∧
                n1.p_next = some p_next then
              (unlinked_marked s p_prev p_next n1 n2, some 1)
            else (s, none))) ∧
      (∀ (fuel : Nat) (s0 : State) (p_list : Nat) (val : Int),
        rcu_list_fg_remove (fuel + 1) s0 p_list val =
          after_pass (fun s1 => rcu_list_fg_remove fuel s1 p_list val)
            (rcu_list_fg_remove_pass s0 p_list val))) :=
  ⟨⟨global_lock_pair_free s p_prev p_next n1 n2 h1 h2 h12 hg1 hg2,
      add_validate_held_iff s p_prev p_next n1 n2 h1 h2 h12,
      global_unlock_pair_held s p_prev p_next n1 n2 h1 h2 h12 hg1 hg2,
      fun p_new_node =>
        rcu_list_fg_add_section_eq s p_prev p_next p_new_node n1 n2 h1 h2 h12 hg1 hg2,
      fun p_list val v hfind hv =>
        rcu_list_fg_add_pass_eq s p_list val p_prev p_next v n1 n2 hfind hv h1 h2 h12 hg1 hg2,
      fun fuel s0 p_list val => rcu_list_fg_add_by_pass fuel s0 p_list val⟩,
    fun c n3 h3 h23 h13 hg3 =>
      ⟨global_lock_triple_free s p_prev p_next c n1 n2 n3 h1 h2 h3 h12 h23 h13 hg1 hg2 hg3,
        remove_validate_held_iff s p_prev p_next c n1 n2 n3 h1 h2 h3 h12 h23 h13,
        global_unlock_triple_held s p_prev p_next c n1 n2 n3 h1 h2 h3 h12 h23 h13 hg1 hg2 hg3,
        rcu_list_fg_remove_section_eq s p_prev p_next c n1 n2 n3 h1 h2 h3 h12 h23 h13 hg1 hg2
          hg3,
        fun p_list val hfind hbn =>
          rcu_list_fg_remove_pass_eq s p_list val p_prev p_next c n1 n2 n3 hfind h1 h2 h3 hbn
            h12 h23 h13 hg1 hg2 hg3,
        fun fuel s0 p_list val => rcu_list_fg_remove_by_pass fuel s0 p_list val⟩⟩

theorem fg_validation_witness :
    rcu_list_fg_add_section mem_3_7 1 3 4 = some (mem_3_7, false) ∧
    rcu_list_fg_add_pass mem_3_7_marked 0 5 =
      some ({ mem_3_7_marked with
                nodes := mem_3_7_marked.nodes ++ [added_node 5 3]
                freed := mem_3_7_marked.freed ++ [mem_3_7_marked.nodes.length] }, none) ∧
    rcu_list_fg_add_pass mem_3_7 0 5 =
      some (linked mem_3_7 5 2 3
        { val := 3, p_next := some 3, removed := 0,
          pnd_slocks := [false, false, false, false], global_lock := false }, some 1) ∧
    rcu_list_fg_remove_section mem_3_7 1 2 (some 0) = some (mem_3_7, false) ∧
    rcu_list_fg_remove_pass mem_3_7_marked 0 7 = some (mem_3_7_marked, none) ∧
    rcu_list_fg_remove_pass mem_3_7 0 3 =
      some (unlinked_marked mem_3_7 1 2
        { val := LIST_VAL_MIN, p_next := some 2, removed := 0,
          pnd_slocks := [false, false, false, false], global_lock := false }
        { val := 3, p_next := some 3, removed := 0,
          pnd_slocks := [false, false, false, false], global_lock := false }, some 1) :=
  ⟨((fg_validation mem_3_7 1 3
        { val := LIST_VAL_MIN, p_next := some 2, removed := 0,
          pnd_slocks := [false, false, false, false], global_lock := false }
        { val := 7, p_next := some 0, removed := 0,
          pnd_slocks := [false, false, false, false], global_lock := false }
        (by decide) (by decide) (by decide) rfl rfl).1.2.2.2.1 4).trans
      (congrArg some (if_neg (by decide))),
    ((fg_validation mem_3_7_marked 2 3
        { val := 3, p_next := some 3, removed := 1,
          pnd_slocks := [false, false, false, false], global_lock := false }
        { val := 7, p_next := some 0, removed := 0,
          pnd_slocks := [false, false, false, false], global_lock := false }
        (by decide) (by decide) (by decide) rfl rfl).1.2.2.2.2.1 0 5 7 (by decide)
        (by decide)).trans
      (congrArg some (if_neg (by decide))),
    ((fg_validation mem_3_7 2 3
        { val := 3, p_next := some 3, removed := 0,
          pnd_slocks := [false, false, false, false], global_lock := false }
        { val := 7, p_next := some 0, removed := 0,
          pnd_slocks := [false, false, false, false], global_lock := false }
        (by decide) (by decide) (by decide) rfl rfl).1.2.2.2.2.1 0 5 7 (by decide)
        (by decide)).trans
      (congrArg some (if_pos (by decide))),
    ((fg_validation mem_3_7 1 2
        { val := LIST_VAL_MIN, p_next := some 2, removed := 0,
          pnd_slocks := [false, false, false, false], global_lock := false }
        { val := 3, p_next := some 3, removed := 0,
          pnd_slocks := [false, false, false, false], global_lock := false }
        (by decide) (by decide) (by decide) rfl rfl).2 0
        { val := LIST_VAL_MAX, p_next := none, removed := 0,
          pnd_slocks := [false, false, false, false], global_lock := false }
        (by decide) (by decide) (by decide) rfl).2.2.2.1.trans
      (congrArg some (if_neg (by decide))),
    (((fg_validation mem_3_7_marked 2 3
        { val := 3, p_next := some 3, removed := 1,
          pnd_slocks := [false, false, false, false], global_lock := false }
        { val := 7, p_next := some 0, removed := 0,
          pnd_slocks := [false, false, false, false], global_lock := false }
        (by decide) (by decide) (by decide) rfl rfl).2 0
        { val := LIST_VAL_MAX, p_next := none, removed := 0,
          pnd_slocks := [false, false, false, false], global_lock := false }
        (by decide) (by decide) (by decide) rfl).2.2.2.2.1 0 7 (by decide) rfl).trans
      (congrArg some (if_neg (by decide))),
    (((fg_validation mem_3_7 1 2
        { val := LIST_VAL_MIN, p_next := some 2, removed := 0,
          pnd_slocks := [false, false, false, false], global_lock := false }
        { val := 3, p_next := some 3, removed := 0,
          pnd_slocks := [false, false, false, false], global_lock := false }
        (by decide) (by decide) (by decide) rfl rfl).2 3
        { val := 7, p_next := some 0, removed := 0,
          pnd_slocks := [false, false, false, false], global_lock := false }
        (by decide) (by decide) (by decide) rfl).2.2.2.2.1 0 3 (by decide) rfl).trans
      (congrArg some (if_pos (by decide)))⟩

/-! ## The lock calls of one pass -/

theorem list_traverse_adjacent (nodes : List node_t) (val : Int) :
    ∀ (fuel p_prev : Nat) (p_next : Option Nat) (n0 : node_t) (a b : Nat) (v : Int),
      nodes[p_prev]? = some n0 → n0.p_next = p_next →
      list_traverse nodes val fuel p_prev p_next = some (a, b, v) →
      ∃ na nb, nodes[a]? = some na ∧ na.p_next = some b ∧ nodes[b]? = some nb ∧
        nb.val = v ∧ val ≤ v := by
  intro fuel
  induction fuel with
  | zero => intro p_prev p_next n0 a b v _ _ h; cases h
  | succ fuel ih =>
    intro p_prev p_next n0 a b v h0 hn h
    rw [list_traverse.eq_def] at h
    simp only at h
    cases p_next with
    | none => cases h
    | some x =>
      simp only at h
      cases hx : nodes[x]? with
      | none => rw [hx] at h; cases h
      | some nx =>
        rw [hx] at h
        simp only at h
        by_cases hge : nx.val ≥ val
        · rw [if_pos hge] at h
          simp only [Option.some.injEq, Prod.mk.injEq] at h
          obtain ⟨e1, e2, e3⟩ := h
          subst e1 e2 e3
          exact ⟨n0, nx, h0, hn, hx, rfl, hge⟩
        · rw [if_neg hge] at h
          exact ih x nx.p_next nx a b v hx rfl h

theorem list_find_adjacent (s : State) (p_list : Nat) (val : Int) (a b : Nat) (v : Int)
    (h : list_find s p_list val = some (a, b, v)) :
    ∃ na nb, s.nodes[a]? = some na ∧ na.p_next = some b ∧ s.nodes[b]? = some nb ∧
      nb.val = v ∧ val ≤ v := by
  unfold list_find at h
  simp only [Option.bind_eq_bind] at h
  obtain ⟨l, _, h⟩ := Option.bind_eq_some.mp h
  obtain ⟨p, _, h⟩ := Option.bind_eq_some.mp h
  obtain ⟨n0, h0, h⟩ := Option.bind_eq_some.mp h
  exact list_traverse_adjacent s.nodes val _ p _ n0 a b v h0 rfl h

theorem map_bind_log {α β γ : Type} (x : Option α) (f : α → β) (k : β → Option γ) :
    (x.map f).bind k = x.bind (fun a => k (f a)) := by
  cases x <;> rfl

theorem pass_log_bind {α : Type} (fin : List lock_event) (x : Option α)
    (f : α → Option (State × List lock_event × Option Int))
    (g : α → Option (State × Option Int))
    (h : ∀ a, f a = (g a).map (fun q => (q.1, fin, q.2))) :
    x.bind f = (x.bind g).map (fun q => (q.1, fin, q.2)) := by
  cases x with
  | none => rfl
  | some a => exact h a

theorem rcu_list_fg_add_pass_log_eq (s : State) (log : List lock_event) (p_list : Nat)
    (val : Int) (a b : Nat) (v : Int) (hfind : list_find s p_list val = some (a, b, v)) :
    rcu_list_fg_add_pass_log s log p_list val =
      (rcu_list_fg_add_pass s p_list val).map (fun q =>
        (q.1, log ++ (if v ≠ val then critical (global_words [a, b]) else []), q.2)) := by
  unfold rcu_list_fg_add_pass_log rcu_list_fg_add_pass rcu_list_fg_add_section
  simp only [hfind, Option.bind_eq_bind, Option.some_bind]
  by_cases hv : v = val
  · simp only [hv, ne_eq, not_true_eq_false, if_false, List.append_nil]
    rfl
  · simp only [hv, ne_eq, not_false_eq_true, if_true, global_lock_pair_log_eq,
      global_unlock_pair_log_eq, map_bind_log, Option.bind_assoc, critical, global_words,
      List.map_cons, List.map_nil, List.reverse_cons, List.reverse_nil, List.nil_append,
      List.cons_append, List.append_assoc]
    repeat (first
      | rfl
      | (refine pass_log_bind _ _ _ _ (fun a => ?_)
         try (have h0 : _ × _ := a; clear h0; obtain ⟨a1, a2⟩ := a)
         dsimp only)
      | simp only [Option.bind_assoc]
      | split_ifs)

theorem rcu_list_numa_add_pass_log_eq (numa_node_id : Nat → Nat) (s : State)
    (log : List lock_event) (p_list : Nat) (val : Int) (a b : Nat) (v : Int)
    (hfind : list_find s p_list val = some (a, b, v)) :
    rcu_list_numa_add_pass_log numa_node_id s log p_list val =
      (rcu_list_numa_add_pass numa_node_id s p_list val).map (fun q =>
        (q.1, log ++ (if v ≠ val then critical (numa_words [a, b]) else []), q.2)) := by
  unfold rcu_list_numa_add_pass_log rcu_list_numa_add_pass
  simp only [hfind, Option.bind_eq_bind, Option.some_bind]
  by_cases hv : v = val
  · simp only [hv, ne_eq, not_true_eq_false, if_false, List.append_nil]
    rfl
  · simp only [hv, ne_eq, not_false_eq_true, if_true, global_lock_pair_log_eq,
      global_unlock_pair_log_eq, pnd_lock_pair_log_eq, pnd_unlock_pair_log_eq, map_bind_log,
      Option.bind_assoc, critical, global_words, numa_words,
      List.map_cons, List.map_nil, List.reverse_cons, List.reverse_nil, List.nil_append,
      List.cons_append, List.append_assoc, List.map_append, List.reverse_append]
    repeat (first
      | rfl
      | (refine pass_log_bind _ _ _ _ (fun a => ?_)
         try (have h0 : _ × _ := a; clear h0; obtain ⟨a1, a2⟩ := a)
         dsimp only)
      | split_ifs)

theorem rcu_list_fg_remove_pass_log_eq (s : State) (log : List lock_event) (p_list : Nat)
    (val : Int) (a b : Nat) (v : Int) (hfind : list_find s p_list val = some (a, b, v)) :
    rcu_list_fg_remove_pass_log s log p_list val =
      (rcu_list_fg_remove_pass s p_list val).map (fun q =>
        (q.1,
          log ++ (if v = val then
              match (s.nodes[b]?).bind (fun nb => nb.p_next) with
              | some c => critical (global_words [a, b, c])
              | none => []
            else []),
          q.2)) := by
  unfold rcu_list_fg_remove_pass_log rcu_list_fg_remove_pass rcu_list_fg_remove_section
  simp only [hfind, Option.bind_eq_bind, Option.some_bind]
  by_cases hv : v = val
  · cases hb : s.nodes[b]? with
    | none => simp only [hv, if_true, Option.none_bind, Option.map_none']
    | some nb =>
      cases hc : nb.p_next with
      | none =>
        simp only [hv, if_true, Option.some_bind, hc, (global_lock_triple_log_none _ _ _ _).1,
          (global_lock_triple_log_none s log a b).2, Option.none_bind, Option.map_none']
      | some c =>
        simp only [hv, if_true, Option.some_bind, hc, global_lock_triple_log_eq,
          global_unlock_triple_log_eq, map_bind_log,
          Option.bind_assoc, critical, global_words,
          List.map_cons, List.map_nil, List.reverse_cons, List.reverse_nil, List.nil_append,
          List.cons_append, List.append_assoc]
        repeat (first
          | rfl
          | (refine pass_log_bind _ _ _ _ (fun a => ?_)
             dsimp only)
          | simp only [Option.bind_assoc]
          | split_ifs)
  · simp only [hv, if_false, List.append_nil]
    rfl

theorem rcu_list_numa_remove_pass_log_eq (numa_node_id : Nat → Nat) (s : State)
    (log : List lock_event) (p_list : Nat) (val : Int) (a b : Nat) (v : Int)
    (hfind : list_find s p_list val = some (a, b, v)) :
    rcu_list_numa_remove_pass_log numa_node_id s log p_list val =
      (rcu_list_numa_remove_pass numa_node_id s p_list val).map (fun q =>
        (q.1,
          log ++ (if v = val then
              match (s.nodes[b]?).bind (fun nb => nb.p_next) with
              | some c => critical (numa_words [a, b, c])
              | none => []
            else []),
          q.2)) := by
  unfold rcu_list_numa_remove_pass_log rcu_list_numa_remove_pass
  simp only [hfind, Option.bind_eq_bind, Option.some_bind]
  by_cases hv : v = val
  · cases hb : s.nodes[b]? with
    | none => simp only [hv, if_true, Option.none_bind, Option.map_none']
    | some nb =>
      cases hc : nb.p_next with
      | none =>
        simp only [hv, if_true, Option.some_bind, hc, (pnd_lock_triple_log_none _ _ _ _ _ _ _).1,
          (pnd_lock_triple_log_none s log a b _ _ _).2, Option.none_bind, Option.map_none']
      | some c =>
        simp only [hv, if_true, Option.some_bind, hc, global_lock_triple_log_eq,
          global_unlock_triple_log_eq, pnd_lock_triple_log_eq, pnd_unlock_triple_log_eq,
          map_bind_log,
          Option.bind_assoc, critical, global_words, numa_words,
          List.map_cons, List.map_nil, List.reverse_cons, List.reverse_nil, List.nil_append,
          List.cons_append, List.append_assoc, List.map_append, List.reverse_append]
        repeat (first
          | rfl
          | (refine pass_log_bind _ _ _ _ (fun a => ?_)
             dsimp only)
          | split_ifs)
  · simp only [hv, if_false, List.append_nil]
    rfl

/-! ## C35: the order of the lock calls -/

/-- C35: the lock calls of one pass of `rcu_list_fg_add`, `rcu_list_fg_remove`,
`rcu_list_numa_add` and `rcu_list_numa_remove`, from any memory `s` in which the
traversal stops at `p_prev = a`, `p_next = b` (then `b` is the successor of `a`
in `s`).  The logged pass is the pass with its `spin_lock` and `spin_unlock`
calls noted: it yields the memory and the outcome of the pass, and it yields
them exactly when the pass does.  Whatever the outcome is, `return result` or
`goto retry` after a failed validation, the calls noted are: for an add that
finds the key absent, the locks of `a`, `b` taken in that order and released in
the reverse order; for a remove that finds the key, with `c` the successor of
`b` in `s`, the locks of `a`, `b`, `c` taken in that order and released in the
reverse order; no call when the add finds the key or the remove does not.  The
NUMA-aware functions take the per-NUMA locks of these nodes first, their global
locks after, and release the global locks first.  Every call of the functions
is such passes repeated, each from the memory the pass before left. -/
theorem lock_order (numa_node_id : Nat → Nat) (s : State) (log : List lock_event)
    (p_list : Nat) (val : Int) (a b : Nat) (v : Int)
    (hfind : list_find s p_list val = some (a, b, v)) :
    (∃ na, s.nodes[a]? = some na ∧ na.p_next = some b) ∧
    rcu_list_fg_add_pass_log s log p_list val =
      (rcu_list_fg_add_pass s p_list val).map (fun q =>
        (q.1, log ++ (if v ≠ val then critical (global_words [a, b]) else []), q.2)) ∧
    rcu_list_numa_add_pass_log numa_node_id s log p_list val =
      (rcu_list_numa_add_pass numa_node_id s p_list val).map (fun q =>
        (q.1, log ++ (if v ≠ val then critical (numa_words [a, b]) else []), q.2)) ∧
    (v ≠ val →
      rcu_list_fg_remove_pass_log s log p_list val =
        (rcu_list_fg_remove_pass s p_list val).map (fun q => (q.1, log, q.2)) ∧
      rcu_list_numa_remove_pass_log numa_node_id s log p_list val =
        (rcu_list_numa_remove_pass numa_node_id s p_list val).map (fun q => (q.1, log, q.2))) ∧
    (v = val → ∀ (nb : node_t) (c : Nat), s.nodes[b]? = some nb → nb.p_next = some c →
      rcu_list_fg_remove_pass_log s log p_list val =
        (rcu_list_fg_remove_pass s p_list val).map (fun q =>
          (q.1, log ++ critical (global_words [a, b, c]), q.2)) ∧
      rcu_list_numa_remove_pass_log numa_node_id s log p_list val =
        (rcu_list_numa_remove_pass numa_node_id s p_list val).map (fun q =>
          (q.1, log ++ critical (numa_words [a, b, c]), q.2))) ∧
    (∀ a b : Nat, critical (global_words [a, b]) =
      [.spin_lock (.global_lock a), .spin_lock (.global_lock b),
        .spin_unlock (.global_lock b), .spin_unlock (.global_lock a)]) ∧
    (∀ a b c : Nat, critical (global_words [a, b, c]) =
      [.spin_lock (.global_lock a), .spin_lock (.global_lock b), .spin_lock (.global_lock c),
        .spin_unlock (.global_lock c), .spin_unlock (.global_lock b),
        .spin_unlock (.global_lock a)]) ∧
    (∀ a b : Nat, critical (numa_words [a, b]) =
      [.spin_lock (.pndslock a), .spin_lock (.pndslock b),
        .spin_lock (.global_lock a), .spin_lock (.global_lock b),
        .spin_unlock (.global_lock b), .spin_unlock (.global_lock a),
        .spin_unlock (.pndslock b), .spin_unlock (.pndslock a)]) ∧
    (∀ a b c : Nat, critical (numa_words [a, b, c]) =
      [.spin_lock (.pndslock a), .spin_lock (.pndslock b), .spin_lock (.pndslock c),
        .spin_lock (.global_lock a), .spin_lock (.global_lock b), .spin_lock (.global_lock c),
        .spin_unlock (.global_lock c), .spin_unlock (.global_lock b),
        .spin_unlock (.global_lock a),
        .spin_unlock (.pndslock c), .spin_unlock (.pndslock b),
        .spin_unlock (.pndslock a)]) ∧
    (∀ (fuel : Nat) (nid : Nat → Nat) (s0 : State),
      rcu_list_fg_add (fuel + 1) s0 p_list val =
        after_pass (fun s1 => rcu_list_fg_add fuel s1 p_list val)
          (rcu_list_fg_add_pass s0 p_list val) ∧
      rcu_list_fg_remove (fuel + 1) s0 p_list val =
        after_pass (fun s1 => rcu_list_fg_remove fuel s1 p_list val)
          (rcu_list_fg_remove_pass s0 p_list val) ∧
      rcu_list_numa_add (fuel + 1) nid s0 p_list val =
        after_pass (fun s1 => rcu_list_numa_add fuel (fun k => nid (k + 4)) s1 p_list val)
          (rcu_list_numa_add_pass nid s0 p_list val) ∧
      rcu_list_numa_remove (fuel + 1) nid s0 p_list val =
        after_pass (fun s1 => rcu_list_numa_remove fuel (fun k => nid (k + 6)) s1 p_list val)
          (rcu_list_numa_remove_pass nid s0 p_list val)) := by
  refine ⟨?_, rcu_list_fg_add_pass_log_eq s log p_list val a b v hfind,
    rcu_list_numa_add_pass_log_eq numa_node_id s log p_list val a b v hfind,
    fun hv => ⟨?_, ?_⟩, fun hv nb c hb hc => ⟨?_, ?_⟩,
    fun _ _ => rfl, fun _ _ _ => rfl, fun _ _ => rfl, fun _ _ _ => rfl,
    fun fuel nid s0 => ⟨rcu_list_fg_add_by_pass fuel s0 p_list val,
      rcu_list_fg_remove_by_pass fuel s0 p_list val,
      rcu_list_numa_add_by_pass fuel nid s0 p_list val,
      rcu_list_numa_remove_by_pass fuel nid s0 p_list val⟩⟩
  · obtain ⟨na, _, h1, h2, _⟩ := list_find_adjacent s p_list val a b v hfind
    exact ⟨na, h1, h2⟩
  · rw [rcu_list_fg_remove_pass_log_eq s log p_list val a b v hfind, if_neg hv,
      List.append_nil]
  · rw [rcu_list_numa_remove_pass_log_eq numa_node_id s log p_list val a b v hfind, if_neg hv,
      List.append_nil]
  · rw [rcu_list_fg_remove_pass_log_eq s log p_list val a b v hfind, if_pos hv, hb,
      Option.some_bind, hc]
  · rw [rcu_list_numa_remove_pass_log_eq numa_node_id s log p_list val a b v hfind, if_pos hv,
      hb, Option.some_bind, hc]

theorem lock_order_witness :
    rcu_list_fg_add_pass_log mem_3_7_marked [] 0 5 =
      some ({ mem_3_7_marked with
                nodes := mem_3_7_marked.nodes ++ [added_node 5 3]
                freed := mem_3_7_marked.freed ++ [mem_3_7_marked.nodes.length] },
        [.spin_lock (.global_lock 2), .spin_lock (.global_lock 3),
          .spin_unlock (.global_lock 3), .spin_unlock (.global_lock 2)], none) ∧
    (rcu_list_numa_add_pass_log (fun _ => 1) mem_3_7 [] 0 5).map (fun q => (q.2.1, q.2.2)) =
      some ([.spin_lock (.pndslock 2), .spin_lock (.pndslock 3),
          .spin_lock (.global_lock 2), .spin_lock (.global_lock 3),
          .spin_unlock (.global_lock 3), .spin_unlock (.global_lock 2),
          .spin_unlock (.pndslock 3), .spin_unlock (.pndslock 2)], some 1) ∧
    (rcu_list_numa_remove_pass_log (fun _ => 1) mem_3_7_marked [] 0 7).map
        (fun q => (q.2.1, q.2.2)) =
      some ([.spin_lock (.pndslock 2), .spin_lock (.pndslock 3), .spin_lock (.pndslock 0),
          .spin_lock (.global_lock 2), .spin_lock (.global_lock 3),
          .spin_lock (.global_lock 0),
          .spin_unlock (.global_lock 0), .spin_unlock (.global_lock 3),
          .spin_unlock (.global_lock 2),
          .spin_unlock (.pndslock 0), .spin_unlock (.pndslock 3),
          .spin_unlock (.pndslock 2)], none) ∧
    (rcu_list_fg_remove_pass_log mem_3_7 [] 0 3).map (fun q => (q.2.1, q.2.2)) =
      some ([.spin_lock (.global_lock 1), .spin_lock (.global_lock 2),
          .spin_lock (.global_lock 3),
          .spin_unlock (.global_lock 3), .spin_unlock (.global_lock 2),
          .spin_unlock (.global_lock 1)], some 1) :=
  ⟨(lock_order (fun _ => 1) mem_3_7_marked [] 0 5 2 3 7 (by decide)).2.1.trans (by decide),
    (congrArg (Option.map (fun q => (q.2.1, q.2.2)))
      (lock_order (fun _ => 1) mem_3_7 [] 0 5 2 3 7 (by decide)).2.2.1).trans (by decide),
    (congrArg (Option.map (fun q => (q.2.1, q.2.2)))
      ((lock_order (fun _ => 1) mem_3_7_marked [] 0 7 2 3 7 (by decide)).2.2.2.2.1 rfl
        { val := 7, p_next := some 0, removed := 0,
          pnd_slocks := [false, false, false, false], global_lock := false }
        0 (by decide) rfl).2).trans (by decide),
    (congrArg (Option.map (fun q => (q.2.1, q.2.2)))
      ((lock_order (fun _ => 1) mem_3_7 [] 0 3 1 2 3 (by decide)).2.2.2.2.1 rfl
        { val := 3, p_next := some 3, removed := 0,
          pnd_slocks := [false, false, false, false], global_lock := false }
        3 (by decide) rfl).1).trans (by decide)⟩

/-! ## C13: the retry loops, attempt by attempt -/

theorem getD_zero_headD (l : List Int) : l.getD 0 0 = l.headD 0 := by
  cases l <;> rfl

theorem getD_succ_tail (l : List Int) (i : Nat) : l.getD (i + 1) 0 = l.tail.getD i 0 := by
  cases l <;> rfl

theorem retry_run_of_done (attempt : State → Option (State × Int)) (endtime : List Int)
    (s s1 : State) (t : Int) (ha : attempt s = some (s1, t)) (ht : t ≠ 2) :
    retry_run attempt endtime 0 s s1 0 :=
  ⟨fun _ => s, rfl, fun i hi => absurd hi (Nat.not_lt_zero i), Or.inl ⟨t, ht, ha, rfl⟩⟩

theorem retry_run_of_deadline (attempt : State → Option (State × Int)) (endtime : List Int)
    (s s1 : State) (ha : attempt s = some (s1, 2)) (he : endtime.headD 0 = 1) :
    retry_run attempt endtime 0 s s1 (-1) :=
  ⟨fun _ => s, rfl, fun i hi => absurd hi (Nat.not_lt_zero i),
    Or.inr ⟨ha, by rw [getD_zero_headD]; exact he, rfl⟩⟩

theorem retry_run_cons (attempt : State → Option (State × Int)) (endtime : List Int)
    (j : Nat) (s s2 s1 : State) (r : Int) (ha : attempt s = some (s2, 2))
    (he : endtime.headD 0 ≠ 1) (h : retry_run attempt endtime.tail j s2 s1 r) :
    retry_run attempt endtime (j + 1) s s1 r := by
  obtain ⟨m, hm0, hm, hlast⟩ := h
  refine ⟨fun i => match i with | 0 => s | k + 1 => m k, rfl, ?_, ?_⟩
  · intro i hi
    cases i with
    | zero =>
      show attempt s = some (m 0, 2) ∧ endtime.getD 0 0 ≠ 1
      rw [hm0, getD_zero_headD]
      exact ⟨ha, he⟩
    | succ k =>
      show attempt (m k) = some (m (k + 1), 2) ∧ endtime.getD (k + 1) 0 ≠ 1
      rw [getD_succ_tail]
      exact hm k (by omega)
  · show (∃ t, t ≠ 2 ∧ attempt (m j) = some (s1, t) ∧ r = 0) ∨
      (attempt (m j) = some (s1, 2) ∧ endtime.getD (j + 1) 0 = 1 ∧ r = -1)
    rw [getD_succ_tail]
    exact hlast

theorem retry_run_uncons (attempt : State → Option (State × Int)) (endtime : List Int)
    (j : Nat) (s s1 : State) (r : Int) (h : retry_run attempt endtime (j + 1) s s1 r) :
    ∃ s2, attempt s = some (s2, 2) ∧ endtime.headD 0 ≠ 1 ∧
      retry_run attempt endtime.tail j s2 s1 r := by
  obtain ⟨m, hm0, hm, hlast⟩ := h
  have h0 := hm 0 (by omega)
  rw [hm0, getD_zero_headD] at h0
  refine ⟨m 1, h0.1, h0.2, fun i => m (i + 1), rfl, ?_, ?_⟩
  · intro i hi
    have := hm (i + 1) (by omega)
    rw [getD_succ_tail] at this
    exact this
  · rw [getD_succ_tail] at hlast
    exact hlast

theorem rcx_hash_list_retry_add_loop_run (cpu p_list : Nat) (val : Int) (s1 : State) (r : Int) :
    ∀ (fuel : Nat) (endtime : List Int) (s : State),
      rcx_hash_list_retry_add_loop fuel cpu endtime s p_list val = some (s1, r) ↔
        ∃ j, j < fuel ∧
          retry_run (fun s0 => rcx_list_add cpu s0 p_list val) endtime j s s1 r := by
  intro fuel
  induction fuel with
  | zero =>
    intro endtime s
    constructor
    · intro h; simp [rcx_hash_list_retry_add_loop] at h
    · rintro ⟨j, hj, _⟩; omega
  | succ fuel ih =>
    intro endtime s
    rw [rcx_hash_list_retry_add_loop]
    constructor
    · intro h
      cases hrun : rcx_list_add cpu s p_list val with
      | none => simp [hrun] at h
      | some q =>
        obtain ⟨s2, t⟩ := q
        simp only [hrun, Option.bind_eq_bind, Option.some_bind, Option.pure_def] at h
        by_cases ht : t = 2
        · subst ht
          simp only [ne_eq, not_true_eq_false, if_false] at h
          by_cases he : endtime.headD 0 = 1
          · simp only [he, not_true_eq_false, if_false, Option.some.injEq, Prod.mk.injEq] at h
            obtain ⟨rfl, rfl⟩ := h
            exact ⟨0, by omega, retry_run_of_deadline _ endtime s s2 hrun he⟩
          · simp only [he, not_false_eq_true, if_true] at h
            obtain ⟨j, hj, hr⟩ := (ih endtime.tail s2).mp h
            exact ⟨j + 1, by omega, retry_run_cons _ endtime j s s2 s1 r hrun he hr⟩
        · simp only [ne_eq, ht, not_false_eq_true, if_true, Option.some.injEq,
            Prod.mk.injEq] at h
          obtain ⟨rfl, rfl⟩ := h
          exact ⟨0, by omega, retry_run_of_done _ endtime s s2 t hrun ht⟩
    · rintro ⟨j, hj, hr⟩
      cases j with
      | zero =>
        obtain ⟨m, hm0, _, hlast⟩ := hr
        rw [hm0] at hlast
        rcases hlast with ⟨t, ht, ha, rfl⟩ | ⟨ha, he, rfl⟩
        · simp only at ha
          simp only [ha, Option.bind_eq_bind, Option.some_bind, ne_eq, ht, not_false_eq_true,
            if_true, Option.pure_def]
        · simp only at ha
          rw [getD_zero_headD] at he
          simp only [ha, Option.bind_eq_bind, Option.some_bind, ne_eq, not_true_eq_false,
            if_false, he, Option.pure_def]
      | succ j =>
        obtain ⟨s2, ha, he, hr2⟩ := retry_run_uncons _ endtime j s s1 r hr
        simp only [ha, Option.bind_eq_bind, Option.some_bind, ne_eq, not_true_eq_false,
          if_false, he, not_false_eq_true, if_true]
        exact (ih endtime.tail s2).mpr ⟨j, by omega, hr2⟩

theorem rcx_hash_list_retry_remove_loop_run (cpu p_list : Nat) (val : Int) (s1 : State)
    (r : Int) :
    ∀ (fuel : Nat) (endtime : List Int) (s : State),
      rcx_hash_list_retry_remove_loop fuel cpu endtime s p_list val = some (s1, r) ↔
        ∃ j, j < fuel ∧
          retry_run (fun s0 => rcx_list_remove cpu s0 p_list val) endtime j s s1 r := by
  intro fuel
  induction fuel with
  | zero =>
    intro endtime s
    constructor
    · intro h; simp [rcx_hash_list_retry_remove_loop] at h
    · rintro ⟨j, hj, _⟩; omega
  | succ fuel ih =>
    intro endtime s
    rw [rcx_hash_list_retry_remove_loop]
    constructor
    · intro h
      cases hrun : rcx_list_remove cpu s p_list val with
      | none => simp [hrun] at h
      | some q =>
        obtain ⟨s2, t⟩ := q
        simp only [hrun, Option.bind_eq_bind, Option.some_bind, Option.pure_def] at h
        by_cases ht : t = 2
        · subst ht
          simp only [ne_eq, not_true_eq_false, if_false] at h
          by_cases he : endtime.headD 0 = 1
          · simp only [he, not_true_eq_false, if_false, Option.some.injEq, Prod.mk.injEq] at h
            obtain ⟨rfl, rfl⟩ := h
            exact ⟨0, by omega, retry_run_of_deadline _ endtime s s2 hrun he⟩
          · simp only [he, not_false_eq_true, if_true] at h
            obtain ⟨j, hj, hr⟩ := (ih endtime.tail s2).mp h
            exact ⟨j + 1, by omega, retry_run_cons _ endtime j s s2 s1 r hrun he hr⟩
        · simp only [ne_eq, ht, not_false_eq_true, if_true, Option.some.injEq,
            Prod.mk.injEq] at h
          obtain ⟨rfl, rfl⟩ := h
          exact ⟨0, by omega, retry_run_of_done _ endtime s s2 t hrun ht⟩
    · rintro ⟨j, hj, hr⟩
      cases j with
      | zero =>
        obtain ⟨m, hm0, _, hlast⟩ := hr
        rw [hm0] at hlast
        rcases hlast with ⟨t, ht, ha, rfl⟩ | ⟨ha, he, rfl⟩
        · simp only at ha
          simp only [ha, Option.bind_eq_bind, Option.some_bind, ne_eq, ht, not_false_eq_true,
            if_true, Option.pure_def]
        · simp only at ha
          rw [getD_zero_headD] at he
          simp only [ha, Option.bind_eq_bind, Option.some_bind, ne_eq, not_true_eq_false,
            if_false, he, Option.pure_def]
      | succ j =>
        obtain ⟨s2, ha, he, hr2⟩ := retry_run_uncons _ endtime j s s1 r hr
        simp only [ha, Option.bind_eq_bind, Option.some_bind, ne_eq, not_true_eq_false,
          if_false, he, not_false_eq_true, if_true]
        exact (ih endtime.tail s2).mpr ⟨j, by omega, hr2⟩

/-- C13: the deadline readings are `clock` (the `i`-th call of
`benchmark_endtime()` reads `clock[i]` and returns 1 exactly when the elapsed
time, the `duration_ms` the code computes from `bench_start_time`, is
`≥ duration`; `0 ≤ duration`).  Whatever the memory, a call of
`rcx_hash_list_retry_add` / `rcx_hash_list_retry_remove` returns the memory `s1`
and the result `r` exactly when it is a run of attempts of `rcx_list_add` /
`rcx_list_remove` on the bucket of the key (`retry_run`): every attempt but the
last aborted and was followed by a reading below the deadline, and the last
attempt left the memory `s1` and either did not abort, with `r = 0`, or aborted
and was followed by a reading that reached the deadline, with `r = -1`.  So a
result is 0 or -1, it is -1 only when a reading had elapsed time `≥ duration`,
and it is 0 when every reading is below `duration`.  On a quiescent hash set,
for a key `0 ≤ k < LIST_VAL_MAX` and an abort pattern shorter than the fuel,
both calls return; the result is 0 when the first attempt does not abort, and it
is -1 only when the attempts `0..j` all aborted and the reading after attempt
`j` had elapsed time `≥ duration`. -/
theorem retry_until_deadline (fuel cpu : Nat) (g : hash_list_t) (s : State) (k : Int)
    (start : timespec) (duration : Int) (clock : List timespec)
    (hq : hash_list_quiescent g s) (h0 : 0 ≤ k) (h1 : k < LIST_VAL_MAX)
    (hcpu : cpu < s.abort_cnt.length) (hfuel : s.xbegin.length < fuel)
    (hd0 : 0 ≤ duration) (hd1 : duration ≤ 2147483647) :
    (∀ (n : Nat) (s0 s1 : State) (v r : Int),
      (rcx_hash_list_retry_add n cpu (clock.map (benchmark_endtime start duration)) g s0 v =
          some (s1, r) ↔
        ∃ h p j, HASH_VALUE g v = some h ∧ bucket_at g h = some p ∧ j < n ∧
          retry_run (fun m => rcx_list_add cpu m p v)
            (clock.map (benchmark_endtime start duration)) j s0 s1 r) ∧
      (rcx_hash_list_retry_remove n cpu (clock.map (benchmark_endtime start duration)) g s0 v =
          some (s1, r) ↔
        ∃ h p j, HASH_VALUE g v = some h ∧ bucket_at g h = some p ∧ j < n ∧
          retry_run (fun m => rcx_list_remove cpu m p v)
            (clock.map (benchmark_endtime start duration)) j s0 s1 r)) ∧
    (∀ i : Nat, (clock.map (benchmark_endtime start duration)).getD i 0 = 1 ↔
      ∃ now, clock[i]? = some now ∧ duration ≤ (endtime_duration_ms start now : Int)) ∧
    (∀ F ∈ [rcx_hash_list_retry_add, rcx_hash_list_retry_remove],
      ∀ (n : Nat) (s0 s1 : State) (v r : Int),
        F n cpu (clock.map (benchmark_endtime start duration)) g s0 v = some (s1, r) →
        (r = 0 ∨ r = -1) ∧
        (r = -1 → ∃ (j : Nat) (now : timespec), clock[j]? = some now ∧
          duration ≤ (endtime_duration_ms start now : Int)) ∧
        ((∀ now ∈ clock, (endtime_duration_ms start now : Int) < duration) → r = 0)) ∧
    (∀ F ∈ [rcx_hash_list_retry_add, rcx_hash_list_retry_remove],
      ∃ s1 r, F fuel cpu (clock.map (benchmark_endtime start duration)) g s k = some (s1, r) ∧
        (s.xbegin.headD XBEGIN_STARTED = XBEGIN_STARTED → r = 0) ∧
        (r = -1 → ∃ (j : Nat) (now : timespec), clock[j]? = some now ∧
          duration ≤ (endtime_duration_ms start now : Int) ∧
          ∀ i : Nat, i ≤ j → ∃ x, s.xbegin[i]? = some x ∧ x ≠ XBEGIN_STARTED)) := by
  refine ⟨fun n s0 s1 v r => ⟨?_, ?_⟩, fun i => ?_, ?_⟩
  · unfold rcx_hash_list_retry_add
    cases hh : HASH_VALUE g v with
    | none => simp
    | some h =>
      simp only [Option.bind_eq_bind, Option.some_bind, Option.some.injEq, exists_and_left,
        exists_eq_left']
      cases hb : bucket_at g h with
      | none => simp
      | some p =>
        simp only [Option.some_bind, Option.some.injEq, exists_eq_left']
        exact rcx_hash_list_retry_add_loop_run cpu p v s1 r n _ s0
  · unfold rcx_hash_list_retry_remove
    cases hh : HASH_VALUE g v with
    | none => simp
    | some h =>
      simp only [Option.bind_eq_bind, Option.some_bind, Option.some.injEq, exists_and_left,
        exists_eq_left']
      cases hb : bucket_at g h with
      | none => simp
      | some p =>
        simp only [Option.some_bind, Option.some.injEq, exists_eq_left']
        exact rcx_hash_list_retry_remove_loop_run cpu p v s1 r n _ s0
  · rw [List.getD_eq_getElem?_getD, List.getElem?_map]
    cases hc : clock[i]? with
    | none => simp
    | some now =>
      simp only [Option.map_some', Option.getD_some, Option.some.injEq, exists_eq_left']
      exact benchmark_endtime_one start duration now hd0 hd1
  · constructor
    · intro F hF n s0 s1 v r hrun
      simp only [List.mem_cons, List.mem_singleton, List.not_mem_nil, or_false] at hF
      have key : ∃ p, rcx_hash_list_retry_add_loop n cpu
            (clock.map (benchmark_endtime start duration)) s0 p v = some (s1, r) ∨
          rcx_hash_list_retry_remove_loop n cpu
            (clock.map (benchmark_endtime start duration)) s0 p v = some (s1, r) := by
        rcases hF with rfl | rfl
        · unfold rcx_hash_list_retry_add at hrun
          cases hh : HASH_VALUE g v with
          | none => simp [hh] at hrun
          | some h =>
            cases hb : bucket_at g h with
            | none => simp [hh, hb] at hrun
            | some p =>
              simp only [hh, hb, Option.bind_eq_bind, Option.some_bind] at hrun
              exact ⟨p, Or.inl hrun⟩
        · unfold rcx_hash_list_retry_remove at hrun
          cases hh : HASH_VALUE g v with
          | none => simp [hh] at hrun
          | some h =>
            cases hb : bucket_at g h with
            | none => simp [hh, hb] at hrun
            | some p =>
              simp only [hh, hb, Option.bind_eq_bind, Option.some_bind] at hrun
              exact ⟨p, Or.inr hrun⟩
      obtain ⟨p, hloop⟩ := key
      have hsafe : (r = 0 ∨ r = -1) ∧
          (r = -1 → ∃ j : Nat, (clock.map (benchmark_endtime start duration))[j]? = some 1) ∧
          ((∀ e ∈ clock.map (benchmark_endtime start duration), e ≠ 1) → r = 0) := by
        rcases hloop with h | h
        · exact rcx_hash_list_retry_add_loop_safe cpu p v n _ s0 s1 r h
        · exact rcx_hash_list_retry_remove_loop_safe cpu p v n _ s0 s1 r h
      obtain ⟨hr, hneg, hall⟩ := hsafe
      refine ⟨hr, fun hm => ?_, fun hbelow => hall
        (deadline_not_reached start duration clock hd0 hd1 hbelow)⟩
      obtain ⟨j, hj⟩ := hneg hm
      obtain ⟨now, hn, hd⟩ := deadline_reached start duration clock hd0 hd1 j hj
      exact ⟨j, now, hn, hd⟩
    · obtain ⟨p, _, hmem, hh, hb⟩ := bucket_of_key g k hq.1.1 h0
      obtain ⟨p_prev, b, v, prev, nb, hfind, hprev, hnb, hne, hpn, hr1, hr2, hnext⟩ :=
        retry_context g s p k hq hmem h1
      intro F hF
      simp only [List.mem_cons, List.mem_singleton, List.not_mem_nil, or_false] at hF
      have key : ∃ s1 r, F fuel cpu (clock.map (benchmark_endtime start duration)) g s k =
            some (s1, r) ∧ (s.xbegin.headD XBEGIN_STARTED = XBEGIN_STARTED → r = 0) ∧
          (r = -1 → ∃ j : Nat, (clock.map (benchmark_endtime start duration))[j]? = some 1 ∧
            ∀ i : Nat, i ≤ j → ∃ x, s.xbegin[i]? = some x ∧ x ≠ XBEGIN_STARTED) := by
        obtain ⟨m, rfl⟩ : ∃ m, fuel = m + 1 := ⟨fuel - 1, by omega⟩
        rcases hF with rfl | rfl
        · unfold rcx_hash_list_retry_add
          simp only [hh, hb, Option.bind_eq_bind, Option.some_bind]
          by_cases hv : v = k
          · subst hv
            rw [rcx_hash_list_retry_add_loop, rcx_list_add_present cpu s p v p_prev b hfind]
            exact ⟨s, 0, by simp, fun _ => rfl, fun h => absurd h (by decide)⟩
          · obtain ⟨s1, r, hrun, _, hneg, _, hhead⟩ := rcx_hash_list_retry_add_loop_spec cpu p k
              p_prev b v prev nb hpn hr1 hr2 hv (m + 1) _ s hfuel hfind hprev hnb hcpu
            exact ⟨s1, r, hrun, hhead, hneg⟩
        · unfold rcx_hash_list_retry_remove
          simp only [hh, hb, Option.bind_eq_bind, Option.some_bind]
          by_cases hv : v = k
          · subst hv
            obtain ⟨p_n, nn, hnp, hnn, hr3⟩ := hnext rfl
            obtain ⟨s1, r, hrun, _, hneg, _, hhead⟩ := rcx_hash_list_retry_remove_loop_spec cpu p v
              p_prev b p_n prev nb nn hpn hnp hne hr1 hr2 hr3 (m + 1) _ s hfuel hfind hprev hnb
              hnn hcpu
            exact ⟨s1, r, hrun, hhead, hneg⟩
          · rw [rcx_hash_list_retry_remove_loop, rcx_list_remove_absent cpu s p k p_prev b v hfind hv]
            exact ⟨s, 0, by simp, fun _ => rfl, fun h => absurd h (by decide)⟩
      obtain ⟨s1, r, hrun, hhead, hneg⟩ := key
      refine ⟨s1, r, hrun, hhead, fun hm => ?_⟩
      obtain ⟨j, hj, hab⟩ := hneg hm
      obtain ⟨now, hn, hd⟩ := deadline_reached start duration clock hd0 hd1 j hj
      exact ⟨j, now, hn, hd, hab⟩

theorem retry_until_deadline_witness :
    hash_list_quiescent hash_1 mem_3_7_abort ∧ (0 : Int) ≤ 5 ∧ (5 : Int) < LIST_VAL_MAX ∧
    0 < mem_3_7_abort.abort_cnt.length ∧ mem_3_7_abort.xbegin.length < 2 ∧
    (rcx_hash_list_retry_add 2 0
        ([({ tv_sec := 1, tv_nsec := 0 } : timespec)].map
          (benchmark_endtime { tv_sec := 0, tv_nsec := 0 } 100)) hash_1 mem_3_7_abort 5).map
      (fun q => (q.2, bucket_vals q.1 0, q.1.xbegin)) =
        some (-1, some [LIST_VAL_MIN, 3, 7, LIST_VAL_MAX], []) ∧
    (rcx_hash_list_retry_add 2 0
        ([({ tv_sec := 0, tv_nsec := 99000000 } : timespec)].map
          (benchmark_endtime { tv_sec := 0, tv_nsec := 0 } 100)) hash_1 mem_3_7_abort 5).map
      (fun q => (q.2, bucket_vals q.1 0, q.1.xbegin)) =
        some (0, some [LIST_VAL_MIN, 3, 5, 7, LIST_VAL_MAX], []) ∧
    (∀ s1 r, rcx_hash_list_retry_add 2 0
        ([({ tv_sec := 0, tv_nsec := 99000000 } : timespec)].map
          (benchmark_endtime { tv_sec := 0, tv_nsec := 0 } 100)) hash_1 mem_3_7_abort 5 =
          some (s1, r) ↔
        ∃ h p j, HASH_VALUE hash_1 5 = some h ∧ bucket_at hash_1 h = some p ∧ j < 2 ∧
          retry_run (fun m => rcx_list_add 0 m p 5)
            ([({ tv_sec := 0, tv_nsec := 99000000 } : timespec)].map
              (benchmark_endtime { tv_sec := 0, tv_nsec := 0 } 100)) j mem_3_7_abort s1 r) :=
  ⟨by decide, by decide, by decide, by decide, by decide, by decide, by decide,
    fun s1 r => ((retry_until_deadline 2 0 hash_1 mem_3_7_abort 5 { tv_sec := 0, tv_nsec := 0 }
      100 [{ tv_sec := 0, tv_nsec := 99000000 }] (by decide) (by decide) (by decide) (by decide)
      (by decide) (by decide) (by decide)).1 2 mem_3_7_abort s1 5 r).1⟩

/-! ## Which lock words a store may leave held -/

theorem mem_without (G : List Nat) (p a : Nat) : a ∈ without G p ↔ a ∈ G ∧ a ≠ p := by
  unfold without
  simp

theorem set_true_slot (l : List Bool) (k j : Nat) (v : Bool)
    (h : (l.set k v)[j]? = some true) : (j = k ∧ v = true) ∨ l[j]? = some true := by
  rw [List.getElem?_set] at h
  by_cases hkj : k = j
  · subst hkj
    by_cases hlt : k < l.length
    · simp only [if_true, hlt] at h
      exact Or.inl ⟨rfl, Option.some.inj h⟩
    · simp only [if_true, hlt, if_false] at h
      exact absurd h (by simp)
  · simp only [hkj, if_false] at h
    exact Or.inr h

theorem locks_free_iff (s : State) (i N : Nat) :
    locks_free s i N ↔ locks_within s [] [] i N := by
  unfold locks_free locks_within
  constructor
  · intro h
    refine ⟨h.1, fun a n hn => ⟨fun hg => ?_, fun j hj => ?_⟩⟩
    · rw [(h.2 a n hn).1] at hg; exact absurd hg (by simp)
    · by_cases hji : j = i
      · subst hji
        exact absurd hj (h.2 a n hn).2.1
      · refine Or.inr ⟨?_, hji⟩
        by_contra hlt
        have := (h.2 a n hn).2.2 (by omega) true (List.getElem?_mem hj)
        exact absurd this (by simp)
  · intro h
    refine ⟨h.1, fun a n hn => ⟨?_, fun hi => ?_, fun hlt b hb => ?_⟩⟩
    · cases hg : n.global_lock with
      | false => rfl
      | true => exact absurd ((h.2 a n hn).1 hg) (by simp)
    · rcases (h.2 a n hn).2 i hi with hc | hc
      · exact absurd hc.2 (by simp)
      · exact hc.2 rfl
    · cases b with
      | false => rfl
      | true =>
        obtain ⟨j, hj⟩ := List.getElem?_of_mem hb
        rcases (h.2 a n hn).2 j hj with hc | hc
        · exact absurd hc.2 (by simp)
        · omega

theorem locks_unheld_free (s : State) (i : Nat) :
    locks_unheld s ↔ locks_free s i s.nodes.length := by
  unfold locks_unheld locks_free
  constructor
  · intro h
    refine ⟨le_refl _, fun a n hn => ?_⟩
    have hm := h n (List.getElem?_mem hn)
    refine ⟨hm.1, fun hi => ?_, fun _ => hm.2⟩
    exact absurd (hm.2 true (List.getElem?_mem hi)) (by simp)
  · intro h n hn
    obtain ⟨a, ha⟩ := List.getElem?_of_mem hn
    have hm := h.2 a n ha
    exact ⟨hm.1, hm.2.2 (getElem?_lt_length _ _ _ ha)⟩

theorem locks_within_mono (s : State) (G P G2 P2 : List Nat) (i : Nat) {N : Nat}
    (hw : locks_within s G P i N) (hG : ∀ a ∈ G, a ∈ G2) (hP : ∀ a ∈ P, a ∈ P2) :
    locks_within s G2 P2 i N :=
  ⟨hw.1, fun a n hn => ⟨fun hg => hG a ((hw.2 a n hn).1 hg),
    fun j hj => ((hw.2 a n hn).2 j hj).imp (fun hc => ⟨hc.1, hP a hc.2⟩) id⟩⟩

theorem locks_within_nodes (s s1 : State) (G P : List Nat) (i : Nat) {N : Nat}
    (hw : locks_within s G P i N) (h : s1.nodes = s.nodes) : locks_within s1 G P i N := by
  unfold locks_within at hw ⊢
  rw [h]
  exact hw

theorem node_store_within (s s1 : State) (p : Nat) (f : node_t → node_t)
    (G P G2 P2 : List Nat) (i : Nat) {N : Nat}
    (h : node_store s p f = some s1) (hw : locks_within s G P i N)
    (hG : ∀ a ∈ G, a ≠ p → a ∈ G2) (hP : ∀ a ∈ P, a ≠ p → a ∈ P2)
    (hf : ∀ n, s.nodes[p]? = some n →
      ((f n).global_lock = true → p ∈ G2) ∧
      (∀ j : Nat, (f n).pnd_slocks[j]? = some true →
        (j = i ∧ p ∈ P2) ∨ (N ≤ p ∧ j ≠ i))) :
    locks_within s1 G2 P2 i N := by
  unfold node_store at h
  cases hn : s.nodes[p]? with
  | none => rw [hn] at h; exact absurd h (by simp)
  | some n =>
    rw [hn] at h
    have e := Option.some.inj h
    refine ⟨by rw [← e]; simp only [List.length_set]; exact hw.1, fun a m hm => ?_⟩
    rw [← e] at hm
    simp only [List.getElem?_set] at hm
    by_cases hpa : p = a
    · subst hpa
      have hlt := getElem?_lt_length _ _ _ hn
      simp only [if_true, hlt] at hm
      have e2 := Option.some.inj hm
      rw [← e2]
      exact hf n hn
    · simp only [hpa, if_false] at hm
      have := hw.2 a m hm
      exact ⟨fun hg => hG a (this.1 hg) (Ne.symm hpa),
        fun j hj => (this.2 j hj).imp (fun hc => ⟨hc.1, hP a hc.2 (Ne.symm hpa)⟩) id⟩

theorem node_store_within_links (s s1 : State) (p : Nat) (f : node_t → node_t)
    (G P : List Nat) (i : Nat) {N : Nat}
    (h : node_store s p f = some s1) (hw : locks_within s G P i N)
    (hg : ∀ n, (f n).global_lock = n.global_lock)
    (hp : ∀ n, (f n).pnd_slocks = n.pnd_slocks) : locks_within s1 G P i N := by
  apply node_store_within s s1 p f G P G P i h hw (fun a ha _ => ha) (fun a ha _ => ha)
  intro n hn
  rw [hg, hp]
  exact hw.2 p n hn

theorem append_node_within (s s1 : State) (m : node_t) (G P : List Nat) (i : Nat) {N : Nat}
    (hw : locks_within s G P i N) (h : s1.nodes = s.nodes ++ [m])
    (hg : m.global_lock = false) (hp : m.pnd_slocks[i]? ≠ some true) :
    locks_within s1 G P i N := by
  refine ⟨?_, fun a n hn => ?_⟩
  · rw [h, List.length_append]
    exact Nat.le_add_right_of_le hw.1
  rw [h] at hn
  by_cases hlt : a < s.nodes.length
  · rw [List.getElem?_append_left hlt] at hn
    exact hw.2 a n hn
  · rw [List.getElem?_append_right (by omega)] at hn
    have hm : n = m := by
      cases hk : a - s.nodes.length with
      | zero => rw [hk] at hn; exact (Option.some.inj hn).symm
      | succ k => rw [hk] at hn; exact absurd hn (by simp)
    subst hm
    refine ⟨fun hgl => ?_, fun j hj => ?_⟩
    · rw [hg] at hgl; exact absurd hgl (by simp)
    · by_cases hji : j = i
      · subst hji
        exact absurd hj hp
      · exact Or.inr ⟨by have := hw.1; omega, hji⟩

theorem spin_lock_global_within (s s1 : State) (p : Nat) (G P : List Nat) (i : Nat) {N : Nat}
    (h : spin_lock_global s p = some s1) (hw : locks_within s G P i N) :
    locks_within s1 (p :: G) P i N := by
  unfold spin_lock_global at h
  split at h
  · split at h
    · exact absurd h (by simp)
    · apply node_store_within s s1 p _ G P (p :: G) P i h hw
        (fun a ha _ => List.mem_cons_of_mem _ ha) (fun a ha _ => ha)
      intro n hn
      exact ⟨fun _ => List.mem_cons_self _ _, (hw.2 p n hn).2⟩
  · exact absurd h (by simp)

theorem htmlock_store_within (s s1 : State) (p : Nat) (v : Bool) (G P : List Nat) (i : Nat)
    {N : Nat} (h : htmlock_store s p v = some s1) (hw : locks_within s G P i N) :
    locks_within s1 (if v then p :: G else without G p) P i N := by
  unfold htmlock_store at h
  cases v with
  | true =>
    apply node_store_within s s1 p _ G P (p :: G) P i h hw
      (fun a ha _ => List.mem_cons_of_mem _ ha) (fun a ha _ => ha)
    intro n hn
    exact ⟨fun _ => List.mem_cons_self _ _, (hw.2 p n hn).2⟩
  | false =>
    apply node_store_within s s1 p _ G P (without G p) P i h hw
      (fun a ha hne => (mem_without G p a).mpr ⟨ha, hne⟩) (fun a ha _ => ha)
    intro n hn
    exact ⟨fun hg => absurd hg (by simp), (hw.2 p n hn).2⟩

theorem pnodelock_store_within (s s1 : State) (p : Nat) (v : Bool) (G P : List Nat) (i : Nat)
    {N : Nat} (h : pnodelock_store s p i v = some s1) (hw : locks_within s G P i N) :
    locks_within s1 G (if v then p :: P else without P p) i N := by
  unfold pnodelock_store at h
  split at h
  · split at h
    · cases v with
      | true =>
        apply node_store_within s s1 p _ G P G (p :: P) i h hw
          (fun a ha _ => ha) (fun a ha _ => List.mem_cons_of_mem _ ha)
        intro n hn
        refine ⟨(hw.2 p n hn).1, fun j hj => ?_⟩
        rcases set_true_slot _ _ _ _ hj with hc | hc
        · exact Or.inl ⟨hc.1, List.mem_cons_self _ _⟩
        · exact ((hw.2 p n hn).2 j hc).imp (fun hd => ⟨hd.1, List.mem_cons_self _ _⟩) id
      | false =>
        apply node_store_within s s1 p _ G P G (without P p) i h hw
          (fun a ha _ => ha) (fun a ha hne => (mem_without P p a).mpr ⟨ha, hne⟩)
        intro n hn
        refine ⟨(hw.2 p n hn).1, fun j hj => ?_⟩
        have hj2 := hj
        rw [List.getElem?_set] at hj2
        by_cases hij : i = j
        · subst hij
          by_cases hlt : i < n.pnd_slocks.length
          · simp only [if_true, hlt] at hj2
            exact absurd hj2 (by simp)
          · simp only [if_true, hlt, if_false] at hj2
            exact absurd hj2 (by simp)
        · simp only [hij, if_false] at hj2
          rcases (hw.2 p n hn).2 j hj2 with hd | hd
          · exact absurd hd.1.symm hij
          · exact Or.inr hd
    · exact absurd h (by simp)
  · exact absurd h (by simp)

theorem spin_lock_pnd_within (s s1 : State) (p : Nat) (G P : List Nat) (i : Nat) {N : Nat}
    (h : spin_lock_pnd s p i = some s1) (hw : locks_within s G P i N) :
    locks_within s1 G (p :: P) i N := by
  unfold spin_lock_pnd at h
  split at h
  · split at h
    · split at h
      · exact absurd h (by simp)
      · apply node_store_within s s1 p _ G P G (p :: P) i h hw
          (fun a ha _ => ha) (fun a ha _ => List.mem_cons_of_mem _ ha)
        intro n hn
        refine ⟨(hw.2 p n hn).1, fun j hj => ?_⟩
        rcases set_true_slot _ _ _ _ hj with hc | hc
        · exact Or.inl ⟨hc.1, List.mem_cons_self _ _⟩
        · exact ((hw.2 p n hn).2 j hc).imp (fun hd => ⟨hd.1, List.mem_cons_self _ _⟩) id
    · exact absurd h (by simp)
  · exact absurd h (by simp)

theorem alloc_within (s : State) (val : Int) (b : Nat) (G P : List Nat) (i : Nat) {N : Nat}
    (hw : locks_within s G P i N) :
    locks_within { s with nodes := s.nodes ++ [added_node val b] } G P i N := by
  apply append_node_within s _ (added_node val b) G P i hw rfl rfl
  intro hx
  exact absurd (List.eq_of_mem_replicate (List.getElem?_mem hx)) (by simp)

theorem within_nil (s : State) (G P : List Nat) (i : Nat) {N : Nat}
    (hw : locks_within s G P i N)
    (hG : ∀ a ∈ G, False) (hP : ∀ a ∈ P, False) : locks_within s [] [] i N :=
  locks_within_mono s G P [] [] i hw (fun a ha => (hG a ha).elim) (fun a ha => (hP a ha).elim)

theorem spin_unlock_global_within (s s1 : State) (p : Nat) (G P : List Nat) (i : Nat) {N : Nat}
    (h : spin_unlock_global s p = some s1) (hw : locks_within s G P i N) :
    locks_within s1 (without G p) P i N :=
  htmlock_store_within s s1 p false G P i h hw

theorem spin_unlock_pnd_within (s s1 : State) (p : Nat) (G P : List Nat) (i : Nat) {N : Nat}
    (h : spin_unlock_pnd s p i = some s1) (hw : locks_within s G P i N) :
    locks_within s1 G (without P p) i N :=
  pnodelock_store_within s s1 p false G P i h hw

theorem record_abort_within (s s1 : State) (cpu stat : Nat) (G P : List Nat) (i : Nat) {N : Nat}
    (h : record_abort s cpu stat = some s1) (hw : locks_within s G P i N) :
    locks_within s1 G P i N := by
  unfold record_abort at h
  split at h
  · exact locks_within_nodes s s1 G P i hw (by rw [← Option.some.inj h])
  · exact absurd h (by simp)

theorem global_lock_pair_within (s s1 : State) (a b : Nat) (G P : List Nat) (i : Nat) {N : Nat}
    (h : global_lock_pair s a b = some s1) (hw : locks_within s G P i N) :
    locks_within s1 (b :: a :: G) P i N := by
  unfold global_lock_pair at h
  split at h
  · rename_i s2 h2
    exact spin_lock_global_within _ _ _ _ _ _ h (spin_lock_global_within _ _ _ _ _ _ h2 hw)
  · exact absurd h (by simp)

theorem global_unlock_pair_within (s s1 : State) (a b : Nat) (G P : List Nat) (i : Nat) {N : Nat}
    (h : global_unlock_pair s a b = some s1) (hw : locks_within s G P i N) :
    locks_within s1 (without (without G b) a) P i N := by
  unfold global_unlock_pair at h
  split at h
  · rename_i s2 h2
    exact spin_unlock_global_within _ _ _ _ _ _ h (spin_unlock_global_within _ _ _ _ _ _ h2 hw)
  · exact absurd h (by simp)

theorem pnd_lock_pair_within (s s1 : State) (a b : Nat) (G P : List Nat) (i : Nat) {N : Nat}
    (h : pnd_lock_pair s a b i i = some s1) (hw : locks_within s G P i N) :
    locks_within s1 G (b :: a :: P) i N := by
  unfold pnd_lock_pair at h
  split at h
  · rename_i s2 h2
    exact spin_lock_pnd_within _ _ _ _ _ _ h (spin_lock_pnd_within _ _ _ _ _ _ h2 hw)
  · exact absurd h (by simp)

theorem pnd_unlock_pair_within (s s1 : State) (a b : Nat) (G P : List Nat) (i : Nat) {N : Nat}
    (h : pnd_unlock_pair s a b i i = some s1) (hw : locks_within s G P i N) :
    locks_within s1 G (without (without P b) a) i N := by
  unfold pnd_unlock_pair at h
  split at h
  · rename_i s2 h2
    exact spin_unlock_pnd_within _ _ _ _ _ _ h (spin_unlock_pnd_within _ _ _ _ _ _ h2 hw)
  · exact absurd h (by simp)

theorem htmlock_clear_pair_within (s s1 : State) (a b : Nat) (G P : List Nat) (i : Nat) {N : Nat}
    (h : htmlock_clear_pair s a b = some s1) (hw : locks_within s G P i N) :
    locks_within s1 (without (without G a) b) P i N := by
  unfold htmlock_clear_pair at h
  split at h
  · rename_i s2 h2
    exact htmlock_store_within _ _ _ false _ _ _ h (htmlock_store_within _ _ _ false _ _ _ h2 hw)
  · exact absurd h (by simp)

theorem pnodelock_clear_pair_within (s s1 : State) (a b : Nat) (G P : List Nat) (i : Nat) {N : Nat}
    (h : pnodelock_clear_pair s a b i i = some s1) (hw : locks_within s G P i N) :
    locks_within s1 G (without (without P a) b) i N := by
  unfold pnodelock_clear_pair at h
  split at h
  · rename_i s2 h2
    exact pnodelock_store_within _ _ _ false _ _ _ h
      (pnodelock_store_within _ _ _ false _ _ _ h2 hw)
  · exact absurd h (by simp)

theorem xbegin_within (s : State) (G P : List Nat) (i : Nat)
    {N : Nat} (hw : locks_within s G P i N) :
    locks_within (xbegin s).2 G P i N :=
  locks_within_nodes s _ G P i hw rfl

theorem xabort_status_not_started (code : Nat) (h : code < 256) :
    xabort_status code ≠ XBEGIN_STARTED := by
  unfold xabort_status XABORT_EXPLICIT XBEGIN_STARTED
  have e : code &&& 255 = code := by
    have := Nat.and_pow_two_sub_one_eq_mod code 8
    simp only [Nat.reducePow, Nat.add_one_sub_one] at this
    rw [this]
    exact Nat.mod_eq_of_lt h
  rw [e]
  intro hc
  have h1 := congrArg (fun x => x.testBit 1) hc
  simp only [Nat.testBit_or, Nat.testBit_shiftLeft] at h1
  have h2 : Nat.testBit 1 1 = false := by decide
  have h3 : Nat.testBit 4294967295 1 = true := by decide
  rw [h2, h3] at h1
  simp at h1

theorem htmlock_tx_within (s s1 : State) (a b st : Nat) (G P : List Nat) (i : Nat) {N : Nat}
    (h : htmlock_tx s a b = some (st, s1)) (hw : locks_within s G P i N) :
    (st = XBEGIN_STARTED → locks_within s1 (b :: a :: G) P i N) ∧
    (st ≠ XBEGIN_STARTED → locks_within s1 G P i N) := by
  have hx := xbegin_within s G P i hw
  unfold htmlock_tx at h
  simp only at h
  split at h
  · split at h
    · split at h
      · have e := Option.some.inj h
        have e1 : xabort_status ABORT_CONFLICT = st := congrArg Prod.fst e
        have e2 : (xbegin s).2 = s1 := congrArg Prod.snd e
        rw [← e1, ← e2]
        exact ⟨fun hc => absurd hc (xabort_status_not_started _ (by decide)), fun _ => hx⟩
      · split at h
        · rename_i s2 h2
          split at h
          · rename_i s3 h3
            have e := Option.some.inj h
            have e1 : XBEGIN_STARTED = st := congrArg Prod.fst e
            have e2 : s3 = s1 := congrArg Prod.snd e
            rw [← e1, ← e2]
            exact ⟨fun _ => htmlock_store_within _ _ _ true _ _ _ h3
              (htmlock_store_within _ _ _ true _ _ _ h2 hx), fun hc => absurd rfl hc⟩
          · exact absurd h (by simp)
        · exact absurd h (by simp)
    · exact absurd h (by simp)
  · rename_i hne
    have e := Option.some.inj h
    have e1 : (xbegin s).1 = st := congrArg Prod.fst e
    have e2 : (xbegin s).2 = s1 := congrArg Prod.snd e
    rw [← e1, ← e2]
    exact ⟨fun hc => absurd hc hne, fun _ => hx⟩

theorem pnodelock_tx_within (s s1 : State) (a b st : Nat) (G P : List Nat) (i : Nat) {N : Nat}
    (h : pnodelock_tx s a b i i i i = some (st, s1)) (hw : locks_within s G P i N) :
    (st = XBEGIN_STARTED → locks_within s1 G (b :: a :: P) i N) ∧
    (st ≠ XBEGIN_STARTED → locks_within s1 G P i N) := by
  have hx := xbegin_within s G P i hw
  unfold pnodelock_tx at h
  simp only at h
  split at h
  · split at h
    · split at h
      · have e := Option.some.inj h
        have e1 : xabort_status ABORT_CONFLICT = st := congrArg Prod.fst e
        have e2 : (xbegin s).2 = s1 := congrArg Prod.snd e
        rw [← e1, ← e2]
        exact ⟨fun hc => absurd hc (xabort_status_not_started _ (by decide)), fun _ => hx⟩
      · split at h
        · rename_i s2 h2
          split at h
          · rename_i s3 h3
            have e := Option.some.inj h
            have e1 : XBEGIN_STARTED = st := congrArg Prod.fst e
            have e2 : s3 = s1 := congrArg Prod.snd e
            rw [← e1, ← e2]
            exact ⟨fun _ => pnodelock_store_within _ _ _ true _ _ _ h3
              (pnodelock_store_within _ _ _ true _ _ _ h2 hx), fun hc => absurd rfl hc⟩
          · exact absurd h (by simp)
        · exact absurd h (by simp)
    · exact absurd h (by simp)
  · rename_i hne
    have e := Option.some.inj h
    have e1 : (xbegin s).1 = st := congrArg Prod.fst e
    have e2 : (xbegin s).2 = s1 := congrArg Prod.snd e
    rw [← e1, ← e2]
    exact ⟨fun hc => absurd hc hne, fun _ => hx⟩

theorem add_validate_record_within (cpu : Nat) (s s1 : State) (a b : Nat) (valid : Bool)
    (G P : List Nat) (i : Nat) {N : Nat}
    (h : add_validate_record cpu s a b = some (s1, valid)) (hw : locks_within s G P i N) :
    locks_within s1 G P i N := by
  unfold add_validate_record at h
  split at h
  · have e : s = s1 := congrArg Prod.fst (Option.some.inj h)
    rw [← e]; exact hw
  · split at h
    · rename_i s2 h2
      have e : s2 = s1 := congrArg Prod.fst (Option.some.inj h)
      rw [← e]; exact record_abort_within _ _ _ _ _ _ _ h2 hw
    · exact absurd h (by simp)
  · split at h
    · rename_i s2 h2
      have e : s2 = s1 := congrArg Prod.fst (Option.some.inj h)
      rw [← e]; exact record_abort_within _ _ _ _ _ _ _ h2 hw
    · exact absurd h (by simp)
  · exact absurd h (by simp)

theorem remove_validate_record_within (cpu : Nat) (s s1 : State) (a b : Nat) (n : Option Nat)
    (valid : Bool) (G P : List Nat) (i : Nat) {N : Nat}
    (h : remove_validate_record cpu s a b n = some (s1, valid)) (hw : locks_within s G P i N) :
    locks_within s1 G P i N := by
  unfold remove_validate_record at h
  split at h
  · have e : s = s1 := congrArg Prod.fst (Option.some.inj h)
    rw [← e]; exact hw
  · split at h
    · rename_i s2 h2
      have e : s2 = s1 := congrArg Prod.fst (Option.some.inj h)
      rw [← e]; exact record_abort_within _ _ _ _ _ _ _ h2 hw
    · exact absurd h (by simp)
  · split at h
    · rename_i s2 h2
      have e : s2 = s1 := congrArg Prod.fst (Option.some.inj h)
      rw [← e]; exact record_abort_within _ _ _ _ _ _ _ h2 hw
    · exact absurd h (by simp)
  · exact absurd h (by simp)

theorem hhtmlock_global_within (cpu a b : Nat) (G P : List Nat) (i : Nat) {N : Nat} :
    ∀ (fuel : Nat) (s s1 : State), hhtmlock_global fuel cpu s a b = some s1 →
      locks_within s G P i N → locks_within s1 (b :: a :: G) P i N := by
  intro fuel
  induction fuel with
  | zero => intro s s1 h; simp [hhtmlock_global] at h
  | succ fuel ih =>
    intro s s1 h hw
    rw [hhtmlock_global] at h
    simp only [Option.bind_eq_bind, Option.bind_eq_some, Option.pure_def] at h
    obtain ⟨_, _, ⟨st, s2⟩, h2, h3⟩ := h
    have hq := htmlock_tx_within s s2 a b st G P i h2 hw
    by_cases hst : st = XBEGIN_STARTED
    · simp only [hst, if_true] at h3
      rw [← Option.some.inj h3]
      exact hq.1 hst
    · simp only [hst, if_false, Option.bind_eq_some] at h3
      obtain ⟨s3, h4, h5⟩ := h3
      exact ih s3 s1 h5 (record_abort_within _ _ _ _ _ _ _ h4 (hq.2 hst))

theorem without_two (a b c d x : Nat) (h : x ∈ without (without [a, b] c) d)
    (h1 : a = c ∨ a = d) (h2 : b = c ∨ b = d) : False := by
  simp only [mem_without, List.mem_cons, List.mem_nil_iff, or_false] at h
  omega

theorem without_three (a b c d e f x : Nat)
    (h : x ∈ without (without (without [a, b, c] d) e) f)
    (h1 : a = d ∨ a = e ∨ a = f) (h2 : b = d ∨ b = e ∨ b = f)
    (h3 : c = d ∨ c = e ∨ c = f) :
    False := by
  simp only [mem_without, List.mem_cons, List.mem_nil_iff, or_false] at h
  omega

theorem global_lock_triple_within (s s1 : State) (a b c : Nat) (n : Option Nat)
    (G P : List Nat) (i : Nat) {N : Nat}
    (h : global_lock_triple s a b n = some s1) (hn : n = some c) (hw : locks_within s G P i N) :
    locks_within s1 (c :: b :: a :: G) P i N := by
  subst hn
  unfold global_lock_triple at h
  split at h
  · rename_i s2 h2
    split at h
    · rename_i s3 h3
      exact spin_lock_global_within _ _ _ _ _ _ h (spin_lock_global_within _ _ _ _ _ _ h3
        (spin_lock_global_within _ _ _ _ _ _ h2 hw))
    · exact absurd h (by simp)
  · exact absurd h (by simp)

theorem global_unlock_triple_within (s s1 : State) (a b c : Nat) (G P : List Nat) (i : Nat)
    {N : Nat}
    (h : global_unlock_triple s a b c = some s1) (hw : locks_within s G P i N) :
    locks_within s1 (without (without (without G c) b) a) P i N := by
  unfold global_unlock_triple at h
  split at h
  · rename_i s2 h2
    split at h
    · rename_i s3 h3
      exact spin_unlock_global_within _ _ _ _ _ _ h (spin_unlock_global_within _ _ _ _ _ _ h3
        (spin_unlock_global_within _ _ _ _ _ _ h2 hw))
    · exact absurd h (by simp)
  · exact absurd h (by simp)

theorem pnd_lock_triple_within (s s1 : State) (a b c : Nat) (n : Option Nat)
    (G P : List Nat) (i : Nat) {N : Nat}
    (h : pnd_lock_triple s a b n i i i = some s1) (hn : n = some c)
    (hw : locks_within s G P i N) : locks_within s1 G (c :: b :: a :: P) i N := by
  subst hn
  unfold pnd_lock_triple at h
  split at h
  · rename_i s2 h2
    split at h
    · rename_i s3 h3
      exact spin_lock_pnd_within _ _ _ _ _ _ h (spin_lock_pnd_within _ _ _ _ _ _ h3
        (spin_lock_pnd_within _ _ _ _ _ _ h2 hw))
    · exact absurd h (by simp)
  · exact absurd h (by simp)

theorem pnd_unlock_triple_within (s s1 : State) (a b c : Nat) (G P : List Nat) (i : Nat) {N : Nat}
    (h : pnd_unlock_triple s a b c i i i = some s1) (hw : locks_within s G P i N) :
    locks_within s1 G (without (without (without P c) b) a) i N := by
  unfold pnd_unlock_triple at h
  split at h
  · rename_i s2 h2
    split at h
    · rename_i s3 h3
      exact spin_unlock_pnd_within _ _ _ _ _ _ h (spin_unlock_pnd_within _ _ _ _ _ _ h3
        (spin_unlock_pnd_within _ _ _ _ _ _ h2 hw))
    · exact absurd h (by simp)
  · exact absurd h (by simp)

theorem htmlock_clear_triple_within (s s1 : State) (a b c : Nat) (G P : List Nat) (i : Nat)
    {N : Nat}
    (h : htmlock_clear_triple s a b c = some s1) (hw : locks_within s G P i N) :
    locks_within s1 (without (without (without G c) b) a) P i N := by
  unfold htmlock_clear_triple at h
  split at h
  · rename_i s2 h2
    split at h
    · rename_i s3 h3
      exact htmlock_store_within _ _ _ false _ _ _ h (htmlock_store_within _ _ _ false _ _ _ h3
        (htmlock_store_within _ _ _ false _ _ _ h2 hw))
    · exact absurd h (by simp)
  · exact absurd h (by simp)

theorem pnodelock_clear_triple_within (s s1 : State) (a b c : Nat) (G P : List Nat) (i : Nat)
    {N : Nat}
    (h : pnodelock_clear_triple s a b c i i i = some s1) (hw : locks_within s G P i N) :
    locks_within s1 G (without (without (without P c) b) a) i N := by
  unfold pnodelock_clear_triple at h
  split at h
  · rename_i s2 h2
    split at h
    · rename_i s3 h3
      exact pnodelock_store_within _ _ _ false _ _ _ h
        (pnodelock_store_within _ _ _ false _ _ _ h3
          (pnodelock_store_within _ _ _ false _ _ _ h2 hw))
    · exact absurd h (by simp)
  · exact absurd h (by simp)

theorem htmlock_tx_triple_within (s s1 : State) (a b c st : Nat) (n : Option Nat)
    (G P : List Nat) (i : Nat) {N : Nat}
    (h : htmlock_tx_triple s a b n = some (st, s1)) (hn : n = some c)
    (hw : locks_within s G P i N) :
    (st = XBEGIN_STARTED → locks_within s1 (c :: b :: a :: G) P i N) ∧
    (st ≠ XBEGIN_STARTED → locks_within s1 G P i N) := by
  subst hn
  have hx := xbegin_within s G P i hw
  unfold htmlock_tx_triple at h
  simp only at h
  split at h
  · split at h
    · split at h
      · have e := Option.some.inj h
        have e1 : xabort_status ABORT_CONFLICT = st := congrArg Prod.fst e
        have e2 : (xbegin s).2 = s1 := congrArg Prod.snd e
        rw [← e1, ← e2]
        exact ⟨fun hc => absurd hc (xabort_status_not_started _ (by decide)), fun _ => hx⟩
      · split at h
        · rename_i s2 h2
          split at h
          · rename_i s3 h3
            split at h
            · rename_i s4 h4
              have e := Option.some.inj h
              have e1 : XBEGIN_STARTED = st := congrArg Prod.fst e
              have e2 : s4 = s1 := congrArg Prod.snd e
              rw [← e1, ← e2]
              exact ⟨fun _ => htmlock_store_within _ _ _ true _ _ _ h4
                (htmlock_store_within _ _ _ true _ _ _ h3
                  (htmlock_store_within _ _ _ true _ _ _ h2 hx)), fun hc => absurd rfl hc⟩
            · exact absurd h (by simp)
          · exact absurd h (by simp)
        · exact absurd h (by simp)
    · exact absurd h (by simp)
  · rename_i hne
    have e := Option.some.inj h
    have e1 : (xbegin s).1 = st := congrArg Prod.fst e
    have e2 : (xbegin s).2 = s1 := congrArg Prod.snd e
    rw [← e1, ← e2]
    exact ⟨fun hc => absurd hc hne, fun _ => hx⟩

theorem pnodelock_tx_triple_within (s s1 : State) (a b c st : Nat) (n : Option Nat)
    (G P : List Nat) (i : Nat) {N : Nat}
    (h : pnodelock_tx_triple s a b n i i i i i i = some (st, s1)) (hn : n = some c)
    (hw : locks_within s G P i N) :
    (st = XBEGIN_STARTED → locks_within s1 G (c :: b :: a :: P) i N) ∧
    (st ≠ XBEGIN_STARTED → locks_within s1 G P i N) := by
  subst hn
  have hx := xbegin_within s G P i hw
  unfold pnodelock_tx_triple at h
  simp only at h
  split at h
  · split at h
    · split at h
      · have e := Option.some.inj h
        have e1 : xabort_status ABORT_CONFLICT = st := congrArg Prod.fst e
        have e2 : (xbegin s).2 = s1 := congrArg Prod.snd e
        rw [← e1, ← e2]
        exact ⟨fun hc => absurd hc (xabort_status_not_started _ (by decide)), fun _ => hx⟩
      · split at h
        · rename_i s2 h2
          split at h
          · rename_i s3 h3
            split at h
            · rename_i s4 h4
              have e := Option.some.inj h
              have e1 : XBEGIN_STARTED = st := congrArg Prod.fst e
              have e2 : s4 = s1 := congrArg Prod.snd e
              rw [← e1, ← e2]
              exact ⟨fun _ => pnodelock_store_within _ _ _ true _ _ _ h4
                (pnodelock_store_within _ _ _ true _ _ _ h3
                  (pnodelock_store_within _ _ _ true _ _ _ h2 hx)), fun hc => absurd rfl hc⟩
            · exact absurd h (by simp)
          · exact absurd h (by simp)
        · exact absurd h (by simp)
    · exact absurd h (by simp)
  · rename_i hne
    have e := Option.some.inj h
    have e1 : (xbegin s).1 = st := congrArg Prod.fst e
    have e2 : (xbegin s).2 = s1 := congrArg Prod.snd e
    rw [← e1, ← e2]
    exact ⟨fun hc => absurd hc hne, fun _ => hx⟩

theorem hhtmlock_global_triple_within (cpu a b c : Nat) (n : Option Nat) (G P : List Nat)
    (i : Nat) {N : Nat} (hn : n = some c) :
    ∀ (fuel : Nat) (s s1 : State), hhtmlock_global_triple fuel cpu s a b n = some s1 →
      locks_within s G P i N → locks_within s1 (c :: b :: a :: G) P i N := by
  intro fuel
  induction fuel with
  | zero => intro s s1 h; simp [hhtmlock_global_triple] at h
  | succ fuel ih =>
    intro s s1 h hw
    rw [hhtmlock_global_triple] at h
    obtain ⟨_, _, h⟩ := Option.bind_eq_some.mp h
    obtain ⟨⟨st, s2⟩, h2, h⟩ := Option.bind_eq_some.mp h
    have hq := htmlock_tx_triple_within s s2 a b c st n G P i h2 hn hw
    simp only at h
    split at h
    · rename_i hst
      rw [← Option.some.inj h]
      exact hq.1 hst
    · rename_i hst
      obtain ⟨s3, h4, h⟩ := Option.bind_eq_some.mp h
      exact ih s3 s1 h (record_abort_within _ _ _ _ _ _ _ h4 (hq.2 hst))

/-! ## The lock words one pass may leave held -/

theorem rcu_list_fg_add_pass_within (p_list : Nat) (val : Int) (i : Nat) {N : Nat}
    (s s1 : State) (o : Option Int)
    (h : rcu_list_fg_add_pass s p_list val = some (s1, o))
    (hw : locks_within s [] [] i N) : locks_within s1 [] [] i N := by
  unfold rcu_list_fg_add_pass at h
  obtain ⟨⟨p_prev, p_next, v⟩, _, h⟩ := Option.bind_eq_some.mp h
  simp only at h
  split at h
  · rw [rcu_alloc_node_eq] at h
    obtain ⟨q, hq, h⟩ := Option.bind_eq_some.mp h
    cases hq
    obtain ⟨⟨s5, published⟩, hsec, h⟩ := Option.bind_eq_some.mp h
    have w5 : locks_within s5 [] [] i N := by
      unfold rcu_list_fg_add_section at hsec
      obtain ⟨s2, h2, hsec⟩ := Option.bind_eq_some.mp hsec
      obtain ⟨check, _, hsec⟩ := Option.bind_eq_some.mp hsec
      have w2 := global_lock_pair_within _ _ _ _ _ _ i h2 (alloc_within s val p_next [] [] i hw)
      split at hsec
      · obtain ⟨s3, h4, hsec⟩ := Option.bind_eq_some.mp hsec
        have w3 := global_unlock_pair_within _ _ _ _ _ _ i h4 w2
        have e : s3 = s5 := congrArg Prod.fst (Option.some.inj hsec)
        rw [← e]
        exact within_nil _ _ _ _ w3
          (fun x hx => without_two _ _ _ _ x hx (Or.inl rfl) (Or.inr rfl))
          (fun x hx => by simp at hx)
      · obtain ⟨s3, h4, hsec⟩ := Option.bind_eq_some.mp hsec
        obtain ⟨s4, h5, hsec⟩ := Option.bind_eq_some.mp hsec
        have w3 := node_store_within_links _ _ _ _ _ _ i h4 w2 (fun _ => rfl) (fun _ => rfl)
        have w4 := global_unlock_pair_within _ _ _ _ _ _ i h5 w3
        have e : s4 = s5 := congrArg Prod.fst (Option.some.inj hsec)
        rw [← e]
        exact within_nil _ _ _ _ w4
          (fun x hx => without_two _ _ _ _ x hx (Or.inl rfl) (Or.inr rfl))
          (fun x hx => by simp at hx)
    simp only at h
    split at h
    · have e : s5 = s1 := congrArg Prod.fst (Option.some.inj h)
      rw [← e]; exact w5
    · have e : _ = s1 := congrArg Prod.fst (Option.some.inj h)
      rw [← e]
      exact locks_within_nodes s5 _ [] [] i w5 rfl
  · have e : s = s1 := congrArg Prod.fst (Option.some.inj h)
    rw [← e]; exact hw

theorem rcu_list_fg_remove_pass_within (p_list : Nat) (val : Int) (i : Nat) {N : Nat}
    (s s1 : State) (o : Option Int)
    (h : rcu_list_fg_remove_pass s p_list val = some (s1, o))
    (hw : locks_within s [] [] i N) : locks_within s1 [] [] i N := by
  unfold rcu_list_fg_remove_pass at h
  obtain ⟨⟨p_prev, p_next, v⟩, _, h⟩ := Option.bind_eq_some.mp h
  simp only at h
  split at h
  · obtain ⟨nx, _, h⟩ := Option.bind_eq_some.mp h
    obtain ⟨⟨s5, unlinked⟩, hsec, h⟩ := Option.bind_eq_some.mp h
    have w5 : locks_within s5 [] [] i N := by
      unfold rcu_list_fg_remove_section at hsec
      obtain ⟨s2, h2, hsec⟩ := Option.bind_eq_some.mp hsec
      obtain ⟨p_n, hn, hsec⟩ := Option.bind_eq_some.mp hsec
      obtain ⟨check, _, hsec⟩ := Option.bind_eq_some.mp hsec
      have w2 := global_lock_triple_within _ _ _ _ _ _ _ _ i h2 hn hw
      split at hsec
      · obtain ⟨s3, h3, hsec⟩ := Option.bind_eq_some.mp hsec
        have w3 := global_unlock_triple_within _ _ _ _ _ _ _ i h3 w2
        have e : s3 = s5 := congrArg Prod.fst (Option.some.inj hsec)
        rw [← e]
        exact within_nil _ _ _ _ w3
          (fun x hx => without_three _ _ _ _ _ _ x hx (by omega) (by omega) (by omega))
          (fun x hx => by simp at hx)
      · obtain ⟨s3, h3, hsec⟩ := Option.bind_eq_some.mp hsec
        obtain ⟨s4, h4, hsec⟩ := Option.bind_eq_some.mp hsec
        obtain ⟨s6, h5, hsec⟩ := Option.bind_eq_some.mp hsec
        have w3 := node_store_within_links _ _ _ _ _ _ i h3 w2 (fun _ => rfl) (fun _ => rfl)
        have w4 := node_store_within_links _ _ _ _ _ _ i h4 w3 (fun _ => rfl) (fun _ => rfl)
        have w6 := global_unlock_triple_within _ _ _ _ _ _ _ i h5
          (locks_within_nodes s4 (rcu_free_node s4 p_next) _ _ i w4 rfl)
        have e : s6 = s5 := congrArg Prod.fst (Option.some.inj hsec)
        rw [← e]
        exact within_nil _ _ _ _ w6
          (fun x hx => without_three _ _ _ _ _ _ x hx (by omega) (by omega) (by omega))
          (fun x hx => by simp at hx)
    simp only at h
    split at h
    · have e : s5 = s1 := congrArg Prod.fst (Option.some.inj h)
      rw [← e]; exact w5
    · have e : s5 = s1 := congrArg Prod.fst (Option.some.inj h)
      rw [← e]; exact w5
  · have e : s = s1 := congrArg Prod.fst (Option.some.inj h)
    rw [← e]; exact hw

theorem rcu_list_numa_add_pass_within (p_list : Nat) (val : Int) (i : Nat) {N : Nat}
    (nid : Nat → Nat) (s s1 : State) (o : Option Int)
    (hnid : ∀ k, nid k = i)
    (h : rcu_list_numa_add_pass nid s p_list val = some (s1, o))
    (hw : locks_within s [] [] i N) : locks_within s1 [] [] i N := by
  unfold rcu_list_numa_add_pass at h
  simp only [hnid, Option.bind_eq_bind, Option.bind_eq_some, Option.pure_def] at h
  obtain ⟨⟨p_prev, p_next, v⟩, _, h⟩ := h
  simp only at h
  split at h
  · simp only [rcu_alloc_node_eq, Option.some_bind, Option.bind_eq_some] at h
    obtain ⟨s2, h2, s3, h3, check, _, h4⟩ := h
    have w2 := pnd_lock_pair_within _ _ _ _ _ _ i h2 (alloc_within s val p_next [] [] i hw)
    have w3 := global_lock_pair_within _ _ _ _ _ _ i h3 w2
    split at h4
    · simp only [Option.bind_eq_some] at h4
      obtain ⟨s4, h5, s5, h6, h7⟩ := h4
      have w4 := global_unlock_pair_within _ _ _ _ _ _ i h5 w3
      have w5 := pnd_unlock_pair_within _ _ _ _ _ _ i h6 w4
      have e : _ = s1 := congrArg Prod.fst (Option.some.inj h7)
      rw [← e]
      refine locks_within_nodes s5 _ [] [] i ?_ rfl
      exact within_nil _ _ _ _ w5
        (fun x hx => without_two _ _ _ _ x hx (Or.inl rfl) (Or.inr rfl))
        (fun x hx => without_two _ _ _ _ x hx (Or.inl rfl) (Or.inr rfl))
    · simp only [Option.bind_eq_some] at h4
      obtain ⟨s4, h5, s5, h6, s6, h7, h8⟩ := h4
      have w4 := node_store_within_links _ _ _ _ _ _ i h5 w3 (fun _ => rfl) (fun _ => rfl)
      have w5 := global_unlock_pair_within _ _ _ _ _ _ i h6 w4
      have w6 := pnd_unlock_pair_within _ _ _ _ _ _ i h7 w5
      have e : s6 = s1 := congrArg Prod.fst (Option.some.inj h8)
      rw [← e]
      exact within_nil _ _ _ _ w6
        (fun x hx => without_two _ _ _ _ x hx (Or.inl rfl) (Or.inr rfl))
        (fun x hx => without_two _ _ _ _ x hx (Or.inl rfl) (Or.inr rfl))
  · have e : s = s1 := congrArg Prod.fst (Option.some.inj h)
    rw [← e]; exact hw

theorem rcx_list_htmlock_add_pass_within (cpu p_list : Nat) (val : Int) (i : Nat) {N : Nat}
    (s s1 : State) (o : Option Int)
    (h : rcx_list_htmlock_add_pass cpu s p_list val = some (s1, o))
    (hw : locks_within s [] [] i N) : locks_within s1 [] [] i N := by
  unfold rcx_list_htmlock_add_pass at h
  simp only [Option.bind_eq_bind, Option.bind_eq_some, Option.pure_def] at h
  obtain ⟨⟨p_prev, p_next, v⟩, _, h⟩ := h
  simp only at h
  split at h
  · simp only [rcx_alloc_node_eq, Option.some_bind, Option.bind_eq_some] at h
    obtain ⟨_, _, ⟨st, s2⟩, h2, h3⟩ := h
    have w2 := htmlock_tx_within _ _ _ _ _ _ _ i h2 (alloc_within s val p_next [] [] i hw)
    simp only at h3
    split at h3
    · rename_i hst
      simp only [Option.bind_eq_some] at h3
      obtain ⟨⟨s3, valid⟩, h4, h5⟩ := h3
      have w3 := add_validate_record_within _ _ _ _ _ _ _ _ i h4 (w2.1 hst)
      simp only at h5
      split at h5
      · simp only [Option.bind_eq_some] at h5
        obtain ⟨s4, h6, s5, h7, h8⟩ := h5
        have w4 := node_store_within_links _ _ _ _ _ _ i h6 w3 (fun _ => rfl) (fun _ => rfl)
        have w5 := htmlock_clear_pair_within _ _ _ _ _ _ i h7 w4
        have e : s5 = s1 := congrArg Prod.fst (Option.some.inj h8)
        rw [← e]
        exact within_nil _ _ _ _ w5
          (fun x hx => without_two _ _ _ _ x hx (Or.inl rfl) (Or.inr rfl))
          (fun x hx => by simp at hx)
      · simp only [Option.bind_eq_some] at h5
        obtain ⟨s4, h6, h7⟩ := h5
        have w4 := htmlock_clear_pair_within _ _ _ _ _ _ i h6 w3
        have e : _ = s1 := congrArg Prod.fst (Option.some.inj h7)
        rw [← e]
        refine locks_within_nodes s4 _ [] [] i ?_ rfl
        exact within_nil _ _ _ _ w4
          (fun x hx => without_two _ _ _ _ x hx (Or.inl rfl) (Or.inr rfl))
          (fun x hx => by simp at hx)
    · rename_i hst
      simp only [Option.bind_eq_some] at h3
      obtain ⟨s3, h4, h5⟩ := h3
      have w3 := record_abort_within _ _ _ _ _ _ i h4 (w2.2 hst)
      have e : _ = s1 := congrArg Prod.fst (Option.some.inj h5)
      rw [← e]
      exact locks_within_nodes s3 _ [] [] i w3 rfl
  · have e : s = s1 := congrArg Prod.fst (Option.some.inj h)
    rw [← e]; exact hw

theorem rcx_list_hhtmlock_add_pass_within (cpu p_list : Nat) (val : Int) (i : Nat) {N : Nat}
    (fuel : Nat) (nid : Nat → Nat) (s s1 : State) (o : Option Int)
    (hnid : ∀ k, nid k = i)
    (h : rcx_list_hhtmlock_add_pass fuel cpu nid s p_list val = some (s1, o))
    (hw : locks_within s [] [] i N) : locks_within s1 [] [] i N := by
  unfold rcx_list_hhtmlock_add_pass at h
  simp only [hnid] at h
  obtain ⟨⟨p_prev, p_next, v⟩, _, h⟩ := Option.bind_eq_some.mp h
  simp only at h
  split at h
  · rw [rcx_alloc_node_eq] at h
    obtain ⟨q, hq, h⟩ := Option.bind_eq_some.mp h
    cases hq
    obtain ⟨_, _, h⟩ := Option.bind_eq_some.mp h
    obtain ⟨⟨st, s2⟩, h2, h⟩ := Option.bind_eq_some.mp h
    have w2 := pnodelock_tx_within _ _ _ _ _ _ _ i h2 (alloc_within s val p_next [] [] i hw)
    simp only at h
    split at h
    · rename_i hst
      obtain ⟨s3, h4, h⟩ := Option.bind_eq_some.mp h
      obtain ⟨⟨s4, valid⟩, h5, h⟩ := Option.bind_eq_some.mp h
      have w3 := hhtmlock_global_within cpu p_prev p_next _ _ i _ _ _ h4 (w2.1 hst)
      have w4 := add_validate_record_within _ _ _ _ _ _ _ _ i h5 w3
      simp only at h
      split at h
      · obtain ⟨s5, h7, h⟩ := Option.bind_eq_some.mp h
        obtain ⟨s6, h8, h⟩ := Option.bind_eq_some.mp h
        obtain ⟨s7, h9, h⟩ := Option.bind_eq_some.mp h
        have w5 := node_store_within_links _ _ _ _ _ _ i h7 w4 (fun _ => rfl) (fun _ => rfl)
        have w6 := htmlock_clear_pair_within _ _ _ _ _ _ i h8 w5
        have w7 := pnodelock_clear_pair_within _ _ _ _ _ _ i h9 w6
        have e : s7 = s1 := congrArg Prod.fst (Option.some.inj h)
        rw [← e]
        exact within_nil _ _ _ _ w7
          (fun x hx => without_two _ _ _ _ x hx (by omega) (by omega))
          (fun x hx => without_two _ _ _ _ x hx (by omega) (by omega))
      · obtain ⟨s5, h7, h⟩ := Option.bind_eq_some.mp h
        obtain ⟨s6, h8, h⟩ := Option.bind_eq_some.mp h
        have w5 := htmlock_clear_pair_within _ _ _ _ _ _ i h7 w4
        have w6 := pnodelock_clear_pair_within _ _ _ _ _ _ i h8 w5
        have e : _ = s1 := congrArg Prod.fst (Option.some.inj h)
        rw [← e]
        refine locks_within_nodes s6 _ [] [] i ?_ rfl
        exact within_nil _ _ _ _ w6
          (fun x hx => without_two _ _ _ _ x hx (by omega) (by omega))
          (fun x hx => without_two _ _ _ _ x hx (by omega) (by omega))
    · rename_i hst
      obtain ⟨s3, h4, h⟩ := Option.bind_eq_some.mp h
      have w3 := record_abort_within _ _ _ _ _ _ i h4 (w2.2 hst)
      have e : _ = s1 := congrArg Prod.fst (Option.some.inj h)
      rw [← e]
      exact locks_within_nodes s3 _ [] [] i w3 rfl
  · have e : s = s1 := congrArg Prod.fst (Option.some.inj h)
    rw [← e]; exact hw

theorem rcx_list_numa_add_pass_within (cpu p_list : Nat) (val : Int) (i : Nat) {N : Nat}
    (nid : Nat → Nat) (s s1 : State) (o : Option Int)
    (hnid : ∀ k, nid k = i)
    (h : rcx_list_numa_add_pass cpu nid s p_list val = some (s1, o))
    (hw : locks_within s [] [] i N) : locks_within s1 [] [] i N := by
  unfold rcx_list_numa_add_pass at h
  simp only [hnid] at h
  obtain ⟨⟨p_prev, p_next, v⟩, _, h⟩ := Option.bind_eq_some.mp h
  simp only at h
  split at h
  · rw [rcx_alloc_node_eq] at h
    obtain ⟨q, hq, h⟩ := Option.bind_eq_some.mp h
    cases hq
    obtain ⟨_, _, h⟩ := Option.bind_eq_some.mp h
    obtain ⟨⟨st, s2⟩, h2, h⟩ := Option.bind_eq_some.mp h
    have w2 := pnodelock_tx_within _ _ _ _ _ _ _ i h2 (alloc_within s val p_next [] [] i hw)
    simp only at h
    split at h
    · rename_i hst
      obtain ⟨s3, h4, h⟩ := Option.bind_eq_some.mp h
      obtain ⟨⟨s4, valid⟩, h5, h⟩ := Option.bind_eq_some.mp h
      have w3 := global_lock_pair_within _ _ _ _ _ _ i h4 (w2.1 hst)
      have w4 := add_validate_record_within _ _ _ _ _ _ _ _ i h5 w3
      simp only at h
      split at h
      · obtain ⟨s5, h7, h⟩ := Option.bind_eq_some.mp h
        obtain ⟨s6, h8, h⟩ := Option.bind_eq_some.mp h
        obtain ⟨s7, h9, h⟩ := Option.bind_eq_some.mp h
        have w5 := node_store_within_links _ _ _ _ _ _ i h7 w4 (fun _ => rfl) (fun _ => rfl)
        have w6 := global_unlock_pair_within _ _ _ _ _ _ i h8 w5
        have w7 := pnodelock_clear_pair_within _ _ _ _ _ _ i h9 w6
        have e : s7 = s1 := congrArg Prod.fst (Option.some.inj h)
        rw [← e]
        exact within_nil _ _ _ _ w7
          (fun x hx => without_two _ _ _ _ x hx (by omega) (by omega))
          (fun x hx => without_two _ _ _ _ x hx (by omega) (by omega))
      · obtain ⟨s5, h7, h⟩ := Option.bind_eq_some.mp h
        obtain ⟨s6, h8, h⟩ := Option.bind_eq_some.mp h
        have w5 := global_unlock_pair_within _ _ _ _ _ _ i h7 w4
        have w6 := pnodelock_clear_pair_within _ _ _ _ _ _ i h8 w5
        have e : _ = s1 := congrArg Prod.fst (Option.some.inj h)
        rw [← e]
        refine locks_within_nodes s6 _ [] [] i ?_ rfl
        exact within_nil _ _ _ _ w6
          (fun x hx => without_two _ _ _ _ x hx (by omega) (by omega))
          (fun x hx => without_two _ _ _ _ x hx (by omega) (by omega))
    · rename_i hst
      obtain ⟨s3, h4, h⟩ := Option.bind_eq_some.mp h
      have w3 := record_abort_within _ _ _ _ _ _ i h4 (w2.2 hst)
      have e : _ = s1 := congrArg Prod.fst (Option.some.inj h)
      rw [← e]
      exact locks_within_nodes s3 _ [] [] i w3 rfl
  · have e : s = s1 := congrArg Prod.fst (Option.some.inj h)
    rw [← e]; exact hw

theorem rcu_list_numa_remove_pass_within (p_list : Nat) (val : Int) (i : Nat) {N : Nat}
    (nid : Nat → Nat) (s s1 : State) (o : Option Int)
    (hnid : ∀ k, nid k = i)
    (h : rcu_list_numa_remove_pass nid s p_list val = some (s1, o))
    (hw : locks_within s [] [] i N) : locks_within s1 [] [] i N := by
  unfold rcu_list_numa_remove_pass at h
  simp only [hnid] at h
  obtain ⟨⟨p_prev, p_next, v⟩, _, h⟩ := Option.bind_eq_some.mp h
  simp only at h
  split at h
  · obtain ⟨nx, _, h⟩ := Option.bind_eq_some.mp h
    obtain ⟨s2, h2, h⟩ := Option.bind_eq_some.mp h
    obtain ⟨p_n, hn, h⟩ := Option.bind_eq_some.mp h
    obtain ⟨s3, h3, h⟩ := Option.bind_eq_some.mp h
    obtain ⟨check, _, h⟩ := Option.bind_eq_some.mp h
    have w2 := pnd_lock_triple_within _ _ _ _ _ _ _ _ i h2 hn hw
    have w3 := global_lock_triple_within _ _ _ _ _ _ _ _ i h3 hn w2
    split at h
    · obtain ⟨s4, h4, h⟩ := Option.bind_eq_some.mp h
      obtain ⟨s5, h5, h⟩ := Option.bind_eq_some.mp h
      have w4 := global_unlock_triple_within _ _ _ _ _ _ _ i h4 w3
      have w5 := pnd_unlock_triple_within _ _ _ _ _ _ _ i h5 w4
      have e : _ = s1 := congrArg Prod.fst (Option.some.inj h)
      rw [← e]
      exact within_nil _ _ _ _ w5
        (fun x hx => without_three _ _ _ _ _ _ x hx (by omega) (by omega) (by omega))
        (fun x hx => without_three _ _ _ _ _ _ x hx (by omega) (by omega) (by omega))
    · obtain ⟨s4, h4, h⟩ := Option.bind_eq_some.mp h
      obtain ⟨s5, h5, h⟩ := Option.bind_eq_some.mp h
      obtain ⟨s6, h6, h⟩ := Option.bind_eq_some.mp h
      obtain ⟨s7, h7, h⟩ := Option.bind_eq_some.mp h
      have w4 := node_store_within_links _ _ _ _ _ _ i h4 w3 (fun _ => rfl) (fun _ => rfl)
      have w5 := node_store_within_links _ _ _ _ _ _ i h5 w4 (fun _ => rfl) (fun _ => rfl)
      have w6 := global_unlock_triple_within _ _ _ _ _ _ _ i h6
        (locks_within_nodes s5 (rcu_free_node s5 p_next) _ _ i w5 rfl)
      have w7 := pnd_unlock_triple_within _ _ _ _ _ _ _ i h7 w6
      have e : s7 = s1 := congrArg Prod.fst (Option.some.inj h)
      rw [← e]
      exact within_nil _ _ _ _ w7
        (fun x hx => without_three _ _ _ _ _ _ x hx (by omega) (by omega) (by omega))
        (fun x hx => without_three _ _ _ _ _ _ x hx (by omega) (by omega) (by omega))
  · have e : s = s1 := congrArg Prod.fst (Option.some.inj h)
    rw [← e]; exact hw

theorem rcx_list_htmlock_remove_pass_within (cpu p_list : Nat) (val : Int) (i : Nat) {N : Nat}
    (s s1 : State) (o : Option Int)
    (h : rcx_list_htmlock_remove_pass cpu s p_list val = some (s1, o))
    (hw : locks_within s [] [] i N) : locks_within s1 [] [] i N := by
  unfold rcx_list_htmlock_remove_pass at h
  obtain ⟨⟨p_prev, p_next, v⟩, _, h⟩ := Option.bind_eq_some.mp h
  simp only at h
  split at h
  · obtain ⟨nx, _, h⟩ := Option.bind_eq_some.mp h
    obtain ⟨_, hwait, h⟩ := Option.bind_eq_some.mp h
    obtain ⟨⟨st, s2⟩, h2, h⟩ := Option.bind_eq_some.mp h
    simp only at h
    split at h
    · rename_i hst
      obtain ⟨p_n, hn, h⟩ := Option.bind_eq_some.mp h
      obtain ⟨⟨s3, valid⟩, h3, h⟩ := Option.bind_eq_some.mp h
      have w2 := (htmlock_tx_triple_within _ _ _ _ _ _ _ _ _ i h2 hn hw).1 hst
      have w3 := remove_validate_record_within _ _ _ _ _ _ _ _ _ i h3 w2
      simp only at h
      split at h
      · obtain ⟨s4, h4, h⟩ := Option.bind_eq_some.mp h
        obtain ⟨s5, h5, h⟩ := Option.bind_eq_some.mp h
        obtain ⟨s6, h6, h⟩ := Option.bind_eq_some.mp h
        have w4 := node_store_within_links _ _ _ _ _ _ i h4 w3 (fun _ => rfl) (fun _ => rfl)
        have w5 := node_store_within_links _ _ _ _ _ _ i h5 w4 (fun _ => rfl) (fun _ => rfl)
        have w6 := htmlock_clear_triple_within _ _ _ _ _ _ _ i h6
          (locks_within_nodes s5 (rcx_free_node s5 p_next) _ _ i w5 rfl)
        have e : s6 = s1 := congrArg Prod.fst (Option.some.inj h)
        rw [← e]
        exact within_nil _ _ _ _ w6
          (fun x hx => without_three _ _ _ _ _ _ x hx (by omega) (by omega) (by omega))
          (fun x hx => by simp at hx)
      · obtain ⟨s4, h4, h⟩ := Option.bind_eq_some.mp h
        have w4 := htmlock_clear_triple_within _ _ _ _ _ _ _ i h4 w3
        have e : _ = s1 := congrArg Prod.fst (Option.some.inj h)
        rw [← e]
        exact within_nil _ _ _ _ w4
          (fun x hx => without_three _ _ _ _ _ _ x hx (by omega) (by omega) (by omega))
          (fun x hx => by simp at hx)
    · rename_i hst
      obtain ⟨s3, h3, h⟩ := Option.bind_eq_some.mp h
      cases hn : nx.p_next with
      | none =>
        unfold htmlock_wait_triple at hwait
        rw [hn] at hwait
        exact absurd hwait (by simp)
      | some p_n =>
        have w2 := (htmlock_tx_triple_within _ _ _ _ _ _ _ _ _ i h2 hn hw).2 hst
        have e : _ = s1 := congrArg Prod.fst (Option.some.inj h)
        rw [← e]
        exact record_abort_within _ _ _ _ _ _ i h3 w2
  · have e : s = s1 := congrArg Prod.fst (Option.some.inj h)
    rw [← e]; exact hw

theorem rcx_list_hhtmlock_remove_pass_within (cpu p_list : Nat) (val : Int) (i : Nat) {N : Nat}
    (fuel : Nat) (nid : Nat → Nat) (s s1 : State) (o : Option Int)
    (hnid : ∀ k, nid k = i)
    (h : rcx_list_hhtmlock_remove_pass fuel cpu nid s p_list val = some (s1, o))
    (hw : locks_within s [] [] i N) : locks_within s1 [] [] i N := by
  unfold rcx_list_hhtmlock_remove_pass at h
  simp only [hnid] at h
  obtain ⟨⟨p_prev, p_next, v⟩, _, h⟩ := Option.bind_eq_some.mp h
  simp only at h
  split at h
  · obtain ⟨nx, _, h⟩ := Option.bind_eq_some.mp h
    obtain ⟨_, hwait, h⟩ := Option.bind_eq_some.mp h
    obtain ⟨⟨st, s2⟩, h2, h⟩ := Option.bind_eq_some.mp h
    simp only at h
    split at h
    · rename_i hst
      obtain ⟨p_n, hn, h⟩ := Option.bind_eq_some.mp h
      obtain ⟨s3, h3, h⟩ := Option.bind_eq_some.mp h
      obtain ⟨⟨s4, valid⟩, h4, h⟩ := Option.bind_eq_some.mp h
      have w2 := (pnodelock_tx_triple_within _ _ _ _ _ _ _ _ _ i h2 hn hw).1 hst
      have w3 := hhtmlock_global_triple_within cpu p_prev p_next p_n _ _ _ i hn _ _ _ h3 w2
      have w4 := remove_validate_record_within _ _ _ _ _ _ _ _ _ i h4 w3
      simp only at h
      split at h
      · obtain ⟨s5, h5, h⟩ := Option.bind_eq_some.mp h
        obtain ⟨s6, h6, h⟩ := Option.bind_eq_some.mp h
        obtain ⟨s7, h7, h⟩ := Option.bind_eq_some.mp h
        obtain ⟨s8, h8, h⟩ := Option.bind_eq_some.mp h
        have w5 := node_store_within_links _ _ _ _ _ _ i h5 w4 (fun _ => rfl) (fun _ => rfl)
        have w6 := node_store_within_links _ _ _ _ _ _ i h6 w5 (fun _ => rfl) (fun _ => rfl)
        have w7 := htmlock_clear_triple_within _ _ _ _ _ _ _ i h7
          (locks_within_nodes s6 (rcx_free_node s6 p_next) _ _ i w6 rfl)
        have w8 := pnodelock_clear_triple_within _ _ _ _ _ _ _ i h8 w7
        have e : s8 = s1 := congrArg Prod.fst (Option.some.inj h)
        rw [← e]
        exact within_nil _ _ _ _ w8
          (fun x hx => without_three _ _ _ _ _ _ x hx (by omega) (by omega) (by omega))
          (fun x hx => without_three _ _ _ _ _ _ x hx (by omega) (by omega) (by omega))
      · obtain ⟨s5, h5, h⟩ := Option.bind_eq_some.mp h
        obtain ⟨s6, h6, h⟩ := Option.bind_eq_some.mp h
        have w5 := htmlock_clear_triple_within _ _ _ _ _ _ _ i h5 w4
        have w6 := pnodelock_clear_triple_within _ _ _ _ _ _ _ i h6 w5
        have e : _ = s1 := congrArg Prod.fst (Option.some.inj h)
        rw [← e]
        exact within_nil _ _ _ _ w6
          (fun x hx => without_three _ _ _ _ _ _ x hx (by omega) (by omega) (by omega))
          (fun x hx => without_three _ _ _ _ _ _ x hx (by omega) (by omega) (by omega))
    · rename_i hst
      obtain ⟨s3, h3, h⟩ := Option.bind_eq_some.mp h
      cases hn : nx.p_next with
      | none =>
        unfold pnodelock_wait_triple at hwait
        rw [hn] at hwait
        exact absurd hwait (by simp)
      | some p_n =>
        have w2 := (pnodelock_tx_triple_within _ _ _ _ _ _ _ _ _ i h2 hn hw).2 hst
        have e : _ = s1 := congrArg Prod.fst (Option.some.inj h)
        rw [← e]
        exact record_abort_within _ _ _ _ _ _ i h3 w2
  · have e : s = s1 := congrArg Prod.fst (Option.some.inj h)
    rw [← e]; exact hw

theorem rcx_list_numa_remove_pass_within (cpu p_list : Nat) (val : Int) (i : Nat) {N : Nat}
    (nid : Nat → Nat) (s s1 : State) (o : Option Int)
    (hnid : ∀ k, nid k = i)
    (h : rcx_list_numa_remove_pass cpu nid s p_list val = some (s1, o))
    (hw : locks_within s [] [] i N) : locks_within s1 [] [] i N := by
  unfold rcx_list_numa_remove_pass at h
  simp only [hnid] at h
  obtain ⟨⟨p_prev, p_next, v⟩, _, h⟩ := Option.bind_eq_some.mp h
  simp only at h
  split at h
  · obtain ⟨nx, _, h⟩ := Option.bind_eq_some.mp h
    obtain ⟨_, hwait, h⟩ := Option.bind_eq_some.mp h
    obtain ⟨⟨st, s2⟩, h2, h⟩ := Option.bind_eq_some.mp h
    simp only at h
    split at h
    · rename_i hst
      obtain ⟨p_n, hn, h⟩ := Option.bind_eq_some.mp h
      obtain ⟨s3, h3, h⟩ := Option.bind_eq_some.mp h
      obtain ⟨⟨s4, valid⟩, h4, h⟩ := Option.bind_eq_some.mp h
      have w2 := (pnodelock_tx_triple_within _ _ _ _ _ _ _ _ _ i h2 hn hw).1 hst
      have w3 := global_lock_triple_within _ _ _ _ _ _ _ _ i h3 hn w2
      have w4 := remove_validate_record_within _ _ _ _ _ _ _ _ _ i h4 w3
      simp only at h
      split at h
      · obtain ⟨s5, h5, h⟩ := Option.bind_eq_some.mp h
        obtain ⟨s6, h6, h⟩ := Option.bind_eq_some.mp h
        obtain ⟨s7, h7, h⟩ := Option.bind_eq_some.mp h
        obtain ⟨s8, h8, h⟩ := Option.bind_eq_some.mp h
        have w5 := node_store_within_links _ _ _ _ _ _ i h5 w4 (fun _ => rfl) (fun _ => rfl)
        have w6 := node_store_within_links _ _ _ _ _ _ i h6 w5 (fun _ => rfl) (fun _ => rfl)
        have w7 := global_unlock_triple_within _ _ _ _ _ _ _ i h7
          (locks_within_nodes s6 (rcx_free_node s6 p_next) _ _ i w6 rfl)
        have w8 := pnodelock_clear_triple_within _ _ _ _ _ _ _ i h8 w7
        have e : s8 = s1 := congrArg Prod.fst (Option.some.inj h)
        rw [← e]
        exact within_nil _ _ _ _ w8
          (fun x hx => without_three _ _ _ _ _ _ x hx (by omega) (by omega) (by omega))
          (fun x hx => without_three _ _ _ _ _ _ x hx (by omega) (by omega) (by omega))
      · obtain ⟨s5, h5, h⟩ := Option.bind_eq_some.mp h
        obtain ⟨s6, h6, h⟩ := Option.bind_eq_some.mp h
        have w5 := global_unlock_triple_within _ _ _ _ _ _ _ i h5 w4
        have w6 := pnodelock_clear_triple_within _ _ _ _ _ _ _ i h6 w5
        have e : _ = s1 := congrArg Prod.fst (Option.some.inj h)
        rw [← e]
        exact within_nil _ _ _ _ w6
          (fun x hx => without_three _ _ _ _ _ _ x hx (by omega) (by omega) (by omega))
          (fun x hx => without_three _ _ _ _ _ _ x hx (by omega) (by omega) (by omega))
    · rename_i hst
      obtain ⟨s3, h3, h⟩ := Option.bind_eq_some.mp h
      cases hn : nx.p_next with
      | none =>
        unfold pnodelock_wait_triple at hwait
        rw [hn] at hwait
        exact absurd hwait (by simp)
      | some p_n =>
        have w2 := (pnodelock_tx_triple_within _ _ _ _ _ _ _ _ _ i h2 hn hw).2 hst
        have e : _ = s1 := congrArg Prod.fst (Option.some.inj h)
        rw [← e]
        exact record_abort_within _ _ _ _ _ _ i h3 w2
  · have e : s = s1 := congrArg Prod.fst (Option.some.inj h)
    rw [← e]; exact hw

/-! ## What every pass keeps, every call keeps -/

theorem passes_keep {Inv : State → Prop} {Q : (Nat → Nat) → Prop} (d : Nat)
    (f : Nat → (Nat → Nat) → State → Option (State × Int))
    (pass : Nat → (Nat → Nat) → State → Option (State × Option Int))
    (hQ : ∀ nid, Q nid → Q (fun k => nid (k + d)))
    (hz : ∀ nid s, f 0 nid s = none)
    (hlink : ∀ fuel nid s, f (fuel + 1) nid s =
      after_pass (fun s1 => f fuel (fun k => nid (k + d)) s1) (pass fuel nid s))
    (hpass : ∀ fuel nid s s1 o, Q nid → Inv s → pass fuel nid s = some (s1, o) → Inv s1) :
    ∀ fuel nid s s1 r, Q nid → Inv s → f fuel nid s = some (s1, r) → Inv s1 := by
  intro fuel
  induction fuel with
  | zero =>
    intro nid s s1 r _ _ h
    rw [hz] at h
    cases h
  | succ fuel ih =>
    intro nid s s1 r hq hi h
    rw [hlink] at h
    cases hp : pass fuel nid s with
    | none => rw [hp] at h; cases h
    | some q =>
      obtain ⟨s2, o⟩ := q
      have w := hpass fuel nid s s2 o hq hi hp
      rw [hp] at h
      cases o with
      | none => exact ih _ s2 s1 r (hQ nid hq) w h
      | some r2 =>
        have e : s2 = s1 := congrArg Prod.fst (Option.some.inj h)
        rw [← e]
        exact w

theorem rcu_list_fg_add_within (p_list : Nat) (val : Int) (i : Nat) {N : Nat}
    (fuel : Nat) (s s1 : State) (r : Int)
    (h : rcu_list_fg_add fuel s p_list val = some (s1, r))
    (hw : locks_within s [] [] i N) : locks_within s1 [] [] i N :=
  @passes_keep (fun s => locks_within s [] [] i N) (fun _ => True) 0
    (fun fuel _ s => rcu_list_fg_add fuel s p_list val)
    (fun _ _ s => rcu_list_fg_add_pass s p_list val)
    (fun _ _ => trivial) (fun _ _ => rfl)
    (fun fuel _ s => rcu_list_fg_add_by_pass fuel s p_list val)
    (fun _ _ s s1 o _ hi hp =>
      rcu_list_fg_add_pass_within p_list val i s s1 o hp hi)
    fuel (fun _ => 0) s s1 r trivial hw h

theorem rcu_list_fg_remove_within (p_list : Nat) (val : Int) (i : Nat) {N : Nat}
    (fuel : Nat) (s s1 : State) (r : Int)
    (h : rcu_list_fg_remove fuel s p_list val = some (s1, r))
    (hw : locks_within s [] [] i N) : locks_within s1 [] [] i N :=
  @passes_keep (fun s => locks_within s [] [] i N) (fun _ => True) 0
    (fun fuel _ s => rcu_list_fg_remove fuel s p_list val)
    (fun _ _ s => rcu_list_fg_remove_pass s p_list val)
    (fun _ _ => trivial) (fun _ _ => rfl)
    (fun fuel _ s => rcu_list_fg_remove_by_pass fuel s p_list val)
    (fun _ _ s s1 o _ hi hp =>
      rcu_list_fg_remove_pass_within p_list val i s s1 o hp hi)
    fuel (fun _ => 0) s s1 r trivial hw h

theorem rcu_list_numa_add_within (p_list : Nat) (val : Int) (i : Nat) {N : Nat}
    (fuel : Nat) (nid : Nat → Nat) (s s1 : State) (r : Int)
    (hnid : ∀ k, nid k = i)
    (h : rcu_list_numa_add fuel nid s p_list val = some (s1, r))
    (hw : locks_within s [] [] i N) : locks_within s1 [] [] i N :=
  @passes_keep (fun s => locks_within s [] [] i N) (fun nid => ∀ k, nid k = i) 4
    (fun fuel nid s => rcu_list_numa_add fuel nid s p_list val)
    (fun _ nid s => rcu_list_numa_add_pass nid s p_list val)
    (fun _ hq k => hq (k + 4)) (fun _ _ => rfl)
    (fun fuel nid s => rcu_list_numa_add_by_pass fuel nid s p_list val)
    (fun _ nid s s1 o hq hi hp =>
      rcu_list_numa_add_pass_within p_list val i nid s s1 o hq hp hi)
    fuel nid s s1 r hnid hw h

theorem rcu_list_numa_remove_within (p_list : Nat) (val : Int) (i : Nat) {N : Nat}
    (fuel : Nat) (nid : Nat → Nat) (s s1 : State) (r : Int)
    (hnid : ∀ k, nid k = i)
    (h : rcu_list_numa_remove fuel nid s p_list val = some (s1, r))
    (hw : locks_within s [] [] i N) : locks_within s1 [] [] i N :=
  @passes_keep (fun s => locks_within s [] [] i N) (fun nid => ∀ k, nid k = i) 6
    (fun fuel nid s => rcu_list_numa_remove fuel nid s p_list val)
    (fun _ nid s => rcu_list_numa_remove_pass nid s p_list val)
    (fun _ hq k => hq (k + 6)) (fun _ _ => rfl)
    (fun fuel nid s => rcu_list_numa_remove_by_pass fuel nid s p_list val)
    (fun _ nid s s1 o hq hi hp =>
      rcu_list_numa_remove_pass_within p_list val i nid s s1 o hq hp hi)
    fuel nid s s1 r hnid hw h

theorem rcx_list_htmlock_add_within (cpu p_list : Nat) (val : Int) (i : Nat) {N : Nat}
    (fuel : Nat) (s s1 : State) (r : Int)
    (h : rcx_list_htmlock_add fuel cpu s p_list val = some (s1, r))
    (hw : locks_within s [] [] i N) : locks_within s1 [] [] i N :=
  @passes_keep (fun s => locks_within s [] [] i N) (fun _ => True) 0
    (fun fuel _ s => rcx_list_htmlock_add fuel cpu s p_list val)
    (fun _ _ s => rcx_list_htmlock_add_pass cpu s p_list val)
    (fun _ _ => trivial) (fun _ _ => rfl)
    (fun fuel _ s => rcx_list_htmlock_add_by_pass fuel cpu s p_list val)
    (fun _ _ s s1 o _ hi hp =>
      rcx_list_htmlock_add_pass_within cpu p_list val i s s1 o hp hi)
    fuel (fun _ => 0) s s1 r trivial hw h

theorem rcx_list_htmlock_remove_within (cpu p_list : Nat) (val : Int) (i : Nat) {N : Nat}
    (fuel : Nat) (s s1 : State) (r : Int)
    (h : rcx_list_htmlock_remove fuel cpu s p_list val = some (s1, r))
    (hw : locks_within s [] [] i N) : locks_within s1 [] [] i N :=
  @passes_keep (fun s => locks_within s [] [] i N) (fun _ => True) 0
    (fun fuel _ s => rcx_list_htmlock_remove fuel cpu s p_list val)
    (fun _ _ s => rcx_list_htmlock_remove_pass cpu s p_list val)
    (fun _ _ => trivial) (fun _ _ => rfl)
    (fun fuel _ s => rcx_list_htmlock_remove_by_pass fuel cpu s p_list val)
    (fun _ _ s s1 o _ hi hp =>
      rcx_list_htmlock_remove_pass_within cpu p_list val i s s1 o hp hi)
    fuel (fun _ => 0) s s1 r trivial hw h

theorem rcx_list_hhtmlock_add_within (cpu p_list : Nat) (val : Int) (i : Nat) {N : Nat}
    (fuel : Nat) (nid : Nat → Nat) (s s1 : State) (r : Int)
    (hnid : ∀ k, nid k = i)
    (h : rcx_list_hhtmlock_add fuel cpu nid s p_list val = some (s1, r))
    (hw : locks_within s [] [] i N) : locks_within s1 [] [] i N :=
  @passes_keep (fun s => locks_within s [] [] i N) (fun nid => ∀ k, nid k = i) 8
    (fun fuel nid s => rcx_list_hhtmlock_add fuel cpu nid s p_list val)
    (fun fuel nid s => rcx_list_hhtmlock_add_pass fuel cpu nid s p_list val)
    (fun _ hq k => hq (k + 8)) (fun _ _ => rfl)
    (fun fuel nid s => rcx_list_hhtmlock_add_by_pass fuel cpu nid s p_list val)
    (fun fuel nid s s1 o hq hi hp =>
      rcx_list_hhtmlock_add_pass_within cpu p_list val i fuel nid s s1 o hq hp hi)
    fuel nid s s1 r hnid hw h

theorem rcx_list_hhtmlock_remove_within (cpu p_list : Nat) (val : Int) (i : Nat) {N : Nat}
    (fuel : Nat) (nid : Nat → Nat) (s s1 : State) (r : Int)
    (hnid : ∀ k, nid k = i)
    (h : rcx_list_hhtmlock_remove fuel cpu nid s p_list val = some (s1, r))
    (hw : locks_within s [] [] i N) : locks_within s1 [] [] i N :=
  @passes_keep (fun s => locks_within s [] [] i N) (fun nid => ∀ k, nid k = i) 12
    (fun fuel nid s => rcx_list_hhtmlock_remove fuel cpu nid s p_list val)
    (fun fuel nid s => rcx_list_hhtmlock_remove_pass fuel cpu nid s p_list val)
    (fun _ hq k => hq (k + 12)) (fun _ _ => rfl)
    (fun fuel nid s => rcx_list_hhtmlock_remove_by_pass fuel cpu nid s p_list val)
    (fun fuel nid s s1 o hq hi hp =>
      rcx_list_hhtmlock_remove_pass_within cpu p_list val i fuel nid s s1 o hq hp hi)
    fuel nid s s1 r hnid hw h

theorem rcx_list_numa_add_within (cpu p_list : Nat) (val : Int) (i : Nat) {N : Nat}
    (fuel : Nat) (nid : Nat → Nat) (s s1 : State) (r : Int)
    (hnid : ∀ k, nid k = i)
    (h : rcx_list_numa_add fuel cpu nid s p_list val = some (s1, r))
    (hw : locks_within s [] [] i N) : locks_within s1 [] [] i N :=
  @passes_keep (fun s => locks_within s [] [] i N) (fun nid => ∀ k, nid k = i) 8
    (fun fuel nid s => rcx_list_numa_add fuel cpu nid s p_list val)
    (fun _ nid s => rcx_list_numa_add_pass cpu nid s p_list val)
    (fun _ hq k => hq (k + 8)) (fun _ _ => rfl)
    (fun fuel nid s => rcx_list_numa_add_by_pass fuel cpu nid s p_list val)
    (fun _ nid s s1 o hq hi hp =>
      rcx_list_numa_add_pass_within cpu p_list val i nid s s1 o hq hp hi)
    fuel nid s s1 r hnid hw h

theorem rcx_list_numa_remove_within (cpu p_list : Nat) (val : Int) (i : Nat) {N : Nat}
    (fuel : Nat) (nid : Nat → Nat) (s s1 : State) (r : Int)
    (hnid : ∀ k, nid k = i)
    (h : rcx_list_numa_remove fuel cpu nid s p_list val = some (s1, r))
    (hw : locks_within s [] [] i N) : locks_within s1 [] [] i N :=
  @passes_keep (fun s => locks_within s [] [] i N) (fun nid => ∀ k, nid k = i) 12
    (fun fuel nid s => rcx_list_numa_remove fuel cpu nid s p_list val)
    (fun _ nid s => rcx_list_numa_remove_pass cpu nid s p_list val)
    (fun _ hq k => hq (k + 12)) (fun _ _ => rfl)
    (fun fuel nid s => rcx_list_numa_remove_by_pass fuel cpu nid s p_list val)
    (fun _ nid s s1 o hq hi hp =>
      rcx_list_numa_remove_pass_within cpu p_list val i nid s s1 o hq hp hi)
    fuel nid s s1 r hnid hw h

/-! ## C30: lock neutrality -/

/-- C30: a call from a memory `s` in which every lock word of every node is
unheld / 0 (the global spinlock or HTM flag and every per-NUMA spinlock or
flag), by a thread that stays on the NUMA node `i`.  What is kept is
`locks_free _ i s.nodes.length`: the global word of no node is held, slot `i`
of no node is held, and no per-NUMA word at all of a node that existed at the
call; the slots other than `i` of a node allocated during the call are words no
thread on `i` reads or writes.  It holds of `s`.  Every pass of the ten
functions keeps it, from every memory in which it holds and whatever the pass
ends with: `return result`, or `goto retry` after a failed validation or an
aborted transaction, with the locks released and the flags cleared on that path.
Each function is its passes repeated, each from the memory the pass before
left, so every call that returns, after any number of restarts, keeps it. -/
theorem lock_neutrality (cpu : Nat) (numa_node_id : Nat → Nat) (i : Nat) (s : State)
    (p_list : Nat) (val : Int) (hs : locks_unheld s) (hnuma : ∀ k, numa_node_id k = i) :
    locks_free s i s.nodes.length ∧
    (∀ (fuel : Nat) (s0 s1 : State) (o : Option Int), locks_free s0 i s.nodes.length →
      (rcu_list_fg_add_pass s0 p_list val = some (s1, o) →
        locks_free s1 i s.nodes.length) ∧
      (rcu_list_fg_remove_pass s0 p_list val = some (s1, o) →
        locks_free s1 i s.nodes.length) ∧
      (rcu_list_numa_add_pass numa_node_id s0 p_list val = some (s1, o) →
        locks_free s1 i s.nodes.length) ∧
      (rcu_list_numa_remove_pass numa_node_id s0 p_list val = some (s1, o) →
        locks_free s1 i s.nodes.length) ∧
      (rcx_list_htmlock_add_pass cpu s0 p_list val = some (s1, o) →
        locks_free s1 i s.nodes.length) ∧
      (rcx_list_htmlock_remove_pass cpu s0 p_list val = some (s1, o) →
        locks_free s1 i s.nodes.length) ∧
      (rcx_list_hhtmlock_add_pass fuel cpu numa_node_id s0 p_list val = some (s1, o) →
        locks_free s1 i s.nodes.length) ∧
      (rcx_list_hhtmlock_remove_pass fuel cpu numa_node_id s0 p_list val = some (s1, o) →
        locks_free s1 i s.nodes.length) ∧
      (rcx_list_numa_add_pass cpu numa_node_id s0 p_list val = some (s1, o) →
        locks_free s1 i s.nodes.length) ∧
      (rcx_list_numa_remove_pass cpu numa_node_id s0 p_list val = some (s1, o) →
        locks_free s1 i s.nodes.length)) ∧
    (∀ (fuel : Nat) (s1 : State) (r : Int),
      (rcu_list_fg_add fuel s p_list val = some (s1, r) →
        locks_free s1 i s.nodes.length) ∧
      (rcu_list_fg_remove fuel s p_list val = some (s1, r) →
        locks_free s1 i s.nodes.length) ∧
      (rcu_list_numa_add fuel numa_node_id s p_list val = some (s1, r) →
        locks_free s1 i s.nodes.length) ∧
      (rcu_list_numa_remove fuel numa_node_id s p_list val = some (s1, r) →
        locks_free s1 i s.nodes.length) ∧
      (rcx_list_htmlock_add fuel cpu s p_list val = some (s1, r) →
        locks_free s1 i s.nodes.length) ∧
      (rcx_list_htmlock_remove fuel cpu s p_list val = some (s1, r) →
        locks_free s1 i s.nodes.length) ∧
      (rcx_list_hhtmlock_add fuel cpu numa_node_id s p_list val = some (s1, r) →
        locks_free s1 i s.nodes.length) ∧
      (rcx_list_hhtmlock_remove fuel cpu numa_node_id s p_list val = some (s1, r) →
        locks_free s1 i s.nodes.length) ∧
      (rcx_list_numa_add fuel cpu numa_node_id s p_list val = some (s1, r) →
        locks_free s1 i s.nodes.length) ∧
      (rcx_list_numa_remove fuel cpu numa_node_id s p_list val = some (s1, r) →
        locks_free s1 i s.nodes.length)) ∧
    (∀ (fuel : Nat) (nid : Nat → Nat) (s0 : State),
      rcu_list_fg_add (fuel + 1) s0 p_list val =
        after_pass (fun s1 => rcu_list_fg_add fuel s1 p_list val)
          (rcu_list_fg_add_pass s0 p_list val) ∧
      rcu_list_fg_remove (fuel + 1) s0 p_list val =
        after_pass (fun s1 => rcu_list_fg_remove fuel s1 p_list val)
          (rcu_list_fg_remove_pass s0 p_list val) ∧
      rcu_list_numa_add (fuel + 1) nid s0 p_list val =
        after_pass (fun s1 => rcu_list_numa_add fuel (fun k => nid (k + 4)) s1 p_list val)
          (rcu_list_numa_add_pass nid s0 p_list val) ∧
      rcu_list_numa_remove (fuel + 1) nid s0 p_list val =
        after_pass (fun s1 => rcu_list_numa_remove fuel (fun k => nid (k + 6)) s1 p_list val)
          (rcu_list_numa_remove_pass nid s0 p_list val) ∧
      rcx_list_htmlock_add (fuel + 1) cpu s0 p_list val =
        after_pass (fun s1 => rcx_list_htmlock_add fuel cpu s1 p_list val)
          (rcx_list_htmlock_add_pass cpu s0 p_list val) ∧
      rcx_list_htmlock_remove (fuel + 1) cpu s0 p_list val =
        after_pass (fun s1 => rcx_list_htmlock_remove fuel cpu s1 p_list val)
          (rcx_list_htmlock_remove_pass cpu s0 p_list val) ∧
      rcx_list_hhtmlock_add (fuel + 1) cpu nid s0 p_list val =
        after_pass (fun s1 => rcx_list_hhtmlock_add fuel cpu (fun k => nid (k + 8)) s1 p_list val)
          (rcx_list_hhtmlock_add_pass fuel cpu nid s0 p_list val) ∧
      rcx_list_hhtmlock_remove (fuel + 1) cpu nid s0 p_list val =
        after_pass
          (fun s1 => rcx_list_hhtmlock_remove fuel cpu (fun k => nid (k + 12)) s1 p_list val)
          (rcx_list_hhtmlock_remove_pass fuel cpu nid s0 p_list val) ∧
      rcx_list_numa_add (fuel + 1) cpu nid s0 p_list val =
        after_pass (fun s1 => rcx_list_numa_add fuel cpu (fun k => nid (k + 8)) s1 p_list val)
          (rcx_list_numa_add_pass cpu nid s0 p_list val) ∧
      rcx_list_numa_remove (fuel + 1) cpu nid s0 p_list val =
        after_pass (fun s1 => rcx_list_numa_remove fuel cpu (fun k => nid (k + 12)) s1 p_list val)
          (rcx_list_numa_remove_pass cpu nid s0 p_list val)) := by
  have hf0 := (locks_unheld_free s i).mp hs
  have hw := (locks_free_iff s i _).mp hf0
  refine ⟨hf0, fun fuel s0 s1 o hf => ⟨?_, ?_, ?_, ?_, ?_, ?_, ?_, ?_, ?_, ?_⟩,
    fun fuel s1 r => ⟨?_, ?_, ?_, ?_, ?_, ?_, ?_, ?_, ?_, ?_⟩,
    fun fuel nid s0 => ⟨?_, ?_, ?_, ?_, ?_, ?_, ?_, ?_, ?_, ?_⟩⟩
  · exact fun h => (locks_free_iff s1 i _).mpr
      (rcu_list_fg_add_pass_within p_list val i s0 s1 o h
        ((locks_free_iff s0 i _).mp hf))
  · exact fun h => (locks_free_iff s1 i _).mpr
      (rcu_list_fg_remove_pass_within p_list val i s0 s1 o h
        ((locks_free_iff s0 i _).mp hf))
  · exact fun h => (locks_free_iff s1 i _).mpr
      (rcu_list_numa_add_pass_within p_list val i numa_node_id s0 s1 o hnuma h
        ((locks_free_iff s0 i _).mp hf))
  · exact fun h => (locks_free_iff s1 i _).mpr
      (rcu_list_numa_remove_pass_within p_list val i numa_node_id s0 s1 o hnuma h
        ((locks_free_iff s0 i _).mp hf))
  · exact fun h => (locks_free_iff s1 i _).mpr
      (rcx_list_htmlock_add_pass_within cpu p_list val i s0 s1 o h
        ((locks_free_iff s0 i _).mp hf))
  · exact fun h => (locks_free_iff s1 i _).mpr
      (rcx_list_htmlock_remove_pass_within cpu p_list val i s0 s1 o h
        ((locks_free_iff s0 i _).mp hf))
  · exact fun h => (locks_free_iff s1 i _).mpr
      (rcx_list_hhtmlock_add_pass_within cpu p_list val i fuel numa_node_id s0 s1 o hnuma h
        ((locks_free_iff s0 i _).mp hf))
  · exact fun h => (locks_free_iff s1 i _).mpr
      (rcx_list_hhtmlock_remove_pass_within cpu p_list val i fuel numa_node_id s0 s1 o hnuma h
        ((locks_free_iff s0 i _).mp hf))
  · exact fun h => (locks_free_iff s1 i _).mpr
      (rcx_list_numa_add_pass_within cpu p_list val i numa_node_id s0 s1 o hnuma h
        ((locks_free_iff s0 i _).mp hf))
  · exact fun h => (locks_free_iff s1 i _).mpr
      (rcx_list_numa_remove_pass_within cpu p_list val i numa_node_id s0 s1 o hnuma h
        ((locks_free_iff s0 i _).mp hf))
  · exact fun h => (locks_free_iff s1 i _).mpr
      (rcu_list_fg_add_within p_list val i fuel s s1 r h hw)
  · exact fun h => (locks_free_iff s1 i _).mpr
      (rcu_list_fg_remove_within p_list val i fuel s s1 r h hw)
  · exact fun h => (locks_free_iff s1 i _).mpr
      (rcu_list_numa_add_within p_list val i fuel numa_node_id s s1 r hnuma h hw)
  · exact fun h => (locks_free_iff s1 i _).mpr
      (rcu_list_numa_remove_within p_list val i fuel numa_node_id s s1 r hnuma h hw)
  · exact fun h => (locks_free_iff s1 i _).mpr
      (rcx_list_htmlock_add_within cpu p_list val i fuel s s1 r h hw)
  · exact fun h => (locks_free_iff s1 i _).mpr
      (rcx_list_htmlock_remove_within cpu p_list val i fuel s s1 r h hw)
  · exact fun h => (locks_free_iff s1 i _).mpr
      (rcx_list_hhtmlock_add_within cpu p_list val i fuel numa_node_id s s1 r hnuma h hw)
  · exact fun h => (locks_free_iff s1 i _).mpr
      (rcx_list_hhtmlock_remove_within cpu p_list val i fuel numa_node_id s s1 r hnuma h hw)
  · exact fun h => (locks_free_iff s1 i _).mpr
      (rcx_list_numa_add_within cpu p_list val i fuel numa_node_id s s1 r hnuma h hw)
  · exact fun h => (locks_free_iff s1 i _).mpr
      (rcx_list_numa_remove_within cpu p_list val i fuel numa_node_id s s1 r hnuma h hw)
  · exact rcu_list_fg_add_by_pass fuel s0 p_list val
  · exact rcu_list_fg_remove_by_pass fuel s0 p_list val
  · exact rcu_list_numa_add_by_pass fuel nid s0 p_list val
  · exact rcu_list_numa_remove_by_pass fuel nid s0 p_list val
  · exact rcx_list_htmlock_add_by_pass fuel cpu s0 p_list val
  · exact rcx_list_htmlock_remove_by_pass fuel cpu s0 p_list val
  · exact rcx_list_hhtmlock_add_by_pass fuel cpu nid s0 p_list val
  · exact rcx_list_hhtmlock_remove_by_pass fuel cpu nid s0 p_list val
  · exact rcx_list_numa_add_by_pass fuel cpu nid s0 p_list val
  · exact rcx_list_numa_remove_by_pass fuel cpu nid s0 p_list val

theorem lock_neutrality_witness :
    locks_unheld mem_3_7_marked ∧
    (rcu_list_numa_add_pass (fun _ => 1) mem_3_7_marked 0 5).map (fun q => q.2) = some none ∧
    (∀ s1 o, rcu_list_numa_add_pass (fun _ => 1) mem_3_7_marked 0 5 = some (s1, o) →
      locks_free s1 1 mem_3_7_marked.nodes.length) ∧
    (rcx_list_htmlock_add_pass 0 mem_3_7_marked 0 5).map (fun q => q.2) = some none ∧
    (∀ s1 o, rcx_list_htmlock_add_pass 0 mem_3_7_marked 0 5 = some (s1, o) →
      locks_free s1 1 mem_3_7_marked.nodes.length) ∧
    (rcu_list_fg_remove_pass mem_3_7_marked 0 7).map (fun q => q.2) = some none ∧
    (∀ s1 o, rcu_list_fg_remove_pass mem_3_7_marked 0 7 = some (s1, o) →
      locks_free s1 1 mem_3_7_marked.nodes.length) ∧
    (rcx_list_hhtmlock_remove_pass 2 0 (fun _ => 1)
      { mem_3_7 with xbegin := [XABORT_CONFLICT] } 0 3).map (fun q => q.2) = some none ∧
    (∀ s1 o, rcx_list_hhtmlock_remove_pass 2 0 (fun _ => 1)
        { mem_3_7 with xbegin := [XABORT_CONFLICT] } 0 3 = some (s1, o) →
      locks_free s1 1 mem_3_7.nodes.length) ∧
    (rcx_list_hhtmlock_remove 3 0 (fun _ => 1)
      { mem_3_7 with xbegin := [XABORT_CONFLICT] } 0 3).map (fun q => q.2) = some 1 ∧
    (∀ s1 r, rcx_list_hhtmlock_remove 3 0 (fun _ => 1)
        { mem_3_7 with xbegin := [XABORT_CONFLICT] } 0 3 = some (s1, r) →
      locks_free s1 1 mem_3_7.nodes.length) :=
  ⟨by decide, by decide,
    fun s1 o =>
      ((lock_neutrality 0 (fun _ => 1) 1 mem_3_7_marked 0 5 (by decide) (fun _ => rfl)).2.1
        0 mem_3_7_marked s1 o
        (lock_neutrality 0 (fun _ => 1) 1 mem_3_7_marked 0 5 (by decide)
          (fun _ => rfl)).1).2.2.1,
    by decide,
    fun s1 o =>
      ((lock_neutrality 0 (fun _ => 1) 1 mem_3_7_marked 0 5 (by decide) (fun _ => rfl)).2.1
        0 mem_3_7_marked s1 o
        (lock_neutrality 0 (fun _ => 1) 1 mem_3_7_marked 0 5 (by decide)
          (fun _ => rfl)).1).2.2.2.2.1,
    by decide,
    fun s1 o =>
      ((lock_neutrality 0 (fun _ => 1) 1 mem_3_7_marked 0 7 (by decide) (fun _ => rfl)).2.1
        0 mem_3_7_marked s1 o
        (lock_neutrality 0 (fun _ => 1) 1 mem_3_7_marked 0 7 (by decide)
          (fun _ => rfl)).1).2.1,
    by decide,
    fun s1 o =>
      ((lock_neutrality 0 (fun _ => 1) 1 { mem_3_7 with xbegin := [XABORT_CONFLICT] } 0 3
          (by decide) (fun _ => rfl)).2.1
        2 { mem_3_7 with xbegin := [XABORT_CONFLICT] } s1 o
        (lock_neutrality 0 (fun _ => 1) 1 { mem_3_7 with xbegin := [XABORT_CONFLICT] } 0 3
          (by decide) (fun _ => rfl)).1).2.2.2.2.2.2.2.1,
    by decide,
    fun s1 r =>
      ((lock_neutrality 0 (fun _ => 1) 1 { mem_3_7 with xbegin := [XABORT_CONFLICT] } 0 3
          (by decide) (fun _ => rfl)).2.2.1 3 s1 r).2.2.2.2.2.2.2.1⟩

/-! ## The slot that is released and the slot that was taken -/

